import Mathlib

/-!
# KubeDevice group allocator: a shallow embedding

The development embeds `device-scheduler/grpalloc/grpallocate.go` (the
hierarchical group allocator, the per-container and per-pod drivers and the
usage accounting) and `device-scheduler/device/devicescheduler.go` (the
aggregator of the device schedulers).

Conventions of the embedding:

* a Go `map[string]V` is an association list `GoMap V`; `range` visits the
  entries in list order, `m[k]` is `GoMap.get?` / `GoMap.getD`, `m[k] = v`
  is `GoMap.set`;
* `int64` quantities are `Int`; the one operation of the allocator on them,
  the negation `-podUsed` of the release, wraps as `int64` does (`negInt64`);
  the other operations are those of the scorers;
* `float64` scores are rationals (`ℚ`): in the functions of the search the
  sums, the division by the number of keys and the `>=` comparison are exact;
  `roundF64` rounds a rational as `float64` does, and `findScoreAndUpdateF64`
  is `findScoreAndUpdate` with this rounding;
* `findSubGroups` compiles the base of a group as a part of a regular
  expression: `matchSubGroup` is the pattern of a base that matches itself,
  `goRegexp` is the pattern that package `regexp` compiles; the functions of
  the search are written with `matchSubGroup`, their copies `...Re` take the
  compiled pattern, and the two agree on names without operator
  (`containerFitsRe_plain`, `podFitsRe_plain`);
* mutation of a `*GrpAllocator` is explicit state passing; the one map that
  is shared by reference between all clones and subgroups (`UsedGroups`) is
  threaded through every call;
* a Go panic (call of a nil scorer, `panic("Invalid prefix")`, a pattern that
  `regexp.MustCompile` does not parse) and the exhaustion of the recursion
  fuel are the `Fault` results of `Except`.
-/

namespace KubeDevice

/-! ## Go maps -/

/-- A Go `map[string]V`, as an association list. -/
abbrev GoMap (V : Type) := List (String × V)

namespace GoMap

/-- The comma-ok lookup `v, ok := m[k]`. -/
def get? {V : Type} : GoMap V → String → Option V
  | [], _ => none
  | (k', v) :: t, k => if k' = k then some v else get? t k

/-- The plain lookup `m[k]`, with the zero value `d` for a missing key. -/
def getD {V : Type} (m : GoMap V) (k : String) (d : V) : V :=
  (m.get? k).getD d

/-- The assignment `m[k] = v`. -/
def set {V : Type} : GoMap V → String → V → GoMap V
  | [], k, v => [(k, v)]
  | (k', v') :: t, k, v => if k' = k then (k', v) :: t else (k', v') :: set t k v

/-- The keys of a map, in iteration order. -/
def keys {V : Type} (m : GoMap V) : List String := m.map Prod.fst

/-- The values of a map, in iteration order. -/
def vals {V : Type} (m : GoMap V) : List V := m.map Prod.snd

/-- Whether `k` is a key of `m`. -/
def contains {V : Type} (m : GoMap V) (k : String) : Bool := (m.get? k).isSome

end GoMap

/-- Lexicographic comparison of two character sequences, character code by
character code. -/
def ltChars : List Char → List Char → Bool
  | _, [] => false
  | [], _ :: _ => true
  | a :: s, b :: t =>
    if a.toNat < b.toNat then true else if a = b then ltChars s t else false

/-- The string order of `sort.Strings`. -/
def keyLt (a b : String) : Bool := ltChars a.data b.data

/-- Insertion of a key into an ascending list of keys. -/
def insertKey (k : String) : List String → List String
  | [] => [k]
  | h :: t =>
    if keyLt k h then k :: h :: t else if k = h then h :: t else h :: insertKey k t

/-- The function `utils.SortedStringKeys`: the keys of a map in ascending order. -/
def SortedStringKeys {V : Type} (m : GoMap V) : List String :=
  (GoMap.keys m).foldr insertKey []

/-- The function `utils.AssignMap` with two keys: `x[k1][k2] = val`, the
inner map being created when missing. -/
def AssignMap2 (x : GoMap (GoMap String)) (k1 k2 : String) (val : String) :
    GoMap (GoMap String) :=
  x.set k1 ((x.getD k1 []).set k2 val)

/-- The function `utils.AssignMap` with three keys: `x[k1][k2][k3] = val`, the
inner maps being created when missing. -/
def AssignMap3 (x : GoMap (GoMap (GoMap String))) (k1 k2 k3 : String) (val : String) :
    GoMap (GoMap (GoMap String)) :=
  x.set k1 (AssignMap2 (x.getD k1 []) k2 k3 val)

/-! ## The path grammar (regular expressions of the source) -/

/-- The class `\S` of the regular expressions: any character but
tab, newline, form feed, carriage return and space. -/
def isNonSpace (c : Char) : Bool :=
  !(c = '\t' || c = '\n' || c = Char.ofNat 12 || c = '\r' || c = ' ')

/-- Splits a list of characters at its first `/`: what precedes it and what follows it. -/
def splitFirstSlash : List Char → Option (List Char × List Char)
  | [] => none
  | c :: t =>
    if c = '/' then some ([], t)
    else match splitFirstSlash t with
      | some (a, b) => some (c :: a, b)
      | none => none

/-- Splits a list of characters at its last `/`. -/
def splitLastSlash : List Char → Option (List Char × List Char)
  | [] => none
  | c :: t =>
    match splitLastSlash t with
    | some (a, b) => some (c :: a, b)
    | none => if c = '/' then some ([], t) else none

/-- Strips the literal `p` from the front of `s`. -/
def stripLit : List Char → List Char → Option (List Char)
  | [], s => some s
  | _ :: _, [] => none
  | a :: p, b :: s => if a = b then stripLit p s else none

/-- A match of `base/(\S*?)/(\S*?)/(\S*)` that starts at the head of `s`: after
the literal `base` and a `/`, the two lazy groups end at the first and at the
second `/` of the run of non-space characters, the greedy group takes the rest
of the run. -/
def matchSubGroupHere (base s : List Char) : Option (String × String × String) :=
  match stripLit base s with
  | some ('/' :: rest) =>
    match splitFirstSlash (rest.takeWhile isNonSpace) with
    | some (g1, rest1) =>
      match splitFirstSlash rest1 with
      | some (g2, g3) => some (String.mk g1, String.mk g2, String.mk g3)
      | none => none
    | none => none
  | _ => none

/-- The leftmost match of `base/(\S*?)/(\S*?)/(\S*)` in `s` (the call
`re.FindStringSubmatch` of `findSubGroups`), with its three groups. The base
is a path of names without pattern metacharacters, it matches itself. -/
def matchSubGroupFrom (base : List Char) : List Char → Option (String × String × String)
  | [] => matchSubGroupHere base []
  | c :: t =>
    match matchSubGroupHere base (c :: t) with
    | some r => some r
    | none => matchSubGroupFrom base t

/-- The groups of `regexp.MustCompile(baseGroup + "/(\S*?)/(\S*?)/(\S*)")` on `s`,
for a base that holds no operator of the regular expressions and matches
itself (`goRegexp_plain`); `goRegexp` is the pattern of any base. -/
def matchSubGroup (baseGroup s : String) : Option (String × String × String) :=
  matchSubGroupFrom baseGroup.data s.data

/-- A match of `(\S*)/(\S*)` that starts at the head of `s`: the greedy first
group ends at the last `/` of the run of non-space characters. -/
def matchPrefixHere (s : List Char) : Option (String × String) :=
  match splitLastSlash (s.takeWhile isNonSpace) with
  | some (a, b) => some (String.mk a, String.mk b)
  | none => none

/-- The leftmost match of `(\S*)/(\S*)` in `s`, with its two groups. -/
def matchPrefixFrom : List Char → Option (String × String)
  | [] => none
  | c :: t =>
    match matchPrefixHere (c :: t) with
    | some r => some r
    | none => matchPrefixFrom t

/-- The groups of `regexp.MustCompile("(\S*)/(\S*)")` on `DeviceGroupPrefix`. -/
def matchPrefix (s : String) : Option (String × String) :=
  matchPrefixFrom s.data

/-! ## Scorers and failure reasons -/

/-- The record built by `resource.NewInsufficientResourceError`. -/
structure PredicateFailureReason where
  ResourceName : String
  Requested : Int
  Used : Int
  Capacity : Int
deriving DecidableEq, Repr

/-- The constructor `resource.NewInsufficientResourceError`. -/
def NewInsufficientResourceError (name : String) (requested used capacity : Int) :
    PredicateFailureReason :=
  ⟨name, requested, used, capacity⟩

/-- What a scorer returns: `(found, score, usedByContainer, newUsedByPod, newUsedByNode)`. -/
structure ScoreResult where
  found : Bool
  score : ℚ
  totalRequest : Int
  podR : Int
  nodeR : Int

/-- The type `scorer.ResourceScoreFunc`:
`(allocatable, usedByPod, usedByNode, requested, initContainer) ↦ result`. -/
abbrev ResourceScoreFunc := Int → Int → Int → List Int → Bool → ScoreResult

/-- The results of the embedded code that are not values: a Go panic (the call
of a nil scorer, `panic("Invalid prefix")`, the panic of `regexp.MustCompile` on
a pattern that does not parse), the exhaustion of the recursion fuel of the
embedding, or a pattern with an operator that the embedding of package `regexp`
does not cover, for which the embedding says nothing of the program. -/
inductive Fault where
  | outOfFuel
  | nilScorer
  | invalidPrefix
  | invalidPattern
  | unsupportedPattern
deriving DecidableEq, Repr

/-- What the surrounding packages provide to the allocator: the constant
`types.DeviceGroupPrefix`, the test `resource.PrecheckedResource` and the
scorer registry `scorer.SetScorer`. -/
structure Env where
  DeviceGroupPrefix : String
  PrecheckedResource : String → Bool
  SetScorer : String → Int → ResourceScoreFunc

/-! ## The data model -/

/-- The fields of `types.ContainerInfo` that the allocator reads and writes.
`AllocateFrom` is `none` for a nil map. -/
structure ContainerInfo where
  DevRequests : GoMap Int
  AllocateFrom : Option (GoMap String)
  Scorer : GoMap Int

/-- The fields of `types.PodInfo` that the allocator reads and writes. -/
structure PodInfo where
  RunningContainers : GoMap ContainerInfo
  InitContainers : GoMap ContainerInfo

/-- The fields of `types.NodeInfo` that the allocator reads and writes. -/
structure NodeInfo where
  Allocatable : GoMap Int
  Used : GoMap Int
  Scorer : GoMap Int

/-- The type `GrpAllocator`. A nil scorer of `ReqScorer` is `none`. -/
structure GrpAllocator where
  ContName : String
  InitContainer : Bool
  PreferUsed : Bool
  RequiredResource : GoMap Int
  ReqScorer : GoMap (Option ResourceScoreFunc)
  AllocResource : GoMap Int
  AllocScorer : GoMap ResourceScoreFunc
  UsedGroups : GoMap Bool
  GrpRequiredResource : GoMap String
  IsReqSubGrp : GoMap Bool
  GrpAllocResource : GoMap (GoMap String)
  IsAllocSubGrp : GoMap Bool
  ReqBaseGroupName : String
  AllocBaseGroupPrefix : String
  Score : ℚ
  PodResource : GoMap Int
  NodeResource : GoMap Int
  AllocateFrom : GoMap String

/-- The result of the allocator's methods: the receiver after the call, the
`found` flag and the failure reasons. -/
abbrev AllocResult := Except Fault (GrpAllocator × Bool × List PredicateFailureReason)

/-! ## The group allocator -/

/-- The loop of `findSubGroups` over the entries of `grp`. -/
def findSubGroupsLoop (baseGroup : String) :
    GoMap String → GoMap (GoMap (GoMap String)) → GoMap Bool →
    GoMap (GoMap (GoMap String)) × GoMap Bool
  | [], subGrp, isSubGrp => (subGrp, isSubGrp)
  | (grpKey, grpElem) :: rest, subGrp, isSubGrp =>
    match matchSubGroup baseGroup grpElem with
    | some (m1, m2, m3) =>
      findSubGroupsLoop baseGroup rest (AssignMap3 subGrp m1 m2 m3 grpElem)
        (isSubGrp.set grpKey true)
    | none => findSubGroupsLoop baseGroup rest subGrp (isSubGrp.set grpKey false)

/-- The function `findSubGroups`. -/
def findSubGroups (baseGroup : String) (grp : GoMap String) :
    GoMap (GoMap (GoMap String)) × GoMap Bool :=
  findSubGroupsLoop baseGroup grp [] []

/-- The method `createSubGroup`: a shallow copy of the receiver with the
requirement and allocatable maps of the subgroup, the extended base names and a
zero score. -/
def createSubGroup (grp : GrpAllocator) (resourceLocation : String)
    (requiredSubGrps allocSubGrps : GoMap (GoMap (GoMap String)))
    (grpName grpIndex : String) : GrpAllocator :=
  { grp with
    GrpRequiredResource := (requiredSubGrps.getD grpName []).getD grpIndex []
    GrpAllocResource := allocSubGrps.getD grpName []
    ReqBaseGroupName := grp.ReqBaseGroupName ++ "/" ++ grpName ++ "/" ++ grpIndex
    AllocBaseGroupPrefix := grp.AllocBaseGroupPrefix ++ "/" ++ resourceLocation ++ "/" ++ grpName
    Score := 0 }

/-- The method `cloneGroup`: the copy owns fresh copies of `AllocateFrom`,
`PodResource` and `NodeResource`; with immutable maps the copy is the receiver. -/
def cloneGroup (grp : GrpAllocator) : GrpAllocator := grp

/-- The method `takeGroup`. -/
def takeGroup (grp grpTake : GrpAllocator) : GrpAllocator :=
  { grp with
    AllocateFrom := grpTake.AllocateFrom
    PodResource := grpTake.PodResource
    NodeResource := grpTake.NodeResource
    Score := grpTake.Score }

/-- The method `resetGroup`. -/
def resetGroup (grp restorePoint : GrpAllocator) : GrpAllocator :=
  { grp with
    PodResource := restorePoint.PodResource
    NodeResource := restorePoint.NodeResource
    Score := restorePoint.Score }

/-- The loop of `resourceAvailable` over the entries of `GrpRequiredResource`. -/
def resourceAvailableLoop (grpAllocRes : GoMap String) :
    GoMap String → GrpAllocator → Bool → List PredicateFailureReason → AllocResult
  | [], grp, found, predicateFails => .ok (grp, found, predicateFails)
  | (grpReqKey, grpReqElem) :: rest, grp, found, predicateFails =>
    if !(grp.IsReqSubGrp.getD grpReqKey false) then
      let required := grp.RequiredResource.getD grpReqElem 0
      match grpAllocRes.get? grpReqKey with
      | none =>
        resourceAvailableLoop grpAllocRes rest grp false
          (predicateFails ++ [NewInsufficientResourceError
            (grp.ContName ++ "/" ++ grpReqElem) required 0 0])
      | some globalName =>
        let allocatable := grp.AllocResource.getD globalName 0
        let usedPod := grp.PodResource.getD globalName 0
        let usedNode := grp.NodeResource.getD globalName 0
        let scoreFn? : Option ResourceScoreFunc :=
          match grp.ReqScorer.getD grpReqElem none with
          | some f => some f
          | none => grp.AllocScorer.get? globalName
        match scoreFn? with
        | none => .error Fault.nilScorer
        | some scoreFn =>
          let r := scoreFn allocatable usedPod usedNode [required] grp.InitContainer
          if !r.found then
            resourceAvailableLoop grpAllocRes rest grp false
              (predicateFails ++ [NewInsufficientResourceError
                (grp.ContName ++ "/" ++ grpReqElem) required usedNode allocatable])
          else
            resourceAvailableLoop grpAllocRes rest
              { grp with
                PodResource := grp.PodResource.set globalName r.podR
                NodeResource := grp.NodeResource.set globalName r.nodeR
                AllocateFrom := grp.AllocateFrom.set grpReqElem globalName }
              found predicateFails
    else
      resourceAvailableLoop grpAllocRes rest grp found predicateFails

/-- The method `resourceAvailable`. -/
def resourceAvailable (grp : GrpAllocator) (resourceLocation : String) : AllocResult :=
  resourceAvailableLoop (grp.GrpAllocResource.getD resourceLocation [])
    grp.GrpRequiredResource grp true []

/-- The first loop of `findScoreAndUpdate`: the requests of the group, collected
per allocatable key they are allocated from. -/
def requestedResourceLoop (grp : GrpAllocator) :
    GoMap String → GoMap (List Int) → Bool → List PredicateFailureReason →
    GoMap (List Int) × Bool × List PredicateFailureReason
  | [], requestedResource, found, predicateFails => (requestedResource, found, predicateFails)
  | (_, grpReqElem) :: rest, requestedResource, found, predicateFails =>
    let allocFrom := grp.AllocateFrom.getD grpReqElem ""
    match grp.AllocResource.get? allocFrom with
    | none =>
      requestedResourceLoop grp rest requestedResource false
        (predicateFails ++ [NewInsufficientResourceError grpReqElem
          (grp.RequiredResource.getD grpReqElem 0) 0 0])
    | some _ =>
      requestedResourceLoop grp rest
        (requestedResource.set allocFrom
          (requestedResource.getD allocFrom [] ++ [grp.RequiredResource.getD grpReqElem 0]))
        found predicateFails

/-- The second loop of `findScoreAndUpdate`: every allocatable key of the
location is scored once with the requests collected for it. -/
def scoreLoop (requestedResource : GoMap (List Int)) :
    GoMap String → GrpAllocator → Bool → List PredicateFailureReason → AllocResult
  | [], grp, found, predicateFails => .ok (grp, found, predicateFails)
  | (_, key) :: rest, grp, found, predicateFails =>
    let allocatable := grp.AllocResource.getD key 0
    let usedPod := grp.PodResource.getD key 0
    let usedNode := grp.NodeResource.getD key 0
    match grp.AllocScorer.get? key with
    | none => .error Fault.nilScorer
    | some scoreFn =>
      let r := scoreFn allocatable usedPod usedNode (requestedResource.getD key [])
        grp.InitContainer
      if !r.found then
        scoreLoop requestedResource rest grp false
          (predicateFails ++ [NewInsufficientResourceError key r.totalRequest usedNode allocatable])
      else
        scoreLoop requestedResource rest
          { grp with
            Score := grp.Score + r.score
            PodResource := grp.PodResource.set key r.podR
            NodeResource := grp.NodeResource.set key r.nodeR }
          found predicateFails

/-- The method `findScoreAndUpdate`. -/
def findScoreAndUpdate (grp : GrpAllocator) (location : String) : AllocResult :=
  let (requestedResource, found, predicateFails) :=
    requestedResourceLoop grp grp.GrpRequiredResource [] true []
  let locRes := grp.GrpAllocResource.getD location []
  match scoreLoop requestedResource locRes { grp with Score := 0 } found predicateFails with
  | .error e => .error e
  | .ok (grp1, found1, predicateFails1) =>
    .ok ({ grp1 with Score := grp1.Score / (locRes.length : ℚ) }, found1, predicateFails1)

/-- The inner loop of `allocateSubGroups`, over the sorted indices of one
subgroup name. `allocGroup` is the recursive call `subGrp.allocateGroup()`. -/
def allocateSubGroupsInner (allocGroup : GrpAllocator → AllocResult)
    (allocLocationName : String)
    (subgrpsReq subgrpsAllocRes : GoMap (GoMap (GoMap String))) (subgrpsKey : String) :
    List String → GrpAllocator → Bool → List PredicateFailureReason → AllocResult
  | [], grp, found, predicateFails => .ok (grp, found, predicateFails)
  | subgrpsElemIndex :: rest, grp, found, predicateFails =>
    let subGrp := createSubGroup grp allocLocationName subgrpsReq subgrpsAllocRes
      subgrpsKey subgrpsElemIndex
    match allocGroup subGrp with
    | .error e => .error e
    | .ok (subGrp1, foundSubGrp, reasons) =>
      let grp1 := { grp with UsedGroups := subGrp1.UsedGroups }
      if !foundSubGrp then
        allocateSubGroupsInner allocGroup allocLocationName subgrpsReq subgrpsAllocRes
          subgrpsKey rest grp1 false
          (predicateFails ++ [NewInsufficientResourceError
            (grp.ContName ++ "/" ++ subGrp.ReqBaseGroupName) 0 0 0] ++ reasons)
      else
        allocateSubGroupsInner allocGroup allocLocationName subgrpsReq subgrpsAllocRes
          subgrpsKey rest (takeGroup grp1 subGrp1) found predicateFails

/-- The outer loop of `allocateSubGroups`, over the sorted subgroup names. -/
def allocateSubGroupsOuter (allocGroup : GrpAllocator → AllocResult)
    (allocLocationName : String)
    (subgrpsReq subgrpsAllocRes : GoMap (GoMap (GoMap String))) :
    List String → GrpAllocator → Bool → List PredicateFailureReason → AllocResult
  | [], grp, found, predicateFails => .ok (grp, found, predicateFails)
  | subgrpsKey :: rest, grp, found, predicateFails =>
    match allocateSubGroupsInner allocGroup allocLocationName subgrpsReq subgrpsAllocRes
        subgrpsKey (SortedStringKeys (subgrpsReq.getD subgrpsKey [])) grp found predicateFails with
    | .error e => .error e
    | .ok (grp1, found1, predicateFails1) =>
      allocateSubGroupsOuter allocGroup allocLocationName subgrpsReq subgrpsAllocRes
        rest grp1 found1 predicateFails1

/-- The method `allocateSubGroups`. -/
def allocateSubGroups (allocGroup : GrpAllocator → AllocResult) (grp : GrpAllocator)
    (allocLocationName : String)
    (subgrpsReq subgrpsAllocRes : GoMap (GoMap (GoMap String))) : AllocResult :=
  allocateSubGroupsOuter allocGroup allocLocationName subgrpsReq subgrpsAllocRes
    (SortedStringKeys subgrpsReq) grp true []

/-- The method `allocateGroupAt`. -/
def allocateGroupAt (allocGroup : GrpAllocator → AllocResult) (grp : GrpAllocator)
    (location : String) (subgrpsReq : GoMap (GoMap (GoMap String))) : AllocResult :=
  let allocLocationName := grp.AllocBaseGroupPrefix ++ "/" ++ location
  let grpsAllocResElem := grp.GrpAllocResource.getD location []
  let (subgrpsAllocRes, isSubGrp) := findSubGroups allocLocationName grpsAllocResElem
  let grp0 := { grp with IsAllocSubGrp := isSubGrp }
  let grpR := cloneGroup grp0
  match resourceAvailable grp0 location with
  | .error e => .error e
  | .ok (grp1, foundRes, reasons) =>
    match allocateSubGroups allocGroup grp1 location subgrpsReq subgrpsAllocRes with
    | .error e => .error e
    | .ok (grp2, foundNext, reasonsNext) =>
      if foundRes && foundNext then
        match findScoreAndUpdate (resetGroup grp2 grpR) location with
        | .error e => .error e
        | .ok (grp3, foundScore, reasonsScore) =>
          if foundScore = false then
            .ok (grp3, false, reasons ++ (reasonsNext ++ reasonsScore))
          else
            .ok (grp3, true, reasons ++ reasonsNext)
      else
        .ok (grp2, false, reasons ++ reasonsNext)

/-- The local variables of the search loop of `allocateGroup`; `grp` is the
receiver, whose `UsedGroups` is the map shared with the candidates. -/
structure SearchState where
  grp : GrpAllocator
  anyFind : Bool
  maxScoreKey : String
  maxScoreGrp : GrpAllocator
  maxIsUsedGroup : Bool
  maxGroupName : String
  predicateFails : List PredicateFailureReason

/-- The decision `takeNew` of `allocateGroup` for a feasible candidate. -/
def takeNew (preferUsed maxIsUsedGroup isUsed : Bool) (score maxScore : ℚ) : Bool :=
  if !preferUsed then
    decide (score ≥ maxScore)
  else if maxIsUsedGroup then
    isUsed && decide (score ≥ maxScore)
  else
    isUsed || decide (score ≥ maxScore)

/-- The search loop of `allocateGroup` over the sorted candidate locations. -/
def allocateGroupLoop (allocGroup : GrpAllocator → AllocResult)
    (subgrpsReq : GoMap (GoMap (GoMap String))) :
    List String → SearchState → Except Fault SearchState
  | [], st => .ok st
  | grpsAllocResKey :: rest, st =>
    let grpCheck := cloneGroup st.grp
    match allocateGroupAt allocGroup grpCheck grpsAllocResKey subgrpsReq with
    | .error e => .error e
    | .ok (grpCheck1, found, reasons) =>
      let grp1 := { st.grp with UsedGroups := grpCheck1.UsedGroups }
      let allocLocationName := grp1.AllocBaseGroupPrefix ++ "/" ++ grpsAllocResKey
      let isUsed := grp1.UsedGroups.getD allocLocationName false
      let take : Bool :=
        found && takeNew grp1.PreferUsed st.maxIsUsedGroup isUsed
          grpCheck1.Score st.maxScoreGrp.Score
      let st2 : SearchState :=
        { grp := grp1
          anyFind := if take then true else st.anyFind
          maxScoreKey := if take then grpsAllocResKey else st.maxScoreKey
          maxScoreGrp := if take then grpCheck1 else st.maxScoreGrp
          maxIsUsedGroup := if take then isUsed else st.maxIsUsedGroup
          maxGroupName := if take then allocLocationName else st.maxGroupName
          predicateFails :=
            if grp1.GrpAllocResource.length = 1 then st.predicateFails ++ reasons
            else st.predicateFails }
      allocateGroupLoop allocGroup subgrpsReq rest st2

/-- The body of the method `allocateGroup`; `allocGroup` is the method itself,
for the recursive calls on the subgroups. -/
def allocateGroupBody (allocGroup : GrpAllocator → AllocResult) (grp : GrpAllocator) :
    AllocResult :=
  if grp.GrpRequiredResource.length = 0 then
    .ok (grp, true, [])
  else
    let (subgrpsReq, isSubGrp) := findSubGroups grp.ReqBaseGroupName grp.GrpRequiredResource
    let grp0 := { grp with IsReqSubGrp := isSubGrp }
    match allocateGroupLoop allocGroup subgrpsReq (SortedStringKeys grp0.GrpAllocResource)
        ⟨grp0, false, "", grp0, false, "", []⟩ with
    | .error e => .error e
    | .ok st =>
      let grp1 := takeGroup st.grp st.maxScoreGrp
      if st.anyFind then
        .ok ({ grp1 with UsedGroups := grp1.UsedGroups.set st.maxGroupName true }, true, [])
      else
        .ok (grp1, false, st.predicateFails)

/-- The method `allocateGroup`, with `fuel` bounding the depth of the recursion
into subgroups. -/
def allocateGroup : Nat → GrpAllocator → AllocResult
  | 0 => fun _ => .error Fault.outOfFuel
  | fuel + 1 => allocateGroupBody (allocateGroup fuel)

/-! ## The candidates of a search, as a trace -/

/-- One visit of the search loop of `allocateGroup`: the candidate location, the
working clone after `allocateGroupAt`, the flag and the reasons it returned and
the value of `UsedGroups[allocLocationName]` read after the call. -/
structure Candidate where
  key : String
  grp : GrpAllocator
  found : Bool
  isUsed : Bool
  reasons : List PredicateFailureReason

/-- The calls of `allocateGroupAt` made by the search loop of `allocateGroup`, in
the order of the loop, with the receiver as the last call leaves it (its
`UsedGroups` is the shared map). -/
def candidates (allocGroup : GrpAllocator → AllocResult)
    (subgrpsReq : GoMap (GoMap (GoMap String))) :
    List String → GrpAllocator → Except Fault (List Candidate × GrpAllocator)
  | [], grp => .ok ([], grp)
  | grpsAllocResKey :: rest, grp =>
    match allocateGroupAt allocGroup (cloneGroup grp) grpsAllocResKey subgrpsReq with
    | .error e => .error e
    | .ok (grpCheck1, found, reasons) =>
      let grp1 := { grp with UsedGroups := grpCheck1.UsedGroups }
      match candidates allocGroup subgrpsReq rest grp1 with
      | .error e => .error e
      | .ok (cs, grpF) =>
        .ok (⟨grpsAllocResKey, grpCheck1, found,
          grp1.UsedGroups.getD (grp1.AllocBaseGroupPrefix ++ "/" ++ grpsAllocResKey) false,
          reasons⟩ :: cs, grpF)

/-- One step of the selection among the candidates: `cur` is the candidate held
so far (`none` while the loop still holds the receiver, whose score is `s0`). -/
def selectStep (preferUsed : Bool) (s0 : ℚ) (cur : Option Candidate) (c : Candidate) :
    Option Candidate :=
  let maxScore := match cur with
    | some m => m.grp.Score
    | none => s0
  let maxIsUsed := match cur with
    | some m => m.isUsed
    | none => false
  if c.found && takeNew preferUsed maxIsUsed c.isUsed c.grp.Score maxScore then some c
  else cur

/-- The candidate that the search loop holds after visiting `cs`. -/
def selectCandidate (preferUsed : Bool) (s0 : ℚ) (cs : List Candidate) : Option Candidate :=
  cs.foldl (selectStep preferUsed s0) none

/-! ## The per-container driver -/

/-- The first loop of `containerFitsGroupConstraints`: the requests that are not
prechecked, with their names and their scorers. -/
def collectRequests (env : Env) (contReq : ContainerInfo) :
    GoMap Int → GoMap String × GoMap Int × GoMap (Option ResourceScoreFunc) →
    GoMap String × GoMap Int × GoMap (Option ResourceScoreFunc)
  | [], acc => acc
  | (reqRes, reqVal) :: rest, (reqName, req, reqScorer) =>
    if !(env.PrecheckedResource reqRes) then
      let scoreFn : Option ResourceScoreFunc :=
        match contReq.Scorer.get? reqRes with
        | some scoreEnum => some (env.SetScorer reqRes scoreEnum)
        | none => none
      collectRequests env contReq rest
        (reqName.set reqRes reqRes, req.set reqRes reqVal, reqScorer.set reqRes scoreFn)
    else
      collectRequests env contReq rest (reqName, req, reqScorer)

/-- The second loop of `containerFitsGroupConstraints`: the allocatable
quantities that are not prechecked, all placed under the location `grpName`. -/
def collectAllocatable (env : Env) (grpName : String) :
    GoMap Int → GoMap (GoMap String) × GoMap Int → GoMap (GoMap String) × GoMap Int
  | [], acc => acc
  | (allocRes, allocVal) :: rest, (allocName, alloc) =>
    if !(env.PrecheckedResource allocRes) then
      collectAllocatable env grpName rest
        (AssignMap2 allocName grpName allocRes allocRes, alloc.set allocRes allocVal)
    else
      collectAllocatable env grpName rest (allocName, alloc)

/-- The copy loop `for key, val := range src { dst[key] = val }`. -/
def copyInto {V : Type} : GoMap V → GoMap V → GoMap V
  | [], dst => dst
  | (key, val) :: rest, dst => copyInto rest (dst.set key val)

/-- The depth of recursion given to `allocateGroup`: every level of subgroups
consumes characters of a requirement key. -/
def searchFuel (reqName : GoMap String) : Nat :=
  (reqName.map (fun kv => kv.2.length)).foldr max 0 + 1

/-- What `containerFitsGroupConstraints` returns, with the container as the
call leaves it. -/
structure ContainerFit where
  grp : GrpAllocator
  contReq : ContainerInfo
  found : Bool
  reasons : List PredicateFailureReason
  score : ℚ

/-- The function `containerFitsGroupConstraints`. -/
def containerFitsGroupConstraints (env : Env) (contName : String) (contReq : ContainerInfo)
    (initContainer : Bool) (allocatable : GoMap Int) (allocScorer : GoMap ResourceScoreFunc)
    (podResource nodeResource : GoMap Int) (usedGroups : GoMap Bool)
    (bPreferUsed bSetAllocateFrom : Bool) : Except Fault ContainerFit :=
  let (reqName, req, reqScorer) := collectRequests env contReq contReq.DevRequests ([], [], [])
  match matchPrefix env.DeviceGroupPrefix with
  | none => .error Fault.invalidPrefix
  | some (grpPrefix, grpName) =>
    let (allocName, alloc) := collectAllocatable env grpName allocatable ([], [])
    let grp : GrpAllocator :=
      { ContName := contName
        InitContainer := initContainer
        PreferUsed := bPreferUsed
        RequiredResource := req
        ReqScorer := reqScorer
        AllocResource := alloc
        AllocScorer := allocScorer
        UsedGroups := usedGroups
        GrpRequiredResource := reqName
        IsReqSubGrp := []
        GrpAllocResource := allocName
        IsAllocSubGrp := []
        ReqBaseGroupName := env.DeviceGroupPrefix
        AllocBaseGroupPrefix := grpPrefix
        Score := 0
        PodResource := podResource
        NodeResource := nodeResource
        AllocateFrom := [] }
    let search : Bool :=
      match contReq.AllocateFrom with
      | none => true
      | some af => af.length = 0 && req.length > 0
    if search then
      match allocateGroup (searchFuel reqName) grp with
      | .error e => .error e
      | .ok (grp1, found, reasons) =>
        let contReq1 : ContainerInfo :=
          if bSetAllocateFrom then
            { contReq with AllocateFrom := some (copyInto grp1.AllocateFrom []) }
          else contReq
        .ok ⟨grp1, contReq1, found, reasons, grp1.Score⟩
    else if req.length > 0 then
      let grp0 := { grp with AllocateFrom := copyInto (contReq.AllocateFrom.getD []) [] }
      match findScoreAndUpdate grp0 grpName with
      | .error e => .error e
      | .ok (grp1, found, reasons) => .ok ⟨grp1, contReq, found, reasons, grp1.Score⟩
    else
      .ok ⟨grp, contReq, true, [], 0⟩

/-! ## The pod-level driver -/

/-- The function `initNodeResource`. -/
def initNodeResource (n : NodeInfo) : GoMap Int := copyInto n.Used []

/-- The function `PodClearAllocateFrom`. -/
def PodClearAllocateFrom (spec : PodInfo) : PodInfo :=
  { RunningContainers := spec.RunningContainers.map
      (fun kv => (kv.1, { kv.2 with AllocateFrom := none }))
    InitContainers := spec.InitContainers.map
      (fun kv => (kv.1, { kv.2 with AllocateFrom := none })) }

/-- The loop of `setScoreFunc` over the allocatable keys of the node. -/
def setScoreFuncLoop (env : Env) (n : NodeInfo) :
    GoMap Int → GoMap ResourceScoreFunc → GoMap ResourceScoreFunc
  | [], scorerFn => scorerFn
  | (key, _) :: rest, scorerFn =>
    setScoreFuncLoop env n rest (scorerFn.set key (env.SetScorer key (n.Scorer.getD key 0)))

/-- The function `setScoreFunc`. -/
def setScoreFunc (env : Env) (n : NodeInfo) : GoMap ResourceScoreFunc :=
  setScoreFuncLoop env n n.Allocatable []

/-- An empty container record, the zero value of a lookup in a container map. -/
def ContainerInfo.zero : ContainerInfo := ⟨[], none, []⟩

/-- The local variables of `PodFitsGroupConstraints`, with the containers of
the pod as the loops leave them. -/
structure PodFitState where
  containers : GoMap ContainerInfo
  podResource : GoMap Int
  nodeResource : GoMap Int
  usedGroups : GoMap Bool
  found : Bool
  predicateFails : List PredicateFailureReason
  totalScore : ℚ

/-- One of the two container loops of `PodFitsGroupConstraints`: the running
containers (`initContainer = false`, the score of a fitting container is
assigned to `totalScore`) or the init containers (`initContainer = true`, the
score is dropped). -/
def podFitsLoop (env : Env) (n : NodeInfo) (scorer : GoMap ResourceScoreFunc)
    (initContainer allocating : Bool) : List String → PodFitState → Except Fault PodFitState
  | [], st => .ok st
  | contName :: rest, st =>
    let contCopy := st.containers.getD contName ContainerInfo.zero
    match containerFitsGroupConstraints env contName contCopy initContainer n.Allocatable
        scorer st.podResource st.nodeResource st.usedGroups true allocating with
    | .error e => .error e
    | .ok r =>
      podFitsLoop env n scorer initContainer allocating rest
        { containers := st.containers.set contName r.contReq
          podResource := r.grp.PodResource
          nodeResource := r.grp.NodeResource
          usedGroups := r.grp.UsedGroups
          found := if r.found = false then false else st.found
          predicateFails :=
            if r.found = false then st.predicateFails ++ r.reasons else st.predicateFails
          totalScore :=
            if r.found = false || initContainer then st.totalScore else r.score }

/-- What `PodFitsGroupConstraints` returns and leaves behind: the three return
values, the pod with the `AllocateFrom` maps it wrote, and the usage and the
used groups threaded out of the last container. -/
structure PodFit where
  found : Bool
  predicateFails : List PredicateFailureReason
  totalScore : ℚ
  spec : PodInfo
  podResource : GoMap Int
  nodeResource : GoMap Int
  usedGroups : GoMap Bool

/-- The function `PodFitsGroupConstraints`. -/
def PodFitsGroupConstraints (env : Env) (n : NodeInfo) (spec : PodInfo) (allocating : Bool) :
    Except Fault PodFit :=
  let scorer := setScoreFunc env n
  match podFitsLoop env n scorer false allocating (SortedStringKeys spec.RunningContainers)
      ⟨spec.RunningContainers, [], initNodeResource n, [], true, [], 0⟩ with
  | .error e => .error e
  | .ok st1 =>
    match podFitsLoop env n scorer true allocating (SortedStringKeys spec.InitContainers)
        ⟨spec.InitContainers, st1.podResource, st1.nodeResource, st1.usedGroups,
          st1.found, st1.predicateFails, st1.totalScore⟩ with
    | .error e => .error e
    | .ok st2 =>
      .ok ⟨st2.found, st2.predicateFails, st2.totalScore, ⟨st1.containers, st2.containers⟩,
        st2.podResource, st2.nodeResource, st2.usedGroups⟩

/-! ## Node usage accounting -/

/-- The loop of `updateGroupResourceForContainer` over the entries of
`cont.AllocateFrom`. -/
def updateGroupResourceForContainerLoop (env : Env) (n : NodeInfo) (cont : ContainerInfo)
    (bInitContainer : Bool) : GoMap String → GoMap Int × GoMap Int → GoMap Int × GoMap Int
  | [], acc => acc
  | (reqRes, allocatedFrom) :: rest, (podResources, updatedUsedByNode) =>
    if !(env.PrecheckedResource reqRes) then
      let val := cont.DevRequests.getD reqRes 0
      let allocatableRes := n.Allocatable.getD allocatedFrom 0
      let podRes := podResources.getD allocatedFrom 0
      let nodeRes := updatedUsedByNode.getD allocatedFrom 0
      let scorerFn := env.SetScorer allocatedFrom (n.Scorer.getD allocatedFrom 0)
      let r := scorerFn allocatableRes podRes nodeRes [val] bInitContainer
      updateGroupResourceForContainerLoop env n cont bInitContainer rest
        (podResources.set allocatedFrom r.podR, updatedUsedByNode.set allocatedFrom r.nodeR)
    else
      updateGroupResourceForContainerLoop env n cont bInitContainer rest
        (podResources, updatedUsedByNode)

/-- The function `updateGroupResourceForContainer`. -/
def updateGroupResourceForContainer (env : Env) (n : NodeInfo) (cont : ContainerInfo)
    (bInitContainer : Bool) (podResources updatedUsedByNode : GoMap Int) :
    GoMap Int × GoMap Int :=
  updateGroupResourceForContainerLoop env n cont bInitContainer
    (cont.AllocateFrom.getD []) (podResources, updatedUsedByNode)

/-- The loops of `ComputePodGroupResources` over the containers of one kind. -/
def updateContainers (env : Env) (n : NodeInfo) (bInitContainer : Bool) :
    GoMap ContainerInfo → GoMap Int × GoMap Int → GoMap Int × GoMap Int
  | [], acc => acc
  | (_, cont) :: rest, (podResources, updatedUsedByNode) =>
    updateContainers env n bInitContainer rest
      (updateGroupResourceForContainer env n cont bInitContainer podResources updatedUsedByNode)

/-- The `int64` that holds the integer `x`: the representative of `x` modulo
`2^64` in the range from `-2^63` to `2^63 - 1`. -/
def wrapInt64 (x : Int) : Int :=
  (x + 9223372036854775808) % 18446744073709551616 - 9223372036854775808

/-- The expression `-x` of the source on an `int64`: the negation wraps, so that
the least `int64`, `-2^63`, is its own negation. -/
def negInt64 (x : Int) : Int := wrapInt64 (-x)

/-- The removal loop of `ComputePodGroupResources`: for every key used by the
pod, one scorer call with the request `-podUsed` against `n.Used`. -/
def removePodLoop (env : Env) (n : NodeInfo) : GoMap Int → GoMap Int → GoMap Int
  | [], updatedUsedByNode => updatedUsedByNode
  | (allocatedFrom, podUsed) :: rest, updatedUsedByNode =>
    let scorerFn := env.SetScorer allocatedFrom (n.Scorer.getD allocatedFrom 0)
    let r := scorerFn 0 0 (n.Used.getD allocatedFrom 0) [negInt64 podUsed] false
    removePodLoop env n rest (updatedUsedByNode.set allocatedFrom r.nodeR)

/-- The function `ComputePodGroupResources`: `(podResources, updatedUsedByNode)`. -/
def ComputePodGroupResources (env : Env) (n : NodeInfo) (spec : PodInfo) (bRemovePod : Bool) :
    GoMap Int × GoMap Int :=
  let acc0 : GoMap Int × GoMap Int := ([], copyInto n.Used [])
  let acc1 := updateContainers env n false spec.RunningContainers acc0
  let acc2 := updateContainers env n true spec.InitContainers acc1
  if bRemovePod then (acc2.1, removePodLoop env n acc2.1 acc2.2) else acc2

/-- The function `TakePodGroupResource`: the node after the call. -/
def TakePodGroupResource (env : Env) (n : NodeInfo) (spec : PodInfo) : NodeInfo :=
  { n with Used := copyInto (ComputePodGroupResources env n spec false).2 n.Used }

/-- The function `ReturnPodGroupResource`: the node after the call. -/
def ReturnPodGroupResource (env : Env) (n : NodeInfo) (spec : PodInfo) : NodeInfo :=
  { n with Used := copyInto (ComputePodGroupResources env n spec true).2 n.Used }

/-! ## The scorer of the specification and the scenario environment -/

/-- Modelled from the spec: the package `grpalloc/scorer` (the functions behind
`scorer.SetScorer`) is not among the sources. This is the scorer of section 4.1:
the total request is the sum of the requests; a running container adds it to
the pod usage and to the node usage; an init container takes
`max(usedByPod, total)` for the pod and `max(usedByNode, usedByPod + total)` for
the node; the request fits iff the new node usage is within the capacity; the
score is the leftover proportion `(capacity - newUsedNode) / capacity`. -/
def leftoverScoreFunc : ResourceScoreFunc :=
  fun allocatable usedByPod usedByNode requested initContainer =>
    let total := requested.sum
    let newPod := if initContainer then max usedByPod total else usedByPod + total
    let newNode :=
      if initContainer then max usedByNode (usedByPod + total) else usedByNode + total
    { found := decide (newNode ≤ allocatable)
      score := ((allocatable - newNode : Int) : ℚ) / ((allocatable : Int) : ℚ)
      totalRequest := total
      podR := newPod
      nodeR := newNode }

/-- The environment of the scenarios: the group prefix is `r/grp`, a resource
is prechecked iff its name does not start with the prefix, and every key and
selector has the scorer of section 4.1. -/
def scenarioEnv : Env :=
  { DeviceGroupPrefix := "r/grp"
    PrecheckedResource := fun name => (stripLit "r/grp".data name.data).isNone
    SetScorer := fun _ _ => leftoverScoreFunc }

/-- Modelled from the spec: the package `grpalloc/scorer` is not among the
sources. This is the scorer that scenario S4 and invariant 3 of section 8
describe, and that the release of `ComputePodGroupResources` (one call with
`-podUsed`) presupposes: the pod usage follows section 4.1 (a running container
adds the sum of the requests, an init container takes `max(usedByPod, sum)`),
and the node usage rises by the rise of the pod usage,
`newUsedNode = usedByNode + (newUsedPod - usedByPod)`, in both modes; the
request fits iff the new node usage is within the capacity; the score is the
leftover proportion. For a running container this is the scorer of section
4.1; for an init container section 4.1 writes another node usage,
`max(usedByNode, usedByPod + sum)`, which is `leftoverScoreFunc`. -/
def peakScoreFunc : ResourceScoreFunc :=
  fun allocatable usedByPod usedByNode requested initContainer =>
    let total := requested.sum
    let newPod := if initContainer then max usedByPod total else usedByPod + total
    let newNode := usedByNode + (newPod - usedByPod)
    { found := decide (newNode ≤ allocatable)
      score := ((allocatable - newNode : Int) : ℚ) / ((allocatable : Int) : ℚ)
      totalRequest := total
      podR := newPod
      nodeR := newNode }

/-- The environment of the scenarios with the scorer `peakScoreFunc` for every
key and selector. -/
def peakEnv : Env := { scenarioEnv with SetScorer := fun _ _ => peakScoreFunc }

/-! ## Lemmas on Go maps -/

namespace GoMap

theorem mem_of_get? {V : Type} {m : GoMap V} {k : String} {v : V} (h : m.get? k = some v) :
    (k, v) ∈ m := by
  induction m with
  | nil => simp [get?] at h
  | cons p t ih =>
    obtain ⟨k', v'⟩ := p
    simp only [get?] at h
    split at h
    · rename_i hk
      simp only [Option.some.injEq] at h
      subst hk; subst h
      exact List.mem_cons_self _ _
    · exact List.mem_cons_of_mem _ (ih h)

theorem mem_set {V : Type} {m : GoMap V} {k : String} {v : V} {p : String × V}
    (h : p ∈ m.set k v) : p = (k, v) ∨ p ∈ m := by
  induction m with
  | nil => simp [set] at h; exact Or.inl h
  | cons q t ih =>
    obtain ⟨k', v'⟩ := q
    simp only [set] at h
    split at h
    · rename_i hk
      rcases List.mem_cons.1 h with h | h
      · left; rw [h, hk]
      · right; exact List.mem_cons_of_mem _ h
    · rcases List.mem_cons.1 h with h | h
      · right; rw [h]; exact List.mem_cons_self _ _
      · rcases ih h with h | h
        · exact Or.inl h
        · exact Or.inr (List.mem_cons_of_mem _ h)

theorem get?_set {V : Type} (m : GoMap V) (k k' : String) (v : V) :
    (m.set k v).get? k' = if k = k' then some v else m.get? k' := by
  induction m with
  | nil => simp [set, get?]
  | cons q t ih =>
    obtain ⟨a, b⟩ := q
    simp only [set]
    by_cases hak : a = k
    · subst hak
      simp only [if_true, get?]
      by_cases h : a = k' <;> simp [h]
    · simp only [hak, if_false, get?, ih]
      by_cases h : a = k'
      · subst h
        have : ¬ k = a := fun h => hak h.symm
        simp [this]
      · simp [h]

theorem getD_set {V : Type} (m : GoMap V) (k k' : String) (v d : V) :
    (m.set k v).getD k' d = if k = k' then v else m.getD k' d := by
  unfold getD
  rw [get?_set]
  by_cases h : k = k' <;> simp [h]

theorem getD_mem_or {V : Type} (m : GoMap V) (k : String) (d : V) :
    m.getD k d = d ∨ (k, m.getD k d) ∈ m := by
  unfold getD
  cases h : m.get? k with
  | none => left; rfl
  | some v => right; exact mem_of_get? h

end GoMap

/-! ## Fields that the search leaves unchanged -/

/-- The fields of a `GrpAllocator` that no method of the search writes. -/
structure SameStatic (g g' : GrpAllocator) : Prop where
  contName : g'.ContName = g.ContName
  initContainer : g'.InitContainer = g.InitContainer
  preferUsed : g'.PreferUsed = g.PreferUsed
  requiredResource : g'.RequiredResource = g.RequiredResource
  reqScorer : g'.ReqScorer = g.ReqScorer
  allocResource : g'.AllocResource = g.AllocResource
  allocScorer : g'.AllocScorer = g.AllocScorer
  grpAllocResource : g'.GrpAllocResource = g.GrpAllocResource
  grpRequiredResource : g'.GrpRequiredResource = g.GrpRequiredResource
  reqBaseGroupName : g'.ReqBaseGroupName = g.ReqBaseGroupName
  allocBaseGroupPrefix : g'.AllocBaseGroupPrefix = g.AllocBaseGroupPrefix

theorem SameStatic.refl (g : GrpAllocator) : SameStatic g g :=
  ⟨rfl, rfl, rfl, rfl, rfl, rfl, rfl, rfl, rfl, rfl, rfl⟩

theorem SameStatic.trans {a b c : GrpAllocator} (h1 : SameStatic a b) (h2 : SameStatic b c) :
    SameStatic a c :=
  ⟨h2.1.trans h1.1, h2.2.trans h1.2, h2.3.trans h1.3, h2.4.trans h1.4, h2.5.trans h1.5,
    h2.6.trans h1.6, h2.7.trans h1.7, h2.8.trans h1.8, h2.9.trans h1.9, h2.10.trans h1.10,
    h2.11.trans h1.11⟩

theorem resourceAvailableLoop_static (grpAllocRes : GoMap String) :
    ∀ (l : GoMap String) (grp : GrpAllocator) (found : Bool) (pf : List PredicateFailureReason)
      (grp' : GrpAllocator) (found' : Bool) (pf' : List PredicateFailureReason),
      resourceAvailableLoop grpAllocRes l grp found pf = .ok (grp', found', pf') →
      SameStatic grp grp' ∧ grp'.IsReqSubGrp = grp.IsReqSubGrp ∧ grp'.UsedGroups = grp.UsedGroups := by
  intro l
  induction l with
  | nil =>
    intro grp found pf grp' found' pf' h
    simp only [resourceAvailableLoop, Except.ok.injEq, Prod.mk.injEq] at h
    obtain ⟨rfl, -, -⟩ := h
    exact ⟨SameStatic.refl _, rfl, rfl⟩
  | cons p t ih =>
    obtain ⟨grpReqKey, grpReqElem⟩ := p
    intro grp found pf grp' found' pf' h
    simp only [resourceAvailableLoop] at h
    split at h
    · split at h
      · exact ih _ _ _ _ _ _ h
      · split at h
        · exact absurd h (by simp)
        · split at h
          · exact ih _ _ _ _ _ _ h
          · obtain ⟨h1, h2, h3⟩ := ih _ _ _ _ _ _ h
            exact ⟨⟨h1.1, h1.2, h1.3, h1.4, h1.5, h1.6, h1.7, h1.8, h1.9, h1.10, h1.11⟩, h2, h3⟩
    · exact ih _ _ _ _ _ _ h

theorem requestedResourceLoop_snd (grp : GrpAllocator) :
    ∀ (l : GoMap String) (rr : GoMap (List Int)) (found : Bool) (pf : List PredicateFailureReason),
      (requestedResourceLoop grp l rr found pf).2.1 = true →
      found = true ∧ ∀ kv ∈ l, (grp.AllocResource.get? (grp.AllocateFrom.getD kv.2 "")).isSome := by
  intro l
  induction l with
  | nil =>
    intro rr found pf h
    simp only [requestedResourceLoop] at h
    exact ⟨h, by simp⟩
  | cons p t ih =>
    obtain ⟨k, e⟩ := p
    intro rr found pf h
    simp only [requestedResourceLoop] at h
    split at h
    · exact absurd (ih _ _ _ h).1 (by simp)
    · rename_i v hv
      obtain ⟨h1, h2⟩ := ih _ _ _ h
      refine ⟨h1, ?_⟩
      intro kv hkv
      rcases List.mem_cons.1 hkv with rfl | hkv
      · simp [hv]
      · exact h2 kv hkv

theorem scoreLoop_static (rr : GoMap (List Int)) :
    ∀ (l : GoMap String) (grp : GrpAllocator) (found : Bool) (pf : List PredicateFailureReason)
      (grp' : GrpAllocator) (found' : Bool) (pf' : List PredicateFailureReason),
      scoreLoop rr l grp found pf = .ok (grp', found', pf') →
      SameStatic grp grp' ∧ grp'.IsReqSubGrp = grp.IsReqSubGrp ∧
        grp'.UsedGroups = grp.UsedGroups ∧ grp'.AllocateFrom = grp.AllocateFrom ∧
        (found' = true → found = true) := by
  intro l
  induction l with
  | nil =>
    intro grp found pf grp' found' pf' h
    simp only [scoreLoop, Except.ok.injEq, Prod.mk.injEq] at h
    obtain ⟨rfl, rfl, -⟩ := h
    exact ⟨SameStatic.refl _, rfl, rfl, rfl, id⟩
  | cons p t ih =>
    obtain ⟨k, key⟩ := p
    intro grp found pf grp' found' pf' h
    simp only [scoreLoop] at h
    split at h
    · exact absurd h (by simp)
    · split at h
      · obtain ⟨h1, h2, h3, h4, h5⟩ := ih _ _ _ _ _ _ h
        exact ⟨h1, h2, h3, h4, fun hf => absurd (h5 hf) (by simp)⟩
      · obtain ⟨h1, h2, h3, h4, h5⟩ := ih _ _ _ _ _ _ h
        exact ⟨⟨h1.1, h1.2, h1.3, h1.4, h1.5, h1.6, h1.7, h1.8, h1.9, h1.10, h1.11⟩,
          h2, h3, h4, h5⟩

theorem findScoreAndUpdate_spec (grp : GrpAllocator) (location : String)
    (grp' : GrpAllocator) (found' : Bool) (pf' : List PredicateFailureReason)
    (h : findScoreAndUpdate grp location = .ok (grp', found', pf')) :
    SameStatic grp grp' ∧ grp'.IsReqSubGrp = grp.IsReqSubGrp ∧
      grp'.UsedGroups = grp.UsedGroups ∧ grp'.AllocateFrom = grp.AllocateFrom ∧
      (found' = true → ∀ kv ∈ grp.GrpRequiredResource,
        (grp.AllocResource.get? (grp.AllocateFrom.getD kv.2 "")).isSome) := by
  unfold findScoreAndUpdate at h
  generalize hr : requestedResourceLoop grp grp.GrpRequiredResource [] true [] = r at h
  obtain ⟨rr, f0, pf0⟩ := r
  simp only at h
  split at h
  · exact absurd h (by simp)
  · rename_i g1 f1 p1 hs
    simp only [Except.ok.injEq, Prod.mk.injEq] at h
    obtain ⟨rfl, rfl, rfl⟩ := h
    obtain ⟨h1, h2, h3, h4, h5⟩ := scoreLoop_static _ _ _ _ _ _ _ _ hs
    refine ⟨⟨h1.1, h1.2, h1.3, h1.4, h1.5, h1.6, h1.7, h1.8, h1.9, h1.10, h1.11⟩,
      h2, h3, h4, ?_⟩
    intro hf
    have := requestedResourceLoop_snd grp grp.GrpRequiredResource [] true []
    rw [hr] at this
    exact (this (h5 hf)).2

/-! ## The entries of AllocateFrom stay within the requirement and allocatable keys -/

/-- Every value of a one-level map satisfies `P`. -/
def Sub1Vals (P : String → Prop) (m : GoMap String) : Prop := ∀ kv ∈ m, P kv.2

/-- Every innermost value of a two-level map satisfies `P`. -/
def Sub2Vals (P : String → Prop) (y : GoMap (GoMap String)) : Prop := ∀ im ∈ y, Sub1Vals P im.2

/-- Every innermost value of a three-level map satisfies `P`. -/
def Sub3Vals (P : String → Prop) (x : GoMap (GoMap (GoMap String))) : Prop :=
  ∀ gm ∈ x, Sub2Vals P gm.2

/-- Every entry of an `AllocateFrom` map has its key in `R` and its value in `A`. -/
def AFOk (R A : String → Prop) (af : GoMap String) : Prop := ∀ kv ∈ af, R kv.1 ∧ A kv.2

theorem Sub1Vals_nil (P : String → Prop) : Sub1Vals P [] := by intro kv h; cases h
theorem Sub2Vals_nil (P : String → Prop) : Sub2Vals P [] := by intro kv h; cases h
theorem Sub3Vals_nil (P : String → Prop) : Sub3Vals P [] := by intro kv h; cases h
theorem AFOk_nil (R A : String → Prop) : AFOk R A [] := by intro kv h; cases h

theorem Sub1Vals_set {P : String → Prop} {m : GoMap String} {k v : String}
    (hm : Sub1Vals P m) (hv : P v) : Sub1Vals P (m.set k v) := by
  intro kv h
  rcases GoMap.mem_set h with rfl | h
  · exact hv
  · exact hm kv h

theorem Sub2Vals_set {P : String → Prop} {y : GoMap (GoMap String)} {k : String}
    {m : GoMap String} (hy : Sub2Vals P y) (hm : Sub1Vals P m) : Sub2Vals P (y.set k m) := by
  intro kv h
  rcases GoMap.mem_set h with rfl | h
  · exact hm
  · exact hy kv h

theorem Sub3Vals_set {P : String → Prop} {x : GoMap (GoMap (GoMap String))} {k : String}
    {y : GoMap (GoMap String)} (hx : Sub3Vals P x) (hy : Sub2Vals P y) :
    Sub3Vals P (x.set k y) := by
  intro kv h
  rcases GoMap.mem_set h with rfl | h
  · exact hy
  · exact hx kv h

theorem Sub2Vals_getD {P : String → Prop} {y : GoMap (GoMap String)} (hy : Sub2Vals P y)
    (k : String) : Sub1Vals P (y.getD k []) := by
  rcases GoMap.getD_mem_or y k [] with h | h
  · rw [h]; exact Sub1Vals_nil P
  · exact hy _ h

theorem Sub3Vals_getD {P : String → Prop} {x : GoMap (GoMap (GoMap String))}
    (hx : Sub3Vals P x) (k : String) : Sub2Vals P (x.getD k []) := by
  rcases GoMap.getD_mem_or x k [] with h | h
  · rw [h]; exact Sub2Vals_nil P
  · exact hx _ h

theorem AFOk_set {R A : String → Prop} {af : GoMap String} {k v : String}
    (h : AFOk R A af) (hk : R k) (hv : A v) : AFOk R A (af.set k v) := by
  intro kv hkv
  rcases GoMap.mem_set hkv with rfl | hkv
  · exact ⟨hk, hv⟩
  · exact h kv hkv

theorem Sub2Vals_AssignMap2 {P : String → Prop} {y : GoMap (GoMap String)} {k1 k2 val : String}
    (hy : Sub2Vals P y) (hv : P val) : Sub2Vals P (AssignMap2 y k1 k2 val) :=
  Sub2Vals_set hy (Sub1Vals_set (Sub2Vals_getD hy k1) hv)

theorem Sub3Vals_AssignMap3 {P : String → Prop} {x : GoMap (GoMap (GoMap String))}
    {k1 k2 k3 val : String} (hx : Sub3Vals P x) (hv : P val) :
    Sub3Vals P (AssignMap3 x k1 k2 k3 val) :=
  Sub3Vals_set hx (Sub2Vals_AssignMap2 (Sub3Vals_getD hx k1) hv)

theorem findSubGroupsLoop_vals {P : String → Prop} (baseGroup : String) :
    ∀ (l : GoMap String) (sub : GoMap (GoMap (GoMap String))) (isSub : GoMap Bool),
      Sub1Vals P l → Sub3Vals P sub →
      Sub3Vals P (findSubGroupsLoop baseGroup l sub isSub).1 := by
  intro l
  induction l with
  | nil => intro sub isSub _ hs; exact hs
  | cons p t ih =>
    obtain ⟨k, e⟩ := p
    intro sub isSub hl hs
    have he : P e := hl (k, e) (List.mem_cons_self _ _)
    have ht : Sub1Vals P t := fun kv h => hl kv (List.mem_cons_of_mem _ h)
    simp only [findSubGroupsLoop]
    split
    · exact ih _ _ ht (Sub3Vals_AssignMap3 hs he)
    · exact ih _ _ ht hs

theorem findSubGroups_vals {P : String → Prop} (baseGroup : String) (l : GoMap String)
    (hl : Sub1Vals P l) : Sub3Vals P (findSubGroups baseGroup l).1 :=
  findSubGroupsLoop_vals baseGroup l [] [] hl (Sub3Vals_nil P)

/-- A property `Q` of `AllocateFrom` maps is kept by every assignment of a value
in `A` to a key in `R`. -/
def SetClosed (R A : String → Prop) (Q : GoMap String → Prop) : Prop :=
  ∀ af k v, Q af → R k → A v → Q (GoMap.set af k v)

/-- The recursive call keeps the property `Q` of `AllocateFrom`. -/
def RecInv (R A : String → Prop) (Q : GoMap String → Prop)
    (allocGroup : GrpAllocator → AllocResult) : Prop :=
  ∀ grp grp' found rs, Sub1Vals R grp.GrpRequiredResource → Sub2Vals A grp.GrpAllocResource →
    Q grp.AllocateFrom → allocGroup grp = .ok (grp', found, rs) →
    Q grp'.AllocateFrom

theorem AFOk_setClosed (R A : String → Prop) : SetClosed R A (AFOk R A) :=
  fun _ _ _ h hk hv => AFOk_set h hk hv

theorem resourceAvailableLoop_inv {R A : String → Prop} {Q : GoMap String → Prop}
    (hQ : SetClosed R A Q) (grpAllocRes : GoMap String) (hA : Sub1Vals A grpAllocRes) :
    ∀ (l : GoMap String) (grp : GrpAllocator) (found : Bool) (pf : List PredicateFailureReason)
      (grp' : GrpAllocator) (found' : Bool) (pf' : List PredicateFailureReason),
      Sub1Vals R l → Q grp.AllocateFrom →
      resourceAvailableLoop grpAllocRes l grp found pf = .ok (grp', found', pf') →
      Q grp'.AllocateFrom := by
  intro l
  induction l with
  | nil =>
    intro grp found pf grp' found' pf' _ haf h
    simp only [resourceAvailableLoop, Except.ok.injEq, Prod.mk.injEq] at h
    obtain ⟨rfl, -, -⟩ := h
    exact haf
  | cons p t ih =>
    obtain ⟨grpReqKey, grpReqElem⟩ := p
    intro grp found pf grp' found' pf' hl haf h
    have he : R grpReqElem := hl (grpReqKey, grpReqElem) (List.mem_cons_self _ _)
    have ht : Sub1Vals R t := fun kv h => hl kv (List.mem_cons_of_mem _ h)
    simp only [resourceAvailableLoop] at h
    split at h
    · split at h
      · exact ih _ _ _ _ _ _ ht haf h
      · rename_i globalName hg
        split at h
        · exact absurd h (by simp)
        · split at h
          · exact ih _ _ _ _ _ _ ht haf h
          · exact ih _ _ _ _ _ _ ht
              (hQ _ _ _ haf he (hA _ (GoMap.mem_of_get? hg))) h
    · exact ih _ _ _ _ _ _ ht haf h

theorem takeGroup_static (grp g : GrpAllocator) : SameStatic grp (takeGroup grp g) :=
  ⟨rfl, rfl, rfl, rfl, rfl, rfl, rfl, rfl, rfl, rfl, rfl⟩

theorem allocateSubGroupsInner_static (allocGroup : GrpAllocator → AllocResult)
    (loc : String) (sr sa : GoMap (GoMap (GoMap String))) (key : String) :
    ∀ (l : List String) (grp : GrpAllocator) (found : Bool) (pf : List PredicateFailureReason)
      (grp' : GrpAllocator) (found' : Bool) (pf' : List PredicateFailureReason),
      allocateSubGroupsInner allocGroup loc sr sa key l grp found pf = .ok (grp', found', pf') →
      SameStatic grp grp' ∧ grp'.IsReqSubGrp = grp.IsReqSubGrp := by
  intro l
  induction l with
  | nil =>
    intro grp found pf grp' found' pf' h
    simp only [allocateSubGroupsInner, Except.ok.injEq, Prod.mk.injEq] at h
    obtain ⟨rfl, -, -⟩ := h
    exact ⟨SameStatic.refl _, rfl⟩
  | cons idx t ih =>
    intro grp found pf grp' found' pf' h
    simp only [allocateSubGroupsInner] at h
    split at h
    · exact absurd h (by simp)
    · split at h
      · obtain ⟨h1, h2⟩ := ih _ _ _ _ _ _ h
        exact ⟨⟨h1.1, h1.2, h1.3, h1.4, h1.5, h1.6, h1.7, h1.8, h1.9, h1.10, h1.11⟩, h2⟩
      · obtain ⟨h1, h2⟩ := ih _ _ _ _ _ _ h
        exact ⟨⟨h1.1, h1.2, h1.3, h1.4, h1.5, h1.6, h1.7, h1.8, h1.9, h1.10, h1.11⟩, h2⟩

theorem allocateSubGroupsOuter_static (allocGroup : GrpAllocator → AllocResult)
    (loc : String) (sr sa : GoMap (GoMap (GoMap String))) :
    ∀ (l : List String) (grp : GrpAllocator) (found : Bool) (pf : List PredicateFailureReason)
      (grp' : GrpAllocator) (found' : Bool) (pf' : List PredicateFailureReason),
      allocateSubGroupsOuter allocGroup loc sr sa l grp found pf = .ok (grp', found', pf') →
      SameStatic grp grp' ∧ grp'.IsReqSubGrp = grp.IsReqSubGrp := by
  intro l
  induction l with
  | nil =>
    intro grp found pf grp' found' pf' h
    simp only [allocateSubGroupsOuter, Except.ok.injEq, Prod.mk.injEq] at h
    obtain ⟨rfl, -, -⟩ := h
    exact ⟨SameStatic.refl _, rfl⟩
  | cons key t ih =>
    intro grp found pf grp' found' pf' h
    simp only [allocateSubGroupsOuter] at h
    split at h
    · exact absurd h (by simp)
    · rename_i g1 f1 p1 hin
      obtain ⟨h1, h2⟩ := allocateSubGroupsInner_static _ _ _ _ _ _ _ _ _ _ _ _ hin
      obtain ⟨h3, h4⟩ := ih _ _ _ _ _ _ h
      exact ⟨h1.trans h3, h4.trans h2⟩

theorem allocateGroupAt_static (allocGroup : GrpAllocator → AllocResult) (grp : GrpAllocator)
    (location : String) (sr : GoMap (GoMap (GoMap String)))
    (grp' : GrpAllocator) (found' : Bool) (pf' : List PredicateFailureReason)
    (h : allocateGroupAt allocGroup grp location sr = .ok (grp', found', pf')) :
    SameStatic grp grp' ∧ grp'.IsReqSubGrp = grp.IsReqSubGrp := by
  unfold allocateGroupAt at h
  simp only at h
  split at h
  · exact absurd h (by simp)
  · rename_i g1 f1 p1 hra
    obtain ⟨a1, a2, -⟩ := resourceAvailableLoop_static _ _ _ _ _ _ _ _ hra
    have a1' : SameStatic grp g1 :=
      ⟨a1.1, a1.2, a1.3, a1.4, a1.5, a1.6, a1.7, a1.8, a1.9, a1.10, a1.11⟩
    have a2' : g1.IsReqSubGrp = grp.IsReqSubGrp := a2
    split at h
    · exact absurd h (by simp)
    · rename_i g2 f2 p2 hsg
      obtain ⟨b1, b2⟩ := allocateSubGroupsOuter_static _ _ _ _ _ _ _ _ _ _ _ hsg
      split at h
      · split at h
        · exact absurd h (by simp)
        · rename_i g3 f3 p3 hfs
          obtain ⟨c1, c2, -, -, -⟩ := findScoreAndUpdate_spec _ _ _ _ _ hfs
          have c1' : SameStatic g2 g3 :=
            ⟨c1.1, c1.2, c1.3, c1.4, c1.5, c1.6, c1.7, c1.8, c1.9, c1.10, c1.11⟩
          have c2' : g3.IsReqSubGrp = g2.IsReqSubGrp := c2
          split at h
          · simp only [Except.ok.injEq, Prod.mk.injEq] at h
            obtain ⟨rfl, -, -⟩ := h
            exact ⟨(a1'.trans b1).trans c1', c2'.trans (b2.trans a2')⟩
          · simp only [Except.ok.injEq, Prod.mk.injEq] at h
            obtain ⟨rfl, -, -⟩ := h
            exact ⟨(a1'.trans b1).trans c1', c2'.trans (b2.trans a2')⟩
      · simp only [Except.ok.injEq, Prod.mk.injEq] at h
        obtain ⟨rfl, -, -⟩ := h
        exact ⟨a1'.trans b1, b2.trans a2'⟩

theorem allocateSubGroupsInner_inv {R A : String → Prop} {Q : GoMap String → Prop}
    (hQ : SetClosed R A Q)
    (allocGroup : GrpAllocator → AllocResult) (hrec : RecInv R A Q allocGroup)
    (loc : String) (sr sa : GoMap (GoMap (GoMap String))) (hsr : Sub3Vals R sr)
    (hsa : Sub3Vals A sa) (key : String) :
    ∀ (l : List String) (grp : GrpAllocator) (found : Bool) (pf : List PredicateFailureReason)
      (grp' : GrpAllocator) (found' : Bool) (pf' : List PredicateFailureReason),
      Q grp.AllocateFrom →
      allocateSubGroupsInner allocGroup loc sr sa key l grp found pf = .ok (grp', found', pf') →
      Q grp'.AllocateFrom := by
  intro l
  induction l with
  | nil =>
    intro grp found pf grp' found' pf' haf h
    simp only [allocateSubGroupsInner, Except.ok.injEq, Prod.mk.injEq] at h
    obtain ⟨rfl, -, -⟩ := h
    exact haf
  | cons idx t ih =>
    intro grp found pf grp' found' pf' haf h
    simp only [allocateSubGroupsInner] at h
    split at h
    · exact absurd h (by simp)
    · rename_i s1 fs rs hs
      have hs1 : Q s1.AllocateFrom :=
        hrec (createSubGroup grp loc sr sa key idx) s1 fs rs
          (Sub2Vals_getD (Sub3Vals_getD hsr key) idx) (Sub3Vals_getD hsa key) haf hs
      split at h
      · exact ih _ _ _ _ _ _ (by exact haf) h
      · exact ih _ _ _ _ _ _ (by exact hs1) h

theorem allocateSubGroupsOuter_inv {R A : String → Prop} {Q : GoMap String → Prop}
    (hQ : SetClosed R A Q)
    (allocGroup : GrpAllocator → AllocResult) (hrec : RecInv R A Q allocGroup)
    (loc : String) (sr sa : GoMap (GoMap (GoMap String))) (hsr : Sub3Vals R sr)
    (hsa : Sub3Vals A sa) :
    ∀ (l : List String) (grp : GrpAllocator) (found : Bool) (pf : List PredicateFailureReason)
      (grp' : GrpAllocator) (found' : Bool) (pf' : List PredicateFailureReason),
      Q grp.AllocateFrom →
      allocateSubGroupsOuter allocGroup loc sr sa l grp found pf = .ok (grp', found', pf') →
      Q grp'.AllocateFrom := by
  intro l
  induction l with
  | nil =>
    intro grp found pf grp' found' pf' haf h
    simp only [allocateSubGroupsOuter, Except.ok.injEq, Prod.mk.injEq] at h
    obtain ⟨rfl, -, -⟩ := h
    exact haf
  | cons key t ih =>
    intro grp found pf grp' found' pf' haf h
    simp only [allocateSubGroupsOuter] at h
    split at h
    · exact absurd h (by simp)
    · rename_i g1 f1 p1 hin
      exact ih _ _ _ _ _ _
        (allocateSubGroupsInner_inv hQ allocGroup hrec loc sr sa hsr hsa key _ _ _ _ _ _ _ haf hin) h

theorem allocateGroupAt_inv {R A : String → Prop} {Q : GoMap String → Prop}
    (hQ : SetClosed R A Q)
    (allocGroup : GrpAllocator → AllocResult) (hrec : RecInv R A Q allocGroup)
    (grp : GrpAllocator) (location : String) (sr : GoMap (GoMap (GoMap String)))
    (hsr : Sub3Vals R sr) (hR : Sub1Vals R grp.GrpRequiredResource)
    (hA : Sub1Vals A (grp.GrpAllocResource.getD location [])) (haf : Q grp.AllocateFrom)
    (grp' : GrpAllocator) (found' : Bool) (pf' : List PredicateFailureReason)
    (h : allocateGroupAt allocGroup grp location sr = .ok (grp', found', pf')) :
    Q grp'.AllocateFrom := by
  unfold allocateGroupAt at h
  simp only at h
  split at h
  · exact absurd h (by simp)
  · rename_i g1 f1 p1 hra
    have h1 : Q g1.AllocateFrom :=
      resourceAvailableLoop_inv (R := R) hQ _ hA _ _ _ _ _ _ _
        (by exact hR) (by exact haf) hra
    split at h
    · exact absurd h (by simp)
    · rename_i g2 f2 p2 hsg
      have h2 : Q g2.AllocateFrom :=
        allocateSubGroupsOuter_inv hQ allocGroup hrec _ _ _ hsr
          (findSubGroups_vals _ _ hA) _ _ _ _ _ _ _ h1 hsg
      split at h
      · split at h
        · exact absurd h (by simp)
        · rename_i g3 f3 p3 hfs
          obtain ⟨-, -, -, c4, -⟩ := findScoreAndUpdate_spec _ _ _ _ _ hfs
          have h3 : Q g3.AllocateFrom := by rw [c4]; exact h2
          split at h
          · simp only [Except.ok.injEq, Prod.mk.injEq] at h
            obtain ⟨rfl, -, -⟩ := h
            exact h3
          · simp only [Except.ok.injEq, Prod.mk.injEq] at h
            obtain ⟨rfl, -, -⟩ := h
            exact h3
      · simp only [Except.ok.injEq, Prod.mk.injEq] at h
        obtain ⟨rfl, -, -⟩ := h
        exact h2

/-! ## The search loop and the trace of its candidates -/

/-- The loop variables of `allocateGroup` hold the candidate `cur` (the receiver
`g0` itself when `cur` is `none`). -/
def HoldsCand (g0 : GrpAllocator) (cur : Option Candidate) (st : SearchState) : Prop :=
  st.anyFind = cur.isSome ∧
  match cur with
  | some m => st.maxScoreGrp = m.grp ∧ st.maxIsUsedGroup = m.isUsed ∧ st.maxScoreKey = m.key ∧
      st.maxGroupName = g0.AllocBaseGroupPrefix ++ "/" ++ m.key
  | none => st.maxScoreGrp = g0 ∧ st.maxIsUsedGroup = false

theorem holdsCand_step (g0 G : GrpAllocator) (st : SearchState) (cur : Option Candidate)
    (key : String) (g1 : GrpAllocator) (found isUsed : Bool)
    (reasons pf : List PredicateFailureReason) (hc : HoldsCand g0 cur st) :
    HoldsCand g0 (selectStep g0.PreferUsed g0.Score cur ⟨key, g1, found, isUsed, reasons⟩)
      { grp := G
        anyFind :=
          if (found && takeNew g0.PreferUsed st.maxIsUsedGroup isUsed g1.Score
            st.maxScoreGrp.Score) = true then true else st.anyFind
        maxScoreKey :=
          if (found && takeNew g0.PreferUsed st.maxIsUsedGroup isUsed g1.Score
            st.maxScoreGrp.Score) = true then key else st.maxScoreKey
        maxScoreGrp :=
          if (found && takeNew g0.PreferUsed st.maxIsUsedGroup isUsed g1.Score
            st.maxScoreGrp.Score) = true then g1 else st.maxScoreGrp
        maxIsUsedGroup :=
          if (found && takeNew g0.PreferUsed st.maxIsUsedGroup isUsed g1.Score
            st.maxScoreGrp.Score) = true then isUsed else st.maxIsUsedGroup
        maxGroupName :=
          if (found && takeNew g0.PreferUsed st.maxIsUsedGroup isUsed g1.Score
            st.maxScoreGrp.Score) = true then g0.AllocBaseGroupPrefix ++ "/" ++ key
          else st.maxGroupName
        predicateFails := pf } := by
  obtain ⟨hany, hm⟩ := hc
  cases cur with
  | none =>
    simp only at hm
    obtain ⟨hm1, hm2⟩ := hm
    simp only [selectStep, hm1, hm2]
    by_cases ht : (found && takeNew g0.PreferUsed false isUsed g1.Score g0.Score) = true
    · simp only [ht, if_true]
      exact ⟨rfl, rfl, rfl, rfl, rfl⟩
    · simp only [ht, Bool.false_eq_true, if_false]
      exact ⟨hany, rfl, rfl⟩
  | some m =>
    simp only at hm
    obtain ⟨hm1, hm2, hm3, hm4⟩ := hm
    simp only [selectStep, hm1, hm2]
    by_cases ht : (found && takeNew g0.PreferUsed m.isUsed isUsed g1.Score m.grp.Score) = true
    · simp only [ht, if_true]
      exact ⟨rfl, rfl, rfl, rfl, rfl⟩
    · simp only [ht, Bool.false_eq_true, if_false]
      exact ⟨hany, rfl, rfl, hm3, hm4⟩

theorem allocateGroupLoop_candidates (allocGroup : GrpAllocator → AllocResult)
    (sr : GoMap (GoMap (GoMap String))) (g0 : GrpAllocator) :
    ∀ (keys : List String) (st st' : SearchState) (cur : Option Candidate),
      st.grp = { g0 with UsedGroups := st.grp.UsedGroups } →
      HoldsCand g0 cur st →
      allocateGroupLoop allocGroup sr keys st = .ok st' →
      ∃ cs grpF, candidates allocGroup sr keys st.grp = .ok (cs, grpF) ∧ st'.grp = grpF ∧
        grpF = { g0 with UsedGroups := grpF.UsedGroups } ∧
        HoldsCand g0 (cs.foldl (selectStep g0.PreferUsed g0.Score) cur) st' ∧
        st'.predicateFails = st.predicateFails ++
          (if g0.GrpAllocResource.length = 1 then (cs.map (fun c => c.reasons)).flatten
            else []) := by
  intro keys
  induction keys with
  | nil =>
    intro st st' cur hg hc h
    simp only [allocateGroupLoop, Except.ok.injEq] at h
    subst h
    refine ⟨[], st.grp, rfl, rfl, hg, hc, ?_⟩
    simp
  | cons key rest ih =>
    intro st st' cur hg hc h
    simp only [allocateGroupLoop] at h
    split at h
    · exact absurd h (by simp)
    · rename_i g1 found reasons hat
      have hpre : st.grp.AllocBaseGroupPrefix = g0.AllocBaseGroupPrefix := by rw [hg]
      have hpu : st.grp.PreferUsed = g0.PreferUsed := by rw [hg]
      have hlen : st.grp.GrpAllocResource = g0.GrpAllocResource := by rw [hg]
      have hg1 : ({ st.grp with UsedGroups := g1.UsedGroups } : GrpAllocator) =
          { g0 with UsedGroups := g1.UsedGroups } := by rw [hg]
      obtain ⟨cs, grpF, hcs, hF, hFg, hhold, hpf⟩ := ih _ st'
        (selectStep g0.PreferUsed g0.Score cur ⟨key, g1, found,
          g1.UsedGroups.getD (g0.AllocBaseGroupPrefix ++ "/" ++ key) false, reasons⟩)
        (by exact hg1)
        (by
          simp only [hpu, hpre]
          exact holdsCand_step g0 _ st cur key g1 found _ reasons _ hc)
        h
      refine ⟨⟨key, g1, found, g1.UsedGroups.getD (g0.AllocBaseGroupPrefix ++ "/" ++ key) false,
        reasons⟩ :: cs, grpF, ?_, hF, hFg, ?_, ?_⟩
      · simp only [candidates]
        rw [hat]
        simp only
        rw [hcs]
        simp only [hpre]
      · exact hhold
      · rw [hpf]
        simp only [hlen]
        split_ifs <;> simp [List.append_assoc]

theorem candidates_spec (allocGroup : GrpAllocator → AllocResult)
    (sr : GoMap (GoMap (GoMap String))) (g0 : GrpAllocator) :
    ∀ (keys : List String) (g : GrpAllocator) (cs : List Candidate) (gF : GrpAllocator),
      g = { g0 with UsedGroups := g.UsedGroups } →
      candidates allocGroup sr keys g = .ok (cs, gF) →
      cs.map (fun c => c.key) = keys ∧
      ∀ c ∈ cs, ∃ ug, allocateGroupAt allocGroup { g0 with UsedGroups := ug } c.key sr =
          .ok (c.grp, c.found, c.reasons) ∧
        c.isUsed = c.grp.UsedGroups.getD (g0.AllocBaseGroupPrefix ++ "/" ++ c.key) false := by
  intro keys
  induction keys with
  | nil =>
    intro g cs gF _ h
    simp only [candidates, Except.ok.injEq, Prod.mk.injEq] at h
    obtain ⟨rfl, -⟩ := h
    simp
  | cons key rest ih =>
    intro g cs gF hg h
    simp only [candidates] at h
    split at h
    · exact absurd h (by simp)
    · rename_i g1 found reasons hat
      have hpre : g.AllocBaseGroupPrefix = g0.AllocBaseGroupPrefix := by rw [hg]
      have hg1 : ({ g with UsedGroups := g1.UsedGroups } : GrpAllocator) =
          { g0 with UsedGroups := g1.UsedGroups } := by rw [hg]
      split at h
      · exact absurd h (by simp)
      · rename_i cs' gF' hcs
        simp only [Except.ok.injEq, Prod.mk.injEq] at h
        obtain ⟨rfl, rfl⟩ := h
        obtain ⟨h1, h2⟩ := ih _ _ _ (by exact hg1) hcs
        refine ⟨by simp [h1], ?_⟩
        intro c hc
        rcases List.mem_cons.1 hc with rfl | hc
        · refine ⟨g.UsedGroups, ?_, ?_⟩
          · simp only
            rw [← hg]
            exact hat
          · simp only [hpre]
        · exact h2 c hc

theorem allocateGroupBody_spec (allocGroup : GrpAllocator → AllocResult) (grp grp' : GrpAllocator)
    (found : Bool) (rs : List PredicateFailureReason)
    (hne : grp.GrpRequiredResource.length ≠ 0)
    (h : allocateGroupBody allocGroup grp = .ok (grp', found, rs)) :
    ∃ cs gF,
      candidates allocGroup (findSubGroups grp.ReqBaseGroupName grp.GrpRequiredResource).1
        (SortedStringKeys grp.GrpAllocResource)
        { grp with IsReqSubGrp :=
            (findSubGroups grp.ReqBaseGroupName grp.GrpRequiredResource).2 } = .ok (cs, gF) ∧
      gF = { grp with
        IsReqSubGrp := (findSubGroups grp.ReqBaseGroupName grp.GrpRequiredResource).2
        UsedGroups := gF.UsedGroups } ∧
      match selectCandidate grp.PreferUsed grp.Score cs with
      | some m => found = true ∧ rs = [] ∧
          grp' = { takeGroup gF m.grp with
            UsedGroups := gF.UsedGroups.set (grp.AllocBaseGroupPrefix ++ "/" ++ m.key) true }
      | none => found = false ∧ grp' = gF ∧
          rs = if grp.GrpAllocResource.length = 1 then (cs.map (fun c => c.reasons)).flatten
            else [] := by
  unfold allocateGroupBody at h
  rw [if_neg hne] at h
  simp only at h
  split at h
  · exact absurd h (by simp)
  · rename_i st hst
    obtain ⟨cs, gF, hcs, hF, hFg, hhold, hpf⟩ :=
      allocateGroupLoop_candidates allocGroup _
        { grp with IsReqSubGrp :=
            (findSubGroups grp.ReqBaseGroupName grp.GrpRequiredResource).2 }
        _ _ st none rfl ⟨rfl, rfl, rfl⟩ hst
    refine ⟨cs, gF, hcs, hFg, ?_⟩
    obtain ⟨hany, hm⟩ := hhold
    unfold selectCandidate
    simp only at hpf hm hany ⊢
    cases hsel : List.foldl (selectStep grp.PreferUsed grp.Score) none cs with
    | none =>
      rw [hsel] at hm hany
      simp only [Option.isSome_none] at hany
      simp only at hm
      rw [hany] at h
      simp only [Bool.false_eq_true, if_false, Except.ok.injEq, Prod.mk.injEq] at h
      obtain ⟨rfl, rfl, rfl⟩ := h
      refine ⟨rfl, ?_, ?_⟩
      · rw [hm.1, hF, hFg]
        rfl
      · rw [hpf]; simp
    | some m =>
      rw [hsel] at hm hany
      simp only [Option.isSome_some] at hany
      simp only at hm
      rw [hany] at h
      simp only [if_true, Except.ok.injEq, Prod.mk.injEq] at h
      obtain ⟨rfl, rfl, rfl⟩ := h
      refine ⟨rfl, rfl, ?_⟩
      rw [hm.1, hF, hm.2.2.2]
      rfl

theorem selectStep_cases (pu : Bool) (s0 : ℚ) (cur : Option Candidate) (c : Candidate) :
    (selectStep pu s0 cur c = some c ∧ c.found = true) ∨ selectStep pu s0 cur c = cur := by
  unfold selectStep
  simp only
  split_ifs with h
  · left
    simp only [Bool.and_eq_true] at h
    exact ⟨rfl, h.1⟩
  · right; rfl

theorem foldl_selectStep_mem (pu : Bool) (s0 : ℚ) :
    ∀ (cs : List Candidate) (cur : Option Candidate) (m : Candidate),
      cs.foldl (selectStep pu s0) cur = some m →
      cur = some m ∨ (m ∈ cs ∧ m.found = true) := by
  intro cs
  induction cs with
  | nil => intro cur m h; left; exact h
  | cons c t ih =>
    intro cur m h
    simp only [List.foldl_cons] at h
    rcases ih _ _ h with h1 | ⟨h1, h2⟩
    · rcases selectStep_cases pu s0 cur c with ⟨h3, h4⟩ | h3
      · rw [h3] at h1
        simp only [Option.some.injEq] at h1
        subst h1
        right; exact ⟨List.mem_cons_self _ _, h4⟩
      · left; rw [← h3]; exact h1
    · right; exact ⟨List.mem_cons_of_mem _ h1, h2⟩

theorem selectCandidate_mem (pu : Bool) (s0 : ℚ) (cs : List Candidate) (m : Candidate)
    (h : selectCandidate pu s0 cs = some m) : m ∈ cs ∧ m.found = true := by
  rcases foldl_selectStep_mem pu s0 cs none m h with h | h
  · cases h
  · exact h

theorem allocateGroupAt_found (allocGroup : GrpAllocator → AllocResult) (grp : GrpAllocator)
    (location : String) (sr : GoMap (GoMap (GoMap String)))
    (grp' : GrpAllocator) (pf' : List PredicateFailureReason)
    (h : allocateGroupAt allocGroup grp location sr = .ok (grp', true, pf')) :
    ∀ kv ∈ grp.GrpRequiredResource,
      (grp.AllocResource.get? (grp'.AllocateFrom.getD kv.2 "")).isSome := by
  unfold allocateGroupAt at h
  simp only at h
  split at h
  · exact absurd h (by simp)
  · rename_i g1 f1 p1 hra
    obtain ⟨a1, -, -⟩ := resourceAvailableLoop_static _ _ _ _ _ _ _ _ hra
    split at h
    · exact absurd h (by simp)
    · rename_i g2 f2 p2 hsg
      obtain ⟨b1, -⟩ := allocateSubGroupsOuter_static _ _ _ _ _ _ _ _ _ _ _ hsg
      split at h
      · split at h
        · exact absurd h (by simp)
        · rename_i g3 f3 p3 hfs
          obtain ⟨-, -, -, c4, c5⟩ := findScoreAndUpdate_spec _ _ _ _ _ hfs
          split at h
          · simp at h
          · rename_i hf3
            simp only [Except.ok.injEq, Prod.mk.injEq] at h
            obtain ⟨rfl, -, -⟩ := h
            have hf3' : f3 = true := by simpa using hf3
            have := c5 hf3'
            intro kv hkv
            have hR : (resetGroup g2 (cloneGroup
                { grp with IsAllocSubGrp := (findSubGroups (grp.AllocBaseGroupPrefix ++ "/" ++
                  location) (grp.GrpAllocResource.getD location [])).2 })).GrpRequiredResource =
                grp.GrpRequiredResource := by
              show g2.GrpRequiredResource = _
              rw [b1.grpRequiredResource]; exact a1.grpRequiredResource
            have hA : (resetGroup g2 (cloneGroup
                { grp with IsAllocSubGrp := (findSubGroups (grp.AllocBaseGroupPrefix ++ "/" ++
                  location) (grp.GrpAllocResource.getD location [])).2 })).AllocResource =
                grp.AllocResource := by
              show g2.AllocResource = _
              rw [b1.allocResource]; exact a1.allocResource
            rw [hR, hA] at this
            rw [c4]
            exact this kv hkv
      · simp at h

theorem allocateGroupBody_inv {R A : String → Prop} {Q : GoMap String → Prop}
    (hQ : SetClosed R A Q)
    (allocGroup : GrpAllocator → AllocResult) (hrec : RecInv R A Q allocGroup) :
    RecInv R A Q (allocateGroupBody allocGroup) := by
  intro grp grp' found rs hR hA haf h
  by_cases hne : grp.GrpRequiredResource.length = 0
  · unfold allocateGroupBody at h
    rw [if_pos hne] at h
    simp only [Except.ok.injEq, Prod.mk.injEq] at h
    obtain ⟨rfl, -, -⟩ := h
    exact haf
  · obtain ⟨cs, gF, hcs, hgF, hsel⟩ := allocateGroupBody_spec allocGroup grp grp' found rs hne h
    obtain ⟨-, hmem⟩ := candidates_spec allocGroup _
      { grp with IsReqSubGrp := (findSubGroups grp.ReqBaseGroupName grp.GrpRequiredResource).2 }
      _ _ cs gF rfl hcs
    cases hs : selectCandidate grp.PreferUsed grp.Score cs with
    | none =>
      rw [hs] at hsel
      obtain ⟨-, rfl, -⟩ := hsel
      rw [hgF]
      exact haf
    | some m =>
      rw [hs] at hsel
      obtain ⟨-, -, rfl⟩ := hsel
      obtain ⟨hm, -⟩ := selectCandidate_mem _ _ _ _ hs
      obtain ⟨ug, hat, -⟩ := hmem m hm
      show Q m.grp.AllocateFrom
      exact allocateGroupAt_inv hQ allocGroup hrec _ _ _
        (findSubGroups_vals _ _ hR) (by exact hR) (by exact Sub2Vals_getD hA _) (by exact haf)
        _ _ _ hat

theorem allocateGroup_inv {R A : String → Prop} {Q : GoMap String → Prop}
    (hQ : SetClosed R A Q) : ∀ fuel, RecInv R A Q (allocateGroup fuel) := by
  intro fuel
  induction fuel with
  | zero => intro grp grp' found rs _ _ _ h; simp [allocateGroup] at h
  | succ n ih => exact allocateGroupBody_inv hQ _ ih

theorem allocateGroup_found_covers (fuel : Nat) (grp grp' : GrpAllocator)
    (rs : List PredicateFailureReason) (h : allocateGroup fuel grp = .ok (grp', true, rs)) :
    ∀ kv ∈ grp.GrpRequiredResource,
      (grp.AllocResource.get? (grp'.AllocateFrom.getD kv.2 "")).isSome := by
  cases fuel with
  | zero => simp [allocateGroup] at h
  | succ n =>
    simp only [allocateGroup] at h
    by_cases hne : grp.GrpRequiredResource.length = 0
    · intro kv hkv
      have : grp.GrpRequiredResource = [] := List.length_eq_zero.1 hne
      rw [this] at hkv
      cases hkv
    · obtain ⟨cs, gF, hcs, hgF, hsel⟩ := allocateGroupBody_spec _ grp grp' true rs hne h
      obtain ⟨-, hmem⟩ := candidates_spec _ _
        { grp with IsReqSubGrp := (findSubGroups grp.ReqBaseGroupName grp.GrpRequiredResource).2 }
        _ _ cs gF rfl hcs
      cases hs : selectCandidate grp.PreferUsed grp.Score cs with
      | none =>
        rw [hs] at hsel
        exact absurd hsel.1 (by simp)
      | some m =>
        rw [hs] at hsel
        obtain ⟨-, -, rfl⟩ := hsel
        obtain ⟨hm, hf⟩ := selectCandidate_mem _ _ _ _ hs
        obtain ⟨ug, hat, -⟩ := hmem m hm
        rw [hf] at hat
        have hcov := allocateGroupAt_found _ _ _ _ _ _ hat
        exact hcov

/-! ## The per-container driver: collected requests and allocatable keys -/

namespace GoMap

theorem contains_iff_mem_keys {V : Type} (m : GoMap V) (k : String) :
    m.contains k = true ↔ k ∈ m.keys := by
  induction m with
  | nil => simp [contains, get?, keys]
  | cons p t ih =>
    obtain ⟨a, b⟩ := p
    simp only [contains, get?, keys, List.map_cons, List.mem_cons] at ih ⊢
    by_cases h : a = k
    · simp [h]
    · have h' : ¬ k = a := fun e => h e.symm
      simp only [h, if_false, h', false_or]
      exact ih

theorem mem_keys_of_mem {V : Type} {m : GoMap V} {k : String} {v : V} (h : (k, v) ∈ m) :
    k ∈ m.keys := List.mem_map.2 ⟨(k, v), h, rfl⟩

theorem get?_of_mem_keys {V : Type} {m : GoMap V} {k : String} (h : k ∈ m.keys) :
    ∃ v, m.get? k = some v := by
  have := (contains_iff_mem_keys m k).2 h
  unfold contains at this
  exact Option.isSome_iff_exists.1 this

theorem keys_set {V : Type} (m : GoMap V) (k k' : String) (v : V) :
    k' ∈ (m.set k v).keys ↔ k' = k ∨ k' ∈ m.keys := by
  rw [← contains_iff_mem_keys, ← contains_iff_mem_keys]
  unfold contains
  rw [get?_set]
  by_cases h : k = k'
  · simp [h]
  · have h' : ¬ k' = k := fun e => h e.symm
    simp [h, h']

end GoMap

theorem mem_copyInto {V : Type} :
    ∀ (src dst : GoMap V) (p : String × V), p ∈ copyInto src dst → p ∈ src ∨ p ∈ dst := by
  intro src
  induction src with
  | nil => intro dst p h; right; exact h
  | cons q t ih =>
    obtain ⟨k, v⟩ := q
    intro dst p h
    simp only [copyInto] at h
    rcases ih _ _ h with h | h
    · left; exact List.mem_cons_of_mem _ h
    · rcases GoMap.mem_set h with h | h
      · left; rw [h]; exact List.mem_cons_self _ _
      · right; exact h

theorem keys_copyInto {V : Type} :
    ∀ (src dst : GoMap V) (k : String),
      k ∈ (copyInto src dst).keys ↔ k ∈ src.keys ∨ k ∈ dst.keys := by
  intro src
  induction src with
  | nil => intro dst k; simp [copyInto, GoMap.keys]
  | cons q t ih =>
    obtain ⟨a, v⟩ := q
    intro dst k
    simp only [copyInto]
    rw [ih, GoMap.keys_set]
    simp only [GoMap.keys, List.map_cons, List.mem_cons]
    tauto

/-- The requirement keys that the allocator handles: the keys of `DevRequests`
that are not prechecked. -/
def IsGroupRequest (env : Env) (contReq : ContainerInfo) (k : String) : Prop :=
  k ∈ contReq.DevRequests.keys ∧ env.PrecheckedResource k = false

/-- The allocatable keys that the allocator handles: the keys of `Allocatable`
that are not prechecked. -/
def IsGroupAllocatable (env : Env) (allocatable : GoMap Int) (k : String) : Prop :=
  k ∈ allocatable.keys ∧ env.PrecheckedResource k = false

theorem collectRequests_spec (env : Env) (contReq : ContainerInfo) (R : String → Prop) :
    ∀ (l : GoMap Int) (acc : GoMap String × GoMap Int × GoMap (Option ResourceScoreFunc)),
      (∀ kv ∈ l, env.PrecheckedResource kv.1 = false → R kv.1) →
      Sub1Vals R acc.1 →
      Sub1Vals R (collectRequests env contReq l acc).1 ∧
      (∀ k, acc.1.get? k = some k → (collectRequests env contReq l acc).1.get? k = some k) ∧
      (∀ kv ∈ l, env.PrecheckedResource kv.1 = false →
        (collectRequests env contReq l acc).1.get? kv.1 = some kv.1) := by
  intro l
  induction l with
  | nil =>
    intro acc _ hacc
    exact ⟨hacc, fun _ h => h, by simp⟩
  | cons p t ih =>
    obtain ⟨k, v⟩ := p
    intro acc hl hacc
    obtain ⟨reqName, req, reqScorer⟩ := acc
    have ht : ∀ kv ∈ t, env.PrecheckedResource kv.1 = false → R kv.1 :=
      fun kv h => hl kv (List.mem_cons_of_mem _ h)
    simp only [collectRequests]
    by_cases hp : env.PrecheckedResource k = true
    · simp only [hp, Bool.not_true, Bool.false_eq_true, if_false]
      obtain ⟨h1, h2, h3⟩ := ih (reqName, req, reqScorer) ht hacc
      refine ⟨h1, h2, ?_⟩
      intro kv hkv hpk
      rcases List.mem_cons.1 hkv with rfl | hkv
      · simp only at hpk; rw [hp] at hpk; cases hpk
      · exact h3 kv hkv hpk
    · have hp' : env.PrecheckedResource k = false := by simpa using hp
      simp only [hp', Bool.not_false, if_true]
      have hk : R k := hl (k, v) (List.mem_cons_self _ _) hp'
      obtain ⟨h1, h2, h3⟩ := ih (reqName.set k k, req.set k v, reqScorer.set k _) ht
        (Sub1Vals_set hacc hk)
      refine ⟨h1, ?_, ?_⟩
      · intro k' hk'
        apply h2
        simp only
        rw [GoMap.get?_set]
        by_cases e : k = k'
        · simp [e]
        · simp only [e, if_false]; exact hk'
      · intro kv hkv hpk
        rcases List.mem_cons.1 hkv with rfl | hkv
        · apply h2
          simp only
          rw [GoMap.get?_set]
          simp
        · exact h3 kv hkv hpk

theorem collectAllocatable_spec (env : Env) (grpName : String) (A : String → Prop) :
    ∀ (l : GoMap Int) (acc : GoMap (GoMap String) × GoMap Int),
      (∀ kv ∈ l, env.PrecheckedResource kv.1 = false → A kv.1) →
      Sub2Vals A acc.1 → (∀ k, k ∈ acc.2.keys → A k) →
      Sub2Vals A (collectAllocatable env grpName l acc).1 ∧
      (∀ k, k ∈ (collectAllocatable env grpName l acc).2.keys → A k) := by
  intro l
  induction l with
  | nil => intro acc _ h1 h2; exact ⟨h1, h2⟩
  | cons p t ih =>
    obtain ⟨k, v⟩ := p
    intro acc hl h1 h2
    obtain ⟨allocName, alloc⟩ := acc
    have ht : ∀ kv ∈ t, env.PrecheckedResource kv.1 = false → A kv.1 :=
      fun kv h => hl kv (List.mem_cons_of_mem _ h)
    simp only [collectAllocatable]
    by_cases hp : env.PrecheckedResource k = true
    · simp only [hp, Bool.not_true, Bool.false_eq_true, if_false]
      exact ih _ ht h1 h2
    · have hp' : env.PrecheckedResource k = false := by simpa using hp
      simp only [hp', Bool.not_false, if_true]
      have hk : A k := hl (k, v) (List.mem_cons_self _ _) hp'
      apply ih _ ht (Sub2Vals_AssignMap2 h1 hk)
      intro k' hk'
      rcases (GoMap.keys_set _ _ _ _).1 hk' with rfl | hk'
      · exact hk
      · exact h2 k' hk'

/-- The map `af` is an allocation of the container on the node: its domain is
the set of the requirement keys of `DevRequests` that are not prechecked, and
each of its values is a key of `Allocatable`. -/
def IsAllocationOf (env : Env) (contReq : ContainerInfo) (allocatable : GoMap Int)
    (af : GoMap String) : Prop :=
  (∀ k, k ∈ af.keys ↔ (k ∈ contReq.DevRequests.keys ∧ env.PrecheckedResource k = false)) ∧
  (∀ k v, (k, v) ∈ af → v ∈ allocatable.keys)

/-- Claim C1. For every node and every container whose `AllocateFrom` is unset,
if `containerFitsGroupConstraints` (which then runs the search `allocateGroup`)
reports `found = true`, the domain of the `AllocateFrom` it produces is exactly
the set of the requirement keys of `DevRequests` that are not prechecked, and
every value is a key of the node's `Allocatable`; with `bSetAllocateFrom` the
same holds of the map written into the container. The empty name is assumed to
be prechecked (it is not a group resource). -/
theorem containerFits_search_allocation (env : Env) (contName : String) (contReq : ContainerInfo)
    (initContainer : Bool) (allocatable : GoMap Int) (allocScorer : GoMap ResourceScoreFunc)
    (podResource nodeResource : GoMap Int) (usedGroups : GoMap Bool)
    (bPreferUsed bSetAllocateFrom : Bool) (r : ContainerFit)
    (hempty : env.PrecheckedResource "" = true)
    (hunset : contReq.AllocateFrom = none)
    (hrun : containerFitsGroupConstraints env contName contReq initContainer allocatable
      allocScorer podResource nodeResource usedGroups bPreferUsed bSetAllocateFrom = .ok r)
    (hfit : r.found = true) :
    IsAllocationOf env contReq allocatable r.grp.AllocateFrom ∧
    (bSetAllocateFrom = true →
      ∃ af, r.contReq.AllocateFrom = some af ∧ IsAllocationOf env contReq allocatable af) := by
  unfold containerFitsGroupConstraints at hrun
  generalize hcr : collectRequests env contReq contReq.DevRequests ([], [], []) = cr at hrun
  obtain ⟨reqName, req, reqScorer⟩ := cr
  simp only at hrun
  split at hrun
  · exact absurd hrun (by simp)
  · rename_i grpPrefix grpName hpre
    generalize hca : collectAllocatable env grpName allocatable ([], []) = ca at hrun
    obtain ⟨allocName, alloc⟩ := ca
    simp only [hunset, if_true] at hrun
    split at hrun
    · exact absurd hrun (by simp)
    · rename_i grp1 found reasons hag
      simp only [Except.ok.injEq] at hrun
      subst hrun
      simp only at hfit
      subst hfit
      obtain ⟨hR1, -, hR3⟩ := collectRequests_spec env contReq (IsGroupRequest env contReq)
        contReq.DevRequests ([], [], [])
        (fun kv hkv hp => ⟨List.mem_map.2 ⟨kv, hkv, rfl⟩, hp⟩) (Sub1Vals_nil _)
      rw [hcr] at hR1 hR3
      simp only at hR1 hR3
      obtain ⟨hA1, hA2⟩ := collectAllocatable_spec env grpName
        (IsGroupAllocatable env allocatable) allocatable ([], [])
        (fun kv hkv hp => ⟨List.mem_map.2 ⟨kv, hkv, rfl⟩, hp⟩) (Sub2Vals_nil _)
        (by intro k hk; simp [GoMap.keys] at hk)
      rw [hca] at hA1 hA2
      simp only at hA1 hA2
      have hinv := allocateGroup_inv (AFOk_setClosed (IsGroupRequest env contReq)
        (IsGroupAllocatable env allocatable)) _ _ _ _ _ (by exact hR1) (by exact hA1)
        (by exact AFOk_nil _ _) hag
      have hcov := allocateGroup_found_covers _ _ _ _ hag
      simp only at hcov
      have hmain : IsAllocationOf env contReq allocatable grp1.AllocateFrom := by
        constructor
        · intro k
          constructor
          · intro hk
            obtain ⟨v, hv⟩ := GoMap.get?_of_mem_keys hk
            exact (hinv _ (GoMap.mem_of_get? hv)).1
          · rintro ⟨hk, hp⟩
            obtain ⟨v, hv⟩ := List.mem_map.1 hk
            have hget := hR3 v hv.1 (by rw [hv.2]; exact hp)
            rw [hv.2] at hget
            have hc := hcov _ (GoMap.mem_of_get? hget)
            simp only at hc
            rw [← GoMap.contains_iff_mem_keys]
            unfold GoMap.contains
            cases hg : grp1.AllocateFrom.get? k with
            | some x => rfl
            | none =>
              exfalso
              unfold GoMap.getD at hc
              rw [hg] at hc
              simp only [Option.getD_none] at hc
              have : "" ∈ GoMap.keys alloc := by
                rw [← GoMap.contains_iff_mem_keys]
                exact hc
              have := (hA2 _ this).2
              rw [hempty] at this
              cases this
        · intro k v hkv
          exact (hinv _ hkv).2.1
      refine ⟨hmain, ?_⟩
      intro hb
      subst hb
      refine ⟨copyInto grp1.AllocateFrom [], rfl, ?_⟩
      constructor
      · intro k
        rw [keys_copyInto, ← hmain.1 k]
        simp [GoMap.keys]
      · intro k v hkv
        rcases mem_copyInto _ _ _ hkv with h | h
        · exact hmain.2 k v h
        · cases h

/-! ## Scenario S1 -/

/-- The value of a result that is not a fault, `d` for a fault. -/
def okValue {α : Type} (x : Except Fault α) (d : α) : α :=
  match x with
  | .ok a => a
  | .error _ => d

/-- Whether a result is a value. -/
def isValue {α : Type} (x : Except Fault α) : Bool :=
  match x with
  | .ok _ => true
  | .error _ => false

theorem eq_ok_okValue {α : Type} (x : Except Fault α) (d : α) (h : isValue x = true) :
    x = .ok (okValue x d) := by
  cases x with
  | error e => cases h
  | ok a => rfl

/-- The zero value `GrpAllocator{}`. -/
def GrpAllocator.zero : GrpAllocator :=
  ⟨"", false, false, [], [], [], [], [], [], [], [], [], "", "", 0, [], [], []⟩

/-- Scenario S1: the node. -/
def nodeS1 : NodeInfo := ⟨[("r/grp/gpu/0/cards", 8)], [], []⟩

/-- Scenario S1: the container. -/
def contS1 : ContainerInfo := ⟨[("r/grp/gpu/A/cards", 4)], none, []⟩

/-- Scenario S1: the call of `containerFitsGroupConstraints`. -/
def fitS1 : Except Fault ContainerFit :=
  containerFitsGroupConstraints scenarioEnv "c" contS1 false nodeS1.Allocatable
    (setScoreFunc scenarioEnv nodeS1) [] [] [] true true

set_option maxRecDepth 100000 in
theorem fitS1_isValue : isValue fitS1 = true := by decide!

set_option maxRecDepth 100000 in
theorem containerFits_search_allocation_witness :
    scenarioEnv.PrecheckedResource "" = true ∧
    contS1.AllocateFrom = none ∧
    (okValue fitS1 ⟨GrpAllocator.zero, contS1, false, [], 0⟩).found = true ∧
    (okValue fitS1 ⟨GrpAllocator.zero, contS1, false, [], 0⟩).contReq.AllocateFrom =
      some [("r/grp/gpu/A/cards", "r/grp/gpu/0/cards")] ∧
    IsAllocationOf scenarioEnv contS1 nodeS1.Allocatable
      (okValue fitS1 ⟨GrpAllocator.zero, contS1, false, [], 0⟩).grp.AllocateFrom :=
  ⟨by decide!, rfl, by decide!, by decide!,
    (containerFits_search_allocation scenarioEnv "c" contS1 false nodeS1.Allocatable
      (setScoreFunc scenarioEnv nodeS1) [] [] [] true true
      (okValue fitS1 ⟨GrpAllocator.zero, contS1, false, [], 0⟩)
      (by decide!) rfl (eq_ok_okValue fitS1 _ fitS1_isValue) (by decide!)).1⟩

/-! ## The tie-break, on the trace -/

/-- The comparison of a candidate `c` with the candidate `m` that the search
holds, as the tie-break sees it: without the preference for used groups the
scores alone are compared; with it, a used `m` is only compared with used
candidates and an unused `m` has met no used candidate. With `strict` the score
of `c` is below the score of `m`, else it is at most the score of `m`. -/
def Beats (preferUsed strict : Bool) (m c : Candidate) : Prop :=
  let cmp : Prop := if strict then c.grp.Score < m.grp.Score else c.grp.Score ≤ m.grp.Score
  if preferUsed then
    if m.isUsed then c.isUsed = true → cmp else c.isUsed = false ∧ cmp
  else cmp

/-- What the search loop guarantees after visiting `processed`, holding `cur`. -/
def SelectInv (preferUsed : Bool) (s0 : ℚ) (processed : List Candidate)
    (cur : Option Candidate) : Prop :=
  match cur with
  | none => ∀ c ∈ processed, c.found = true →
      c.grp.Score < s0 ∧ (preferUsed = true → c.isUsed = false)
  | some m => ∃ pre post, processed = pre ++ m :: post ∧ m.found = true ∧
      (∀ c ∈ pre, c.found = true → Beats preferUsed false m c) ∧
      (∀ c ∈ post, c.found = true → Beats preferUsed true m c)

theorem Beats.weaken {pu : Bool} {m c : Candidate} (h : Beats pu true m c) :
    Beats pu false m c := by
  unfold Beats at *
  simp only [if_true, Bool.false_eq_true, if_false] at *
  split_ifs at * with h1 h2
  · exact fun hc => le_of_lt (h hc)
  · exact ⟨h.1, le_of_lt h.2⟩
  · exact le_of_lt h

theorem selectInv_step (pu : Bool) (s0 : ℚ) (processed : List Candidate)
    (cur : Option Candidate) (c : Candidate) (h : SelectInv pu s0 processed cur) :
    SelectInv pu s0 (processed ++ [c]) (selectStep pu s0 cur c) := by
  unfold selectStep
  simp only
  by_cases hf : c.found = true
  swap
  · -- an infeasible candidate changes nothing
    have hf' : c.found = false := by simpa using hf
    simp only [hf', Bool.false_and, Bool.false_eq_true, if_false]
    cases cur with
    | none =>
      intro x hx hxf
      rcases List.mem_append.1 hx with hx | hx
      · exact h x hx hxf
      · simp only [List.mem_singleton] at hx
        subst hx
        rw [hf'] at hxf; cases hxf
    | some m =>
      obtain ⟨pre, post, hp, hm, h1, h2⟩ := h
      refine ⟨pre, post ++ [c], by simp [hp], hm, h1, ?_⟩
      intro x hx hxf
      rcases List.mem_append.1 hx with hx | hx
      · exact h2 x hx hxf
      · simp only [List.mem_singleton] at hx
        subst hx
        rw [hf'] at hxf; cases hxf
  · simp only [hf, Bool.true_and]
    cases cur with
    | none =>
      simp only
      by_cases ht : takeNew pu false c.isUsed c.grp.Score s0 = true
      · simp only [ht, if_true]
        refine ⟨processed, [], rfl, hf, ?_, by simp⟩
        intro x hx hxf
        obtain ⟨hx1, hx2⟩ := h x hx hxf
        unfold takeNew at ht
        unfold Beats
        cases pu with
        | false =>
          simp only [Bool.not_false, if_true, decide_eq_true_eq, ge_iff_le] at ht
          simp only [Bool.false_eq_true, if_false]
          exact le_of_lt (lt_of_lt_of_le hx1 ht)
        | true =>
          simp only [Bool.not_true, Bool.false_eq_true, if_false, Bool.or_eq_true,
            decide_eq_true_eq, ge_iff_le] at ht
          simp only [if_true, Bool.false_eq_true, if_false]
          have hxu := hx2 rfl
          split_ifs with hcu
          · intro hxu'; rw [hxu] at hxu'; cases hxu'
          · refine ⟨hxu, ?_⟩
            rcases ht with ht | ht
            · exact absurd ht hcu
            · exact le_of_lt (lt_of_lt_of_le hx1 ht)
      · simp only [ht, Bool.false_eq_true, if_false]
        intro x hx hxf
        rcases List.mem_append.1 hx with hx | hx
        · exact h x hx hxf
        · simp only [List.mem_singleton] at hx
          subst hx
          unfold takeNew at ht
          cases pu with
          | false =>
            simp only [Bool.not_false, if_true, decide_eq_true_eq, ge_iff_le, not_le] at ht
            exact ⟨ht, by simp⟩
          | true =>
            simp only [Bool.not_true, Bool.false_eq_true, if_false, Bool.or_eq_true,
              decide_eq_true_eq, ge_iff_le, not_or, not_le] at ht
            exact ⟨ht.2, fun _ => by simpa using ht.1⟩
    | some m =>
      obtain ⟨pre, post, hp, hm, h1, h2⟩ := h
      simp only
      by_cases ht : takeNew pu m.isUsed c.isUsed c.grp.Score m.grp.Score = true
      · simp only [ht, if_true]
        refine ⟨processed, [], rfl, hf, ?_, by simp⟩
        intro x hx hxf
        -- every earlier feasible candidate is weakly beaten by `m`, and `m` by `c`
        have hxm : x = m ∨ Beats pu false m x := by
          rw [hp] at hx
          rcases List.mem_append.1 hx with hx | hx
          · exact Or.inr (h1 x hx hxf)
          · rcases List.mem_cons.1 hx with hx | hx
            · exact Or.inl hx
            · exact Or.inr (h2 x hx hxf).weaken
        unfold takeNew at ht
        unfold Beats at hxm ⊢
        cases pu with
        | false =>
          simp only [Bool.not_false, if_true, decide_eq_true_eq, ge_iff_le] at ht
          simp only [Bool.false_eq_true, if_false] at hxm ⊢
          rcases hxm with rfl | hxm
          · exact ht
          · exact le_trans hxm ht
        | true =>
          simp only [Bool.not_true, Bool.false_eq_true, if_false] at ht
          simp only [if_true, Bool.false_eq_true, if_false] at hxm ⊢
          by_cases hmu : m.isUsed = true
          · simp only [hmu, if_true, Bool.and_eq_true, decide_eq_true_eq, ge_iff_le] at ht hxm
            simp only [ht.1, if_true]
            rcases hxm with rfl | hxm
            · exact fun _ => ht.2
            · exact fun hxu => le_trans (hxm hxu) ht.2
          · simp only [hmu, Bool.false_eq_true, if_false, Bool.or_eq_true, decide_eq_true_eq,
              ge_iff_le] at ht hxm
            have hmu' : m.isUsed = false := by simpa using hmu
            have hxu : x.isUsed = false := by
              rcases hxm with rfl | hxm
              · exact hmu'
              · exact hxm.1
            split_ifs with hcu
            · intro hxu'; rw [hxu] at hxu'; cases hxu'
            · refine ⟨hxu, ?_⟩
              rcases ht with ht | ht
              · exact absurd ht hcu
              · rcases hxm with rfl | hxm
                · exact ht
                · exact le_trans hxm.2 ht
      · simp only [ht, Bool.false_eq_true, if_false]
        refine ⟨pre, post ++ [c], by simp [hp], hm, h1, ?_⟩
        intro x hx hxf
        rcases List.mem_append.1 hx with hx | hx
        · exact h2 x hx hxf
        · simp only [List.mem_singleton] at hx
          subst hx
          unfold takeNew at ht
          unfold Beats
          cases pu with
          | false =>
            simp only [Bool.not_false, if_true, decide_eq_true_eq, ge_iff_le, not_le] at ht
            simp only [Bool.false_eq_true, if_false, if_true]
            exact ht
          | true =>
            simp only [Bool.not_true, Bool.false_eq_true, if_false] at ht
            simp only [if_true]
            by_cases hmu : m.isUsed = true
            · simp only [hmu, if_true, Bool.and_eq_true, decide_eq_true_eq, ge_iff_le,
                not_and, not_le] at ht ⊢
              exact ht
            · simp only [hmu, Bool.false_eq_true, if_false, Bool.or_eq_true, decide_eq_true_eq,
                ge_iff_le, not_or, not_le] at ht ⊢
              exact ⟨by simpa using ht.1, ht.2⟩

theorem selectInv_foldl (pu : Bool) (s0 : ℚ) :
    ∀ (cs processed : List Candidate) (cur : Option Candidate),
      SelectInv pu s0 processed cur →
      SelectInv pu s0 (processed ++ cs) (cs.foldl (selectStep pu s0) cur) := by
  intro cs
  induction cs with
  | nil => intro processed cur h; simpa using h
  | cons c t ih =>
    intro processed cur h
    have := ih (processed ++ [c]) _ (selectInv_step pu s0 processed cur c h)
    simpa using this

theorem selectCandidate_inv (pu : Bool) (s0 : ℚ) (cs : List Candidate) :
    SelectInv pu s0 cs (selectCandidate pu s0 cs) := by
  have := selectInv_foldl pu s0 cs [] none (by intro c hc; cases hc)
  simpa using this

/-! ## The order of the candidate locations -/

theorem char_eq_of_toNat_eq {a b : Char} (h : a.toNat = b.toNat) : a = b := by
  apply Char.ext
  apply UInt32.ext
  exact h

theorem ltChars_irrefl : ∀ (a : List Char), ltChars a a = false := by
  intro a
  induction a with
  | nil => rfl
  | cons c t ih => simp [ltChars, ih]

theorem ltChars_trans : ∀ (a b c : List Char), ltChars a b = true → ltChars b c = true →
    ltChars a c = true := by
  intro a
  induction a with
  | nil =>
    intro b c h1 h2
    cases b with
    | nil => simp [ltChars] at h1
    | cons y b =>
      cases c with
      | nil => simp [ltChars] at h2
      | cons z c => simp [ltChars]
  | cons x a ih =>
    intro b c h1 h2
    cases b with
    | nil => simp [ltChars] at h1
    | cons y b =>
      cases c with
      | nil => simp [ltChars] at h2
      | cons z c =>
        simp only [ltChars] at h1 h2 ⊢
        by_cases hxy : x.toNat < y.toNat
        · by_cases hyz : y.toNat < z.toNat
          · have : x.toNat < z.toNat := lt_trans hxy hyz
            simp [this]
          · simp only [hyz, if_false] at h2
            by_cases e : y = z
            · subst e; simp [hxy]
            · simp [e] at h2
        · simp only [hxy, if_false] at h1
          by_cases e : x = y
          · subst e
            simp only [if_true] at h1
            by_cases hyz : x.toNat < z.toNat
            · simp [hyz]
            · simp only [hyz, if_false] at h2 ⊢
              by_cases e2 : x = z
              · subst e2
                simp only [if_true] at h2 ⊢
                exact ih _ _ h1 h2
              · simp [e2] at h2
          · simp [e] at h1

theorem ltChars_total : ∀ (a b : List Char), ltChars a b = false → a ≠ b →
    ltChars b a = true := by
  intro a
  induction a with
  | nil =>
    intro b h hne
    cases b with
    | nil => exact absurd rfl hne
    | cons y b => simp [ltChars] at h
  | cons x a ih =>
    intro b h hne
    cases b with
    | nil => simp [ltChars]
    | cons y b =>
      simp only [ltChars] at h ⊢
      by_cases hxy : x.toNat < y.toNat
      · simp [hxy] at h
      · simp only [hxy, if_false] at h
        by_cases e : x = y
        · subst e
          simp only [if_true] at h
          have : a ≠ b := fun e => hne (by rw [e])
          simp [ih b h this]
        · have : y.toNat < x.toNat := by
            rcases Nat.lt_trichotomy x.toNat y.toNat with h1 | h1 | h1
            · exact absurd h1 hxy
            · exact absurd (char_eq_of_toNat_eq h1) e
            · exact h1
          simp [this]

theorem keyLt_trans {a b c : String} (h1 : keyLt a b = true) (h2 : keyLt b c = true) :
    keyLt a c = true := ltChars_trans _ _ _ h1 h2

theorem keyLt_total {a b : String} (h : keyLt a b = false) (hne : a ≠ b) :
    keyLt b a = true :=
  ltChars_total _ _ h (fun e => hne (String.ext e))

theorem mem_insertKey (k x : String) : ∀ (l : List String),
    x ∈ insertKey k l ↔ x = k ∨ x ∈ l := by
  intro l
  induction l with
  | nil => simp [insertKey]
  | cons h t ih =>
    simp only [insertKey]
    split_ifs with h1 h2
    · simp
    · subst h2; simp
    · simp only [List.mem_cons, ih]
      tauto

theorem pairwise_insertKey (k : String) : ∀ (l : List String),
    List.Pairwise (fun a b => keyLt a b = true) l →
    List.Pairwise (fun a b => keyLt a b = true) (insertKey k l) := by
  intro l
  induction l with
  | nil => intro _; simp [insertKey]
  | cons h t ih =>
    intro hp
    obtain ⟨hh, ht⟩ := List.pairwise_cons.1 hp
    simp only [insertKey]
    split_ifs with h1 h2
    · refine List.pairwise_cons.2 ⟨?_, hp⟩
      intro x hx
      rcases List.mem_cons.1 hx with rfl | hx
      · exact h1
      · exact keyLt_trans h1 (hh x hx)
    · exact hp
    · refine List.pairwise_cons.2 ⟨?_, ih ht⟩
      intro x hx
      rcases (mem_insertKey k x t).1 hx with rfl | hx
      · exact keyLt_total (by simpa using h1) h2
      · exact hh x hx

theorem SortedStringKeys_pairwise {V : Type} (m : GoMap V) :
    List.Pairwise (fun a b => keyLt a b = true) (SortedStringKeys m) := by
  unfold SortedStringKeys
  induction GoMap.keys m with
  | nil => simp
  | cons k t ih => exact pairwise_insertKey k _ ih

theorem mem_SortedStringKeys {V : Type} (m : GoMap V) (k : String) :
    k ∈ SortedStringKeys m ↔ k ∈ m.keys := by
  unfold SortedStringKeys
  induction GoMap.keys m with
  | nil => simp
  | cons a t ih =>
    simp only [List.foldr_cons, mem_insertKey, ih, List.mem_cons]

/-! ## Scores of the feasible candidates -/

/-- Every scorer of the allocatable keys returns a non-negative score when it
admits a request against the capacity of its key. -/
def NonnegScores (grp : GrpAllocator) : Prop :=
  ∀ key f, grp.AllocScorer.get? key = some f → ∀ p n rs i,
    (f (grp.AllocResource.getD key 0) p n rs i).found = true →
    0 ≤ (f (grp.AllocResource.getD key 0) p n rs i).score

theorem scoreLoop_score_nonneg (rr : GoMap (List Int)) :
    ∀ (l : GoMap String) (grp : GrpAllocator) (found : Bool) (pf : List PredicateFailureReason)
      (grp' : GrpAllocator) (found' : Bool) (pf' : List PredicateFailureReason),
      NonnegScores grp → 0 ≤ grp.Score →
      scoreLoop rr l grp found pf = .ok (grp', found', pf') → 0 ≤ grp'.Score := by
  intro l
  induction l with
  | nil =>
    intro grp found pf grp' found' pf' _ h0 h
    simp only [scoreLoop, Except.ok.injEq, Prod.mk.injEq] at h
    obtain ⟨rfl, -, -⟩ := h
    exact h0
  | cons p t ih =>
    obtain ⟨k, key⟩ := p
    intro grp found pf grp' found' pf' hnn h0 h
    simp only [scoreLoop] at h
    split at h
    · exact absurd h (by simp)
    · rename_i scoreFn hsf
      split at h
      · exact ih _ _ _ _ _ _ hnn h0 h
      · rename_i hfr
        have hfr' : (scoreFn (grp.AllocResource.getD key 0) (grp.PodResource.getD key 0)
            (grp.NodeResource.getD key 0) (rr.getD key []) grp.InitContainer).found = true := by
          simpa using hfr
        exact ih _ _ _ _ _ _ (by exact hnn)
          (by exact add_nonneg h0 (hnn key scoreFn hsf _ _ _ _ hfr')) h

theorem findScoreAndUpdate_score_nonneg (grp : GrpAllocator) (location : String)
    (grp' : GrpAllocator) (found' : Bool) (pf' : List PredicateFailureReason)
    (hnn : NonnegScores grp)
    (h : findScoreAndUpdate grp location = .ok (grp', found', pf')) : 0 ≤ grp'.Score := by
  unfold findScoreAndUpdate at h
  generalize requestedResourceLoop grp grp.GrpRequiredResource [] true [] = r at h
  obtain ⟨rr, f0, pf0⟩ := r
  simp only at h
  split at h
  · exact absurd h (by simp)
  · rename_i g1 f1 p1 hs
    simp only [Except.ok.injEq, Prod.mk.injEq] at h
    obtain ⟨rfl, -, -⟩ := h
    have := scoreLoop_score_nonneg _ _ _ _ _ _ _ _ (by exact hnn) (by exact le_refl (0 : ℚ)) hs
    exact div_nonneg this (Nat.cast_nonneg _)

theorem NonnegScores_of_static {g g' : GrpAllocator} (h : SameStatic g g')
    (hnn : NonnegScores g) : NonnegScores g' := by
  intro key f hf
  rw [h.allocScorer] at hf
  rw [h.allocResource]
  exact hnn key f hf

theorem allocateGroupAt_score_nonneg (allocGroup : GrpAllocator → AllocResult)
    (grp : GrpAllocator) (location : String) (sr : GoMap (GoMap (GoMap String)))
    (grp' : GrpAllocator) (pf' : List PredicateFailureReason) (hnn : NonnegScores grp)
    (h : allocateGroupAt allocGroup grp location sr = .ok (grp', true, pf')) :
    0 ≤ grp'.Score := by
  unfold allocateGroupAt at h
  simp only at h
  split at h
  · exact absurd h (by simp)
  · rename_i g1 f1 p1 hra
    obtain ⟨a1, -, -⟩ := resourceAvailableLoop_static _ _ _ _ _ _ _ _ hra
    split at h
    · exact absurd h (by simp)
    · rename_i g2 f2 p2 hsg
      obtain ⟨b1, -⟩ := allocateSubGroupsOuter_static _ _ _ _ _ _ _ _ _ _ _ hsg
      split at h
      · split at h
        · exact absurd h (by simp)
        · rename_i g3 f3 p3 hfs
          split at h
          · simp at h
          · simp only [Except.ok.injEq, Prod.mk.injEq] at h
            obtain ⟨rfl, -, -⟩ := h
            refine findScoreAndUpdate_score_nonneg _ _ _ _ _ ?_ hfs
            intro key f hf
            have hA : g2.AllocScorer = grp.AllocScorer := by
              rw [b1.allocScorer]; exact a1.allocScorer
            have hR : g2.AllocResource = grp.AllocResource := by
              rw [b1.allocResource]; exact a1.allocResource
            have hf' : grp.AllocScorer.get? key = some f := by rw [← hA]; exact hf
            have := hnn key f hf'
            rw [← hR] at this
            exact this
      · simp at h

/-- The receiver `grp'` of a search holds what the candidate `c` computed. -/
def Commits (grp' : GrpAllocator) (c : Candidate) : Prop :=
  grp'.AllocateFrom = c.grp.AllocateFrom ∧ grp'.PodResource = c.grp.PodResource ∧
  grp'.NodeResource = c.grp.NodeResource ∧ grp'.Score = c.grp.Score

/-- The candidates visited by `allocateGroup (fuel + 1)` on the receiver `grp`. -/
def searchCandidates (fuel : Nat) (grp : GrpAllocator) :
    Except Fault (List Candidate × GrpAllocator) :=
  candidates (allocateGroup fuel) (findSubGroups grp.ReqBaseGroupName grp.GrpRequiredResource).1
    (SortedStringKeys grp.GrpAllocResource)
    { grp with IsReqSubGrp := (findSubGroups grp.ReqBaseGroupName grp.GrpRequiredResource).2 }

theorem searchCandidates_score_nonneg (fuel : Nat) (grp : GrpAllocator)
    (cs : List Candidate) (gF : GrpAllocator) (hnn : NonnegScores grp)
    (hcs : searchCandidates fuel grp = .ok (cs, gF)) :
    ∀ c ∈ cs, c.found = true → 0 ≤ c.grp.Score := by
  intro c hc hf
  obtain ⟨-, hmem⟩ := candidates_spec _ _
    { grp with IsReqSubGrp := (findSubGroups grp.ReqBaseGroupName grp.GrpRequiredResource).2 }
    _ _ cs gF rfl hcs
  obtain ⟨ug, hat, -⟩ := hmem c hc
  rw [hf] at hat
  exact allocateGroupAt_score_nonneg _ _ _ _ _ _ (by exact hnn) hat

theorem allocateGroup_search (fuel : Nat) (grp grp' : GrpAllocator) (found : Bool)
    (rs : List PredicateFailureReason) (hne : grp.GrpRequiredResource.length ≠ 0)
    (h : allocateGroup (fuel + 1) grp = .ok (grp', found, rs)) :
    ∃ cs gF, searchCandidates fuel grp = .ok (cs, gF) ∧
      cs.map (fun c => c.key) = SortedStringKeys grp.GrpAllocResource ∧
      match selectCandidate grp.PreferUsed grp.Score cs with
      | some m => found = true ∧ m ∈ cs ∧ m.found = true ∧ Commits grp' m ∧
          grp'.UsedGroups.getD (grp.AllocBaseGroupPrefix ++ "/" ++ m.key) false = true
      | none => found = false := by
  obtain ⟨cs, gF, hcs, hgF, hsel⟩ := allocateGroupBody_spec _ grp grp' found rs hne h
  obtain ⟨hkeys, -⟩ := candidates_spec _ _
    { grp with IsReqSubGrp := (findSubGroups grp.ReqBaseGroupName grp.GrpRequiredResource).2 }
    _ _ cs gF rfl hcs
  refine ⟨cs, gF, hcs, hkeys, ?_⟩
  cases hs : selectCandidate grp.PreferUsed grp.Score cs with
  | none => rw [hs] at hsel; exact hsel.1
  | some m =>
    rw [hs] at hsel
    obtain ⟨h1, -, rfl⟩ := hsel
    obtain ⟨hm, hf⟩ := selectCandidate_mem _ _ _ _ hs
    refine ⟨h1, hm, hf, ⟨rfl, rfl, rfl, rfl⟩, ?_⟩
    simp only [GoMap.getD_set, if_true]

/-! ## Claim C7: a group fits iff some candidate location is feasible -/

theorem leftoverScoreFunc_nonneg (c p n : Int) (rs : List Int) (i : Bool) (hc : 0 ≤ c)
    (h : (leftoverScoreFunc c p n rs i).found = true) :
    0 ≤ (leftoverScoreFunc c p n rs i).score := by
  unfold leftoverScoreFunc at h ⊢
  simp only [decide_eq_true_eq] at h
  simp only
  apply div_nonneg
  · exact_mod_cast Int.sub_nonneg_of_le h
  · exact_mod_cast hc

theorem nonnegScores_leftover (grp : GrpAllocator)
    (h1 : ∀ kf ∈ grp.AllocScorer, kf.2 = leftoverScoreFunc)
    (h2 : ∀ kv ∈ grp.AllocResource, 0 ≤ kv.2) : NonnegScores grp := by
  intro key f hf p n rs i hfound
  have hfe : f = leftoverScoreFunc := h1 _ (GoMap.mem_of_get? hf)
  subst hfe
  apply leftoverScoreFunc_nonneg _ _ _ _ _ _ hfound
  rcases GoMap.getD_mem_or grp.AllocResource key 0 with h | h
  · rw [h]
  · exact h2 _ h

/-- A group with one leaf requirement of 4 cards and two candidate locations
`0` and `1` of 8 cards each, as `createSubGroup` builds it for the requirement
`r/grp/gpu/A/cards`; `used0` is the usage of the node at location `0`. -/
def twoLocationGroup (preferUsed : Bool) (usedGroups : GoMap Bool) (used0 : Int) :
    GrpAllocator :=
  { ContName := "c"
    InitContainer := false
    PreferUsed := preferUsed
    RequiredResource := [("r/grp/gpu/A/cards", 4)]
    ReqScorer := [("r/grp/gpu/A/cards", none)]
    AllocResource := [("r/grp/gpu/0/cards", 8), ("r/grp/gpu/1/cards", 8)]
    AllocScorer := [("r/grp/gpu/0/cards", leftoverScoreFunc),
      ("r/grp/gpu/1/cards", leftoverScoreFunc)]
    UsedGroups := usedGroups
    GrpRequiredResource := [("cards", "r/grp/gpu/A/cards")]
    IsReqSubGrp := []
    GrpAllocResource := [("0", [("cards", "r/grp/gpu/0/cards")]),
      ("1", [("cards", "r/grp/gpu/1/cards")])]
    IsAllocSubGrp := []
    ReqBaseGroupName := "r/grp/gpu/A"
    AllocBaseGroupPrefix := "r/grp/gpu"
    Score := 0
    PodResource := []
    NodeResource := [("r/grp/gpu/0/cards", used0)]
    AllocateFrom := [] }

theorem twoLocationGroup_nonneg (pu : Bool) (ug : GoMap Bool) (u : Int) :
    NonnegScores (twoLocationGroup pu ug u) := by
  apply nonnegScores_leftover
  · intro kf h
    simp only [twoLocationGroup, List.mem_cons, List.mem_singleton, List.not_mem_nil,
      or_false] at h
    rcases h with rfl | rfl <;> rfl
  · intro kv h
    simp only [twoLocationGroup, List.mem_cons, List.mem_singleton, List.not_mem_nil,
      or_false] at h
    rcases h with rfl | rfl <;> decide

/-- Claim C7. At every level of the search, `allocateGroup` on a non-empty
requirement group (receiver score 0, scorers with non-negative scores) reports
`found = true` if and only if `allocateGroupAt` returned true for at least one
candidate location of the loop, and on success `AllocateFrom`, the pod and node
usage and the score of the receiver are those of one feasible candidate. -/
theorem allocateGroup_fits_iff_feasible (fuel : Nat) (grp grp' : GrpAllocator) (found : Bool)
    (rs : List PredicateFailureReason) (hne : grp.GrpRequiredResource.length ≠ 0)
    (hs0 : grp.Score ≤ 0) (hnn : NonnegScores grp)
    (h : allocateGroup (fuel + 1) grp = .ok (grp', found, rs)) :
    ∃ cs gF, searchCandidates fuel grp = .ok (cs, gF) ∧
      (found = true ↔ ∃ c ∈ cs, c.found = true) ∧
      (found = true → ∃ c ∈ cs, c.found = true ∧ Commits grp' c) := by
  obtain ⟨cs, gF, hcs, -, hsel⟩ := allocateGroup_search fuel grp grp' found rs hne h
  refine ⟨cs, gF, hcs, ?_⟩
  have hinv := selectCandidate_inv grp.PreferUsed grp.Score cs
  cases hs : selectCandidate grp.PreferUsed grp.Score cs with
  | none =>
    rw [hs] at hsel hinv
    simp only at hsel
    subst hsel
    refine ⟨⟨fun hf => absurd hf (by simp), ?_⟩, fun hf => absurd hf (by simp)⟩
    rintro ⟨c, hc, hf⟩
    exfalso
    have h1 := (hinv c hc hf).1
    have h2 := searchCandidates_score_nonneg fuel grp cs gF hnn hcs c hc hf
    exact absurd (lt_of_lt_of_le h1 hs0) (not_lt.2 h2)
  | some m =>
    rw [hs] at hsel
    obtain ⟨h1, hm, hf, hcm, -⟩ := hsel
    exact ⟨⟨fun _ => ⟨m, hm, hf⟩, fun _ => h1⟩, fun _ => ⟨m, hm, hf, hcm⟩⟩

set_option maxRecDepth 100000 in
theorem twoLocationGroup_isValue :
    isValue (allocateGroup (0 + 1) (twoLocationGroup false [] 0)) = true := by decide!

set_option maxRecDepth 100000 in
theorem allocateGroup_fits_iff_feasible_witness :
    (twoLocationGroup false [] 0).GrpRequiredResource.length ≠ 0 ∧
    (twoLocationGroup false [] 0).Score ≤ 0 ∧
    (okValue (allocateGroup (0 + 1) (twoLocationGroup false [] 0))
      (GrpAllocator.zero, false, [])).2.1 = true ∧
    ∃ cs gF, searchCandidates 0 (twoLocationGroup false [] 0) = .ok (cs, gF) ∧
      ((okValue (allocateGroup (0 + 1) (twoLocationGroup false [] 0))
        (GrpAllocator.zero, false, [])).2.1 = true ↔ ∃ c ∈ cs, c.found = true) ∧
      ((okValue (allocateGroup (0 + 1) (twoLocationGroup false [] 0))
        (GrpAllocator.zero, false, [])).2.1 = true → ∃ c ∈ cs, c.found = true ∧
        Commits (okValue (allocateGroup (0 + 1) (twoLocationGroup false [] 0))
          (GrpAllocator.zero, false, [])).1 c) :=
  ⟨by decide, le_refl _, by decide!,
    allocateGroup_fits_iff_feasible 0 (twoLocationGroup false [] 0) _ _ _ (by decide)
      (le_refl _) (twoLocationGroup_nonneg _ _ _)
      (eq_ok_okValue _ (GrpAllocator.zero, false, []) twoLocationGroup_isValue)⟩

/-! ## Claims C8 and C9: the tie-break -/

theorem keyLt_of_split (cs pre post : List Candidate) (m : Candidate)
    (hp : List.Pairwise (fun a b => keyLt a b = true) (cs.map (fun c => c.key)))
    (hcs : cs = pre ++ m :: post) : ∀ c ∈ pre, keyLt c.key m.key = true := by
  intro c hc
  rw [List.pairwise_map, hcs, List.pairwise_append] at hp
  exact hp.2.2 c hc m (List.mem_cons_self _ _)

/-- Claim C8. Tie-break without the preference for used groups
(`PreferUsed = false`, receiver score 0, scorers with non-negative scores): if
some candidate location is feasible, `allocateGroup` reports true and commits a
feasible candidate `m` whose score is the highest among the feasible candidates;
every other feasible candidate with the same score has a key that is smaller in
the ascending order of the keys, so the last of the best candidates wins. -/
theorem allocateGroup_tiebreak_score (fuel : Nat) (grp grp' : GrpAllocator) (found : Bool)
    (rs : List PredicateFailureReason) (hne : grp.GrpRequiredResource.length ≠ 0)
    (hs0 : grp.Score ≤ 0) (hnn : NonnegScores grp) (hpu : grp.PreferUsed = false)
    (h : allocateGroup (fuel + 1) grp = .ok (grp', found, rs)) :
    ∃ cs gF, searchCandidates fuel grp = .ok (cs, gF) ∧
      ((∃ c ∈ cs, c.found = true) →
        found = true ∧ ∃ m ∈ cs, m.found = true ∧ Commits grp' m ∧
          (∀ c ∈ cs, c.found = true → c.grp.Score ≤ m.grp.Score) ∧
          (∀ c ∈ cs, c.found = true → c.grp.Score = m.grp.Score →
            c = m ∨ keyLt c.key m.key = true)) := by
  obtain ⟨cs, gF, hcs, hkeys, hsel⟩ := allocateGroup_search fuel grp grp' found rs hne h
  refine ⟨cs, gF, hcs, ?_⟩
  have hinv := selectCandidate_inv grp.PreferUsed grp.Score cs
  have hsorted : List.Pairwise (fun a b => keyLt a b = true) (cs.map (fun c => c.key)) := by
    rw [hkeys]; exact SortedStringKeys_pairwise _
  rintro ⟨c0, hc0, hf0⟩
  cases hs : selectCandidate grp.PreferUsed grp.Score cs with
  | none =>
    rw [hs] at hinv
    exfalso
    have h1 := (hinv c0 hc0 hf0).1
    have h2 := searchCandidates_score_nonneg fuel grp cs gF hnn hcs c0 hc0 hf0
    exact absurd (lt_of_lt_of_le h1 hs0) (not_lt.2 h2)
  | some m =>
    rw [hs] at hsel hinv
    obtain ⟨h1, hm, hf, hcm, -⟩ := hsel
    obtain ⟨pre, post, hsplit, -, hpre, hpost⟩ := hinv
    rw [hpu] at hpre hpost
    have hpre' : ∀ c ∈ pre, c.found = true → c.grp.Score ≤ m.grp.Score := by
      intro c hc hcf
      have := hpre c hc hcf
      simpa [Beats] using this
    have hpost' : ∀ c ∈ post, c.found = true → c.grp.Score < m.grp.Score := by
      intro c hc hcf
      have := hpost c hc hcf
      simpa [Beats] using this
    refine ⟨h1, m, hm, hf, hcm, ?_, ?_⟩
    · intro c hc hcf
      rw [hsplit] at hc
      rcases List.mem_append.1 hc with hc | hc
      · exact hpre' c hc hcf
      · rcases List.mem_cons.1 hc with rfl | hc
        · exact le_refl _
        · exact le_of_lt (hpost' c hc hcf)
    · intro c hc hcf heq
      rw [hsplit] at hc
      rcases List.mem_append.1 hc with hc | hc
      · exact Or.inr (keyLt_of_split cs pre post m hsorted hsplit c hc)
      · rcases List.mem_cons.1 hc with rfl | hc
        · exact Or.inl rfl
        · exact absurd heq (ne_of_lt (hpost' c hc hcf))

/-- Claim C9. Tie-break with the preference for used groups (`PreferUsed =
true`, receiver score 0, scorers with non-negative scores): if some candidate
location is feasible, `allocateGroup` reports true and commits a feasible
candidate `m`; `m` is a used location as soon as one feasible candidate is
used, whatever the scores of the unused ones; among the feasible candidates
that are used like `m` (all of them when none is used) `m` has the highest
score, and every other one with the same score has a smaller key. -/
theorem allocateGroup_tiebreak_used (fuel : Nat) (grp grp' : GrpAllocator) (found : Bool)
    (rs : List PredicateFailureReason) (hne : grp.GrpRequiredResource.length ≠ 0)
    (hs0 : grp.Score ≤ 0) (hnn : NonnegScores grp) (hpu : grp.PreferUsed = true)
    (h : allocateGroup (fuel + 1) grp = .ok (grp', found, rs)) :
    ∃ cs gF, searchCandidates fuel grp = .ok (cs, gF) ∧
      ((∃ c ∈ cs, c.found = true) →
        found = true ∧ ∃ m ∈ cs, m.found = true ∧ Commits grp' m ∧
          ((∃ c ∈ cs, c.found = true ∧ c.isUsed = true) → m.isUsed = true) ∧
          (∀ c ∈ cs, c.found = true → c.isUsed = m.isUsed → c.grp.Score ≤ m.grp.Score) ∧
          (∀ c ∈ cs, c.found = true → c.isUsed = m.isUsed → c.grp.Score = m.grp.Score →
            c = m ∨ keyLt c.key m.key = true)) := by
  obtain ⟨cs, gF, hcs, hkeys, hsel⟩ := allocateGroup_search fuel grp grp' found rs hne h
  refine ⟨cs, gF, hcs, ?_⟩
  have hinv := selectCandidate_inv grp.PreferUsed grp.Score cs
  have hsorted : List.Pairwise (fun a b => keyLt a b = true) (cs.map (fun c => c.key)) := by
    rw [hkeys]; exact SortedStringKeys_pairwise _
  rintro ⟨c0, hc0, hf0⟩
  cases hs : selectCandidate grp.PreferUsed grp.Score cs with
  | none =>
    rw [hs] at hinv
    exfalso
    have h1 := (hinv c0 hc0 hf0).1
    have h2 := searchCandidates_score_nonneg fuel grp cs gF hnn hcs c0 hc0 hf0
    exact absurd (lt_of_lt_of_le h1 hs0) (not_lt.2 h2)
  | some m =>
    rw [hs] at hsel hinv
    obtain ⟨h1, hm, hf, hcm, -⟩ := hsel
    obtain ⟨pre, post, hsplit, -, hpre, hpost⟩ := hinv
    rw [hpu] at hpre hpost
    -- the comparisons of the invariant, for a candidate that is used like `m`
    have hpre' : ∀ c ∈ pre, c.found = true →
        (m.isUsed = false → c.isUsed = false) ∧
        (c.isUsed = m.isUsed → c.grp.Score ≤ m.grp.Score) := by
      intro c hc hcf
      have := hpre c hc hcf
      unfold Beats at this
      simp only [if_true, Bool.false_eq_true, if_false] at this
      by_cases hmu : m.isUsed = true
      · simp only [hmu, if_true] at this
        exact ⟨fun e => (by rw [hmu] at e; cases e), fun e => this (by rw [e, hmu])⟩
      · simp only [hmu, if_false] at this
        exact ⟨fun _ => this.1, fun _ => this.2⟩
    have hpost' : ∀ c ∈ post, c.found = true →
        (m.isUsed = false → c.isUsed = false) ∧
        (c.isUsed = m.isUsed → c.grp.Score < m.grp.Score) := by
      intro c hc hcf
      have := hpost c hc hcf
      unfold Beats at this
      simp only [if_true] at this
      by_cases hmu : m.isUsed = true
      · simp only [hmu, if_true] at this
        exact ⟨fun e => (by rw [hmu] at e; cases e), fun e => this (by rw [e, hmu])⟩
      · simp only [hmu, if_false] at this
        exact ⟨fun _ => this.1, fun _ => this.2⟩
    refine ⟨h1, m, hm, hf, hcm, ?_, ?_, ?_⟩
    · rintro ⟨c, hc, hcf, hcu⟩
      by_contra hmu
      have hmu' : m.isUsed = false := by simpa using hmu
      rw [hsplit] at hc
      rcases List.mem_append.1 hc with hc | hc
      · have := (hpre' c hc hcf).1 hmu'
        rw [hcu] at this; cases this
      · rcases List.mem_cons.1 hc with rfl | hc
        · exact hmu hcu
        · have := (hpost' c hc hcf).1 hmu'
          rw [hcu] at this; cases this
    · intro c hc hcf hcu
      rw [hsplit] at hc
      rcases List.mem_append.1 hc with hc | hc
      · exact (hpre' c hc hcf).2 hcu
      · rcases List.mem_cons.1 hc with rfl | hc
        · exact le_refl _
        · exact le_of_lt ((hpost' c hc hcf).2 hcu)
    · intro c hc hcf hcu heq
      rw [hsplit] at hc
      rcases List.mem_append.1 hc with hc | hc
      · exact Or.inr (keyLt_of_split cs pre post m hsorted hsplit c hc)
      · rcases List.mem_cons.1 hc with rfl | hc
        · exact Or.inl rfl
        · exact absurd heq (ne_of_lt ((hpost' c hc hcf).2 hcu))

set_option maxRecDepth 100000 in
theorem allocateGroup_tiebreak_score_witness :
    (twoLocationGroup false [] 0).GrpRequiredResource.length ≠ 0 ∧
    (twoLocationGroup false [] 0).Score ≤ 0 ∧
    (twoLocationGroup false [] 0).PreferUsed = false ∧
    (okValue (allocateGroup (0 + 1) (twoLocationGroup false [] 0))
      (GrpAllocator.zero, false, [])).1.AllocateFrom =
        [("r/grp/gpu/A/cards", "r/grp/gpu/1/cards")] ∧
    ∃ cs gF, searchCandidates 0 (twoLocationGroup false [] 0) = .ok (cs, gF) ∧
      ((∃ c ∈ cs, c.found = true) →
        (okValue (allocateGroup (0 + 1) (twoLocationGroup false [] 0))
          (GrpAllocator.zero, false, [])).2.1 = true ∧
        ∃ m ∈ cs, m.found = true ∧
          Commits (okValue (allocateGroup (0 + 1) (twoLocationGroup false [] 0))
            (GrpAllocator.zero, false, [])).1 m ∧
          (∀ c ∈ cs, c.found = true → c.grp.Score ≤ m.grp.Score) ∧
          (∀ c ∈ cs, c.found = true → c.grp.Score = m.grp.Score →
            c = m ∨ keyLt c.key m.key = true)) :=
  ⟨by decide, le_refl _, rfl, by decide!,
    allocateGroup_tiebreak_score 0 (twoLocationGroup false [] 0) _ _ _ (by decide)
      (le_refl _) (twoLocationGroup_nonneg _ _ _) rfl
      (eq_ok_okValue _ (GrpAllocator.zero, false, []) twoLocationGroup_isValue)⟩

set_option maxRecDepth 100000 in
theorem twoLocationGroup_used_isValue :
    isValue (allocateGroup (0 + 1) (twoLocationGroup true [("r/grp/gpu/0", true)] 2)) = true := by
  decide!

set_option maxRecDepth 100000 in
theorem allocateGroup_tiebreak_used_witness :
    (twoLocationGroup true [("r/grp/gpu/0", true)] 2).GrpRequiredResource.length ≠ 0 ∧
    (twoLocationGroup true [("r/grp/gpu/0", true)] 2).Score ≤ 0 ∧
    (twoLocationGroup true [("r/grp/gpu/0", true)] 2).PreferUsed = true ∧
    (okValue (allocateGroup (0 + 1) (twoLocationGroup true [("r/grp/gpu/0", true)] 2))
      (GrpAllocator.zero, false, [])).1.AllocateFrom =
        [("r/grp/gpu/A/cards", "r/grp/gpu/0/cards")] ∧
    ∃ cs gF, searchCandidates 0 (twoLocationGroup true [("r/grp/gpu/0", true)] 2) =
        .ok (cs, gF) ∧
      ((∃ c ∈ cs, c.found = true) →
        (okValue (allocateGroup (0 + 1) (twoLocationGroup true [("r/grp/gpu/0", true)] 2))
          (GrpAllocator.zero, false, [])).2.1 = true ∧
        ∃ m ∈ cs, m.found = true ∧
          Commits (okValue (allocateGroup (0 + 1)
            (twoLocationGroup true [("r/grp/gpu/0", true)] 2))
            (GrpAllocator.zero, false, [])).1 m ∧
          ((∃ c ∈ cs, c.found = true ∧ c.isUsed = true) → m.isUsed = true) ∧
          (∀ c ∈ cs, c.found = true → c.isUsed = m.isUsed → c.grp.Score ≤ m.grp.Score) ∧
          (∀ c ∈ cs, c.found = true → c.isUsed = m.isUsed → c.grp.Score = m.grp.Score →
            c = m ∨ keyLt c.key m.key = true)) :=
  ⟨by decide, le_refl _, rfl, by decide!,
    allocateGroup_tiebreak_used 0 (twoLocationGroup true [("r/grp/gpu/0", true)] 2) _ _ _
      (by decide) (le_refl _) (twoLocationGroup_nonneg _ _ _) rfl
      (eq_ok_okValue _ (GrpAllocator.zero, false, []) twoLocationGroup_used_isValue)⟩

/-! ## Usage accounting: the node usage is the prior usage plus the pod usage -/

namespace GoMap

theorem get?_eq_none_of_not_mem_keys {V : Type} {m : GoMap V} {k : String}
    (h : k ∉ m.keys) : m.get? k = none := by
  cases hg : m.get? k with
  | none => rfl
  | some v => exact absurd (mem_keys_of_mem (mem_of_get? hg)) h

theorem getD_of_not_mem_keys {V : Type} {m : GoMap V} {k : String} (d : V)
    (h : k ∉ m.keys) : m.getD k d = d := by
  unfold getD
  rw [get?_eq_none_of_not_mem_keys h]
  rfl

end GoMap

theorem get?_copyInto {V : Type} :
    ∀ (src dst : GoMap V) (x : String), src.keys.Nodup →
      (copyInto src dst).get? x =
        match src.get? x with
        | some v => some v
        | none => dst.get? x := by
  intro src
  induction src with
  | nil => intro dst x _; rfl
  | cons q t ih =>
    obtain ⟨k, v⟩ := q
    intro dst x hnd
    simp only [GoMap.keys, List.map_cons, List.nodup_cons] at hnd
    simp only [copyInto, GoMap.get?]
    rw [ih _ _ hnd.2, GoMap.get?_set]
    by_cases e : k = x
    · subst e
      simp only [if_true]
      rw [GoMap.get?_eq_none_of_not_mem_keys hnd.1]
    · simp only [e, if_false]

theorem getD_copyInto_nil (src : GoMap Int) (x : String) (h : src.keys.Nodup) :
    (copyInto src []).getD x 0 = src.getD x 0 := by
  unfold GoMap.getD
  rw [get?_copyInto src [] x h]
  cases src.get? x <;> rfl

/-- In mode `i`, every scorer raises the node usage by exactly the amount by
which it raises the pod usage. -/
def Balanced (env : Env) (i : Bool) : Prop :=
  ∀ k sel c p n v,
    (env.SetScorer k sel c p n [v] i).nodeR = n + ((env.SetScorer k sel c p n [v] i).podR - p)

/-- In mode `i`, the pod usage that a scorer returns does not depend on the node usage. -/
def PodIndependent (env : Env) (i : Bool) : Prop :=
  ∀ k sel c p n n' v,
    (env.SetScorer k sel c p n [v] i).podR = (env.SetScorer k sel c p n' [v] i).podR

/-- The release rule: a running request `v` moves the node usage from `n` to `n + v`. -/
def ReleaseRule (env : Env) : Prop :=
  ∀ k sel n v, (env.SetScorer k sel 0 0 n [v] false).nodeR = n + v

/-- The node usage `N` is the usage `U` plus the pod usage `P`, key by key, and
every key of `P` is a key of `N`. -/
def UsageInv (U P N : GoMap Int) : Prop :=
  (∀ k, N.getD k 0 = U.getD k 0 + P.getD k 0) ∧ (∀ k, k ∈ P.keys → k ∈ N.keys)

theorem UsageInv_set {U P N : GoMap Int} (h : UsageInv U P N) (k : String) (pr nr : Int)
    (hb : nr = N.getD k 0 + (pr - P.getD k 0)) : UsageInv U (P.set k pr) (N.set k nr) := by
  constructor
  · intro x
    rw [GoMap.getD_set, GoMap.getD_set]
    by_cases e : k = x
    · subst e
      simp only [if_true]
      rw [hb, h.1 k]
      ring
    · simp only [e, if_false]
      exact h.1 x
  · intro x hx
    rcases (GoMap.keys_set _ _ _ _).1 hx with rfl | hx
    · exact (GoMap.keys_set _ _ _ _).2 (Or.inl rfl)
    · exact (GoMap.keys_set _ _ _ _).2 (Or.inr (h.2 x hx))

theorem updateLoop_usageInv (env : Env) (n : NodeInfo) (cont : ContainerInfo) (b : Bool)
    (U : GoMap Int) (hb : Balanced env b) :
    ∀ (l : GoMap String) (acc : GoMap Int × GoMap Int), UsageInv U acc.1 acc.2 →
      UsageInv U (updateGroupResourceForContainerLoop env n cont b l acc).1
        (updateGroupResourceForContainerLoop env n cont b l acc).2 := by
  intro l
  induction l with
  | nil => intro acc h; exact h
  | cons q t ih =>
    obtain ⟨reqRes, allocatedFrom⟩ := q
    intro acc h
    obtain ⟨P, N⟩ := acc
    simp only [updateGroupResourceForContainerLoop]
    split_ifs
    · exact ih _ (UsageInv_set h _ _ _ (hb _ _ _ _ _ _))
    · exact ih _ h

theorem updateLoop_noop (env : Env) (n : NodeInfo) (cont : ContainerInfo) (b : Bool) :
    ∀ (l : GoMap String) (acc : GoMap Int × GoMap Int),
      (∀ rk ∈ l, env.PrecheckedResource rk.1 = true) →
      updateGroupResourceForContainerLoop env n cont b l acc = acc := by
  intro l
  induction l with
  | nil => intro acc _; rfl
  | cons q t ih =>
    obtain ⟨reqRes, allocatedFrom⟩ := q
    intro acc h
    obtain ⟨P, N⟩ := acc
    have hq : env.PrecheckedResource reqRes = true := h (reqRes, allocatedFrom)
      (List.mem_cons_self _ _)
    simp only [updateGroupResourceForContainerLoop, hq, Bool.not_true, Bool.false_eq_true,
      if_false]
    exact ih _ (fun rk hrk => h rk (List.mem_cons_of_mem _ hrk))

theorem updateLoop_pod_indep (env : Env) (n n' : NodeInfo) (cont : ContainerInfo) (b : Bool)
    (hA : n'.Allocatable = n.Allocatable) (hS : n'.Scorer = n.Scorer)
    (hi : PodIndependent env b) :
    ∀ (l : GoMap String) (P N N' : GoMap Int),
      (updateGroupResourceForContainerLoop env n cont b l (P, N)).1 =
        (updateGroupResourceForContainerLoop env n' cont b l (P, N')).1 := by
  intro l
  induction l with
  | nil => intro P N N'; rfl
  | cons q t ih =>
    obtain ⟨reqRes, allocatedFrom⟩ := q
    intro P N N'
    simp only [updateGroupResourceForContainerLoop]
    split_ifs
    · rw [hA, hS]
      rw [hi allocatedFrom (n.Scorer.getD allocatedFrom 0) (n.Allocatable.getD allocatedFrom 0)
        (P.getD allocatedFrom 0) (N.getD allocatedFrom 0) (N'.getD allocatedFrom 0)]
      exact ih _ _ _
    · exact ih _ _ _

/-- The containers of one kind hold no allocation of a group resource. -/
def NoGroupAllocation (env : Env) (conts : GoMap ContainerInfo) : Prop :=
  ∀ kc ∈ conts, ∀ rk ∈ kc.2.AllocateFrom.getD [], env.PrecheckedResource rk.1 = true

/-- What the replay of the containers of one kind needs of the scorers in
mode `b`: either these containers hold no allocation of a group resource, or
the scorers are balanced and their pod usage is independent of the node usage. -/
def ModeOk (env : Env) (b : Bool) (conts : GoMap ContainerInfo) : Prop :=
  NoGroupAllocation env conts ∨ (Balanced env b ∧ PodIndependent env b)

theorem updateContainers_usageInv (env : Env) (n : NodeInfo) (b : Bool) (U : GoMap Int) :
    ∀ (conts : GoMap ContainerInfo) (acc : GoMap Int × GoMap Int), ModeOk env b conts →
      UsageInv U acc.1 acc.2 →
      UsageInv U (updateContainers env n b conts acc).1 (updateContainers env n b conts acc).2 := by
  intro conts
  induction conts with
  | nil => intro acc _ h; exact h
  | cons q t ih =>
    obtain ⟨name, cont⟩ := q
    intro acc hm h
    obtain ⟨P, N⟩ := acc
    simp only [updateContainers]
    have hm' : ModeOk env b t := by
      rcases hm with hm | hm
      · exact Or.inl (fun kc hkc => hm kc (List.mem_cons_of_mem _ hkc))
      · exact Or.inr hm
    apply ih _ hm'
    unfold updateGroupResourceForContainer
    rcases hm with hm | hm
    · rw [updateLoop_noop env n cont b _ _ (hm (name, cont) (List.mem_cons_self _ _))]
      exact h
    · exact updateLoop_usageInv env n cont b U hm.1 _ _ h

theorem updateContainers_pod_indep (env : Env) (n n' : NodeInfo) (b : Bool)
    (hA : n'.Allocatable = n.Allocatable) (hS : n'.Scorer = n.Scorer) :
    ∀ (conts : GoMap ContainerInfo) (P N N' : GoMap Int), ModeOk env b conts →
      (updateContainers env n b conts (P, N)).1 = (updateContainers env n' b conts (P, N')).1 := by
  intro conts
  induction conts with
  | nil => intro P N N' _; rfl
  | cons q t ih =>
    obtain ⟨name, cont⟩ := q
    intro P N N' hm
    simp only [updateContainers]
    have hm' : ModeOk env b t := by
      rcases hm with hm | hm
      · exact Or.inl (fun kc hkc => hm kc (List.mem_cons_of_mem _ hkc))
      · exact Or.inr hm
    have h1 : (updateGroupResourceForContainer env n cont b P N).1 =
        (updateGroupResourceForContainer env n' cont b P N').1 := by
      unfold updateGroupResourceForContainer
      rcases hm with hm | hm
      · rw [updateLoop_noop env n cont b _ _ (hm (name, cont) (List.mem_cons_self _ _)),
          updateLoop_noop env n' cont b _ _ (hm (name, cont) (List.mem_cons_self _ _))]
      · exact updateLoop_pod_indep env n n' cont b hA hS hm.2 _ _ _ _
    have e1 : updateGroupResourceForContainer env n cont b P N =
        ((updateGroupResourceForContainer env n cont b P N).1,
          (updateGroupResourceForContainer env n cont b P N).2) := rfl
    have e2 : updateGroupResourceForContainer env n' cont b P N' =
        ((updateGroupResourceForContainer env n' cont b P N').1,
          (updateGroupResourceForContainer env n' cont b P N').2) := rfl
    rw [e1, e2, h1]
    exact ih _ _ _ hm'

namespace GoMap

theorem keys_set_eq {V : Type} (m : GoMap V) (k : String) (v : V) :
    (m.set k v).keys = if k ∈ m.keys then m.keys else m.keys ++ [k] := by
  induction m with
  | nil => simp [set, keys]
  | cons q t ih =>
    obtain ⟨a, b⟩ := q
    simp only [set]
    by_cases e : a = k
    · subst e
      simp [keys]
    · have e' : ¬ k = a := fun h => e h.symm
      simp only [e, if_false, keys, List.map_cons, List.mem_cons, e', false_or]
      simp only [keys] at ih
      rw [ih]
      split_ifs <;> simp

theorem nodup_keys_set {V : Type} (m : GoMap V) (k : String) (v : V) (h : m.keys.Nodup) :
    (m.set k v).keys.Nodup := by
  rw [keys_set_eq]
  split_ifs with hk
  · exact h
  · rw [List.nodup_append]
    refine ⟨h, List.nodup_singleton _, ?_⟩
    intro x hx hx'
    simp only [List.mem_singleton] at hx'
    subst hx'
    exact hk hx

end GoMap

theorem nodup_keys_copyInto {V : Type} :
    ∀ (src dst : GoMap V), dst.keys.Nodup → (copyInto src dst).keys.Nodup := by
  intro src
  induction src with
  | nil => intro dst h; exact h
  | cons q t ih =>
    obtain ⟨k, v⟩ := q
    intro dst h
    simp only [copyInto]
    exact ih _ (GoMap.nodup_keys_set _ _ _ h)

theorem updateLoop_nodup (env : Env) (n : NodeInfo) (cont : ContainerInfo) (b : Bool) :
    ∀ (l : GoMap String) (acc : GoMap Int × GoMap Int),
      acc.1.keys.Nodup → acc.2.keys.Nodup →
      (updateGroupResourceForContainerLoop env n cont b l acc).1.keys.Nodup ∧
      (updateGroupResourceForContainerLoop env n cont b l acc).2.keys.Nodup := by
  intro l
  induction l with
  | nil => intro acc h1 h2; exact ⟨h1, h2⟩
  | cons q t ih =>
    obtain ⟨reqRes, allocatedFrom⟩ := q
    intro acc h1 h2
    obtain ⟨P, N⟩ := acc
    simp only [updateGroupResourceForContainerLoop]
    split_ifs
    · exact ih _ (GoMap.nodup_keys_set _ _ _ h1) (GoMap.nodup_keys_set _ _ _ h2)
    · exact ih _ h1 h2

theorem updateContainers_nodup (env : Env) (n : NodeInfo) (b : Bool) :
    ∀ (conts : GoMap ContainerInfo) (acc : GoMap Int × GoMap Int),
      acc.1.keys.Nodup → acc.2.keys.Nodup →
      (updateContainers env n b conts acc).1.keys.Nodup ∧
      (updateContainers env n b conts acc).2.keys.Nodup := by
  intro conts
  induction conts with
  | nil => intro acc h1 h2; exact ⟨h1, h2⟩
  | cons q t ih =>
    obtain ⟨name, cont⟩ := q
    intro acc h1 h2
    obtain ⟨P, N⟩ := acc
    simp only [updateContainers]
    have := updateLoop_nodup env n cont b (cont.AllocateFrom.getD []) (P, N) h1 h2
    exact ih _ this.1 this.2

theorem wrapInt64_add_wrap (a b : Int) : wrapInt64 (a + wrapInt64 b) = wrapInt64 (a + b) := by
  unfold wrapInt64
  omega

theorem wrapInt64_of_range (x : Int) (h1 : -9223372036854775808 ≤ x)
    (h2 : x < 9223372036854775808) : wrapInt64 x = x := by
  unfold wrapInt64
  omega

theorem negInt64_of_range (x : Int) (h1 : -9223372036854775808 < x)
    (h2 : x < 9223372036854775808) : negInt64 x = -x := by
  unfold negInt64 wrapInt64
  omega

theorem negInt64_zero : negInt64 0 = 0 := by decide

theorem negInt64_least : negInt64 (-9223372036854775808) = -9223372036854775808 := by decide

theorem removePodLoop_spec (env : Env) (n : NodeInfo) (hr : ReleaseRule env) :
    ∀ (P N : GoMap Int), P.keys.Nodup → N.keys.Nodup →
      (removePodLoop env n P N).keys.Nodup ∧
      (∀ x, x ∈ P.keys → x ∈ (removePodLoop env n P N).keys) ∧
      (∀ x, x ∈ N.keys → x ∈ (removePodLoop env n P N).keys) ∧
      (∀ x, (removePodLoop env n P N).getD x 0 =
        if x ∈ P.keys then n.Used.getD x 0 + negInt64 (P.getD x 0) else N.getD x 0) := by
  intro P
  induction P with
  | nil =>
    intro N _ hN
    refine ⟨hN, ?_, fun x hx => hx, ?_⟩
    · intro x hx; simp [GoMap.keys] at hx
    · intro x; simp [removePodLoop, GoMap.keys]
  | cons q t ih =>
    obtain ⟨k, p⟩ := q
    intro N hP hN
    simp only [GoMap.keys, List.map_cons, List.nodup_cons] at hP
    simp only [removePodLoop]
    obtain ⟨h1, h2, h3, h4⟩ := ih (N.set k (env.SetScorer k (n.Scorer.getD k 0) 0 0
      (n.Used.getD k 0) [negInt64 p] false).nodeR) hP.2 (GoMap.nodup_keys_set _ _ _ hN)
    refine ⟨h1, ?_, ?_, ?_⟩
    · intro x hx
      simp only [GoMap.keys, List.map_cons, List.mem_cons] at hx
      rcases hx with rfl | hx
      · exact h3 _ ((GoMap.keys_set _ _ _ _).2 (Or.inl rfl))
      · exact h2 x hx
    · intro x hx
      exact h3 _ ((GoMap.keys_set _ _ _ _).2 (Or.inr hx))
    · intro x
      rw [h4 x]
      simp only [GoMap.keys, List.map_cons, List.mem_cons]
      by_cases e : x = k
      · subst e
        have hxt : x ∉ List.map Prod.fst t := hP.1
        simp only [hxt, if_false, true_or, if_true]
        rw [GoMap.getD_set]
        simp only [if_true]
        rw [hr]
        simp [GoMap.getD, GoMap.get?]
      · have e' : ¬ k = x := fun h => e h.symm
        simp only [e, false_or]
        rw [GoMap.getD_set]
        simp only [e', if_false]
        have : GoMap.getD ((k, p) :: t) x 0 = GoMap.getD t x 0 := by
          simp [GoMap.getD, GoMap.get?, e']
        rw [this]

theorem getD_copyInto_of_inv (src dst : GoMap Int) (f : String → Int) (hs : src.keys.Nodup)
    (h1 : ∀ x, x ∈ src.keys → src.getD x 0 = f x)
    (h2 : ∀ x, x ∉ src.keys → dst.getD x 0 = f x) :
    ∀ x, (copyInto src dst).getD x 0 = f x := by
  intro x
  unfold GoMap.getD
  rw [get?_copyInto src dst x hs]
  by_cases hx : x ∈ src.keys
  · obtain ⟨v, hv⟩ := GoMap.get?_of_mem_keys hx
    rw [hv]
    have := h1 x hx
    unfold GoMap.getD at this
    rw [hv] at this
    exact this
  · rw [GoMap.get?_eq_none_of_not_mem_keys hx]
    exact h2 x hx

/-- Take adds the usage of the pod to the node: under the hypotheses on the
scorers, the node usage after `TakePodGroupResource` is the prior usage plus the
pod usage computed by `ComputePodGroupResources`, key by key. -/
theorem take_usage (env : Env) (n : NodeInfo) (spec : PodInfo) (hU : n.Used.keys.Nodup)
    (hrun : ModeOk env false spec.RunningContainers)
    (hinit : ModeOk env true spec.InitContainers) :
    (TakePodGroupResource env n spec).Used.keys.Nodup ∧
    ∀ x, (TakePodGroupResource env n spec).Used.getD x 0 =
      n.Used.getD x 0 + (ComputePodGroupResources env n spec false).1.getD x 0 := by
  unfold TakePodGroupResource ComputePodGroupResources
  simp only [Bool.false_eq_true, if_false]
  have h0 : UsageInv n.Used (([], copyInto n.Used []) : GoMap Int × GoMap Int).1
      (([], copyInto n.Used []) : GoMap Int × GoMap Int).2 := by
    constructor
    · intro k
      simp only
      rw [getD_copyInto_nil _ _ hU]
      simp [GoMap.getD, GoMap.get?]
    · intro k hk; simp [GoMap.keys] at hk
  have h1 := updateContainers_usageInv env n false n.Used _ _ hrun h0
  have h2 := updateContainers_usageInv env n true n.Used _ _ hinit h1
  have n0 : (copyInto n.Used ([] : GoMap Int)).keys.Nodup :=
    nodup_keys_copyInto _ _ (by simp [GoMap.keys])
  have n1 := updateContainers_nodup env n false spec.RunningContainers
    ([], copyInto n.Used []) (by simp [GoMap.keys]) n0
  have n2 := updateContainers_nodup env n true spec.InitContainers _ n1.1 n1.2
  refine ⟨nodup_keys_copyInto _ _ hU, ?_⟩
  apply getD_copyInto_of_inv _ _ _ n2.2
  · intro x _
    exact h2.1 x
  · intro x hx
    have : x ∉ GoMap.keys (updateContainers env n true spec.InitContainers
        (updateContainers env n false spec.RunningContainers ([], copyInto n.Used []))).1 :=
      fun h => hx (h2.2 x h)
    rw [GoMap.getD_of_not_mem_keys 0 this]
    simp

/-! ## Claim C3: Take then Return -/

/-- Return subtracts the usage of the pod from the node: under the hypotheses
on the scorers, the node usage after `ReturnPodGroupResource` is the prior
usage plus the `int64` negation of the pod usage computed by
`ComputePodGroupResources`, key by key. -/
theorem return_usage (env : Env) (n : NodeInfo) (spec : PodInfo) (hU : n.Used.keys.Nodup)
    (hr : ReleaseRule env)
    (hrun : ModeOk env false spec.RunningContainers)
    (hinit : ModeOk env true spec.InitContainers) :
    ∀ x, (ReturnPodGroupResource env n spec).Used.getD x 0 =
      n.Used.getD x 0 + negInt64 ((ComputePodGroupResources env n spec false).1.getD x 0) := by
  unfold ReturnPodGroupResource ComputePodGroupResources
  simp only [Bool.false_eq_true, if_false, if_true]
  have h0 : UsageInv n.Used (([], copyInto n.Used []) : GoMap Int × GoMap Int).1
      (([], copyInto n.Used []) : GoMap Int × GoMap Int).2 := by
    constructor
    · intro k
      simp only
      rw [getD_copyInto_nil _ _ hU]
      simp [GoMap.getD, GoMap.get?]
    · intro k hk; simp [GoMap.keys] at hk
  have h1 := updateContainers_usageInv env n false n.Used _ _ hrun h0
  have h2 := updateContainers_usageInv env n true n.Used _ _ hinit h1
  have n0 : (copyInto n.Used ([] : GoMap Int)).keys.Nodup :=
    nodup_keys_copyInto _ _ (by simp [GoMap.keys])
  have n1 := updateContainers_nodup env n false spec.RunningContainers
    ([], copyInto n.Used []) (by simp [GoMap.keys]) n0
  have n2 := updateContainers_nodup env n true spec.InitContainers _ n1.1 n1.2
  obtain ⟨r1, r2, -, r4⟩ := removePodLoop_spec env n hr _ _ n2.1 n2.2
  -- the map written back, key by key
  have hres : ∀ x, (removePodLoop env n
      (updateContainers env n true spec.InitContainers
        (updateContainers env n false spec.RunningContainers ([], copyInto n.Used []))).1
      (updateContainers env n true spec.InitContainers
        (updateContainers env n false spec.RunningContainers ([], copyInto n.Used []))).2).getD
        x 0 = n.Used.getD x 0 + negInt64
      ((updateContainers env n true spec.InitContainers
        (updateContainers env n false spec.RunningContainers ([], copyInto n.Used []))).1.getD
        x 0) := by
    intro x
    rw [r4 x]
    split_ifs with hx
    · rfl
    · rw [h2.1 x, GoMap.getD_of_not_mem_keys 0 hx, negInt64_zero]
  apply getD_copyInto_of_inv _ _ _ r1
  · intro x _
    exact hres x
  · intro x hx
    have : x ∉ GoMap.keys (updateContainers env n true spec.InitContainers
        (updateContainers env n false spec.RunningContainers ([], copyInto n.Used []))).1 :=
      fun h => hx (r2 x h)
    rw [GoMap.getD_of_not_mem_keys 0 this, negInt64_zero]
    simp

theorem compute_pod_indep (env : Env) (n n' : NodeInfo) (spec : PodInfo)
    (hA : n'.Allocatable = n.Allocatable) (hS : n'.Scorer = n.Scorer)
    (hrun : ModeOk env false spec.RunningContainers)
    (hinit : ModeOk env true spec.InitContainers) :
    (ComputePodGroupResources env n' spec false).1 =
      (ComputePodGroupResources env n spec false).1 := by
  unfold ComputePodGroupResources
  simp only [Bool.false_eq_true, if_false]
  have h1 := updateContainers_pod_indep env n n' false hA hS spec.RunningContainers []
    (copyInto n.Used []) (copyInto n'.Used []) hrun
  have e1 : updateContainers env n false spec.RunningContainers ([], copyInto n.Used []) =
      ((updateContainers env n false spec.RunningContainers ([], copyInto n.Used [])).1,
        (updateContainers env n false spec.RunningContainers ([], copyInto n.Used [])).2) := rfl
  have e2 : updateContainers env n' false spec.RunningContainers ([], copyInto n'.Used []) =
      ((updateContainers env n' false spec.RunningContainers ([], copyInto n'.Used [])).1,
        (updateContainers env n' false spec.RunningContainers ([], copyInto n'.Used [])).2) := rfl
  rw [e1, e2, ← h1]
  exact (updateContainers_pod_indep env n n' true hA hS spec.InitContainers _ _ _ hinit).symm

/-- Claim C3. Take then Return with the same pod restores the usage of the
node, key by key (a missing key counting as 0), for every node and every pod,
with running and init containers: the usage after the two calls is the usage
before them as an `int64`, and it is the same integer whenever the usage of the
pod on the key is an `int64` above the least one (the one value whose negation
wraps). The scorers are those of scenario S4 and of invariant 3: they follow
the release rule and, in each mode in which the pod holds allocations of group
resources, raise the node usage by exactly the rise of the pod usage, which
itself does not depend on the node usage. -/
theorem take_return_roundtrip (env : Env) (n : NodeInfo) (spec : PodInfo)
    (hU : n.Used.keys.Nodup) (hr : ReleaseRule env)
    (hrun : ModeOk env false spec.RunningContainers)
    (hinit : ModeOk env true spec.InitContainers) :
    ∀ k, wrapInt64 ((ReturnPodGroupResource env (TakePodGroupResource env n spec)
        spec).Used.getD k 0) = wrapInt64 (n.Used.getD k 0) ∧
      (-9223372036854775808 < (ComputePodGroupResources env n spec false).1.getD k 0 →
        (ComputePodGroupResources env n spec false).1.getD k 0 < 9223372036854775808 →
        (ReturnPodGroupResource env (TakePodGroupResource env n spec) spec).Used.getD k 0 =
          n.Used.getD k 0) := by
  intro k
  obtain ⟨t1, t2⟩ := take_usage env n spec hU hrun hinit
  rw [return_usage env _ spec t1 hr hrun hinit k, t2 k,
    compute_pod_indep env n (TakePodGroupResource env n spec) spec rfl rfl hrun hinit]
  constructor
  · unfold negInt64
    rw [wrapInt64_add_wrap]
    congr 1
    ring
  · intro h1 h2
    rw [negInt64_of_range _ h1 h2]
    ring

theorem leftover_releaseRule : ReleaseRule scenarioEnv := by
  intro k sel n v
  simp [scenarioEnv, leftoverScoreFunc]

theorem leftover_running_modeOk (conts : GoMap ContainerInfo) :
    ModeOk scenarioEnv false conts := by
  right
  constructor
  · intro k sel c p n v
    simp [scenarioEnv, leftoverScoreFunc]
  · intro k sel c p n n' v
    simp [scenarioEnv, leftoverScoreFunc]

theorem peak_releaseRule : ReleaseRule peakEnv := by
  intro k sel n v
  simp [peakEnv, peakScoreFunc]

theorem peak_modeOk (b : Bool) (conts : GoMap ContainerInfo) : ModeOk peakEnv b conts := by
  right
  constructor
  · intro k sel c p n v
    simp [peakEnv, peakScoreFunc]
  · intro k sel c p n n' v
    simp [peakEnv, peakScoreFunc]

/-- Scenario S1 after the allocation: the container with its `AllocateFrom`. -/
def podS1Allocated : PodInfo :=
  ⟨[("c", ⟨[("r/grp/gpu/A/cards", 4)],
    some [("r/grp/gpu/A/cards", "r/grp/gpu/0/cards")], []⟩)], []⟩

/-- Scenario S4 after the allocation: a running container with 4 cards and an
init container with 2 cards, both allocated from `r/grp/gpu/0/cards`. -/
def podS4Allocated : PodInfo :=
  ⟨[("c", ⟨[("r/grp/gpu/A/cards", 4)],
    some [("r/grp/gpu/A/cards", "r/grp/gpu/0/cards")], []⟩)],
   [("i", ⟨[("r/grp/gpu/A/cards", 2)],
    some [("r/grp/gpu/A/cards", "r/grp/gpu/0/cards")], []⟩)]⟩

theorem take_return_roundtrip_witness :
    nodeS1.Used.keys.Nodup ∧ ReleaseRule peakEnv ∧
    ModeOk peakEnv false podS4Allocated.RunningContainers ∧
    ModeOk peakEnv true podS4Allocated.InitContainers ∧
    (TakePodGroupResource peakEnv nodeS1 podS4Allocated).Used =
      [("r/grp/gpu/0/cards", 4)] ∧
    (ReturnPodGroupResource peakEnv
      (TakePodGroupResource peakEnv nodeS1 podS4Allocated) podS4Allocated).Used =
      [("r/grp/gpu/0/cards", 0)] ∧
    ∀ k, wrapInt64 ((ReturnPodGroupResource peakEnv
        (TakePodGroupResource peakEnv nodeS1 podS4Allocated) podS4Allocated).Used.getD k 0) =
        wrapInt64 (nodeS1.Used.getD k 0) ∧
      (-9223372036854775808 <
          (ComputePodGroupResources peakEnv nodeS1 podS4Allocated false).1.getD k 0 →
        (ComputePodGroupResources peakEnv nodeS1 podS4Allocated false).1.getD k 0 <
          9223372036854775808 →
        (ReturnPodGroupResource peakEnv
          (TakePodGroupResource peakEnv nodeS1 podS4Allocated) podS4Allocated).Used.getD k 0 =
          nodeS1.Used.getD k 0) :=
  ⟨by decide, peak_releaseRule, peak_modeOk _ _, peak_modeOk _ _, by decide, by decide,
    take_return_roundtrip peakEnv nodeS1 podS4Allocated (by decide) peak_releaseRule
      (peak_modeOk _ _) (peak_modeOk _ _)⟩

/-! ## The subgroups collected by findSubGroups -/

theorem AssignMap2_getD (x : GoMap (GoMap String)) (k1 k2 val i : String) :
    (AssignMap2 x k1 k2 val).getD i [] =
      if k1 = i then (x.getD i []).set k2 val else x.getD i [] := by
  unfold AssignMap2
  rw [GoMap.getD_set]
  by_cases h : k1 = i
  · subst h; simp
  · simp [h]

theorem AssignMap3_getD2 (x : GoMap (GoMap (GoMap String))) (k1 k2 k3 val g i : String) :
    ((AssignMap3 x k1 k2 k3 val).getD g []).getD i [] =
      if k1 = g ∧ k2 = i then ((x.getD g []).getD i []).set k3 val
      else (x.getD g []).getD i [] := by
  unfold AssignMap3
  rw [GoMap.getD_set]
  by_cases h : k1 = g
  · subst h
    simp only [if_true, true_and]
    rw [AssignMap2_getD]
  · simp [h]

/-- Every entry `(t, e)` of a subgroup `(g, i)` of `sub` is a key `e` whose
leftmost match of the grammar at `base` has the groups `(g, i, t)`. -/
def ParsedEntries (base : String) (sub : GoMap (GoMap (GoMap String))) : Prop :=
  ∀ g i t e, (t, e) ∈ (sub.getD g []).getD i [] → matchSubGroup base e = some (g, i, t)

/-- The maps of every subgroup `(g, i)` of `sub` have distinct keys. -/
def NodupEntries (sub : GoMap (GoMap (GoMap String))) : Prop :=
  ∀ g i, ((sub.getD g []).getD i []).keys.Nodup

theorem findSubGroupsLoop_parsed (base : String) :
    ∀ (l : GoMap String) (sub : GoMap (GoMap (GoMap String))) (isSub : GoMap Bool),
      ParsedEntries base sub → NodupEntries sub →
      ParsedEntries base (findSubGroupsLoop base l sub isSub).1 ∧
      NodupEntries (findSubGroupsLoop base l sub isSub).1 := by
  intro l
  induction l with
  | nil => intro sub isSub h1 h2; exact ⟨h1, h2⟩
  | cons p t ih =>
    obtain ⟨k, e⟩ := p
    intro sub isSub h1 h2
    simp only [findSubGroupsLoop]
    split
    · rename_i m1 m2 m3 hm
      apply ih
      · intro g i t' e' hmem
        rw [AssignMap3_getD2] at hmem
        split_ifs at hmem with hc
        · obtain ⟨rfl, rfl⟩ := hc
          rcases GoMap.mem_set hmem with h | h
          · simp only [Prod.mk.injEq] at h
            obtain ⟨rfl, rfl⟩ := h
            exact hm
          · exact h1 _ _ _ _ h
        · exact h1 _ _ _ _ hmem
      · intro g i
        rw [AssignMap3_getD2]
        split_ifs
        · exact GoMap.nodup_keys_set _ _ _ (h2 g i)
        · exact h2 g i
    · exact ih _ _ h1 h2

theorem findSubGroups_parsed (base : String) (l : GoMap String) :
    ParsedEntries base (findSubGroups base l).1 ∧ NodupEntries (findSubGroups base l).1 := by
  apply findSubGroupsLoop_parsed
  · intro g i t e h
    simp [GoMap.getD, GoMap.get?] at h
  · intro g i
    simp [GoMap.getD, GoMap.get?, GoMap.keys]

theorem findSubGroupsLoop_isSub (base : String) :
    ∀ (l : GoMap String) (sub : GoMap (GoMap (GoMap String))) (isSub : GoMap Bool),
      l.keys.Nodup →
      (∀ key e, (key, e) ∈ l →
        (findSubGroupsLoop base l sub isSub).2.getD key false = (matchSubGroup base e).isSome) ∧
      (∀ key, key ∉ l.keys →
        (findSubGroupsLoop base l sub isSub).2.getD key false = isSub.getD key false) := by
  intro l
  induction l with
  | nil =>
    intro sub isSub _
    exact ⟨fun _ _ h => (by cases h), fun _ _ => rfl⟩
  | cons p t ih =>
    obtain ⟨k, e⟩ := p
    intro sub isSub hnd
    simp only [GoMap.keys, List.map_cons, List.nodup_cons] at hnd
    have hk : k ∉ GoMap.keys t := hnd.1
    simp only [findSubGroupsLoop]
    split
    · rename_i m1 m2 m3 hm
      obtain ⟨h1, h2⟩ := ih (AssignMap3 sub m1 m2 m3 e) (isSub.set k true) hnd.2
      constructor
      · intro key e' hmem
        rcases List.mem_cons.1 hmem with h | h
        · simp only [Prod.mk.injEq] at h
          obtain ⟨rfl, rfl⟩ := h
          rw [h2 key hk, GoMap.getD_set, hm]
          simp
        · exact h1 key e' h
      · intro key hkey
        simp only [GoMap.keys, List.map_cons, List.mem_cons, not_or] at hkey
        rw [h2 key hkey.2, GoMap.getD_set]
        have : ¬ k = key := fun h => hkey.1 h.symm
        simp [this]
    · rename_i hm
      obtain ⟨h1, h2⟩ := ih sub (isSub.set k false) hnd.2
      constructor
      · intro key e' hmem
        rcases List.mem_cons.1 hmem with h | h
        · simp only [Prod.mk.injEq] at h
          obtain ⟨rfl, rfl⟩ := h
          rw [h2 key hk, GoMap.getD_set, hm]
          simp
        · exact h1 key e' h
      · intro key hkey
        simp only [GoMap.keys, List.map_cons, List.mem_cons, not_or] at hkey
        rw [h2 key hkey.2, GoMap.getD_set]
        have : ¬ k = key := fun h => hkey.1 h.symm
        simp [this]

theorem findSubGroups_isSub (base : String) (l : GoMap String) (hnd : l.keys.Nodup)
    (key e : String) (h : (key, e) ∈ l) :
    (findSubGroups base l).2.getD key false = (matchSubGroup base e).isSome :=
  (findSubGroupsLoop_isSub base l [] [] hnd).1 key e h

/-! ## The search writes AllocateFrom at the requirements of its group -/

/-- The search only writes `AllocateFrom` at the requirement keys of its group. -/
theorem allocateGroup_frame (fuel : Nat) (grp grp' : GrpAllocator) (found : Bool)
    (rs : List PredicateFailureReason) (h : allocateGroup fuel grp = .ok (grp', found, rs))
    (x : String) (hx : ∀ kv ∈ grp.GrpRequiredResource, kv.2 ≠ x) :
    grp'.AllocateFrom.get? x = grp.AllocateFrom.get? x := by
  have hQ : SetClosed (fun k => k ≠ x) (fun _ => True)
      (fun af => af.get? x = grp.AllocateFrom.get? x) := by
    intro af k v haf hk _
    show (GoMap.set af k v).get? x = _
    rw [GoMap.get?_set]
    simp only [hk, if_false]
    exact haf
  exact allocateGroup_inv hQ fuel grp grp' found rs hx (fun _ _ _ _ => trivial) rfl h

/-- The values that a map holds. -/
def InVals (m : GoMap String) (a : String) : Prop := ∃ k, (k, a) ∈ m

theorem sub1Vals_inVals (m : GoMap String) : Sub1Vals (InVals m) m :=
  fun kv h => ⟨kv.1, h⟩

theorem pairwise_keyLt_nodup (l : List String)
    (h : List.Pairwise (fun a b => keyLt a b = true) l) : l.Nodup := by
  induction l with
  | nil => exact List.nodup_nil
  | cons a t ih =>
    obtain ⟨h1, h2⟩ := List.pairwise_cons.1 h
    refine List.nodup_cons.2 ⟨?_, ih h2⟩
    intro hmem
    have := h1 a hmem
    unfold keyLt at this
    rw [ltChars_irrefl] at this
    cases this

theorem SortedStringKeys_nodup {V : Type} (m : GoMap V) : (SortedStringKeys m).Nodup :=
  pairwise_keyLt_nodup _ (SortedStringKeys_pairwise m)

theorem resourceAvailableLoop_frame (grpAllocRes : GoMap String) (x : String) :
    ∀ (l : GoMap String) (grp : GrpAllocator) (found : Bool) (pf : List PredicateFailureReason)
      (grp' : GrpAllocator) (found' : Bool) (pf' : List PredicateFailureReason),
      (∀ kv ∈ l, grp.IsReqSubGrp.getD kv.1 false = false → kv.2 ≠ x) →
      resourceAvailableLoop grpAllocRes l grp found pf = .ok (grp', found', pf') →
      grp'.AllocateFrom.get? x = grp.AllocateFrom.get? x := by
  intro l
  induction l with
  | nil =>
    intro grp found pf grp' found' pf' _ h
    simp only [resourceAvailableLoop, Except.ok.injEq, Prod.mk.injEq] at h
    obtain ⟨rfl, -, -⟩ := h
    rfl
  | cons p t ih =>
    obtain ⟨key, e⟩ := p
    intro grp found pf grp' found' pf' hl h
    have ht : ∀ kv ∈ t, grp.IsReqSubGrp.getD kv.1 false = false → kv.2 ≠ x :=
      fun kv hkv => hl kv (List.mem_cons_of_mem _ hkv)
    simp only [resourceAvailableLoop] at h
    split at h
    · rename_i hsub
      have hex : e ≠ x := hl (key, e) (List.mem_cons_self _ _) (by simpa using hsub)
      split at h
      · exact ih _ _ _ _ _ _ ht h
      · split at h
        · exact absurd h (by simp)
        · split at h
          · exact ih _ _ _ _ _ _ ht h
          · rw [ih _ _ _ _ _ _ (by exact ht) h]
            show (GoMap.set grp.AllocateFrom e _).get? x = _
            rw [GoMap.get?_set]
            simp [hex]
    · exact ih _ _ _ _ _ _ ht h

/-! ## The placement of a group in one location -/

/-- The base name of the subgroup reached from `base` along the path `p` of
pairs `(grpName, grpIndex)`: `base/g1/i1/.../gn/in`, as `createSubGroup` builds it. -/
def pathBase : String → List (String × String) → String
  | base, [] => base
  | base, (g, i) :: p => pathBase (base ++ "/" ++ g ++ "/" ++ i) p

/-- Follows the path `p` in the key `e` with the grammar of `findSubGroups`:
at each step the match of `e` at the current base must have the group name and
the index of the path. The result is the tail of the last match (`t` for the
empty path). -/
def followPath : String → List (String × String) → String → String → Option String
  | _, [], _, t => some t
  | base, (g, i) :: p, e, _ =>
    match matchSubGroup base e with
    | some (g', i', t') =>
      if g' = g ∧ i' = i then followPath (base ++ "/" ++ g ++ "/" ++ i) p e t' else none
    | none => none

/-- The requirement entries `R` of a group with base `rb` are placed by `af` in
the allocatable entries `Gl` of one location with base `ab`, the recursion of
the search being at most `n` deep: every leaf requirement is mapped to the
allocatable key of its own name, every requirement that matches the grammar is
a member of its subgroup, and every subgroup `(g, i)` is placed in one location
`(g, l)` of the allocatable subgroups. -/
def Placed : Nat → String → GoMap String → String → GoMap String → GoMap String → Prop
  | 0, _, _, _, _, _ => False
  | n + 1, rb, R, ab, Gl, af =>
    (∀ kv ∈ R, matchSubGroup rb kv.2 = none →
      ∃ a, Gl.get? kv.1 = some a ∧ af.get? kv.2 = some a) ∧
    (∀ kv ∈ R, ∀ g i t, matchSubGroup rb kv.2 = some (g, i, t) →
      (t, kv.2) ∈ ((findSubGroups rb R).1.getD g []).getD i []) ∧
    (∀ g i, ((findSubGroups rb R).1.getD g []).getD i [] ≠ [] →
      ∃ l, Placed n (rb ++ "/" ++ g ++ "/" ++ i) (((findSubGroups rb R).1.getD g []).getD i [])
        (ab ++ "/" ++ g ++ "/" ++ l) (((findSubGroups ab Gl).1.getD g []).getD l []) af)

/-- What the placement lemmas need of a group at the start of its search: the
keys and the values of its requirement map are distinct, none of its
requirements has an entry in `AllocateFrom` yet, and the empty name is not an
allocatable key. -/
structure GoodGroup (grp : GrpAllocator) : Prop where
  keys : grp.GrpRequiredResource.keys.Nodup
  vals : grp.GrpRequiredResource.vals.Nodup
  fresh : ∀ kv ∈ grp.GrpRequiredResource, grp.AllocateFrom.get? kv.2 = none
  noEmpty : grp.AllocResource.get? "" = none

/-- What the loops of `allocateSubGroups` need of the recursive call: it writes
`AllocateFrom` only at the requirement keys of its group and, when it succeeds,
it places the group in one of its locations. -/
structure RecPlaces (n : Nat) (allocGroup : GrpAllocator → AllocResult) : Prop where
  frame : ∀ grp grp' found rs, allocGroup grp = .ok (grp', found, rs) →
    ∀ x, (∀ kv ∈ grp.GrpRequiredResource, kv.2 ≠ x) →
      grp'.AllocateFrom.get? x = grp.AllocateFrom.get? x
  places : ∀ grp grp' rs, allocGroup grp = .ok (grp', true, rs) → GoodGroup grp →
    ∃ loc, Placed n grp.ReqBaseGroupName grp.GrpRequiredResource
      (grp.AllocBaseGroupPrefix ++ "/" ++ loc) (grp.GrpAllocResource.getD loc [])
      grp'.AllocateFrom

theorem Sub1Vals_of_getD2 {P : String → Prop} {x : GoMap (GoMap (GoMap String))}
    (h : Sub3Vals P x) (g i : String) : Sub1Vals P ((x.getD g []).getD i []) :=
  Sub2Vals_getD (Sub3Vals_getD h g) i

theorem Placed_congr : ∀ (n : Nat) (rb : String) (R : GoMap String) (ab : String)
    (Gl af af' : GoMap String), (∀ kv ∈ R, af'.get? kv.2 = af.get? kv.2) →
    Placed n rb R ab Gl af → Placed n rb R ab Gl af' := by
  intro n
  induction n with
  | zero => intro rb R ab Gl af af' _ h; exact h
  | succ n ih =>
    intro rb R ab Gl af af' hag h
    simp only [Placed] at h ⊢
    obtain ⟨h1, h2, h3⟩ := h
    refine ⟨?_, h2, ?_⟩
    · intro kv hkv hm
      obtain ⟨a, ha, hb⟩ := h1 kv hkv hm
      exact ⟨a, ha, by rw [hag kv hkv]; exact hb⟩
    · intro g i hne
      obtain ⟨l, hl⟩ := h3 g i hne
      refine ⟨l, ih _ _ _ _ _ _ ?_ hl⟩
      intro kv hkv
      have hsub : Sub1Vals (fun e => af'.get? e = af.get? e)
          (((findSubGroups rb R).1.getD g []).getD i []) :=
        Sub1Vals_of_getD2 (findSubGroups_vals rb R (fun kv hkv => hag kv hkv)) g i
      exact hsub kv hkv

theorem resourceAvailableLoop_found (grpAllocRes : GoMap String) :
    ∀ (l : GoMap String) (grp : GrpAllocator) (found : Bool) (pf : List PredicateFailureReason)
      (grp' : GrpAllocator) (pf' : List PredicateFailureReason),
      resourceAvailableLoop grpAllocRes l grp found pf = .ok (grp', true, pf') →
      found = true := by
  intro l
  induction l with
  | nil =>
    intro grp found pf grp' pf' h
    simp only [resourceAvailableLoop, Except.ok.injEq, Prod.mk.injEq] at h
    exact h.2.1
  | cons p t ih =>
    obtain ⟨key, e⟩ := p
    intro grp found pf grp' pf' h
    simp only [resourceAvailableLoop] at h
    split at h
    · split at h
      · exact absurd (ih _ _ _ _ _ h) (by simp)
      · split at h
        · exact absurd h (by simp)
        · split at h
          · exact absurd (ih _ _ _ _ _ h) (by simp)
          · exact ih _ _ _ _ _ h
    · exact ih _ _ _ _ _ h

/-- A successful pass of `resourceAvailable` maps every leaf requirement to the
allocatable key of the same name at the location. -/
theorem resourceAvailableLoop_leaves (grpAllocRes : GoMap String) :
    ∀ (l : GoMap String) (grp : GrpAllocator) (found : Bool) (pf : List PredicateFailureReason)
      (grp' : GrpAllocator) (pf' : List PredicateFailureReason),
      l.vals.Nodup →
      resourceAvailableLoop grpAllocRes l grp found pf = .ok (grp', true, pf') →
      ∀ kv ∈ l, grp.IsReqSubGrp.getD kv.1 false = false →
        ∃ a, grpAllocRes.get? kv.1 = some a ∧ grp'.AllocateFrom.get? kv.2 = some a := by
  intro l
  induction l with
  | nil => intro grp found pf grp' pf' _ _ kv hkv; cases hkv
  | cons p t ih =>
    obtain ⟨key, e⟩ := p
    intro grp found pf grp' pf' hnd h kv hkv hleaf
    simp only [GoMap.vals, List.map_cons, List.nodup_cons] at hnd
    obtain ⟨he, hndt⟩ := hnd
    have hfr : ∀ (g1 : GrpAllocator) (f1 : Bool) (p1 : List PredicateFailureReason),
        resourceAvailableLoop grpAllocRes t g1 f1 p1 = .ok (grp', true, pf') →
        grp'.AllocateFrom.get? e = g1.AllocateFrom.get? e := by
      intro g1 f1 p1 h1
      refine resourceAvailableLoop_frame grpAllocRes e t g1 f1 p1 grp' true pf' ?_ h1
      intro kv' hkv' _ heq
      exact he (heq ▸ List.mem_map_of_mem Prod.snd hkv')
    simp only [resourceAvailableLoop] at h
    split at h
    · split at h
      · exact absurd (resourceAvailableLoop_found _ _ _ _ _ _ _ h) (by simp)
      · rename_i gn hgn
        split at h
        · exact absurd h (by simp)
        · split at h
          · exact absurd (resourceAvailableLoop_found _ _ _ _ _ _ _ h) (by simp)
          · rcases List.mem_cons.1 hkv with rfl | hkt
            · refine ⟨gn, hgn, ?_⟩
              rw [hfr _ _ _ h]
              show (GoMap.set grp.AllocateFrom e gn).get? e = some gn
              rw [GoMap.get?_set]
              simp
            · exact ih _ _ _ _ _ hndt h kv hkt hleaf
    · rename_i hsub
      rcases List.mem_cons.1 hkv with rfl | hkt
      · simp only at hleaf
        rw [hleaf] at hsub
        simp at hsub
      · exact ih _ _ _ _ _ hndt h kv hkt hleaf

theorem GoMap.vals_nodup_of_keys (m : GoMap String) (hk : m.keys.Nodup)
    (hinj : ∀ kv ∈ m, ∀ kv' ∈ m, kv.2 = kv'.2 → kv.1 = kv'.1) : m.vals.Nodup := by
  induction m with
  | nil => exact List.nodup_nil
  | cons p t ih =>
    simp only [GoMap.keys, List.map_cons, List.nodup_cons] at hk
    simp only [GoMap.vals, List.map_cons, List.nodup_cons]
    refine ⟨?_, ih hk.2 (fun kv h kv' h' => hinj kv (List.mem_cons_of_mem _ h) kv'
      (List.mem_cons_of_mem _ h'))⟩
    intro hmem
    obtain ⟨kv, hkv, heq⟩ := List.mem_map.1 hmem
    have := hinj kv (List.mem_cons_of_mem _ hkv) p (List.mem_cons_self _ _) heq
    exact hk.1 (this ▸ List.mem_map_of_mem Prod.fst hkv)

theorem parsed_vals_nodup (rb : String) (sr : GoMap (GoMap (GoMap String)))
    (hsr : ParsedEntries rb sr) (hnd : NodupEntries sr) (g i : String) :
    ((sr.getD g []).getD i []).vals.Nodup := by
  refine GoMap.vals_nodup_of_keys _ (hnd g i) ?_
  intro kv hkv kv' hkv' heq
  have h1 := hsr g i kv.1 kv.2 hkv
  have h2 := hsr g i kv'.1 kv'.2 hkv'
  rw [heq] at h1
  have h3 := h1.symm.trans h2
  exact (Prod.mk.inj (Prod.mk.inj (Option.some.inj h3)).2).2

theorem allocateSubGroupsInner_placed (n : Nat) (allocGroup : GrpAllocator → AllocResult)
    (hrec : RecPlaces n allocGroup) (loc rb ap : String) (sr sa : GoMap (GoMap (GoMap String)))
    (hsr : ParsedEntries rb sr) (hnd : NodupEntries sr) (g : String) :
    ∀ (is : List String) (grp : GrpAllocator) (found : Bool) (pf : List PredicateFailureReason)
      (grp' : GrpAllocator) (found' : Bool) (pf' : List PredicateFailureReason),
      grp.ReqBaseGroupName = rb → grp.AllocBaseGroupPrefix = ap →
      grp.AllocResource.get? "" = none → is.Nodup →
      (∀ i ∈ is, ∀ kv ∈ (sr.getD g []).getD i [], grp.AllocateFrom.get? kv.2 = none) →
      allocateSubGroupsInner allocGroup loc sr sa g is grp found pf = .ok (grp', found', pf') →
      (∀ x, (∀ i ∈ is, ∀ kv ∈ (sr.getD g []).getD i [], kv.2 ≠ x) →
        grp'.AllocateFrom.get? x = grp.AllocateFrom.get? x) ∧
      (found' = true → found = true) ∧
      (found' = true → ∀ i ∈ is,
        ∃ l, Placed n (rb ++ "/" ++ g ++ "/" ++ i) ((sr.getD g []).getD i [])
          (ap ++ "/" ++ loc ++ "/" ++ g ++ "/" ++ l) ((sa.getD g []).getD l [])
          grp'.AllocateFrom) := by
  intro is
  induction is with
  | nil =>
    intro grp found pf grp' found' pf' _ _ _ _ _ h
    simp only [allocateSubGroupsInner, Except.ok.injEq, Prod.mk.injEq] at h
    obtain ⟨rfl, rfl, -⟩ := h
    exact ⟨fun _ _ => rfl, id, fun _ i hi => by cases hi⟩
  | cons i0 t ih =>
    intro grp found pf grp' found' pf' hrb hap hne hnodup hfresh h
    obtain ⟨hi0, hndt⟩ := List.nodup_cons.1 hnodup
    simp only [allocateSubGroupsInner] at h
    split at h
    · exact absurd h (by simp)
    · rename_i s1 fs rs1 hs
      have hfr := hrec.frame _ _ _ _ hs
      -- the requirement keys of two different indices are different
      have hdisj : ∀ i, i ≠ i0 → ∀ kv ∈ (sr.getD g []).getD i [],
          ∀ kv0 ∈ (sr.getD g []).getD i0 [], kv0.2 ≠ kv.2 := by
        intro i hi kv hkv kv0 hkv0 heq
        have h1 := hsr g i kv.1 kv.2 hkv
        have h2 := hsr g i0 kv0.1 kv0.2 hkv0
        rw [heq] at h2
        have h3 := h1.symm.trans h2
        exact hi (Prod.mk.inj (Prod.mk.inj (Option.some.inj h3)).2).1
      have hfresh_t : ∀ i ∈ t, ∀ kv ∈ (sr.getD g []).getD i [],
          grp.AllocateFrom.get? kv.2 = none :=
        fun i hi => hfresh i (List.mem_cons_of_mem _ hi)
      split at h
      · -- the subgroup does not fit: the loop goes on with `found = false`
        obtain ⟨a1, a2, -⟩ := ih _ _ _ _ _ _ (by exact hrb) (by exact hap) (by exact hne)
          hndt (by exact hfresh_t) h
        refine ⟨?_, fun hf => absurd (a2 hf) (by simp), fun hf => absurd (a2 hf) (by simp)⟩
        intro x hx
        rw [a1 x (fun i hi => hx i (List.mem_cons_of_mem _ hi))]
      · rename_i hfs
        have hfs' : fs = true := by simpa using hfs
        subst hfs'
        have hfresh1 : ∀ i ∈ t, ∀ kv ∈ (sr.getD g []).getD i [],
            s1.AllocateFrom.get? kv.2 = none := by
          intro i hi kv hkv
          have hne0 : i ≠ i0 := fun e => hi0 (e ▸ hi)
          have := hfr kv.2 (fun kv0 hkv0 => hdisj i hne0 kv hkv kv0 hkv0)
          rw [this]
          exact hfresh_t i hi kv hkv
        obtain ⟨a1, a2, a3⟩ := ih _ _ _ _ _ _ (by exact hrb) (by exact hap) (by exact hne)
          hndt (by exact hfresh1) h
        refine ⟨?_, a2, ?_⟩
        · intro x hx
          rw [a1 x (fun i hi => hx i (List.mem_cons_of_mem _ hi))]
          exact hfr x (hx i0 (List.mem_cons_self _ _))
        · intro hf i hi
          rcases List.mem_cons.1 hi with rfl | hit
          · have hgood : GoodGroup (createSubGroup grp loc sr sa g i) :=
              ⟨hnd g i, parsed_vals_nodup rb sr hsr hnd g i,
                hfresh i (List.mem_cons_self _ _), hne⟩
            obtain ⟨l, hl⟩ := hrec.places _ _ _ hs hgood
            refine ⟨l, ?_⟩
            have hl' : Placed n (rb ++ "/" ++ g ++ "/" ++ i) ((sr.getD g []).getD i [])
                (ap ++ "/" ++ loc ++ "/" ++ g ++ "/" ++ l) ((sa.getD g []).getD l [])
                s1.AllocateFrom := by
              rw [← hrb, ← hap]
              exact hl
            refine Placed_congr _ _ _ _ _ _ _ ?_ hl'
            intro kv hkv
            exact a1 kv.2 (fun j hj kv' hkv' =>
              hdisj j (fun e => hi0 (e ▸ hj)) kv' hkv' kv hkv |>.symm)
          · exact a3 hf i hit

theorem allocateSubGroupsOuter_placed (n : Nat) (allocGroup : GrpAllocator → AllocResult)
    (hrec : RecPlaces n allocGroup) (loc rb ap : String) (sr sa : GoMap (GoMap (GoMap String)))
    (hsr : ParsedEntries rb sr) (hnd : NodupEntries sr) :
    ∀ (gs : List String) (grp : GrpAllocator) (found : Bool) (pf : List PredicateFailureReason)
      (grp' : GrpAllocator) (found' : Bool) (pf' : List PredicateFailureReason),
      grp.ReqBaseGroupName = rb → grp.AllocBaseGroupPrefix = ap →
      grp.AllocResource.get? "" = none → gs.Nodup →
      (∀ g ∈ gs, ∀ i, ∀ kv ∈ (sr.getD g []).getD i [], grp.AllocateFrom.get? kv.2 = none) →
      allocateSubGroupsOuter allocGroup loc sr sa gs grp found pf = .ok (grp', found', pf') →
      (∀ x, (∀ g ∈ gs, ∀ i, ∀ kv ∈ (sr.getD g []).getD i [], kv.2 ≠ x) →
        grp'.AllocateFrom.get? x = grp.AllocateFrom.get? x) ∧
      (found' = true → found = true) ∧
      (found' = true → ∀ g ∈ gs, ∀ i ∈ SortedStringKeys (sr.getD g []),
        ∃ l, Placed n (rb ++ "/" ++ g ++ "/" ++ i) ((sr.getD g []).getD i [])
          (ap ++ "/" ++ loc ++ "/" ++ g ++ "/" ++ l) ((sa.getD g []).getD l [])
          grp'.AllocateFrom) := by
  intro gs
  induction gs with
  | nil =>
    intro grp found pf grp' found' pf' _ _ _ _ _ h
    simp only [allocateSubGroupsOuter, Except.ok.injEq, Prod.mk.injEq] at h
    obtain ⟨rfl, rfl, -⟩ := h
    exact ⟨fun _ _ => rfl, id, fun _ g hg => by cases hg⟩
  | cons g0 t ih =>
    intro grp found pf grp' found' pf' hrb hap hne hnodup hfresh h
    obtain ⟨hg0, hndt⟩ := List.nodup_cons.1 hnodup
    simp only [allocateSubGroupsOuter] at h
    split at h
    · exact absurd h (by simp)
    · rename_i grp1 found1 pf1 hin
      obtain ⟨b1, b2, b3⟩ := allocateSubGroupsInner_placed n allocGroup hrec loc rb ap sr sa
        hsr hnd g0 _ _ _ _ _ _ _ hrb hap hne (SortedStringKeys_nodup _)
        (fun i _ => hfresh g0 (List.mem_cons_self _ _) i) hin
      obtain ⟨s1, s2⟩ := allocateSubGroupsInner_static _ _ _ _ _ _ _ _ _ _ _ _ hin
      -- the requirement keys of two different group names are different
      have hdisj : ∀ g, g ≠ g0 → ∀ i, ∀ kv ∈ (sr.getD g []).getD i [],
          ∀ i', ∀ kv0 ∈ (sr.getD g0 []).getD i' [], kv0.2 ≠ kv.2 := by
        intro g hg i kv hkv i' kv0 hkv0 heq
        have h1 := hsr g i kv.1 kv.2 hkv
        have h2 := hsr g0 i' kv0.1 kv0.2 hkv0
        rw [heq] at h2
        have h3 := h1.symm.trans h2
        exact hg (Prod.mk.inj (Option.some.inj h3)).1
      have hfresh1 : ∀ g ∈ t, ∀ i, ∀ kv ∈ (sr.getD g []).getD i [],
          grp1.AllocateFrom.get? kv.2 = none := by
        intro g hg i kv hkv
        have hne0 : g ≠ g0 := fun e => hg0 (e ▸ hg)
        rw [b1 kv.2 (fun i' _ kv0 hkv0 => hdisj g hne0 i kv hkv i' kv0 hkv0)]
        exact hfresh g (List.mem_cons_of_mem _ hg) i kv hkv
      obtain ⟨a1, a2, a3⟩ := ih _ _ _ _ _ _ (s1.reqBaseGroupName.trans hrb)
        (s1.allocBaseGroupPrefix.trans hap) (by rw [s1.allocResource]; exact hne) hndt hfresh1 h
      refine ⟨?_, fun hf => b2 (a2 hf), ?_⟩
      · intro x hx
        rw [a1 x (fun g hg => hx g (List.mem_cons_of_mem _ hg))]
        exact b1 x (fun i _ => hx g0 (List.mem_cons_self _ _) i)
      · intro hf g hg i hi
        rcases List.mem_cons.1 hg with rfl | hgt
        · obtain ⟨l, hl⟩ := b3 (a2 hf) i hi
          refine ⟨l, Placed_congr _ _ _ _ _ _ _ ?_ hl⟩
          intro kv hkv
          exact a1 kv.2 (fun g' hg' i' kv' hkv' =>
            (hdisj g' (fun e => hg0 (e ▸ hg')) i' kv' hkv' i kv hkv).symm)
        · exact a3 hf g hgt i hi

/-- A feasible location places the group: the leaves at the location itself and
every requirement subgroup in one allocatable subgroup location. -/
theorem allocateGroupAt_placed (n : Nat) (allocGroup : GrpAllocator → AllocResult)
    (hrec : RecPlaces n allocGroup) (grp : GrpAllocator) (loc : String)
    (grp' : GrpAllocator) (rs : List PredicateFailureReason)
    (hgood : GoodGroup grp)
    (hsub : grp.IsReqSubGrp = (findSubGroups grp.ReqBaseGroupName grp.GrpRequiredResource).2)
    (h : allocateGroupAt allocGroup grp loc
      (findSubGroups grp.ReqBaseGroupName grp.GrpRequiredResource).1 = .ok (grp', true, rs)) :
    Placed (n + 1) grp.ReqBaseGroupName grp.GrpRequiredResource
      (grp.AllocBaseGroupPrefix ++ "/" ++ loc) (grp.GrpAllocResource.getD loc [])
      grp'.AllocateFrom := by
  obtain ⟨hparsed, hnodup⟩ := findSubGroups_parsed grp.ReqBaseGroupName grp.GrpRequiredResource
  have hcov := allocateGroupAt_found allocGroup grp loc _ grp' rs h
  -- a requirement that matches the grammar is not the value of a leaf entry
  have hnotleaf : ∀ kv ∈ grp.GrpRequiredResource, (matchSubGroup grp.ReqBaseGroupName kv.2).isSome →
      ∀ kv' ∈ grp.GrpRequiredResource, grp.IsReqSubGrp.getD kv'.1 false = false → kv'.2 ≠ kv.2 := by
    intro kv _ hm kv' hkv' hleaf heq
    rw [hsub, findSubGroups_isSub _ _ hgood.keys kv'.1 kv'.2 hkv', heq, hm] at hleaf
    cases hleaf
  have hsubvals : ∀ g i, ∀ kv ∈ ((findSubGroups grp.ReqBaseGroupName
      grp.GrpRequiredResource).1.getD g []).getD i [],
      ∃ kv' ∈ grp.GrpRequiredResource, kv'.2 = kv.2 := by
    intro g i kv hkv
    have : Sub1Vals (fun e => ∃ kv' ∈ grp.GrpRequiredResource, kv'.2 = e)
        (((findSubGroups grp.ReqBaseGroupName grp.GrpRequiredResource).1.getD g []).getD i []) :=
      Sub1Vals_of_getD2 (findSubGroups_vals _ _ (fun kv hkv => ⟨kv, hkv, rfl⟩)) g i
    exact this kv hkv
  unfold allocateGroupAt at h
  simp only at h
  split at h
  · exact absurd h (by simp)
  · rename_i g1 f1 p1 hra
    unfold resourceAvailable at hra
    obtain ⟨r1, r2, -⟩ := resourceAvailableLoop_static _ _ _ _ _ _ _ _ hra
    split at h
    · exact absurd h (by simp)
    · rename_i g2 f2 p2 hsg
      split at h
      swap
      · simp at h
      · rename_i hff
        split at h
        · exact absurd h (by simp)
        · rename_i g3 f3 p3 hfs
          obtain ⟨-, -, -, c4, -⟩ := findScoreAndUpdate_spec _ _ _ _ _ hfs
          have hg3 : g3.AllocateFrom = g2.AllocateFrom := c4
          have hgrp' : grp' = g3 := by
            split at h
            · simp at h
            · simp only [Except.ok.injEq, Prod.mk.injEq] at h
              exact h.1.symm
          subst hgrp'
          simp only [Bool.and_eq_true] at hff
          obtain ⟨hf1, hf2⟩ := hff
          subst hf1
          subst hf2
          -- the leaves do not write at the members of the subgroups
          have hleaffr : ∀ x, (∀ kv' ∈ grp.GrpRequiredResource,
              grp.IsReqSubGrp.getD kv'.1 false = false → kv'.2 ≠ x) →
              g1.AllocateFrom.get? x = grp.AllocateFrom.get? x := by
            intro x hx
            have hfr := fun hh => resourceAvailableLoop_frame _ x _ _ _ _ _ _ _ hh hra
            exact hfr hx
          have hfresh1 : ∀ g ∈ SortedStringKeys
              (findSubGroups grp.ReqBaseGroupName grp.GrpRequiredResource).1,
              ∀ i, ∀ kv ∈ ((findSubGroups grp.ReqBaseGroupName
                grp.GrpRequiredResource).1.getD g []).getD i [],
              g1.AllocateFrom.get? kv.2 = none := by
            intro g _ i kv hkv
            obtain ⟨kv', hkv', heq⟩ := hsubvals g i kv hkv
            rw [hleaffr kv.2 (by
              rw [← heq]
              refine hnotleaf kv' hkv' ?_
              rw [heq, hparsed g i kv.1 kv.2 hkv]
              rfl)]
            rw [← heq]
            exact hgood.fresh kv' hkv'
          unfold allocateSubGroups at hsg
          obtain ⟨o1, -, o3⟩ := allocateSubGroupsOuter_placed n allocGroup hrec loc
            grp.ReqBaseGroupName grp.AllocBaseGroupPrefix _ _ hparsed hnodup _ _ _ _ _ _ _
            r1.reqBaseGroupName r1.allocBaseGroupPrefix
            (by rw [r1.allocResource]; exact hgood.noEmpty)
            (SortedStringKeys_nodup _) hfresh1 hsg
          simp only [Placed]
          rw [hg3]
          refine ⟨?_, ?_, ?_⟩
          · intro kv hkv hm
            have hleaf : grp.IsReqSubGrp.getD kv.1 false = false := by
              rw [hsub, findSubGroups_isSub _ _ hgood.keys kv.1 kv.2 hkv, hm]
              rfl
            obtain ⟨a, ha, hb⟩ := resourceAvailableLoop_leaves _ _ _ _ _ _ _ hgood.vals hra
              kv hkv hleaf
            refine ⟨a, ha, ?_⟩
            rw [o1 kv.2 (by
              intro g _ i kv' hkv' heq
              rw [← heq, hparsed g i kv'.1 kv'.2 hkv'] at hm
              cases hm)]
            exact hb
          · intro kv hkv g i t hm
            by_contra hnot
            have h2 : g2.AllocateFrom.get? kv.2 = g1.AllocateFrom.get? kv.2 := by
              refine o1 kv.2 ?_
              intro g' _ i' kv' hkv' heq
              have hp := hparsed g' i' kv'.1 kv'.2 hkv'
              rw [heq, hm] at hp
              simp only [Option.some.injEq, Prod.mk.injEq] at hp
              obtain ⟨rfl, rfl, rfl⟩ := hp
              apply hnot
              have : kv' = (kv'.1, kv.2) := by rw [← heq]
              rw [this] at hkv'
              exact hkv'
            have h1 : g1.AllocateFrom.get? kv.2 = grp.AllocateFrom.get? kv.2 :=
              hleaffr kv.2 (hnotleaf kv hkv (by rw [hm]; rfl))
            have hc := hcov kv hkv
            rw [hg3] at hc
            unfold GoMap.getD at hc
            rw [h2, h1, hgood.fresh kv hkv] at hc
            simp only [Option.getD_none] at hc
            rw [hgood.noEmpty] at hc
            cases hc
          · intro g i hne
            have hg : g ∈ SortedStringKeys
                (findSubGroups grp.ReqBaseGroupName grp.GrpRequiredResource).1 := by
              rw [mem_SortedStringKeys]
              by_contra hg
              rw [GoMap.getD_of_not_mem_keys [] hg] at hne
              exact hne rfl
            have hi : i ∈ SortedStringKeys
                ((findSubGroups grp.ReqBaseGroupName grp.GrpRequiredResource).1.getD g []) := by
              rw [mem_SortedStringKeys]
              by_contra hi
              rw [GoMap.getD_of_not_mem_keys [] hi] at hne
              exact hne rfl
            exact o3 rfl g hg i hi

/-- A successful search places its group in one of the locations of the group. -/
theorem allocateGroup_places : ∀ fuel : Nat, RecPlaces fuel (allocateGroup fuel) := by
  intro fuel
  induction fuel with
  | zero =>
    exact ⟨fun grp grp' found rs h => (by simp [allocateGroup] at h),
      fun grp grp' rs h => (by simp [allocateGroup] at h)⟩
  | succ n ih =>
    refine ⟨fun grp grp' found rs h x hx => allocateGroup_frame (n + 1) grp grp' found rs h x hx,
      ?_⟩
    intro grp grp' rs h hgood
    simp only [allocateGroup] at h
    by_cases hne : grp.GrpRequiredResource.length = 0
    · have hR : grp.GrpRequiredResource = [] := List.length_eq_zero.1 hne
      refine ⟨"", ?_⟩
      simp only [Placed]
      rw [hR]
      refine ⟨fun kv hkv => (by cases hkv), fun kv hkv => (by cases hkv), ?_⟩
      intro g i hne'
      exact absurd rfl hne'
    · obtain ⟨cs, gF, hcs, hgF, hsel⟩ := allocateGroupBody_spec _ grp grp' true rs hne h
      obtain ⟨-, hmem⟩ := candidates_spec _ _
        { grp with IsReqSubGrp := (findSubGroups grp.ReqBaseGroupName grp.GrpRequiredResource).2 }
        _ _ cs gF rfl hcs
      cases hs : selectCandidate grp.PreferUsed grp.Score cs with
      | none =>
        rw [hs] at hsel
        exact absurd hsel.1 (by simp)
      | some m =>
        rw [hs] at hsel
        obtain ⟨-, -, rfl⟩ := hsel
        obtain ⟨hm, hf⟩ := selectCandidate_mem _ _ _ _ hs
        obtain ⟨ug, hat, -⟩ := hmem m hm
        rw [hf] at hat
        refine ⟨m.key, ?_⟩
        have := allocateGroupAt_placed n (allocateGroup n) ih
          { grp with
            IsReqSubGrp := (findSubGroups grp.ReqBaseGroupName grp.GrpRequiredResource).2
            UsedGroups := ug } m.key m.grp m.reasons
          ⟨hgood.keys, hgood.vals, hgood.fresh, hgood.noEmpty⟩ rfl hat
        exact this

theorem inVals_of_subgroup (ab : String) (Gl : GoMap String) (g l a : String)
    (h : InVals (((findSubGroups ab Gl).1.getD g []).getD l []) a) : InVals Gl a := by
  obtain ⟨k, hk⟩ := h
  have : Sub1Vals (InVals Gl) (((findSubGroups ab Gl).1.getD g []).getD l []) :=
    Sub1Vals_of_getD2 (findSubGroups_vals ab Gl (sub1Vals_inVals Gl)) g l
  exact this (k, a) hk

/-- A placed group has every requirement mapped to a key of the location. -/
theorem Placed_mapped : ∀ (n : Nat) (rb : String) (R : GoMap String) (ab : String)
    (Gl af : GoMap String), Placed n rb R ab Gl af →
    ∀ kv ∈ R, ∃ a, af.get? kv.2 = some a ∧ InVals Gl a := by
  intro n
  induction n with
  | zero => intro rb R ab Gl af h; exact absurd h (by simp [Placed])
  | succ n ih =>
    intro rb R ab Gl af h kv hkv
    simp only [Placed] at h
    obtain ⟨h1, h2, h3⟩ := h
    cases hm : matchSubGroup rb kv.2 with
    | none =>
      obtain ⟨a, ha, hb⟩ := h1 kv hkv hm
      exact ⟨a, hb, kv.1, GoMap.mem_of_get? ha⟩
    | some r =>
      obtain ⟨g, i, t⟩ := r
      have hmem := h2 kv hkv g i t hm
      obtain ⟨l, hl⟩ := h3 g i (List.ne_nil_of_mem hmem)
      obtain ⟨a, ha, hb⟩ := ih _ _ _ _ _ hl (t, kv.2) hmem
      exact ⟨a, ha, inVals_of_subgroup ab Gl g l a hb⟩

/-- In a placed group, a requirement that is a leaf at the end of the path `p`
is mapped to an allocatable key that follows a path with the same group names
and ends with the same tail. -/
theorem Placed_leaf_path : ∀ (n : Nat) (rb : String) (R : GoMap String) (ab : String)
    (Gl af : GoMap String), Placed n rb R ab Gl af →
    ∀ kv ∈ R, ∀ (p : List (String × String)) (t : String),
      followPath rb p kv.2 kv.1 = some t → matchSubGroup (pathBase rb p) kv.2 = none →
      ∃ (ls : List String) (a ka : String), ls.length = p.length ∧
        af.get? kv.2 = some a ∧ (ka, a) ∈ Gl ∧
        followPath ab (List.zip (p.map Prod.fst) ls) a ka = some t := by
  intro n
  induction n with
  | zero => intro rb R ab Gl af h; exact absurd h (by simp [Placed])
  | succ n ih =>
    intro rb R ab Gl af h kv hkv p t hp hleaf
    simp only [Placed] at h
    obtain ⟨h1, h2, h3⟩ := h
    cases p with
    | nil =>
      simp only [followPath, Option.some.injEq] at hp
      simp only [pathBase] at hleaf
      obtain ⟨a, ha, hb⟩ := h1 kv hkv hleaf
      refine ⟨[], a, kv.1, rfl, hb, GoMap.mem_of_get? ha, ?_⟩
      simp only [List.map_nil, List.zip_nil_left, followPath, hp]
    | cons gi p' =>
      obtain ⟨g, i⟩ := gi
      simp only [followPath] at hp
      cases hm : matchSubGroup rb kv.2 with
      | none => rw [hm] at hp; cases hp
      | some r =>
        obtain ⟨g', i', t'⟩ := r
        rw [hm] at hp
        simp only at hp
        split_ifs at hp with hc
        obtain ⟨rfl, rfl⟩ := hc
        have hmem := h2 kv hkv g' i' t' hm
        obtain ⟨l, hl⟩ := h3 g' i' (List.ne_nil_of_mem hmem)
        simp only [pathBase] at hleaf
        obtain ⟨ls, a, ka, hlen, ha, hka, hfp⟩ := ih _ _ _ _ _ hl (t', kv.2) hmem p' t hp hleaf
        have hpa := (findSubGroups_parsed ab Gl).1 g' l ka a hka
        obtain ⟨ka', hka'⟩ := inVals_of_subgroup ab Gl g' l a ⟨ka, hka⟩
        refine ⟨l :: ls, a, ka', by simp [hlen], ha, hka', ?_⟩
        simp only [List.map_cons, List.zip_cons_cons, followPath, hpa, and_self, if_true]
        exact hfp

/-- In a placed group, the requirements that follow one path `p` are mapped to
allocatable keys that follow one and the same path, with the group names of `p`
and one list of locations. -/
theorem Placed_cohesion : ∀ (p : List (String × String)) (n : Nat) (rb : String)
    (R : GoMap String) (ab : String) (Gl af : GoMap String), Placed n rb R ab Gl af →
    ∃ ls : List String, ls.length = p.length ∧
      ∀ kv ∈ R, (followPath rb p kv.2 kv.1).isSome →
        ∃ a ka, af.get? kv.2 = some a ∧ (ka, a) ∈ Gl ∧
          (followPath ab (List.zip (p.map Prod.fst) ls) a ka).isSome := by
  intro p
  induction p with
  | nil =>
    intro n rb R ab Gl af h
    refine ⟨[], rfl, ?_⟩
    intro kv hkv _
    obtain ⟨a, ha, ka, hka⟩ := Placed_mapped n rb R ab Gl af h kv hkv
    exact ⟨a, ka, ha, hka, rfl⟩
  | cons gi p' ih =>
    obtain ⟨g, i⟩ := gi
    intro n rb R ab Gl af h
    cases n with
    | zero => exact absurd h (by simp [Placed])
    | succ n =>
      simp only [Placed] at h
      obtain ⟨-, h2, h3⟩ := h
      -- a requirement that follows the path is a member of the subgroup `(g, i)`
      have hfollow : ∀ kv ∈ R, (followPath rb ((g, i) :: p') kv.2 kv.1).isSome →
          ∃ t', (t', kv.2) ∈ ((findSubGroups rb R).1.getD g []).getD i [] ∧
            (followPath (rb ++ "/" ++ g ++ "/" ++ i) p' kv.2 t').isSome := by
        intro kv hkv hp
        simp only [followPath] at hp
        cases hm : matchSubGroup rb kv.2 with
        | none => rw [hm] at hp; cases hp
        | some r =>
          obtain ⟨g', i', t'⟩ := r
          rw [hm] at hp
          simp only at hp
          split_ifs at hp with hc
          · obtain ⟨rfl, rfl⟩ := hc
            exact ⟨t', h2 kv hkv g' i' t' hm, hp⟩
          · cases hp
      by_cases hne : ((findSubGroups rb R).1.getD g []).getD i [] = []
      · refine ⟨List.replicate (List.length ((g, i) :: p')) "", by simp, ?_⟩
        intro kv hkv hp
        obtain ⟨t', hmem, -⟩ := hfollow kv hkv hp
        rw [hne] at hmem
        cases hmem
      · obtain ⟨l, hl⟩ := h3 g i hne
        obtain ⟨ls, hlen, hall⟩ := ih _ _ _ _ _ _ hl
        refine ⟨l :: ls, by simp [hlen], ?_⟩
        intro kv hkv hp
        obtain ⟨t', hmem, hp'⟩ := hfollow kv hkv hp
        obtain ⟨a, ka, ha, hka, hfp⟩ := hall (t', kv.2) hmem hp'
        have hpa := (findSubGroups_parsed ab Gl).1 g l ka a hka
        obtain ⟨ka', hka'⟩ := inVals_of_subgroup ab Gl g l a ⟨ka, hka⟩
        refine ⟨a, ka', ha, hka', ?_⟩
        simp only [List.map_cons, List.zip_cons_cons, followPath, hpa, and_self, if_true]
        exact hfp

theorem collectRequests_diag (env : Env) (contReq : ContainerInfo) :
    ∀ (l : GoMap Int) (acc : GoMap String × GoMap Int × GoMap (Option ResourceScoreFunc)),
      (∀ kv ∈ acc.1, kv.1 = kv.2) → acc.1.keys.Nodup →
      (∀ kv ∈ (collectRequests env contReq l acc).1, kv.1 = kv.2) ∧
      (collectRequests env contReq l acc).1.keys.Nodup := by
  intro l
  induction l with
  | nil => intro acc h1 h2; exact ⟨h1, h2⟩
  | cons p t ih =>
    obtain ⟨k, v⟩ := p
    intro acc h1 h2
    obtain ⟨reqName, req, reqScorer⟩ := acc
    simp only [collectRequests]
    split
    · apply ih
      · intro kv hkv
        rcases GoMap.mem_set hkv with rfl | h
        · rfl
        · exact h1 kv h
      · exact GoMap.nodup_keys_set _ _ _ h2
    · exact ih _ h1 h2

theorem collectAllocatable_diag (env : Env) (grpName : String) :
    ∀ (l : GoMap Int) (acc : GoMap (GoMap String) × GoMap Int),
      (∀ kv ∈ acc.1.getD grpName [], kv.1 = kv.2) →
      ∀ kv ∈ (collectAllocatable env grpName l acc).1.getD grpName [], kv.1 = kv.2 := by
  intro l
  induction l with
  | nil => intro acc h1; exact h1
  | cons p t ih =>
    obtain ⟨k, v⟩ := p
    intro acc h1
    obtain ⟨allocName, alloc⟩ := acc
    simp only [collectAllocatable]
    split
    · apply ih
      intro kv hkv
      simp only at hkv
      rw [AssignMap2_getD] at hkv
      simp only [if_true] at hkv
      rcases GoMap.mem_set hkv with rfl | h
      · rfl
      · exact h1 kv h
    · exact ih _ h1

theorem collectAllocatable_other (env : Env) (grpName loc : String) (hloc : grpName ≠ loc) :
    ∀ (l : GoMap Int) (acc : GoMap (GoMap String) × GoMap Int),
      (collectAllocatable env grpName l acc).1.getD loc [] = acc.1.getD loc [] := by
  intro l
  induction l with
  | nil => intro acc; rfl
  | cons p t ih =>
    obtain ⟨k, v⟩ := p
    intro acc
    obtain ⟨allocName, alloc⟩ := acc
    simp only [collectAllocatable]
    split
    · rw [ih]
      simp only
      rw [AssignMap2_getD]
      simp only [hloc, if_false]
    · exact ih _

theorem Placed_nil (n : Nat) (rb ab : String) (Gl af : GoMap String) :
    Placed (n + 1) rb [] ab Gl af := by
  simp only [Placed]
  refine ⟨fun kv hkv => (by cases hkv), fun kv hkv => (by cases hkv), ?_⟩
  intro g i hne
  exact absurd rfl hne

/-- The group that a successful search of `containerFitsGroupConstraints`
leaves is placed: the requirement map holds every requirement under its own
name, the allocatable map of the single top location holds allocatable
quantities under their own names, and `AllocateFrom` places the one in the other. -/
theorem containerFits_placed (env : Env) (contName : String) (contReq : ContainerInfo)
    (initContainer : Bool) (allocatable : GoMap Int) (allocScorer : GoMap ResourceScoreFunc)
    (podResource nodeResource : GoMap Int) (usedGroups : GoMap Bool)
    (bPreferUsed bSetAllocateFrom : Bool) (r : ContainerFit)
    (hempty : env.PrecheckedResource "" = true)
    (hunset : contReq.AllocateFrom = none)
    (hrun : containerFitsGroupConstraints env contName contReq initContainer allocatable
      allocScorer podResource nodeResource usedGroups bPreferUsed bSetAllocateFrom = .ok r)
    (hfit : r.found = true) :
    ∃ (gp gn : String) (reqName allocAll : GoMap String) (n : Nat),
      matchPrefix env.DeviceGroupPrefix = some (gp, gn) ∧
      (∀ kv ∈ reqName, kv.1 = kv.2) ∧
      (∀ e, IsGroupRequest env contReq e → (e, e) ∈ reqName) ∧
      (∀ kv ∈ allocAll, kv.1 = kv.2 ∧ IsGroupAllocatable env allocatable kv.2) ∧
      Placed n env.DeviceGroupPrefix reqName (gp ++ "/" ++ gn) allocAll r.grp.AllocateFrom := by
  unfold containerFitsGroupConstraints at hrun
  generalize hcr : collectRequests env contReq contReq.DevRequests ([], [], []) = cr at hrun
  obtain ⟨reqName, req, reqScorer⟩ := cr
  simp only at hrun
  split at hrun
  · exact absurd hrun (by simp)
  · rename_i grpPrefix grpName hpre
    generalize hca : collectAllocatable env grpName allocatable ([], []) = ca at hrun
    obtain ⟨allocName, alloc⟩ := ca
    simp only [hunset, if_true] at hrun
    split at hrun
    · exact absurd hrun (by simp)
    · rename_i grp1 found reasons hag
      simp only [Except.ok.injEq] at hrun
      subst hrun
      simp only at hfit
      subst hfit
      obtain ⟨-, -, hR3⟩ := collectRequests_spec env contReq (IsGroupRequest env contReq)
        contReq.DevRequests ([], [], [])
        (fun kv hkv hp => ⟨List.mem_map.2 ⟨kv, hkv, rfl⟩, hp⟩) (Sub1Vals_nil _)
      rw [hcr] at hR3
      simp only at hR3
      obtain ⟨hD1, hD2⟩ := collectRequests_diag env contReq contReq.DevRequests ([], [], [])
        (fun kv hkv => by cases hkv) List.nodup_nil
      rw [hcr] at hD1 hD2
      simp only at hD1 hD2
      obtain ⟨hA1, hA2⟩ := collectAllocatable_spec env grpName
        (IsGroupAllocatable env allocatable) allocatable ([], [])
        (fun kv hkv hp => ⟨List.mem_map.2 ⟨kv, hkv, rfl⟩, hp⟩) (Sub2Vals_nil _)
        (by intro k hk; simp [GoMap.keys] at hk)
      rw [hca] at hA1 hA2
      simp only at hA1 hA2
      have hAd := collectAllocatable_diag env grpName allocatable ([], [])
        (fun kv hkv => by simp [GoMap.getD, GoMap.get?] at hkv)
      rw [hca] at hAd
      simp only at hAd
      have hnoEmpty : alloc.get? "" = none := by
        apply GoMap.get?_eq_none_of_not_mem_keys
        intro hmem
        have := (hA2 _ hmem).2
        rw [hempty] at this
        cases this
      obtain ⟨loc, hloc⟩ := (allocateGroup_places (searchFuel reqName)).places _ _ _ hag
        ⟨hD2, GoMap.vals_nodup_of_keys _ hD2 (fun kv hkv kv' hkv' heq => by
          rw [hD1 kv hkv, hD1 kv' hkv', heq]), fun _ _ => rfl, hnoEmpty⟩
      simp only at hloc
      refine ⟨grpPrefix, grpName, reqName, allocName.getD grpName [], searchFuel reqName,
        hpre, hD1, ?_, ?_, ?_⟩
      · intro e he
        obtain ⟨v, hv⟩ := List.mem_map.1 he.1
        have hget := hR3 v hv.1 (by rw [hv.2]; exact he.2)
        rw [hv.2] at hget
        exact GoMap.mem_of_get? hget
      · intro kv hkv
        exact ⟨hAd kv hkv, Sub2Vals_getD hA1 grpName kv hkv⟩
      · by_cases hl : grpName = loc
        · subst hl
          exact hloc
        · have hnil : allocName.getD loc [] = [] := by
            have := collectAllocatable_other env grpName loc hl allocatable ([], [])
            rw [hca] at this
            exact this
          rw [hnil] at hloc
          have hR : reqName = [] := by
            cases hreq : reqName with
            | nil => rfl
            | cons kv t =>
              obtain ⟨a, -, ka, hka⟩ := Placed_mapped _ _ _ _ _ _ hloc kv
                (by rw [hreq]; exact List.mem_cons_self _ _)
              cases hka
          rw [hR]
          exact Placed_nil _ _ _ _ _

/-- Subgroup cohesion of the search over bases that match themselves: in every
successful allocation (a call of `containerFitsGroupConstraints` on a container
whose `AllocateFrom` is unset that reports `found = true`), for every path `p = [(g1, i1), ..., (gn, in)]` of
subgroups below `DeviceGroupPrefix` there is one list of locations
`l1, ..., ln` such that every requirement key of the subgroup at `p` (every key
that matches the grammar `base/<grpName>/<grpIndex>/<tail>` with `(gj, ij)` at
each base along `p`) is mapped by `AllocateFrom` to an allocatable key that
matches the grammar with `(gj, lj)` along the same group names: the members of
one requirement subgroup all lie under one and the same allocatable location.
The allocatable base `gp/gn` is the one the code recomposes from
`DeviceGroupPrefix`; the empty name is assumed to be prechecked. -/
theorem containerFits_subgroup_cohesion (env : Env) (contName : String)
    (contReq : ContainerInfo) (initContainer : Bool) (allocatable : GoMap Int)
    (allocScorer : GoMap ResourceScoreFunc) (podResource nodeResource : GoMap Int)
    (usedGroups : GoMap Bool) (bPreferUsed bSetAllocateFrom : Bool) (r : ContainerFit)
    (gp gn : String)
    (hempty : env.PrecheckedResource "" = true)
    (hunset : contReq.AllocateFrom = none)
    (hrun : containerFitsGroupConstraints env contName contReq initContainer allocatable
      allocScorer podResource nodeResource usedGroups bPreferUsed bSetAllocateFrom = .ok r)
    (hfit : r.found = true)
    (hbase : matchPrefix env.DeviceGroupPrefix = some (gp, gn)) :
    ∀ p : List (String × String), ∃ ls : List String, ls.length = p.length ∧
      ∀ e, IsGroupRequest env contReq e →
        (followPath env.DeviceGroupPrefix p e e).isSome →
        ∃ a, r.grp.AllocateFrom.get? e = some a ∧ IsGroupAllocatable env allocatable a ∧
          (followPath (gp ++ "/" ++ gn) (List.zip (p.map Prod.fst) ls) a a).isSome := by
  intro p
  obtain ⟨gp', gn', reqName, allocAll, n, hpre, hdiag, hreq, halloc, hpl⟩ :=
    containerFits_placed env contName contReq initContainer allocatable allocScorer
      podResource nodeResource usedGroups bPreferUsed bSetAllocateFrom r hempty hunset hrun hfit
  rw [hbase] at hpre
  simp only [Option.some.injEq, Prod.mk.injEq] at hpre
  obtain ⟨rfl, rfl⟩ := hpre
  obtain ⟨ls, hlen, hall⟩ := Placed_cohesion p n _ _ _ _ _ hpl
  refine ⟨ls, hlen, ?_⟩
  intro e he hp
  obtain ⟨a, ka, ha, hka, hfp⟩ := hall (e, e) (hreq e he) hp
  have hk := (halloc (ka, a) hka).1
  simp only at hk
  subst hk
  exact ⟨ka, ha, (halloc (ka, ka) hka).2, hfp⟩

/-- The mapping of the search over bases that match themselves preserves the
path structure: in every successful allocation, a requirement key that follows the path `(g1, i1), ..., (gn, in)`
from `DeviceGroupPrefix` (it matches `base/<grpName>/<grpIndex>/<tail>` with
`(gj, ij)` at each base `B/g1/i1/.../g(j-1)/i(j-1)`) and is a leaf there, with
the leaf tail `t`, is mapped by `AllocateFrom` to an allocatable key that
follows a path `(g1, l1), ..., (gn, ln)` with the same group names and ends with
the same tail `t`: only the index segments are replaced by the chosen
locations. For the empty path the tail is the key itself: a requirement that is
a leaf of the top group is mapped to the allocatable key of the same name. -/
theorem containerFits_path_structure (env : Env) (contName : String)
    (contReq : ContainerInfo) (initContainer : Bool) (allocatable : GoMap Int)
    (allocScorer : GoMap ResourceScoreFunc) (podResource nodeResource : GoMap Int)
    (usedGroups : GoMap Bool) (bPreferUsed bSetAllocateFrom : Bool) (r : ContainerFit)
    (gp gn : String)
    (hempty : env.PrecheckedResource "" = true)
    (hunset : contReq.AllocateFrom = none)
    (hrun : containerFitsGroupConstraints env contName contReq initContainer allocatable
      allocScorer podResource nodeResource usedGroups bPreferUsed bSetAllocateFrom = .ok r)
    (hfit : r.found = true)
    (hbase : matchPrefix env.DeviceGroupPrefix = some (gp, gn)) :
    ∀ e, IsGroupRequest env contReq e → ∀ (p : List (String × String)) (t : String),
      followPath env.DeviceGroupPrefix p e e = some t →
      matchSubGroup (pathBase env.DeviceGroupPrefix p) e = none →
      ∃ (ls : List String) (a : String), ls.length = p.length ∧
        r.grp.AllocateFrom.get? e = some a ∧ IsGroupAllocatable env allocatable a ∧
        followPath (gp ++ "/" ++ gn) (List.zip (p.map Prod.fst) ls) a a = some t := by
  intro e he p t hp hleaf
  obtain ⟨gp', gn', reqName, allocAll, n, hpre, hdiag, hreq, halloc, hpl⟩ :=
    containerFits_placed env contName contReq initContainer allocatable allocScorer
      podResource nodeResource usedGroups bPreferUsed bSetAllocateFrom r hempty hunset hrun hfit
  rw [hbase] at hpre
  simp only [Option.some.injEq, Prod.mk.injEq] at hpre
  obtain ⟨rfl, rfl⟩ := hpre
  obtain ⟨ls, a, ka, hlen, ha, hka, hfp⟩ :=
    Placed_leaf_path n _ _ _ _ _ hpl (e, e) (hreq e he) p t hp hleaf
  have hk := (halloc (ka, a) hka).1
  simp only at hk
  subst hk
  exact ⟨ls, ka, hlen, ha, (halloc (ka, ka) hka).2, hfp⟩

/-! ## Scenario S5 -/

/-- Scenario S5: a node with two boards of two gpus; the second gpu of the
first board has a single card. -/
def nodeS5 : NodeInfo :=
  ⟨[("r/grp/gpugrp1/0/gpu/0/cards", 2), ("r/grp/gpugrp1/0/gpu/1/cards", 1),
    ("r/grp/gpugrp1/1/gpu/0/cards", 2), ("r/grp/gpugrp1/1/gpu/1/cards", 2)], [], []⟩

/-- Scenario S5: a container that requests two gpus of two cards in one board. -/
def contS5 : ContainerInfo :=
  ⟨[("r/grp/gpugrp1/A/gpu/0/cards", 2), ("r/grp/gpugrp1/A/gpu/1/cards", 2)], none, []⟩

/-- Scenario S5: the call of `containerFitsGroupConstraints`. -/
def fitS5 : Except Fault ContainerFit :=
  containerFitsGroupConstraints scenarioEnv "c" contS5 false nodeS5.Allocatable
    (setScoreFunc scenarioEnv nodeS5) [] [] [] true true

set_option maxRecDepth 100000 in
theorem fitS5_isValue : isValue fitS5 = true := by decide!

set_option maxRecDepth 100000 in
theorem containerFits_subgroup_cohesion_witness :
    scenarioEnv.PrecheckedResource "" = true ∧
    contS5.AllocateFrom = none ∧
    (okValue fitS5 ⟨GrpAllocator.zero, contS5, false, [], 0⟩).found = true ∧
    matchPrefix scenarioEnv.DeviceGroupPrefix = some ("r", "grp") ∧
    (okValue fitS5 ⟨GrpAllocator.zero, contS5, false, [], 0⟩).grp.AllocateFrom =
      [("r/grp/gpugrp1/A/gpu/0/cards", "r/grp/gpugrp1/1/gpu/1/cards"),
       ("r/grp/gpugrp1/A/gpu/1/cards", "r/grp/gpugrp1/1/gpu/0/cards")] ∧
    ∀ p : List (String × String), ∃ ls : List String, ls.length = p.length ∧
      ∀ e, IsGroupRequest scenarioEnv contS5 e →
        (followPath scenarioEnv.DeviceGroupPrefix p e e).isSome →
        ∃ a, (okValue fitS5 ⟨GrpAllocator.zero, contS5, false, [], 0⟩).grp.AllocateFrom.get? e =
            some a ∧
          IsGroupAllocatable scenarioEnv nodeS5.Allocatable a ∧
          (followPath ("r" ++ "/" ++ "grp") (List.zip (p.map Prod.fst) ls) a a).isSome :=
  ⟨by decide!, rfl, by decide!, by decide!, by decide!,
    containerFits_subgroup_cohesion scenarioEnv "c" contS5 false nodeS5.Allocatable
      (setScoreFunc scenarioEnv nodeS5) [] [] [] true true
      (okValue fitS5 ⟨GrpAllocator.zero, contS5, false, [], 0⟩) "r" "grp"
      (by decide!) rfl (eq_ok_okValue fitS5 _ fitS5_isValue) (by decide!) (by decide!)⟩

set_option maxRecDepth 100000 in
theorem containerFits_path_structure_witness :
    scenarioEnv.PrecheckedResource "" = true ∧
    contS5.AllocateFrom = none ∧
    (okValue fitS5 ⟨GrpAllocator.zero, contS5, false, [], 0⟩).found = true ∧
    matchPrefix scenarioEnv.DeviceGroupPrefix = some ("r", "grp") ∧
    IsGroupRequest scenarioEnv contS5 "r/grp/gpugrp1/A/gpu/0/cards" ∧
    followPath scenarioEnv.DeviceGroupPrefix [("gpugrp1", "A"), ("gpu", "0")]
      "r/grp/gpugrp1/A/gpu/0/cards" "r/grp/gpugrp1/A/gpu/0/cards" = some "cards" ∧
    matchSubGroup (pathBase scenarioEnv.DeviceGroupPrefix [("gpugrp1", "A"), ("gpu", "0")])
      "r/grp/gpugrp1/A/gpu/0/cards" = none ∧
    (okValue fitS5 ⟨GrpAllocator.zero, contS5, false, [], 0⟩).grp.AllocateFrom.get?
      "r/grp/gpugrp1/A/gpu/0/cards" = some "r/grp/gpugrp1/1/gpu/1/cards" ∧
    followPath "r/grp" [("gpugrp1", "1"), ("gpu", "1")]
      "r/grp/gpugrp1/1/gpu/1/cards" "r/grp/gpugrp1/1/gpu/1/cards" = some "cards" ∧
    ∃ (ls : List String) (a : String),
      ls.length = [("gpugrp1", "A"), ("gpu", "0")].length ∧
      (okValue fitS5 ⟨GrpAllocator.zero, contS5, false, [], 0⟩).grp.AllocateFrom.get?
        "r/grp/gpugrp1/A/gpu/0/cards" = some a ∧
      IsGroupAllocatable scenarioEnv nodeS5.Allocatable a ∧
      followPath ("r" ++ "/" ++ "grp")
        (List.zip ([("gpugrp1", "A"), ("gpu", "0")].map Prod.fst) ls) a a = some "cards" :=
  ⟨by decide!, rfl, by decide!, by decide!, ⟨by decide!, by decide!⟩, by decide!, by decide!,
    by decide!, by decide!,
    containerFits_path_structure scenarioEnv "c" contS5 false nodeS5.Allocatable
      (setScoreFunc scenarioEnv nodeS5) [] [] [] true true
      (okValue fitS5 ⟨GrpAllocator.zero, contS5, false, [], 0⟩) "r" "grp"
      (by decide!) rfl (eq_ok_okValue fitS5 _ fitS5_isValue) (by decide!) (by decide!)
      "r/grp/gpugrp1/A/gpu/0/cards" ⟨by decide!, by decide!⟩
      [("gpugrp1", "A"), ("gpu", "0")] "cards"
      (by decide!) (by decide!)⟩

/-! ## Keys of the form `base/g1/i1/.../gn/in/tail` -/

/-- The part `g1/i1/.../gn/in/tail` of a key below its base. -/
def pathTail : List (String × String) → String → String
  | [], t => t
  | (g, i) :: p, t => g ++ "/" ++ i ++ "/" ++ pathTail p t

/-- A name that can be a segment of a key: no `/` and no space character. -/
def IsSegment (s : String) : Prop := '/' ∉ s.data ∧ ∀ c ∈ s.data, isNonSpace c = true

theorem stripLit_append (b s : List Char) : stripLit b (b ++ s) = some s := by
  induction b with
  | nil => cases s <;> rfl
  | cons a t ih => simp [stripLit, ih]

theorem splitFirstSlash_append (g rest : List Char) (hg : '/' ∉ g) :
    splitFirstSlash (g ++ '/' :: rest) = some (g, rest) := by
  induction g with
  | nil => simp [splitFirstSlash]
  | cons c t ih =>
    simp only [List.mem_cons, not_or] at hg
    have hc : ¬ c = '/' := fun h => hg.1 h.symm
    simp [splitFirstSlash, hc, ih hg.2]

theorem matchSubGroupFrom_of_here (base s : List Char) (r : String × String × String)
    (h : matchSubGroupHere base s = some r) : matchSubGroupFrom base s = some r := by
  cases s with
  | nil => simpa [matchSubGroupFrom] using h
  | cons c t => simp [matchSubGroupFrom, h]

/-- A key `base/g/i/t` whose segments `g` and `i` are names and whose rest `t`
has no space character matches the grammar at `base` with the groups `(g, i, t)`. -/
theorem matchSubGroup_form (base g i t : String) (hg : IsSegment g) (hi : IsSegment i)
    (ht : ∀ c ∈ t.data, isNonSpace c = true) :
    matchSubGroup base (base ++ "/" ++ g ++ "/" ++ i ++ "/" ++ t) = some (g, i, t) := by
  unfold matchSubGroup
  apply matchSubGroupFrom_of_here
  have hdata : (base ++ "/" ++ g ++ "/" ++ i ++ "/" ++ t).data =
      base.data ++ '/' :: (g.data ++ '/' :: (i.data ++ '/' :: t.data)) := by
    simp [String.data_append]
  rw [hdata]
  unfold matchSubGroupHere
  rw [stripLit_append]
  have hall : ∀ c ∈ g.data ++ '/' :: (i.data ++ '/' :: t.data), isNonSpace c = true := by
    intro c hc
    simp only [List.mem_append, List.mem_cons] at hc
    rcases hc with h | rfl | h | rfl | h
    · exact hg.2 c h
    · decide
    · exact hi.2 c h
    · decide
    · exact ht c h
  have htw : List.takeWhile isNonSpace (g.data ++ '/' :: (i.data ++ '/' :: t.data)) =
      g.data ++ '/' :: (i.data ++ '/' :: t.data) := List.takeWhile_eq_self_iff.2 hall
  simp only [htw, splitFirstSlash_append _ _ hg.1, splitFirstSlash_append _ _ hi.1]

theorem pathTail_nonSpace (p : List (String × String)) (t : String)
    (hp : ∀ gi ∈ p, IsSegment gi.1 ∧ IsSegment gi.2)
    (ht : ∀ c ∈ t.data, isNonSpace c = true) :
    ∀ c ∈ (pathTail p t).data, isNonSpace c = true := by
  induction p with
  | nil => exact ht
  | cons gi p ih =>
    obtain ⟨g, i⟩ := gi
    intro c hc
    have h1 := hp (g, i) (List.mem_cons_self _ _)
    simp only [pathTail, String.data_append, List.mem_append] at hc
    rcases hc with ((((h | h) | h) | h) | h)
    · exact h1.1.2 c h
    · simp at h; subst h; decide
    · exact h1.2.2 c h
    · simp at h; subst h; decide
    · exact ih (fun gi h => hp gi (List.mem_cons_of_mem _ h)) c h

/-- A key of the form `base/g1/i1/.../gn/in/t` follows the path
`(g1, i1), ..., (gn, in)` from `base`, with the tail `t`. -/
theorem followPath_form (p : List (String × String)) (t : String)
    (hp : ∀ gi ∈ p, IsSegment gi.1 ∧ IsSegment gi.2)
    (ht : ∀ c ∈ t.data, isNonSpace c = true) :
    ∀ (base t0 : String), followPath base p (base ++ "/" ++ pathTail p t) t0 =
      some (if p = [] then t0 else t) := by
  induction p with
  | nil => intro base t0; rfl
  | cons gi p ih =>
    obtain ⟨g, i⟩ := gi
    intro base t0
    have h1 := hp (g, i) (List.mem_cons_self _ _)
    have hp' : ∀ gi ∈ p, IsSegment gi.1 ∧ IsSegment gi.2 :=
      fun gi h => hp gi (List.mem_cons_of_mem _ h)
    have hkey : base ++ "/" ++ pathTail ((g, i) :: p) t =
        base ++ "/" ++ g ++ "/" ++ i ++ "/" ++ pathTail p t := by
      simp only [pathTail, String.append_assoc]
    have hm := matchSubGroup_form base g i (pathTail p t) h1.1 h1.2
      (pathTail_nonSpace p t hp' ht)
    simp only [followPath]
    rw [hkey, hm]
    simp only [and_self, if_true]
    have := ih hp' (base ++ "/" ++ g ++ "/" ++ i) (pathTail p t)
    rw [this]
    cases p with
    | nil => rfl
    | cons _ _ => simp

/-! ## What the scoring pass computes, key by key -/

/-- The requests `req` of the requirements `l` that `af` maps to the allocatable
key `k`, in the order of the requirement map. -/
def requestsOn (af : GoMap String) (req : GoMap Int) (l : GoMap String) (k : String) :
    List Int :=
  (l.filter (fun kv => decide (af.getD kv.2 "" = k))).map (fun kv => req.getD kv.2 0)

theorem requestedResourceLoop_lists (grp : GrpAllocator) :
    ∀ (l : GoMap String) (rr : GoMap (List Int)) (found : Bool) (pf : List PredicateFailureReason),
      (requestedResourceLoop grp l rr found pf).2.1 = true →
      ∀ k, (requestedResourceLoop grp l rr found pf).1.getD k [] =
        rr.getD k [] ++ requestsOn grp.AllocateFrom grp.RequiredResource l k := by
  intro l
  induction l with
  | nil =>
    intro rr found pf _ k
    simp [requestedResourceLoop, requestsOn]
  | cons p t ih =>
    obtain ⟨key, e⟩ := p
    intro rr found pf h k
    simp only [requestedResourceLoop] at h ⊢
    split at h
    · exact absurd (requestedResourceLoop_snd grp t _ _ _ h).1 (by simp)
    · rename_i v hv
      rw [ih _ _ _ h k, GoMap.getD_set]
      unfold requestsOn
      by_cases hk : grp.AllocateFrom.getD e "" = k
      · simp [List.filter_cons, hk]
      · simp [List.filter_cons, hk]

/-- The effect of the scoring loop: when it reports true, every allocatable key
of the location has a scorer that admitted the requests collected for the key,
and the usage of the key is what this scorer returned; the usage of every other
key is unchanged. -/
theorem scoreLoop_effect (rr : GoMap (List Int)) :
    ∀ (l : GoMap String) (grp : GrpAllocator) (found : Bool) (pf : List PredicateFailureReason)
      (grp' : GrpAllocator) (found' : Bool) (pf' : List PredicateFailureReason),
      l.vals.Nodup →
      scoreLoop rr l grp found pf = .ok (grp', found', pf') →
      (∀ x, x ∉ l.vals → grp'.PodResource.getD x 0 = grp.PodResource.getD x 0 ∧
        grp'.NodeResource.getD x 0 = grp.NodeResource.getD x 0) ∧
      (found' = true → found = true ∧ ∀ kv ∈ l, ∃ f, grp.AllocScorer.get? kv.2 = some f ∧
        (f (grp.AllocResource.getD kv.2 0) (grp.PodResource.getD kv.2 0)
          (grp.NodeResource.getD kv.2 0) (rr.getD kv.2 []) grp.InitContainer).found = true ∧
        grp'.PodResource.getD kv.2 0 =
          (f (grp.AllocResource.getD kv.2 0) (grp.PodResource.getD kv.2 0)
            (grp.NodeResource.getD kv.2 0) (rr.getD kv.2 []) grp.InitContainer).podR ∧
        grp'.NodeResource.getD kv.2 0 =
          (f (grp.AllocResource.getD kv.2 0) (grp.PodResource.getD kv.2 0)
            (grp.NodeResource.getD kv.2 0) (rr.getD kv.2 []) grp.InitContainer).nodeR) := by
  intro l
  induction l with
  | nil =>
    intro grp found pf grp' found' pf' _ h
    simp only [scoreLoop, Except.ok.injEq, Prod.mk.injEq] at h
    obtain ⟨rfl, rfl, -⟩ := h
    exact ⟨fun _ _ => ⟨rfl, rfl⟩, fun hf => ⟨hf, fun kv hkv => by cases hkv⟩⟩
  | cons p t ih =>
    obtain ⟨key0, key⟩ := p
    intro grp found pf grp' found' pf' hnd h
    simp only [GoMap.vals, List.map_cons, List.nodup_cons] at hnd
    obtain ⟨hk, hndt⟩ := hnd
    simp only [scoreLoop] at h
    split at h
    · exact absurd h (by simp)
    · rename_i f hf
      split at h
      · obtain ⟨a1, a2⟩ := ih _ _ _ _ _ _ hndt h
        refine ⟨?_, fun hfound => absurd (a2 hfound).1 (by simp)⟩
        intro x hx
        simp only [GoMap.vals, List.map_cons, List.mem_cons, not_or] at hx
        exact a1 x hx.2
      · rename_i hrf
        have hrf' : (f (grp.AllocResource.getD key 0) (grp.PodResource.getD key 0)
            (grp.NodeResource.getD key 0) (rr.getD key []) grp.InitContainer).found = true := by
          simpa using hrf
        obtain ⟨a1, a2⟩ := ih _ _ _ _ _ _ hndt h
        constructor
        · intro x hx
          simp only [GoMap.vals, List.map_cons, List.mem_cons, not_or] at hx
          obtain ⟨b1, b2⟩ := a1 x hx.2
          simp only at b1 b2
          rw [b1, b2, GoMap.getD_set, GoMap.getD_set]
          have : ¬ key = x := fun e => hx.1 e.symm
          simp [this]
        · intro hfound
          obtain ⟨c1, c2⟩ := a2 hfound
          refine ⟨c1, ?_⟩
          intro kv hkv
          rcases List.mem_cons.1 hkv with rfl | hkt
          · obtain ⟨b1, b2⟩ := a1 key hk
            simp only at b1 b2
            refine ⟨f, hf, hrf', ?_, ?_⟩
            · rw [b1, GoMap.getD_set]; simp
            · rw [b2, GoMap.getD_set]; simp
          · obtain ⟨f', hf', d1, d2, d3⟩ := c2 kv hkt
            have hne : ¬ key = kv.2 := by
              intro e
              exact hk (e ▸ List.mem_map_of_mem Prod.snd hkt)
            simp only [GoMap.getD_set, hne, if_false] at hf' d1 d2 d3
            exact ⟨f', hf', d1, d2, d3⟩

/-- The scorer of the key `k` admitted the requests `L` against the usage
`(pod, node)`, and `(pod', node')` hold the usage it returned for the key. -/
def ScoredKey (scorers : GoMap ResourceScoreFunc) (alloc pod node pod' node' : GoMap Int)
    (init : Bool) (k : String) (L : List Int) : Prop :=
  ∃ f, scorers.get? k = some f ∧
    (f (alloc.getD k 0) (pod.getD k 0) (node.getD k 0) L init).found = true ∧
    pod'.getD k 0 = (f (alloc.getD k 0) (pod.getD k 0) (node.getD k 0) L init).podR ∧
    node'.getD k 0 = (f (alloc.getD k 0) (pod.getD k 0) (node.getD k 0) L init).nodeR

/-- The effect of a successful `findScoreAndUpdate`: every allocatable key of
the location is scored with the requests that `AllocateFrom` maps to it, the
usage of every other key is unchanged. -/
theorem findScoreAndUpdate_effect (grp : GrpAllocator) (loc : String) (grp' : GrpAllocator)
    (pf' : List PredicateFailureReason)
    (hnd : (grp.GrpAllocResource.getD loc []).vals.Nodup)
    (h : findScoreAndUpdate grp loc = .ok (grp', true, pf')) :
    (∀ x, x ∉ (grp.GrpAllocResource.getD loc []).vals →
      grp'.PodResource.getD x 0 = grp.PodResource.getD x 0 ∧
      grp'.NodeResource.getD x 0 = grp.NodeResource.getD x 0) ∧
    (∀ kv ∈ grp.GrpAllocResource.getD loc [],
      ScoredKey grp.AllocScorer grp.AllocResource grp.PodResource grp.NodeResource
        grp'.PodResource grp'.NodeResource grp.InitContainer kv.2
        (requestsOn grp.AllocateFrom grp.RequiredResource grp.GrpRequiredResource kv.2)) := by
  unfold findScoreAndUpdate at h
  generalize hr : requestedResourceLoop grp grp.GrpRequiredResource [] true [] = r at h
  obtain ⟨rr, f0, pf0⟩ := r
  simp only at h
  split at h
  · exact absurd h (by simp)
  · rename_i g1 f1 p1 hs
    simp only [Except.ok.injEq, Prod.mk.injEq] at h
    obtain ⟨rfl, rfl, rfl⟩ := h
    obtain ⟨a1, a2⟩ := scoreLoop_effect rr _ _ _ _ _ _ _ hnd hs
    obtain ⟨hf0, a3⟩ := a2 rfl
    subst hf0
    have hl := requestedResourceLoop_lists grp grp.GrpRequiredResource [] true []
      (by rw [hr])
    rw [hr] at hl
    simp only at hl
    refine ⟨fun x hx => a1 x hx, ?_⟩
    intro kv hkv
    obtain ⟨f, hf, b1, b2, b3⟩ := a3 kv hkv
    have hL : rr.getD kv.2 [] =
        requestsOn grp.AllocateFrom grp.RequiredResource grp.GrpRequiredResource kv.2 := by
      rw [hl kv.2]
      simp [GoMap.getD, GoMap.get?]
    rw [hL] at b1 b2 b3
    exact ⟨f, hf, b1, b2, b3⟩

/-- A feasible location is rescored from the usage at the entry of
`allocateGroupAt`: the result is the result of `findScoreAndUpdate` on a group
that has the entry usage and the final `AllocateFrom`. -/
theorem allocateGroupAt_rescored (allocGroup : GrpAllocator → AllocResult) (grp : GrpAllocator)
    (loc : String) (sr : GoMap (GoMap (GoMap String)))
    (grp' : GrpAllocator) (rs : List PredicateFailureReason)
    (h : allocateGroupAt allocGroup grp loc sr = .ok (grp', true, rs)) :
    ∃ gmid rs', SameStatic grp gmid ∧ gmid.PodResource = grp.PodResource ∧
      gmid.NodeResource = grp.NodeResource ∧ gmid.AllocateFrom = grp'.AllocateFrom ∧
      findScoreAndUpdate gmid loc = .ok (grp', true, rs') := by
  unfold allocateGroupAt at h
  simp only at h
  split at h
  · exact absurd h (by simp)
  · rename_i g1 f1 p1 hra
    obtain ⟨r1, -, -⟩ := resourceAvailableLoop_static _ _ _ _ _ _ _ _ hra
    split at h
    · exact absurd h (by simp)
    · rename_i g2 f2 p2 hsg
      obtain ⟨s1, -⟩ := allocateSubGroupsOuter_static _ _ _ _ _ _ _ _ _ _ _ hsg
      split at h
      swap
      · simp at h
      · split at h
        · exact absurd h (by simp)
        · rename_i g3 f3 p3 hfs
          obtain ⟨-, -, -, c4, -⟩ := findScoreAndUpdate_spec _ _ _ _ _ hfs
          split at h
          · simp at h
          · rename_i hf3
            simp only [Except.ok.injEq, Prod.mk.injEq] at h
            obtain ⟨rfl, -, -⟩ := h
            have hf3' : f3 = true := by simpa using hf3
            subst hf3'
            refine ⟨_, _, ?_, ?_, ?_, c4.symm, hfs⟩
            · have r1' : SameStatic grp g1 :=
                ⟨r1.1, r1.2, r1.3, r1.4, r1.5, r1.6, r1.7, r1.8, r1.9, r1.10, r1.11⟩
              have := r1'.trans s1
              exact ⟨this.1, this.2, this.3, this.4, this.5, this.6, this.7, this.8, this.9,
                this.10, this.11⟩
            · rfl
            · rfl

theorem GoMap.set_of_not_mem {V : Type} (m : GoMap V) (k : String) (v : V)
    (h : k ∉ m.keys) : m.set k v = m ++ [(k, v)] := by
  induction m with
  | nil => rfl
  | cons p t ih =>
    obtain ⟨a, b⟩ := p
    simp only [GoMap.keys, List.map_cons, List.mem_cons, not_or] at h
    have hne : ¬ a = k := fun e => h.1 e.symm
    simp only [GoMap.set, hne, if_false, List.cons_append]
    rw [ih h.2]

theorem GoMap.getD_of_mem {V : Type} (m : GoMap V) (hnd : m.keys.Nodup) (k : String) (v d : V)
    (h : (k, v) ∈ m) : m.getD k d = v := by
  induction m with
  | nil => cases h
  | cons p t ih =>
    obtain ⟨a, b⟩ := p
    simp only [GoMap.keys, List.map_cons, List.nodup_cons] at hnd
    rcases List.mem_cons.1 h with h | h
    · simp only [Prod.mk.injEq] at h
      obtain ⟨rfl, rfl⟩ := h
      simp [GoMap.getD, GoMap.get?]
    · have hne : ¬ a = k := by
        intro e
        exact hnd.1 (e ▸ List.mem_map_of_mem Prod.fst h)
      have := ih hnd.2 h
      simpa [GoMap.getD, GoMap.get?, hne] using this

/-- The requests of the container that are not prechecked. -/
def groupRequests (env : Env) (contReq : ContainerInfo) : GoMap Int :=
  contReq.DevRequests.filter (fun kv => !env.PrecheckedResource kv.1)

/-- The allocatable quantities of the node that are not prechecked. -/
def groupAllocatable (env : Env) (allocatable : GoMap Int) : GoMap Int :=
  allocatable.filter (fun kv => !env.PrecheckedResource kv.1)

theorem collectRequests_eq (env : Env) (contReq : ContainerInfo) :
    ∀ (l : GoMap Int) (acc : GoMap String × GoMap Int × GoMap (Option ResourceScoreFunc)),
      l.keys.Nodup → (∀ k ∈ l.keys, k ∉ acc.1.keys ∧ k ∉ acc.2.1.keys) →
      (collectRequests env contReq l acc).1 =
        acc.1 ++ (l.filter (fun kv => !env.PrecheckedResource kv.1)).map
          (fun kv => (kv.1, kv.1)) ∧
      (collectRequests env contReq l acc).2.1 =
        acc.2.1 ++ l.filter (fun kv => !env.PrecheckedResource kv.1) := by
  intro l
  induction l with
  | nil => intro acc _ _; simp [collectRequests]
  | cons p t ih =>
    obtain ⟨k, v⟩ := p
    intro acc hnd hdis
    obtain ⟨reqName, req, reqScorer⟩ := acc
    simp only [GoMap.keys, List.map_cons, List.nodup_cons] at hnd
    have hk := hdis k (by simp [GoMap.keys])
    simp only at hk
    simp only [collectRequests]
    by_cases hp : env.PrecheckedResource k = true
    · simp only [hp, Bool.not_true, Bool.false_eq_true, if_false]
      have := ih (reqName, req, reqScorer) hnd.2
        (fun k' hk' => hdis k' (by simp only [GoMap.keys, List.map_cons, List.mem_cons]; exact Or.inr hk'))
      simp only [List.filter_cons, hp, Bool.not_true, Bool.false_eq_true, if_false]
      exact this
    · have hp' : env.PrecheckedResource k = false := by simpa using hp
      simp only [hp', Bool.not_false, if_true]
      have key := fun s => ih (reqName.set k k, req.set k v, s) hnd.2 (by
        intro k' hk'
        have hd := hdis k' (by
          simp only [GoMap.keys, List.map_cons, List.mem_cons]; exact Or.inr hk')
        simp only at hd ⊢
        have hne : k' ≠ k := fun e => hnd.1 (e ▸ hk')
        constructor
        · intro hmem
          rcases (GoMap.keys_set _ _ _ _).1 hmem with h | h
          · exact hne h
          · exact hd.1 h
        · intro hmem
          rcases (GoMap.keys_set _ _ _ _).1 hmem with h | h
          · exact hne h
          · exact hd.2 h)
      simp only at key
      rw [(key _).1, (key _).2, GoMap.set_of_not_mem _ _ _ hk.1,
        GoMap.set_of_not_mem _ _ _ hk.2]
      simp [List.filter_cons, hp']

theorem collectAllocatable_eq (env : Env) (grpName : String) :
    ∀ (l : GoMap Int) (acc : GoMap (GoMap String) × GoMap Int),
      l.keys.Nodup →
      (∀ k ∈ l.keys, k ∉ (acc.1.getD grpName []).keys ∧ k ∉ acc.2.keys) →
      (collectAllocatable env grpName l acc).1.getD grpName [] =
        acc.1.getD grpName [] ++ (l.filter (fun kv => !env.PrecheckedResource kv.1)).map
          (fun kv => (kv.1, kv.1)) ∧
      (collectAllocatable env grpName l acc).2 =
        acc.2 ++ l.filter (fun kv => !env.PrecheckedResource kv.1) := by
  intro l
  induction l with
  | nil => intro acc _ _; simp [collectAllocatable]
  | cons p t ih =>
    obtain ⟨k, v⟩ := p
    intro acc hnd hdis
    obtain ⟨allocName, alloc⟩ := acc
    simp only [GoMap.keys, List.map_cons, List.nodup_cons] at hnd
    have hk := hdis k (by simp [GoMap.keys])
    simp only at hk
    simp only [collectAllocatable]
    by_cases hp : env.PrecheckedResource k = true
    · simp only [hp, Bool.not_true, Bool.false_eq_true, if_false]
      have := ih (allocName, alloc) hnd.2
        (fun k' hk' => hdis k' (by simp only [GoMap.keys, List.map_cons, List.mem_cons]; exact Or.inr hk'))
      simp only [List.filter_cons, hp, Bool.not_true, Bool.false_eq_true, if_false]
      exact this
    · have hp' : env.PrecheckedResource k = false := by simpa using hp
      simp only [hp', Bool.not_false, if_true]
      have hget : (AssignMap2 allocName grpName k k).getD grpName [] =
          (allocName.getD grpName []).set k k := by
        rw [AssignMap2_getD]; simp
      have := ih (AssignMap2 allocName grpName k k, alloc.set k v) hnd.2 (by
        intro k' hk'
        have hd := hdis k' (by
          simp only [GoMap.keys, List.map_cons, List.mem_cons]; exact Or.inr hk')
        simp only at hd ⊢
        have hne : k' ≠ k := fun e => hnd.1 (e ▸ hk')
        rw [hget]
        constructor
        · intro hmem
          rcases (GoMap.keys_set _ _ _ _).1 hmem with h | h
          · exact hne h
          · exact hd.1 h
        · intro hmem
          rcases (GoMap.keys_set _ _ _ _).1 hmem with h | h
          · exact hne h
          · exact hd.2 h)
      simp only at this
      rw [this.1, this.2, hget, GoMap.set_of_not_mem _ _ _ hk.1, GoMap.set_of_not_mem _ _ _ hk.2]
      simp [List.filter_cons, hp']

/-- A successful search on a group with requirements commits the rescoring of
one location: the usage and the score it returns are those of
`findScoreAndUpdate` on a group with the entry usage and the final `AllocateFrom`. -/
theorem allocateGroup_rescored (fuel : Nat) (grp grp' : GrpAllocator)
    (rs : List PredicateFailureReason) (hne : grp.GrpRequiredResource.length ≠ 0)
    (h : allocateGroup (fuel + 1) grp = .ok (grp', true, rs)) :
    ∃ loc gmid g'' rs', loc ∈ SortedStringKeys grp.GrpAllocResource ∧
      SameStatic grp gmid ∧ gmid.PodResource = grp.PodResource ∧
      gmid.NodeResource = grp.NodeResource ∧ gmid.AllocateFrom = grp'.AllocateFrom ∧
      findScoreAndUpdate gmid loc = .ok (g'', true, rs') ∧
      grp'.PodResource = g''.PodResource ∧ grp'.NodeResource = g''.NodeResource ∧
      grp'.Score = g''.Score := by
  obtain ⟨cs, gF, hcs, hkeys, hsel⟩ := allocateGroup_search fuel grp grp' true rs hne h
  obtain ⟨-, hmem⟩ := candidates_spec _ _
    { grp with IsReqSubGrp := (findSubGroups grp.ReqBaseGroupName grp.GrpRequiredResource).2 }
    _ _ cs gF rfl hcs
  cases hs : selectCandidate grp.PreferUsed grp.Score cs with
  | none => rw [hs] at hsel; simp at hsel
  | some m =>
    rw [hs] at hsel
    obtain ⟨-, hm, hf, hcm, -⟩ := hsel
    obtain ⟨ug, hat, -⟩ := hmem m hm
    rw [hf] at hat
    obtain ⟨gmid, rs', g1, g2, g3, g4, g5⟩ := allocateGroupAt_rescored _ _ _ _ _ _ hat
    refine ⟨m.key, gmid, m.grp, rs', ?_, ?_, g2, g3, ?_, g5, hcm.2.1, hcm.2.2.1, hcm.2.2.2⟩
    · rw [← hkeys]
      exact List.mem_map_of_mem (fun c => c.key) hm
    · exact ⟨g1.1, g1.2, g1.3, g1.4, g1.5, g1.6, g1.7, g1.8, g1.9, g1.10, g1.11⟩
    · rw [g4, hcm.1]

theorem collectAllocatable_keys (env : Env) (grpName : String) :
    ∀ (l : GoMap Int) (acc : GoMap (GoMap String) × GoMap Int),
      ∀ k ∈ (collectAllocatable env grpName l acc).1.keys, k = grpName ∨ k ∈ acc.1.keys := by
  intro l
  induction l with
  | nil => intro acc k hk; exact Or.inr hk
  | cons p t ih =>
    obtain ⟨a, v⟩ := p
    intro acc k hk
    obtain ⟨allocName, alloc⟩ := acc
    simp only [collectAllocatable] at hk
    split at hk
    · rcases ih _ k hk with h | h
      · exact Or.inl h
      · simp only [AssignMap2] at h
        rcases (GoMap.keys_set _ _ _ _).1 h with h | h
        · exact Or.inl h
        · exact Or.inr h
    · exact ih _ k hk

theorem GoMap.getD_filter (m : GoMap Int) (P : String → Bool) (k : String) (hk : P k = true) :
    GoMap.getD (m.filter (fun kv => P kv.1)) k 0 = m.getD k 0 := by
  induction m with
  | nil => rfl
  | cons p t ih =>
    obtain ⟨a, v⟩ := p
    by_cases ha : P a = true
    · simp only [List.filter_cons, ha, if_true]
      by_cases e : a = k
      · simp [GoMap.getD, GoMap.get?, e]
      · simpa [GoMap.getD, GoMap.get?, e] using ih
    · simp only [List.filter_cons, ha, if_false]
      have e : ¬ a = k := fun e => ha (e ▸ hk)
      simpa [GoMap.getD, GoMap.get?, e] using ih

theorem GoMap.keys_filter_nodup {V : Type} (m : GoMap V) (P : String × V → Bool)
    (h : m.keys.Nodup) : (GoMap.keys (m.filter P)).Nodup := by
  unfold GoMap.keys at *
  exact (List.Nodup.sublist (List.Sublist.map _ (List.filter_sublist m)) h)

/-- The requests of the container that `af` maps to the allocatable key `a`. -/
def requestsOf (env : Env) (contReq : ContainerInfo) (af : GoMap String) (a : String) :
    List Int :=
  ((groupRequests env contReq).filter (fun kv => decide (af.getD kv.1 "" = a))).map Prod.snd

theorem requestsOn_eq_requestsOf (env : Env) (contReq : ContainerInfo) (af : GoMap String)
    (a : String) (hnd : contReq.DevRequests.keys.Nodup) :
    requestsOn af (groupRequests env contReq)
      ((groupRequests env contReq).map (fun kv => (kv.1, kv.1))) a =
    requestsOf env contReq af a := by
  unfold requestsOn requestsOf
  rw [List.filter_map, List.map_map]
  apply List.map_congr_left
  intro kv hkv
  have hmem : kv ∈ groupRequests env contReq := (List.mem_filter.1 hkv).1
  have hnd' : (GoMap.keys (groupRequests env contReq)).Nodup :=
    GoMap.keys_filter_nodup _ _ hnd
  exact GoMap.getD_of_mem _ hnd' kv.1 kv.2 0 hmem

theorem mem_keys_of_isGroupAllocatable (env : Env) (allocatable : GoMap Int) (a : String) :
    IsGroupAllocatable env allocatable a ↔
      (a, a) ∈ (groupAllocatable env allocatable).map (fun kv => (kv.1, kv.1)) := by
  unfold IsGroupAllocatable groupAllocatable GoMap.keys
  simp only [List.mem_map, List.mem_filter, Bool.not_eq_true', Prod.mk.injEq, Prod.exists]
  constructor
  · rintro ⟨⟨k, v, hkv, rfl⟩, hp⟩
    exact ⟨_, v, ⟨hkv, hp⟩, rfl, rfl⟩
  · rintro ⟨k, v, ⟨hkv, hp⟩, rfl, -⟩
    exact ⟨⟨_, v, hkv, rfl⟩, hp⟩

theorem isGroupAllocatable_of_alloc (env : Env) (allocatable : GoMap Int) (a : String)
    (h : (GoMap.get? (groupAllocatable env allocatable) a).isSome = true) :
    IsGroupAllocatable env allocatable a := by
  have hmem : a ∈ GoMap.keys (groupAllocatable env allocatable) := by
    rw [← GoMap.contains_iff_mem_keys]
    exact h
  unfold groupAllocatable GoMap.keys at hmem
  obtain ⟨kv, hkv, rfl⟩ := List.mem_map.1 hmem
  obtain ⟨h1, h2⟩ := List.mem_filter.1 hkv
  exact ⟨List.mem_map_of_mem Prod.fst h1, by simpa using h2⟩

/-- The usage that a fitting call of `containerFitsGroupConstraints` returns:
without group requests the usage is unchanged; otherwise every allocatable key
of the group resources is scored once, from the usage at the entry of the call,
with the requests that `AllocateFrom` maps to it, the usage of every other key
is unchanged, and every group request is mapped to such an allocatable key. -/
theorem containerFits_usage (env : Env) (contName : String) (contReq : ContainerInfo)
    (initContainer : Bool) (allocatable : GoMap Int) (allocScorer : GoMap ResourceScoreFunc)
    (podResource nodeResource : GoMap Int) (usedGroups : GoMap Bool)
    (bPreferUsed bSetAllocateFrom : Bool) (r : ContainerFit)
    (hrun : containerFitsGroupConstraints env contName contReq initContainer allocatable
      allocScorer podResource nodeResource usedGroups bPreferUsed bSetAllocateFrom = .ok r)
    (hfit : r.found = true)
    (hndA : allocatable.keys.Nodup) (hndR : contReq.DevRequests.keys.Nodup) :
    (groupRequests env contReq = [] ∧ r.grp.PodResource = podResource ∧
      r.grp.NodeResource = nodeResource) ∨
    ((∀ a, IsGroupAllocatable env allocatable a →
        ScoredKey allocScorer allocatable podResource nodeResource r.grp.PodResource
          r.grp.NodeResource initContainer a (requestsOf env contReq r.grp.AllocateFrom a)) ∧
      (∀ x, ¬ IsGroupAllocatable env allocatable x →
        r.grp.PodResource.getD x 0 = podResource.getD x 0 ∧
        r.grp.NodeResource.getD x 0 = nodeResource.getD x 0) ∧
      (∀ kv ∈ groupRequests env contReq,
        IsGroupAllocatable env allocatable (r.grp.AllocateFrom.getD kv.1 ""))) := by
  unfold containerFitsGroupConstraints at hrun
  generalize hcr : collectRequests env contReq contReq.DevRequests ([], [], []) = cr at hrun
  obtain ⟨reqName, req, reqScorer⟩ := cr
  simp only at hrun
  split at hrun
  · exact absurd hrun (by simp)
  · rename_i grpPrefix grpName hpre
    generalize hca : collectAllocatable env grpName allocatable ([], []) = ca at hrun
    obtain ⟨allocName, alloc⟩ := ca
    obtain ⟨hR1, hR2⟩ := collectRequests_eq env contReq contReq.DevRequests ([], [], []) hndR
      (fun k _ => ⟨by simp [GoMap.keys], by simp [GoMap.keys]⟩)
    rw [hcr] at hR1 hR2
    simp only [List.nil_append] at hR1 hR2
    obtain ⟨hA1, hA2⟩ := collectAllocatable_eq env grpName allocatable ([], []) hndA
      (fun k _ => ⟨by simp [GoMap.keys, GoMap.getD, GoMap.get?], by simp [GoMap.keys]⟩)
    rw [hca] at hA1 hA2
    simp only [List.nil_append] at hA1 hA2
    have hA1' : allocName.getD grpName [] =
        (groupAllocatable env allocatable).map (fun kv => (kv.1, kv.1)) := by
      rw [hA1]
      simp [GoMap.getD, GoMap.get?, groupAllocatable]
    have hA2' : alloc = groupAllocatable env allocatable := hA2
    have hR2' : req = groupRequests env contReq := hR2
    have hR1' : reqName = (groupRequests env contReq).map (fun kv => (kv.1, kv.1)) := hR1
    have hkeys := collectAllocatable_keys env grpName allocatable ([], [])
    rw [hca] at hkeys
    simp only at hkeys
    -- the scoring of the top location, from a group with the entry usage
    have hscored : ∀ (gmid g'' : GrpAllocator) (rs' : List PredicateFailureReason),
        gmid.AllocScorer = allocScorer → gmid.AllocResource = alloc →
        gmid.GrpAllocResource = allocName → gmid.GrpRequiredResource = reqName →
        gmid.RequiredResource = req → gmid.InitContainer = initContainer →
        gmid.PodResource = podResource → gmid.NodeResource = nodeResource →
        findScoreAndUpdate gmid grpName = .ok (g'', true, rs') →
        (∀ a, IsGroupAllocatable env allocatable a →
          ScoredKey allocScorer allocatable podResource nodeResource g''.PodResource
            g''.NodeResource initContainer a (requestsOf env contReq gmid.AllocateFrom a)) ∧
        (∀ x, ¬ IsGroupAllocatable env allocatable x →
          g''.PodResource.getD x 0 = podResource.getD x 0 ∧
          g''.NodeResource.getD x 0 = nodeResource.getD x 0) ∧
        (∀ kv ∈ groupRequests env contReq,
          IsGroupAllocatable env allocatable (gmid.AllocateFrom.getD kv.1 "")) := by
      intro gmid g'' rs' e1 e2 e3 e4 e5 e6 e7 e8 hfs
      have hG : gmid.GrpAllocResource.getD grpName [] =
          (groupAllocatable env allocatable).map (fun kv => (kv.1, kv.1)) := by
        rw [e3]; exact hA1'
      have hndv : (GoMap.vals (gmid.GrpAllocResource.getD grpName [])).Nodup := by
        rw [hG]
        have : GoMap.vals ((groupAllocatable env allocatable).map (fun kv => (kv.1, kv.1))) =
            GoMap.keys (groupAllocatable env allocatable) := by
          simp [GoMap.vals, GoMap.keys, List.map_map, Function.comp]
        rw [this]
        exact GoMap.keys_filter_nodup _ _ hndA
      obtain ⟨f1, f2⟩ := findScoreAndUpdate_effect gmid grpName g'' rs' hndv hfs
      obtain ⟨-, -, -, -, f3⟩ := findScoreAndUpdate_spec _ _ _ _ _ hfs
      rw [hG] at f1 f2
      refine ⟨?_, ?_, ?_⟩
      · intro a ha
        have hmem := (mem_keys_of_isGroupAllocatable env allocatable a).1 ha
        obtain ⟨f, hf, b1, b2, b3⟩ := f2 (a, a) hmem
        simp only at hf b1 b2 b3
        rw [e1] at hf
        have hal : gmid.AllocResource.getD a 0 = allocatable.getD a 0 := by
          rw [e2, hA2']
          exact GoMap.getD_filter allocatable (fun k => !env.PrecheckedResource k) a
            (by simp [ha.2])
        have hL : requestsOn gmid.AllocateFrom gmid.RequiredResource gmid.GrpRequiredResource a =
            requestsOf env contReq gmid.AllocateFrom a := by
          rw [e5, e4, hR1', hR2']
          exact requestsOn_eq_requestsOf env contReq _ a hndR
        rw [hal, hL, e7, e8, e6] at b1 b2 b3
        exact ⟨f, hf, b1, b2, b3⟩
      · intro x hx
        have hxn : x ∉ GoMap.vals ((groupAllocatable env allocatable).map
            (fun kv => (kv.1, kv.1))) := by
          intro hmem
          apply hx
          rw [mem_keys_of_isGroupAllocatable]
          obtain ⟨p, hp, rfl⟩ := List.mem_map.1 hmem
          obtain ⟨q, hq, rfl⟩ := List.mem_map.1 hp
          exact List.mem_map.2 ⟨q, hq, rfl⟩
        obtain ⟨c1, c2⟩ := f1 x hxn
        rw [e7] at c1
        rw [e8] at c2
        exact ⟨c1, c2⟩
      · intro kv hkv
        have hm : (kv.1, kv.1) ∈ gmid.GrpRequiredResource := by
          rw [e4, hR1']
          exact List.mem_map.2 ⟨kv, hkv, rfl⟩
        have := f3 rfl _ hm
        simp only at this
        rw [e2, hA2'] at this
        exact isGroupAllocatable_of_alloc env allocatable _ this
    -- the search
    have hsearch : ∀ (grp1 : GrpAllocator) (reasons : List PredicateFailureReason),
        allocateGroup (searchFuel reqName)
          { ContName := contName, InitContainer := initContainer, PreferUsed := bPreferUsed,
            RequiredResource := req, ReqScorer := reqScorer, AllocResource := alloc,
            AllocScorer := allocScorer, UsedGroups := usedGroups,
            GrpRequiredResource := reqName, IsReqSubGrp := [], GrpAllocResource := allocName,
            IsAllocSubGrp := [], ReqBaseGroupName := env.DeviceGroupPrefix,
            AllocBaseGroupPrefix := grpPrefix, Score := 0, PodResource := podResource,
            NodeResource := nodeResource, AllocateFrom := [] } = .ok (grp1, true, reasons) →
        (groupRequests env contReq = [] ∧ grp1.PodResource = podResource ∧
          grp1.NodeResource = nodeResource) ∨
        ((∀ a, IsGroupAllocatable env allocatable a →
            ScoredKey allocScorer allocatable podResource nodeResource grp1.PodResource
              grp1.NodeResource initContainer a (requestsOf env contReq grp1.AllocateFrom a)) ∧
          (∀ x, ¬ IsGroupAllocatable env allocatable x →
            grp1.PodResource.getD x 0 = podResource.getD x 0 ∧
            grp1.NodeResource.getD x 0 = nodeResource.getD x 0) ∧
          (∀ kv ∈ groupRequests env contReq,
            IsGroupAllocatable env allocatable (grp1.AllocateFrom.getD kv.1 ""))) := by
      intro grp1 reasons hag
      by_cases hne : reqName.length = 0
      · left
        have hnil : reqName = [] := List.length_eq_zero.1 hne
        simp only [searchFuel, allocateGroup, allocateGroupBody] at hag
        rw [if_pos hne] at hag
        simp only [Except.ok.injEq, Prod.mk.injEq] at hag
        obtain ⟨rfl, -, -⟩ := hag
        refine ⟨?_, rfl, rfl⟩
        rw [hnil] at hR1'
        exact List.map_eq_nil_iff.1 hR1'.symm
      · right
        simp only [searchFuel] at hag
        obtain ⟨loc, gmid, g'', rs', hloc, hst, hp, hn, haf, hfs, e1, e2, -⟩ :=
          allocateGroup_rescored _ _ _ _ hne hag
        have hlocg : loc = grpName := by
          rw [mem_SortedStringKeys] at hloc
          rcases hkeys loc hloc with h | h
          · exact h
          · simp [GoMap.keys] at h
        subst hlocg
        have := hscored gmid g'' rs' hst.allocScorer hst.allocResource hst.grpAllocResource
          hst.grpRequiredResource hst.requiredResource hst.initContainer hp hn hfs
        rw [haf] at this
        rw [e1, e2]
        exact this
    split at hrun
    · -- the search branch
      split at hrun
      · exact absurd hrun (by simp)
      · rename_i grp1 found reasons hag
        simp only [Except.ok.injEq] at hrun
        subst hrun
        simp only at hfit
        subst hfit
        exact hsearch grp1 reasons hag
    · split at hrun
      · -- the scoring of the given `AllocateFrom`
        split at hrun
        · exact absurd hrun (by simp)
        · rename_i grp1 found reasons hfs
          simp only [Except.ok.injEq] at hrun
          subst hrun
          simp only at hfit
          subst hfit
          right
          obtain ⟨-, -, -, c4, -⟩ := findScoreAndUpdate_spec _ _ _ _ _ hfs
          have := hscored _ grp1 reasons rfl rfl rfl rfl rfl rfl rfl rfl hfs
          rw [← c4] at this
          exact this
      · -- no group request
        rename_i hlen
        simp only [Except.ok.injEq] at hrun
        subst hrun
        left
        refine ⟨?_, rfl, rfl⟩
        rw [← hR2']
        have : req.length = 0 := by simpa using hlen
        exact List.length_eq_zero.1 this

/-! ## Existence of a mapping and the verdict of the search -/

/-- The map `af` is a mapping of the requirements of the container to
allocatable quantities of the node that respects the group structure and the
capacities: every requirement is mapped to an allocatable key; the members of
one requirement subgroup (the requirements that follow one path `p` from
`DeviceGroupPrefix`) are mapped under one list of locations, with the same
group names; a leaf requirement keeps its leaf name; and on every allocatable
key the prior usage of the node plus the sum of the requests mapped to the key
is within the allocatable quantity. The base `gp/gn` of the allocatable keys is
`DeviceGroupPrefix` as `containerFitsGroupConstraints` recomposes it. -/
def IsFeasibleMapping (env : Env) (contReq : ContainerInfo) (allocatable nodeUsed : GoMap Int)
    (gp gn : String) (af : GoMap String) : Prop :=
  (∀ e, IsGroupRequest env contReq e →
    ∃ a, af.get? e = some a ∧ IsGroupAllocatable env allocatable a) ∧
  (∀ p : List (String × String), ∃ ls : List String, ls.length = p.length ∧
    ∀ e, IsGroupRequest env contReq e → (followPath env.DeviceGroupPrefix p e e).isSome →
      ∃ a, af.get? e = some a ∧
        (followPath (gp ++ "/" ++ gn) (List.zip (p.map Prod.fst) ls) a a).isSome) ∧
  (∀ e, IsGroupRequest env contReq e → ∀ (p : List (String × String)) (t : String),
    followPath env.DeviceGroupPrefix p e e = some t →
    matchSubGroup (pathBase env.DeviceGroupPrefix p) e = none →
    ∃ (ls : List String) (a : String), ls.length = p.length ∧ af.get? e = some a ∧
      followPath (gp ++ "/" ++ gn) (List.zip (p.map Prod.fst) ls) a a = some t) ∧
  (∀ a, IsGroupAllocatable env allocatable a →
    nodeUsed.getD a 0 + (requestsOf env contReq af a).sum ≤ allocatable.getD a 0)

/-- The structure of the mapping that a successful search returns: the first
three parts of `IsFeasibleMapping`, which do not depend on the quantities. -/
theorem containerFits_structure (env : Env) (contName : String) (contReq : ContainerInfo)
    (initContainer : Bool) (allocatable : GoMap Int) (allocScorer : GoMap ResourceScoreFunc)
    (podResource nodeResource : GoMap Int) (usedGroups : GoMap Bool)
    (bPreferUsed bSetAllocateFrom : Bool) (r : ContainerFit) (gp gn : String)
    (hempty : env.PrecheckedResource "" = true)
    (hunset : contReq.AllocateFrom = none)
    (hrun : containerFitsGroupConstraints env contName contReq initContainer allocatable
      allocScorer podResource nodeResource usedGroups bPreferUsed bSetAllocateFrom = .ok r)
    (hfit : r.found = true)
    (hbase : matchPrefix env.DeviceGroupPrefix = some (gp, gn)) :
    (∀ e, IsGroupRequest env contReq e →
      ∃ a, r.grp.AllocateFrom.get? e = some a ∧ IsGroupAllocatable env allocatable a) ∧
    (∀ p : List (String × String), ∃ ls : List String, ls.length = p.length ∧
      ∀ e, IsGroupRequest env contReq e → (followPath env.DeviceGroupPrefix p e e).isSome →
        ∃ a, r.grp.AllocateFrom.get? e = some a ∧
          (followPath (gp ++ "/" ++ gn) (List.zip (p.map Prod.fst) ls) a a).isSome) ∧
    (∀ e, IsGroupRequest env contReq e → ∀ (p : List (String × String)) (t : String),
      followPath env.DeviceGroupPrefix p e e = some t →
      matchSubGroup (pathBase env.DeviceGroupPrefix p) e = none →
      ∃ (ls : List String) (a : String), ls.length = p.length ∧
        r.grp.AllocateFrom.get? e = some a ∧
        followPath (gp ++ "/" ++ gn) (List.zip (p.map Prod.fst) ls) a a = some t) := by
  obtain ⟨gp', gn', reqName, allocAll, n, hpre, hdiag, hreq, halloc, hpl⟩ :=
    containerFits_placed env contName contReq initContainer allocatable allocScorer
      podResource nodeResource usedGroups bPreferUsed bSetAllocateFrom r hempty hunset hrun hfit
  rw [hbase] at hpre
  simp only [Option.some.injEq, Prod.mk.injEq] at hpre
  obtain ⟨rfl, rfl⟩ := hpre
  refine ⟨?_, ?_, ?_⟩
  · intro e he
    obtain ⟨a, ha, ka, hka⟩ := Placed_mapped n _ _ _ _ _ hpl (e, e) (hreq e he)
    exact ⟨a, ha, (halloc (ka, a) hka).2⟩
  · intro p
    obtain ⟨ls, hlen, hall⟩ := Placed_cohesion p n _ _ _ _ _ hpl
    refine ⟨ls, hlen, ?_⟩
    intro e he hp
    obtain ⟨a, ka, ha, hka, hfp⟩ := hall (e, e) (hreq e he) hp
    have hk := (halloc (ka, a) hka).1
    simp only at hk
    subst hk
    exact ⟨ka, ha, hfp⟩
  · intro e he p t hp hleaf
    obtain ⟨ls, a, ka, hlen, ha, hka, hfp⟩ :=
      Placed_leaf_path n _ _ _ _ _ hpl (e, e) (hreq e he) p t hp hleaf
    have hk := (halloc (ka, a) hka).1
    simp only at hk
    subst hk
    exact ⟨ls, ka, hlen, ha, hfp⟩

/-- The search over bases that match themselves is sound for the existence of a
mapping: for a running container whose `AllocateFrom` is unset, on a node whose
prior usage is within its allocatable quantities, with scorers that admit a
request only if the prior node usage plus the sum of the requests is within the
capacity (running rule of section 4.1), whenever `containerFitsGroupConstraints`
reports `found = true`, the `AllocateFrom` it returns is a mapping of the
requirements to allocatable keys that respects the group structure and the
capacity of every allocatable key. The keys of `DevRequests` and of
`Allocatable` are distinct, as in a Go map; the empty name is prechecked. -/
theorem containerFitsLit_sound (env : Env) (contName : String) (contReq : ContainerInfo)
    (allocatable : GoMap Int) (allocScorer : GoMap ResourceScoreFunc)
    (podResource nodeResource : GoMap Int) (usedGroups : GoMap Bool)
    (bPreferUsed bSetAllocateFrom : Bool) (r : ContainerFit) (gp gn : String)
    (hempty : env.PrecheckedResource "" = true)
    (hunset : contReq.AllocateFrom = none)
    (hrun : containerFitsGroupConstraints env contName contReq false allocatable
      allocScorer podResource nodeResource usedGroups bPreferUsed bSetAllocateFrom = .ok r)
    (hfit : r.found = true)
    (hbase : matchPrefix env.DeviceGroupPrefix = some (gp, gn))
    (hndA : allocatable.keys.Nodup) (hndR : contReq.DevRequests.keys.Nodup)
    (hprior : ∀ a, nodeResource.getD a 0 ≤ allocatable.getD a 0)
    (hcontract : ∀ k f, allocScorer.get? k = some f → ∀ c p n L,
      (f c p n L false).found = true → n + L.sum ≤ c) :
    IsFeasibleMapping env contReq allocatable nodeResource gp gn r.grp.AllocateFrom := by
  obtain ⟨s1, s2, s3⟩ := containerFits_structure env contName contReq false allocatable
    allocScorer podResource nodeResource usedGroups bPreferUsed bSetAllocateFrom r gp gn
    hempty hunset hrun hfit hbase
  refine ⟨s1, s2, s3, ?_⟩
  intro a ha
  rcases containerFits_usage env contName contReq false allocatable allocScorer
    podResource nodeResource usedGroups bPreferUsed bSetAllocateFrom r hrun hfit
    hndA hndR with ⟨hnil, -, -⟩ | ⟨hsc, -, -⟩
  · unfold requestsOf
    rw [hnil]
    simpa using hprior a
  · obtain ⟨f, hf, hfound, -, -⟩ := hsc a ha
    exact hcontract a f hf _ _ _ _ hfound

theorem setScoreFuncLoop_mem (env : Env) (n : NodeInfo) :
    ∀ (l : GoMap Int) (acc : GoMap ResourceScoreFunc),
      (∀ kf ∈ acc, ∃ sel, kf.2 = env.SetScorer kf.1 sel) →
      ∀ kf ∈ setScoreFuncLoop env n l acc, ∃ sel, kf.2 = env.SetScorer kf.1 sel := by
  intro l
  induction l with
  | nil => intro acc h; exact h
  | cons p t ih =>
    obtain ⟨key, v⟩ := p
    intro acc h
    simp only [setScoreFuncLoop]
    apply ih
    intro kf hkf
    rcases GoMap.mem_set hkf with rfl | hkf
    · exact ⟨_, rfl⟩
    · exact h kf hkf

/-- Every scorer of `setScoreFunc` comes from the registry. -/
theorem setScoreFunc_mem (env : Env) (n : NodeInfo) :
    ∀ kf ∈ setScoreFunc env n, ∃ sel, kf.2 = env.SetScorer kf.1 sel :=
  setScoreFuncLoop_mem env n n.Allocatable [] (fun kf h => by cases h)

/-- The scorers of the scenario environment admit a running request only if
the prior node usage plus the sum of the requests is within the capacity. -/
theorem scenario_running_contract (n : NodeInfo) :
    ∀ k f, (setScoreFunc scenarioEnv n).get? k = some f → ∀ c p u L,
      (f c p u L false).found = true → u + L.sum ≤ c := by
  intro k f hf c p u L hfound
  obtain ⟨sel, hsel⟩ := setScoreFunc_mem scenarioEnv n (k, f) (GoMap.mem_of_get? hf)
  simp only at hsel
  subst hsel
  simpa [scenarioEnv, leftoverScoreFunc] using hfound

/-- A node with two gpus, of 8 and of 4 cards. -/
def nodeC4 : NodeInfo :=
  ⟨[("r/grp/gpu/0/cards", 8), ("r/grp/gpu/1/cards", 4)], [], []⟩

/-- The same node with 11 cards on the second gpu. -/
def nodeC4b : NodeInfo :=
  ⟨[("r/grp/gpu/0/cards", 8), ("r/grp/gpu/1/cards", 11)], [], []⟩

/-- A container that requests a gpu with 4 cards and a gpu with 8 cards. -/
def contC4 : ContainerInfo :=
  ⟨[("r/grp/gpu/A/cards", 4), ("r/grp/gpu/B/cards", 8)], none, []⟩

/-- The mapping that exists on `nodeC4`: the small request on the small gpu. -/
def mapC4 : GoMap String :=
  [("r/grp/gpu/A/cards", "r/grp/gpu/1/cards"), ("r/grp/gpu/B/cards", "r/grp/gpu/0/cards")]

/-- The call of `containerFitsGroupConstraints` on `nodeC4b`. -/
def fitC4b : Except Fault ContainerFit :=
  containerFitsGroupConstraints scenarioEnv "c" contC4 false nodeC4b.Allocatable
    (setScoreFunc scenarioEnv nodeC4b) [] (initNodeResource nodeC4b) [] true true

set_option maxRecDepth 100000 in
theorem fitC4b_isValue : isValue fitC4b = true := by decide!

set_option maxRecDepth 100000 in
theorem fitC4b_allocateFrom :
    (okValue fitC4b ⟨GrpAllocator.zero, contC4, false, [], 0⟩).grp.AllocateFrom = mapC4 := by
  decide!

/-- The mapping `mapC4` respects the group structure and, on `nodeC4`, the
capacities. Its structure is that of the mapping which the search itself
returns for the same requests on `nodeC4b`. -/
theorem mapC4_feasible :
    IsFeasibleMapping scenarioEnv contC4 nodeC4.Allocatable (initNodeResource nodeC4)
      "r" "grp" mapC4 := by
  obtain ⟨s1, s2, s3⟩ := containerFits_structure scenarioEnv "c" contC4 false
    nodeC4b.Allocatable (setScoreFunc scenarioEnv nodeC4b) [] (initNodeResource nodeC4b) []
    true true (okValue fitC4b ⟨GrpAllocator.zero, contC4, false, [], 0⟩) "r" "grp"
    (by decide!) rfl (eq_ok_okValue fitC4b _ fitC4b_isValue) (by decide!) (by decide!)
  rw [fitC4b_allocateFrom] at s1 s2 s3
  refine ⟨?_, s2, s3, ?_⟩
  · intro e he
    obtain ⟨a, h1, h2⟩ := s1 e he
    exact ⟨a, h1, h2⟩
  · intro a ha
    have hk : a = "r/grp/gpu/0/cards" ∨ a = "r/grp/gpu/1/cards" := by
      simpa [GoMap.keys, nodeC4] using ha.1
    rcases hk with rfl | rfl <;> decide!

/-! ## The usage that Take replays, key by key -/

/-- The contract of section 4.1 for a scorer: a running container adds the sum
of the requests to the pod usage and to the node usage; an init container takes
`max(usedByPod, sum)` for the pod and `max(usedByNode, usedByPod + sum)` for the
node; a request is admitted only if the new node usage is within the capacity. -/
def ObeysContract (f : ResourceScoreFunc) : Prop :=
  ∀ c p u L i,
    (f c p u L i).podR = (if i = true then max p L.sum else p + L.sum) ∧
    (f c p u L i).nodeR = (if i = true then max u (p + L.sum) else u + L.sum) ∧
    ((f c p u L i).found = true → (f c p u L i).nodeR ≤ c)

/-- The requests of the container `cont` that the entries `l` of its
`AllocateFrom` allocate from the key `k`, as `updateGroupResourceForContainer`
reads them. -/
def entryVals (env : Env) (cont : ContainerInfo) (l : GoMap String) (k : String) : List Int :=
  (l.filter (fun ea => !env.PrecheckedResource ea.1 && decide (ea.2 = k))).map
    (fun ea => cont.DevRequests.getD ea.1 0)

/-- The total that the container `cont` allocates from the key `k`. -/
def takeTotal (env : Env) (cont : ContainerInfo) (k : String) : Int :=
  (entryVals env cont (cont.AllocateFrom.getD []) k).sum

theorem entryVals_cons (env : Env) (cont : ContainerInfo) (e a : String) (t : GoMap String)
    (k : String) :
    entryVals env cont ((e, a) :: t) k =
      if (!env.PrecheckedResource e && decide (a = k)) = true then
        cont.DevRequests.getD e 0 :: entryVals env cont t k
      else entryVals env cont t k := by
  unfold entryVals
  by_cases h : (!env.PrecheckedResource e && decide (a = k)) = true
  · simp only [List.filter_cons, h, if_true, List.map_cons]
  · simp only [List.filter_cons, h, Bool.false_eq_true, if_false]

/-- The replay of a running container adds, key by key, the requests that the
container allocates from the key. -/
theorem updateLoop_running (env : Env) (n : NodeInfo) (cont : ContainerInfo)
    (hc : ∀ k sel, ObeysContract (env.SetScorer k sel)) (k : String) :
    ∀ (l : GoMap String) (acc : GoMap Int × GoMap Int),
      (updateGroupResourceForContainerLoop env n cont false l acc).1.getD k 0 =
        acc.1.getD k 0 + (entryVals env cont l k).sum ∧
      (updateGroupResourceForContainerLoop env n cont false l acc).2.getD k 0 =
        acc.2.getD k 0 + (entryVals env cont l k).sum := by
  intro l
  induction l with
  | nil => intro acc; simp [updateGroupResourceForContainerLoop, entryVals]
  | cons q t ih =>
    obtain ⟨e, a⟩ := q
    intro acc
    obtain ⟨P, N⟩ := acc
    simp only [updateGroupResourceForContainerLoop]
    rw [entryVals_cons]
    by_cases hp : env.PrecheckedResource e = true
    · simp only [hp, Bool.not_true, Bool.false_eq_true, if_false, Bool.false_and]
      exact ih _
    · have hp' : env.PrecheckedResource e = false := by simpa using hp
      simp only [hp', Bool.not_false, if_true, Bool.true_and, decide_eq_true_eq]
      obtain ⟨h1, h2⟩ := ih (P.set a (env.SetScorer a (n.Scorer.getD a 0)
          (n.Allocatable.getD a 0) (P.getD a 0) (N.getD a 0) [cont.DevRequests.getD e 0]
          false).podR,
        N.set a (env.SetScorer a (n.Scorer.getD a 0)
          (n.Allocatable.getD a 0) (P.getD a 0) (N.getD a 0) [cont.DevRequests.getD e 0]
          false).nodeR)
      obtain ⟨c1, c2, -⟩ := hc a (n.Scorer.getD a 0) (n.Allocatable.getD a 0) (P.getD a 0)
        (N.getD a 0) [cont.DevRequests.getD e 0] false
      simp only [Bool.false_eq_true, if_false, List.sum_cons, List.sum_nil, add_zero] at c1 c2
      rw [h1, h2, GoMap.getD_set, GoMap.getD_set, c1, c2]
      by_cases hk : a = k
      · subst hk
        simp only [if_true, List.sum_cons]
        constructor <;> ring
      · simp only [hk, if_false]
        exact ⟨trivial, trivial⟩

theorem updateContainers_running (env : Env) (n : NodeInfo)
    (hc : ∀ k sel, ObeysContract (env.SetScorer k sel)) (k : String) :
    ∀ (conts : GoMap ContainerInfo) (acc : GoMap Int × GoMap Int),
      (updateContainers env n false conts acc).1.getD k 0 =
        acc.1.getD k 0 + (conts.map (fun nc => takeTotal env nc.2 k)).sum ∧
      (updateContainers env n false conts acc).2.getD k 0 =
        acc.2.getD k 0 + (conts.map (fun nc => takeTotal env nc.2 k)).sum := by
  intro conts
  induction conts with
  | nil => intro acc; simp [updateContainers]
  | cons q t ih =>
    obtain ⟨name, cont⟩ := q
    intro acc
    obtain ⟨P, N⟩ := acc
    simp only [updateContainers, updateGroupResourceForContainer]
    obtain ⟨h1, h2⟩ := ih (updateGroupResourceForContainerLoop env n cont false
      (cont.AllocateFrom.getD []) (P, N))
    obtain ⟨g1, g2⟩ := updateLoop_running env n cont hc k (cont.AllocateFrom.getD []) (P, N)
    rw [h1, h2, g1, g2]
    simp only [List.map_cons, List.sum_cons, takeTotal]
    constructor <;> ring

theorem entryVals_nonneg (env : Env) (cont : ContainerInfo) (l : GoMap String) (k : String)
    (hnn : ∀ kv ∈ cont.DevRequests, 0 ≤ kv.2) : ∀ v ∈ entryVals env cont l k, 0 ≤ v := by
  intro v hv
  unfold entryVals at hv
  obtain ⟨ea, -, rfl⟩ := List.mem_map.1 hv
  rcases GoMap.getD_mem_or cont.DevRequests ea.1 0 with h | h
  · rw [h]
  · exact hnn _ h

theorem takeTotal_nonneg (env : Env) (cont : ContainerInfo) (k : String)
    (hnn : ∀ kv ∈ cont.DevRequests, 0 ≤ kv.2) : 0 ≤ takeTotal env cont k :=
  List.sum_nonneg (entryVals_nonneg env cont _ k hnn)

theorem updateLoop_keys (env : Env) (n : NodeInfo) (cont : ContainerInfo) (b : Bool) :
    ∀ (l : GoMap String) (acc : GoMap Int × GoMap Int) (x : String), x ∈ acc.2.keys →
      x ∈ (updateGroupResourceForContainerLoop env n cont b l acc).2.keys := by
  intro l
  induction l with
  | nil => intro acc x h; exact h
  | cons q t ih =>
    obtain ⟨e, a⟩ := q
    intro acc x h
    obtain ⟨P, N⟩ := acc
    simp only [updateGroupResourceForContainerLoop]
    split_ifs
    · exact ih _ x ((GoMap.keys_set _ _ _ _).2 (Or.inr h))
    · exact ih _ x h

theorem updateContainers_keys (env : Env) (n : NodeInfo) (b : Bool) :
    ∀ (conts : GoMap ContainerInfo) (acc : GoMap Int × GoMap Int) (x : String),
      x ∈ acc.2.keys → x ∈ (updateContainers env n b conts acc).2.keys := by
  intro conts
  induction conts with
  | nil => intro acc x h; exact h
  | cons q t ih =>
    obtain ⟨name, cont⟩ := q
    intro acc x h
    obtain ⟨P, N⟩ := acc
    simp only [updateContainers, updateGroupResourceForContainer]
    exact ih _ x (updateLoop_keys env n cont b _ _ x h)

/-- The usage of the node after Take is the usage that
`ComputePodGroupResources` returns, key by key. -/
theorem take_getD (env : Env) (n : NodeInfo) (spec : PodInfo) (x : String) :
    (TakePodGroupResource env n spec).Used.getD x 0 =
      (ComputePodGroupResources env n spec false).2.getD x 0 := by
  unfold TakePodGroupResource ComputePodGroupResources
  simp only [Bool.false_eq_true, if_false]
  have n0 : (copyInto n.Used ([] : GoMap Int)).keys.Nodup :=
    nodup_keys_copyInto _ _ (by simp [GoMap.keys])
  have n1 := updateContainers_nodup env n false spec.RunningContainers
    ([], copyInto n.Used []) (by simp [GoMap.keys]) n0
  have n2 := updateContainers_nodup env n true spec.InitContainers _ n1.1 n1.2
  apply getD_copyInto_of_inv _ _ _ n2.2
  · intro y _; rfl
  · intro y hy
    have hnot : y ∉ n.Used.keys := by
      intro hmem
      apply hy
      apply updateContainers_keys
      apply updateContainers_keys
      simp only
      rw [keys_copyInto]
      exact Or.inl hmem
    rw [GoMap.getD_of_not_mem_keys 0 hnot, GoMap.getD_of_not_mem_keys 0 hy]

theorem GoMap.get?_of_mem {V : Type} (m : GoMap V) (hnd : m.keys.Nodup) (k : String) (v : V)
    (h : (k, v) ∈ m) : m.get? k = some v := by
  induction m with
  | nil => cases h
  | cons p t ih =>
    obtain ⟨a, b⟩ := p
    simp only [GoMap.keys, List.map_cons, List.nodup_cons] at hnd
    rcases List.mem_cons.1 h with h | h
    · simp only [Prod.mk.injEq] at h
      obtain ⟨rfl, rfl⟩ := h
      simp [GoMap.get?]
    · have hne : ¬ a = k := by
        intro e
        exact hnd.1 (e ▸ List.mem_map_of_mem Prod.fst h)
      simp only [GoMap.get?, hne, if_false]
      exact ih hnd.2 h

/-- What a call of `containerFitsGroupConstraints` that fills `AllocateFrom`
leaves in the container: the requests are unchanged, the keys of `AllocateFrom`
are distinct, and an entry of `AllocateFrom` for a group request is the entry
of the allocator's map. -/
theorem containerFits_written (env : Env) (contName : String) (contReq : ContainerInfo)
    (initContainer : Bool) (allocatable : GoMap Int) (allocScorer : GoMap ResourceScoreFunc)
    (podResource nodeResource : GoMap Int) (usedGroups : GoMap Bool)
    (bPreferUsed : Bool) (r : ContainerFit)
    (hrun : containerFitsGroupConstraints env contName contReq initContainer allocatable
      allocScorer podResource nodeResource usedGroups bPreferUsed true = .ok r)
    (hndR : contReq.DevRequests.keys.Nodup)
    (hAF : (GoMap.keys (contReq.AllocateFrom.getD [])).Nodup) :
    r.contReq.DevRequests = contReq.DevRequests ∧
    (GoMap.keys (r.contReq.AllocateFrom.getD [])).Nodup ∧
    (∀ ea ∈ r.contReq.AllocateFrom.getD [], ∀ v, (ea.1, v) ∈ groupRequests env contReq →
      r.grp.AllocateFrom.getD ea.1 "" = ea.2) := by
  unfold containerFitsGroupConstraints at hrun
  generalize hcr : collectRequests env contReq contReq.DevRequests ([], [], []) = cr at hrun
  obtain ⟨reqName, req, reqScorer⟩ := cr
  simp only at hrun
  split at hrun
  · exact absurd hrun (by simp)
  · rename_i grpPrefix grpName hpre
    generalize hca : collectAllocatable env grpName allocatable ([], []) = ca at hrun
    obtain ⟨allocName, alloc⟩ := ca
    obtain ⟨-, hR2⟩ := collectRequests_eq env contReq contReq.DevRequests ([], [], []) hndR
      (fun k _ => ⟨by simp [GoMap.keys], by simp [GoMap.keys]⟩)
    rw [hcr] at hR2
    simp only [List.nil_append] at hR2
    have hR2' : req = groupRequests env contReq := hR2
    split at hrun
    · -- the search branch
      split at hrun
      · exact absurd hrun (by simp)
      · rename_i grp1 found reasons hag
        simp only [Except.ok.injEq] at hrun
        subst hrun
        have hnd1 : grp1.AllocateFrom.keys.Nodup := by
          have hQ : SetClosed (fun _ => True) (fun _ => True)
              (fun af : GoMap String => af.keys.Nodup) :=
            fun af k v h _ _ => GoMap.nodup_keys_set af k v h
          exact allocateGroup_inv hQ _ _ _ _ _ (fun _ _ => trivial)
            (fun _ _ _ _ => trivial) (by simp [GoMap.keys]) hag
        simp only [if_true, Option.getD_some]
        refine ⟨trivial, nodup_keys_copyInto _ _ (by simp [GoMap.keys]), ?_⟩
        intro ea hea v _
        rcases mem_copyInto _ _ _ hea with h | h
        · unfold GoMap.getD
          rw [GoMap.get?_of_mem _ hnd1 _ _ h]
          rfl
        · cases h
    · split at hrun
      · -- the scoring of the given `AllocateFrom`
        split at hrun
        · exact absurd hrun (by simp)
        · rename_i grp1 found reasons hfs
          simp only [Except.ok.injEq] at hrun
          subst hrun
          obtain ⟨-, -, -, c4, -⟩ := findScoreAndUpdate_spec _ _ _ _ _ hfs
          refine ⟨rfl, hAF, ?_⟩
          intro ea hea v _
          simp only
          rw [c4]
          simp only
          unfold GoMap.getD
          rw [get?_copyInto _ _ _ hAF, GoMap.get?_of_mem _ hAF _ _ hea]
          rfl
      · -- no group request
        rename_i hlen
        simp only [Except.ok.injEq] at hrun
        subst hrun
        refine ⟨rfl, hAF, ?_⟩
        intro ea _ v hv
        have : req.length = 0 := by simpa using hlen
        rw [← hR2', List.length_eq_zero.1 this] at hv
        cases hv

/-- The total that Take replays for a container on the key `k` is at most the
sum of the group requests that the allocator's map sends to `k`: every entry of
`AllocateFrom` with a request is one of these group requests. -/
theorem takeTotal_le (env : Env) (cont : ContainerInfo) (grpAF : GoMap String) (k : String)
    (hndR : cont.DevRequests.keys.Nodup)
    (hAF : (GoMap.keys (cont.AllocateFrom.getD [])).Nodup)
    (hnn : ∀ kv ∈ cont.DevRequests, 0 ≤ kv.2)
    (hrel : ∀ ea ∈ cont.AllocateFrom.getD [], ∀ v, (ea.1, v) ∈ groupRequests env cont →
      grpAF.getD ea.1 "" = ea.2) :
    takeTotal env cont k ≤ (requestsOf env cont grpAF k).sum := by
  have hD : ∀ e, 0 ≤ cont.DevRequests.getD e 0 := by
    intro e
    rcases GoMap.getD_mem_or cont.DevRequests e 0 with h | h
    · rw [h]
    · exact hnn _ h
  have hT : takeTotal env cont k =
      ∑ e in (((cont.AllocateFrom.getD []).filter
        (fun ea => !env.PrecheckedResource ea.1 && decide (ea.2 = k))).map Prod.fst).toFinset,
        cont.DevRequests.getD e 0 := by
    rw [List.sum_toFinset]
    · unfold takeTotal entryVals
      rw [List.map_map]
      rfl
    · exact List.Nodup.sublist (List.Sublist.map _ (List.filter_sublist _)) hAF
  have hG : (GoMap.keys (groupRequests env cont)).Nodup := GoMap.keys_filter_nodup _ _ hndR
  have hS : (requestsOf env cont grpAF k).sum =
      ∑ e in (((groupRequests env cont).filter
        (fun kv => decide (grpAF.getD kv.1 "" = k))).map Prod.fst).toFinset,
        cont.DevRequests.getD e 0 := by
    rw [List.sum_toFinset]
    · unfold requestsOf
      rw [List.map_map]
      congr 1
      apply List.map_congr_left
      intro kv hkv
      have hmem : kv ∈ cont.DevRequests := (List.mem_filter.1 (List.mem_filter.1 hkv).1).1
      exact (GoMap.getD_of_mem _ hndR kv.1 kv.2 0 hmem).symm
    · exact List.Nodup.sublist (List.Sublist.map _ (List.filter_sublist _)) hG
  rw [hT, hS, ← Finset.sum_filter_ne_zero]
  apply Finset.sum_le_sum_of_subset_of_nonneg
  · intro e he
    simp only [Finset.mem_filter, List.mem_toFinset, List.mem_map, List.mem_filter,
      Bool.and_eq_true, Bool.not_eq_true', decide_eq_true_eq, Prod.exists, exists_and_right,
      exists_eq_right] at he ⊢
    obtain ⟨⟨a, hmem, hp, hak⟩, hne⟩ := he
    have hkey : e ∈ cont.DevRequests.keys := by
      by_contra hnot
      exact hne (GoMap.getD_of_not_mem_keys 0 hnot)
    obtain ⟨kv, hkv, rfl⟩ := List.mem_map.1 hkey
    have hg : (kv.1, kv.2) ∈ groupRequests env cont :=
      List.mem_filter.2 ⟨hkv, by simp [hp]⟩
    refine ⟨⟨kv.2, hg⟩, ?_⟩
    rw [hrel (kv.1, a) hmem kv.2 hg]
    exact hak
  · intro e _ _
    exact hD e

theorem requestsOf_nonneg (env : Env) (cont : ContainerInfo) (af : GoMap String) (k : String)
    (hnn : ∀ kv ∈ cont.DevRequests, 0 ≤ kv.2) : 0 ≤ (requestsOf env cont af k).sum := by
  apply List.sum_nonneg
  intro v hv
  unfold requestsOf at hv
  obtain ⟨kv, hkv, rfl⟩ := List.mem_map.1 hv
  exact hnn kv (List.mem_filter.1 (List.mem_filter.1 hkv).1).1

/-! ## The usage that the predicate threads through the containers of a pod -/

/-- A container record as a Go program holds it, with non-negative requests:
the keys of `DevRequests` and of `AllocateFrom` are distinct. -/
structure GoodCont (c : ContainerInfo) : Prop where
  reqKeys : c.DevRequests.keys.Nodup
  afKeys : (GoMap.keys (c.AllocateFrom.getD [])).Nodup
  nonneg : ∀ kv ∈ c.DevRequests, 0 ≤ kv.2

theorem goodCont_zero : GoodCont ContainerInfo.zero :=
  ⟨by simp [ContainerInfo.zero, GoMap.keys], by simp [ContainerInfo.zero, GoMap.keys],
    fun kv h => by simp [ContainerInfo.zero] at h⟩

theorem goodCont_getD (conts : GoMap ContainerInfo) (h : ∀ nc ∈ conts, GoodCont nc.2)
    (name : String) : GoodCont (conts.getD name ContainerInfo.zero) := by
  rcases GoMap.getD_mem_or conts name ContainerInfo.zero with e | e
  · rw [e]; exact goodCont_zero
  · exact h _ e

theorem podFitsLoop_found (env : Env) (n : NodeInfo) (scorer : GoMap ResourceScoreFunc)
    (i a : Bool) :
    ∀ (names : List String) (st st' : PodFitState),
      podFitsLoop env n scorer i a names st = .ok st' → st'.found = true → st.found = true := by
  intro names
  induction names with
  | nil =>
    intro st st' h hf
    simp only [podFitsLoop, Except.ok.injEq] at h
    rw [h]; exact hf
  | cons name rest ih =>
    intro st st' h hf
    simp only [podFitsLoop] at h
    split at h
    · exact absurd h (by simp)
    · have := ih _ _ h hf
      simp only at this
      split_ifs at this
      exact this

theorem podFitsLoop_keys (env : Env) (n : NodeInfo) (scorer : GoMap ResourceScoreFunc)
    (i a : Bool) :
    ∀ (names : List String) (st st' : PodFitState),
      (∀ x ∈ names, x ∈ st.containers.keys) →
      podFitsLoop env n scorer i a names st = .ok st' →
      st'.containers.keys = st.containers.keys := by
  intro names
  induction names with
  | nil =>
    intro st st' _ h
    simp only [podFitsLoop, Except.ok.injEq] at h
    rw [h]
  | cons name rest ih =>
    intro st st' hsub h
    simp only [podFitsLoop] at h
    split at h
    · exact absurd h (by simp)
    · rename_i r hr
      have hk : (st.containers.set name r.contReq).keys = st.containers.keys := by
        rw [GoMap.keys_set_eq]
        simp [hsub name (List.mem_cons_self _ _)]
      have := ih _ _ (by
        intro x hx
        simp only
        rw [hk]
        exact hsub x (List.mem_cons_of_mem _ hx)) h
      simp only at this
      rw [this, hk]

theorem SortedStringKeys_perm {V : Type} (m : GoMap V) (h : m.keys.Nodup) :
    List.Perm (SortedStringKeys m) m.keys :=
  (List.perm_ext_iff_of_nodup (SortedStringKeys_nodup m) h).2
    (fun a => mem_SortedStringKeys m a)

/-- The sum of a quantity over the containers of a map is its sum over the
sorted names of the map. -/
theorem sum_containers_eq (conts : GoMap ContainerInfo) (h : conts.keys.Nodup)
    (f : ContainerInfo → Int) :
    (conts.map (fun nc => f nc.2)).sum =
      ((SortedStringKeys conts).map (fun name => f (conts.getD name ContainerInfo.zero))).sum := by
  rw [List.Perm.sum_eq (List.Perm.map _ (SortedStringKeys_perm conts h))]
  unfold GoMap.keys
  rw [List.map_map]
  congr 1
  apply List.map_congr_left
  intro nc hnc
  simp only [Function.comp]
  rw [GoMap.getD_of_mem conts h nc.1 nc.2 ContainerInfo.zero hnc]

/-! ## The scorers of scenario S4 -/

/-- The contract of a scorer as scenario S4 and invariant 3 of section 8 need
it: the pod usage follows section 4.1 (a running container adds the sum of the
requests, an init container takes `max(usedByPod, sum)`); the node usage rises
by the rise of the pod usage; a request is admitted only if the new node usage
is within the capacity. -/
def ObeysPeakContract (f : ResourceScoreFunc) : Prop :=
  ∀ c p u L i,
    (f c p u L i).podR = (if i = true then max p L.sum else p + L.sum) ∧
    (f c p u L i).nodeR = u + ((f c p u L i).podR - p) ∧
    ((f c p u L i).found = true → (f c p u L i).nodeR ≤ c)

theorem peak_contract : ∀ k sel, ObeysPeakContract (peakEnv.SetScorer k sel) := by
  intro k sel c p u L i
  cases i <;> simp [peakEnv, peakScoreFunc]

theorem modeOk_of_peak (env : Env) (hc : ∀ k sel, ObeysPeakContract (env.SetScorer k sel))
    (b : Bool) (conts : GoMap ContainerInfo) : ModeOk env b conts := by
  right
  constructor
  · intro k sel c p n v
    exact (hc k sel c p n [v] b).2.1
  · intro k sel c p n n' v
    rw [(hc k sel c p n [v] b).1, (hc k sel c p n' [v] b).1]

/-- The pod usage that the replay of a container leaves on the key `k`: a
running container adds the requests that it allocates from the key, an init
container takes the max with each of them. -/
theorem updateLoop_pod_peak (env : Env) (n : NodeInfo) (cont : ContainerInfo)
    (hc : ∀ k sel, ObeysPeakContract (env.SetScorer k sel)) (b : Bool) (k : String) :
    ∀ (l : GoMap String) (acc : GoMap Int × GoMap Int),
      (updateGroupResourceForContainerLoop env n cont b l acc).1.getD k 0 =
        (if b = true then (entryVals env cont l k).foldl max (acc.1.getD k 0)
          else acc.1.getD k 0 + (entryVals env cont l k).sum) := by
  intro l
  induction l with
  | nil => intro acc; cases b <;> simp [updateGroupResourceForContainerLoop, entryVals]
  | cons q t ih =>
    obtain ⟨e, a⟩ := q
    intro acc
    obtain ⟨P, N⟩ := acc
    simp only [updateGroupResourceForContainerLoop]
    rw [entryVals_cons]
    by_cases hp : env.PrecheckedResource e = true
    · simp only [hp, Bool.not_true, Bool.false_eq_true, if_false, Bool.false_and]
      exact ih _
    · have hp' : env.PrecheckedResource e = false := by simpa using hp
      simp only [hp', Bool.not_false, if_true, Bool.true_and, decide_eq_true_eq]
      rw [ih]
      simp only
      have c1 := (hc a (n.Scorer.getD a 0) (n.Allocatable.getD a 0) (P.getD a 0)
        (N.getD a 0) [cont.DevRequests.getD e 0] b).1
      simp only [List.sum_cons, List.sum_nil, add_zero] at c1
      rw [GoMap.getD_set, c1]
      by_cases hk : a = k
      · subst hk
        cases b
        · simp only [Bool.false_eq_true, if_false, if_true, List.sum_cons]
          ring
        · simp only [if_true, List.foldl_cons]
      · simp only [hk, if_false]

theorem foldl_max_le (B : Int) : ∀ (l : List Int) (p : Int), p ≤ B → (∀ v ∈ l, v ≤ B) →
    l.foldl max p ≤ B := by
  intro l
  induction l with
  | nil => intro p hp _; exact hp
  | cons v t ih =>
    intro p hp hl
    simp only [List.foldl_cons]
    exact ih _ (max_le hp (hl v (List.mem_cons_self _ _)))
      (fun w hw => hl w (List.mem_cons_of_mem _ hw))

theorem foldl_max_single (p v : Int) : [v].foldl max p = max p v := rfl

/-- The replay of the init containers keeps the pod usage of the key `k` within
a bound that holds for the usage at the start and for every request that an
init container allocates from the key. -/
theorem updateContainers_init_pod_le (env : Env) (n : NodeInfo)
    (hc : ∀ k sel, ObeysPeakContract (env.SetScorer k sel)) (k : String) (B : Int) :
    ∀ (conts : GoMap ContainerInfo) (acc : GoMap Int × GoMap Int),
      acc.1.getD k 0 ≤ B →
      (∀ nc ∈ conts, ∀ v ∈ entryVals env nc.2 (nc.2.AllocateFrom.getD []) k, v ≤ B) →
      (updateContainers env n true conts acc).1.getD k 0 ≤ B := by
  intro conts
  induction conts with
  | nil => intro acc h _; exact h
  | cons q t ih =>
    obtain ⟨name, cont⟩ := q
    intro acc h hv
    obtain ⟨P, N⟩ := acc
    simp only [updateContainers, updateGroupResourceForContainer]
    apply ih
    · rw [updateLoop_pod_peak env n cont hc true k]
      simp only [if_true]
      exact foldl_max_le B _ _ h (hv (name, cont) (List.mem_cons_self _ _))
    · intro nc hnc
      exact hv nc (List.mem_cons_of_mem _ hnc)

/-- The replay of the running containers adds to the pod usage of the key `k`
the totals that the containers allocate from the key. -/
theorem updateContainers_running_pod (env : Env) (n : NodeInfo)
    (hc : ∀ k sel, ObeysPeakContract (env.SetScorer k sel)) (k : String) :
    ∀ (conts : GoMap ContainerInfo) (acc : GoMap Int × GoMap Int),
      (updateContainers env n false conts acc).1.getD k 0 =
        acc.1.getD k 0 + (conts.map (fun nc => takeTotal env nc.2 k)).sum := by
  intro conts
  induction conts with
  | nil => intro acc; simp [updateContainers]
  | cons q t ih =>
    obtain ⟨name, cont⟩ := q
    intro acc
    obtain ⟨P, N⟩ := acc
    simp only [updateContainers, updateGroupResourceForContainer]
    rw [ih, updateLoop_pod_peak env n cont hc false k]
    simp only [Bool.false_eq_true, if_false, List.map_cons, List.sum_cons, takeTotal]
    ring

/-- A request that a container with non-negative requests allocates from a key
is at most the total that it allocates from the key. -/
theorem entryVal_le_takeTotal (env : Env) (cont : ContainerInfo) (k : String)
    (hnn : ∀ kv ∈ cont.DevRequests, 0 ≤ kv.2) :
    ∀ v ∈ entryVals env cont (cont.AllocateFrom.getD []) k, v ≤ takeTotal env cont k := by
  intro v hv
  unfold takeTotal
  exact List.single_le_sum (entryVals_nonneg env cont _ k hnn) v hv

/-- Take, with the scorers of scenario S4: the usage of the key `k` after Take
is the prior usage plus a pod usage within every bound that holds for the total
of the running containers and for the total of each init container. -/
theorem take_peak_bound (env : Env) (n : NodeInfo) (spec : PodInfo)
    (hc : ∀ k sel, ObeysPeakContract (env.SetScorer k sel)) (hU : n.Used.keys.Nodup)
    (k : String) (B : Int)
    (hnnI : ∀ nc ∈ spec.InitContainers, ∀ kv ∈ nc.2.DevRequests, 0 ≤ kv.2)
    (h1 : (spec.RunningContainers.map (fun nc => takeTotal env nc.2 k)).sum ≤ B)
    (h2 : ∀ nc ∈ spec.InitContainers, takeTotal env nc.2 k ≤ B) :
    (TakePodGroupResource env n spec).Used.getD k 0 ≤ n.Used.getD k 0 + B := by
  obtain ⟨-, t2⟩ := take_usage env n spec hU (modeOk_of_peak env hc _ _) (modeOk_of_peak env hc _ _)
  rw [t2 k]
  have : (ComputePodGroupResources env n spec false).1.getD k 0 ≤ B := by
    unfold ComputePodGroupResources
    simp only [Bool.false_eq_true, if_false]
    apply updateContainers_init_pod_le env n hc k B
    · rw [updateContainers_running_pod env n hc k]
      simpa [GoMap.getD, GoMap.get?] using h1
    · intro nc hnc v hv
      exact le_trans (entryVal_le_takeTotal env nc.2 k (hnnI nc hnc) v hv) (h2 nc hnc)
  linarith

/-- One container of the predicate, key by key, with the scorers of scenario
S4: with `s` the sum of the group requests that the allocator's map sends to
the key `k`, which bounds the total that Take replays for the container on `k`,
either `s = 0` and the usage of `k` is unchanged, or the pod usage of `k` moves
by the rule of the contract, the node usage moves with it, and the new node
usage is within the allocatable quantity. -/
theorem containerFits_step_peak (env : Env) (contName : String) (contReq : ContainerInfo)
    (initContainer : Bool) (allocatable : GoMap Int) (allocScorer : GoMap ResourceScoreFunc)
    (podResource nodeResource : GoMap Int) (usedGroups : GoMap Bool)
    (bPreferUsed : Bool) (r : ContainerFit)
    (hrun : containerFitsGroupConstraints env contName contReq initContainer allocatable
      allocScorer podResource nodeResource usedGroups bPreferUsed true = .ok r)
    (hfit : r.found = true)
    (hndA : allocatable.keys.Nodup) (hndR : contReq.DevRequests.keys.Nodup)
    (hAF : (GoMap.keys (contReq.AllocateFrom.getD [])).Nodup)
    (hnn : ∀ kv ∈ contReq.DevRequests, 0 ≤ kv.2)
    (hsc : ∀ k f, allocScorer.get? k = some f → ObeysPeakContract f) :
    r.contReq.DevRequests = contReq.DevRequests ∧
    (GoMap.keys (r.contReq.AllocateFrom.getD [])).Nodup ∧
    ∀ k, ∃ s : Int, 0 ≤ s ∧ takeTotal env r.contReq k ≤ s ∧
      ((s = 0 ∧ r.grp.PodResource.getD k 0 = podResource.getD k 0 ∧
          r.grp.NodeResource.getD k 0 = nodeResource.getD k 0) ∨
        (r.grp.PodResource.getD k 0 =
            (if initContainer = true then max (podResource.getD k 0) s
              else podResource.getD k 0 + s) ∧
          r.grp.NodeResource.getD k 0 =
            nodeResource.getD k 0 + (r.grp.PodResource.getD k 0 - podResource.getD k 0) ∧
          r.grp.NodeResource.getD k 0 ≤ allocatable.getD k 0)) := by
  obtain ⟨w1, w2, w3⟩ := containerFits_written env contName contReq initContainer allocatable
    allocScorer podResource nodeResource usedGroups bPreferUsed r hrun hndR hAF
  refine ⟨w1, w2, ?_⟩
  intro k
  have hg : groupRequests env r.contReq = groupRequests env contReq := by
    unfold groupRequests; rw [w1]
  have hro : requestsOf env r.contReq r.grp.AllocateFrom k =
      requestsOf env contReq r.grp.AllocateFrom k := by
    unfold requestsOf; rw [hg]
  have hle : takeTotal env r.contReq k ≤ (requestsOf env contReq r.grp.AllocateFrom k).sum := by
    rw [← hro]
    apply takeTotal_le env r.contReq r.grp.AllocateFrom k (by rw [w1]; exact hndR) w2
      (by rw [w1]; exact hnn)
    rw [hg]
    exact w3
  refine ⟨(requestsOf env contReq r.grp.AllocateFrom k).sum,
    requestsOf_nonneg env contReq _ k hnn, hle, ?_⟩
  rcases containerFits_usage env contName contReq initContainer allocatable allocScorer
    podResource nodeResource usedGroups bPreferUsed true r hrun hfit hndA hndR with
    ⟨hnil, hp, hn⟩ | ⟨hscored, hother, hcov⟩
  · left
    refine ⟨?_, by rw [hp], by rw [hn]⟩
    unfold requestsOf
    rw [hnil]
    rfl
  · by_cases hk : IsGroupAllocatable env allocatable k
    · right
      obtain ⟨f, hf, hfound, hpod, hnode⟩ := hscored k hk
      obtain ⟨c1, c2, c3⟩ := hsc k f hf (allocatable.getD k 0) (podResource.getD k 0)
        (nodeResource.getD k 0) (requestsOf env contReq r.grp.AllocateFrom k) initContainer
      refine ⟨by rw [hpod, c1], by rw [hnode, c2, hpod], ?_⟩
      rw [hnode]
      exact c3 hfound
    · left
      obtain ⟨h1, h2⟩ := hother k hk
      refine ⟨?_, h1, h2⟩
      unfold requestsOf
      have : (groupRequests env contReq).filter
          (fun kv => decide (r.grp.AllocateFrom.getD kv.1 "" = k)) = [] := by
        apply List.filter_eq_nil_iff.2
        intro kv hkv
        simp only [decide_eq_true_eq]
        intro heq
        exact hk (heq ▸ hcov kv hkv)
      rw [this]
      rfl

/-- The loop of the predicate over the containers of one kind, for one key `k`,
with the scorers of scenario S4: the node usage moves with the pod usage, it
stays within the allocatable quantity, the pod usage does not fall, and it
covers what Take replays for the containers of the loop: the sum of their
totals for running containers, each total for init containers. -/
theorem podFitsLoop_peak (env : Env) (n : NodeInfo)
    (hc : ∀ k sel, ObeysPeakContract (env.SetScorer k sel)) (hndA : n.Allocatable.keys.Nodup)
    (i : Bool) (k : String) :
    ∀ (names : List String) (st st' : PodFitState), names.Nodup →
      (∀ nc ∈ st.containers, GoodCont nc.2) →
      podFitsLoop env n (setScoreFunc env n) i true names st = .ok st' →
      st'.found = true →
      (∀ nc ∈ st'.containers, GoodCont nc.2) ∧
      (∀ x, x ∉ names → st'.containers.getD x ContainerInfo.zero =
        st.containers.getD x ContainerInfo.zero) ∧
      (st.nodeResource.getD k 0 ≤ n.Allocatable.getD k 0 →
        st'.nodeResource.getD k 0 ≤ n.Allocatable.getD k 0) ∧
      st'.nodeResource.getD k 0 - st'.podResource.getD k 0 =
        st.nodeResource.getD k 0 - st.podResource.getD k 0 ∧
      st.podResource.getD k 0 ≤ st'.podResource.getD k 0 ∧
      (i = false → st.podResource.getD k 0 + (names.map (fun name =>
        takeTotal env (st'.containers.getD name ContainerInfo.zero) k)).sum ≤
        st'.podResource.getD k 0) ∧
      (i = true → 0 ≤ st.podResource.getD k 0 → ∀ name ∈ names,
        takeTotal env (st'.containers.getD name ContainerInfo.zero) k ≤
          st'.podResource.getD k 0) := by
  intro names
  induction names with
  | nil =>
    intro st st' _ hgood h _
    simp only [podFitsLoop, Except.ok.injEq] at h
    subst h
    exact ⟨hgood, fun _ _ => rfl, id, rfl, le_refl _, fun _ => by simp,
      fun _ _ _ hx => by cases hx⟩
  | cons name rest ih =>
    intro st st' hnd hgood h hf
    obtain ⟨hname, hndr⟩ := List.nodup_cons.1 hnd
    simp only [podFitsLoop] at h
    split at h
    · exact absurd h (by simp)
    · rename_i r hr
      have hf1 := podFitsLoop_found _ _ _ _ _ _ _ _ h hf
      simp only at hf1
      have hrf : r.found = true := by
        by_contra hne
        have : r.found = false := by simpa using hne
        simp [this] at hf1
      have hg0 := goodCont_getD st.containers hgood name
      obtain ⟨s1, s2, s3⟩ := containerFits_step_peak env name _ i n.Allocatable _ _ _ _ true r
        hr hrf hndA hg0.reqKeys hg0.afKeys hg0.nonneg (by
          intro k' f hf'
          obtain ⟨sel, hsel⟩ := setScoreFunc_mem env n (k', f) (GoMap.mem_of_get? hf')
          simp only at hsel
          rw [hsel]
          exact hc _ _)
      have hgood1 : ∀ nc ∈ st.containers.set name r.contReq, GoodCont nc.2 := by
        intro nc hnc
        rcases GoMap.mem_set hnc with rfl | hnc
        · exact ⟨by rw [s1]; exact hg0.reqKeys, s2, by rw [s1]; exact hg0.nonneg⟩
        · exact hgood nc hnc
      obtain ⟨a1, a2, a3, a4, a5, a6, a7⟩ := ih _ _ hndr hgood1 h hf
      simp only at a2 a3 a4 a5 a6 a7
      have hcont : st'.containers.getD name ContainerInfo.zero = r.contReq := by
        rw [a2 name hname, GoMap.getD_set]
        simp
      obtain ⟨s, hs0, hsT, hcase⟩ := s3 k
      -- the step of this container on the key
      have hmono : st.podResource.getD k 0 ≤ r.grp.PodResource.getD k 0 := by
        rcases hcase with ⟨-, hp, -⟩ | ⟨hp, -, -⟩
        · rw [hp]
        · rw [hp]
          split_ifs
          · exact le_max_left _ _
          · linarith
      refine ⟨a1, ?_, ?_, ?_, le_trans hmono a5, ?_, ?_⟩
      · intro x hx
        simp only [List.mem_cons, not_or] at hx
        rw [a2 x hx.2, GoMap.getD_set]
        have : ¬ name = x := fun e => hx.1 e.symm
        simp [this]
      · intro hcap
        apply a3
        rcases hcase with ⟨-, -, hn⟩ | ⟨-, -, hn⟩
        · rw [hn]; exact hcap
        · exact hn
      · rw [a4]
        rcases hcase with ⟨-, hp, hn⟩ | ⟨-, hn, -⟩
        · rw [hp, hn]
        · rw [hn]; ring
      · intro hi
        subst hi
        have a6' := a6 rfl
        simp only [List.map_cons, List.sum_cons]
        rw [hcont]
        rcases hcase with ⟨hs, hp, -⟩ | ⟨hp, -, -⟩
        · rw [hp] at a6'; linarith
        · simp only [Bool.false_eq_true, if_false] at hp
          rw [hp] at a6'; linarith
      · intro hi hp0 x hx
        subst hi
        have hp1 : 0 ≤ r.grp.PodResource.getD k 0 := le_trans hp0 hmono
        have hsle : s ≤ r.grp.PodResource.getD k 0 := by
          rcases hcase with ⟨hs, -, -⟩ | ⟨hp, -, -⟩
          · rw [hs]; exact hp1
          · simp only [if_true] at hp
            rw [hp]; exact le_max_right _ _
        rcases List.mem_cons.1 hx with hx1 | hx1
        · rw [hx1, hcont]
          exact le_trans hsT (le_trans hsle a5)
        · exact a7 rfl hp1 x hx1

/-! ## Capacity after Take -/

/-- The zero value of the results of `PodFitsGroupConstraints`. -/
def PodFit.zero : PodFit := ⟨false, [], 0, ⟨[], []⟩, [], [], []⟩

/-- Scenario S4 before the allocation: a running container with 4 cards and an
init container with 2 cards. -/
def podS4 : PodInfo :=
  ⟨[("c", ⟨[("r/grp/gpu/A/cards", 4)], none, []⟩)],
   [("i", ⟨[("r/grp/gpu/A/cards", 2)], none, []⟩)]⟩

/-- The scorer of section 4.1 obeys the contract of section 4.1. -/
theorem scenario_contract : ∀ k sel, ObeysContract (scenarioEnv.SetScorer k sel) := by
  intro k sel c p u L i
  cases i <;> simp [scenarioEnv, leftoverScoreFunc]

/-- A node with one gpu of 4 cards, none used. -/
def nodeC2 : NodeInfo := ⟨[("r/grp/gpu/0/cards", 4)], [], []⟩

/-- A pod with one init container that requests 5 cards and -3 cards, both
allocated from the gpu. -/
def podC2 : PodInfo :=
  ⟨[], [("i", ⟨[("r/grp/gpu/A/cards", 5), ("r/grp/gpu/B/cards", -3)],
    some [("r/grp/gpu/A/cards", "r/grp/gpu/0/cards"),
      ("r/grp/gpu/B/cards", "r/grp/gpu/0/cards")], []⟩)]⟩

set_option maxRecDepth 100000 in
/-- Claim C2, counterexample. Capacity is not preserved by commit for every
pod. An init container holds a request of 5 cards and a request of -3 cards,
both allocated from a gpu of 4 cards without usage. The predicate scores the
gpu once with the two requests, whose sum is 2: the pod fits. Take replays the
entries one by one and an init container takes the max: it leaves a usage of 5
on the gpu of 4 cards. This is so with the init rule of scenario S4 and with
the init rule that section 4.1 writes. -/
theorem take_exceeds_capacity :
    (∀ k, nodeC2.Used.getD k 0 ≤ nodeC2.Allocatable.getD k 0) ∧
    nodeC2.Allocatable.getD "r/grp/gpu/0/cards" 0 = 4 ∧
    (∃ fit, PodFitsGroupConstraints peakEnv nodeC2 podC2 true = .ok fit ∧
      fit.found = true ∧
      fit.nodeResource.getD "r/grp/gpu/0/cards" 0 = 2 ∧
      (TakePodGroupResource peakEnv nodeC2 fit.spec).Used.getD "r/grp/gpu/0/cards" 0 = 5) ∧
    (∃ fit, PodFitsGroupConstraints scenarioEnv nodeC2 podC2 true = .ok fit ∧
      fit.found = true ∧
      fit.nodeResource.getD "r/grp/gpu/0/cards" 0 = 2 ∧
      (TakePodGroupResource scenarioEnv nodeC2 fit.spec).Used.getD "r/grp/gpu/0/cards" 0 = 5) := by
  refine ⟨?_, by decide,
    ⟨okValue (PodFitsGroupConstraints peakEnv nodeC2 podC2 true) PodFit.zero,
      eq_ok_okValue _ _ (by decide!), by decide!, by decide!, by decide!⟩,
    ⟨okValue (PodFitsGroupConstraints scenarioEnv nodeC2 podC2 true) PodFit.zero,
      eq_ok_okValue _ _ (by decide!), by decide!, by decide!, by decide!⟩⟩
  intro k
  simp only [nodeC2, GoMap.getD, GoMap.get?]
  split_ifs <;> simp

/-- Claim C2, amended. Capacity is preserved by commit for requests that are
not negative: for every node with `Used[k] ≤ Allocatable[k]` for all `k` and
every pod whose requests are not negative, if `PodFitsGroupConstraints(node,
pod, true)` returns `fits = true` and `TakePodGroupResource` is then applied to
the pod as the predicate left it, then `Used[k] ≤ Allocatable[k]` holds for
every key `k` afterwards. The scorers are those of scenario S4: running
containers add, init containers take the max, the node usage rises with the
pod usage, and a request fits only if the new node usage is within the
capacity; the keys of every map are distinct, as in a Go map. -/
theorem take_within_capacity (env : Env) (n : NodeInfo) (spec : PodInfo) (fit : PodFit)
    (hc : ∀ k sel, ObeysPeakContract (env.SetScorer k sel))
    (hndA : n.Allocatable.keys.Nodup) (hU : n.Used.keys.Nodup)
    (hR : spec.RunningContainers.keys.Nodup) (hI : spec.InitContainers.keys.Nodup)
    (hgR : ∀ nc ∈ spec.RunningContainers, GoodCont nc.2)
    (hgI : ∀ nc ∈ spec.InitContainers, GoodCont nc.2)
    (hcap : ∀ k, n.Used.getD k 0 ≤ n.Allocatable.getD k 0)
    (hrun : PodFitsGroupConstraints env n spec true = .ok fit)
    (hfit : fit.found = true) :
    ∀ k, (TakePodGroupResource env n fit.spec).Used.getD k 0 ≤ n.Allocatable.getD k 0 := by
  intro k
  unfold PodFitsGroupConstraints at hrun
  simp only at hrun
  split at hrun
  · exact absurd hrun (by simp)
  · rename_i st1 h1
    split at hrun
    · exact absurd hrun (by simp)
    · rename_i st2 h2
      simp only [Except.ok.injEq] at hrun
      subst hrun
      simp only at hfit ⊢
      have hf1 := podFitsLoop_found _ _ _ _ _ _ _ _ h2 hfit
      simp only at hf1
      obtain ⟨g1, -, r3, r4, r5, r6, -⟩ := podFitsLoop_peak env n hc hndA false k _ _ _
        (SortedStringKeys_nodup _) (by exact hgR) h1 hf1
      simp only at r3 r4 r5 r6
      have hk1 := podFitsLoop_keys _ _ _ _ _ _ _ _
          (fun x hx => (mem_SortedStringKeys spec.RunningContainers x).1 hx) h1
      simp only at hk1
      have hinit : (initNodeResource n).getD k 0 = n.Used.getD k 0 :=
        getD_copyInto_nil _ _ hU
      rw [hinit] at r3 r4
      have hp0 : GoMap.getD ([] : GoMap Int) k 0 = 0 := rfl
      rw [hp0] at r4 r5 r6
      have r6' := r6 (by trivial)
      obtain ⟨g2, -, i3, i4, i5, -, i7⟩ := podFitsLoop_peak env n hc hndA true k _ _ _
        (SortedStringKeys_nodup _) (by exact hgI) h2 hfit
      simp only at i3 i4 i5 i7
      have i7' := i7 (by trivial) r5
      have hk2 := podFitsLoop_keys _ _ _ _ _ _ _ _
          (fun x hx => (mem_SortedStringKeys spec.InitContainers x).1 hx) h2
      simp only at hk2
      have hnd1 : st1.containers.keys.Nodup := by rw [hk1]; exact hR
      have hnd2 : st2.containers.keys.Nodup := by rw [hk2]; exact hI
      have hsort1 : SortedStringKeys st1.containers = SortedStringKeys spec.RunningContainers := by
        unfold SortedStringKeys; rw [hk1]
      have hsum : (st1.containers.map (fun nc => takeTotal env nc.2 k)).sum ≤
          st2.podResource.getD k 0 := by
        rw [sum_containers_eq st1.containers hnd1 (fun c => takeTotal env c k), hsort1]
        linarith
      have hmemk : ∀ nc ∈ st2.containers, nc.1 ∈ SortedStringKeys spec.InitContainers ∧
          st2.containers.getD nc.1 ContainerInfo.zero = nc.2 := by
        intro nc hnc
        refine ⟨?_, GoMap.getD_of_mem _ hnd2 nc.1 nc.2 _ hnc⟩
        rw [mem_SortedStringKeys, ← hk2]
        exact List.mem_map_of_mem Prod.fst hnc
      have hb := take_peak_bound env n ⟨st1.containers, st2.containers⟩ hc hU k
        (st2.podResource.getD k 0) (fun nc h => (g2 nc h).nonneg) hsum
        (by
          intro nc hnc
          simp only at hnc
          obtain ⟨m1, m2⟩ := hmemk nc hnc
          have := i7' nc.1 m1
          rw [m2] at this
          exact this)
      have hN2 := i3 (r3 (hcap k))
      linarith

set_option maxRecDepth 100000 in
theorem take_within_capacity_witness :
    (∀ k, nodeS1.Used.getD k 0 ≤ nodeS1.Allocatable.getD k 0) ∧
    (okValue (PodFitsGroupConstraints peakEnv nodeS1 podS4 true) PodFit.zero).found = true ∧
    (TakePodGroupResource peakEnv nodeS1
      (okValue (PodFitsGroupConstraints peakEnv nodeS1 podS4 true) PodFit.zero).spec).Used =
      [("r/grp/gpu/0/cards", 4)] ∧
    ∀ k, (TakePodGroupResource peakEnv nodeS1
      (okValue (PodFitsGroupConstraints peakEnv nodeS1 podS4 true) PodFit.zero).spec).Used.getD
        k 0 ≤ nodeS1.Allocatable.getD k 0 :=
  have hcap : ∀ k, nodeS1.Used.getD k 0 ≤ nodeS1.Allocatable.getD k 0 := fun k => by
    simp only [nodeS1, GoMap.getD, GoMap.get?]
    split_ifs <;> simp
  ⟨hcap, by decide!, by decide!,
    take_within_capacity peakEnv nodeS1 podS4 _ peak_contract (by decide) (by decide)
      (by decide) (by decide)
      (fun nc h => by
        simp only [podS4, List.mem_singleton] at h
        subst h
        exact ⟨by decide, by decide, by decide⟩)
      (fun nc h => by
        simp only [podS4, List.mem_singleton] at h
        subst h
        exact ⟨by decide, by decide, by decide⟩)
      hcap (eq_ok_okValue _ PodFit.zero (by decide!)) (by decide!)⟩

/-! ## Take on a pod with one init allocation -/

/-- The replay of a container leaves the usage of a key untouched when no entry
of its `AllocateFrom` allocates from the key. -/
theorem updateLoop_untouched (env : Env) (n : NodeInfo) (cont : ContainerInfo) (b : Bool)
    (k : String) :
    ∀ (l : GoMap String) (acc : GoMap Int × GoMap Int), entryVals env cont l k = [] →
      (updateGroupResourceForContainerLoop env n cont b l acc).1.getD k 0 = acc.1.getD k 0 ∧
      (updateGroupResourceForContainerLoop env n cont b l acc).2.getD k 0 = acc.2.getD k 0 := by
  intro l
  induction l with
  | nil => intro acc _; simp [updateGroupResourceForContainerLoop]
  | cons q t ih =>
    obtain ⟨e, a⟩ := q
    intro acc h
    obtain ⟨P, N⟩ := acc
    simp only [updateGroupResourceForContainerLoop]
    rw [entryVals_cons] at h
    by_cases hp : env.PrecheckedResource e = true
    · simp only [hp, Bool.not_true, Bool.false_eq_true, if_false, Bool.false_and] at h ⊢
      exact ih _ h
    · have hp' : env.PrecheckedResource e = false := by simpa using hp
      simp only [hp', Bool.not_false, if_true, Bool.true_and, decide_eq_true_eq] at h ⊢
      by_cases hk : a = k
      · simp [hk] at h
      · simp only [hk, if_false] at h
        obtain ⟨h1, h2⟩ := ih (P.set a (env.SetScorer a (n.Scorer.getD a 0)
            (n.Allocatable.getD a 0) (P.getD a 0) (N.getD a 0) [cont.DevRequests.getD e 0]
            b).podR,
          N.set a (env.SetScorer a (n.Scorer.getD a 0)
            (n.Allocatable.getD a 0) (P.getD a 0) (N.getD a 0) [cont.DevRequests.getD e 0]
            b).nodeR) h
        rw [h1, h2, GoMap.getD_set, GoMap.getD_set]
        simp only [hk, if_false]
        exact ⟨trivial, trivial⟩

/-- The replay of an init container that allocates from the key `k` with one
entry, of request `v`: the pod usage becomes `max(usedByPod, v)` and the node
usage `max(usedByNode, usedByPod + v)`. -/
theorem updateLoop_init_single (env : Env) (n : NodeInfo) (cont : ContainerInfo)
    (hc : ∀ k sel, ObeysContract (env.SetScorer k sel)) (k : String) (v : Int) :
    ∀ (l : GoMap String) (acc : GoMap Int × GoMap Int), entryVals env cont l k = [v] →
      (updateGroupResourceForContainerLoop env n cont true l acc).1.getD k 0 =
        max (acc.1.getD k 0) v ∧
      (updateGroupResourceForContainerLoop env n cont true l acc).2.getD k 0 =
        max (acc.2.getD k 0) (acc.1.getD k 0 + v) := by
  intro l
  induction l with
  | nil => intro acc h; simp [entryVals] at h
  | cons q t ih =>
    obtain ⟨e, a⟩ := q
    intro acc h
    obtain ⟨P, N⟩ := acc
    simp only [updateGroupResourceForContainerLoop]
    rw [entryVals_cons] at h
    by_cases hp : env.PrecheckedResource e = true
    · simp only [hp, Bool.not_true, Bool.false_eq_true, if_false, Bool.false_and] at h ⊢
      exact ih _ h
    · have hp' : env.PrecheckedResource e = false := by simpa using hp
      simp only [hp', Bool.not_false, if_true, Bool.true_and, decide_eq_true_eq] at h ⊢
      obtain ⟨c1, c2, -⟩ := hc a (n.Scorer.getD a 0) (n.Allocatable.getD a 0) (P.getD a 0)
        (N.getD a 0) [cont.DevRequests.getD e 0] true
      simp only [if_true, List.sum_cons, List.sum_nil, add_zero] at c1 c2
      by_cases hk : a = k
      · subst hk
        simp only [if_true, List.cons.injEq] at h
        obtain ⟨hv, ht⟩ := h
        obtain ⟨h1, h2⟩ := updateLoop_untouched env n cont true a t
          (P.set a (env.SetScorer a (n.Scorer.getD a 0)
            (n.Allocatable.getD a 0) (P.getD a 0) (N.getD a 0) [cont.DevRequests.getD e 0]
            true).podR,
          N.set a (env.SetScorer a (n.Scorer.getD a 0)
            (n.Allocatable.getD a 0) (P.getD a 0) (N.getD a 0) [cont.DevRequests.getD e 0]
            true).nodeR) ht
        rw [h1, h2, GoMap.getD_set, GoMap.getD_set, c1, c2, hv]
        simp
      · simp only [hk, if_false] at h
        obtain ⟨h1, h2⟩ := ih (P.set a (env.SetScorer a (n.Scorer.getD a 0)
            (n.Allocatable.getD a 0) (P.getD a 0) (N.getD a 0) [cont.DevRequests.getD e 0]
            true).podR,
          N.set a (env.SetScorer a (n.Scorer.getD a 0)
            (n.Allocatable.getD a 0) (P.getD a 0) (N.getD a 0) [cont.DevRequests.getD e 0]
            true).nodeR) h
        rw [h1, h2, GoMap.getD_set, GoMap.getD_set]
        simp only [hk, if_false]
        exact ⟨trivial, trivial⟩

/-- Take on a pod whose init containers are one container that allocates from
the key `k` with one entry, of request `v`, with the scorers of scenario S4:
the usage of the key rises by the max of the running total and of `v`. -/
theorem take_init_usage_peak (env : Env) (n : NodeInfo) (spec : PodInfo)
    (hc : ∀ k sel, ObeysPeakContract (env.SetScorer k sel)) (hU : n.Used.keys.Nodup)
    (k : String) (v : Int) (name : String) (c : ContainerInfo)
    (hI : spec.InitContainers = [(name, c)])
    (hv : entryVals env c (c.AllocateFrom.getD []) k = [v]) :
    (TakePodGroupResource env n spec).Used.getD k 0 =
      n.Used.getD k 0 +
        max ((spec.RunningContainers.map (fun nc => takeTotal env nc.2 k)).sum) v := by
  obtain ⟨-, t2⟩ := take_usage env n spec hU (modeOk_of_peak env hc _ _) (modeOk_of_peak env hc _ _)
  rw [t2 k]
  congr 1
  unfold ComputePodGroupResources
  simp only [Bool.false_eq_true, if_false]
  rw [hI]
  simp only [updateContainers, updateGroupResourceForContainer]
  rw [updateLoop_pod_peak env n c hc true k, hv]
  simp only [if_true, List.foldl_cons, List.foldl_nil]
  rw [updateContainers_running_pod env n hc k]
  simp [GoMap.getD, GoMap.get?]

/-! ## Reuse of used locations by init containers -/

/-- The node of scenario S4: a gpu of 8 cards and a gpu of 4 cards. -/
def nodeS4 : NodeInfo := ⟨[("r/grp/gpu/0/cards", 8), ("r/grp/gpu/1/cards", 4)], [], []⟩

/-- A node with two gpus of 8 cards. -/
def nodeTwo : NodeInfo := ⟨[("r/grp/gpu/0/cards", 8), ("r/grp/gpu/1/cards", 8)], [], []⟩

/-- A pod with two running containers of 6 cards each and an init container of
2 cards. -/
def podTwo : PodInfo :=
  ⟨[("a", ⟨[("r/grp/gpu/A/cards", 6)], none, []⟩), ("b", ⟨[("r/grp/gpu/A/cards", 6)], none, []⟩)],
   [("i", ⟨[("r/grp/gpu/A/cards", 2)], none, []⟩)]⟩

/-- The running containers of `podTwo`. -/
def podTwoRunning : PodInfo := ⟨podTwo.RunningContainers, []⟩

/-- The zero value of the results of `containerFitsGroupConstraints`. -/
def ContainerFit.zero : ContainerFit := ⟨GrpAllocator.zero, ContainerInfo.zero, false, [], 0⟩

/-- The group of the init container of scenario S4 for its requirement
`r/grp/gpu/A/cards`, as `createSubGroup` builds it after the running container
took 4 cards of the gpu `0` of `nodeS4`. -/
def initGroupS4 : GrpAllocator :=
  { ContName := "i"
    InitContainer := true
    PreferUsed := true
    RequiredResource := [("r/grp/gpu/A/cards", 2)]
    ReqScorer := [("r/grp/gpu/A/cards", none)]
    AllocResource := [("r/grp/gpu/0/cards", 8), ("r/grp/gpu/1/cards", 4)]
    AllocScorer := [("r/grp/gpu/0/cards", peakScoreFunc),
      ("r/grp/gpu/1/cards", peakScoreFunc)]
    UsedGroups := [("r/grp/gpu/0", true), ("r/grp", true)]
    GrpRequiredResource := [("cards", "r/grp/gpu/A/cards")]
    IsReqSubGrp := []
    GrpAllocResource := [("0", [("cards", "r/grp/gpu/0/cards")]),
      ("1", [("cards", "r/grp/gpu/1/cards")])]
    IsAllocSubGrp := []
    ReqBaseGroupName := "r/grp/gpu/A"
    AllocBaseGroupPrefix := "r/grp/gpu"
    Score := 0
    PodResource := [("r/grp/gpu/0/cards", 4), ("r/grp/gpu/1/cards", 0)]
    NodeResource := [("r/grp/gpu/0/cards", 4), ("r/grp/gpu/1/cards", 0)]
    AllocateFrom := [] }

set_option maxRecDepth 100000 in
/-- Claim C10, counterexample. A location that a running container of the pod
chose and that is feasible for the init container is not always the location
of the init container. On two gpus of 8 cards with two running containers of 6
cards, the running container `b` is placed at the gpu `0`; the gpu `0` alone is
feasible for the init container in the state in which the predicate searches
for it; and the init container is placed at the gpu `1`, which the running
container `a` chose. This is so with the init rule of scenario S4 and with the
init rule that section 4.1 writes. -/
theorem init_reuse_other_used_location :
    (∃ fit fitR r, PodFitsGroupConstraints peakEnv nodeTwo podTwo true = .ok fit ∧
      PodFitsGroupConstraints peakEnv nodeTwo podTwoRunning true = .ok fitR ∧
      containerFitsGroupConstraints peakEnv "i" (podTwo.InitContainers.getD "i"
        ContainerInfo.zero) true [("r/grp/gpu/0/cards", 8)] (setScoreFunc peakEnv nodeTwo)
        fitR.podResource fitR.nodeResource fitR.usedGroups true true = .ok r ∧
      fit.found = true ∧ r.found = true ∧
      (fit.spec.RunningContainers.getD "a" ContainerInfo.zero).AllocateFrom =
        some [("r/grp/gpu/A/cards", "r/grp/gpu/1/cards")] ∧
      (fit.spec.RunningContainers.getD "b" ContainerInfo.zero).AllocateFrom =
        some [("r/grp/gpu/A/cards", "r/grp/gpu/0/cards")] ∧
      (fit.spec.InitContainers.getD "i" ContainerInfo.zero).AllocateFrom =
        some [("r/grp/gpu/A/cards", "r/grp/gpu/1/cards")]) ∧
    (∃ fit fitR r, PodFitsGroupConstraints scenarioEnv nodeTwo podTwo true = .ok fit ∧
      PodFitsGroupConstraints scenarioEnv nodeTwo podTwoRunning true = .ok fitR ∧
      containerFitsGroupConstraints scenarioEnv "i" (podTwo.InitContainers.getD "i"
        ContainerInfo.zero) true [("r/grp/gpu/0/cards", 8)] (setScoreFunc scenarioEnv nodeTwo)
        fitR.podResource fitR.nodeResource fitR.usedGroups true true = .ok r ∧
      fit.found = true ∧ r.found = true ∧
      (fit.spec.RunningContainers.getD "a" ContainerInfo.zero).AllocateFrom =
        some [("r/grp/gpu/A/cards", "r/grp/gpu/1/cards")] ∧
      (fit.spec.RunningContainers.getD "b" ContainerInfo.zero).AllocateFrom =
        some [("r/grp/gpu/A/cards", "r/grp/gpu/0/cards")] ∧
      (fit.spec.InitContainers.getD "i" ContainerInfo.zero).AllocateFrom =
        some [("r/grp/gpu/A/cards", "r/grp/gpu/1/cards")]) :=
  ⟨⟨okValue (PodFitsGroupConstraints peakEnv nodeTwo podTwo true) PodFit.zero,
      okValue (PodFitsGroupConstraints peakEnv nodeTwo podTwoRunning true) PodFit.zero,
      okValue (containerFitsGroupConstraints peakEnv "i" (podTwo.InitContainers.getD "i"
        ContainerInfo.zero) true [("r/grp/gpu/0/cards", 8)] (setScoreFunc peakEnv nodeTwo)
        (okValue (PodFitsGroupConstraints peakEnv nodeTwo podTwoRunning true)
          PodFit.zero).podResource
        (okValue (PodFitsGroupConstraints peakEnv nodeTwo podTwoRunning true)
          PodFit.zero).nodeResource
        (okValue (PodFitsGroupConstraints peakEnv nodeTwo podTwoRunning true)
          PodFit.zero).usedGroups true true) ContainerFit.zero,
      eq_ok_okValue _ _ (by decide!), eq_ok_okValue _ _ (by decide!),
      eq_ok_okValue _ _ (by decide!), by decide!, by decide!, by decide!, by decide!,
      by decide!⟩,
    ⟨okValue (PodFitsGroupConstraints scenarioEnv nodeTwo podTwo true) PodFit.zero,
      okValue (PodFitsGroupConstraints scenarioEnv nodeTwo podTwoRunning true) PodFit.zero,
      okValue (containerFitsGroupConstraints scenarioEnv "i" (podTwo.InitContainers.getD "i"
        ContainerInfo.zero) true [("r/grp/gpu/0/cards", 8)] (setScoreFunc scenarioEnv nodeTwo)
        (okValue (PodFitsGroupConstraints scenarioEnv nodeTwo podTwoRunning true)
          PodFit.zero).podResource
        (okValue (PodFitsGroupConstraints scenarioEnv nodeTwo podTwoRunning true)
          PodFit.zero).nodeResource
        (okValue (PodFitsGroupConstraints scenarioEnv nodeTwo podTwoRunning true)
          PodFit.zero).usedGroups true true) ContainerFit.zero,
      eq_ok_okValue _ _ (by decide!), eq_ok_okValue _ _ (by decide!),
      eq_ok_okValue _ _ (by decide!), by decide!, by decide!, by decide!, by decide!,
      by decide!⟩⟩

/-- Claim C10, amended. Init-container reuse: in a search with the preference
for used locations (`PodFitsGroupConstraints` searches with it for every
container), whenever a candidate location that `UsedGroups` marks as chosen by
an earlier search is feasible for the requirement subgroup, `allocateGroup`
reports true and commits a feasible location that `UsedGroups` marks, marks the
location it commits, and commits that same location when no other marked
location is feasible. After Take on a pod whose init containers are one
container with one entry of request `v` on the key `k`, the usage of the key
has risen by the max of the running total and of the init request, not by
their sum (scenario S4: `max(4, 2) = 4`), with scorers that follow scenario S4
(an init container takes the max for the pod and the node usage rises with the
pod usage). -/
theorem init_reuse_used_location (fuel : Nat) (grp grp' : GrpAllocator) (found : Bool)
    (rs : List PredicateFailureReason) (hne : grp.GrpRequiredResource.length ≠ 0)
    (hpu : grp.PreferUsed = true)
    (h : allocateGroup (fuel + 1) grp = .ok (grp', found, rs))
    (env : Env) (n : NodeInfo) (spec : PodInfo)
    (hc : ∀ k sel, ObeysPeakContract (env.SetScorer k sel)) (hU : n.Used.keys.Nodup)
    (k : String) (v : Int) (name : String) (c : ContainerInfo)
    (hI : spec.InitContainers = [(name, c)])
    (hv : entryVals env c (c.AllocateFrom.getD []) k = [v]) :
    (∃ cs gF, searchCandidates fuel grp = .ok (cs, gF) ∧
      ((∃ c ∈ cs, c.found = true ∧ c.isUsed = true) →
        found = true ∧ ∃ m ∈ cs, m.found = true ∧ m.isUsed = true ∧ Commits grp' m ∧
          grp'.UsedGroups.getD (grp.AllocBaseGroupPrefix ++ "/" ++ m.key) false = true ∧
          ∀ c ∈ cs, c.found = true → c.isUsed = true →
            (∀ c' ∈ cs, c'.found = true → c'.isUsed = true → c' = c) → m = c)) ∧
    (TakePodGroupResource env n spec).Used.getD k 0 =
      n.Used.getD k 0 +
        max ((spec.RunningContainers.map (fun nc => takeTotal env nc.2 k)).sum) v := by
  refine ⟨?_, take_init_usage_peak env n spec hc hU k v name c hI hv⟩
  obtain ⟨cs, gF, hcs, -, hsel⟩ := allocateGroup_search fuel grp grp' found rs hne h
  refine ⟨cs, gF, hcs, ?_⟩
  have hinv := selectCandidate_inv grp.PreferUsed grp.Score cs
  rintro ⟨c0, hc0, hf0, hu0⟩
  cases hs : selectCandidate grp.PreferUsed grp.Score cs with
  | none =>
    rw [hs] at hinv
    have := (hinv c0 hc0 hf0).2 hpu
    rw [hu0] at this
    cases this
  | some m =>
    rw [hs] at hsel hinv
    obtain ⟨h1, hm, hf, hcm, hmark⟩ := hsel
    obtain ⟨pre, post, hsplit, -, hpre, hpost⟩ := hinv
    rw [hpu] at hpre hpost
    have hmu : m.isUsed = true := by
      by_contra hmu
      have hmu' : m.isUsed = false := by simpa using hmu
      rw [hsplit] at hc0
      rcases List.mem_append.1 hc0 with hc | hc
      · have := hpre c0 hc hf0
        unfold Beats at this
        simp only [if_true, hmu', Bool.false_eq_true, if_false] at this
        rw [hu0] at this
        exact absurd this.1 (by simp)
      · rcases List.mem_cons.1 hc with hc | hc
        · rw [hc] at hu0
          exact hmu hu0
        · have := hpost c0 hc hf0
          unfold Beats at this
          simp only [if_true, hmu', Bool.false_eq_true, if_false] at this
          rw [hu0] at this
          exact absurd this.1 (by simp)
    exact ⟨h1, m, hm, hf, hmu, hcm, hmark, fun c _ _ _ huniq => huniq m hm hf hmu⟩

set_option maxRecDepth 100000 in
theorem initGroupS4_isValue : isValue (allocateGroup (0 + 1) initGroupS4) = true := by
  decide!

set_option maxRecDepth 100000 in
theorem init_reuse_used_location_witness :
    initGroupS4.GrpRequiredResource.length ≠ 0 ∧
    initGroupS4.PreferUsed = true ∧
    (okValue (allocateGroup (0 + 1) initGroupS4) (GrpAllocator.zero, false, [])).1.AllocateFrom =
      [("r/grp/gpu/A/cards", "r/grp/gpu/0/cards")] ∧
    nodeS4.Used.keys.Nodup ∧
    podS4Allocated.InitContainers = [("i", ⟨[("r/grp/gpu/A/cards", 2)],
      some [("r/grp/gpu/A/cards", "r/grp/gpu/0/cards")], []⟩)] ∧
    entryVals peakEnv ⟨[("r/grp/gpu/A/cards", 2)],
      some [("r/grp/gpu/A/cards", "r/grp/gpu/0/cards")], []⟩
      [("r/grp/gpu/A/cards", "r/grp/gpu/0/cards")] "r/grp/gpu/0/cards" = [2] ∧
    (TakePodGroupResource peakEnv nodeS4 podS4Allocated).Used = [("r/grp/gpu/0/cards", 4)] ∧
    ((∃ cs gF, searchCandidates 0 initGroupS4 = .ok (cs, gF) ∧
      ((∃ c ∈ cs, c.found = true ∧ c.isUsed = true) →
        (okValue (allocateGroup (0 + 1) initGroupS4) (GrpAllocator.zero, false, [])).2.1 = true ∧
        ∃ m ∈ cs, m.found = true ∧ m.isUsed = true ∧
          Commits (okValue (allocateGroup (0 + 1) initGroupS4)
            (GrpAllocator.zero, false, [])).1 m ∧
          (okValue (allocateGroup (0 + 1) initGroupS4)
            (GrpAllocator.zero, false, [])).1.UsedGroups.getD
              (initGroupS4.AllocBaseGroupPrefix ++ "/" ++ m.key) false = true ∧
          ∀ c ∈ cs, c.found = true → c.isUsed = true →
            (∀ c' ∈ cs, c'.found = true → c'.isUsed = true → c' = c) → m = c)) ∧
    (TakePodGroupResource peakEnv nodeS4 podS4Allocated).Used.getD "r/grp/gpu/0/cards" 0 =
      nodeS4.Used.getD "r/grp/gpu/0/cards" 0 +
        max ((podS4Allocated.RunningContainers.map
            (fun nc => takeTotal peakEnv nc.2 "r/grp/gpu/0/cards")).sum) 2) :=
  ⟨by decide, rfl, by decide!, by decide, rfl, by decide!, by decide!,
    init_reuse_used_location 0 initGroupS4 _ _ _ (by decide) rfl
      (eq_ok_okValue _ (GrpAllocator.zero, false, []) initGroupS4_isValue)
      peakEnv nodeS4 podS4Allocated peak_contract (by decide)
      "r/grp/gpu/0/cards" 2 "i" _ rfl (by decide!)⟩

/-! ## The pod-level driver as a trace of container evaluations -/

/-- What `PodFitsGroupConstraints` threads from one container to the next: the
containers of the pod as written so far, the usage of the pod and of the node,
and the used groups. -/
structure PodThread where
  containers : GoMap ContainerInfo
  podResource : GoMap Int
  nodeResource : GoMap Int
  usedGroups : GoMap Bool

/-- The calls of `containerFitsGroupConstraints` made by one container loop of
`PodFitsGroupConstraints` over the names `names`, in the order of the loop: each
call reads the container of that name and the usage that the previous call
left, and its result is recorded under the name. -/
def podFitsTrace (env : Env) (n : NodeInfo) (scorer : GoMap ResourceScoreFunc)
    (initContainer allocating : Bool) :
    List String → PodThread → Except Fault (List (String × ContainerFit) × PodThread)
  | [], th => .ok ([], th)
  | contName :: rest, th =>
    match containerFitsGroupConstraints env contName
        (th.containers.getD contName ContainerInfo.zero) initContainer n.Allocatable
        scorer th.podResource th.nodeResource th.usedGroups true allocating with
    | .error e => .error e
    | .ok r =>
      match podFitsTrace env n scorer initContainer allocating rest
          ⟨th.containers.set contName r.contReq, r.grp.PodResource, r.grp.NodeResource,
            r.grp.UsedGroups⟩ with
      | .error e => .error e
      | .ok (tr, th') => .ok ((contName, r) :: tr, th')

/-- The score of the last fitting call of a trace, `d` when no call fits. -/
def lastFitScore (d : ℚ) (tr : List (String × ContainerFit)) : ℚ :=
  match (tr.filter (fun r => r.2.found)).getLast? with
  | some r => r.2.score
  | none => d

/-- The reasons of the calls of a trace that do not fit, in the order of the
trace. -/
def failReasons (tr : List (String × ContainerFit)) : List PredicateFailureReason :=
  (tr.filter (fun r => !r.2.found)).flatMap (fun r => r.2.reasons)

theorem lastFitScore_cons (d : ℚ) (x : String × ContainerFit)
    (tr : List (String × ContainerFit)) :
    lastFitScore d (x :: tr) = lastFitScore (if x.2.found = true then x.2.score else d) tr := by
  unfold lastFitScore
  by_cases hx : x.2.found = true
  · simp only [List.filter_cons, hx, if_true]
    cases hf : tr.filter (fun r => r.2.found) with
    | nil => simp
    | cons y t =>
      simp only [List.getLast?_cons_cons]
      cases hl : (y :: t).getLast? with
      | none => simp at hl
      | some z => rfl
  · simp only [List.filter_cons, hx, Bool.false_eq_true, if_false]

/-- A container loop of `PodFitsGroupConstraints` in terms of its trace: the
loop returns iff the trace does, it leaves the containers and the usage of the
trace, `found` stays true iff every call fits, the reasons of the calls that do
not fit are appended, and the score is the score of the last fitting call of a
loop over running containers. -/
theorem podFitsLoop_trace (env : Env) (n : NodeInfo) (scorer : GoMap ResourceScoreFunc)
    (i a : Bool) :
    ∀ (names : List String) (st st' : PodFitState),
      podFitsLoop env n scorer i a names st = .ok st' →
      ∃ tr th, podFitsTrace env n scorer i a names
          ⟨st.containers, st.podResource, st.nodeResource, st.usedGroups⟩ = .ok (tr, th) ∧
        tr.map Prod.fst = names ∧
        st'.containers = th.containers ∧ st'.podResource = th.podResource ∧
        st'.nodeResource = th.nodeResource ∧ st'.usedGroups = th.usedGroups ∧
        (st'.found = true ↔ st.found = true ∧ ∀ r ∈ tr, r.2.found = true) ∧
        st'.predicateFails = st.predicateFails ++ failReasons tr ∧
        st'.totalScore = (if i = true then st.totalScore else lastFitScore st.totalScore tr) := by
  intro names
  induction names with
  | nil =>
    intro st st' h
    simp only [podFitsLoop, Except.ok.injEq] at h
    subst h
    refine ⟨[], _, rfl, rfl, rfl, rfl, rfl, rfl, by simp, by simp [failReasons], ?_⟩
    split_ifs <;> rfl
  | cons name rest ih =>
    intro st st' h
    simp only [podFitsLoop] at h
    split at h
    · exact absurd h (by simp)
    · rename_i r hr
      obtain ⟨tr, th, htr, hn, h1, h2, h3, h4, h5, h6, h7⟩ := ih _ _ h
      simp only at htr h5 h6 h7
      refine ⟨(name, r) :: tr, th, ?_, by simp [hn], h1, h2, h3, h4, ?_, ?_, ?_⟩
      · simp only [podFitsTrace, hr, htr]
      · rw [h5]
        by_cases hf : r.found = true
        · simp [hf]
        · have hf' : r.found = false := by simpa using hf
          simp [hf']
      · rw [h6]
        by_cases hf : r.found = true
        · simp [hf, failReasons, List.filter_cons]
        · have hf' : r.found = false := by simpa using hf
          simp [hf', failReasons, List.filter_cons]
      · rw [h7, lastFitScore_cons]
        by_cases hf : r.found = true
        · cases i <;> simp [hf]
        · have hf' : r.found = false := by simpa using hf
          cases i <;> simp [hf']


/-- Claim C11. `PodFitsGroupConstraints` returns `fits = true` if and only if
every running container and every init container of the pod fits, each
evaluated by `containerFitsGroupConstraints` in ascending name order, the
running containers before the init containers, against the usage threaded from
the previous containers (the traces `tr1` and `tr2`); the returned reasons are
the reasons of the containers that do not fit, init containers included, in the
order of the evaluation. -/
theorem podFits_iff_every_container_fits (env : Env) (n : NodeInfo) (spec : PodInfo)
    (allocating : Bool) (fit : PodFit)
    (hrun : PodFitsGroupConstraints env n spec allocating = .ok fit) :
    ∃ tr1 th1 tr2 th2,
      podFitsTrace env n (setScoreFunc env n) false allocating
        (SortedStringKeys spec.RunningContainers)
        ⟨spec.RunningContainers, [], initNodeResource n, []⟩ = .ok (tr1, th1) ∧
      podFitsTrace env n (setScoreFunc env n) true allocating
        (SortedStringKeys spec.InitContainers)
        ⟨spec.InitContainers, th1.podResource, th1.nodeResource, th1.usedGroups⟩ =
          .ok (tr2, th2) ∧
      tr1.map Prod.fst = SortedStringKeys spec.RunningContainers ∧
      tr2.map Prod.fst = SortedStringKeys spec.InitContainers ∧
      List.Pairwise (fun a b => keyLt a b = true) (tr1.map Prod.fst) ∧
      List.Pairwise (fun a b => keyLt a b = true) (tr2.map Prod.fst) ∧
      (fit.found = true ↔ ∀ r ∈ tr1 ++ tr2, r.2.found = true) ∧
      fit.predicateFails = failReasons (tr1 ++ tr2) := by
  unfold PodFitsGroupConstraints at hrun
  simp only at hrun
  split at hrun
  · exact absurd hrun (by simp)
  · rename_i st1 h1
    split at hrun
    · exact absurd hrun (by simp)
    · rename_i st2 h2
      simp only [Except.ok.injEq] at hrun
      subst hrun
      obtain ⟨tr1, th1, ht1, hn1, -, a2, a3, a4, a5, a6, -⟩ := podFitsLoop_trace _ _ _ _ _ _ _ _ h1
      obtain ⟨tr2, th2, ht2, hn2, -, -, -, -, b5, b6, -⟩ := podFitsLoop_trace _ _ _ _ _ _ _ _ h2
      simp only at ht1 ht2 a5 a6 b5 b6
      rw [a2, a3, a4] at ht2
      refine ⟨tr1, th1, tr2, th2, ht1, ht2, hn1, hn2, ?_, ?_, ?_, ?_⟩
      · rw [hn1]; exact SortedStringKeys_pairwise _
      · rw [hn2]; exact SortedStringKeys_pairwise _
      · simp only
        rw [b5, a5]
        simp only [true_and, List.mem_append]
        constructor
        · rintro ⟨q1, q2⟩ r (hr | hr)
          · exact q1 r hr
          · exact q2 r hr
        · intro q
          exact ⟨fun r hr => q r (Or.inl hr), fun r hr => q r (Or.inr hr)⟩
      · simp only
        rw [b6, a6]
        simp [failReasons, List.filter_append]

/-- The pod of the counterexample to claim C12: the running container `a`
requests 4 cards and the running container `b` requests 8 cards. -/
def podC12 : PodInfo :=
  ⟨[("a", ⟨[("r/grp/gpu/A/cards", 4)], none, []⟩),
    ("b", ⟨[("r/grp/gpu/A/cards", 8)], none, []⟩)], []⟩

set_option maxRecDepth 100000 in
/-- Claim C12, counterexample. On a gpu of 8 cards the running container `a`
fits with the score 1/2 and the running container `b`, the last in sorted order,
does not fit and has the score 0: the score that `PodFitsGroupConstraints`
returns is 1/2, the score of `a`. -/
theorem podFits_score_not_of_last_container :
    ∃ fit tr th, PodFitsGroupConstraints scenarioEnv nodeS1 podC12 true = .ok fit ∧
      podFitsTrace scenarioEnv nodeS1 (setScoreFunc scenarioEnv nodeS1) false true
        (SortedStringKeys podC12.RunningContainers)
        ⟨podC12.RunningContainers, [], initNodeResource nodeS1, []⟩ = .ok (tr, th) ∧
      tr.map (fun r => (r.1, r.2.found, r.2.score)) = [("a", true, 1 / 2), ("b", false, 0)] ∧
      fit.totalScore = 1 / 2 :=
  ⟨okValue (PodFitsGroupConstraints scenarioEnv nodeS1 podC12 true) PodFit.zero,
    (okValue (podFitsTrace scenarioEnv nodeS1 (setScoreFunc scenarioEnv nodeS1) false true
      (SortedStringKeys podC12.RunningContainers)
      ⟨podC12.RunningContainers, [], initNodeResource nodeS1, []⟩) ([], ⟨[], [], [], []⟩)).1,
    (okValue (podFitsTrace scenarioEnv nodeS1 (setScoreFunc scenarioEnv nodeS1) false true
      (SortedStringKeys podC12.RunningContainers)
      ⟨podC12.RunningContainers, [], initNodeResource nodeS1, []⟩) ([], ⟨[], [], [], []⟩)).2,
    eq_ok_okValue _ _ (by decide!), eq_ok_okValue _ _ (by decide!), by decide!, by decide!⟩

theorem lastFitScore_all (d : ℚ) (tr : List (String × ContainerFit))
    (h : ∀ r ∈ tr, r.2.found = true) (x : String × ContainerFit) (hx : tr.getLast? = some x) :
    lastFitScore d tr = x.2.score := by
  unfold lastFitScore
  have : tr.filter (fun r => r.2.found) = tr := List.filter_eq_self.2 h
  rw [this, hx]

/-- Claim C12, amended. The score returned by `PodFitsGroupConstraints` equals
the score computed for the running container whose name is last in sorted order
among the running containers that fit, and 0 when none fits: it is assigned, not
summed over containers, and init containers never change it. When every running
container fits it is the score of the running container whose name is last in
sorted order. -/
theorem podFits_score_of_last_fitting (env : Env) (n : NodeInfo) (spec : PodInfo)
    (allocating : Bool) (fit : PodFit)
    (hrun : PodFitsGroupConstraints env n spec allocating = .ok fit) :
    ∃ tr1 th1,
      podFitsTrace env n (setScoreFunc env n) false allocating
        (SortedStringKeys spec.RunningContainers)
        ⟨spec.RunningContainers, [], initNodeResource n, []⟩ = .ok (tr1, th1) ∧
      tr1.map Prod.fst = SortedStringKeys spec.RunningContainers ∧
      List.Pairwise (fun a b => keyLt a b = true) (tr1.map Prod.fst) ∧
      fit.totalScore = lastFitScore 0 tr1 ∧
      ((∀ r ∈ tr1, r.2.found = true) → ∀ x, tr1.getLast? = some x →
        fit.totalScore = x.2.score) := by
  unfold PodFitsGroupConstraints at hrun
  simp only at hrun
  split at hrun
  · exact absurd hrun (by simp)
  · rename_i st1 h1
    split at hrun
    · exact absurd hrun (by simp)
    · rename_i st2 h2
      simp only [Except.ok.injEq] at hrun
      subst hrun
      obtain ⟨tr1, th1, ht1, hn1, -, -, -, -, -, -, a7⟩ := podFitsLoop_trace _ _ _ _ _ _ _ _ h1
      obtain ⟨tr2, th2, -, -, -, -, -, -, -, -, b7⟩ := podFitsLoop_trace _ _ _ _ _ _ _ _ h2
      simp only [Bool.false_eq_true, if_false, if_true] at ht1 a7 b7
      have hs : st2.totalScore = lastFitScore 0 tr1 := by rw [b7, a7]
      refine ⟨tr1, th1, ht1, hn1, ?_, hs, ?_⟩
      · rw [hn1]; exact SortedStringKeys_pairwise _
      · intro hall x hx
        simp only
        rw [hs]
        exact lastFitScore_all 0 tr1 hall x hx


set_option maxRecDepth 100000 in
theorem podFits_iff_every_container_fits_witness :
    (okValue (PodFitsGroupConstraints scenarioEnv nodeS1 podC12 true) PodFit.zero).found = false ∧
    (okValue (PodFitsGroupConstraints scenarioEnv nodeS1 podC12 true)
      PodFit.zero).predicateFails.length = 2 ∧
    ∃ tr1 th1 tr2 th2,
      podFitsTrace scenarioEnv nodeS1 (setScoreFunc scenarioEnv nodeS1) false true
        (SortedStringKeys podC12.RunningContainers)
        ⟨podC12.RunningContainers, [], initNodeResource nodeS1, []⟩ = .ok (tr1, th1) ∧
      podFitsTrace scenarioEnv nodeS1 (setScoreFunc scenarioEnv nodeS1) true true
        (SortedStringKeys podC12.InitContainers)
        ⟨podC12.InitContainers, th1.podResource, th1.nodeResource, th1.usedGroups⟩ =
          .ok (tr2, th2) ∧
      tr1.map Prod.fst = SortedStringKeys podC12.RunningContainers ∧
      tr2.map Prod.fst = SortedStringKeys podC12.InitContainers ∧
      List.Pairwise (fun a b => keyLt a b = true) (tr1.map Prod.fst) ∧
      List.Pairwise (fun a b => keyLt a b = true) (tr2.map Prod.fst) ∧
      ((okValue (PodFitsGroupConstraints scenarioEnv nodeS1 podC12 true)
        PodFit.zero).found = true ↔ ∀ r ∈ tr1 ++ tr2, r.2.found = true) ∧
      (okValue (PodFitsGroupConstraints scenarioEnv nodeS1 podC12 true)
        PodFit.zero).predicateFails = failReasons (tr1 ++ tr2) :=
  ⟨by decide!, by decide!,
    podFits_iff_every_container_fits scenarioEnv nodeS1 podC12 true _
      (eq_ok_okValue _ PodFit.zero (by decide!))⟩

set_option maxRecDepth 100000 in
theorem podFits_score_of_last_fitting_witness :
    (okValue (PodFitsGroupConstraints scenarioEnv nodeS4 podS4 true) PodFit.zero).totalScore =
      3 / 4 ∧
    ∃ tr1 th1,
      podFitsTrace scenarioEnv nodeS4 (setScoreFunc scenarioEnv nodeS4) false true
        (SortedStringKeys podS4.RunningContainers)
        ⟨podS4.RunningContainers, [], initNodeResource nodeS4, []⟩ = .ok (tr1, th1) ∧
      tr1.map Prod.fst = SortedStringKeys podS4.RunningContainers ∧
      List.Pairwise (fun a b => keyLt a b = true) (tr1.map Prod.fst) ∧
      (okValue (PodFitsGroupConstraints scenarioEnv nodeS4 podS4 true) PodFit.zero).totalScore =
        lastFitScore 0 tr1 ∧
      ((∀ r ∈ tr1, r.2.found = true) → ∀ x, tr1.getLast? = some x →
        (okValue (PodFitsGroupConstraints scenarioEnv nodeS4 podS4 true)
          PodFit.zero).totalScore = x.2.score) :=
  ⟨by decide!,
    podFits_score_of_last_fitting scenarioEnv nodeS4 podS4 true _
      (eq_ok_okValue _ PodFit.zero (by decide!))⟩

/-! ## The score that the rescoring assigns to a location -/

/-- The score that the scorer of the allocatable key `k` returns for the
requests `L` against the usage `(pod, node)`; 0 for a key without scorer. -/
def keyScore (scorers : GoMap ResourceScoreFunc) (alloc pod node : GoMap Int)
    (init : Bool) (k : String) (L : List Int) : ℚ :=
  match scorers.get? k with
  | some f => (f (alloc.getD k 0) (pod.getD k 0) (node.getD k 0) L init).score
  | none => 0

/-- The score that the scoring loop accumulates: when it reports true, the sum
of the scores that the keys of the location get for the requests collected for
them, against the usage at the entry of the loop. -/
theorem scoreLoop_score (rr : GoMap (List Int)) :
    ∀ (l : GoMap String) (grp : GrpAllocator) (found : Bool) (pf : List PredicateFailureReason)
      (grp' : GrpAllocator) (pf' : List PredicateFailureReason),
      l.vals.Nodup →
      scoreLoop rr l grp found pf = .ok (grp', true, pf') →
      grp'.Score = grp.Score + (l.map (fun kv => keyScore grp.AllocScorer grp.AllocResource
        grp.PodResource grp.NodeResource grp.InitContainer kv.2 (rr.getD kv.2 []))).sum := by
  intro l
  induction l with
  | nil =>
    intro grp found pf grp' pf' _ h
    simp only [scoreLoop, Except.ok.injEq, Prod.mk.injEq] at h
    obtain ⟨rfl, -, -⟩ := h
    simp
  | cons p t ih =>
    obtain ⟨key0, key⟩ := p
    intro grp found pf grp' pf' hnd h
    simp only [GoMap.vals, List.map_cons, List.nodup_cons] at hnd
    obtain ⟨hk, hndt⟩ := hnd
    simp only [scoreLoop] at h
    split at h
    · exact absurd h (by simp)
    · rename_i f hf
      split at h
      · exact absurd ((scoreLoop_effect rr _ _ _ _ _ _ _ hndt h).2 rfl).1 (by simp)
      · rw [ih _ _ _ _ _ hndt h]
        simp only [List.map_cons, List.sum_cons]
        have hcongr : ∀ kv ∈ t,
            keyScore grp.AllocScorer grp.AllocResource
              (grp.PodResource.set key (f (grp.AllocResource.getD key 0)
                (grp.PodResource.getD key 0) (grp.NodeResource.getD key 0) (rr.getD key [])
                grp.InitContainer).podR)
              (grp.NodeResource.set key (f (grp.AllocResource.getD key 0)
                (grp.PodResource.getD key 0) (grp.NodeResource.getD key 0) (rr.getD key [])
                grp.InitContainer).nodeR) grp.InitContainer kv.2 (rr.getD kv.2 []) =
            keyScore grp.AllocScorer grp.AllocResource grp.PodResource grp.NodeResource
              grp.InitContainer kv.2 (rr.getD kv.2 []) := by
          intro kv hkv
          have hne : ¬ key = kv.2 := by
            intro e
            exact hk (e ▸ List.mem_map_of_mem Prod.snd hkv)
          unfold keyScore
          simp only [GoMap.getD_set, hne, if_false]
        rw [List.map_congr_left hcongr]
        have hks : keyScore grp.AllocScorer grp.AllocResource grp.PodResource grp.NodeResource
            grp.InitContainer key (rr.getD key []) =
            (f (grp.AllocResource.getD key 0) (grp.PodResource.getD key 0)
              (grp.NodeResource.getD key 0) (rr.getD key []) grp.InitContainer).score := by
          unfold keyScore
          rw [hf]
        rw [hks]
        ring

/-- The score of a successful `findScoreAndUpdate`: the sum of the scores of all
the allocatable keys of the location, each scored with the requests that
`AllocateFrom` maps to it, divided by the number of these keys. -/
theorem findScoreAndUpdate_score (grp : GrpAllocator) (loc : String) (grp' : GrpAllocator)
    (pf' : List PredicateFailureReason)
    (hnd : (grp.GrpAllocResource.getD loc []).vals.Nodup)
    (h : findScoreAndUpdate grp loc = .ok (grp', true, pf')) :
    grp'.Score =
      ((grp.GrpAllocResource.getD loc []).map (fun kv => keyScore grp.AllocScorer
        grp.AllocResource grp.PodResource grp.NodeResource grp.InitContainer kv.2
        (requestsOn grp.AllocateFrom grp.RequiredResource grp.GrpRequiredResource kv.2))).sum /
        ((grp.GrpAllocResource.getD loc []).length : ℚ) := by
  unfold findScoreAndUpdate at h
  generalize hr : requestedResourceLoop grp grp.GrpRequiredResource [] true [] = r at h
  obtain ⟨rr, f0, pf0⟩ := r
  simp only at h
  split at h
  · exact absurd h (by simp)
  · rename_i g1 f1 p1 hs
    simp only [Except.ok.injEq, Prod.mk.injEq] at h
    obtain ⟨rfl, rfl, rfl⟩ := h
    have hf0 := ((scoreLoop_effect rr _ _ _ _ _ _ _ hnd hs).2 rfl).1
    subst hf0
    have hl := requestedResourceLoop_lists grp grp.GrpRequiredResource [] true []
      (by rw [hr])
    rw [hr] at hl
    simp only at hl
    have hsc := scoreLoop_score rr _ _ _ _ _ _ hnd hs
    simp only at hsc ⊢
    rw [hsc, zero_add]
    congr 2
    apply List.map_congr_left
    intro kv _
    rw [hl kv.2]
    simp [GoMap.getD, GoMap.get?]


/-- The top-level group that `containerFitsGroupConstraints` builds for the
container of scenario S1 (4 cards of the gpu group `A`) on `nodeS4`: the
requirements are keyed by their names and all the allocatable keys are under the
one location `grp`. -/
def topGroupS1 : GrpAllocator :=
  { ContName := "c"
    InitContainer := false
    PreferUsed := true
    RequiredResource := [("r/grp/gpu/A/cards", 4)]
    ReqScorer := [("r/grp/gpu/A/cards", none)]
    AllocResource := [("r/grp/gpu/0/cards", 8), ("r/grp/gpu/1/cards", 4)]
    AllocScorer := [("r/grp/gpu/0/cards", leftoverScoreFunc),
      ("r/grp/gpu/1/cards", leftoverScoreFunc)]
    UsedGroups := []
    GrpRequiredResource := [("r/grp/gpu/A/cards", "r/grp/gpu/A/cards")]
    IsReqSubGrp := [("r/grp/gpu/A/cards", true)]
    GrpAllocResource := [("grp", [("r/grp/gpu/0/cards", "r/grp/gpu/0/cards"),
      ("r/grp/gpu/1/cards", "r/grp/gpu/1/cards")])]
    IsAllocSubGrp := []
    ReqBaseGroupName := "r/grp"
    AllocBaseGroupPrefix := "r"
    Score := 0
    PodResource := []
    NodeResource := []
    AllocateFrom := [] }

/-- The call of `allocateGroupAt` on `topGroupS1` at its location `grp`. -/
def atS1 : AllocResult :=
  allocateGroupAt (allocateGroup 1) topGroupS1 "grp"
    (findSubGroups topGroupS1.ReqBaseGroupName topGroupS1.GrpRequiredResource).1

set_option maxRecDepth 100000 in
/-- Claim C13, counterexample. The container of scenario S1 on a node with a gpu
of 8 cards and a gpu of 4 cards: at the location `grp` the requirement is mapped
to the cards of the gpu `0`, the one `AllocateFrom` target, whose score is 1/2;
`findScoreAndUpdate` also scores the cards of the gpu `1`, with no request and
the score 1, and assigns the score (1/2 + 1) / 2 = 3/4 to the location. The
container gets this score from `containerFitsGroupConstraints`. -/
theorem rescoring_counts_keys_without_request :
    (∃ g rs, atS1 = .ok (g, true, rs) ∧
      g.AllocateFrom = [("r/grp/gpu/A/cards", "r/grp/gpu/0/cards")] ∧
      keyScore topGroupS1.AllocScorer topGroupS1.AllocResource topGroupS1.PodResource
        topGroupS1.NodeResource false "r/grp/gpu/0/cards" [4] = 1 / 2 ∧
      keyScore topGroupS1.AllocScorer topGroupS1.AllocResource topGroupS1.PodResource
        topGroupS1.NodeResource false "r/grp/gpu/1/cards" [] = 1 ∧
      g.Score = 3 / 4) ∧
    (∃ r, containerFitsGroupConstraints scenarioEnv "c" contS1 false nodeS4.Allocatable
        (setScoreFunc scenarioEnv nodeS4) [] (initNodeResource nodeS4) [] true true = .ok r ∧
      r.found = true ∧
      r.grp.AllocateFrom = [("r/grp/gpu/A/cards", "r/grp/gpu/0/cards")] ∧
      r.score = 3 / 4) :=
  ⟨⟨(okValue atS1 (GrpAllocator.zero, false, [])).1,
      (okValue atS1 (GrpAllocator.zero, false, [])).2.2,
      by
        have h1 := eq_ok_okValue atS1 (GrpAllocator.zero, false, []) (by decide!)
        have h2 : (okValue atS1 (GrpAllocator.zero, false, [])).2.1 = true := by decide!
        rw [← h2]
        exact h1,
      by decide!, by decide!, by decide!, by decide!⟩,
    ⟨okValue (containerFitsGroupConstraints scenarioEnv "c" contS1 false nodeS4.Allocatable
        (setScoreFunc scenarioEnv nodeS4) [] (initNodeResource nodeS4) [] true true)
        ContainerFit.zero,
      eq_ok_okValue _ _ (by decide!), by decide!, by decide!, by decide!⟩⟩

/-- Claim C13, amended. Rescoring: for every feasible location (with at least
one allocatable key, the values of the location being distinct keys), the score
assigned by `findScoreAndUpdate` is the sum of the scores of all the allocatable
keys of the location, divided by the number of these keys; every key of the
location is scored once, with the full vector of the requests that
`AllocateFrom` maps to it (the empty vector for a key that is not a target),
starting from the usage in force before the location was tried, and its usage
becomes what its scorer returned. -/
theorem rescoring_mean_over_location_keys (allocGroup : GrpAllocator → AllocResult)
    (grp : GrpAllocator) (loc : String) (sr : GoMap (GoMap (GoMap String)))
    (grp' : GrpAllocator) (rs : List PredicateFailureReason)
    (hnd : (grp.GrpAllocResource.getD loc []).vals.Nodup)
    (hne : grp.GrpAllocResource.getD loc [] ≠ [])
    (h : allocateGroupAt allocGroup grp loc sr = .ok (grp', true, rs)) :
    grp'.Score =
      ((grp.GrpAllocResource.getD loc []).map (fun kv => keyScore grp.AllocScorer
        grp.AllocResource grp.PodResource grp.NodeResource grp.InitContainer kv.2
        (requestsOn grp'.AllocateFrom grp.RequiredResource grp.GrpRequiredResource kv.2))).sum /
        ((grp.GrpAllocResource.getD loc []).length : ℚ) ∧
    ∀ kv ∈ grp.GrpAllocResource.getD loc [],
      ScoredKey grp.AllocScorer grp.AllocResource grp.PodResource grp.NodeResource
        grp'.PodResource grp'.NodeResource grp.InitContainer kv.2
        (requestsOn grp'.AllocateFrom grp.RequiredResource grp.GrpRequiredResource kv.2) := by
  obtain ⟨gmid, rs', hst, hp, hn, haf, hfs⟩ := allocateGroupAt_rescored allocGroup grp loc sr grp' rs h
  have hnd' : (gmid.GrpAllocResource.getD loc []).vals.Nodup := by
    rw [hst.grpAllocResource]; exact hnd
  have hlen : (((grp.GrpAllocResource.getD loc []).length : Nat) : ℚ) ≠ 0 := by
    have : (grp.GrpAllocResource.getD loc []).length ≠ 0 := fun e => hne (List.length_eq_zero.1 e)
    exact_mod_cast this
  have hscore := findScoreAndUpdate_score gmid loc grp' rs' hnd' hfs
  have heff := (findScoreAndUpdate_effect gmid loc grp' rs' hnd' hfs).2
  rw [hst.grpAllocResource, hst.allocScorer, hst.allocResource, hst.initContainer,
    hst.requiredResource, hst.grpRequiredResource, hp, hn, haf] at hscore
  rw [hst.grpAllocResource, hst.allocScorer, hst.allocResource, hst.initContainer,
    hst.requiredResource, hst.grpRequiredResource, hp, hn, haf] at heff
  refine ⟨?_, heff⟩
  rw [eq_div_iff hlen, hscore, div_mul_cancel₀ _ hlen]

set_option maxRecDepth 100000 in
theorem rescoring_mean_over_location_keys_witness :
    (topGroupS1.GrpAllocResource.getD "grp" []).vals.Nodup ∧
    topGroupS1.GrpAllocResource.getD "grp" [] ≠ [] ∧
    (okValue atS1 (GrpAllocator.zero, false, [])).1.Score = (1 / 2 + 1) / 2 ∧
    (okValue atS1 (GrpAllocator.zero, false, [])).1.Score =
      ((topGroupS1.GrpAllocResource.getD "grp" []).map (fun kv =>
        keyScore topGroupS1.AllocScorer topGroupS1.AllocResource topGroupS1.PodResource
          topGroupS1.NodeResource topGroupS1.InitContainer kv.2
          (requestsOn (okValue atS1 (GrpAllocator.zero, false, [])).1.AllocateFrom
            topGroupS1.RequiredResource topGroupS1.GrpRequiredResource kv.2))).sum /
        ((topGroupS1.GrpAllocResource.getD "grp" []).length : ℚ) ∧
    ∀ kv ∈ topGroupS1.GrpAllocResource.getD "grp" [],
      ScoredKey topGroupS1.AllocScorer topGroupS1.AllocResource topGroupS1.PodResource
        topGroupS1.NodeResource (okValue atS1 (GrpAllocator.zero, false, [])).1.PodResource
        (okValue atS1 (GrpAllocator.zero, false, [])).1.NodeResource topGroupS1.InitContainer
        kv.2 (requestsOn (okValue atS1 (GrpAllocator.zero, false, [])).1.AllocateFrom
          topGroupS1.RequiredResource topGroupS1.GrpRequiredResource kv.2) :=
  ⟨by decide, by decide, by decide!,
    rescoring_mean_over_location_keys (allocateGroup 1) topGroupS1 "grp"
      (findSubGroups topGroupS1.ReqBaseGroupName topGroupS1.GrpRequiredResource).1
      (okValue atS1 (GrpAllocator.zero, false, [])).1
      (okValue atS1 (GrpAllocator.zero, false, [])).2.2 (by decide) (by decide)
      (by
        have h1 := eq_ok_okValue atS1 (GrpAllocator.zero, false, []) (by decide!)
        have h2 : (okValue atS1 (GrpAllocator.zero, false, [])).2.1 = true := by decide!
        rw [← h2]
        exact h1)⟩

/-! ## The visit of a leaf requirement by resourceAvailable -/

theorem resourceAvailableLoop_append (grpAllocRes : GoMap String) :
    ∀ (l1 l2 : GoMap String) (grp : GrpAllocator) (found : Bool)
      (pf : List PredicateFailureReason),
      resourceAvailableLoop grpAllocRes (l1 ++ l2) grp found pf =
        match resourceAvailableLoop grpAllocRes l1 grp found pf with
        | .error e => .error e
        | .ok (g, f, p) => resourceAvailableLoop grpAllocRes l2 g f p := by
  intro l1
  induction l1 with
  | nil => intro l2 grp found pf; simp [resourceAvailableLoop]
  | cons q t ih =>
    obtain ⟨k, r⟩ := q
    intro l2 grp found pf
    simp only [List.cons_append, resourceAvailableLoop]
    split
    · split
      · exact ih _ _ _ _
      · split
        · rfl
        · split
          · exact ih _ _ _ _
          · exact ih _ _ _ _
    · exact ih _ _ _ _

theorem resourceAvailableLoop_reasons (grpAllocRes : GoMap String) :
    ∀ (l : GoMap String) (grp : GrpAllocator) (found : Bool) (pf : List PredicateFailureReason)
      (grp' : GrpAllocator) (found' : Bool) (pf' : List PredicateFailureReason),
      resourceAvailableLoop grpAllocRes l grp found pf = .ok (grp', found', pf') →
      ∃ q, pf' = pf ++ q := by
  intro l
  induction l with
  | nil =>
    intro grp found pf grp' found' pf' h
    simp only [resourceAvailableLoop, Except.ok.injEq, Prod.mk.injEq] at h
    exact ⟨[], by simp [h.2.2]⟩
  | cons q t ih =>
    obtain ⟨k, r⟩ := q
    intro grp found pf grp' found' pf' h
    simp only [resourceAvailableLoop] at h
    split at h
    · split at h
      · obtain ⟨q, hq⟩ := ih _ _ _ _ _ _ h
        exact ⟨[_] ++ q, by rw [hq, List.append_assoc]⟩
      · split at h
        · exact absurd h (by simp)
        · split at h
          · obtain ⟨q, hq⟩ := ih _ _ _ _ _ _ h
            exact ⟨[_] ++ q, by rw [hq, List.append_assoc]⟩
          · exact ih _ _ _ _ _ _ h
    · exact ih _ _ _ _ _ _ h

theorem resourceAvailableLoop_false (grpAllocRes : GoMap String)
    (l : GoMap String) (grp : GrpAllocator) (pf : List PredicateFailureReason)
    (grp' : GrpAllocator) (found' : Bool) (pf' : List PredicateFailureReason)
    (h : resourceAvailableLoop grpAllocRes l grp false pf = .ok (grp', found', pf')) :
    found' = false := by
  cases found' with
  | false => rfl
  | true => exact absurd (resourceAvailableLoop_found _ _ _ _ _ _ _ h) (by simp)


/-- What one visit of a leaf requirement `r` (of key `k` in the group) by
`resourceAvailable` does at a location whose keys are `grpAllocRes`, from the
working group `g`, the flag `f0` and the reasons `p0` to `g1`, `f1` and `p1`.
Without counterpart key for `k` the flag becomes false and the reason
`(container/r, requested, 0, 0)` is recorded. With the counterpart key `a` the
scorer is the requirement-side scorer of `r` if there is one and the node-side
scorer of `a` otherwise; it is called with the capacity, the pod usage and the
node usage of `a` in `g` and with the singleton request; if it admits the
request, `AllocateFrom[r]` becomes `a` and the pod and node usage of `a` become
the outputs of the scorer; if not, the flag becomes false and the reason
`(container/r, requested, usedNode, capacity)` is recorded. -/
def LeafStep (grpAllocRes : GoMap String) (k r : String) (g : GrpAllocator) (f0 : Bool)
    (p0 : List PredicateFailureReason) (g1 : GrpAllocator) (f1 : Bool)
    (p1 : List PredicateFailureReason) : Prop :=
  match grpAllocRes.get? k with
  | none =>
    g1 = g ∧ f1 = false ∧
    p1 = p0 ++ [NewInsufficientResourceError (g.ContName ++ "/" ++ r)
      (g.RequiredResource.getD r 0) 0 0]
  | some a =>
    ∃ sc : ResourceScoreFunc,
      (match g.ReqScorer.getD r none with
        | some f => sc = f
        | none => g.AllocScorer.get? a = some sc) ∧
      if (sc (g.AllocResource.getD a 0) (g.PodResource.getD a 0) (g.NodeResource.getD a 0)
          [g.RequiredResource.getD r 0] g.InitContainer).found = true then
        g1.AllocateFrom = g.AllocateFrom.set r a ∧
        g1.PodResource = g.PodResource.set a
          (sc (g.AllocResource.getD a 0) (g.PodResource.getD a 0) (g.NodeResource.getD a 0)
            [g.RequiredResource.getD r 0] g.InitContainer).podR ∧
        g1.NodeResource = g.NodeResource.set a
          (sc (g.AllocResource.getD a 0) (g.PodResource.getD a 0) (g.NodeResource.getD a 0)
            [g.RequiredResource.getD r 0] g.InitContainer).nodeR ∧
        f1 = f0 ∧ p1 = p0
      else
        g1 = g ∧ f1 = false ∧
        p1 = p0 ++ [NewInsufficientResourceError (g.ContName ++ "/" ++ r)
          (g.RequiredResource.getD r 0) (g.NodeResource.getD a 0) (g.AllocResource.getD a 0)]

/-- One visit of the loop of `resourceAvailable` at a leaf requirement. -/
theorem resourceAvailableLoop_leafStep (grpAllocRes : GoMap String) (k r : String)
    (post : GoMap String) (g : GrpAllocator) (f0 : Bool) (p0 : List PredicateFailureReason)
    (gR : GrpAllocator) (fR : Bool) (pR : List PredicateFailureReason)
    (hleaf : g.IsReqSubGrp.getD k false = false)
    (h : resourceAvailableLoop grpAllocRes ((k, r) :: post) g f0 p0 = .ok (gR, fR, pR)) :
    ∃ g1 f1 p1, resourceAvailableLoop grpAllocRes post g1 f1 p1 = .ok (gR, fR, pR) ∧
      LeafStep grpAllocRes k r g f0 p0 g1 f1 p1 := by
  simp only [resourceAvailableLoop, hleaf, Bool.not_false, if_true] at h
  unfold LeafStep
  cases hget : grpAllocRes.get? k with
  | none =>
    rw [hget] at h
    simp only at h ⊢
    exact ⟨_, _, _, h, rfl, rfl, rfl⟩
  | some a =>
    rw [hget] at h
    simp only at h ⊢
    split at h
    · exact absurd h (by simp)
    · rename_i sc hsc
      have hchoice : (match g.ReqScorer.getD r none with
          | some f => sc = f
          | none => g.AllocScorer.get? a = some sc) := by
        cases hq : g.ReqScorer.getD r none with
        | some f =>
          rw [hq] at hsc
          simp only [Option.some.injEq] at hsc
          exact hsc.symm
        | none =>
          rw [hq] at hsc
          exact hsc
      split at h
      · rename_i hnf
        have hnf' : ¬ (sc (g.AllocResource.getD a 0) (g.PodResource.getD a 0)
            (g.NodeResource.getD a 0) [g.RequiredResource.getD r 0] g.InitContainer).found
              = true := by
          simpa using hnf
        refine ⟨_, _, _, h, sc, hchoice, ?_⟩
        rw [if_neg hnf']
        exact ⟨rfl, rfl, rfl⟩
      · rename_i hf
        have hf' : (sc (g.AllocResource.getD a 0) (g.PodResource.getD a 0)
            (g.NodeResource.getD a 0) [g.RequiredResource.getD r 0] g.InitContainer).found
              = true := by
          simpa using hf
        refine ⟨_, _, _, h, sc, hchoice, ?_⟩
        rw [if_pos hf']
        exact ⟨rfl, rfl, rfl, rfl, rfl⟩


/-- Claim C14. Leaf feasibility: for every leaf requirement `r` of a group tried
at the location `loc` (`allocateGroupAt`), `resourceAvailable` visits `r` in a
working state `g` reached from the requirements before it, and the visit is a
`LeafStep`: without counterpart key the flag is false and the reason
`(container/r, requested, 0, 0)` is recorded; otherwise the requirement-side
scorer of `r` is used when there is one and the node-side scorer of the mapped
key otherwise, called with the current pod usage and node usage of the mapped
key and the singleton request; if it admits the request, `AllocateFrom[r]` is
set to the mapped key and the working usage of that key is replaced by the
outputs of the scorer. A flag that is false makes the location infeasible, and
the reasons recorded at the visit are among those that `allocateGroupAt`
returns. -/
theorem leaf_feasibility (allocGroup : GrpAllocator → AllocResult) (grp : GrpAllocator)
    (loc : String) (sr : GoMap (GoMap (GoMap String)))
    (grp' : GrpAllocator) (found' : Bool) (pf' : List PredicateFailureReason)
    (pre post : GoMap String) (k r : String)
    (hl : grp.GrpRequiredResource = pre ++ (k, r) :: post)
    (hleaf : grp.IsReqSubGrp.getD k false = false)
    (h : allocateGroupAt allocGroup grp loc sr = .ok (grp', found', pf')) :
    ∃ g f0 p0 g1 f1 p1 gR fR pR,
      resourceAvailableLoop (grp.GrpAllocResource.getD loc []) pre
        { grp with IsAllocSubGrp := (findSubGroups (grp.AllocBaseGroupPrefix ++ "/" ++ loc)
          (grp.GrpAllocResource.getD loc [])).2 } true [] = .ok (g, f0, p0) ∧
      LeafStep (grp.GrpAllocResource.getD loc []) k r g f0 p0 g1 f1 p1 ∧
      resourceAvailableLoop (grp.GrpAllocResource.getD loc []) post g1 f1 p1 =
        .ok (gR, fR, pR) ∧
      resourceAvailable { grp with IsAllocSubGrp := (findSubGroups
        (grp.AllocBaseGroupPrefix ++ "/" ++ loc) (grp.GrpAllocResource.getD loc [])).2 } loc =
        .ok (gR, fR, pR) ∧
      (f1 = false → found' = false) ∧
      (∃ q1 q2, pR = p1 ++ q1 ∧ pf' = pR ++ q2) := by
  unfold allocateGroupAt at h
  simp only at h
  split at h
  · exact absurd h (by simp)
  · rename_i gR fR pR hra
    have hra0 := hra
    unfold resourceAvailable at hra
    simp only [cloneGroup] at hra
    have hra1 : resourceAvailableLoop (grp.GrpAllocResource.getD loc [])
        (pre ++ (k, r) :: post)
        { grp with IsAllocSubGrp := (findSubGroups (grp.AllocBaseGroupPrefix ++ "/" ++ loc)
          (grp.GrpAllocResource.getD loc [])).2 } true [] = .ok (gR, fR, pR) := by
      rw [← hl]; exact hra
    clear hra
    have hra := hra1
    clear hra1
    rw [resourceAvailableLoop_append] at hra
    split at hra
    · exact absurd hra (by simp)
    · rename_i g f0 p0 hpre
      obtain ⟨-, hsub, -⟩ := resourceAvailableLoop_static _ _ _ _ _ _ _ _ hpre
      have hleaf' : g.IsReqSubGrp.getD k false = false := by
        rw [hsub]; exact hleaf
      obtain ⟨g1, f1, p1, hpost, hstep⟩ :=
        resourceAvailableLoop_leafStep _ k r post g f0 p0 gR fR pR hleaf' hra
      obtain ⟨q1, hq1⟩ := resourceAvailableLoop_reasons _ _ _ _ _ _ _ _ hpost
      have hfalse : f1 = false → fR = false := by
        intro e
        rw [e] at hpost
        exact resourceAvailableLoop_false _ _ _ _ _ _ _ hpost
      refine ⟨g, f0, p0, g1, f1, p1, gR, fR, pR, hpre, hstep, hpost, hra0, ?_, q1, ?_⟩
      · intro e
        have hfR := hfalse e
        subst hfR
        split at h
        · exact absurd h (by simp)
        · simp only [Bool.false_and, Bool.false_eq_true, if_false, Except.ok.injEq,
            Prod.mk.injEq] at h
          exact h.2.1.symm
      · split at h
        · exact absurd h (by simp)
        · rename_i g2 f2 p2 hsg
          split at h
          · split at h
            · exact absurd h (by simp)
            · split at h
              · simp only [Except.ok.injEq, Prod.mk.injEq] at h
                exact ⟨_, hq1, h.2.2.symm⟩
              · simp only [Except.ok.injEq, Prod.mk.injEq] at h
                exact ⟨_, hq1, h.2.2.symm⟩
          · simp only [Except.ok.injEq, Prod.mk.injEq] at h
            exact ⟨_, hq1, h.2.2.symm⟩

/-- The call of `allocateGroupAt` on the group `twoLocationGroup` (one leaf
requirement of 4 cards, the usage of the location `0` being 2 cards) at the
location `0`. -/
def atLeaf : AllocResult :=
  allocateGroupAt (allocateGroup 0) (twoLocationGroup false [] 2) "0"
    (findSubGroups (twoLocationGroup false [] 2).ReqBaseGroupName
      (twoLocationGroup false [] 2).GrpRequiredResource).1

set_option maxRecDepth 100000 in
theorem leaf_feasibility_witness :
    (twoLocationGroup false [] 2).GrpRequiredResource =
      [] ++ ("cards", "r/grp/gpu/A/cards") :: [] ∧
    (twoLocationGroup false [] 2).IsReqSubGrp.getD "cards" false = false ∧
    (okValue atLeaf (GrpAllocator.zero, false, [])).1.AllocateFrom =
      [("r/grp/gpu/A/cards", "r/grp/gpu/0/cards")] ∧
    (okValue atLeaf (GrpAllocator.zero, false, [])).1.NodeResource =
      [("r/grp/gpu/0/cards", 6)] ∧
    ∃ g f0 p0 g1 f1 p1 gR fR pR,
      resourceAvailableLoop ((twoLocationGroup false [] 2).GrpAllocResource.getD "0" []) []
        { twoLocationGroup false [] 2 with IsAllocSubGrp := (findSubGroups
          ((twoLocationGroup false [] 2).AllocBaseGroupPrefix ++ "/" ++ "0")
          ((twoLocationGroup false [] 2).GrpAllocResource.getD "0" [])).2 } true [] =
          .ok (g, f0, p0) ∧
      LeafStep ((twoLocationGroup false [] 2).GrpAllocResource.getD "0" []) "cards"
        "r/grp/gpu/A/cards" g f0 p0 g1 f1 p1 ∧
      resourceAvailableLoop ((twoLocationGroup false [] 2).GrpAllocResource.getD "0" []) []
        g1 f1 p1 = .ok (gR, fR, pR) ∧
      resourceAvailable { twoLocationGroup false [] 2 with IsAllocSubGrp := (findSubGroups
        ((twoLocationGroup false [] 2).AllocBaseGroupPrefix ++ "/" ++ "0")
        ((twoLocationGroup false [] 2).GrpAllocResource.getD "0" [])).2 } "0" =
        .ok (gR, fR, pR) ∧
      (f1 = false → (okValue atLeaf (GrpAllocator.zero, false, [])).2.1 = false) ∧
      (∃ q1 q2, pR = p1 ++ q1 ∧
        (okValue atLeaf (GrpAllocator.zero, false, [])).2.2 = pR ++ q2) :=
  ⟨rfl, by decide, by decide!, by decide!,
    leaf_feasibility (allocateGroup 0) (twoLocationGroup false [] 2) "0"
      (findSubGroups (twoLocationGroup false [] 2).ReqBaseGroupName
        (twoLocationGroup false [] 2).GrpRequiredResource).1 _ _ _ [] []
      "cards" "r/grp/gpu/A/cards" rfl (by decide)
      (eq_ok_okValue atLeaf (GrpAllocator.zero, false, []) (by decide!))⟩

/-! ## The reasons of a search that fails -/

theorem SortedStringKeys_length {V : Type} (m : GoMap V) (h : m.keys.Nodup) :
    (SortedStringKeys m).length = m.length := by
  rw [(SortedStringKeys_perm m h).length_eq]
  simp [GoMap.keys]

/-- Claim C16. Reason suppression: when `allocateGroup` fails at a level, the
returned reason list is the reason list of the single candidate location if the
level has exactly one candidate location, and is empty if the level has two or
more candidate locations (and if it has none). The candidate locations are the
keys of `GrpAllocResource`, visited in ascending order. -/
theorem allocateGroup_reason_suppression (fuel : Nat) (grp grp' : GrpAllocator)
    (rs : List PredicateFailureReason) (hnd : grp.GrpAllocResource.keys.Nodup)
    (h : allocateGroup (fuel + 1) grp = .ok (grp', false, rs)) :
    ∃ cs gF, searchCandidates fuel grp = .ok (cs, gF) ∧
      cs.map (fun c => c.key) = SortedStringKeys grp.GrpAllocResource ∧
      cs.length = grp.GrpAllocResource.length ∧
      (∀ c, cs = [c] → rs = c.reasons) ∧
      (2 ≤ cs.length → rs = []) ∧
      (cs = [] → rs = []) := by
  have hne : grp.GrpRequiredResource.length ≠ 0 := by
    intro e
    simp only [allocateGroup, allocateGroupBody, e, if_true, Except.ok.injEq,
      Prod.mk.injEq] at h
    exact absurd h.2.1 (by simp)
  obtain ⟨cs, gF, hcs, -, hsel⟩ := allocateGroupBody_spec _ grp grp' false rs hne h
  obtain ⟨hkeys, -⟩ := candidates_spec _ _
    { grp with IsReqSubGrp := (findSubGroups grp.ReqBaseGroupName grp.GrpRequiredResource).2 }
    _ _ cs gF rfl hcs
  have hlen : cs.length = grp.GrpAllocResource.length := by
    rw [← SortedStringKeys_length _ hnd]
    have := congrArg List.length hkeys
    simpa using this
  have hrs : rs = if grp.GrpAllocResource.length = 1 then (cs.map (fun c => c.reasons)).flatten
      else [] := by
    cases hs : selectCandidate grp.PreferUsed grp.Score cs with
    | none => rw [hs] at hsel; exact hsel.2.2
    | some m => rw [hs] at hsel; exact absurd hsel.1 (by simp)
  refine ⟨cs, gF, hcs, hkeys, hlen, ?_, ?_, ?_⟩
  · intro c hc
    rw [hrs, ← hlen, hc]
    simp
  · intro h2
    rw [hrs, ← hlen]
    have : ¬ cs.length = 1 := by omega
    simp [this]
  · intro hc
    rw [hrs, ← hlen, hc]
    simp

/-- The top-level group of a container that requests 9 cards of the gpu group
`A` on `nodeS4`, whose gpus have 8 and 4 cards. -/
def topGroupC16 : GrpAllocator :=
  { topGroupS1 with RequiredResource := [("r/grp/gpu/A/cards", 9)] }

set_option maxRecDepth 100000 in
theorem allocateGroup_reason_suppression_witness :
    topGroupC16.GrpAllocResource.keys.Nodup ∧
    (okValue (allocateGroup (1 + 1) topGroupC16) (GrpAllocator.zero, true, [])).2.1 = false ∧
    (okValue (allocateGroup (1 + 1) topGroupC16) (GrpAllocator.zero, true, [])).2.2 =
      [NewInsufficientResourceError "c/r/grp/gpu/A" 0 0 0] ∧
    ∃ cs gF, searchCandidates 1 topGroupC16 = .ok (cs, gF) ∧
      cs.map (fun c => c.key) = SortedStringKeys topGroupC16.GrpAllocResource ∧
      cs.length = topGroupC16.GrpAllocResource.length ∧
      (∀ c, cs = [c] →
        (okValue (allocateGroup (1 + 1) topGroupC16) (GrpAllocator.zero, true, [])).2.2 =
          c.reasons) ∧
      (2 ≤ cs.length →
        (okValue (allocateGroup (1 + 1) topGroupC16) (GrpAllocator.zero, true, [])).2.2 = []) ∧
      (cs = [] →
        (okValue (allocateGroup (1 + 1) topGroupC16) (GrpAllocator.zero, true, [])).2.2 = []) :=
  ⟨by decide, by decide!, by decide!,
    allocateGroup_reason_suppression 1 topGroupC16
      (okValue (allocateGroup (1 + 1) topGroupC16) (GrpAllocator.zero, true, [])).1
      (okValue (allocateGroup (1 + 1) topGroupC16) (GrpAllocator.zero, true, [])).2.2
      (by decide)
      (by
        have h1 := eq_ok_okValue (allocateGroup (1 + 1) topGroupC16)
          (GrpAllocator.zero, true, []) (by decide!)
        have h2 : (okValue (allocateGroup (1 + 1) topGroupC16)
          (GrpAllocator.zero, true, [])).2.1 = false := by decide!
        rw [← h2]
        exact h1)⟩

/-! ## What a search leaves to its caller -/

/-- The used groups that a search hands on after its candidates: those of the
last candidate tried, and those of the receiver when there is no candidate. -/
theorem candidates_usedGroups (allocGroup : GrpAllocator → AllocResult)
    (sr : GoMap (GoMap (GoMap String))) :
    ∀ (keys : List String) (g : GrpAllocator) (cs : List Candidate) (gF : GrpAllocator),
      candidates allocGroup sr keys g = .ok (cs, gF) →
      gF.UsedGroups = match cs.getLast? with
        | some c => c.grp.UsedGroups
        | none => g.UsedGroups := by
  intro keys
  induction keys with
  | nil =>
    intro g cs gF h
    simp only [candidates, Except.ok.injEq, Prod.mk.injEq] at h
    obtain ⟨rfl, rfl⟩ := h
    rfl
  | cons key rest ih =>
    intro g cs gF h
    simp only [candidates] at h
    split at h
    · exact absurd h (by simp)
    · rename_i g1 found reasons hat
      split at h
      · exact absurd h (by simp)
      · rename_i cs1 gF1 hrest
        simp only [Except.ok.injEq, Prod.mk.injEq] at h
        obtain ⟨rfl, rfl⟩ := h
        have := ih _ _ _ hrest
        rw [this]
        cases cs1 with
        | nil => rfl
        | cons c t =>
          simp only [List.getLast?_cons_cons]
          cases hl : (c :: t).getLast? with
          | none => simp at hl
          | some z => rfl

set_option maxRecDepth 100000 in
/-- Claim C15, counterexample. Scenario S5 (two boards; the gpus of the board
`0` have 2 cards and 1 card, those of the board `1` have 2 cards each; the
container requests two gpus of 2 cards in one board): the search starts with no
used group, tries the board `0`, where the nested search for the first gpu
commits the gpu `0` of the board and the second gpu fits nowhere, and chooses
the board `1`. After `allocateGroup` returns, every `AllocateFrom` target is
under the board `1`, and `UsedGroups` holds the path of the gpu `0` of the
board `0`. -/
theorem usedGroups_keeps_abandoned_candidate :
    ∃ r, fitS5 = .ok r ∧ r.found = true ∧
      r.grp.AllocateFrom.vals =
        ["r/grp/gpugrp1/1/gpu/1/cards", "r/grp/gpugrp1/1/gpu/0/cards"] ∧
      r.grp.UsedGroups.getD "r/grp/gpugrp1/0/gpu/0" false = true :=
  ⟨okValue fitS5 ContainerFit.zero, eq_ok_okValue _ _ fitS5_isValue, by decide!, by decide!,
    by decide!⟩

/-- Claim C15, amended. Backtracking isolation: every candidate location is
tried on the receiver as it was at the entry of `allocateGroup`, but for
`UsedGroups`, which all the candidates and their nested searches share; after
`allocateGroup` returns, `AllocateFrom`, `PodResource` and `NodeResource` are
those of the committed candidate, and those of the entry when no candidate is
committed; `UsedGroups` is the map that the last candidate tried left, with the
path of the committed location set. -/
theorem allocateGroup_isolation (fuel : Nat) (grp grp' : GrpAllocator) (found : Bool)
    (rs : List PredicateFailureReason) (hne : grp.GrpRequiredResource.length ≠ 0)
    (h : allocateGroup (fuel + 1) grp = .ok (grp', found, rs)) :
    ∃ cs gF, searchCandidates fuel grp = .ok (cs, gF) ∧
      (∀ c ∈ cs, ∃ ug, allocateGroupAt (allocateGroup fuel)
        { grp with
          IsReqSubGrp := (findSubGroups grp.ReqBaseGroupName grp.GrpRequiredResource).2
          UsedGroups := ug } c.key
        (findSubGroups grp.ReqBaseGroupName grp.GrpRequiredResource).1 =
          .ok (c.grp, c.found, c.reasons)) ∧
      (gF.UsedGroups = match cs.getLast? with
        | some c => c.grp.UsedGroups
        | none => grp.UsedGroups) ∧
      (found = true → ∃ m ∈ cs, m.found = true ∧ Commits grp' m ∧
        grp'.UsedGroups =
          gF.UsedGroups.set (grp.AllocBaseGroupPrefix ++ "/" ++ m.key) true) ∧
      (found = false → grp'.AllocateFrom = grp.AllocateFrom ∧
        grp'.PodResource = grp.PodResource ∧ grp'.NodeResource = grp.NodeResource ∧
        grp'.UsedGroups = gF.UsedGroups) := by
  obtain ⟨cs, gF, hcs, hgF, hsel⟩ := allocateGroupBody_spec _ grp grp' found rs hne h
  obtain ⟨-, hmem⟩ := candidates_spec _ _
    { grp with IsReqSubGrp := (findSubGroups grp.ReqBaseGroupName grp.GrpRequiredResource).2 }
    _ _ cs gF rfl hcs
  have hlast := candidates_usedGroups _ _ _ _ _ _ hcs
  refine ⟨cs, gF, hcs, ?_, hlast, ?_, ?_⟩
  · intro c hc
    obtain ⟨ug, hat, -⟩ := hmem c hc
    exact ⟨ug, hat⟩
  · intro hf
    cases hs : selectCandidate grp.PreferUsed grp.Score cs with
    | none =>
      rw [hs] at hsel
      rw [hf] at hsel
      exact absurd hsel.1 (by simp)
    | some m =>
      rw [hs] at hsel
      obtain ⟨-, -, rfl⟩ := hsel
      obtain ⟨hm, hmf⟩ := selectCandidate_mem _ _ _ _ hs
      exact ⟨m, hm, hmf, ⟨rfl, rfl, rfl, rfl⟩, rfl⟩
  · intro hf
    cases hs : selectCandidate grp.PreferUsed grp.Score cs with
    | none =>
      rw [hs] at hsel
      obtain ⟨-, rfl, -⟩ := hsel
      rw [hgF]
      exact ⟨rfl, rfl, rfl, rfl⟩
    | some m =>
      rw [hs] at hsel
      rw [hf] at hsel
      exact absurd hsel.1 (by simp)

set_option maxRecDepth 100000 in
theorem allocateGroup_isolation_witness :
    topGroupS1.GrpRequiredResource.length ≠ 0 ∧
    (okValue (allocateGroup (1 + 1) topGroupS1) (GrpAllocator.zero, false, [])).2.1 = true ∧
    (okValue (allocateGroup (1 + 1) topGroupS1) (GrpAllocator.zero, false, [])).1.UsedGroups =
      [("r/grp/gpu/0", true), ("r/grp", true)] ∧
    ∃ cs gF, searchCandidates 1 topGroupS1 = .ok (cs, gF) ∧
      (∀ c ∈ cs, ∃ ug, allocateGroupAt (allocateGroup 1)
        { topGroupS1 with
          IsReqSubGrp := (findSubGroups topGroupS1.ReqBaseGroupName
            topGroupS1.GrpRequiredResource).2
          UsedGroups := ug } c.key
        (findSubGroups topGroupS1.ReqBaseGroupName topGroupS1.GrpRequiredResource).1 =
          .ok (c.grp, c.found, c.reasons)) ∧
      (gF.UsedGroups = match cs.getLast? with
        | some c => c.grp.UsedGroups
        | none => topGroupS1.UsedGroups) ∧
      ((okValue (allocateGroup (1 + 1) topGroupS1) (GrpAllocator.zero, false, [])).2.1 = true →
        ∃ m ∈ cs, m.found = true ∧
          Commits (okValue (allocateGroup (1 + 1) topGroupS1)
            (GrpAllocator.zero, false, [])).1 m ∧
          (okValue (allocateGroup (1 + 1) topGroupS1)
            (GrpAllocator.zero, false, [])).1.UsedGroups =
            gF.UsedGroups.set (topGroupS1.AllocBaseGroupPrefix ++ "/" ++ m.key) true) ∧
      ((okValue (allocateGroup (1 + 1) topGroupS1) (GrpAllocator.zero, false, [])).2.1 = false →
        (okValue (allocateGroup (1 + 1) topGroupS1)
          (GrpAllocator.zero, false, [])).1.AllocateFrom = topGroupS1.AllocateFrom ∧
        (okValue (allocateGroup (1 + 1) topGroupS1)
          (GrpAllocator.zero, false, [])).1.PodResource = topGroupS1.PodResource ∧
        (okValue (allocateGroup (1 + 1) topGroupS1)
          (GrpAllocator.zero, false, [])).1.NodeResource = topGroupS1.NodeResource ∧
        (okValue (allocateGroup (1 + 1) topGroupS1)
          (GrpAllocator.zero, false, [])).1.UsedGroups = gF.UsedGroups) :=
  ⟨by decide, by decide!, by decide!,
    allocateGroup_isolation 1 topGroupS1 _ _ _ (by decide)
      (eq_ok_okValue (allocateGroup (1 + 1) topGroupS1) (GrpAllocator.zero, false, [])
        (by decide!))⟩

/-! ## A failure comes with a reason -/

/-- A flag that is false comes with a reason. -/
def Explained (found : Bool) (pf : List PredicateFailureReason) : Prop :=
  found = false → pf ≠ []

theorem explained_append (found : Bool) (pf : List PredicateFailureReason)
    (x : PredicateFailureReason) : Explained found (pf ++ [x]) :=
  fun _ => by simp

theorem resourceAvailableLoop_explained (grpAllocRes : GoMap String) :
    ∀ (l : GoMap String) (grp : GrpAllocator) (found : Bool) (pf : List PredicateFailureReason)
      (grp' : GrpAllocator) (found' : Bool) (pf' : List PredicateFailureReason),
      Explained found pf →
      resourceAvailableLoop grpAllocRes l grp found pf = .ok (grp', found', pf') →
      Explained found' pf' := by
  intro l
  induction l with
  | nil =>
    intro grp found pf grp' found' pf' he h
    simp only [resourceAvailableLoop, Except.ok.injEq, Prod.mk.injEq] at h
    obtain ⟨-, rfl, rfl⟩ := h
    exact he
  | cons q t ih =>
    obtain ⟨k, r⟩ := q
    intro grp found pf grp' found' pf' he h
    simp only [resourceAvailableLoop] at h
    split at h
    · split at h
      · exact ih _ _ _ _ _ _ (explained_append _ _ _) h
      · split at h
        · exact absurd h (by simp)
        · split at h
          · exact ih _ _ _ _ _ _ (explained_append _ _ _) h
          · exact ih _ _ _ _ _ _ he h
    · exact ih _ _ _ _ _ _ he h

theorem allocateSubGroupsInner_explained (allocGroup : GrpAllocator → AllocResult)
    (loc : String) (sr sa : GoMap (GoMap (GoMap String))) (key : String) :
    ∀ (l : List String) (grp : GrpAllocator) (found : Bool) (pf : List PredicateFailureReason)
      (grp' : GrpAllocator) (found' : Bool) (pf' : List PredicateFailureReason),
      Explained found pf →
      allocateSubGroupsInner allocGroup loc sr sa key l grp found pf = .ok (grp', found', pf') →
      Explained found' pf' := by
  intro l
  induction l with
  | nil =>
    intro grp found pf grp' found' pf' he h
    simp only [allocateSubGroupsInner, Except.ok.injEq, Prod.mk.injEq] at h
    obtain ⟨-, rfl, rfl⟩ := h
    exact he
  | cons i t ih =>
    intro grp found pf grp' found' pf' he h
    simp only [allocateSubGroupsInner] at h
    split at h
    · exact absurd h (by simp)
    · split at h
      · refine ih _ _ _ _ _ _ ?_ h
        intro _
        simp
      · exact ih _ _ _ _ _ _ he h

theorem allocateSubGroupsOuter_explained (allocGroup : GrpAllocator → AllocResult)
    (loc : String) (sr sa : GoMap (GoMap (GoMap String))) :
    ∀ (l : List String) (grp : GrpAllocator) (found : Bool) (pf : List PredicateFailureReason)
      (grp' : GrpAllocator) (found' : Bool) (pf' : List PredicateFailureReason),
      Explained found pf →
      allocateSubGroupsOuter allocGroup loc sr sa l grp found pf = .ok (grp', found', pf') →
      Explained found' pf' := by
  intro l
  induction l with
  | nil =>
    intro grp found pf grp' found' pf' he h
    simp only [allocateSubGroupsOuter, Except.ok.injEq, Prod.mk.injEq] at h
    obtain ⟨-, rfl, rfl⟩ := h
    exact he
  | cons g t ih =>
    intro grp found pf grp' found' pf' he h
    simp only [allocateSubGroupsOuter] at h
    split at h
    · exact absurd h (by simp)
    · rename_i g1 f1 p1 hin
      exact ih _ _ _ _ _ _ (allocateSubGroupsInner_explained _ _ _ _ _ _ _ _ _ _ _ _ he hin) h

theorem requestedResourceLoop_explained (grp : GrpAllocator) :
    ∀ (l : GoMap String) (rr : GoMap (List Int)) (found : Bool) (pf : List PredicateFailureReason),
      Explained found pf →
      Explained (requestedResourceLoop grp l rr found pf).2.1
        (requestedResourceLoop grp l rr found pf).2.2 := by
  intro l
  induction l with
  | nil => intro rr found pf he; exact he
  | cons q t ih =>
    obtain ⟨k, e⟩ := q
    intro rr found pf he
    simp only [requestedResourceLoop]
    split
    · exact ih _ _ _ (explained_append _ _ _)
    · exact ih _ _ _ he

theorem scoreLoop_explained (rr : GoMap (List Int)) :
    ∀ (l : GoMap String) (grp : GrpAllocator) (found : Bool) (pf : List PredicateFailureReason)
      (grp' : GrpAllocator) (found' : Bool) (pf' : List PredicateFailureReason),
      Explained found pf →
      scoreLoop rr l grp found pf = .ok (grp', found', pf') →
      Explained found' pf' := by
  intro l
  induction l with
  | nil =>
    intro grp found pf grp' found' pf' he h
    simp only [scoreLoop, Except.ok.injEq, Prod.mk.injEq] at h
    obtain ⟨-, rfl, rfl⟩ := h
    exact he
  | cons q t ih =>
    obtain ⟨k0, k⟩ := q
    intro grp found pf grp' found' pf' he h
    simp only [scoreLoop] at h
    split at h
    · exact absurd h (by simp)
    · split at h
      · exact ih _ _ _ _ _ _ (explained_append _ _ _) h
      · exact ih _ _ _ _ _ _ he h

/-- A rescoring that reports false gives a reason. -/
theorem findScoreAndUpdate_explained (grp : GrpAllocator) (loc : String) (grp' : GrpAllocator)
    (found' : Bool) (pf' : List PredicateFailureReason)
    (h : findScoreAndUpdate grp loc = .ok (grp', found', pf')) : Explained found' pf' := by
  unfold findScoreAndUpdate at h
  have he := requestedResourceLoop_explained grp grp.GrpRequiredResource [] true []
    (fun e => by cases e)
  generalize requestedResourceLoop grp grp.GrpRequiredResource [] true [] = r at h he
  obtain ⟨rr, f0, pf0⟩ := r
  simp only at h he
  split at h
  · exact absurd h (by simp)
  · rename_i g1 f1 p1 hs
    simp only [Except.ok.injEq, Prod.mk.injEq] at h
    obtain ⟨-, rfl, rfl⟩ := h
    exact scoreLoop_explained rr _ _ _ _ _ _ _ he hs

/-- A location that is reported infeasible comes with a reason. -/
theorem allocateGroupAt_explained (allocGroup : GrpAllocator → AllocResult) (grp : GrpAllocator)
    (loc : String) (sr : GoMap (GoMap (GoMap String)))
    (grp' : GrpAllocator) (found' : Bool) (pf' : List PredicateFailureReason)
    (h : allocateGroupAt allocGroup grp loc sr = .ok (grp', found', pf')) :
    Explained found' pf' := by
  unfold allocateGroupAt at h
  simp only at h
  split at h
  · exact absurd h (by simp)
  · rename_i g1 f1 p1 hra
    have e1 : Explained f1 p1 := by
      unfold resourceAvailable at hra
      exact resourceAvailableLoop_explained _ _ _ _ _ _ _ _ (fun e => by cases e) hra
    split at h
    · exact absurd h (by simp)
    · rename_i g2 f2 p2 hsg
      have e2 : Explained f2 p2 := by
        unfold allocateSubGroups at hsg
        exact allocateSubGroupsOuter_explained _ _ _ _ _ _ _ _ _ _ _ (fun e => by cases e) hsg
      split at h
      · split at h
        · exact absurd h (by simp)
        · rename_i g3 f3 p3 hfs
          have e3 := findScoreAndUpdate_explained _ _ _ _ _ hfs
          split at h
          · rename_i hf3
            simp only [Except.ok.injEq, Prod.mk.injEq] at h
            obtain ⟨-, rfl, rfl⟩ := h
            intro _
            have := e3 hf3
            simp [this]
          · simp only [Except.ok.injEq, Prod.mk.injEq] at h
            obtain ⟨-, rfl, rfl⟩ := h
            intro e
            cases e
      · rename_i hff
        simp only [Except.ok.injEq, Prod.mk.injEq] at h
        obtain ⟨-, rfl, rfl⟩ := h
        intro _
        have hor : f1 = false ∨ f2 = false := by
          cases f1 <;> cases f2 <;> simp at hff ⊢
        rcases hor with e | e
        · have := e1 e
          simp [this]
        · have := e2 e
          simp [this]

/-- A search over one candidate location that reports false returns a reason
(scorers with non-negative scores, receiver score at most 0). -/
theorem allocateGroup_single_explained (fuel : Nat) (grp grp' : GrpAllocator)
    (rs : List PredicateFailureReason) (hlen : grp.GrpAllocResource.length = 1)
    (hs0 : grp.Score ≤ 0) (hnn : NonnegScores grp)
    (h : allocateGroup (fuel + 1) grp = .ok (grp', false, rs)) : rs ≠ [] := by
  have hne : grp.GrpRequiredResource.length ≠ 0 := by
    intro e
    simp only [allocateGroup, allocateGroupBody, e, if_true, Except.ok.injEq,
      Prod.mk.injEq] at h
    exact absurd h.2.1 (by simp)
  obtain ⟨cs, gF, hcs, -, hsel⟩ := allocateGroupBody_spec _ grp grp' false rs hne h
  obtain ⟨hkeys, hmem⟩ := candidates_spec _ _
    { grp with IsReqSubGrp := (findSubGroups grp.ReqBaseGroupName grp.GrpRequiredResource).2 }
    _ _ cs gF rfl hcs
  have hinv := selectCandidate_inv grp.PreferUsed grp.Score cs
  cases hs : selectCandidate grp.PreferUsed grp.Score cs with
  | some m => rw [hs] at hsel; exact absurd hsel.1 (by simp)
  | none =>
    rw [hs] at hsel hinv
    obtain ⟨-, -, hrs⟩ := hsel
    rw [if_pos hlen] at hrs
    obtain ⟨kv, hkv⟩ := List.length_eq_one.1 hlen
    have hsorted : SortedStringKeys grp.GrpAllocResource = [kv.1] := by
      unfold SortedStringKeys GoMap.keys
      rw [hkv]
      rfl
    rw [hsorted] at hkeys
    obtain ⟨c, hc⟩ : ∃ c, cs = [c] := by
      cases cs with
      | nil => simp at hkeys
      | cons c t =>
        cases t with
        | nil => exact ⟨c, rfl⟩
        | cons d t2 => simp at hkeys
    have hcm : c ∈ cs := by rw [hc]; exact List.mem_singleton_self c
    obtain ⟨ug, hat, -⟩ := hmem c hcm
    have hcf : c.found = false := by
      by_contra hne2
      have hcf : c.found = true := by simpa using hne2
      have h1 := (hinv c hcm hcf).1
      have h2 := searchCandidates_score_nonneg fuel grp cs gF hnn hcs c hcm hcf
      exact absurd (lt_of_lt_of_le h1 hs0) (not_lt.2 h2)
    have := allocateGroupAt_explained _ _ _ _ _ _ _ hat hcf
    rw [hrs, hc]
    simpa using this

theorem collectAllocatable_single (env : Env) (grpName : String) :
    ∀ (l : GoMap Int) (acc : GoMap (GoMap String) × GoMap Int),
      (acc.1 = [] ∨ ∃ m, acc.1 = [(grpName, m)]) →
      ((collectAllocatable env grpName l acc).1 = [] ∨
        ∃ m, (collectAllocatable env grpName l acc).1 = [(grpName, m)]) ∧
      (((∃ m, acc.1 = [(grpName, m)]) ∨ ∃ kv ∈ l, env.PrecheckedResource kv.1 = false) →
        ∃ m, (collectAllocatable env grpName l acc).1 = [(grpName, m)]) := by
  intro l
  induction l with
  | nil =>
    intro acc h
    refine ⟨h, ?_⟩
    rintro (h1 | ⟨kv, hkv, -⟩)
    · exact h1
    · cases hkv
  | cons q t ih =>
    obtain ⟨k, v⟩ := q
    intro acc h
    obtain ⟨an, al⟩ := acc
    simp only at h
    simp only [collectAllocatable]
    by_cases hp : env.PrecheckedResource k = true
    · simp only [hp, Bool.not_true, Bool.false_eq_true, if_false]
      obtain ⟨i1, i2⟩ := ih (an, al) h
      refine ⟨i1, ?_⟩
      rintro (h1 | ⟨kv, hkv, hkp⟩)
      · exact i2 (Or.inl h1)
      · rcases List.mem_cons.1 hkv with e | e
        · rw [e] at hkp
          simp only at hkp
          rw [hp] at hkp
          cases hkp
        · exact i2 (Or.inr ⟨kv, e, hkp⟩)
    · have hp' : env.PrecheckedResource k = false := by simpa using hp
      simp only [hp', Bool.not_false, if_true]
      have hnew : ∃ m, AssignMap2 an grpName k k = [(grpName, m)] := by
        unfold AssignMap2
        rcases h with e | ⟨m, e⟩
        · rw [e]; exact ⟨_, rfl⟩
        · rw [e]
          exact ⟨(GoMap.getD [(grpName, m)] grpName []).set k k, by
            simp only [GoMap.set, if_true]⟩
      obtain ⟨i1, i2⟩ := ih (AssignMap2 an grpName k k, al.set k v) (Or.inr hnew)
      exact ⟨i1, fun _ => i2 (Or.inl hnew)⟩

theorem collectAllocatable_nonneg (env : Env) (grpName : String) :
    ∀ (l : GoMap Int) (acc : GoMap (GoMap String) × GoMap Int),
      (∀ kv ∈ l, 0 ≤ kv.2) → (∀ kv ∈ acc.2, 0 ≤ kv.2) →
      ∀ kv ∈ (collectAllocatable env grpName l acc).2, 0 ≤ kv.2 := by
  intro l
  induction l with
  | nil => intro acc _ h; exact h
  | cons q t ih =>
    obtain ⟨k, v⟩ := q
    intro acc hl hacc
    obtain ⟨an, al⟩ := acc
    simp only [collectAllocatable]
    split
    · apply ih _ (fun kv h => hl kv (List.mem_cons_of_mem _ h))
      intro kv hkv
      rcases GoMap.mem_set hkv with e | e
      · rw [e]
        exact hl (k, v) (List.mem_cons_self _ _)
      · exact hacc kv e
    · exact ih _ (fun kv h => hl kv (List.mem_cons_of_mem _ h)) hacc

/-- A call of `containerFitsGroupConstraints` that reports false returns a
reason, on a node with at least one allocatable group resource, non-negative
capacities and scorers whose scores are non-negative. -/
theorem containerFits_explained (env : Env) (contName : String) (contReq : ContainerInfo)
    (initContainer : Bool) (allocatable : GoMap Int) (allocScorer : GoMap ResourceScoreFunc)
    (podResource nodeResource : GoMap Int) (usedGroups : GoMap Bool)
    (bPreferUsed bSetAllocateFrom : Bool) (r : ContainerFit)
    (hres : ∃ kv ∈ allocatable, env.PrecheckedResource kv.1 = false)
    (hcap : ∀ kv ∈ allocatable, 0 ≤ kv.2)
    (hsc : ∀ key f, allocScorer.get? key = some f → ∀ c p u L i, 0 ≤ c →
      (f c p u L i).found = true → 0 ≤ (f c p u L i).score)
    (hrun : containerFitsGroupConstraints env contName contReq initContainer allocatable
      allocScorer podResource nodeResource usedGroups bPreferUsed bSetAllocateFrom = .ok r)
    (hfit : r.found = false) : r.reasons ≠ [] := by
  unfold containerFitsGroupConstraints at hrun
  generalize hcr : collectRequests env contReq contReq.DevRequests ([], [], []) = cr at hrun
  obtain ⟨reqName, req, reqScorer⟩ := cr
  simp only at hrun
  split at hrun
  · exact absurd hrun (by simp)
  · rename_i grpPrefix grpName hpre
    generalize hca : collectAllocatable env grpName allocatable ([], []) = ca at hrun
    obtain ⟨allocName, alloc⟩ := ca
    have hone : allocName.length = 1 := by
      obtain ⟨m, hm⟩ := (collectAllocatable_single env grpName allocatable ([], [])
        (Or.inl rfl)).2 (Or.inr hres)
      rw [hca] at hm
      simp only at hm
      rw [hm]
      rfl
    have hallocnn : ∀ key, 0 ≤ alloc.getD key 0 := by
      intro key
      have := collectAllocatable_nonneg env grpName allocatable ([], []) hcap
        (fun kv h => by cases h)
      rw [hca] at this
      rcases GoMap.getD_mem_or alloc key 0 with e | e
      · rw [e]
      · exact this _ e
    simp only at hrun
    split at hrun
    · split at hrun
      · exact absurd hrun (by simp)
      · rename_i g1 f1 rs1 hag
        simp only [Except.ok.injEq] at hrun
        subst hrun
        simp only at hfit ⊢
        subst hfit
        unfold searchFuel at hag
        exact allocateGroup_single_explained _ _ _ _ (by exact hone) (by simp)
          (fun key f hf p n rs i hfound => hsc key f hf _ p n rs i (hallocnn key) hfound) hag
    · split at hrun
      · split at hrun
        · exact absurd hrun (by simp)
        · rename_i g1 f1 rs1 hfs
          simp only [Except.ok.injEq] at hrun
          subst hrun
          simp only at hfit ⊢
          exact findScoreAndUpdate_explained _ _ _ _ _ hfs hfit
      · simp only [Except.ok.injEq] at hrun
        subst hrun
        simp at hfit

theorem podFitsTrace_mem (env : Env) (n : NodeInfo) (scorer : GoMap ResourceScoreFunc)
    (i a : Bool) :
    ∀ (names : List String) (th : PodThread) (tr : List (String × ContainerFit))
      (th' : PodThread),
      podFitsTrace env n scorer i a names th = .ok (tr, th') →
      ∀ x ∈ tr, ∃ cont pod node used,
        containerFitsGroupConstraints env x.1 cont i n.Allocatable scorer pod node used
          true a = .ok x.2 := by
  intro names
  induction names with
  | nil =>
    intro th tr th' h x hx
    simp only [podFitsTrace, Except.ok.injEq, Prod.mk.injEq] at h
    rw [← h.1] at hx
    cases hx
  | cons name rest ih =>
    intro th tr th' h x hx
    simp only [podFitsTrace] at h
    split at h
    · exact absurd h (by simp)
    · rename_i r hr
      split at h
      · exact absurd h (by simp)
      · rename_i tr1 th1 hrest
        simp only [Except.ok.injEq, Prod.mk.injEq] at h
        rw [← h.1] at hx
        rcases List.mem_cons.1 hx with e | e
        · rw [e]
          exact ⟨_, _, _, _, hr⟩
        · exact ih _ _ _ hrest x e

theorem failReasons_ne_nil (tr : List (String × ContainerFit)) (x : String × ContainerFit)
    (hx : x ∈ tr) (hf : x.2.found = false) (hr : x.2.reasons ≠ []) : failReasons tr ≠ [] := by
  unfold failReasons
  intro e
  rw [List.flatMap_eq_nil_iff] at e
  exact hr (e x (List.mem_filter.2 ⟨hx, by simp [hf]⟩))

/-- A node without any resource. -/
def nodeEmpty : NodeInfo := ⟨[], [], []⟩

/-- The pod of scenario S1: one running container that requests 4 cards. -/
def podS1 : PodInfo := ⟨[("c", contS1)], []⟩

set_option maxRecDepth 100000 in
/-- Claim C17, counterexample. On a node without any allocatable group resource
the search of the container of scenario S1 has no candidate location: the loop
of `allocateGroup` is not entered, `PodFitsGroupConstraints` returns `fits =
false` and the reason list is empty. -/
theorem podFits_failure_without_reason :
    ∃ fit, PodFitsGroupConstraints scenarioEnv nodeEmpty podS1 true = .ok fit ∧
      fit.found = false ∧ fit.predicateFails = [] :=
  ⟨okValue (PodFitsGroupConstraints scenarioEnv nodeEmpty podS1 true) PodFit.zero,
    eq_ok_okValue _ _ (by decide!), by decide!, by decide!⟩

/-- Claim C17, amended. A failure is explained on a node that offers a group
resource: for every pod and every node with at least one allocatable group
resource (a key that is not prechecked) and non-negative capacities, with
scorers whose scores are non-negative (section 4.1: scores are in [0, 1]),
whenever `PodFitsGroupConstraints` returns `fits = false` the returned reason
list is non-empty. -/
theorem podFits_failure_explained (env : Env) (n : NodeInfo) (spec : PodInfo)
    (allocating : Bool) (fit : PodFit)
    (hres : ∃ kv ∈ n.Allocatable, env.PrecheckedResource kv.1 = false)
    (hcap : ∀ kv ∈ n.Allocatable, 0 ≤ kv.2)
    (hsc : ∀ k sel c p u L i, 0 ≤ c → (env.SetScorer k sel c p u L i).found = true →
      0 ≤ (env.SetScorer k sel c p u L i).score)
    (hrun : PodFitsGroupConstraints env n spec allocating = .ok fit)
    (hfit : fit.found = false) : fit.predicateFails ≠ [] := by
  have hsc' : ∀ key f, (setScoreFunc env n).get? key = some f → ∀ c p u L i, 0 ≤ c →
      (f c p u L i).found = true → 0 ≤ (f c p u L i).score := by
    intro key f hf
    obtain ⟨sel, hsel⟩ := setScoreFunc_mem env n (key, f) (GoMap.mem_of_get? hf)
    simp only at hsel
    rw [hsel]
    exact hsc key sel
  unfold PodFitsGroupConstraints at hrun
  simp only at hrun
  split at hrun
  · exact absurd hrun (by simp)
  · rename_i st1 h1
    split at hrun
    · exact absurd hrun (by simp)
    · rename_i st2 h2
      simp only [Except.ok.injEq] at hrun
      subst hrun
      simp only at hfit ⊢
      obtain ⟨tr1, th1, ht1, -, -, -, -, -, a5, a6, -⟩ := podFitsLoop_trace _ _ _ _ _ _ _ _ h1
      obtain ⟨tr2, th2, ht2, -, -, -, -, -, b5, b6, -⟩ := podFitsLoop_trace _ _ _ _ _ _ _ _ h2
      simp only at a5 a6 b5 b6
      rw [b6, a6]
      simp only [List.nil_append]
      have hex : (∃ x ∈ tr1, x.2.found = false) ∨ (∃ x ∈ tr2, x.2.found = false) := by
        by_contra hcon
        simp only [not_or, not_exists, not_and, Bool.not_eq_false] at hcon
        have h1t : st1.found = true := a5.2 ⟨trivial, hcon.1⟩
        have h2t : st2.found = true := b5.2 ⟨h1t, hcon.2⟩
        rw [h2t] at hfit
        cases hfit
      rcases hex with ⟨x, hx, hxf⟩ | ⟨x, hx, hxf⟩
      · obtain ⟨cont, pod, node, used, hcf⟩ := podFitsTrace_mem _ _ _ _ _ _ _ _ _ ht1 x hx
        have hr := containerFits_explained _ _ _ _ _ _ _ _ _ _ _ _ hres hcap hsc' hcf hxf
        have := failReasons_ne_nil tr1 x hx hxf hr
        intro e
        exact this (List.append_eq_nil.1 e).1
      · obtain ⟨cont, pod, node, used, hcf⟩ := podFitsTrace_mem _ _ _ _ _ _ _ _ _ ht2 x hx
        have hr := containerFits_explained _ _ _ _ _ _ _ _ _ _ _ _ hres hcap hsc' hcf hxf
        have := failReasons_ne_nil tr2 x hx hxf hr
        intro e
        exact this (List.append_eq_nil.1 e).2

theorem scenario_score_nonneg : ∀ k sel c p u L i, 0 ≤ c →
    (scenarioEnv.SetScorer k sel c p u L i).found = true →
    0 ≤ (scenarioEnv.SetScorer k sel c p u L i).score :=
  fun _ _ c p u L i hc h => leftoverScoreFunc_nonneg c p u L i hc h

set_option maxRecDepth 100000 in
theorem podFits_failure_explained_witness :
    (∃ kv ∈ nodeS1.Allocatable, scenarioEnv.PrecheckedResource kv.1 = false) ∧
    (∀ kv ∈ nodeS1.Allocatable, 0 ≤ kv.2) ∧
    (okValue (PodFitsGroupConstraints scenarioEnv nodeS1 podC12 true) PodFit.zero).found = false ∧
    (okValue (PodFitsGroupConstraints scenarioEnv nodeS1 podC12 true)
      PodFit.zero).predicateFails ≠ [] :=
  have hres : ∃ kv ∈ nodeS1.Allocatable, scenarioEnv.PrecheckedResource kv.1 = false :=
    ⟨("r/grp/gpu/0/cards", 8), by decide, by decide!⟩
  have hcap : ∀ kv ∈ nodeS1.Allocatable, 0 ≤ kv.2 := by decide
  ⟨hres, hcap, by decide!,
    podFits_failure_explained scenarioEnv nodeS1 podC12 true _ hres hcap scenario_score_nonneg
      (eq_ok_okValue _ PodFit.zero (by decide!)) (by decide!)⟩

/-! ## The score-only mode of the container driver -/

/-- The group that `containerFitsGroupConstraints` builds for a container before
it chooses between the search and the rescoring: the requests and the
allocatable quantities that are not prechecked, the latter under the one
location `grpName`, the usage of the pod and of the node, and an empty
`AllocateFrom`. -/
def topLevelGroup (env : Env) (contName : String) (contReq : ContainerInfo)
    (initContainer : Bool) (allocatable : GoMap Int) (allocScorer : GoMap ResourceScoreFunc)
    (podResource nodeResource : GoMap Int) (usedGroups : GoMap Bool) (bPreferUsed : Bool)
    (grpPrefix grpName : String) : GrpAllocator :=
  { ContName := contName
    InitContainer := initContainer
    PreferUsed := bPreferUsed
    RequiredResource := (collectRequests env contReq contReq.DevRequests ([], [], [])).2.1
    ReqScorer := (collectRequests env contReq contReq.DevRequests ([], [], [])).2.2
    AllocResource := (collectAllocatable env grpName allocatable ([], [])).2
    AllocScorer := allocScorer
    UsedGroups := usedGroups
    GrpRequiredResource := (collectRequests env contReq contReq.DevRequests ([], [], [])).1
    IsReqSubGrp := []
    GrpAllocResource := (collectAllocatable env grpName allocatable ([], [])).1
    IsAllocSubGrp := []
    ReqBaseGroupName := env.DeviceGroupPrefix
    AllocBaseGroupPrefix := grpPrefix
    Score := 0
    PodResource := podResource
    NodeResource := nodeResource
    AllocateFrom := [] }

theorem GoMap.set_ne_nil {V : Type} (m : GoMap V) (k : String) (v : V) : m.set k v ≠ [] := by
  cases m with
  | nil => simp [GoMap.set]
  | cons q t =>
    obtain ⟨a, b⟩ := q
    simp only [GoMap.set]
    split <;> simp

theorem collectRequests_req_ne_nil (env : Env) (contReq : ContainerInfo) :
    ∀ (l : GoMap Int) (acc : GoMap String × GoMap Int × GoMap (Option ResourceScoreFunc)),
      (acc.2.1 ≠ [] ∨ ∃ kv ∈ l, env.PrecheckedResource kv.1 = false) →
      (collectRequests env contReq l acc).2.1 ≠ [] := by
  intro l
  induction l with
  | nil =>
    intro acc h
    rcases h with h | ⟨kv, hkv, -⟩
    · exact h
    · cases hkv
  | cons q t ih =>
    obtain ⟨k, v⟩ := q
    intro acc h
    obtain ⟨a1, a2, a3⟩ := acc
    simp only [collectRequests]
    by_cases hp : env.PrecheckedResource k = true
    · simp only [hp, Bool.not_true, Bool.false_eq_true, if_false]
      apply ih
      rcases h with h | ⟨kv, hkv, hkp⟩
      · exact Or.inl h
      · rcases List.mem_cons.1 hkv with e | e
        · rw [e] at hkp
          simp only at hkp
          rw [hp] at hkp
          cases hkp
        · exact Or.inr ⟨kv, e, hkp⟩
    · have hp' : env.PrecheckedResource k = false := by simpa using hp
      simp only [hp', Bool.not_false, if_true]
      apply ih
      exact Or.inl (GoMap.set_ne_nil _ _ _)

/-- Claim C20. Score-only mode: when a container already has a non-empty
`AllocateFrom` and has group requests, `containerFitsGroupConstraints` performs
no search: its result is the result of the one call of `findScoreAndUpdate`, at
the top-level location, on the group of the container with a copy of the
`AllocateFrom` of the container; the fit, the reasons, the score and the usage
are those of this call, and the container is returned unchanged, whatever
`bSetAllocateFrom` is. -/
theorem containerFits_score_only (env : Env) (contName : String) (contReq : ContainerInfo)
    (initContainer : Bool) (allocatable : GoMap Int) (allocScorer : GoMap ResourceScoreFunc)
    (podResource nodeResource : GoMap Int) (usedGroups : GoMap Bool)
    (bPreferUsed bSetAllocateFrom : Bool) (gp gn : String) (af : GoMap String)
    (hpre : matchPrefix env.DeviceGroupPrefix = some (gp, gn))
    (haf : contReq.AllocateFrom = some af) (hne : af ≠ [])
    (hreq : ∃ kv ∈ contReq.DevRequests, env.PrecheckedResource kv.1 = false) :
    containerFitsGroupConstraints env contName contReq initContainer allocatable allocScorer
        podResource nodeResource usedGroups bPreferUsed bSetAllocateFrom =
      match findScoreAndUpdate
          { topLevelGroup env contName contReq initContainer allocatable allocScorer
              podResource nodeResource usedGroups bPreferUsed gp gn with
            AllocateFrom := copyInto af [] } gn with
      | .error e => .error e
      | .ok (grp1, found, reasons) => .ok ⟨grp1, contReq, found, reasons, grp1.Score⟩ := by
  have hreq' := collectRequests_req_ne_nil env contReq contReq.DevRequests ([], [], [])
    (Or.inr hreq)
  unfold containerFitsGroupConstraints topLevelGroup
  generalize collectRequests env contReq contReq.DevRequests ([], [], []) = cr at hreq' ⊢
  obtain ⟨reqName, req, reqScorer⟩ := cr
  simp only at hreq' ⊢
  rw [hpre]
  simp only
  generalize collectAllocatable env gn allocatable ([], []) = ca
  obtain ⟨allocName, alloc⟩ := ca
  have hlen : ¬ af.length = 0 := fun e => hne (List.length_eq_zero.1 e)
  have hreqlen : req.length > 0 := List.length_pos.2 hreq'
  simp only [haf, hlen, decide_False, Bool.false_and, Bool.false_eq_true, if_false, hreqlen,
    if_true, Option.getD_some]

/-- The container of scenario S1 with its `AllocateFrom` already set. -/
def contS1Allocated : ContainerInfo :=
  ⟨[("r/grp/gpu/A/cards", 4)], some [("r/grp/gpu/A/cards", "r/grp/gpu/0/cards")], []⟩

set_option maxRecDepth 100000 in
theorem containerFits_score_only_witness :
    matchPrefix scenarioEnv.DeviceGroupPrefix = some ("r", "grp") ∧
    contS1Allocated.AllocateFrom = some [("r/grp/gpu/A/cards", "r/grp/gpu/0/cards")] ∧
    (∃ kv ∈ contS1Allocated.DevRequests, scenarioEnv.PrecheckedResource kv.1 = false) ∧
    (okValue (containerFitsGroupConstraints scenarioEnv "c" contS1Allocated false
      nodeS1.Allocatable (setScoreFunc scenarioEnv nodeS1) [] (initNodeResource nodeS1) []
      true true) ContainerFit.zero).score = 1 / 2 ∧
    containerFitsGroupConstraints scenarioEnv "c" contS1Allocated false nodeS1.Allocatable
        (setScoreFunc scenarioEnv nodeS1) [] (initNodeResource nodeS1) [] true true =
      match findScoreAndUpdate
          { topLevelGroup scenarioEnv "c" contS1Allocated false nodeS1.Allocatable
              (setScoreFunc scenarioEnv nodeS1) [] (initNodeResource nodeS1) [] true "r" "grp"
            with AllocateFrom := copyInto [("r/grp/gpu/A/cards", "r/grp/gpu/0/cards")] [] }
          "grp" with
      | .error e => .error e
      | .ok (grp1, found, reasons) =>
        .ok ⟨grp1, contS1Allocated, found, reasons, grp1.Score⟩ :=
  have hreq : ∃ kv ∈ contS1Allocated.DevRequests, scenarioEnv.PrecheckedResource kv.1 = false :=
    ⟨("r/grp/gpu/A/cards", 4), by decide, by decide!⟩
  ⟨by decide!, rfl, hreq, by decide!,
    containerFits_score_only scenarioEnv "c" contS1Allocated false nodeS1.Allocatable
      (setScoreFunc scenarioEnv nodeS1) [] (initNodeResource nodeS1) [] true true "r" "grp"
      [("r/grp/gpu/A/cards", "r/grp/gpu/0/cards")] (by decide!) rfl (by simp) hreq⟩

/-! ## The iteration orders and the result of the predicate -/

theorem keyLt_irrefl (a : String) : keyLt a a = false := ltChars_irrefl a.data

/-- Two ascending lists of keys with the same elements are equal. -/
theorem sorted_keys_unique : ∀ (l1 l2 : List String),
    List.Pairwise (fun a b => keyLt a b = true) l1 →
    List.Pairwise (fun a b => keyLt a b = true) l2 →
    (∀ x, x ∈ l1 ↔ x ∈ l2) → l1 = l2 := by
  intro l1
  induction l1 with
  | nil =>
    intro l2 _ _ h
    cases l2 with
    | nil => rfl
    | cons b t => exact absurd ((h b).2 (List.mem_cons_self _ _)) (by simp)
  | cons a s ih =>
    intro l2 h1 h2 h
    cases l2 with
    | nil => exact absurd ((h a).1 (List.mem_cons_self _ _)) (by simp)
    | cons b t =>
      obtain ⟨ha, hs⟩ := List.pairwise_cons.1 h1
      obtain ⟨hb, ht⟩ := List.pairwise_cons.1 h2
      have hab : a = b := by
        rcases List.mem_cons.1 ((h a).1 (List.mem_cons_self _ _)) with e | e
        · exact e
        · rcases List.mem_cons.1 ((h b).2 (List.mem_cons_self _ _)) with e2 | e2
          · exact e2.symm
          · have := keyLt_trans (hb a e) (ha b e2)
            rw [keyLt_irrefl] at this
            cases this
      subst hab
      congr 1
      apply ih t hs ht
      intro x
      constructor
      · intro hx
        rcases List.mem_cons.1 ((h x).1 (List.mem_cons_of_mem _ hx)) with e | e
        · rw [e] at hx
          have := ha a hx
          rw [keyLt_irrefl] at this
          cases this
        · exact e
      · intro hx
        rcases List.mem_cons.1 ((h x).2 (List.mem_cons_of_mem _ hx)) with e | e
        · rw [e] at hx
          have := hb a hx
          rw [keyLt_irrefl] at this
          cases this
        · exact e

/-- The sorted keys of a map do not depend on its iteration order. -/
theorem SortedStringKeys_of_perm {V : Type} (m m' : GoMap V) (h : List.Perm m m') :
    SortedStringKeys m = SortedStringKeys m' := by
  apply sorted_keys_unique _ _ (SortedStringKeys_pairwise m) (SortedStringKeys_pairwise m')
  intro x
  rw [mem_SortedStringKeys, mem_SortedStringKeys]
  exact (List.Perm.map Prod.fst h).mem_iff

/-- Two maps with the same lookups. -/
def SameMap {V : Type} (m m' : GoMap V) : Prop := ∀ k, m.get? k = m'.get? k

theorem SameMap.set {V : Type} {m m' : GoMap V} (h : SameMap m m') (k : String) (v : V) :
    SameMap (m.set k v) (m'.set k v) := by
  intro x
  rw [GoMap.get?_set, GoMap.get?_set, h x]

theorem SameMap.getD {V : Type} {m m' : GoMap V} (h : SameMap m m') (k : String) (d : V) :
    m.getD k d = m'.getD k d := by
  unfold GoMap.getD
  rw [h k]

/-- A map read in another iteration order has the same lookups. -/
theorem sameMap_of_perm {V : Type} (m m' : GoMap V) (hnd : m.keys.Nodup)
    (h : List.Perm m m') : SameMap m m' := by
  have hnd' : m'.keys.Nodup := (List.Perm.map Prod.fst h).nodup_iff.1 hnd
  intro k
  cases hg : m.get? k with
  | none =>
    cases hg' : m'.get? k with
    | none => rfl
    | some v =>
      have := GoMap.get?_of_mem m hnd k v (h.mem_iff.2 (GoMap.mem_of_get? hg'))
      rw [hg] at this
      cases this
  | some v =>
    exact (GoMap.get?_of_mem m' hnd' k v (h.mem_iff.1 (GoMap.mem_of_get? hg))).symm

/-- A container loop of `PodFitsGroupConstraints` on two states that differ in
the iteration order of the containers only: the loop returns on both, with the
same flag, reasons, score and usage, and with the same containers. -/
theorem podFitsLoop_sameMap (env : Env) (n : NodeInfo) (scorer : GoMap ResourceScoreFunc)
    (i a : Bool) :
    ∀ (names : List String) (st st' s1 : PodFitState),
      SameMap st.containers st'.containers →
      st'.podResource = st.podResource → st'.nodeResource = st.nodeResource →
      st'.usedGroups = st.usedGroups → st'.found = st.found →
      st'.predicateFails = st.predicateFails → st'.totalScore = st.totalScore →
      podFitsLoop env n scorer i a names st = .ok s1 →
      ∃ s1', podFitsLoop env n scorer i a names st' = .ok s1' ∧
        SameMap s1.containers s1'.containers ∧
        s1'.podResource = s1.podResource ∧ s1'.nodeResource = s1.nodeResource ∧
        s1'.usedGroups = s1.usedGroups ∧ s1'.found = s1.found ∧
        s1'.predicateFails = s1.predicateFails ∧ s1'.totalScore = s1.totalScore := by
  intro names
  induction names with
  | nil =>
    intro st st' s1 hc h1 h2 h3 h4 h5 h6 h
    simp only [podFitsLoop, Except.ok.injEq] at h
    subst h
    exact ⟨st', rfl, hc, h1, h2, h3, h4, h5, h6⟩
  | cons name rest ih =>
    intro st st' s1 hc h1 h2 h3 h4 h5 h6 h
    simp only [podFitsLoop] at h ⊢
    rw [← hc.getD name ContainerInfo.zero, h1, h2, h3]
    cases hr : containerFitsGroupConstraints env name
        (st.containers.getD name ContainerInfo.zero) i n.Allocatable scorer
        st.podResource st.nodeResource st.usedGroups true a with
    | error e =>
      rw [hr] at h
      exact absurd h (by simp)
    | ok r =>
      rw [hr] at h
      simp only at h ⊢
      have key := fun st2 hc2 e1 e2 e3 e4 e5 e6 => ih _ st2 s1 hc2 e1 e2 e3 e4 e5 e6 h
      exact key _ (hc.set name r.contReq) rfl rfl rfl (by simp only [h4]) (by simp only [h5])
        (by simp only [h6])


/-- The order in which map iteration visits the containers of the pod has no
influence: for identical node and pod inputs, `PodFitsGroupConstraints` returns
the same fits, the same score and the same reasons, leaves the same usage and
fills the same `AllocateFrom`, whatever this order. The containers are visited
in ascending name order, and the predicate returns on one order iff it returns
on the other. The scores are exact here, see `roundF64` for the sums of the
program. -/
theorem podFits_container_order (env : Env) (n : NodeInfo) (spec spec' : PodInfo)
    (allocating : Bool) (fit : PodFit)
    (hR : List.Perm spec.RunningContainers spec'.RunningContainers)
    (hI : List.Perm spec.InitContainers spec'.InitContainers)
    (hndR : spec.RunningContainers.keys.Nodup) (hndI : spec.InitContainers.keys.Nodup)
    (hrun : PodFitsGroupConstraints env n spec allocating = .ok fit) :
    ∃ fit', PodFitsGroupConstraints env n spec' allocating = .ok fit' ∧
      fit'.found = fit.found ∧ fit'.totalScore = fit.totalScore ∧
      fit'.predicateFails = fit.predicateFails ∧
      fit'.podResource = fit.podResource ∧ fit'.nodeResource = fit.nodeResource ∧
      fit'.usedGroups = fit.usedGroups ∧
      SameMap fit.spec.RunningContainers fit'.spec.RunningContainers ∧
      SameMap fit.spec.InitContainers fit'.spec.InitContainers := by
  unfold PodFitsGroupConstraints at hrun ⊢
  simp only at hrun ⊢
  rw [← SortedStringKeys_of_perm _ _ hR, ← SortedStringKeys_of_perm _ _ hI]
  cases h1 : podFitsLoop env n (setScoreFunc env n) false allocating
      (SortedStringKeys spec.RunningContainers)
      ⟨spec.RunningContainers, [], initNodeResource n, [], true, [], 0⟩ with
  | error e =>
    rw [h1] at hrun
    exact absurd hrun (by simp)
  | ok st1 =>
    rw [h1] at hrun
    simp only at hrun
    have key1 := fun st' hc e1 e2 e3 e4 e5 e6 =>
      podFitsLoop_sameMap env n _ false allocating _ _ st' st1 hc e1 e2 e3 e4 e5 e6 h1
    obtain ⟨st1', g1, c1, a1, a2, a3, a4, a5, a6⟩ :=
      key1 ⟨spec'.RunningContainers, [], initNodeResource n, [], true, [], 0⟩
        (sameMap_of_perm _ _ hndR hR) rfl rfl rfl rfl rfl rfl
    rw [g1]
    simp only
    cases h2 : podFitsLoop env n (setScoreFunc env n) true allocating
        (SortedStringKeys spec.InitContainers)
        ⟨spec.InitContainers, st1.podResource, st1.nodeResource, st1.usedGroups,
          st1.found, st1.predicateFails, st1.totalScore⟩ with
    | error e =>
      rw [h2] at hrun
      exact absurd hrun (by simp)
    | ok st2 =>
      rw [h2] at hrun
      simp only [Except.ok.injEq] at hrun
      subst hrun
      have key2 := fun st' hc e1 e2 e3 e4 e5 e6 =>
        podFitsLoop_sameMap env n _ true allocating _ _ st' st2 hc e1 e2 e3 e4 e5 e6 h2
      obtain ⟨st2', g2, c2, b1, b2, b3, b4, b5, b6⟩ :=
        key2 ⟨spec'.InitContainers, st1'.podResource, st1'.nodeResource, st1'.usedGroups,
          st1'.found, st1'.predicateFails, st1'.totalScore⟩
          (sameMap_of_perm _ _ hndI hI) a1 a2 a3 a4 a5 a6
      rw [g2]
      exact ⟨_, rfl, b4, b6, b5, b1, b2, b3, c1, c2⟩

/-- The pod `podC12` with its running containers visited in the other order. -/
def podC12Swapped : PodInfo :=
  ⟨[("b", ⟨[("r/grp/gpu/A/cards", 8)], none, []⟩),
    ("a", ⟨[("r/grp/gpu/A/cards", 4)], none, []⟩)], []⟩

set_option maxRecDepth 100000 in
theorem podFits_container_order_witness :
    List.Perm podC12.RunningContainers podC12Swapped.RunningContainers ∧
    List.Perm podC12.InitContainers podC12Swapped.InitContainers ∧
    podC12.RunningContainers.keys.Nodup ∧ podC12.InitContainers.keys.Nodup ∧
    ∃ fit', PodFitsGroupConstraints scenarioEnv nodeS1 podC12Swapped true = .ok fit' ∧
      fit'.found = (okValue (PodFitsGroupConstraints scenarioEnv nodeS1 podC12 true)
        PodFit.zero).found ∧
      fit'.totalScore = (okValue (PodFitsGroupConstraints scenarioEnv nodeS1 podC12 true)
        PodFit.zero).totalScore ∧
      fit'.predicateFails = (okValue (PodFitsGroupConstraints scenarioEnv nodeS1 podC12 true)
        PodFit.zero).predicateFails ∧
      fit'.podResource = (okValue (PodFitsGroupConstraints scenarioEnv nodeS1 podC12 true)
        PodFit.zero).podResource ∧
      fit'.nodeResource = (okValue (PodFitsGroupConstraints scenarioEnv nodeS1 podC12 true)
        PodFit.zero).nodeResource ∧
      fit'.usedGroups = (okValue (PodFitsGroupConstraints scenarioEnv nodeS1 podC12 true)
        PodFit.zero).usedGroups ∧
      SameMap (okValue (PodFitsGroupConstraints scenarioEnv nodeS1 podC12 true)
        PodFit.zero).spec.RunningContainers fit'.spec.RunningContainers ∧
      SameMap (okValue (PodFitsGroupConstraints scenarioEnv nodeS1 podC12 true)
        PodFit.zero).spec.InitContainers fit'.spec.InitContainers :=
  ⟨List.Perm.swap _ _ _, List.Perm.refl _, by decide, by decide,
    podFits_container_order scenarioEnv nodeS1 podC12 podC12Swapped true _
      (List.Perm.swap _ _ _) (List.Perm.refl _) (by decide) (by decide)
      (eq_ok_okValue _ PodFit.zero (by decide!))⟩

/-! ## A requirement that its one candidate location refuses -/

theorem SortedStringKeys_singleton {V : Type} (k : String) (v : V) :
    SortedStringKeys [(k, v)] = [k] := rfl

theorem findSubGroups_singleton_sub (base k r g i t : String)
    (h : matchSubGroup base r = some (g, i, t)) :
    findSubGroups base [(k, r)] = ([(g, [(i, [(t, r)])])], [(k, true)]) := by
  simp only [findSubGroups, findSubGroupsLoop, h, AssignMap3, AssignMap2, GoMap.set,
    GoMap.getD, GoMap.get?, Option.getD_none]

theorem findSubGroups_singleton_leaf (base k r : String)
    (h : matchSubGroup base r = none) :
    findSubGroups base [(k, r)] = ([], [(k, false)]) := by
  simp only [findSubGroups, findSubGroupsLoop, h, GoMap.set]

/-- A search with one candidate location that is infeasible returns false with
the reasons of the candidate. -/
theorem allocateGroupBody_single_fail (allocGroup : GrpAllocator → AllocResult)
    (grp : GrpAllocator) (l0 : String) (locRes : GoMap String)
    (g1 : GrpAllocator) (rs : List PredicateFailureReason)
    (hne : grp.GrpRequiredResource.length ≠ 0)
    (hA : grp.GrpAllocResource = [(l0, locRes)])
    (hat : allocateGroupAt allocGroup
      { grp with IsReqSubGrp := (findSubGroups grp.ReqBaseGroupName grp.GrpRequiredResource).2 }
      l0 (findSubGroups grp.ReqBaseGroupName grp.GrpRequiredResource).1 = .ok (g1, false, rs)) :
    ∃ grp', allocateGroupBody allocGroup grp = .ok (grp', false, rs) := by
  unfold allocateGroupBody
  rw [if_neg hne]
  simp only [hA, SortedStringKeys_singleton, allocateGroupLoop, cloneGroup]
  rw [hA] at hat
  rw [hat]
  simp only [Bool.false_and, Bool.false_eq_true, if_false, List.length_singleton, if_true,
    List.nil_append]
  exact ⟨_, rfl⟩


/-- The location `l0` is infeasible for a group whose one requirement `r` is a
leaf with the counterpart key `a`, when the scorer refuses the request. -/
theorem allocateGroupAt_leaf_refused (allocGroup : GrpAllocator → AllocResult)
    (grp : GrpAllocator) (l0 k r a : String) (sc : ResourceScoreFunc)
    (hR : grp.GrpRequiredResource = [(k, r)]) (hS : grp.IsReqSubGrp = [(k, false)])
    (hA : grp.GrpAllocResource = [(l0, [(k, a)])])
    (hsc : grp.ReqScorer.getD r none = some sc ∨
      (grp.ReqScorer.getD r none = none ∧ grp.AllocScorer.get? a = some sc))
    (href : (sc (grp.AllocResource.getD a 0) (grp.PodResource.getD a 0)
      (grp.NodeResource.getD a 0) [grp.RequiredResource.getD r 0] grp.InitContainer).found
        = false) :
    ∃ g1, allocateGroupAt allocGroup grp l0 [] = .ok (g1, false,
      [NewInsufficientResourceError (grp.ContName ++ "/" ++ r) (grp.RequiredResource.getD r 0)
        (grp.NodeResource.getD a 0) (grp.AllocResource.getD a 0)]) := by
  unfold allocateGroupAt
  simp only [cloneGroup, resourceAvailable, hR, hA, hS, resourceAvailableLoop, GoMap.getD,
    GoMap.get?, if_true, Option.getD_some, Bool.not_false]
  simp only [GoMap.getD] at hsc href
  rcases hsc with h1 | ⟨h1, h2⟩
  · rw [h1]
    simp only [href, Bool.not_false, if_true, allocateSubGroups, SortedStringKeys, GoMap.keys,
      List.map_nil, List.foldr_nil, allocateSubGroupsOuter, Bool.false_and, Bool.false_eq_true,
      if_false, List.nil_append, List.append_nil]
    exact ⟨_, rfl⟩
  · rw [h1]
    simp only [h2, href, Bool.not_false, if_true, allocateSubGroups, SortedStringKeys,
      GoMap.keys, List.map_nil, List.foldr_nil, allocateSubGroupsOuter, Bool.false_and,
      Bool.false_eq_true, if_false, List.nil_append, List.append_nil]
    exact ⟨_, rfl⟩

/-- The location `l0` is infeasible for a group whose one requirement `r` is in
the subgroup `g/i`, when the search of the subgroup fails: the reasons are the
aggregate reason of the subgroup and the reasons of its search. -/
theorem allocateGroupAt_sub_refused (allocGroup : GrpAllocator → AllocResult)
    (grp : GrpAllocator) (l0 k r k' a g i t l t' : String)
    (gN : GrpAllocator) (rsN : List PredicateFailureReason)
    (hR : grp.GrpRequiredResource = [(k, r)]) (hS : grp.IsReqSubGrp = [(k, true)])
    (hA : grp.GrpAllocResource = [(l0, [(k', a)])])
    (hm : matchSubGroup (grp.AllocBaseGroupPrefix ++ "/" ++ l0) a = some (g, l, t'))
    (hN : allocGroup (createSubGroup { grp with IsAllocSubGrp := [(k', true)] } l0
      [(g, [(i, [(t, r)])])] [(g, [(l, [(t', a)])])] g i) = .ok (gN, false, rsN)) :
    ∃ g1, allocateGroupAt allocGroup grp l0 [(g, [(i, [(t, r)])])] = .ok (g1, false,
      NewInsufficientResourceError (grp.ContName ++ "/" ++
        (grp.ReqBaseGroupName ++ "/" ++ g ++ "/" ++ i)) 0 0 0 :: rsN) := by
  unfold allocateGroupAt
  have hloc : grp.GrpAllocResource.getD l0 [] = [(k', a)] := by
    rw [hA]; simp [GoMap.getD, GoMap.get?]
  simp only [hloc, findSubGroups_singleton_sub _ k' a g l t' hm, cloneGroup, resourceAvailable]
  have hra : resourceAvailableLoop [(k', a)] grp.GrpRequiredResource
      { grp with IsAllocSubGrp := [(k', true)] } true [] =
      .ok ({ grp with IsAllocSubGrp := [(k', true)] }, true, []) := by
    rw [hR]
    simp only [resourceAvailableLoop, hS, GoMap.getD, GoMap.get?, if_true, Option.getD_some,
      Bool.not_true, Bool.false_eq_true, if_false]
  rw [hra]
  simp only [allocateSubGroups, SortedStringKeys_singleton, allocateSubGroupsOuter,
    allocateSubGroupsInner]
  have hgi : SortedStringKeys (GoMap.getD [(g, [(i, [(t, r)])])] g []) = [i] := by
    simp [GoMap.getD, GoMap.get?, SortedStringKeys_singleton]
  rw [hgi]
  simp only [allocateSubGroupsInner, hN, Bool.not_false, if_true, List.nil_append,
    Bool.true_and, Bool.false_eq_true, if_false, Bool.and_false]
  refine ⟨{ grp with IsAllocSubGrp := [(k', true)], UsedGroups := gN.UsedGroups }, ?_⟩
  simp [createSubGroup]

/-- The subgroups that enclose the requirement `r`, when `r` and the allocatable
key `a` follow the same group names from the bases `rb` and `ap/l0` down to a
leaf with the same name: at each level the requirement is the one requirement
of its group and the location of `a` is the one candidate location. The result
lists the base names of the enclosing subgroups, the outermost first; `none`
when the keys do not match in this way within the depth `N`. -/
def singleChain : Nat → String → String → String → String → String → String → String →
    Option (List String)
  | 0, _, _, _, _, _, _, _ => none
  | N + 1, rb, ap, l0, k, r, k', a =>
    match matchSubGroup rb r with
    | none => if k' = k then some [] else none
    | some (g, i, t) =>
      match matchSubGroup (ap ++ "/" ++ l0) a with
      | some (g', l, t') =>
        if g' = g then
          (singleChain N (rb ++ "/" ++ g ++ "/" ++ i) (ap ++ "/" ++ l0 ++ "/" ++ g) l t r t' a).map
            (fun aggs => (rb ++ "/" ++ g ++ "/" ++ i) :: aggs)
        else none
      | none => none

/-- The search of a group whose one requirement has one candidate location at
every level, and whose scorer refuses the request at the leaf: it returns false
with one aggregate reason for each enclosing subgroup, followed by the reason of
the leaf. -/
theorem allocateGroup_single_chain (sc : ResourceScoreFunc) (r a : String) (m : Nat) :
    ∀ (N : Nat) (grp : GrpAllocator) (rb ap l0 k k' : String) (aggs : List String),
      grp.GrpRequiredResource = [(k, r)] → grp.GrpAllocResource = [(l0, [(k', a)])] →
      grp.ReqBaseGroupName = rb → grp.AllocBaseGroupPrefix = ap →
      singleChain N rb ap l0 k r k' a = some aggs →
      (grp.ReqScorer.getD r none = some sc ∨
        (grp.ReqScorer.getD r none = none ∧ grp.AllocScorer.get? a = some sc)) →
      (sc (grp.AllocResource.getD a 0) (grp.PodResource.getD a 0)
        (grp.NodeResource.getD a 0) [grp.RequiredResource.getD r 0] grp.InitContainer).found
          = false →
      ∃ grp', allocateGroup (N + m) grp = .ok (grp', false,
        aggs.map (fun b => NewInsufficientResourceError (grp.ContName ++ "/" ++ b) 0 0 0) ++
          [NewInsufficientResourceError (grp.ContName ++ "/" ++ r)
            (grp.RequiredResource.getD r 0) (grp.NodeResource.getD a 0)
            (grp.AllocResource.getD a 0)]) := by
  intro N
  induction N with
  | zero =>
    intro grp rb ap l0 k k' aggs _ _ _ _ hch
    simp [singleChain] at hch
  | succ N ih =>
    intro grp rb ap l0 k k' aggs hR hA hrb hap hch hsc href
    have hfuel : N + 1 + m = (N + m) + 1 := by omega
    rw [hfuel]
    simp only [allocateGroup]
    have hne : grp.GrpRequiredResource.length ≠ 0 := by rw [hR]; simp
    unfold singleChain at hch
    cases hm : matchSubGroup rb r with
    | none =>
      rw [hm] at hch
      simp only at hch
      by_cases hk : k' = k
      swap
      · rw [if_neg hk] at hch
        cases hch
      · rw [if_pos hk] at hch
        simp only [Option.some.injEq] at hch
        subst hch
        subst hk
        have hfs : findSubGroups grp.ReqBaseGroupName grp.GrpRequiredResource =
            ([], [(k', false)]) := by
          rw [hR, hrb]
          exact findSubGroups_singleton_leaf rb k' r hm
        obtain ⟨g1, hat⟩ := allocateGroupAt_leaf_refused (allocateGroup (N + m))
          { grp with IsReqSubGrp := [(k', false)] } l0 k' r a sc hR rfl hA hsc href
        simp only [List.map_nil, List.nil_append]
        apply allocateGroupBody_single_fail _ grp l0 [(k', a)] g1 _ hne hA
        rw [hfs]
        exact hat
    | some v =>
      obtain ⟨g, i, t⟩ := v
      rw [hm] at hch
      simp only at hch
      cases hm2 : matchSubGroup (ap ++ "/" ++ l0) a with
      | none =>
        rw [hm2] at hch
        cases hch
      | some w =>
        obtain ⟨g', l, t'⟩ := w
        rw [hm2] at hch
        simp only at hch
        by_cases hg : g' = g
        swap
        · rw [if_neg hg] at hch
          cases hch
        · rw [if_pos hg] at hch
          subst hg
          cases hn : singleChain N (rb ++ "/" ++ g' ++ "/" ++ i) (ap ++ "/" ++ l0 ++ "/" ++ g')
              l t r t' a with
          | none =>
            rw [hn] at hch
            cases hch
          | some aggs1 =>
            rw [hn] at hch
            simp only [Option.map_some', Option.some.injEq] at hch
            subst hch
            have hfs : findSubGroups grp.ReqBaseGroupName grp.GrpRequiredResource =
                ([(g', [(i, [(t, r)])])], [(k, true)]) := by
              rw [hR, hrb]
              exact findSubGroups_singleton_sub rb k r g' i t hm
            obtain ⟨gN, hN⟩ := ih
              (createSubGroup { grp with IsReqSubGrp := [(k, true)], IsAllocSubGrp := [(k', true)] }
                l0 [(g', [(i, [(t, r)])])] [(g', [(l, [(t', a)])])] g' i)
              (rb ++ "/" ++ g' ++ "/" ++ i) (ap ++ "/" ++ l0 ++ "/" ++ g') l t t' aggs1
              (by simp [createSubGroup, GoMap.getD, GoMap.get?])
              (by simp [createSubGroup, GoMap.getD, GoMap.get?])
              (by simp [createSubGroup, hrb])
              (by simp [createSubGroup, hap])
              hn (by simpa [createSubGroup] using hsc) (by simpa [createSubGroup] using href)
            obtain ⟨g1, hat⟩ := allocateGroupAt_sub_refused (allocateGroup (N + m))
              { grp with IsReqSubGrp := [(k, true)] } l0 k r k' a g' i t l t' gN _ hR rfl hA
              (by simp only [hap]; exact hm2) hN
            have hres := allocateGroupBody_single_fail (allocateGroup (N + m)) grp l0 [(k', a)]
              g1 _ hne hA (by rw [hfs]; exact hat)
            obtain ⟨grp', hgrp'⟩ := hres
            refine ⟨grp', ?_⟩
            rw [hgrp']
            simp [createSubGroup, hrb]


/-- The rule of section 4.1 for a running container: the new node usage is the
node usage plus the sum of the requests, and a request is admitted only if the
new node usage is within the capacity. -/
def ObeysRunningRule (f : ResourceScoreFunc) : Prop :=
  ∀ c p u L, (f c p u L false).nodeR = u + L.sum ∧
    ((f c p u L false).found = true → (f c p u L false).nodeR ≤ c)

/-- A scorer that obeys the contract of section 4.1 follows its running rule. -/
theorem runningRule_of_contract (f : ResourceScoreFunc) (h : ObeysContract f) :
    ObeysRunningRule f := by
  intro c p u L
  obtain ⟨-, c2, c3⟩ := h c p u L false
  exact ⟨by simpa using c2, c3⟩

/-- A scorer of scenario S4 follows the running rule of section 4.1. -/
theorem runningRule_of_peak (f : ResourceScoreFunc) (h : ObeysPeakContract f) :
    ObeysRunningRule f := by
  intro c p u L
  obtain ⟨c1, c2, c3⟩ := h c p u L false
  refine ⟨?_, c3⟩
  rw [c2, c1]
  simp

/-- The call of `containerFitsGroupConstraints` for a container with the one
request `q` of `r`, on a node whose one allocatable key `a` has the capacity
`cap < q` and no usage, when `r` and `a` match as a chain of single candidates. -/
theorem containerFits_single_refused (env : Env) (n : NodeInfo) (cname : String)
    (cont : ContainerInfo) (r a gp gn : String) (q cap : Int) (aggs : List String)
    (bSet : Bool)
    (hD : cont.DevRequests = [(r, q)]) (hAF : cont.AllocateFrom = none)
    (hN : n.Allocatable = [(a, cap)])
    (hpr : env.PrecheckedResource r = false) (hpa : env.PrecheckedResource a = false)
    (hpre : matchPrefix env.DeviceGroupPrefix = some (gp, gn))
    (hch : singleChain (r.length + 1) env.DeviceGroupPrefix gp gn r r a a = some aggs)
    (hc : ∀ k sel, ObeysRunningRule (env.SetScorer k sel))
    (hlt : cap < q) :
    ∃ res, containerFitsGroupConstraints env cname cont false n.Allocatable
        (setScoreFunc env n) [] [] [] true bSet = .ok res ∧
      res.found = false ∧
      res.reasons = aggs.map (fun b => NewInsufficientResourceError (cname ++ "/" ++ b) 0 0 0) ++
        [NewInsufficientResourceError (cname ++ "/" ++ r) q 0 cap] := by
  have hrefuse : ∀ k sel, (env.SetScorer k sel cap 0 0 [q] false).found = false := by
    intro k sel
    obtain ⟨c2, c3⟩ := hc k sel cap 0 0 [q]
    cases hf : (env.SetScorer k sel cap 0 0 [q] false).found with
    | false => rfl
    | true =>
      have := c3 hf
      rw [c2] at this
      simp at this
      omega
  obtain ⟨rs, hcr, hrs⟩ : ∃ rs : Option ResourceScoreFunc,
      collectRequests env cont cont.DevRequests ([], [], []) =
        ([(r, r)], [(r, q)], [(r, rs)]) ∧
      ∀ f, rs = some f → ∃ e, f = env.SetScorer r e := by
    rw [hD]
    cases hs : cont.Scorer.get? r with
    | some e =>
      refine ⟨some (env.SetScorer r e), ?_, fun f hf => ⟨e, (Option.some.inj hf).symm⟩⟩
      simp only [collectRequests, hpr, hs, Bool.not_false, if_true, GoMap.set]
    | none =>
      refine ⟨none, ?_, fun f hf => by cases hf⟩
      simp only [collectRequests, hpr, hs, Bool.not_false, if_true, GoMap.set]
  have hca : collectAllocatable env gn n.Allocatable ([], []) =
      ([(gn, [(a, a)])], [(a, cap)]) := by
    rw [hN]
    simp only [collectAllocatable, hpa, Bool.not_false, if_true, AssignMap2, GoMap.set,
      GoMap.getD, GoMap.get?, Option.getD_none]
  have hsf : setScoreFunc env n = [(a, env.SetScorer a (n.Scorer.getD a 0))] := by
    unfold setScoreFunc
    rw [hN]
    simp only [setScoreFuncLoop, GoMap.set]
  unfold containerFitsGroupConstraints
  rw [hcr]
  simp only [hpre, hca, hAF, if_true]
  obtain ⟨sc, hsc, href⟩ : ∃ sc : ResourceScoreFunc,
      ((GoMap.getD [(r, rs)] r none = some sc) ∨
        (GoMap.getD [(r, rs)] r none = none ∧ (setScoreFunc env n).get? a = some sc)) ∧
      (sc cap 0 0 [q] false).found = false := by
    cases rs with
    | some f =>
      obtain ⟨e, he⟩ := hrs f rfl
      exact ⟨f, Or.inl (by simp [GoMap.getD, GoMap.get?]), by rw [he]; exact hrefuse _ _⟩
    | none =>
      refine ⟨env.SetScorer a (n.Scorer.getD a 0), Or.inr ⟨by simp [GoMap.getD, GoMap.get?], ?_⟩,
        hrefuse _ _⟩
      rw [hsf]
      simp [GoMap.get?]
  have hfuel : searchFuel [(r, r)] = (r.length + 1) + 0 := by
    simp [searchFuel]
  rw [hfuel]
  obtain ⟨grp', hag⟩ := allocateGroup_single_chain sc r a 0 (r.length + 1)
    { ContName := cname
      InitContainer := false
      PreferUsed := true
      RequiredResource := [(r, q)]
      ReqScorer := [(r, rs)]
      AllocResource := [(a, cap)]
      AllocScorer := setScoreFunc env n
      UsedGroups := []
      GrpRequiredResource := [(r, r)]
      IsReqSubGrp := []
      GrpAllocResource := [(gn, [(a, a)])]
      IsAllocSubGrp := []
      ReqBaseGroupName := env.DeviceGroupPrefix
      AllocBaseGroupPrefix := gp
      Score := 0
      PodResource := []
      NodeResource := []
      AllocateFrom := [] }
    env.DeviceGroupPrefix gp gn r a aggs rfl rfl rfl rfl hch hsc
    (by simpa [GoMap.getD, GoMap.get?] using href)
  rw [hag]
  simp [GoMap.getD, GoMap.get?]


/-- A node with one gpu of 4 cards. -/
def nodeS3 : NodeInfo := ⟨[("r/grp/gpu/0/cards", 4)], [], []⟩

/-- The pod of scenario S3: one container that requests 8 cards of the gpu group
`A`. -/
def podS3 : PodInfo := ⟨[("c", ⟨[("r/grp/gpu/A/cards", 8)], none, []⟩)], []⟩

/-- The report of an insufficient capacity by the predicate over bases that
match themselves: for a single-container pod whose only requirement `r`
(request `q`) has a single candidate location at every level, whose counterpart
key `a` has a capacity `cap < q` and no prior usage, with scorers that follow
the running rule of section 4.1, the predicate returns `fits = false` and its
reason list consists of one aggregate reason (requested 0, used 0, capacity 0)
for each subgroup that encloses the requirement, the outermost first, followed
by one `InsufficientResource` reason carrying `requested = q`, `used = 0`,
`capacity = cap`. The subgroups are those of `singleChain`, read to the depth
that `searchFuel` gives to the search. -/
theorem podFitsLit_insufficient_capacity (env : Env) (n : NodeInfo) (cname : String)
    (cont : ContainerInfo) (r a gp gn : String) (q cap : Int) (aggs : List String)
    (allocating : Bool)
    (hD : cont.DevRequests = [(r, q)]) (hAF : cont.AllocateFrom = none)
    (hN : n.Allocatable = [(a, cap)]) (hU : n.Used = [])
    (hpr : env.PrecheckedResource r = false) (hpa : env.PrecheckedResource a = false)
    (hpre : matchPrefix env.DeviceGroupPrefix = some (gp, gn))
    (hch : singleChain (r.length + 1) env.DeviceGroupPrefix gp gn r r a a = some aggs)
    (hc : ∀ k sel, ObeysRunningRule (env.SetScorer k sel))
    (hlt : cap < q) :
    ∃ fit, PodFitsGroupConstraints env n ⟨[(cname, cont)], []⟩ allocating = .ok fit ∧
      fit.found = false ∧
      fit.predicateFails =
        aggs.map (fun b => NewInsufficientResourceError (cname ++ "/" ++ b) 0 0 0) ++
          [NewInsufficientResourceError (cname ++ "/" ++ r) q 0 cap] := by
  obtain ⟨res, hres, hf, hrs⟩ := containerFits_single_refused env n cname cont r a gp gn q cap
    aggs allocating hD hAF hN hpr hpa hpre hch hc hlt
  have hinit : initNodeResource n = [] := by
    unfold initNodeResource
    rw [hU]
    rfl
  have hget : GoMap.getD [(cname, cont)] cname ContainerInfo.zero = cont := by
    simp [GoMap.getD, GoMap.get?]
  unfold PodFitsGroupConstraints
  simp only [SortedStringKeys_singleton, podFitsLoop, hinit, hget, hres]
  refine ⟨_, rfl, ?_, ?_⟩
  · simp [SortedStringKeys, GoMap.keys, podFitsLoop, hf]
  · simp [SortedStringKeys, GoMap.keys, podFitsLoop, hf, hrs]

/-! ## The usage that ComputePodGroupResources adds -/

/-- A pod whose container holds, under the prechecked requirement key `cpu`, an
entry of `AllocateFrom` that points at a group resource of the node. -/
def podC21 : PodInfo :=
  ⟨[("c", ⟨[("cpu", 2)], some [("cpu", "r/grp/gpu/0/cards")], []⟩)], []⟩

/-- Claim C21, as stated, fails: the sum of `DevRequests[r]` over all the
entries `(r -> k)` of `AllocateFrom` counts the entries under prechecked
requirement keys, which `updateGroupResourceForContainer` skips. For the pod
`podC21` the sum over all entries that point at `r/grp/gpu/0/cards` is 2, and
`ComputePodGroupResources` returns an empty `podResources`. -/
theorem compute_add_skips_prechecked :
    scenarioEnv.PrecheckedResource "cpu" = true ∧
    (podC21.RunningContainers.map (fun nc =>
      (((nc.2.AllocateFrom.getD []).filter
        (fun ea => decide (ea.2 = "r/grp/gpu/0/cards"))).map
        (fun ea => nc.2.DevRequests.getD ea.1 0)).sum)).sum = 2 ∧
    (ComputePodGroupResources scenarioEnv nodeS1 podC21 false).1.getD "r/grp/gpu/0/cards" 0 = 0 ∧
    ComputePodGroupResources scenarioEnv nodeS1 podC21 false = ([], []) := by
  decide

/-- Claim C21, as amended. With scorers that obey the contract of section 4.1
and a pod with only running containers, `ComputePodGroupResources(node, pod,
false)` returns, for every key `k`, `podResources[k]` = the sum of
`DevRequests[r]` over the entries `(r -> k)` of the containers' `AllocateFrom`
whose requirement `r` is not prechecked, and `updatedUsedByNode[k] =
node.Used[k] + podResources[k]`, which is `node.Used[k]` when no such entry
points at `k`. For every pod the result is the replay of the init containers,
in init mode, on the result for the running containers alone, and an init
container with one entry `v` on `k` takes `max(podResources[k], v)` and
`max(updatedUsedByNode[k], podResources[k] + v)` instead of adding. -/
theorem compute_add_usage (env : Env) (n : NodeInfo) (spec : PodInfo)
    (hc : ∀ k sel, ObeysContract (env.SetScorer k sel)) (hU : n.Used.keys.Nodup) :
    (spec.InitContainers = [] → ∀ k,
      (ComputePodGroupResources env n spec false).1.getD k 0 =
        (spec.RunningContainers.map (fun nc => takeTotal env nc.2 k)).sum ∧
      (ComputePodGroupResources env n spec false).2.getD k 0 =
        n.Used.getD k 0 + (ComputePodGroupResources env n spec false).1.getD k 0 ∧
      ((∀ nc ∈ spec.RunningContainers,
          entryVals env nc.2 (nc.2.AllocateFrom.getD []) k = []) →
        (ComputePodGroupResources env n spec false).2.getD k 0 = n.Used.getD k 0)) ∧
    ComputePodGroupResources env n spec false =
      updateContainers env n true spec.InitContainers
        (ComputePodGroupResources env n ⟨spec.RunningContainers, []⟩ false) ∧
    (∀ (cont : ContainerInfo) (P N : GoMap Int) (k : String) (v : Int),
      entryVals env cont (cont.AllocateFrom.getD []) k = [v] →
      (updateGroupResourceForContainer env n cont true P N).1.getD k 0 = max (P.getD k 0) v ∧
      (updateGroupResourceForContainer env n cont true P N).2.getD k 0 =
        max (N.getD k 0) (P.getD k 0 + v)) := by
  refine ⟨?_, ?_, ?_⟩
  · intro hI k
    obtain ⟨g1, g2⟩ := updateContainers_running env n hc k spec.RunningContainers
      ([], copyInto n.Used [])
    have e : ComputePodGroupResources env n spec false =
        updateContainers env n false spec.RunningContainers ([], copyInto n.Used []) := by
      unfold ComputePodGroupResources
      simp only [Bool.false_eq_true, if_false, hI, updateContainers]
    rw [e, g1, g2, getD_copyInto_nil _ _ hU]
    have z : GoMap.getD ([] : GoMap Int) k 0 = 0 := rfl
    simp only [z, zero_add]
    refine ⟨trivial, trivial, ?_⟩
    intro h0
    have hz : (spec.RunningContainers.map (fun nc => takeTotal env nc.2 k)).sum = 0 := by
      apply List.sum_eq_zero
      intro x hx
      obtain ⟨nc, hnc, rfl⟩ := List.mem_map.1 hx
      simp only [takeTotal, h0 nc hnc, List.sum_nil]
    rw [hz, add_zero]
  · unfold ComputePodGroupResources
    simp only [Bool.false_eq_true, if_false, updateContainers]
  · intro cont P N k v hv
    unfold updateGroupResourceForContainer
    exact updateLoop_init_single env n cont hc k v _ (P, N) hv

theorem compute_add_usage_witness :
    (∀ k sel, ObeysContract (scenarioEnv.SetScorer k sel)) ∧ nodeS1.Used.keys.Nodup ∧
    podS1Allocated.InitContainers = [] ∧
    ComputePodGroupResources scenarioEnv nodeS1 podS1Allocated false =
      ([("r/grp/gpu/0/cards", 4)], [("r/grp/gpu/0/cards", 4)]) ∧
    (∀ k,
      (ComputePodGroupResources scenarioEnv nodeS1 podS1Allocated false).1.getD k 0 =
        (podS1Allocated.RunningContainers.map (fun nc => takeTotal scenarioEnv nc.2 k)).sum ∧
      (ComputePodGroupResources scenarioEnv nodeS1 podS1Allocated false).2.getD k 0 =
        nodeS1.Used.getD k 0 +
          (ComputePodGroupResources scenarioEnv nodeS1 podS1Allocated false).1.getD k 0 ∧
      ((∀ nc ∈ podS1Allocated.RunningContainers,
          entryVals scenarioEnv nc.2 (nc.2.AllocateFrom.getD []) k = []) →
        (ComputePodGroupResources scenarioEnv nodeS1 podS1Allocated false).2.getD k 0 =
          nodeS1.Used.getD k 0)) :=
  ⟨scenario_contract, by decide, rfl, by decide,
    (compute_add_usage scenarioEnv nodeS1 podS1Allocated scenario_contract (by decide)).1 rfl⟩

/-! ## The usage that ComputePodGroupResources releases -/

/-- The removal loop writes, at every key of the pod usage, the node usage
returned by the release call; every other key keeps its entry. -/
theorem removePodLoop_get? (env : Env) (n : NodeInfo) :
    ∀ (P N : GoMap Int), P.keys.Nodup → ∀ x,
      (removePodLoop env n P N).get? x =
        if x ∈ P.keys then
          some (env.SetScorer x (n.Scorer.getD x 0) 0 0 (n.Used.getD x 0)
            [negInt64 (P.getD x 0)] false).nodeR
        else N.get? x := by
  intro P
  induction P with
  | nil => intro N _ x; simp [removePodLoop, GoMap.keys]
  | cons q t ih =>
    obtain ⟨k, p⟩ := q
    intro N hP x
    simp only [GoMap.keys, List.map_cons, List.nodup_cons] at hP
    simp only [removePodLoop]
    rw [ih _ hP.2 x]
    simp only [GoMap.keys, List.map_cons, List.mem_cons]
    by_cases e : x = k
    · subst e
      have hxt : x ∉ List.map Prod.fst t := hP.1
      simp only [hxt, if_false, true_or, if_true]
      rw [GoMap.get?_set]
      simp [GoMap.getD, GoMap.get?]
    · have e' : ¬ k = x := fun h => e h.symm
      simp only [e, false_or]
      rw [GoMap.get?_set]
      simp only [e', if_false]
      have : GoMap.getD ((k, p) :: t) x 0 = GoMap.getD t x 0 := by
        simp [GoMap.getD, GoMap.get?, e']
      rw [this]

theorem compute_nodup (env : Env) (n : NodeInfo) (spec : PodInfo) :
    (updateContainers env n true spec.InitContainers
      (updateContainers env n false spec.RunningContainers ([], copyInto n.Used []))).1.keys.Nodup ∧
    (updateContainers env n true spec.InitContainers
      (updateContainers env n false spec.RunningContainers ([], copyInto n.Used []))).2.keys.Nodup := by
  have n0 : (copyInto n.Used ([] : GoMap Int)).keys.Nodup :=
    nodup_keys_copyInto _ _ (by simp [GoMap.keys])
  have n1 := updateContainers_nodup env n false spec.RunningContainers
    ([], copyInto n.Used []) (by simp [GoMap.keys]) n0
  exact updateContainers_nodup env n true spec.InitContainers _ n1.1 n1.2

theorem compute_remove_eq (env : Env) (n : NodeInfo) (spec : PodInfo) :
    ComputePodGroupResources env n spec true =
      ((ComputePodGroupResources env n spec false).1,
        removePodLoop env n (ComputePodGroupResources env n spec false).1
          (ComputePodGroupResources env n spec false).2) := by
  unfold ComputePodGroupResources
  simp only [Bool.false_eq_true, if_false, if_true]

theorem compute_remove_nodup (env : Env) (n : NodeInfo) (spec : PodInfo) :
    (ComputePodGroupResources env n spec true).2.keys.Nodup := by
  rw [compute_remove_eq]
  have h := compute_nodup env n spec
  have e : ComputePodGroupResources env n spec false =
      updateContainers env n true spec.InitContainers
        (updateContainers env n false spec.RunningContainers ([], copyInto n.Used [])) := by
    unfold ComputePodGroupResources
    simp only [Bool.false_eq_true, if_false]
  rw [e]
  simp only
  generalize (updateContainers env n true spec.InitContainers
    (updateContainers env n false spec.RunningContainers ([], copyInto n.Used []))) = acc at h ⊢
  obtain ⟨P, N⟩ := acc
  simp only at h ⊢
  clear e
  have key : ∀ (P N : GoMap Int), N.keys.Nodup → (removePodLoop env n P N).keys.Nodup := by
    intro P
    induction P with
    | nil => intro N hN; exact hN
    | cons q t ih =>
      obtain ⟨k, p⟩ := q
      intro N hN
      simp only [removePodLoop]
      exact ih _ (GoMap.nodup_keys_set _ _ _ hN)
  exact key P N h.2

/-- Claim C22. `ComputePodGroupResources(node, pod, true)` returns the pod usage
of the replay and, at every key `k` of the pod usage, the node usage returned
by one scorer call with the one request `-podResources[k]` (the `int64`
negation of the source, `negInt64`), not in init mode, against `node.Used[k]`.
With a scorer that follows the running rule this is
`node.Used[k] - podResources[k]` as an `int64`, and the same integer whenever
`podResources[k]` is an `int64` above the least one. The other keys keep the
entry of the replay. `ReturnPodGroupResource` writes exactly the entries of
this map into `node.Used`. -/
theorem compute_remove_usage (env : Env) (n : NodeInfo) (spec : PodInfo) :
    (ComputePodGroupResources env n spec true).1 =
      (ComputePodGroupResources env n spec false).1 ∧
    (∀ k, k ∈ (ComputePodGroupResources env n spec true).1.keys →
      (ComputePodGroupResources env n spec true).2.get? k =
        some (env.SetScorer k (n.Scorer.getD k 0) 0 0 (n.Used.getD k 0)
          [negInt64 ((ComputePodGroupResources env n spec true).1.getD k 0)] false).nodeR) ∧
    (∀ k, k ∉ (ComputePodGroupResources env n spec true).1.keys →
      (ComputePodGroupResources env n spec true).2.get? k =
        (ComputePodGroupResources env n spec false).2.get? k) ∧
    (ReleaseRule env → ∀ k, k ∈ (ComputePodGroupResources env n spec true).1.keys →
      wrapInt64 ((ComputePodGroupResources env n spec true).2.getD k 0) =
        wrapInt64 (n.Used.getD k 0 - (ComputePodGroupResources env n spec true).1.getD k 0) ∧
      (-9223372036854775808 < (ComputePodGroupResources env n spec true).1.getD k 0 →
        (ComputePodGroupResources env n spec true).1.getD k 0 < 9223372036854775808 →
        (ComputePodGroupResources env n spec true).2.getD k 0 =
          n.Used.getD k 0 - (ComputePodGroupResources env n spec true).1.getD k 0)) ∧
    (∀ k v, (ComputePodGroupResources env n spec true).2.get? k = some v →
      (ReturnPodGroupResource env n spec).Used.get? k = some v) ∧
    (∀ k, (ComputePodGroupResources env n spec true).2.get? k = none →
      (ReturnPodGroupResource env n spec).Used.get? k = n.Used.get? k) := by
  have hn := compute_nodup env n spec
  have e : ComputePodGroupResources env n spec false =
      updateContainers env n true spec.InitContainers
        (updateContainers env n false spec.RunningContainers ([], copyInto n.Used [])) := by
    unfold ComputePodGroupResources
    simp only [Bool.false_eq_true, if_false]
  have hP : (ComputePodGroupResources env n spec false).1.keys.Nodup := by rw [e]; exact hn.1
  have h1 : (ComputePodGroupResources env n spec true).1 =
      (ComputePodGroupResources env n spec false).1 := by rw [compute_remove_eq]
  have h2 : (ComputePodGroupResources env n spec true).2 =
      removePodLoop env n (ComputePodGroupResources env n spec false).1
        (ComputePodGroupResources env n spec false).2 := by rw [compute_remove_eq]
  have hcall : ∀ k, k ∈ (ComputePodGroupResources env n spec true).1.keys →
      (ComputePodGroupResources env n spec true).2.get? k =
        some (env.SetScorer k (n.Scorer.getD k 0) 0 0 (n.Used.getD k 0)
          [negInt64 ((ComputePodGroupResources env n spec true).1.getD k 0)] false).nodeR := by
    intro k hk
    rw [h1] at hk ⊢
    rw [h2, removePodLoop_get? env n _ _ hP k]
    simp only [hk, if_true]
  refine ⟨h1, hcall, ?_, ?_, ?_, ?_⟩
  · intro k hk
    rw [h1] at hk
    rw [h2, removePodLoop_get? env n _ _ hP k]
    simp only [hk, if_false]
  · intro hr k hk
    have hv : (ComputePodGroupResources env n spec true).2.getD k 0 =
        n.Used.getD k 0 + negInt64 ((ComputePodGroupResources env n spec true).1.getD k 0) := by
      unfold GoMap.getD
      rw [hcall k hk, hr]
      simp [GoMap.getD]
    rw [hv]
    constructor
    · unfold negInt64
      rw [wrapInt64_add_wrap, sub_eq_add_neg]
    · intro g1 g2
      rw [negInt64_of_range _ g1 g2, sub_eq_add_neg]
  · intro k v hv
    unfold ReturnPodGroupResource
    simp only
    rw [get?_copyInto _ _ _ (compute_remove_nodup env n spec), hv]
  · intro k hv
    unfold ReturnPodGroupResource
    simp only
    rw [get?_copyInto _ _ _ (compute_remove_nodup env n spec), hv]

/-- A node whose one key was taken with a usage of `-2^63`, the least `int64`. -/
def nodeLeast : NodeInfo :=
  ⟨[("r/grp/gpu/0/cards", 8)], [("r/grp/gpu/0/cards", -9223372036854775808)], []⟩

/-- A pod whose container allocates the request `-2^63` from the key. -/
def podLeast : PodInfo :=
  ⟨[("c", ⟨[("r/grp/gpu/A/cards", -9223372036854775808)],
    some [("r/grp/gpu/A/cards", "r/grp/gpu/0/cards")], []⟩)], []⟩

theorem compute_remove_usage_witness :
    ReleaseRule scenarioEnv ∧
    ComputePodGroupResources scenarioEnv
      (TakePodGroupResource scenarioEnv nodeS1 podS1Allocated) podS1Allocated true =
      ([("r/grp/gpu/0/cards", 4)], [("r/grp/gpu/0/cards", 0)]) ∧
    (ComputePodGroupResources scenarioEnv nodeLeast podLeast true).1 =
      [("r/grp/gpu/0/cards", -9223372036854775808)] ∧
    (scenarioEnv.SetScorer "r/grp/gpu/0/cards" 0 0 0 (-9223372036854775808)
      [negInt64 (-9223372036854775808)] false).nodeR = -18446744073709551616 ∧
    wrapInt64 (-18446744073709551616) = 0 ∧
    (∀ k, k ∈ (ComputePodGroupResources scenarioEnv
        (TakePodGroupResource scenarioEnv nodeS1 podS1Allocated) podS1Allocated true).1.keys →
      wrapInt64 ((ComputePodGroupResources scenarioEnv
        (TakePodGroupResource scenarioEnv nodeS1 podS1Allocated) podS1Allocated true).2.getD k 0) =
        wrapInt64 ((TakePodGroupResource scenarioEnv nodeS1 podS1Allocated).Used.getD k 0 -
          (ComputePodGroupResources scenarioEnv
            (TakePodGroupResource scenarioEnv nodeS1 podS1Allocated)
            podS1Allocated true).1.getD k 0) ∧
      (-9223372036854775808 < (ComputePodGroupResources scenarioEnv
          (TakePodGroupResource scenarioEnv nodeS1 podS1Allocated)
          podS1Allocated true).1.getD k 0 →
        (ComputePodGroupResources scenarioEnv
          (TakePodGroupResource scenarioEnv nodeS1 podS1Allocated)
          podS1Allocated true).1.getD k 0 < 9223372036854775808 →
        (ComputePodGroupResources scenarioEnv
          (TakePodGroupResource scenarioEnv nodeS1 podS1Allocated)
          podS1Allocated true).2.getD k 0 =
        (TakePodGroupResource scenarioEnv nodeS1 podS1Allocated).Used.getD k 0 -
          (ComputePodGroupResources scenarioEnv
            (TakePodGroupResource scenarioEnv nodeS1 podS1Allocated)
            podS1Allocated true).1.getD k 0)) :=
  ⟨leftover_releaseRule, by decide, by decide, by decide, by decide,
    (compute_remove_usage scenarioEnv (TakePodGroupResource scenarioEnv nodeS1 podS1Allocated)
      podS1Allocated).2.2.2.1 leftover_releaseRule⟩

/-! ## The frame of Take and Return -/

/-- The key `k` is the target of an entry of `AllocateFrom`, under a requirement
key that is not prechecked, of a container of the pod. -/
def IsAllocationTarget (env : Env) (spec : PodInfo) (k : String) : Prop :=
  ∃ nc ∈ spec.RunningContainers ++ spec.InitContainers,
    ∃ ea ∈ nc.2.AllocateFrom.getD [], env.PrecheckedResource ea.1 = false ∧ ea.2 = k

theorem updateLoop_frame (env : Env) (n : NodeInfo) (cont : ContainerInfo) (b : Bool)
    (k : String) :
    ∀ (l : GoMap String) (acc : GoMap Int × GoMap Int),
      (∀ ea ∈ l, env.PrecheckedResource ea.1 = false → ea.2 ≠ k) →
      (updateGroupResourceForContainerLoop env n cont b l acc).1.get? k = acc.1.get? k ∧
      (updateGroupResourceForContainerLoop env n cont b l acc).2.get? k = acc.2.get? k := by
  intro l
  induction l with
  | nil => intro acc _; exact ⟨rfl, rfl⟩
  | cons q t ih =>
    obtain ⟨e, a⟩ := q
    intro acc h
    obtain ⟨P, N⟩ := acc
    have ht : ∀ ea ∈ t, env.PrecheckedResource ea.1 = false → ea.2 ≠ k :=
      fun ea hea => h ea (List.mem_cons_of_mem _ hea)
    simp only [updateGroupResourceForContainerLoop]
    by_cases hp : env.PrecheckedResource e = true
    · simp only [hp, Bool.not_true, Bool.false_eq_true, if_false]
      exact ih _ ht
    · have hp' : env.PrecheckedResource e = false := by simpa using hp
      have hak : ¬ a = k := h (e, a) (List.mem_cons_self _ _) hp'
      simp only [hp', Bool.not_false, if_true]
      obtain ⟨h1, h2⟩ := ih (P.set a (env.SetScorer a (n.Scorer.getD a 0)
          (n.Allocatable.getD a 0) (P.getD a 0) (N.getD a 0) [cont.DevRequests.getD e 0]
          b).podR,
        N.set a (env.SetScorer a (n.Scorer.getD a 0)
          (n.Allocatable.getD a 0) (P.getD a 0) (N.getD a 0) [cont.DevRequests.getD e 0]
          b).nodeR) ht
      rw [h1, h2, GoMap.get?_set, GoMap.get?_set]
      simp only [hak, if_false]
      exact ⟨trivial, trivial⟩

theorem updateContainers_frame (env : Env) (n : NodeInfo) (b : Bool) (k : String) :
    ∀ (conts : GoMap ContainerInfo) (acc : GoMap Int × GoMap Int),
      (∀ nc ∈ conts, ∀ ea ∈ nc.2.AllocateFrom.getD [],
        env.PrecheckedResource ea.1 = false → ea.2 ≠ k) →
      (updateContainers env n b conts acc).1.get? k = acc.1.get? k ∧
      (updateContainers env n b conts acc).2.get? k = acc.2.get? k := by
  intro conts
  induction conts with
  | nil => intro acc _; exact ⟨rfl, rfl⟩
  | cons q t ih =>
    obtain ⟨name, cont⟩ := q
    intro acc h
    obtain ⟨P, N⟩ := acc
    simp only [updateContainers, updateGroupResourceForContainer]
    obtain ⟨h1, h2⟩ := ih (updateGroupResourceForContainerLoop env n cont b
      (cont.AllocateFrom.getD []) (P, N)) (fun nc hnc => h nc (List.mem_cons_of_mem _ hnc))
    obtain ⟨g1, g2⟩ := updateLoop_frame env n cont b k (cont.AllocateFrom.getD []) (P, N)
      (h (name, cont) (List.mem_cons_self _ _))
    rw [h1, h2, g1, g2]
    exact ⟨rfl, rfl⟩

/-- At a key that is no allocation target of the pod, the replay leaves the
pod usage without entry and the node usage with the entry of `node.Used`. -/
theorem compute_frame (env : Env) (n : NodeInfo) (spec : PodInfo) (hU : n.Used.keys.Nodup)
    (k : String) (hk : ¬ IsAllocationTarget env spec k) (b : Bool) :
    (ComputePodGroupResources env n spec b).1.get? k = none ∧
    (ComputePodGroupResources env n spec b).2.get? k = n.Used.get? k := by
  have hr : ∀ nc ∈ spec.RunningContainers, ∀ ea ∈ nc.2.AllocateFrom.getD [],
      env.PrecheckedResource ea.1 = false → ea.2 ≠ k :=
    fun nc hnc ea hea hp e => hk ⟨nc, List.mem_append_left _ hnc, ea, hea, hp, e⟩
  have hi : ∀ nc ∈ spec.InitContainers, ∀ ea ∈ nc.2.AllocateFrom.getD [],
      env.PrecheckedResource ea.1 = false → ea.2 ≠ k :=
    fun nc hnc ea hea hp e => hk ⟨nc, List.mem_append_right _ hnc, ea, hea, hp, e⟩
  obtain ⟨a1, a2⟩ := updateContainers_frame env n false k spec.RunningContainers
    ([], copyInto n.Used []) hr
  obtain ⟨b1, b2⟩ := updateContainers_frame env n true k spec.InitContainers
    (updateContainers env n false spec.RunningContainers ([], copyInto n.Used [])) hi
  have e : ComputePodGroupResources env n spec false =
      updateContainers env n true spec.InitContainers
        (updateContainers env n false spec.RunningContainers ([], copyInto n.Used [])) := by
    unfold ComputePodGroupResources
    simp only [Bool.false_eq_true, if_false]
  have c0 : (copyInto n.Used ([] : GoMap Int)).get? k = n.Used.get? k := by
    rw [get?_copyInto _ _ _ hU]
    cases n.Used.get? k <;> rfl
  have f1 : (ComputePodGroupResources env n spec false).1.get? k = none := by
    rw [e, b1, a1]; rfl
  have f2 : (ComputePodGroupResources env n spec false).2.get? k = n.Used.get? k := by
    rw [e, b2, a2, c0]
  cases b with
  | false => exact ⟨f1, f2⟩
  | true =>
    rw [compute_remove_eq]
    refine ⟨f1, ?_⟩
    have hP : (ComputePodGroupResources env n spec false).1.keys.Nodup := by
      rw [e]; exact (compute_nodup env n spec).1
    have hnk : k ∉ (ComputePodGroupResources env n spec false).1.keys := by
      intro hmem
      obtain ⟨v, hv⟩ := GoMap.get?_of_mem_keys hmem
      rw [f1] at hv
      cases hv
    simp only
    rw [removePodLoop_get? env n _ _ hP k]
    simp only [hnk, if_false]
    exact f2

/-- A node with a usage on a key that the pod of scenario S1 does not touch. -/
def nodeC39 : NodeInfo :=
  ⟨[("r/grp/gpu/0/cards", 8), ("r/grp/gpu/1/cards", 8)], [("r/grp/gpu/1/cards", 3)], []⟩

/-- Claim C39. `TakePodGroupResource` and `ReturnPodGroupResource` leave
`node.Allocatable` and `node.Scorer` as they are, remove no key of `node.Used`,
and leave the entry of `node.Used` unchanged at every key that is not the target
of an entry of `AllocateFrom`, under a requirement that is not prechecked, of a
container of the pod. The pod is only read: the embedded functions return the
node alone. -/
theorem take_return_frame (env : Env) (n : NodeInfo) (spec : PodInfo)
    (hU : n.Used.keys.Nodup) :
    (TakePodGroupResource env n spec).Allocatable = n.Allocatable ∧
    (TakePodGroupResource env n spec).Scorer = n.Scorer ∧
    (ReturnPodGroupResource env n spec).Allocatable = n.Allocatable ∧
    (ReturnPodGroupResource env n spec).Scorer = n.Scorer ∧
    (∀ k, k ∈ n.Used.keys →
      k ∈ (TakePodGroupResource env n spec).Used.keys ∧
      k ∈ (ReturnPodGroupResource env n spec).Used.keys) ∧
    (∀ k, ¬ IsAllocationTarget env spec k →
      (TakePodGroupResource env n spec).Used.get? k = n.Used.get? k ∧
      (ReturnPodGroupResource env n spec).Used.get? k = n.Used.get? k) := by
  refine ⟨rfl, rfl, rfl, rfl, ?_, ?_⟩
  · intro k hk
    unfold TakePodGroupResource ReturnPodGroupResource
    exact ⟨(keys_copyInto _ _ k).2 (Or.inr hk), (keys_copyInto _ _ k).2 (Or.inr hk)⟩
  · intro k hk
    have hn := compute_nodup env n spec
    have e : ComputePodGroupResources env n spec false =
        updateContainers env n true spec.InitContainers
          (updateContainers env n false spec.RunningContainers ([], copyInto n.Used [])) := by
      unfold ComputePodGroupResources
      simp only [Bool.false_eq_true, if_false]
    have hN : (ComputePodGroupResources env n spec false).2.keys.Nodup := by rw [e]; exact hn.2
    obtain ⟨-, t2⟩ := compute_frame env n spec hU k hk false
    obtain ⟨-, r2⟩ := compute_frame env n spec hU k hk true
    unfold TakePodGroupResource ReturnPodGroupResource
    simp only
    rw [get?_copyInto _ _ _ hN, get?_copyInto _ _ _ (compute_remove_nodup env n spec), t2, r2]
    cases n.Used.get? k <;> exact ⟨rfl, rfl⟩

theorem take_return_frame_witness :
    nodeC39.Used.keys.Nodup ∧
    (TakePodGroupResource scenarioEnv nodeC39 podS1Allocated).Used =
      [("r/grp/gpu/1/cards", 3), ("r/grp/gpu/0/cards", 4)] ∧
    (ReturnPodGroupResource scenarioEnv
      (TakePodGroupResource scenarioEnv nodeC39 podS1Allocated) podS1Allocated).Used =
      [("r/grp/gpu/1/cards", 3), ("r/grp/gpu/0/cards", 0)] ∧
    (∀ k, ¬ IsAllocationTarget scenarioEnv podS1Allocated k →
      (TakePodGroupResource scenarioEnv nodeC39 podS1Allocated).Used.get? k =
        nodeC39.Used.get? k ∧
      (ReturnPodGroupResource scenarioEnv nodeC39 podS1Allocated).Used.get? k =
        nodeC39.Used.get? k) :=
  ⟨by decide, by decide, by decide,
    (take_return_frame scenarioEnv nodeC39 podS1Allocated (by decide)).2.2.2.2.2⟩

/-! ## The validation of the group prefix -/

theorem splitLastSlash_none : ∀ (l : List Char), '/' ∉ l → splitLastSlash l = none := by
  intro l
  induction l with
  | nil => intro _; rfl
  | cons c t ih =>
    intro h
    simp only [List.mem_cons, not_or] at h
    have hc : ¬ c = '/' := fun e => h.1 e.symm
    simp only [splitLastSlash, ih h.2, hc, if_false]

theorem splitLastSlash_append : ∀ (a b : List Char), '/' ∉ b →
    splitLastSlash (a ++ '/' :: b) = some (a, b) := by
  intro a
  induction a with
  | nil =>
    intro b hb
    simp only [List.nil_append, splitLastSlash, splitLastSlash_none b hb, if_true]
  | cons c t ih =>
    intro b hb
    have e : (c :: t) ++ '/' :: b = c :: (t ++ '/' :: b) := rfl
    rw [e]
    simp only [splitLastSlash, ih b hb]

theorem splitLastSlash_isSome : ∀ (l : List Char), '/' ∈ l → (splitLastSlash l).isSome = true := by
  intro l
  induction l with
  | nil => intro h; cases h
  | cons c t ih =>
    intro h
    simp only [splitLastSlash]
    cases hs : splitLastSlash t with
    | some ab => rfl
    | none =>
      simp only
      by_cases hc : c = '/'
      · simp only [hc, if_true, Option.isSome_some]
      · rcases List.mem_cons.1 h with e | e
        · exact absurd e.symm hc
        · have := ih e
          rw [hs] at this
          cases this

theorem matchPrefixHere_none (l : List Char) (h : '/' ∉ l) : matchPrefixHere l = none := by
  unfold matchPrefixHere
  have : '/' ∉ l.takeWhile isNonSpace :=
    fun hm => h ((List.takeWhile_sublist isNonSpace).subset hm)
  rw [splitLastSlash_none _ this]

theorem matchPrefixFrom_none : ∀ (l : List Char), '/' ∉ l → matchPrefixFrom l = none := by
  intro l
  induction l with
  | nil => intro _; rfl
  | cons c t ih =>
    intro h
    have ht : '/' ∉ t := fun hm => h (List.mem_cons_of_mem _ hm)
    simp only [matchPrefixFrom, matchPrefixHere_none _ h, ih ht]

theorem matchPrefixFrom_isSome : ∀ (l : List Char), '/' ∈ l →
    (matchPrefixFrom l).isSome = true := by
  intro l
  induction l with
  | nil => intro h; cases h
  | cons c t ih =>
    intro h
    simp only [matchPrefixFrom]
    cases hh : matchPrefixHere (c :: t) with
    | some r => rfl
    | none =>
      simp only
      by_cases hc : c = '/'
      · exfalso
        subst hc
        unfold matchPrefixHere at hh
        have hw : '/' ∈ ('/' :: t).takeWhile isNonSpace := by
          have : isNonSpace '/' = true := by decide
          simp only [List.takeWhile, this, List.mem_cons, true_or]
        have := splitLastSlash_isSome _ hw
        cases hs : splitLastSlash (List.takeWhile isNonSpace ('/' :: t)) with
        | none => rw [hs] at this; cases this
        | some ab => rw [hs] at hh; cases hh
      · rcases List.mem_cons.1 h with e | e
        · exact absurd e.symm hc
        · exact ih e

/-- A group prefix with two `/`. -/
def envTwoSlashes : Env := { scenarioEnv with DeviceGroupPrefix := "r/grp/x" }

/-- Claim C24, as stated, fails. A prefix with two `/` does not make the
allocator panic: `r/grp/x` is accepted and split at its last `/`. A prefix with
one `/` and a blank is not split around the `/`: the pattern `(\S*)/(\S*)`
matches only the characters without blank around the `/`. -/
theorem prefix_with_two_slashes_accepted :
    matchPrefix "r/grp/x" = some ("r/grp", "x") ∧
    isValue (containerFitsGroupConstraints envTwoSlashes "c" ContainerInfo.zero false
      [] [] [] [] [] true true) = true ∧
    matchPrefix "a b/c" = some ("b", "c") := by
  decide

/-- Claim C24, as amended. The allocator panics with `Invalid prefix` for every
`DeviceGroupPrefix` that contains no `/`; every prefix that contains a `/`
passes the test; a prefix without blank is split at its last `/` into
`<prefix>` and `<grpName>`, which for a prefix with exactly one `/` is the split
around that `/`. -/
theorem prefix_validation (env : Env) (contName : String) (contReq : ContainerInfo)
    (initContainer : Bool) (allocatable : GoMap Int) (allocScorer : GoMap ResourceScoreFunc)
    (podResource nodeResource : GoMap Int) (usedGroups : GoMap Bool)
    (bPreferUsed bSetAllocateFrom : Bool) (s : String) :
    ('/' ∉ env.DeviceGroupPrefix.data →
      containerFitsGroupConstraints env contName contReq initContainer allocatable allocScorer
        podResource nodeResource usedGroups bPreferUsed bSetAllocateFrom =
        .error Fault.invalidPrefix) ∧
    ('/' ∈ s.data → (matchPrefix s).isSome = true) ∧
    (∀ a b : List Char, s.data = a ++ '/' :: b → '/' ∉ b →
      (∀ c ∈ s.data, isNonSpace c = true) →
      matchPrefix s = some (String.mk a, String.mk b)) := by
  refine ⟨?_, ?_, ?_⟩
  · intro h
    have hm : matchPrefix env.DeviceGroupPrefix = none := matchPrefixFrom_none _ h
    unfold containerFitsGroupConstraints
    simp only [hm]
  · intro h
    exact matchPrefixFrom_isSome _ h
  · intro a b hs hb hns
    unfold matchPrefix
    have htw : s.data.takeWhile isNonSpace = s.data :=
      List.takeWhile_eq_self_iff.2 (fun c hc => hns c hc)
    cases hd : s.data with
    | nil => rw [hd] at hs; cases a <;> cases hs
    | cons c t =>
      simp only [matchPrefixFrom, matchPrefixHere]
      rw [← hd, htw, hs, splitLastSlash_append a b hb]

theorem prefix_validation_witness :
    containerFitsGroupConstraints { scenarioEnv with DeviceGroupPrefix := "rgrp" } "c"
      contS1 false nodeS1.Allocatable [] [] [] [] true true = .error Fault.invalidPrefix ∧
    matchPrefix "r/grp" = some ("r", "grp") :=
  ⟨(prefix_validation { scenarioEnv with DeviceGroupPrefix := "rgrp" } "c"
      contS1 false nodeS1.Allocatable [] [] [] [] true true "r/grp").1 (by decide),
    (prefix_validation scenarioEnv "c" contS1 false nodeS1.Allocatable [] [] [] [] true true
      "r/grp").2.2 "r".data "grp".data (by decide) (by decide) (by decide)⟩

/-! ## The predicate writes no shared state -/

theorem GoMap.set_getD_self {V : Type} (d : V) :
    ∀ (m : GoMap V) (k : String), k ∈ m.keys → m.set k (m.getD k d) = m := by
  intro m
  induction m with
  | nil => intro k h; simp [GoMap.keys] at h
  | cons q t ih =>
    obtain ⟨a, v⟩ := q
    intro k h
    by_cases e : a = k
    · simp [GoMap.set, GoMap.getD, GoMap.get?, e]
    · have hk : k ∈ GoMap.keys t := by
        simp only [GoMap.keys, List.map_cons, List.mem_cons] at h
        rcases h with h | h
        · exact absurd h.symm e
        · exact h
      have hg : GoMap.getD ((a, v) :: t) k d = GoMap.getD t k d := by
        simp [GoMap.getD, GoMap.get?, e]
      simp only [GoMap.set, e, if_false, hg, ih k hk]

/-- Without `bSetAllocateFrom` the container is returned as it was passed. -/
theorem containerFits_contReq (env : Env) (contName : String) (contReq : ContainerInfo)
    (initContainer : Bool) (allocatable : GoMap Int) (allocScorer : GoMap ResourceScoreFunc)
    (podResource nodeResource : GoMap Int) (usedGroups : GoMap Bool) (bPreferUsed : Bool)
    (r : ContainerFit)
    (h : containerFitsGroupConstraints env contName contReq initContainer allocatable
      allocScorer podResource nodeResource usedGroups bPreferUsed false = .ok r) :
    r.contReq = contReq := by
  unfold containerFitsGroupConstraints at h
  generalize collectRequests env contReq contReq.DevRequests ([], [], []) = cr at h
  obtain ⟨reqName, req, reqScorer⟩ := cr
  simp only at h
  split at h
  · exact absurd h (by simp)
  · rename_i grpPrefix grpName hpre
    generalize collectAllocatable env grpName allocatable ([], []) = ca at h
    obtain ⟨allocName, alloc⟩ := ca
    split at h
    · split at h
      · exact absurd h (by simp)
      · simp only [Bool.false_eq_true, if_false, Except.ok.injEq] at h
        rw [← h]
    · split at h
      · split at h
        · exact absurd h (by simp)
        · simp only [Except.ok.injEq] at h
          rw [← h]
      · simp only [Except.ok.injEq] at h
        rw [← h]

theorem podFitsLoop_containers (env : Env) (n : NodeInfo) (scorer : GoMap ResourceScoreFunc)
    (initContainer : Bool) :
    ∀ (keys : List String) (st st' : PodFitState),
      (∀ k ∈ keys, k ∈ st.containers.keys) →
      podFitsLoop env n scorer initContainer false keys st = .ok st' →
      st'.containers = st.containers := by
  intro keys
  induction keys with
  | nil =>
    intro st st' _ h
    simp only [podFitsLoop, Except.ok.injEq] at h
    rw [← h]
  | cons c t ih =>
    intro st st' hk h
    simp only [podFitsLoop] at h
    cases hc : containerFitsGroupConstraints env c (st.containers.getD c ContainerInfo.zero)
        initContainer n.Allocatable scorer st.podResource st.nodeResource st.usedGroups
        true false with
    | error e => rw [hc] at h; cases h
    | ok r =>
      rw [hc] at h
      simp only at h
      have hr := containerFits_contReq env c _ initContainer n.Allocatable scorer
        st.podResource st.nodeResource st.usedGroups true r hc
      have hset : st.containers.set c r.contReq = st.containers := by
        rw [hr]
        exact GoMap.set_getD_self _ _ _ (hk c (List.mem_cons_self _ _))
      have := ih _ st' (by
        intro k hkt
        simp only
        rw [hset]
        exact hk k (List.mem_cons_of_mem _ hkt)) h
      rw [this]
      exact hset

/-- Claim C23. `PodFitsGroupConstraints` starts from `initNodeResource(n)`, a
fresh map with the entries of `n.Used`, and threads this copy through the
containers; called with `allocating = false` it returns the pod with every
container (`AllocateFrom`, `DevRequests`, `Scorer`) as it was. The node is only
read: the embedded function returns the verdict, the pod and the threaded copy
of the usage, and no node. -/
theorem podFits_no_shared_write (env : Env) (n : NodeInfo) (spec : PodInfo) (fit : PodFit)
    (hU : n.Used.keys.Nodup)
    (h : PodFitsGroupConstraints env n spec false = .ok fit) :
    (∀ k, (initNodeResource n).get? k = n.Used.get? k) ∧ fit.spec = spec := by
  constructor
  · intro k
    unfold initNodeResource
    rw [get?_copyInto _ _ _ hU]
    cases n.Used.get? k <;> rfl
  · unfold PodFitsGroupConstraints at h
    simp only at h
    cases h1 : podFitsLoop env n (setScoreFunc env n) false false
        (SortedStringKeys spec.RunningContainers)
        ⟨spec.RunningContainers, [], initNodeResource n, [], true, [], 0⟩ with
    | error e => rw [h1] at h; cases h
    | ok st1 =>
      rw [h1] at h
      simp only at h
      cases h2 : podFitsLoop env n (setScoreFunc env n) true false
          (SortedStringKeys spec.InitContainers)
          ⟨spec.InitContainers, st1.podResource, st1.nodeResource, st1.usedGroups,
            st1.found, st1.predicateFails, st1.totalScore⟩ with
      | error e => rw [h2] at h; cases h
      | ok st2 =>
        rw [h2] at h
        simp only [Except.ok.injEq] at h
        have c1 := podFitsLoop_containers env n (setScoreFunc env n) false
          (SortedStringKeys spec.RunningContainers)
          ⟨spec.RunningContainers, [], initNodeResource n, [], true, [], 0⟩ st1
          (fun k hk => (mem_SortedStringKeys _ k).1 hk) h1
        have c2 := podFitsLoop_containers env n (setScoreFunc env n) true
          (SortedStringKeys spec.InitContainers)
          ⟨spec.InitContainers, st1.podResource, st1.nodeResource, st1.usedGroups,
            st1.found, st1.predicateFails, st1.totalScore⟩ st2
          (fun k hk => (mem_SortedStringKeys _ k).1 hk) h2
        simp only at c1 c2
        rw [← h]
        simp only [c1, c2]

theorem podFits_no_shared_write_witness :
    nodeS1.Used.keys.Nodup ∧
    isValue (PodFitsGroupConstraints scenarioEnv nodeS1 podS1 false) = true ∧
    (okValue (PodFitsGroupConstraints scenarioEnv nodeS1 podS1 false) PodFit.zero).found = true ∧
    (okValue (PodFitsGroupConstraints scenarioEnv nodeS1 podS1 false) PodFit.zero).spec = podS1 :=
  ⟨by decide, by decide!, by decide!,
    (podFits_no_shared_write scenarioEnv nodeS1 podS1 _ (by decide)
      (eq_ok_okValue _ PodFit.zero (by decide!))).2⟩

/-! ## A search that fails leaves the usage as it was -/

/-- A search that fails returns its receiver with the usage maps, the score
and `AllocateFrom` that it was called with. -/
theorem allocateGroupBody_failure (allocGroup : GrpAllocator → AllocResult)
    (grp g1 : GrpAllocator) (rs : List PredicateFailureReason)
    (h : allocateGroupBody allocGroup grp = .ok (g1, false, rs)) :
    g1.PodResource = grp.PodResource ∧ g1.NodeResource = grp.NodeResource ∧
    g1.AllocateFrom = grp.AllocateFrom ∧ g1.Score = grp.Score := by
  by_cases hne : grp.GrpRequiredResource.length = 0
  · unfold allocateGroupBody at h
    rw [if_pos hne] at h
    simp only [Except.ok.injEq, Prod.mk.injEq] at h
    exact absurd h.2.1 (by simp)
  · obtain ⟨cs, gF, -, hF, hsel⟩ := allocateGroupBody_spec allocGroup grp g1 false rs hne h
    cases hs : selectCandidate grp.PreferUsed grp.Score cs with
    | some m =>
      rw [hs] at hsel
      exact absurd hsel.1 (by simp)
    | none =>
      rw [hs] at hsel
      obtain ⟨-, hg, -⟩ := hsel
      rw [hg, hF]
      exact ⟨rfl, rfl, rfl, rfl⟩

theorem containerFits_failure_fields (env : Env) (contName : String) (contReq : ContainerInfo)
    (initContainer : Bool) (allocatable : GoMap Int) (allocScorer : GoMap ResourceScoreFunc)
    (podResource nodeResource : GoMap Int) (usedGroups : GoMap Bool)
    (bPreferUsed bSetAllocateFrom : Bool) (r : ContainerFit)
    (hAF : contReq.AllocateFrom = none ∨ contReq.AllocateFrom = some [])
    (h : containerFitsGroupConstraints env contName contReq initContainer allocatable
      allocScorer podResource nodeResource usedGroups bPreferUsed bSetAllocateFrom = .ok r)
    (hf : r.found = false) :
    r.grp.PodResource = podResource ∧ r.grp.NodeResource = nodeResource ∧
    r.grp.AllocateFrom = [] ∧
    r.contReq = (if bSetAllocateFrom then { contReq with AllocateFrom := some [] }
      else contReq) := by
  unfold containerFitsGroupConstraints at h
  generalize collectRequests env contReq contReq.DevRequests ([], [], []) = cr at h
  obtain ⟨reqName, req, reqScorer⟩ := cr
  simp only at h
  split at h
  · exact absurd h (by simp)
  · rename_i grpPrefix grpName hpre
    generalize collectAllocatable env grpName allocatable ([], []) = ca at h
    obtain ⟨allocName, alloc⟩ := ca
    split at h
    · split at h
      · exact absurd h (by simp)
      · rename_i grp1 found reasons hag
        simp only [Except.ok.injEq] at h
        subst h
        simp only at hf
        subst hf
        unfold searchFuel at hag
        simp only [allocateGroup] at hag
        obtain ⟨a1, a2, a3, -⟩ := allocateGroupBody_failure _ _ _ _ hag
        simp only at a1 a2 a3
        refine ⟨a1, a2, a3, ?_⟩
        simp only [a3, copyInto]
    · rename_i hsearch
      exfalso
      rcases hAF with e | e
      · rw [e] at hsearch
        exact hsearch rfl
      · rw [e] at hsearch
        simp only [List.length_nil, decide_True, Bool.true_and, decide_eq_true_eq,
          not_lt, Nat.le_zero_eq] at hsearch
        have hlen : ¬ (req.length > 0) := by omega
        rw [if_neg hlen] at h
        simp only [Except.ok.injEq] at h
        subst h
        simp at hf

/-- Claim C36. When `containerFitsGroupConstraints` runs the search (the
container's `AllocateFrom` is nil, or empty with group requests) and reports
`fits = false`, the allocator it returns holds the `podResource` and
`nodeResource` it was given and an empty `AllocateFrom`; with
`bSetAllocateFrom` the container's `AllocateFrom` is the empty map, without it
the container is as it was; and when the call is the one that the loop of
`PodFitsGroupConstraints` makes for the container, the loop goes on to the
next container with the usage it had before this one. -/
theorem containerFits_failure_atomic (env : Env) (contName : String) (contReq : ContainerInfo)
    (initContainer : Bool) (allocatable : GoMap Int) (allocScorer : GoMap ResourceScoreFunc)
    (podResource nodeResource : GoMap Int) (usedGroups : GoMap Bool)
    (bPreferUsed bSetAllocateFrom : Bool) (r : ContainerFit)
    (hAF : contReq.AllocateFrom = none ∨ contReq.AllocateFrom = some [])
    (h : containerFitsGroupConstraints env contName contReq initContainer allocatable
      allocScorer podResource nodeResource usedGroups bPreferUsed bSetAllocateFrom = .ok r)
    (hf : r.found = false) :
    r.grp.PodResource = podResource ∧ r.grp.NodeResource = nodeResource ∧
    r.grp.AllocateFrom = [] ∧
    r.contReq = (if bSetAllocateFrom then { contReq with AllocateFrom := some [] }
      else contReq) ∧
    ∀ (n : NodeInfo) (rest : List String) (st : PodFitState),
      contReq = st.containers.getD contName ContainerInfo.zero →
      allocatable = n.Allocatable → podResource = st.podResource →
      nodeResource = st.nodeResource → usedGroups = st.usedGroups → bPreferUsed = true →
      podFitsLoop env n allocScorer initContainer bSetAllocateFrom (contName :: rest) st =
        podFitsLoop env n allocScorer initContainer bSetAllocateFrom rest
          { containers := st.containers.set contName r.contReq
            podResource := st.podResource
            nodeResource := st.nodeResource
            usedGroups := r.grp.UsedGroups
            found := false
            predicateFails := st.predicateFails ++ r.reasons
            totalScore := st.totalScore } := by
  obtain ⟨a1, a2, a3, a4⟩ := containerFits_failure_fields env contName contReq initContainer
    allocatable allocScorer podResource nodeResource usedGroups bPreferUsed bSetAllocateFrom r
    hAF h hf
  refine ⟨a1, a2, a3, a4, ?_⟩
  intro n rest st e1 e2 e3 e4 e5 e6
  subst e1 e2 e3 e4 e5 e6
  simp only [podFitsLoop, h, hf, a1, a2, if_true, decide_True, Bool.true_or]

theorem containerFits_failure_atomic_witness :
    isValue (containerFitsGroupConstraints scenarioEnv "a"
      ⟨[("r/grp/gpu/A/cards", 8)], none, []⟩ false nodeS3.Allocatable
      (setScoreFunc scenarioEnv nodeS3) [] [("r/grp/gpu/0/cards", 1)] [] true true) = true ∧
    (okValue (containerFitsGroupConstraints scenarioEnv "a"
      ⟨[("r/grp/gpu/A/cards", 8)], none, []⟩ false nodeS3.Allocatable
      (setScoreFunc scenarioEnv nodeS3) [] [("r/grp/gpu/0/cards", 1)] [] true true)
      ContainerFit.zero).found = false ∧
    (okValue (containerFitsGroupConstraints scenarioEnv "a"
      ⟨[("r/grp/gpu/A/cards", 8)], none, []⟩ false nodeS3.Allocatable
      (setScoreFunc scenarioEnv nodeS3) [] [("r/grp/gpu/0/cards", 1)] [] true true)
      ContainerFit.zero).grp.NodeResource = [("r/grp/gpu/0/cards", 1)] ∧
    (okValue (containerFitsGroupConstraints scenarioEnv "a"
      ⟨[("r/grp/gpu/A/cards", 8)], none, []⟩ false nodeS3.Allocatable
      (setScoreFunc scenarioEnv nodeS3) [] [("r/grp/gpu/0/cards", 1)] [] true true)
      ContainerFit.zero).contReq.AllocateFrom = some [] :=
  ⟨by decide!, by decide!,
    (containerFits_failure_atomic scenarioEnv "a" ⟨[("r/grp/gpu/A/cards", 8)], none, []⟩ false
      nodeS3.Allocatable (setScoreFunc scenarioEnv nodeS3) [] [("r/grp/gpu/0/cards", 1)] []
      true true _ (Or.inl rfl) (eq_ok_okValue _ ContainerFit.zero (by decide!))
      (by decide!)).2.1,
    by
      rw [(containerFits_failure_atomic scenarioEnv "a" ⟨[("r/grp/gpu/A/cards", 8)], none, []⟩
        false nodeS3.Allocatable (setScoreFunc scenarioEnv nodeS3) []
        [("r/grp/gpu/0/cards", 1)] [] true true _ (Or.inl rfl)
        (eq_ok_okValue _ ContainerFit.zero (by decide!)) (by decide!)).2.2.2.1]
      rfl⟩

/-! ## The multi-device aggregator -/

/-! The embedding of `device-scheduler/device/devicescheduler.go` and
`device-scheduler/device/grpdevice.go`. -/

/-- The statement `delete(m, k)`. -/
def GoMap.delete {V : Type} (m : GoMap V) (k : String) : GoMap V :=
  m.filter (fun kv => !decide (kv.1 = k))

/-- A non-nil Go `error` returned by a device scheduler: the error that
`GrpDevice.PodAllocate` builds with `fmt.Errorf` from the name of the pod and
the reasons, or an error of a plug-in. -/
inductive DeviceError where
  | noLongerFits (podName : String) (reasons : List PredicateFailureReason)
  | plugin (msg : String)
deriving DecidableEq

/-- What the aggregator passes by reference to the device schedulers: the
`*types.PodInfo` and the `*types.NodeInfo` of the call, with their fields
`Name`, and the state `σ` that the plug-in schedulers keep. -/
structure World (σ : Type) where
  podName : String
  nodeName : String
  pod : PodInfo
  node : NodeInfo
  ext : σ

/-- The interface `sctypes.DeviceScheduler`, with the methods that the
aggregator calls on a pod and a node. A method returns the world as the call
leaves it together with its return values; a Go `error` is `none` for nil. -/
structure DeviceScheduler (σ : Type) where
  GetName : String
  UsingGroupScheduler : Bool
  PodFitsDevice : World σ → Bool →
    Except Fault (World σ × Bool × List PredicateFailureReason × ℚ)
  PodAllocate : World σ → Except Fault (World σ × Option DeviceError)
  TakePodResources : World σ → Except Fault (World σ × Option DeviceError)
  ReturnPodResources : World σ → Except Fault (World σ × Option DeviceError)

/-- The type `GrpDevice` of `grpdevice.go`, with its methods. -/
def GrpDevice (env : Env) (σ : Type) : DeviceScheduler σ :=
  { GetName := "grpdevice"
    UsingGroupScheduler := true
    PodFitsDevice := fun w fillAllocateFrom =>
      match PodFitsGroupConstraints env w.node w.pod fillAllocateFrom with
      | .error e => .error e
      | .ok fit => .ok ({ w with pod := fit.spec }, fit.found, fit.predicateFails, fit.totalScore)
    PodAllocate := fun w =>
      match PodFitsGroupConstraints env w.node w.pod true with
      | .error e => .error e
      | .ok fit =>
        if !fit.found then
          .ok ({ w with pod := fit.spec },
            some (DeviceError.noLongerFits w.podName fit.predicateFails))
        else .ok ({ w with pod := fit.spec }, none)
    TakePodResources := fun w =>
      .ok ({ w with node := TakePodGroupResource env w.node w.pod }, none)
    ReturnPodResources := fun w =>
      .ok ({ w with node := ReturnPodGroupResource env w.node w.pod }, none) }

/-- The type `DevicesScheduler`. -/
structure DevicesScheduler (σ : Type) where
  Devices : List (DeviceScheduler σ)
  hasGroupScheduler : Bool
  score : GoMap (GoMap ℚ)
  maxScore : GoMap ℚ

namespace DevicesScheduler

variable {σ : Type}

/-- The method `RemoveAll`. -/
def RemoveAll (_ds : DevicesScheduler σ) : DevicesScheduler σ :=
  ⟨[], false, [], []⟩

/-- The method `AddDevice`. The result is `none` when the slice expression
`ds.Devices[:len(ds.Devices)-1]` panics, on an empty list. -/
def AddDevice (env : Env) (ds : DevicesScheduler σ) (device : DeviceScheduler σ) :
    Option (DevicesScheduler σ) :=
  let usingGroupScheduler := device.UsingGroupScheduler
  let devices1 : Option (List (DeviceScheduler σ)) :=
    if !ds.hasGroupScheduler then
      some (ds.Devices ++ [device])
    else
      match ds.Devices.getLast? with
      | none => none
      | some last => some (ds.Devices.dropLast ++ [device, last])
  match devices1 with
  | none => none
  | some devices =>
    if usingGroupScheduler && !ds.hasGroupScheduler then
      some { ds with Devices := devices ++ [GrpDevice env σ], hasGroupScheduler := true }
    else
      some { ds with Devices := devices }

/-- A sequence of calls of `AddDevice`. -/
def addDevices (env : Env) :
    DevicesScheduler σ → List (DeviceScheduler σ) → Option (DevicesScheduler σ)
  | ds, [] => some ds
  | ds, device :: rest =>
    match ds.AddDevice env device with
    | none => none
    | some ds1 => addDevices env ds1 rest

/-- The loop of `PodFitsResources` over the schedulers. -/
def podFitsDevicesLoop (fillAllocateFrom : Bool) :
    List (DeviceScheduler σ) → World σ → Bool → List PredicateFailureReason → ℚ →
    Except Fault (World σ × Bool × List PredicateFailureReason × ℚ)
  | [], w, totalFit, totalReasons, totalScore => .ok (w, totalFit, totalReasons, totalScore)
  | d :: rest, w, totalFit, totalReasons, totalScore =>
    match d.PodFitsDevice w fillAllocateFrom with
    | .error e => .error e
    | .ok (w1, fit, reasons, score) =>
      podFitsDevicesLoop fillAllocateFrom rest w1 (totalFit && fit) (totalReasons ++ reasons)
        (totalScore + score)

/-- The call `utils.AssignMap(ds.score, []string{k1, k2}, val)` and the
assignment `ds.score[k1][k2] = val`. -/
def assignScore (x : GoMap (GoMap ℚ)) (k1 k2 : String) (val : ℚ) : GoMap (GoMap ℚ) :=
  x.set k1 ((x.getD k1 []).set k2 val)

/-- The method `PodFitsResources`: the aggregator and the world after the call,
and the three return values. -/
def PodFitsResources (ds : DevicesScheduler σ) (w : World σ) (fillAllocateFrom : Bool) :
    Except Fault (DevicesScheduler σ × World σ × Bool × List PredicateFailureReason × ℚ) :=
  match podFitsDevicesLoop fillAllocateFrom ds.Devices w true [] 0 with
  | .error e => .error e
  | .ok (w1, totalFit, totalReasons, totalScore) =>
    let score0 := assignScore ds.score w1.podName w1.nodeName 0
    let ds1 : DevicesScheduler σ :=
      if totalFit then
        { ds with
          score := assignScore score0 w1.podName w1.nodeName totalScore
          maxScore :=
            if totalScore > ds.maxScore.getD w1.podName 0 then
              ds.maxScore.set w1.podName totalScore
            else ds.maxScore }
      else
        { ds with score := assignScore score0 w1.podName w1.nodeName 0 }
    .ok (ds1, w1, totalFit, totalReasons, totalScore)

/-- The method `PodPriority`; it reads `podInfo.Name` and `nodeInfo.Name`. -/
def PodPriority (ds : DevicesScheduler σ) (podName nodeName : String) : ℚ :=
  match ds.maxScore.get? podName with
  | none => 0
  | some maxScore =>
    match (ds.score.getD podName []).get? nodeName with
    | none => 0
    | some score => if maxScore ≠ 0 then score / maxScore else 0

/-- The method `RemovePodFromScore`; it reads `podInfo.Name`. -/
def RemovePodFromScore (ds : DevicesScheduler σ) (podName : String) : DevicesScheduler σ :=
  { ds with
    score := ds.score.delete podName
    maxScore := ds.maxScore.delete podName }

/-- The loop `for _, d := range ds.Devices` of `PodAllocate`, `TakePodResources`
and `ReturnPodResources`, with `call` the method called on each scheduler: the
loop returns the first error that is not nil. -/
def forwardLoop (call : DeviceScheduler σ → World σ → Except Fault (World σ × Option DeviceError)) :
    List (DeviceScheduler σ) → World σ → Except Fault (World σ × Option DeviceError)
  | [], w => .ok (w, none)
  | d :: rest, w =>
    match call d w with
    | .error e => .error e
    | .ok (w1, some err) => .ok (w1, some err)
    | .ok (w1, none) => forwardLoop call rest w1

/-- The method `PodAllocate`. -/
def PodAllocate (ds : DevicesScheduler σ) (w : World σ) :
    Except Fault (DevicesScheduler σ × World σ × Option DeviceError) :=
  match forwardLoop (fun d => d.PodAllocate) ds.Devices w with
  | .error e => .error e
  | .ok (w1, some err) => .ok (ds, w1, some err)
  | .ok (w1, none) => .ok (ds.RemovePodFromScore w1.podName, w1, none)

/-- The method `TakePodResources`. -/
def TakePodResources (ds : DevicesScheduler σ) (w : World σ) :
    Except Fault (World σ × Option DeviceError) :=
  forwardLoop (fun d => d.TakePodResources) ds.Devices w

/-- The method `ReturnPodResources`. -/
def ReturnPodResources (ds : DevicesScheduler σ) (w : World σ) :
    Except Fault (World σ × Option DeviceError) :=
  forwardLoop (fun d => d.ReturnPodResources) ds.Devices w

end DevicesScheduler

/-! ## The composition of the aggregator -/

namespace DevicesScheduler

variable {σ : Type}

/-- The list `Devices` is `pre` followed by the group device iff the flag
`hasGroupScheduler` is set. -/
def GroupLast (env : Env) (ds : DevicesScheduler σ) (pre : List (DeviceScheduler σ)) : Prop :=
  ds.Devices = pre ++ (if ds.hasGroupScheduler then [GrpDevice env σ] else [])

theorem addDevice_groupLast (env : Env) (ds : DevicesScheduler σ)
    (pre : List (DeviceScheduler σ)) (device : DeviceScheduler σ) (h : GroupLast env ds pre) :
    ∃ ds1, ds.AddDevice env device = some ds1 ∧ GroupLast env ds1 (pre ++ [device]) ∧
      ds1.hasGroupScheduler = (ds.hasGroupScheduler || device.UsingGroupScheduler) ∧
      ds1.score = ds.score ∧ ds1.maxScore = ds.maxScore := by
  unfold GroupLast at h
  unfold AddDevice
  cases hg : ds.hasGroupScheduler with
  | false =>
    rw [hg] at h
    simp only [Bool.false_eq_true, if_false, List.append_nil] at h
    simp only [Bool.not_false, if_true, Bool.and_true]
    cases hu : device.UsingGroupScheduler with
    | false =>
      refine ⟨_, rfl, ?_, ?_, rfl, rfl⟩
      · unfold GroupLast
        simp only [hg, Bool.false_eq_true, if_false, List.append_nil, h]
      · simp only [hg, Bool.or_false]
    | true =>
      refine ⟨_, rfl, ?_, ?_, rfl, rfl⟩
      · unfold GroupLast
        simp only [if_true, h]
      · simp only [Bool.or_true]
  | true =>
    rw [hg] at h
    simp only [if_true] at h
    have hl : ds.Devices.getLast? = some (GrpDevice env σ) := by
      rw [h]; simp
    have hd : ds.Devices.dropLast = pre := by
      rw [h]; simp
    simp only [Bool.not_true, Bool.false_eq_true, if_false, hl, Bool.and_false]
    refine ⟨_, rfl, ?_, ?_, rfl, rfl⟩
    · unfold GroupLast
      simp only [hg, if_true, hd, List.append_assoc, List.singleton_append]
    · simp only [hg, Bool.true_or]

theorem addDevices_groupLast (env : Env) :
    ∀ (devices : List (DeviceScheduler σ)) (ds : DevicesScheduler σ)
      (pre : List (DeviceScheduler σ)), GroupLast env ds pre →
      ∃ ds1, addDevices env ds devices = some ds1 ∧ GroupLast env ds1 (pre ++ devices) ∧
        ds1.hasGroupScheduler =
          (ds.hasGroupScheduler || devices.any (fun d => d.UsingGroupScheduler)) ∧
        ds1.score = ds.score ∧ ds1.maxScore = ds.maxScore := by
  intro devices
  induction devices with
  | nil =>
    intro ds pre h
    refine ⟨ds, rfl, ?_, ?_, rfl, rfl⟩
    · rw [List.append_nil]; exact h
    · simp
  | cons d rest ih =>
    intro ds pre h
    obtain ⟨ds1, e1, g1, f1, s1, m1⟩ := addDevice_groupLast env ds pre d h
    obtain ⟨ds2, e2, g2, f2, s2, m2⟩ := ih ds1 (pre ++ [d]) g1
    refine ⟨ds2, ?_, ?_, ?_, s2.trans s1, m2.trans m1⟩
    · simp only [addDevices, e1, e2]
    · rw [List.append_assoc] at g2
      exact g2
    · rw [f2, f1]
      simp only [List.any_cons, Bool.or_assoc]

end DevicesScheduler

/-- Claim C25. Any sequence of `AddDevice` calls on an empty aggregator
succeeds, and leaves in `Devices` the added schedulers in registration order,
followed by exactly one group device, the last element, if and only if one of
the added schedulers reports `UsingGroupScheduler() == true`; the flag
`hasGroupScheduler` records this. -/
theorem addDevices_composition {σ : Type} (env : Env) (ds0 : DevicesScheduler σ)
    (devices : List (DeviceScheduler σ)) :
    DevicesScheduler.addDevices env ds0.RemoveAll devices =
      some ⟨devices ++ (if devices.any (fun d => d.UsingGroupScheduler) then [GrpDevice env σ]
          else []),
        devices.any (fun d => d.UsingGroupScheduler), [], []⟩ := by
  obtain ⟨ds1, e1, g1, f1, s1, m1⟩ := DevicesScheduler.addDevices_groupLast env devices
    (ds0.RemoveAll) [] (by simp [DevicesScheduler.GroupLast, DevicesScheduler.RemoveAll])
  rw [e1]
  unfold DevicesScheduler.GroupLast at g1
  simp only [DevicesScheduler.RemoveAll, Bool.false_or, List.nil_append] at f1 s1 m1 g1
  obtain ⟨D, hgs, sc, ms⟩ := ds1
  simp only at f1 s1 m1 g1
  subst f1 s1 m1
  rw [g1]

/-! ## The predicate of the aggregator -/

namespace DevicesScheduler

variable {σ : Type}

/-- The calls of `PodFitsDevice` that `PodFitsResources` makes, in list order:
what each scheduler returned, and the world after the last call. -/
def podFitsDevicesTrace (fillAllocateFrom : Bool) :
    List (DeviceScheduler σ) → World σ →
    Except Fault (List (Bool × List PredicateFailureReason × ℚ) × World σ)
  | [], w => .ok ([], w)
  | d :: rest, w =>
    match d.PodFitsDevice w fillAllocateFrom with
    | .error e => .error e
    | .ok (w1, fit, reasons, score) =>
      match podFitsDevicesTrace fillAllocateFrom rest w1 with
      | .error e => .error e
      | .ok (tr, w2) => .ok ((fit, reasons, score) :: tr, w2)

theorem podFitsDevicesTrace_length (fill : Bool) :
    ∀ (devs : List (DeviceScheduler σ)) (w : World σ)
      (tr : List (Bool × List PredicateFailureReason × ℚ)) (w1 : World σ),
      podFitsDevicesTrace fill devs w = .ok (tr, w1) → tr.length = devs.length := by
  intro devs
  induction devs with
  | nil =>
    intro w tr w1 h
    simp only [podFitsDevicesTrace, Except.ok.injEq, Prod.mk.injEq] at h
    rw [← h.1]
    rfl
  | cons d rest ih =>
    intro w tr w1 h
    simp only [podFitsDevicesTrace] at h
    cases hd : d.PodFitsDevice w fill with
    | error e => rw [hd] at h; cases h
    | ok res =>
      obtain ⟨w2, fit, reasons, score⟩ := res
      rw [hd] at h
      simp only at h
      cases ht : podFitsDevicesTrace fill rest w2 with
      | error e => rw [ht] at h; cases h
      | ok res2 =>
        obtain ⟨tr2, w3⟩ := res2
        rw [ht] at h
        simp only [Except.ok.injEq, Prod.mk.injEq] at h
        rw [← h.1]
        simp only [List.length_cons, ih _ _ _ ht]

theorem podFitsDevicesLoop_trace (fill : Bool) :
    ∀ (devs : List (DeviceScheduler σ)) (w : World σ) (tf : Bool)
      (trs : List PredicateFailureReason) (ts : ℚ),
      podFitsDevicesLoop fill devs w tf trs ts =
        match podFitsDevicesTrace fill devs w with
        | .error e => .error e
        | .ok (tr, w1) =>
          .ok (w1, tf && tr.all (fun r => r.1), trs ++ tr.flatMap (fun r => r.2.1),
            ts + (tr.map (fun r => r.2.2)).sum) := by
  intro devs
  induction devs with
  | nil =>
    intro w tf trs ts
    simp [podFitsDevicesLoop, podFitsDevicesTrace]
  | cons d rest ih =>
    intro w tf trs ts
    simp only [podFitsDevicesLoop, podFitsDevicesTrace]
    cases hd : d.PodFitsDevice w fill with
    | error e => rfl
    | ok res =>
      obtain ⟨w2, fit, reasons, score⟩ := res
      simp only
      rw [ih]
      cases ht : podFitsDevicesTrace fill rest w2 with
      | error e => rfl
      | ok res2 =>
        obtain ⟨tr2, w3⟩ := res2
        simp only [List.all_cons, List.flatMap_cons, List.map_cons, List.sum_cons,
          Bool.and_assoc, List.append_assoc, add_assoc]

theorem assignScore_get? (x : GoMap (GoMap ℚ)) (k1 k2 : String) (val : ℚ) (p n : String) :
    ((assignScore x k1 k2 val).getD p []).get? n =
      if k1 = p ∧ k2 = n then some val else (x.getD p []).get? n := by
  unfold assignScore
  rw [GoMap.getD_set]
  by_cases h1 : k1 = p
  · subst h1
    simp only [if_true, true_and]
    rw [GoMap.get?_set]
  · simp only [h1, if_false, false_and]

/-- What `PodFitsResources` returns and records, in terms of the calls it makes. -/
theorem podFitsResources_eq (ds : DevicesScheduler σ) (w : World σ) (fill : Bool)
    (tr : List (Bool × List PredicateFailureReason × ℚ)) (w1 : World σ)
    (h : podFitsDevicesTrace fill ds.Devices w = .ok (tr, w1)) :
    ∃ ds1, ds.PodFitsResources w fill =
        .ok (ds1, w1, tr.all (fun r => r.1), tr.flatMap (fun r => r.2.1),
          (tr.map (fun r => r.2.2)).sum) ∧
      ds1.Devices = ds.Devices ∧ ds1.hasGroupScheduler = ds.hasGroupScheduler ∧
      (∀ p n, (ds1.score.getD p []).get? n =
        if w1.podName = p ∧ w1.nodeName = n then
          some (if tr.all (fun r => r.1) = true then (tr.map (fun r => r.2.2)).sum else 0)
        else (ds.score.getD p []).get? n) ∧
      (∀ p, ds1.maxScore.get? p =
        if w1.podName = p ∧ tr.all (fun r => r.1) = true ∧
            (tr.map (fun r => r.2.2)).sum > ds.maxScore.getD p 0 then
          some ((tr.map (fun r => r.2.2)).sum)
        else ds.maxScore.get? p) := by
  unfold PodFitsResources
  rw [podFitsDevicesLoop_trace, h]
  simp only [Bool.true_and, List.nil_append, zero_add]
  refine ⟨_, rfl, ?_, ?_, ?_, ?_⟩
  · split_ifs <;> rfl
  · split_ifs <;> rfl
  · intro p n
    by_cases hf : (tr.all (fun r => r.1)) = true
    · simp only [hf, if_true]
      rw [assignScore_get?, assignScore_get?]
      split_ifs <;> rfl
    · simp only [hf, Bool.false_eq_true, if_false]
      rw [assignScore_get?, assignScore_get?]
      split_ifs <;> rfl
  · intro p
    by_cases hf : (tr.all (fun r => r.1)) = true
    · simp only [hf, if_true, true_and]
      by_cases hgt : (tr.map (fun r => r.2.2)).sum > ds.maxScore.getD w1.podName 0
      · simp only [hgt, if_true]
        rw [GoMap.get?_set]
        by_cases hp : w1.podName = p
        · subst hp
          simp only [if_true, true_and, hgt]
        · simp only [hp, if_false, false_and]
      · simp only [hgt, if_false]
        by_cases hp : w1.podName = p
        · subst hp
          simp only [true_and, hgt, if_false]
        · simp only [hp, false_and, if_false]
    · simp only [hf, Bool.false_eq_true, if_false, false_and, and_false]

end DevicesScheduler

/-- A plug-in scheduler for the scenarios of the aggregator. Every method
appends the name of the scheduler to the log that the world keeps and returns
fixed values: `PodFitsDevice` returns `fit` and, as the score, the tenth of the
free quantity of the resource `x` of the node; the other methods return `err`. -/
def scenarioDevice (name : String) (fit : Bool) (err : Option DeviceError) :
    DeviceScheduler (List String) :=
  { GetName := name
    UsingGroupScheduler := false
    PodFitsDevice := fun w _ =>
      .ok ({ w with ext := w.ext ++ [name] }, fit, [],
        ((w.node.Allocatable.getD "x" 0 - w.node.Used.getD "x" 0 : Int) : ℚ) / 10)
    PodAllocate := fun w => .ok ({ w with ext := w.ext ++ [name] }, err)
    TakePodResources := fun w => .ok ({ w with ext := w.ext ++ [name] }, err)
    ReturnPodResources := fun w => .ok ({ w with ext := w.ext ++ [name] }, err) }

/-- The world of a call for the pod `p` and the node `node`, which has `alloc`
units of the resource `x` and `used` units of it in use; the log is empty. -/
def scenarioWorld (node : String) (alloc used : Int) : World (List String) :=
  ⟨"p", node, ⟨[], []⟩, ⟨[("x", alloc)], [("x", used)], []⟩, []⟩

/-- An aggregator with empty tables. -/
def scenarioScheduler (devices : List (DeviceScheduler (List String))) :
    DevicesScheduler (List String) :=
  ⟨devices, false, [], []⟩

set_option maxRecDepth 100000 in
/-- Claim C26, as stated, fails. With a first scheduler that fits with the
score 9/10 and a second one that does not fit, with the same score,
`PodFitsResources` returns `fits = false` and the total 9/5, records the score 0
for the pod on the node and leaves `maxScore[pod]` without entry: it reads 0,
not `max(0, 9/5)`. -/
theorem podFitsResources_keeps_maxScore_on_failure :
    isValue ((scenarioScheduler [scenarioDevice "d1" true none,
      scenarioDevice "d2" false none]).PodFitsResources (scenarioWorld "n" 9 0) false) = true ∧
    (okValue ((scenarioScheduler [scenarioDevice "d1" true none,
      scenarioDevice "d2" false none]).PodFitsResources (scenarioWorld "n" 9 0) false)
      (scenarioScheduler [], scenarioWorld "" 0 0, true, [], 0)).2.2.1 = false ∧
    (okValue ((scenarioScheduler [scenarioDevice "d1" true none,
      scenarioDevice "d2" false none]).PodFitsResources (scenarioWorld "n" 9 0) false)
      (scenarioScheduler [], scenarioWorld "" 0 0, true, [], 0)).2.2.2.2 = 9 / 5 ∧
    (okValue ((scenarioScheduler [scenarioDevice "d1" true none,
      scenarioDevice "d2" false none]).PodFitsResources (scenarioWorld "n" 9 0) false)
      (scenarioScheduler [], scenarioWorld "" 0 0, true, [], 0)).1.maxScore = [] ∧
    (okValue ((scenarioScheduler [scenarioDevice "d1" true none,
      scenarioDevice "d2" false none]).PodFitsResources (scenarioWorld "n" 9 0) false)
      (scenarioScheduler [], scenarioWorld "" 0 0, true, [], 0)).1.score = [("p", [("n", 0)])] ∧
    (okValue ((scenarioScheduler [scenarioDevice "d1" true none,
      scenarioDevice "d2" false none]).PodFitsResources (scenarioWorld "n" 9 0) false)
      (scenarioScheduler [], scenarioWorld "" 0 0, true, [], 0)).2.1.ext = ["d1", "d2"] ∧
    max (GoMap.getD ([] : GoMap ℚ) "p" 0) (9 / 5) = 9 / 5 := by
  decide!

/-- Claim C26, as amended. `PodFitsResources` calls `PodFitsDevice` of every
scheduler in list order, each on the pod and the node as the previous call
left them, without short-circuiting (`tr` holds one result per scheduler). It
returns `fits` = the conjunction of the per-scheduler fits, `score` = the sum of
the per-scheduler scores and `reasons` = the concatenation of the
per-scheduler reasons in list order. Afterwards `score[pod][node]` is the total
score if the pod fits and 0 otherwise, and `maxScore[pod]` is `max(previous
maxScore[pod], total score)` if the pod fits and is unchanged otherwise. -/
theorem podFitsResources_records {σ : Type} (ds : DevicesScheduler σ) (w : World σ)
    (fill : Bool) (tr : List (Bool × List PredicateFailureReason × ℚ)) (w1 : World σ)
    (h : DevicesScheduler.podFitsDevicesTrace fill ds.Devices w = .ok (tr, w1)) :
    tr.length = ds.Devices.length ∧
    ∃ ds1, ds.PodFitsResources w fill =
        .ok (ds1, w1, tr.all (fun r => r.1), tr.flatMap (fun r => r.2.1),
          (tr.map (fun r => r.2.2)).sum) ∧
      (ds1.score.getD w1.podName []).get? w1.nodeName =
        some (if tr.all (fun r => r.1) = true then (tr.map (fun r => r.2.2)).sum else 0) ∧
      ds1.maxScore.getD w1.podName 0 =
        (if tr.all (fun r => r.1) = true then
          max (ds.maxScore.getD w1.podName 0) ((tr.map (fun r => r.2.2)).sum)
        else ds.maxScore.getD w1.podName 0) := by
  refine ⟨DevicesScheduler.podFitsDevicesTrace_length fill _ _ _ _ h, ?_⟩
  obtain ⟨ds1, e, -, -, hs, hm⟩ := DevicesScheduler.podFitsResources_eq ds w fill tr w1 h
  refine ⟨ds1, e, ?_, ?_⟩
  · rw [hs]
    simp only [and_self, if_true]
  · unfold GoMap.getD
    rw [hm]
    simp only [true_and]
    by_cases hf : (tr.all (fun r => r.1)) = true
    · simp only [hf, if_true, true_and]
      by_cases hgt : (tr.map (fun r => r.2.2)).sum > (ds.maxScore.get? w1.podName).getD 0
      · have hgt2 : (tr.map (fun r => r.2.2)).sum > GoMap.getD ds.maxScore w1.podName 0 := hgt
        simp only [hgt2, if_true, Option.getD_some]
        exact (max_eq_right (le_of_lt hgt)).symm
      · have hgt2 : ¬ (tr.map (fun r => r.2.2)).sum > GoMap.getD ds.maxScore w1.podName 0 := hgt
        simp only [hgt2, if_false]
        exact (max_eq_left (not_lt.1 hgt)).symm
    · simp only [hf, Bool.false_eq_true, if_false, false_and]

set_option maxRecDepth 100000 in
theorem podFitsResources_records_witness :
    DevicesScheduler.podFitsDevicesTrace false
      (scenarioScheduler [scenarioDevice "d1" true none, scenarioDevice "d2" true none]).Devices
      (scenarioWorld "n" 9 0) =
      .ok ([(true, [], 9 / 10), (true, [], 9 / 10)],
        { scenarioWorld "n" 9 0 with ext := ["d1", "d2"] }) ∧
    ∃ ds1, (scenarioScheduler [scenarioDevice "d1" true none,
        scenarioDevice "d2" true none]).PodFitsResources (scenarioWorld "n" 9 0) false =
        .ok (ds1, { scenarioWorld "n" 9 0 with ext := ["d1", "d2"] }, true, [], 9 / 10 + (9 / 10 + 0)) ∧
      (ds1.score.getD "p" []).get? "n" = some (9 / 10 + (9 / 10 + 0)) ∧
      ds1.maxScore.getD "p" 0 = max 0 (9 / 10 + (9 / 10 + 0)) :=
  ⟨by rfl,
    (podFitsResources_records
      (scenarioScheduler [scenarioDevice "d1" true none, scenarioDevice "d2" true none])
      (scenarioWorld "n" 9 0) false [(true, [], 9 / 10), (true, [], 9 / 10)]
      { scenarioWorld "n" 9 0 with ext := ["d1", "d2"] } (by rfl)).2⟩

/-! ## The priority of a pod on a node -/

theorem GoMap.get?_delete {V : Type} (m : GoMap V) (k x : String) :
    (m.delete k).get? x = if x = k then none else m.get? x := by
  induction m with
  | nil => simp [GoMap.delete, GoMap.get?]
  | cons q t ih =>
    obtain ⟨a, v⟩ := q
    unfold GoMap.delete at ih ⊢
    by_cases hak : a = k
    · subst hak
      simp only [List.filter_cons, decide_True, Bool.not_true, Bool.false_eq_true, if_false, ih,
        GoMap.get?]
      by_cases hx : x = a
      · simp [hx]
      · have : ¬ a = x := fun e => hx e.symm
        simp [hx, this]
    · simp only [List.filter_cons, hak, decide_False, Bool.not_false, if_true, GoMap.get?, ih]
      by_cases hx : a = x
      · subst hx
        simp [hak]
      · simp only [hx, if_false]

namespace DevicesScheduler

variable {σ : Type}

/-- The priority of a pod on a node with a recorded score, in terms of the
plain lookup `maxScore[pod]`. -/
theorem podPriority_of_score (ds : DevicesScheduler σ) (p n : String) (s : ℚ)
    (h : (ds.score.getD p []).get? n = some s) :
    ds.PodPriority p n =
      if ds.maxScore.getD p 0 ≠ 0 then s / ds.maxScore.getD p 0 else 0 := by
  unfold PodPriority
  rw [h]
  unfold GoMap.getD
  cases hm : ds.maxScore.get? p with
  | none => simp
  | some m => simp

/-- What a call of `PodFitsResources` that returns has done. -/
theorem podFitsResources_trace (ds : DevicesScheduler σ) (w : World σ) (fill : Bool)
    (ds1 : DevicesScheduler σ) (w1 : World σ) (fit : Bool) (rs : List PredicateFailureReason)
    (total : ℚ) (h : ds.PodFitsResources w fill = .ok (ds1, w1, fit, rs, total)) :
    ∃ tr, podFitsDevicesTrace fill ds.Devices w = .ok (tr, w1) ∧
      fit = tr.all (fun r => r.1) ∧ rs = tr.flatMap (fun r => r.2.1) ∧
      total = (tr.map (fun r => r.2.2)).sum ∧
      ds1.Devices = ds.Devices ∧ ds1.hasGroupScheduler = ds.hasGroupScheduler ∧
      (∀ p n, (ds1.score.getD p []).get? n =
        if w1.podName = p ∧ w1.nodeName = n then some (if fit = true then total else 0)
        else (ds.score.getD p []).get? n) ∧
      (∀ p, ds1.maxScore.get? p =
        if w1.podName = p ∧ fit = true ∧ total > ds.maxScore.getD p 0 then some total
        else ds.maxScore.get? p) := by
  cases ht : podFitsDevicesTrace fill ds.Devices w with
  | error e =>
    unfold PodFitsResources at h
    rw [podFitsDevicesLoop_trace, ht] at h
    cases h
  | ok res =>
    obtain ⟨tr, w2⟩ := res
    obtain ⟨ds2, e, a1, a2, a3, a4⟩ := podFitsResources_eq ds w fill tr w2 ht
    rw [e] at h
    simp only [Except.ok.injEq, Prod.mk.injEq] at h
    obtain ⟨rfl, rfl, rfl, rfl, rfl⟩ := h
    exact ⟨tr, rfl, rfl, rfl, rfl, a1, a2, a3, a4⟩

/-- The schedulers return scores that are not negative. -/
def NonnegDevices (devs : List (DeviceScheduler σ)) : Prop :=
  ∀ d ∈ devs, ∀ (w : World σ) (fill : Bool) (w1 : World σ) (fit : Bool)
    (rs : List PredicateFailureReason) (score : ℚ),
    d.PodFitsDevice w fill = .ok (w1, fit, rs, score) → 0 ≤ score

theorem podFitsDevicesTrace_nonneg (fill : Bool) :
    ∀ (devs : List (DeviceScheduler σ)) (w : World σ)
      (tr : List (Bool × List PredicateFailureReason × ℚ)) (w1 : World σ),
      NonnegDevices devs → podFitsDevicesTrace fill devs w = .ok (tr, w1) →
      0 ≤ (tr.map (fun r => r.2.2)).sum := by
  intro devs
  induction devs with
  | nil =>
    intro w tr w1 _ h
    simp only [podFitsDevicesTrace, Except.ok.injEq, Prod.mk.injEq] at h
    rw [← h.1]
    simp
  | cons d rest ih =>
    intro w tr w1 hn h
    simp only [podFitsDevicesTrace] at h
    cases hd : d.PodFitsDevice w fill with
    | error e => rw [hd] at h; cases h
    | ok res =>
      obtain ⟨w2, fit, reasons, score⟩ := res
      rw [hd] at h
      simp only at h
      cases ht : podFitsDevicesTrace fill rest w2 with
      | error e => rw [ht] at h; cases h
      | ok res2 =>
        obtain ⟨tr2, w3⟩ := res2
        rw [ht] at h
        simp only [Except.ok.injEq, Prod.mk.injEq] at h
        rw [← h.1]
        simp only [List.map_cons, List.sum_cons]
        have h1 := hn d (List.mem_cons_self _ _) w fill w2 fit reasons score hd
        have h2 := ih w2 tr2 w3 (fun d hd => hn d (List.mem_cons_of_mem _ hd)) ht
        linarith

/-- The states of the aggregator that are reachable from empty tables through
`PodFitsResources`, `PodAllocate` and `RemovePodFromScore`. -/
inductive Reachable : DevicesScheduler σ → Prop where
  | init (devices : List (DeviceScheduler σ)) (flag : Bool) : Reachable ⟨devices, flag, [], []⟩
  | fits (ds : DevicesScheduler σ) (w : World σ) (fill : Bool) (ds1 : DevicesScheduler σ)
      (w1 : World σ) (fit : Bool) (rs : List PredicateFailureReason) (total : ℚ) :
      Reachable ds → ds.PodFitsResources w fill = .ok (ds1, w1, fit, rs, total) → Reachable ds1
  | allocate (ds : DevicesScheduler σ) (w : World σ) (ds1 : DevicesScheduler σ)
      (w1 : World σ) (err : Option DeviceError) :
      Reachable ds → ds.PodAllocate w = .ok (ds1, w1, err) → Reachable ds1
  | remove (ds : DevicesScheduler σ) (p : String) :
      Reachable ds → Reachable (ds.RemovePodFromScore p)

/-- Every recorded score is between 0 and the maximum recorded for its pod. -/
def ScoresWithinMax (ds : DevicesScheduler σ) : Prop :=
  (∀ p, 0 ≤ ds.maxScore.getD p 0) ∧
  ∀ p n s, (ds.score.getD p []).get? n = some s → 0 ≤ s ∧ s ≤ ds.maxScore.getD p 0

theorem scoresWithinMax_remove (ds : DevicesScheduler σ) (q : String)
    (h : ScoresWithinMax ds) : ScoresWithinMax (ds.RemovePodFromScore q) := by
  constructor
  · intro p
    unfold RemovePodFromScore GoMap.getD
    simp only
    rw [GoMap.get?_delete]
    by_cases e : p = q
    · simp only [e, if_true, Option.getD_none, le_refl]
    · simp only [e, if_false]
      exact h.1 p
  · intro p n s hs
    unfold RemovePodFromScore GoMap.getD at hs ⊢
    simp only at hs ⊢
    rw [GoMap.get?_delete] at hs ⊢
    by_cases e : p = q
    · simp only [e, if_true, Option.getD_none] at hs
      cases hs
    · simp only [e, if_false] at hs ⊢
      exact h.2 p n s hs

theorem podAllocate_cases (ds : DevicesScheduler σ) (w : World σ) (ds1 : DevicesScheduler σ)
    (w1 : World σ) (err : Option DeviceError) (h : ds.PodAllocate w = .ok (ds1, w1, err)) :
    (err = none ∧ ds1 = ds.RemovePodFromScore w1.podName ∧
      forwardLoop (fun d => d.PodAllocate) ds.Devices w = .ok (w1, none)) ∨
    (∃ e, err = some e ∧ ds1 = ds ∧
      forwardLoop (fun d => d.PodAllocate) ds.Devices w = .ok (w1, some e)) := by
  unfold PodAllocate at h
  cases hf : forwardLoop (fun d => d.PodAllocate) ds.Devices w with
  | error e => rw [hf] at h; cases h
  | ok res =>
    obtain ⟨w2, er⟩ := res
    rw [hf] at h
    cases er with
    | none =>
      simp only [Except.ok.injEq, Prod.mk.injEq] at h
      obtain ⟨rfl, rfl, rfl⟩ := h
      exact Or.inl ⟨rfl, rfl, rfl⟩
    | some e =>
      simp only [Except.ok.injEq, Prod.mk.injEq] at h
      obtain ⟨rfl, rfl, rfl⟩ := h
      exact Or.inr ⟨e, rfl, rfl, rfl⟩

theorem reachable_devices_inv (ds : DevicesScheduler σ) (h : Reachable ds) :
    NonnegDevices ds.Devices → ScoresWithinMax ds := by
  induction h with
  | init devices flag =>
    intro _
    constructor
    · intro p
      simp [GoMap.getD, GoMap.get?]
    · intro p n s hs
      simp [GoMap.getD, GoMap.get?] at hs
  | fits ds w fill ds1 w1 fit rs total _ hcall ih =>
    intro hn
    obtain ⟨tr, ht, -, -, htot, hd, -, hs, hm⟩ := podFitsResources_trace ds w fill ds1 w1 fit rs
      total hcall
    rw [hd] at hn
    obtain ⟨hpos, hinv⟩ := ih hn
    have hnn : 0 ≤ total := by
      rw [htot]
      exact podFitsDevicesTrace_nonneg fill _ _ _ _ hn ht
    have hmax : ∀ p, ds.maxScore.getD p 0 ≤ ds1.maxScore.getD p 0 := by
      intro p
      unfold GoMap.getD
      rw [hm p]
      split_ifs with hc
      · exact le_of_lt hc.2.2
      · exact le_refl _
    refine ⟨fun p => le_trans (hpos p) (hmax p), ?_⟩
    intro p n s hsn
    rw [hs p n] at hsn
    split_ifs at hsn with hc hf
    · -- the entry written for a pod that fits
      simp only [Option.some.injEq] at hsn
      subst hsn
      refine ⟨hnn, ?_⟩
      unfold GoMap.getD
      rw [hm p]
      by_cases hgt : total > GoMap.getD ds.maxScore p 0
      · simp only [hc.1, hf, hgt, and_self, if_true, Option.getD_some, le_refl]
      · simp only [hc.1, hf, hgt, and_false, if_false]
        exact not_lt.1 hgt
    · -- the entry 0 written for a pod that does not fit
      simp only [Option.some.injEq] at hsn
      subst hsn
      exact ⟨le_refl _, le_trans (hpos p) (hmax p)⟩
    · obtain ⟨a, b⟩ := hinv p n s hsn
      exact ⟨a, le_trans b (hmax p)⟩
  | allocate ds w ds1 w1 err _ hcall ih =>
    intro hn
    rcases podAllocate_cases ds w ds1 w1 err hcall with ⟨-, e, -⟩ | ⟨_, -, e, -⟩
    · rw [e] at hn ⊢
      exact scoresWithinMax_remove ds _ (ih hn)
    · rw [e] at hn ⊢
      exact ih hn
  | remove ds p _ ih =>
    intro hn
    exact scoresWithinMax_remove ds p (ih hn)

end DevicesScheduler

/-- A plug-in scheduler whose score is never negative: every pod fits, with the
tenth of the absolute value of the node's quantity of the resource `x`. -/
def nonnegDevice (name : String) : DeviceScheduler (List String) :=
  { scenarioDevice name true none with
    PodFitsDevice := fun w _ =>
      .ok (w, true, [], ((w.node.Allocatable.getD "x" 0).natAbs : ℚ) / 10) }

theorem nonnegDevice_nonneg (name : String) :
    DevicesScheduler.NonnegDevices [nonnegDevice name] := by
  intro d hd w fill w1 fit rs score h
  simp only [List.mem_singleton] at hd
  subst hd
  simp only [nonnegDevice, Except.ok.injEq, Prod.mk.injEq] at h
  rw [← h.2.2.2]
  positivity

/-- The aggregator after a call of `PodFitsResources` without
`fillAllocateFrom`; the aggregator itself if the call does not return. -/
def afterFits (ds : DevicesScheduler (List String)) (w : World (List String)) :
    DevicesScheduler (List String) :=
  (okValue (ds.PodFitsResources w false) (ds, w, false, [], 0)).1

theorem reachable_afterFits (ds : DevicesScheduler (List String)) (w : World (List String))
    (h : DevicesScheduler.Reachable ds) (hv : isValue (ds.PodFitsResources w false) = true) :
    DevicesScheduler.Reachable (afterFits ds w) := by
  have e := eq_ok_okValue (ds.PodFitsResources w false) (ds, w, false, [], 0) hv
  exact DevicesScheduler.Reachable.fits ds w false _ _ _ _ _ h e

set_option maxRecDepth 100000 in
/-- Claim C27, failing input. The comment of `PodPriority` promises a number
between 0 and 1; the function returns the quotient without bounding it. With
one scheduler whose score is the tenth of the free quantity of the node, the
pod is evaluated on the node `b` (score 1/2) and on the node `a`, which is
over-committed (score -1): `maxScore[pod]` is 1/2 and `PodPriority(pod, a)` is
-2. -/
theorem podPriority_negative :
    DevicesScheduler.Reachable
      (afterFits (afterFits (scenarioScheduler [scenarioDevice "d" true none])
        (scenarioWorld "b" 5 0)) (scenarioWorld "a" 0 10)) ∧
    (afterFits (afterFits (scenarioScheduler [scenarioDevice "d" true none])
      (scenarioWorld "b" 5 0)) (scenarioWorld "a" 0 10)).maxScore = [("p", 1 / 2)] ∧
    (afterFits (afterFits (scenarioScheduler [scenarioDevice "d" true none])
      (scenarioWorld "b" 5 0)) (scenarioWorld "a" 0 10)).score =
      [("p", [("b", 1 / 2), ("a", -1)])] ∧
    (afterFits (afterFits (scenarioScheduler [scenarioDevice "d" true none])
      (scenarioWorld "b" 5 0)) (scenarioWorld "a" 0 10)).PodPriority "p" "a" = -2 :=
  ⟨reachable_afterFits _ _ (reachable_afterFits _ _ (DevicesScheduler.Reachable.init _ _)
      (by decide!)) (by decide!), by decide!, by decide!, by decide!⟩

/-- The priority on the states without a negative score. `PodPriority(pod, node)`
returns `score[pod][node] / maxScore[pod]`, which is 1 for a node whose score is
the maximum, and returns 0 when `maxScore[pod]` is 0 or when the pod's `maxScore`
entry or the `(pod, node)` score entry is missing. In every state reachable from
empty tables through `PodFitsResources`, `PodAllocate` and `RemovePodFromScore`
it is a number between 0 and 1, when the schedulers return scores that are not
negative. -/
theorem podPriority_range {σ : Type} (ds : DevicesScheduler σ) (p n : String)
    (hr : DevicesScheduler.Reachable ds) (hn : DevicesScheduler.NonnegDevices ds.Devices) :
    0 ≤ ds.PodPriority p n ∧ ds.PodPriority p n ≤ 1 ∧
    (∀ m s, ds.maxScore.get? p = some m → (ds.score.getD p []).get? n = some s → m ≠ 0 →
      ds.PodPriority p n = s / m) ∧
    (∀ m, ds.maxScore.get? p = some m → (ds.score.getD p []).get? n = some m → m ≠ 0 →
      ds.PodPriority p n = 1) ∧
    (ds.maxScore.get? p = some 0 → ds.PodPriority p n = 0) ∧
    (ds.maxScore.get? p = none → ds.PodPriority p n = 0) ∧
    ((ds.score.getD p []).get? n = none → ds.PodPriority p n = 0) := by
  obtain ⟨hpos, hinv⟩ := DevicesScheduler.reachable_devices_inv ds hr hn
  have hrange : 0 ≤ ds.PodPriority p n ∧ ds.PodPriority p n ≤ 1 := by
    cases hs : (ds.score.getD p []).get? n with
    | none =>
      have e : ds.PodPriority p n = 0 := by
        unfold DevicesScheduler.PodPriority
        rw [hs]
        cases ds.maxScore.get? p <;> rfl
      rw [e]
      exact ⟨le_refl _, zero_le_one⟩
    | some s =>
      obtain ⟨a, b⟩ := hinv p n s hs
      rw [DevicesScheduler.podPriority_of_score ds p n s hs]
      split_ifs with hm
      · have hm0 : 0 < ds.maxScore.getD p 0 := lt_of_le_of_ne (hpos p) (fun e => hm e.symm)
        exact ⟨div_nonneg a (hpos p), (div_le_one hm0).2 b⟩
      · exact ⟨le_refl _, zero_le_one⟩
  refine ⟨hrange.1, hrange.2, ?_, ?_, ?_, ?_, ?_⟩
  · intro m s h1 h2 h3
    unfold DevicesScheduler.PodPriority
    simp only [h1, h2, h3, ne_eq, not_false_eq_true, if_true]
  · intro m h1 h2 h3
    unfold DevicesScheduler.PodPriority
    simp only [h1, h2, h3, ne_eq, not_false_eq_true, if_true]
    exact div_self h3
  · intro h1
    unfold DevicesScheduler.PodPriority
    simp only [h1]
    cases (ds.score.getD p []).get? n <;> simp
  · intro h1
    unfold DevicesScheduler.PodPriority
    simp only [h1]
  · intro h1
    unfold DevicesScheduler.PodPriority
    simp only [h1]
    cases ds.maxScore.get? p <;> rfl

/-- Scenario S6: the pod is evaluated on the node `a`, total 7/10, and on the
node `b`, total 9/10. -/
def stateS6 : DevicesScheduler (List String) :=
  afterFits (afterFits (scenarioScheduler [nonnegDevice "d"]) (scenarioWorld "a" 7 0))
    (scenarioWorld "b" 9 0)

set_option maxRecDepth 100000 in
theorem stateS6_reachable : DevicesScheduler.Reachable stateS6 :=
  reachable_afterFits _ _ (reachable_afterFits _ _ (DevicesScheduler.Reachable.init _ _)
    (by decide!)) (by decide!)

theorem stateS6_nonneg : DevicesScheduler.NonnegDevices stateS6.Devices := by
  have e : stateS6.Devices = [nonnegDevice "d"] := rfl
  rw [e]
  exact nonnegDevice_nonneg "d"

set_option maxRecDepth 100000 in
theorem podPriority_range_witness :
    DevicesScheduler.Reachable stateS6 ∧
    DevicesScheduler.NonnegDevices stateS6.Devices ∧
    stateS6.PodPriority "p" "a" = 7 / 9 ∧
    0 ≤ stateS6.PodPriority "p" "a" ∧ stateS6.PodPriority "p" "a" ≤ 1 :=
  ⟨stateS6_reachable, stateS6_nonneg, by decide!,
    (podPriority_range stateS6 "p" "a" stateS6_reachable stateS6_nonneg).1,
    (podPriority_range stateS6 "p" "a" stateS6_reachable stateS6_nonneg).2.1⟩

/-! ## The normalization of the priorities -/

namespace DevicesScheduler

variable {σ : Type}

/-- A sequence of calls of `PodFitsResources`, one per world of the list. With
the aggregator after the last call, the evaluations made: the name of the pod,
the name of the node, the fit and the total score of each call. -/
def fitsAll (fill : Bool) :
    DevicesScheduler σ → List (World σ) →
    Except Fault (DevicesScheduler σ × List (String × String × Bool × ℚ))
  | ds, [] => .ok (ds, [])
  | ds, w :: rest =>
    match ds.PodFitsResources w fill with
    | .error e => .error e
    | .ok (ds1, w1, fit, _, total) =>
      match fitsAll fill ds1 rest with
      | .error e => .error e
      | .ok (ds2, evs) => .ok (ds2, (w1.podName, w1.nodeName, fit, total) :: evs)

/-- The value that `maxScore[pod]` takes over a sequence of evaluations of the
pod, from the value `m`. -/
def bestTotal (m : ℚ) (evs : List (String × String × Bool × ℚ)) : ℚ :=
  evs.foldl (fun m ev => if ev.2.2.1 = true ∧ ev.2.2.2 > m then ev.2.2.2 else m) m

theorem bestTotal_ge : ∀ (evs : List (String × String × Bool × ℚ)) (m : ℚ),
    m ≤ bestTotal m evs := by
  intro evs
  induction evs with
  | nil => intro m; exact le_refl _
  | cons ev rest ih =>
    intro m
    simp only [bestTotal, List.foldl_cons]
    split_ifs with h
    · exact le_trans (le_of_lt h.2) (ih _)
    · exact ih _

theorem bestTotal_fit_le : ∀ (evs : List (String × String × Bool × ℚ)) (m : ℚ),
    ∀ ev ∈ evs, ev.2.2.1 = true → ev.2.2.2 ≤ bestTotal m evs := by
  intro evs
  induction evs with
  | nil => intro m ev h; cases h
  | cons e rest ih =>
    intro m ev hev hfit
    simp only [bestTotal, List.foldl_cons]
    rcases List.mem_cons.1 hev with rfl | hev
    · split_ifs with h
      · exact bestTotal_ge rest _
      · have : ev.2.2.2 ≤ m := by
          by_contra hc
          exact h ⟨hfit, not_le.1 hc⟩
        exact le_trans this (bestTotal_ge rest _)
    · exact ih _ ev hev hfit

theorem bestTotal_attained : ∀ (evs : List (String × String × Bool × ℚ)) (m : ℚ),
    bestTotal m evs = m ∨ ∃ ev ∈ evs, ev.2.2.1 = true ∧ ev.2.2.2 = bestTotal m evs := by
  intro evs
  induction evs with
  | nil => intro m; exact Or.inl rfl
  | cons e rest ih =>
    intro m
    simp only [bestTotal, List.foldl_cons]
    split_ifs with h
    · rcases ih e.2.2.2 with h1 | ⟨ev, hev, h2, h3⟩
      · right
        exact ⟨e, List.mem_cons_self _ _, h.1, h1.symm⟩
      · right
        exact ⟨ev, List.mem_cons_of_mem _ hev, h2, h3⟩
    · rcases ih m with h1 | ⟨ev, hev, h2, h3⟩
      · exact Or.inl h1
      · right
        exact ⟨ev, List.mem_cons_of_mem _ hev, h2, h3⟩

/-- The tables after a sequence of evaluations of the pod `p` on distinct nodes. -/
theorem fitsAll_state (fill : Bool) (p : String) :
    ∀ (ws : List (World σ)) (ds ds2 : DevicesScheduler σ)
      (evs : List (String × String × Bool × ℚ)),
      fitsAll fill ds ws = .ok (ds2, evs) → (∀ ev ∈ evs, ev.1 = p) →
      (evs.map (fun ev => ev.2.1)).Nodup →
      ds2.maxScore.getD p 0 = bestTotal (ds.maxScore.getD p 0) evs ∧
      (∀ ev ∈ evs, (ds2.score.getD p []).get? ev.2.1 =
        some (if ev.2.2.1 = true then ev.2.2.2 else 0)) ∧
      (∀ n, n ∉ evs.map (fun ev => ev.2.1) →
        (ds2.score.getD p []).get? n = (ds.score.getD p []).get? n) := by
  intro ws
  induction ws with
  | nil =>
    intro ds ds2 evs h _ _
    simp only [fitsAll, Except.ok.injEq, Prod.mk.injEq] at h
    obtain ⟨rfl, rfl⟩ := h
    refine ⟨rfl, ?_, fun n _ => rfl⟩
    intro ev hev
    cases hev
  | cons w rest ih =>
    intro ds ds2 evs h hpod hnd
    simp only [fitsAll] at h
    cases hc : ds.PodFitsResources w fill with
    | error e => rw [hc] at h; cases h
    | ok res =>
      obtain ⟨ds1, w1, fit, rs, total⟩ := res
      rw [hc] at h
      simp only at h
      cases hr : fitsAll fill ds1 rest with
      | error e => rw [hr] at h; cases h
      | ok res2 =>
        obtain ⟨ds3, evs1⟩ := res2
        rw [hr] at h
        simp only [Except.ok.injEq, Prod.mk.injEq] at h
        obtain ⟨rfl, rfl⟩ := h
        obtain ⟨tr, -, -, -, -, -, -, hs, hm⟩ := podFitsResources_trace ds w fill ds1 w1 fit rs
          total hc
        have hp1 : w1.podName = p := hpod _ (List.mem_cons_self _ _)
        simp only [List.map_cons, List.nodup_cons] at hnd
        obtain ⟨i1, i2, i3⟩ := ih ds1 ds3 evs1 hr
          (fun ev hev => hpod ev (List.mem_cons_of_mem _ hev)) hnd.2
        refine ⟨?_, ?_, ?_⟩
        · rw [i1]
          simp only [bestTotal, List.foldl_cons]
          congr 1
          have e : ds1.maxScore.getD p 0 = (ds1.maxScore.get? p).getD 0 := rfl
          rw [e, hm p]
          by_cases hgt : fit = true ∧ total > ds.maxScore.getD p 0
          · simp only [hp1, hgt, and_self, if_true, Option.getD_some]
          · simp only [hp1, hgt, and_false, if_false]
            rfl
        · intro ev hev
          rcases List.mem_cons.1 hev with rfl | hev
          · simp only
            rw [i3 _ hnd.1, hs p w1.nodeName]
            simp only [hp1, and_self, if_true]
          · exact i2 ev hev
        · intro n hn
          simp only [List.map_cons, List.mem_cons, not_or] at hn
          rw [i3 n hn.2, hs p n]
          have : ¬ (w1.podName = p ∧ w1.nodeName = n) := fun hc => hn.1 hc.2.symm
          simp only [this, if_false]

end DevicesScheduler

set_option maxRecDepth 100000 in
/-- Claim C28, failing input. The comment of `PodPriority` promises 1 for the
node with the maximum score; `PodFitsResources` overwrites `score[pod][node]`
and never lowers `maxScore[pod]`. The node `a` fits with the total 9/10 and
then with the total 1/2: the priority of the one evaluated node is 5/9, not 1.
And a total that is not zero may be negative: the over-committed node `a` fits
with the total -1, `maxScore` gets no entry and the priority is 0. -/
theorem priority_normalization_fails :
    (okValue (DevicesScheduler.fitsAll false (scenarioScheduler [scenarioDevice "d" true none])
      [scenarioWorld "a" 9 0, scenarioWorld "a" 9 4])
      (scenarioScheduler [], [])).2 = [("p", "a", true, 9 / 10), ("p", "a", true, 1 / 2)] ∧
    (okValue (DevicesScheduler.fitsAll false (scenarioScheduler [scenarioDevice "d" true none])
      [scenarioWorld "a" 9 0, scenarioWorld "a" 9 4])
      (scenarioScheduler [], [])).1.PodPriority "p" "a" = 5 / 9 ∧
    (okValue (DevicesScheduler.fitsAll false (scenarioScheduler [scenarioDevice "d" true none])
      [scenarioWorld "a" 0 10]) (scenarioScheduler [], [])).2 = [("p", "a", true, -1)] ∧
    (okValue (DevicesScheduler.fitsAll false (scenarioScheduler [scenarioDevice "d" true none])
      [scenarioWorld "a" 0 10]) (scenarioScheduler [], [])).1.PodPriority "p" "a" = 0 := by
  decide!

/-- The normalization when no node is evaluated twice. After a sequence of
`PodFitsResources` calls for a pod whose `maxScore` entry was cleared, in which no node is evaluated twice, if
at least one node fit the pod with a positive total score, then the maximum
over the evaluated nodes of `PodPriority(pod, node)` is 1: some evaluated node
has the priority 1 and every evaluated node has a priority of at most 1. -/
theorem priority_normalization {σ : Type} (fill : Bool) (p : String)
    (ds ds2 : DevicesScheduler σ) (ws : List (World σ))
    (evs : List (String × String × Bool × ℚ))
    (h : DevicesScheduler.fitsAll fill ds ws = .ok (ds2, evs))
    (hclear : ds.maxScore.get? p = none)
    (hpod : ∀ ev ∈ evs, ev.1 = p)
    (hnd : (evs.map (fun ev => ev.2.1)).Nodup)
    (hpos : ∃ ev ∈ evs, ev.2.2.1 = true ∧ 0 < ev.2.2.2) :
    (∃ ev ∈ evs, ds2.PodPriority p ev.2.1 = 1) ∧
    ∀ ev ∈ evs, ds2.PodPriority p ev.2.1 ≤ 1 := by
  obtain ⟨hm, hs, -⟩ := DevicesScheduler.fitsAll_state fill p ws ds ds2 evs h hpod hnd
  have h0 : ds.maxScore.getD p 0 = 0 := by
    unfold GoMap.getD
    rw [hclear]
    rfl
  rw [h0] at hm
  obtain ⟨ev0, hev0, hfit0, hpos0⟩ := hpos
  have hM : 0 < ds2.maxScore.getD p 0 := by
    rw [hm]
    exact lt_of_lt_of_le hpos0 (DevicesScheduler.bestTotal_fit_le evs 0 ev0 hev0 hfit0)
  have hMne : ds2.maxScore.getD p 0 ≠ 0 := ne_of_gt hM
  constructor
  · rcases DevicesScheduler.bestTotal_attained evs 0 with e | ⟨ev, hev, hfit, htot⟩
    · rw [← hm] at e
      exact absurd e hMne
    · refine ⟨ev, hev, ?_⟩
      rw [DevicesScheduler.podPriority_of_score ds2 p ev.2.1 _ (hs ev hev)]
      simp only [hfit, if_true, hMne, ne_eq, not_false_eq_true]
      rw [htot, ← hm]
      exact div_self hMne
  · intro ev hev
    rw [DevicesScheduler.podPriority_of_score ds2 p ev.2.1 _ (hs ev hev)]
    simp only [hMne, ne_eq, not_false_eq_true, if_true]
    rw [div_le_one hM]
    split_ifs with hfit
    · rw [hm]
      exact DevicesScheduler.bestTotal_fit_le evs 0 ev hev hfit
    · exact le_of_lt hM

set_option maxRecDepth 100000 in
theorem priority_normalization_witness :
    (okValue (DevicesScheduler.fitsAll false (scenarioScheduler [scenarioDevice "d" true none])
      [scenarioWorld "a" 7 0, scenarioWorld "b" 9 0])
      (scenarioScheduler [], [])).2 = [("p", "a", true, 7 / 10), ("p", "b", true, 9 / 10)] ∧
    (okValue (DevicesScheduler.fitsAll false (scenarioScheduler [scenarioDevice "d" true none])
      [scenarioWorld "a" 7 0, scenarioWorld "b" 9 0])
      (scenarioScheduler [], [])).1.PodPriority "p" "a" = 7 / 9 ∧
    (okValue (DevicesScheduler.fitsAll false (scenarioScheduler [scenarioDevice "d" true none])
      [scenarioWorld "a" 7 0, scenarioWorld "b" 9 0])
      (scenarioScheduler [], [])).1.PodPriority "p" "b" = 1 ∧
    ((∃ ev ∈ (okValue (DevicesScheduler.fitsAll false
        (scenarioScheduler [scenarioDevice "d" true none])
        [scenarioWorld "a" 7 0, scenarioWorld "b" 9 0]) (scenarioScheduler [], [])).2,
      (okValue (DevicesScheduler.fitsAll false (scenarioScheduler [scenarioDevice "d" true none])
        [scenarioWorld "a" 7 0, scenarioWorld "b" 9 0])
        (scenarioScheduler [], [])).1.PodPriority "p" ev.2.1 = 1) ∧
    ∀ ev ∈ (okValue (DevicesScheduler.fitsAll false
        (scenarioScheduler [scenarioDevice "d" true none])
        [scenarioWorld "a" 7 0, scenarioWorld "b" 9 0]) (scenarioScheduler [], [])).2,
      (okValue (DevicesScheduler.fitsAll false (scenarioScheduler [scenarioDevice "d" true none])
        [scenarioWorld "a" 7 0, scenarioWorld "b" 9 0])
        (scenarioScheduler [], [])).1.PodPriority "p" ev.2.1 ≤ 1) :=
  ⟨by decide!, by decide!, by decide!,
    priority_normalization false "p" (scenarioScheduler [scenarioDevice "d" true none])
      _ [scenarioWorld "a" 7 0, scenarioWorld "b" 9 0] _
      (by
        have e := eq_ok_okValue (DevicesScheduler.fitsAll false
          (scenarioScheduler [scenarioDevice "d" true none])
          [scenarioWorld "a" 7 0, scenarioWorld "b" 9 0]) (scenarioScheduler [], [])
          (by decide!)
        exact e)
      (by decide) (by decide!) (by decide!) (by decide!)⟩

/-! ## The commit and the forwarding of the aggregator -/

namespace DevicesScheduler

variable {σ : Type}

/-- Every scheduler of the list, called in list order with `call` on the world
that the previous scheduler left, returns a nil error; the last argument is the
world after the last call. -/
inductive AllSucceed
    (call : DeviceScheduler σ → World σ → Except Fault (World σ × Option DeviceError)) :
    List (DeviceScheduler σ) → World σ → World σ → Prop where
  | nil (w : World σ) : AllSucceed call [] w w
  | cons (d : DeviceScheduler σ) (rest : List (DeviceScheduler σ)) (w w1 w2 : World σ) :
      call d w = .ok (w1, none) → AllSucceed call rest w1 w2 →
      AllSucceed call (d :: rest) w w2

theorem forwardLoop_none
    (call : DeviceScheduler σ → World σ → Except Fault (World σ × Option DeviceError)) :
    ∀ (devs : List (DeviceScheduler σ)) (w w2 : World σ),
      forwardLoop call devs w = .ok (w2, none) ↔ AllSucceed call devs w w2 := by
  intro devs
  induction devs with
  | nil =>
    intro w w2
    constructor
    · intro h
      simp only [forwardLoop, Except.ok.injEq, Prod.mk.injEq, and_true] at h
      rw [← h]
      exact AllSucceed.nil w
    · intro h
      cases h
      rfl
  | cons d rest ih =>
    intro w w2
    constructor
    · intro h
      simp only [forwardLoop] at h
      cases hc : call d w with
      | error e => rw [hc] at h; cases h
      | ok res =>
        obtain ⟨w1, er⟩ := res
        rw [hc] at h
        cases er with
        | some e => simp at h
        | none =>
          simp only at h
          exact AllSucceed.cons d rest w w1 w2 hc ((ih w1 w2).1 h)
    · intro h
      cases h with
      | cons _ _ _ w1 _ hc hrest =>
        simp only [forwardLoop, hc]
        exact (ih w1 w2).2 hrest

theorem forwardLoop_some
    (call : DeviceScheduler σ → World σ → Except Fault (World σ × Option DeviceError)) :
    ∀ (devs : List (DeviceScheduler σ)) (w w2 : World σ) (e : DeviceError),
      forwardLoop call devs w = .ok (w2, some e) ↔
        ∃ pre d post w1, devs = pre ++ d :: post ∧ AllSucceed call pre w w1 ∧
          call d w1 = .ok (w2, some e) := by
  intro devs
  induction devs with
  | nil =>
    intro w w2 e
    constructor
    · intro h
      simp [forwardLoop] at h
    · rintro ⟨pre, d, post, w1, h, -, -⟩
      cases pre <;> simp at h
  | cons d rest ih =>
    intro w w2 e
    constructor
    · intro h
      simp only [forwardLoop] at h
      cases hc : call d w with
      | error er => rw [hc] at h; cases h
      | ok res =>
        obtain ⟨w1, er⟩ := res
        rw [hc] at h
        cases er with
        | some e1 =>
          simp only [Except.ok.injEq, Prod.mk.injEq, Option.some.injEq] at h
          obtain ⟨rfl, rfl⟩ := h
          exact ⟨[], d, rest, w, rfl, AllSucceed.nil w, hc⟩
        | none =>
          simp only at h
          obtain ⟨pre, d1, post, w3, h1, h2, h3⟩ := (ih w1 w2 e).1 h
          exact ⟨d :: pre, d1, post, w3, by rw [h1]; rfl,
            AllSucceed.cons d pre w w1 w3 hc h2, h3⟩
    · rintro ⟨pre, d1, post, w1, h1, h2, h3⟩
      cases pre with
      | nil =>
        simp only [List.nil_append, List.cons.injEq] at h1
        obtain ⟨rfl, rfl⟩ := h1
        cases h2
        simp only [forwardLoop, h3]
      | cons d0 pre1 =>
        simp only [List.cons_append, List.cons.injEq] at h1
        obtain ⟨rfl, rfl⟩ := h1
        cases h2 with
        | cons _ _ _ w3 _ hc hrest =>
          simp only [forwardLoop, hc]
          exact (ih w3 w2 e).2 ⟨pre1, d1, post, w1, rfl, hrest, h3⟩

theorem removePodFromScore_priority (ds : DevicesScheduler σ) (p n : String) :
    (ds.RemovePodFromScore p).score.get? p = none ∧
    (ds.RemovePodFromScore p).maxScore.get? p = none ∧
    (ds.RemovePodFromScore p).PodPriority p n = 0 := by
  have h1 : (ds.RemovePodFromScore p).score.get? p = none := by
    unfold RemovePodFromScore
    simp only
    rw [GoMap.get?_delete]
    simp
  have h2 : (ds.RemovePodFromScore p).maxScore.get? p = none := by
    unfold RemovePodFromScore
    simp only
    rw [GoMap.get?_delete]
    simp
  refine ⟨h1, h2, ?_⟩
  unfold PodPriority
  rw [h2]

end DevicesScheduler

/-- Claim C29. `DevicesScheduler.PodAllocate` calls the schedulers'
`PodAllocate` in list order, each on the pod and the node as the previous one
left them, up to the first one that fails. It returns nil iff all succeed, and
then `score[pod]` and `maxScore[pod]` are removed, so that `PodPriority(pod, n)`
is 0 for every node `n`, the entries of the other pods being kept; if some
scheduler fails, its error is returned and the aggregator, with `score` and
`maxScore`, is left exactly as it was. -/
theorem podAllocate_clears_on_success {σ : Type} (ds ds1 : DevicesScheduler σ)
    (w w1 : World σ) (err : Option DeviceError)
    (h : ds.PodAllocate w = .ok (ds1, w1, err)) :
    (err = none ↔
      DevicesScheduler.AllSucceed (fun d => d.PodAllocate) ds.Devices w w1) ∧
    (err = none →
      ds1.score.get? w1.podName = none ∧ ds1.maxScore.get? w1.podName = none ∧
      (∀ n, ds1.PodPriority w1.podName n = 0) ∧
      (∀ q, q ≠ w1.podName →
        ds1.score.get? q = ds.score.get? q ∧ ds1.maxScore.get? q = ds.maxScore.get? q) ∧
      ds1.Devices = ds.Devices) ∧
    (∀ e, err = some e →
      ds1 = ds ∧
      ∃ pre d post w0, ds.Devices = pre ++ d :: post ∧
        DevicesScheduler.AllSucceed (fun d => d.PodAllocate) pre w w0 ∧
        d.PodAllocate w0 = .ok (w1, some e)) := by
  rcases DevicesScheduler.podAllocate_cases ds w ds1 w1 err h with
    ⟨e1, e2, e3⟩ | ⟨e, e1, e2, e3⟩
  · subst e1
    refine ⟨⟨fun _ => (DevicesScheduler.forwardLoop_none _ _ _ _).1 e3, fun _ => rfl⟩, ?_, ?_⟩
    · intro _
      obtain ⟨a, b, -⟩ := DevicesScheduler.removePodFromScore_priority ds w1.podName ""
      rw [e2]
      refine ⟨a, b, fun n => (DevicesScheduler.removePodFromScore_priority ds _ n).2.2, ?_, rfl⟩
      intro q hq
      unfold DevicesScheduler.RemovePodFromScore
      simp only
      rw [GoMap.get?_delete, GoMap.get?_delete]
      simp only [hq, if_false, and_self]
    · intro e he
      cases he
  · subst e1
    refine ⟨⟨fun he => (by cases he), ?_⟩, fun he => (by cases he), ?_⟩
    · intro hs
      have := (DevicesScheduler.forwardLoop_none _ _ _ _).2 hs
      rw [e3] at this
      simp at this
    · intro e0 he
      simp only [Option.some.injEq] at he
      subst he
      exact ⟨e2, (DevicesScheduler.forwardLoop_some _ _ _ _ _).1 e3⟩

set_option maxRecDepth 100000 in
theorem podAllocate_clears_on_success_witness :
    stateS6.PodPriority "p" "b" = 1 ∧
    (∃ ds1, stateS6.PodAllocate (scenarioWorld "b" 9 0) =
      .ok (ds1, { scenarioWorld "b" 9 0 with ext := ["d"] }, none) ∧
      ∀ n, ds1.PodPriority "p" n = 0) ∧
    ∃ w1, (scenarioScheduler [scenarioDevice "d1" true none,
        scenarioDevice "d2" true (some (DeviceError.plugin "no")),
        scenarioDevice "d3" true none]).PodAllocate (scenarioWorld "b" 9 0) =
      .ok (scenarioScheduler [scenarioDevice "d1" true none,
        scenarioDevice "d2" true (some (DeviceError.plugin "no")),
        scenarioDevice "d3" true none], w1, some (DeviceError.plugin "no")) ∧
      w1.ext = ["d1", "d2"] :=
  ⟨by decide!,
    ⟨stateS6.RemovePodFromScore "p", rfl,
      ((podAllocate_clears_on_success stateS6 (stateS6.RemovePodFromScore "p")
        (scenarioWorld "b" 9 0) { scenarioWorld "b" 9 0 with ext := ["d"] } none
        rfl).2.1 rfl).2.2.1⟩,
    ⟨{ scenarioWorld "b" 9 0 with ext := ["d1", "d2"] }, rfl, rfl⟩⟩

/-- Claim C30. `TakePodResources` and `ReturnPodResources` of the aggregator
forward the call to the schedulers in list order, each on the pod and the node
as the previous one left them, up to the first one that fails. They return nil
iff every scheduler returns nil; when some scheduler fails, the error returned
is that of the first failing scheduler in list order, the schedulers before it
having returned nil. -/
theorem forward_resources {σ : Type} (ds : DevicesScheduler σ) (w w1 : World σ) :
    (ds.TakePodResources w = .ok (w1, none) ↔
      DevicesScheduler.AllSucceed (fun d => d.TakePodResources) ds.Devices w w1) ∧
    (∀ e, ds.TakePodResources w = .ok (w1, some e) ↔
      ∃ pre d post w0, ds.Devices = pre ++ d :: post ∧
        DevicesScheduler.AllSucceed (fun d => d.TakePodResources) pre w w0 ∧
        d.TakePodResources w0 = .ok (w1, some e)) ∧
    (ds.ReturnPodResources w = .ok (w1, none) ↔
      DevicesScheduler.AllSucceed (fun d => d.ReturnPodResources) ds.Devices w w1) ∧
    (∀ e, ds.ReturnPodResources w = .ok (w1, some e) ↔
      ∃ pre d post w0, ds.Devices = pre ++ d :: post ∧
        DevicesScheduler.AllSucceed (fun d => d.ReturnPodResources) pre w w0 ∧
        d.ReturnPodResources w0 = .ok (w1, some e)) :=
  ⟨DevicesScheduler.forwardLoop_none _ _ _ _,
    fun e => DevicesScheduler.forwardLoop_some _ _ _ _ e,
    DevicesScheduler.forwardLoop_none _ _ _ _,
    fun e => DevicesScheduler.forwardLoop_some _ _ _ _ e⟩

/-! ## The allocation of the group scheduler -/

/-- Every requirement of the container that is not prechecked has an entry of
`AllocateFrom`, whose value is a key of `allocatable`. -/
def Filled (env : Env) (allocatable : GoMap Int) (c : ContainerInfo) : Prop :=
  ∀ k, IsGroupRequest env c k →
    ∃ a, (c.AllocateFrom.getD []).get? k = some a ∧ a ∈ allocatable.keys

/-- With `bSetAllocateFrom`, the container is returned with the requests it had
and, unless it has no group request, with the `AllocateFrom` of the allocator. -/
theorem containerFits_af (env : Env) (contName : String) (contReq : ContainerInfo)
    (initContainer : Bool) (allocatable : GoMap Int) (allocScorer : GoMap ResourceScoreFunc)
    (podResource nodeResource : GoMap Int) (usedGroups : GoMap Bool)
    (bPreferUsed : Bool) (r : ContainerFit)
    (hrun : containerFitsGroupConstraints env contName contReq initContainer allocatable
      allocScorer podResource nodeResource usedGroups bPreferUsed true = .ok r)
    (hndR : contReq.DevRequests.keys.Nodup)
    (hAF : (GoMap.keys (contReq.AllocateFrom.getD [])).Nodup) :
    r.contReq.DevRequests = contReq.DevRequests ∧
    r.contReq.Scorer = contReq.Scorer ∧
    (GoMap.keys (r.contReq.AllocateFrom.getD [])).Nodup ∧
    (groupRequests env contReq = [] ∨
      ∀ k, (r.contReq.AllocateFrom.getD []).get? k = r.grp.AllocateFrom.get? k) := by
  unfold containerFitsGroupConstraints at hrun
  generalize hcr : collectRequests env contReq contReq.DevRequests ([], [], []) = cr at hrun
  obtain ⟨reqName, req, reqScorer⟩ := cr
  simp only at hrun
  split at hrun
  · exact absurd hrun (by simp)
  · rename_i grpPrefix grpName hpre
    generalize hca : collectAllocatable env grpName allocatable ([], []) = ca at hrun
    obtain ⟨allocName, alloc⟩ := ca
    obtain ⟨-, hR2⟩ := collectRequests_eq env contReq contReq.DevRequests ([], [], []) hndR
      (fun k _ => ⟨by simp [GoMap.keys], by simp [GoMap.keys]⟩)
    rw [hcr] at hR2
    simp only [List.nil_append] at hR2
    have hR2b : req = groupRequests env contReq := hR2
    split at hrun
    · -- the search branch
      split at hrun
      · exact absurd hrun (by simp)
      · rename_i grp1 found reasons hag
        simp only [Except.ok.injEq] at hrun
        subst hrun
        have hnd1 : grp1.AllocateFrom.keys.Nodup := by
          have hQ : SetClosed (fun _ => True) (fun _ => True)
              (fun af : GoMap String => af.keys.Nodup) :=
            fun af k v h _ _ => GoMap.nodup_keys_set af k v h
          exact allocateGroup_inv hQ _ _ _ _ _ (fun _ _ => trivial)
            (fun _ _ _ _ => trivial) (by simp [GoMap.keys]) hag
        simp only [if_true, Option.getD_some]
        refine ⟨trivial, trivial, nodup_keys_copyInto _ _ (by simp [GoMap.keys]), Or.inr ?_⟩
        intro k
        rw [get?_copyInto _ _ _ hnd1]
        cases grp1.AllocateFrom.get? k <;> rfl
    · split at hrun
      · -- the scoring of the given `AllocateFrom`
        split at hrun
        · exact absurd hrun (by simp)
        · rename_i grp1 found reasons hfs
          simp only [Except.ok.injEq] at hrun
          subst hrun
          obtain ⟨-, -, -, c4, -⟩ := findScoreAndUpdate_spec _ _ _ _ _ hfs
          refine ⟨rfl, rfl, hAF, Or.inr ?_⟩
          intro k
          simp only
          rw [c4]
          simp only
          rw [get?_copyInto _ _ _ hAF]
          cases (contReq.AllocateFrom.getD []).get? k <;> rfl
      · -- no group request
        rename_i hlen
        simp only [Except.ok.injEq] at hrun
        subst hrun
        refine ⟨rfl, rfl, hAF, Or.inl ?_⟩
        have : req.length = 0 := by simpa using hlen
        rw [← hR2b]
        exact List.length_eq_zero.1 this

/-- A container that fits, evaluated with `bSetAllocateFrom`, is returned with
an entry of `AllocateFrom` for every group request. -/
theorem containerFits_filled (env : Env) (contName : String) (contReq : ContainerInfo)
    (initContainer : Bool) (allocatable : GoMap Int) (allocScorer : GoMap ResourceScoreFunc)
    (podResource nodeResource : GoMap Int) (usedGroups : GoMap Bool)
    (bPreferUsed : Bool) (r : ContainerFit)
    (hempty : env.PrecheckedResource "" = true)
    (hrun : containerFitsGroupConstraints env contName contReq initContainer allocatable
      allocScorer podResource nodeResource usedGroups bPreferUsed true = .ok r)
    (hfit : r.found = true)
    (hndA : allocatable.keys.Nodup) (hndR : contReq.DevRequests.keys.Nodup)
    (hAF : (GoMap.keys (contReq.AllocateFrom.getD [])).Nodup) :
    Filled env allocatable r.contReq := by
  obtain ⟨a1, -, -, a4⟩ := containerFits_af env contName contReq initContainer allocatable
    allocScorer podResource nodeResource usedGroups bPreferUsed r hrun hndR hAF
  intro k hk
  unfold IsGroupRequest at hk
  rw [a1] at hk
  obtain ⟨v, hv⟩ := GoMap.get?_of_mem_keys hk.1
  have hmem : (k, v) ∈ groupRequests env contReq := by
    unfold groupRequests
    rw [List.mem_filter]
    exact ⟨GoMap.mem_of_get? hv, by simp [hk.2]⟩
  rcases a4 with a4 | a4
  · rw [a4] at hmem
    cases hmem
  · rcases containerFits_usage env contName contReq initContainer allocatable allocScorer
      podResource nodeResource usedGroups bPreferUsed true r hrun hfit hndA hndR with
      ⟨u1, -, -⟩ | ⟨-, -, u3⟩
    · rw [u1] at hmem
      cases hmem
    · have hg := u3 (k, v) hmem
      simp only at hg
      rw [a4 k]
      cases hget : r.grp.AllocateFrom.get? k with
      | none =>
        exfalso
        have e : r.grp.AllocateFrom.getD k "" = "" := by
          unfold GoMap.getD
          rw [hget]
          rfl
        rw [e] at hg
        unfold IsGroupAllocatable at hg
        rw [hempty] at hg
        exact absurd hg.2 (by simp)
      | some a =>
        have e : r.grp.AllocateFrom.getD k "" = a := by
          unfold GoMap.getD
          rw [hget]
          rfl
        rw [e] at hg
        exact ⟨a, rfl, hg.1⟩

/-- A container as a Go program holds it: the keys of `DevRequests` and of
`AllocateFrom` are distinct. -/
def DistinctKeys (c : ContainerInfo) : Prop :=
  c.DevRequests.keys.Nodup ∧ (GoMap.keys (c.AllocateFrom.getD [])).Nodup

theorem distinctKeys_getD (conts : GoMap ContainerInfo) (h : ∀ nc ∈ conts, DistinctKeys nc.2)
    (name : String) : DistinctKeys (conts.getD name ContainerInfo.zero) := by
  rcases GoMap.getD_mem_or conts name ContainerInfo.zero with e | e
  · rw [e]
    exact ⟨by simp [ContainerInfo.zero, GoMap.keys], by simp [ContainerInfo.zero, GoMap.keys]⟩
  · exact h _ e

/-- A container loop of `PodFitsGroupConstraints` with `allocating`: when the
loop ends with `found`, every container of the loop has its `AllocateFrom`
filled, and the other containers are as they were. -/
theorem podFitsLoop_filled (env : Env) (n : NodeInfo) (scorer : GoMap ResourceScoreFunc)
    (i : Bool) (hempty : env.PrecheckedResource "" = true)
    (hndA : n.Allocatable.keys.Nodup) :
    ∀ (names : List String) (st st2 : PodFitState),
      names.Nodup → (∀ x ∈ names, x ∈ st.containers.keys) →
      (∀ nc ∈ st.containers, DistinctKeys nc.2) →
      podFitsLoop env n scorer i true names st = .ok st2 → st2.found = true →
      (∀ x ∈ names, Filled env n.Allocatable (st2.containers.getD x ContainerInfo.zero)) ∧
      (∀ y, y ∉ names → st2.containers.get? y = st.containers.get? y) := by
  intro names
  induction names with
  | nil =>
    intro st st2 _ _ _ h _
    simp only [podFitsLoop, Except.ok.injEq] at h
    subst h
    exact ⟨fun x hx => (by cases hx), fun y _ => rfl⟩
  | cons name rest ih =>
    intro st st2 hnd hsub hgood h hf
    simp only [List.nodup_cons] at hnd
    simp only [podFitsLoop] at h
    cases hc : containerFitsGroupConstraints env name
        (st.containers.getD name ContainerInfo.zero) i n.Allocatable scorer st.podResource
        st.nodeResource st.usedGroups true true with
    | error e => rw [hc] at h; cases h
    | ok r =>
      rw [hc] at h
      simp only at h
      have hd := distinctKeys_getD st.containers hgood name
      obtain ⟨a1, -, a3, -⟩ := containerFits_af env name _ i n.Allocatable scorer st.podResource
        st.nodeResource st.usedGroups true r hc hd.1 hd.2
      have hf1 := podFitsLoop_found env n scorer i true rest _ st2 h hf
      simp only at hf1
      have hrf : r.found = true := by
        by_contra hcon
        have : r.found = false := by simpa using hcon
        simp only [this, if_true] at hf1
        cases hf1
      have hfill := containerFits_filled env name _ i n.Allocatable scorer st.podResource
        st.nodeResource st.usedGroups true r hempty hc hrf hndA hd.1 hd.2
      have hkeys : ∀ x, x ∈ (st.containers.set name r.contReq).keys ↔ x ∈ st.containers.keys := by
        intro x
        rw [GoMap.keys_set]
        constructor
        · rintro (e | e)
          · rw [e]; exact hsub name (List.mem_cons_self _ _)
          · exact e
        · exact fun e => Or.inr e
      obtain ⟨i1, i2⟩ := ih _ st2 hnd.2
        (fun x hx => (hkeys x).2 (hsub x (List.mem_cons_of_mem _ hx)))
        (by
          intro nc hnc
          rcases GoMap.mem_set hnc with e | e
          · rw [e]
            exact ⟨(by rw [a1]; exact hd.1), a3⟩
          · exact hgood nc e) h hf
      simp only at i2
      constructor
      · intro x hx
        rcases List.mem_cons.1 hx with rfl | hx
        · have e : st2.containers.getD x ContainerInfo.zero = r.contReq := by
            unfold GoMap.getD
            rw [i2 x hnd.1, GoMap.get?_set]
            simp
          rw [e]
          exact hfill
        · exact i1 x hx
      · intro y hy
        simp only [List.mem_cons, not_or] at hy
        rw [i2 y hy.2, GoMap.get?_set]
        have : ¬ name = y := fun e => hy.1 e.symm
        simp only [this, if_false]

theorem filled_of_sorted (env : Env) (allocatable : GoMap Int) (conts : GoMap ContainerInfo)
    (hnd : conts.keys.Nodup)
    (h : ∀ x ∈ SortedStringKeys conts, Filled env allocatable (conts.getD x ContainerInfo.zero)) :
    ∀ nc ∈ conts, Filled env allocatable nc.2 := by
  intro nc hnc
  have := h nc.1 ((mem_SortedStringKeys _ _).2 (GoMap.mem_keys_of_mem hnc))
  rw [GoMap.getD_of_mem conts hnd nc.1 nc.2 ContainerInfo.zero hnc] at this
  exact this

/-- Claim C31. `GrpDevice.PodAllocate` runs `PodFitsGroupConstraints` with the
filling of `AllocateFrom` on the node as it is passed and leaves the pod as
this run wrote it; it returns an error, made of the name of the pod and of the
reasons, if and only if the pod does not fit; and on a nil return every
container of the pod has an entry of `AllocateFrom`, pointing at a key of
`Allocatable`, for each of its requests that is not prechecked. The maps are
maps of a Go program (distinct keys) and the empty name is prechecked. -/
theorem grpDevice_podAllocate {σ : Type} (env : Env) (w w1 : World σ)
    (err : Option DeviceError)
    (hempty : env.PrecheckedResource "" = true)
    (hndA : w.node.Allocatable.keys.Nodup)
    (hR : w.pod.RunningContainers.keys.Nodup) (hI : w.pod.InitContainers.keys.Nodup)
    (hgR : ∀ nc ∈ w.pod.RunningContainers, DistinctKeys nc.2)
    (hgI : ∀ nc ∈ w.pod.InitContainers, DistinctKeys nc.2)
    (h : (GrpDevice env σ).PodAllocate w = .ok (w1, err)) :
    ∃ fit, PodFitsGroupConstraints env w.node w.pod true = .ok fit ∧
      w1 = { w with pod := fit.spec } ∧
      (err = none ↔ fit.found = true) ∧
      (fit.found = false →
        err = some (DeviceError.noLongerFits w.podName fit.predicateFails)) ∧
      (err = none →
        ∀ nc ∈ w1.pod.RunningContainers ++ w1.pod.InitContainers,
          Filled env w.node.Allocatable nc.2) := by
  simp only [GrpDevice] at h
  cases hp : PodFitsGroupConstraints env w.node w.pod true with
  | error e => rw [hp] at h; cases h
  | ok fit =>
    rw [hp] at h
    simp only at h
    refine ⟨fit, rfl, ?_⟩
    cases hfound : fit.found with
    | false =>
      simp only [hfound, Bool.not_false, if_true, Except.ok.injEq, Prod.mk.injEq] at h
      obtain ⟨rfl, rfl⟩ := h
      refine ⟨rfl, ⟨fun he => (by cases he), fun he => (by cases he)⟩, fun _ => rfl, ?_⟩
      intro he
      cases he
    | true =>
      simp only [hfound, Bool.not_true, Bool.false_eq_true, if_false, Except.ok.injEq,
        Prod.mk.injEq] at h
      obtain ⟨rfl, rfl⟩ := h
      refine ⟨rfl, ⟨fun _ => rfl, fun _ => rfl⟩, fun he => (by cases he), ?_⟩
      intro _
      -- the two loops
      unfold PodFitsGroupConstraints at hp
      simp only at hp
      cases h1 : podFitsLoop env w.node (setScoreFunc env w.node) false true
          (SortedStringKeys w.pod.RunningContainers)
          ⟨w.pod.RunningContainers, [], initNodeResource w.node, [], true, [], 0⟩ with
      | error e => rw [h1] at hp; cases hp
      | ok st1 =>
        rw [h1] at hp
        simp only at hp
        cases h2 : podFitsLoop env w.node (setScoreFunc env w.node) true true
            (SortedStringKeys w.pod.InitContainers)
            ⟨w.pod.InitContainers, st1.podResource, st1.nodeResource, st1.usedGroups,
              st1.found, st1.predicateFails, st1.totalScore⟩ with
        | error e => rw [h2] at hp; cases hp
        | ok st2 =>
          rw [h2] at hp
          simp only [Except.ok.injEq] at hp
          subst hp
          simp only at hfound
          have hf1 : st1.found = true := by
            have := podFitsLoop_found env w.node _ true true _ _ st2 h2 hfound
            exact this
          have k1 := podFitsLoop_keys env w.node (setScoreFunc env w.node) false true
            (SortedStringKeys w.pod.RunningContainers)
            ⟨w.pod.RunningContainers, [], initNodeResource w.node, [], true, [], 0⟩ st1
            (fun x hx => (mem_SortedStringKeys _ x).1 hx) h1
          have k2 := podFitsLoop_keys env w.node (setScoreFunc env w.node) true true
            (SortedStringKeys w.pod.InitContainers)
            ⟨w.pod.InitContainers, st1.podResource, st1.nodeResource, st1.usedGroups,
              st1.found, st1.predicateFails, st1.totalScore⟩ st2
            (fun x hx => (mem_SortedStringKeys _ x).1 hx) h2
          simp only at k1 k2
          obtain ⟨f1, -⟩ := podFitsLoop_filled env w.node (setScoreFunc env w.node) false hempty
            hndA (SortedStringKeys w.pod.RunningContainers)
            ⟨w.pod.RunningContainers, [], initNodeResource w.node, [], true, [], 0⟩ st1
            (SortedStringKeys_nodup _) (fun x hx => (mem_SortedStringKeys _ x).1 hx) hgR h1 hf1
          obtain ⟨f2, -⟩ := podFitsLoop_filled env w.node (setScoreFunc env w.node) true hempty
            hndA (SortedStringKeys w.pod.InitContainers)
            ⟨w.pod.InitContainers, st1.podResource, st1.nodeResource, st1.usedGroups,
              st1.found, st1.predicateFails, st1.totalScore⟩ st2
            (SortedStringKeys_nodup _) (fun x hx => (mem_SortedStringKeys _ x).1 hx) hgI h2
            hfound
          have s1 : SortedStringKeys st1.containers = SortedStringKeys w.pod.RunningContainers := by
            unfold SortedStringKeys
            rw [k1]
          have s2 : SortedStringKeys st2.containers = SortedStringKeys w.pod.InitContainers := by
            unfold SortedStringKeys
            rw [k2]
          intro nc hnc
          simp only at hnc
          rcases List.mem_append.1 hnc with hnc | hnc
          · exact filled_of_sorted env _ st1.containers (k1 ▸ hR) (s1 ▸ f1) nc hnc
          · exact filled_of_sorted env _ st2.containers (k2 ▸ hI) (s2 ▸ f2) nc hnc

/-- The result of `GrpDevice.PodAllocate` from that of the predicate. -/
theorem grpDevice_podAllocate_of_fit {σ : Type} (env : Env) (w : World σ) (fit : PodFit)
    (h : PodFitsGroupConstraints env w.node w.pod true = .ok fit) :
    (GrpDevice env σ).PodAllocate w =
      .ok ({ w with pod := fit.spec },
        if fit.found = true then none
        else some (DeviceError.noLongerFits w.podName fit.predicateFails)) := by
  simp only [GrpDevice]
  rw [h]
  cases hf : fit.found <;> simp [hf]

/-- Scenario S1: the pod as `PodFitsGroupConstraints` returns it when it fills
`AllocateFrom`. -/
def podS1Filled : PodInfo :=
  (okValue (PodFitsGroupConstraints scenarioEnv nodeS1 podS1 true) PodFit.zero).spec

set_option maxRecDepth 100000 in
theorem grpDevice_podAllocate_witness :
    (GrpDevice scenarioEnv Unit).PodAllocate ⟨"p", "n", podS1, nodeS1, ()⟩ =
      .ok (⟨"p", "n", podS1Filled, nodeS1, ()⟩, none) ∧
    (podS1Filled.RunningContainers.map (fun nc => (nc.1, nc.2.AllocateFrom)) =
      [("c", some [("r/grp/gpu/A/cards", "r/grp/gpu/0/cards")])]) ∧
    (∀ nc ∈ podS1Filled.RunningContainers ++ podS1Filled.InitContainers,
      Filled scenarioEnv nodeS1.Allocatable nc.2) ∧
    ∃ w1 rs, (GrpDevice scenarioEnv Unit).PodAllocate ⟨"p", "n", podS3, nodeS3, ()⟩ =
      .ok (w1, some (DeviceError.noLongerFits "p" rs)) :=
  have h1 : (GrpDevice scenarioEnv Unit).PodAllocate ⟨"p", "n", podS1, nodeS1, ()⟩ =
      .ok (⟨"p", "n", podS1Filled, nodeS1, ()⟩, none) := by
    have e := grpDevice_podAllocate_of_fit scenarioEnv (⟨"p", "n", podS1, nodeS1, ()⟩ : World Unit) _
      (eq_ok_okValue _ PodFit.zero (by decide!))
    have e2 : (okValue (PodFitsGroupConstraints scenarioEnv nodeS1 podS1 true) PodFit.zero).found
        = true := by decide!
    rw [if_pos e2] at e
    exact e
  have h3 : (okValue (PodFitsGroupConstraints scenarioEnv nodeS3 podS3 true) PodFit.zero).found
      = false := by decide!
  ⟨h1, by decide!,
    (Exists.choose_spec (grpDevice_podAllocate scenarioEnv
      (⟨"p", "n", podS1, nodeS1, ()⟩ : World Unit) ⟨"p", "n", podS1Filled, nodeS1, ()⟩ none
      (by decide) (by decide) (by decide) (by decide)
      (by intro nc hnc; simp only [podS1, List.mem_singleton] at hnc; subst hnc;
          exact ⟨by decide, by decide⟩)
      (by intro nc hnc; cases hnc) h1)).2.2.2.2 rfl,
    ⟨_, _, (grpDevice_podAllocate_of_fit scenarioEnv ⟨"p", "n", podS3, nodeS3, ()⟩ _
      (eq_ok_okValue _ PodFit.zero (by decide!))).trans (by rw [if_neg (by rw [h3]; decide)])⟩⟩

/-! ## The preference for used groups in the running containers -/

/-- Every entry that is set in `ug` is set in `ug2`. -/
def UsedGrows (ug ug2 : GoMap Bool) : Prop :=
  ∀ k, ug.getD k false = true → ug2.getD k false = true

theorem UsedGrows.grows_refl (ug : GoMap Bool) : UsedGrows ug ug := fun _ h => h

theorem UsedGrows.grows_trans {a b c : GoMap Bool} (h1 : UsedGrows a b) (h2 : UsedGrows b c) :
    UsedGrows a c := fun k h => h2 k (h1 k h)

theorem UsedGrows.grows_set (ug : GoMap Bool) (k : String) : UsedGrows ug (ug.set k true) := by
  intro k2 h
  rw [GoMap.getD_set]
  split_ifs
  · rfl
  · exact h

/-- The function `f` only adds entries to the used groups of its receiver. -/
def GrowsUsed (f : GrpAllocator → AllocResult) : Prop :=
  ∀ g g1 b rs, f g = .ok (g1, b, rs) → UsedGrows g.UsedGroups g1.UsedGroups

theorem allocateSubGroupsInner_grows (allocGroup : GrpAllocator → AllocResult)
    (H : GrowsUsed allocGroup) (loc : String) (sr sa : GoMap (GoMap (GoMap String)))
    (key : String) :
    ∀ (l : List String) (grp : GrpAllocator) (found : Bool) (pf : List PredicateFailureReason)
      (grp1 : GrpAllocator) (found1 : Bool) (pf1 : List PredicateFailureReason),
      allocateSubGroupsInner allocGroup loc sr sa key l grp found pf = .ok (grp1, found1, pf1) →
      UsedGrows grp.UsedGroups grp1.UsedGroups := by
  intro l
  induction l with
  | nil =>
    intro grp found pf grp1 found1 pf1 h
    simp only [allocateSubGroupsInner, Except.ok.injEq, Prod.mk.injEq] at h
    obtain ⟨rfl, -, -⟩ := h
    exact UsedGrows.grows_refl _
  | cons idx t ih =>
    intro grp found pf grp1 found1 pf1 h
    simp only [allocateSubGroupsInner] at h
    split at h
    · exact absurd h (by simp)
    · rename_i s1 fs rs hs
      have h0 : UsedGrows (createSubGroup grp loc sr sa key idx).UsedGroups s1.UsedGroups :=
        H _ _ _ _ hs
      have h0 : UsedGrows grp.UsedGroups s1.UsedGroups := h0
      split at h
      · have h1 := ih _ _ _ _ _ _ h
        exact h0.grows_trans h1
      · have h1 := ih _ _ _ _ _ _ h
        exact h0.grows_trans h1

theorem allocateSubGroupsOuter_grows (allocGroup : GrpAllocator → AllocResult)
    (H : GrowsUsed allocGroup) (loc : String) (sr sa : GoMap (GoMap (GoMap String))) :
    ∀ (l : List String) (grp : GrpAllocator) (found : Bool) (pf : List PredicateFailureReason)
      (grp1 : GrpAllocator) (found1 : Bool) (pf1 : List PredicateFailureReason),
      allocateSubGroupsOuter allocGroup loc sr sa l grp found pf = .ok (grp1, found1, pf1) →
      UsedGrows grp.UsedGroups grp1.UsedGroups := by
  intro l
  induction l with
  | nil =>
    intro grp found pf grp1 found1 pf1 h
    simp only [allocateSubGroupsOuter, Except.ok.injEq, Prod.mk.injEq] at h
    obtain ⟨rfl, -, -⟩ := h
    exact UsedGrows.grows_refl _
  | cons key t ih =>
    intro grp found pf grp1 found1 pf1 h
    simp only [allocateSubGroupsOuter] at h
    split at h
    · exact absurd h (by simp)
    · rename_i g1 f1 p1 hin
      have h1 := ih _ _ _ _ _ _ h
      exact (allocateSubGroupsInner_grows allocGroup H loc sr sa key _ _ _ _ _ _ _ hin).grows_trans h1

theorem allocateGroupAt_grows (allocGroup : GrpAllocator → AllocResult)
    (H : GrowsUsed allocGroup) (grp : GrpAllocator) (location : String)
    (sr : GoMap (GoMap (GoMap String)))
    (grp1 : GrpAllocator) (found1 : Bool) (pf1 : List PredicateFailureReason)
    (h : allocateGroupAt allocGroup grp location sr = .ok (grp1, found1, pf1)) :
    UsedGrows grp.UsedGroups grp1.UsedGroups := by
  unfold allocateGroupAt at h
  simp only at h
  split at h
  · exact absurd h (by simp)
  · rename_i g1 f1 p1 hra
    obtain ⟨-, -, a3⟩ := resourceAvailableLoop_static _ _ _ _ _ _ _ _ hra
    have a3' : g1.UsedGroups = grp.UsedGroups := a3
    split at h
    · exact absurd h (by simp)
    · rename_i g2 f2 p2 hsg
      have b := allocateSubGroupsOuter_grows allocGroup H _ _ _ _ _ _ _ _ _ _ hsg
      rw [a3'] at b
      split at h
      · split at h
        · exact absurd h (by simp)
        · rename_i g3 f3 p3 hfs
          obtain ⟨-, -, c3, -, -⟩ := findScoreAndUpdate_spec _ _ _ _ _ hfs
          have c3' : g3.UsedGroups = g2.UsedGroups := c3
          split at h
          · simp only [Except.ok.injEq, Prod.mk.injEq] at h
            obtain ⟨rfl, -, -⟩ := h
            rw [c3']
            exact b
          · simp only [Except.ok.injEq, Prod.mk.injEq] at h
            obtain ⟨rfl, -, -⟩ := h
            rw [c3']
            exact b
      · simp only [Except.ok.injEq, Prod.mk.injEq] at h
        obtain ⟨rfl, -, -⟩ := h
        exact b

theorem allocateGroupLoop_grows (allocGroup : GrpAllocator → AllocResult)
    (H : GrowsUsed allocGroup) (sr : GoMap (GoMap (GoMap String))) :
    ∀ (keys : List String) (st st1 : SearchState),
      allocateGroupLoop allocGroup sr keys st = .ok st1 →
      UsedGrows st.grp.UsedGroups st1.grp.UsedGroups := by
  intro keys
  induction keys with
  | nil =>
    intro st st1 h
    simp only [allocateGroupLoop, Except.ok.injEq] at h
    subst h
    exact UsedGrows.grows_refl _
  | cons key t ih =>
    intro st st1 h
    simp only [allocateGroupLoop] at h
    split at h
    · exact absurd h (by simp)
    · rename_i g1 f1 p1 hat
      have a : UsedGrows st.grp.UsedGroups g1.UsedGroups :=
        allocateGroupAt_grows allocGroup H _ _ _ _ _ _ hat
      have h1 := ih _ _ h
      exact UsedGrows.grows_trans a h1

theorem allocateGroupBody_grows (allocGroup : GrpAllocator → AllocResult)
    (H : GrowsUsed allocGroup) : GrowsUsed (allocateGroupBody allocGroup) := by
  intro grp grp1 found rs h
  unfold allocateGroupBody at h
  split_ifs at h with h0
  · simp only [Except.ok.injEq, Prod.mk.injEq] at h
    obtain ⟨rfl, -, -⟩ := h
    exact UsedGrows.grows_refl _
  · simp only at h
    split at h
    · exact absurd h (by simp)
    · rename_i st hl
      have a := allocateGroupLoop_grows allocGroup H _ _ _ _ hl
      simp only at a
      split_ifs at h
      · simp only [Except.ok.injEq, Prod.mk.injEq] at h
        obtain ⟨rfl, -, -⟩ := h
        exact a.grows_trans (UsedGrows.grows_set _ _)
      · simp only [Except.ok.injEq, Prod.mk.injEq] at h
        obtain ⟨rfl, -, -⟩ := h
        exact a

/-- The search only adds entries to `UsedGroups`. -/
theorem allocateGroup_grows : ∀ fuel, GrowsUsed (allocateGroup fuel) := by
  intro fuel
  induction fuel with
  | zero => intro g g1 b rs h; simp [allocateGroup] at h
  | succ f ih => exact allocateGroupBody_grows _ ih

/-! The recursive calls are made with the `PreferUsed` of the receiver. -/

theorem allocateSubGroupsInner_preferUsed (a1 a2 : GrpAllocator → AllocResult) (pu : Bool)
    (H : ∀ g, g.PreferUsed = pu → a1 g = a2 g) (loc : String)
    (sr sa : GoMap (GoMap (GoMap String))) (name : String) :
    ∀ (l : List String) (grp : GrpAllocator) (found : Bool) (pf : List PredicateFailureReason),
      grp.PreferUsed = pu →
      allocateSubGroupsInner a1 loc sr sa name l grp found pf =
        allocateSubGroupsInner a2 loc sr sa name l grp found pf := by
  intro l
  induction l with
  | nil => intro grp found pf _; rfl
  | cons idx t ih =>
    intro grp found pf hg
    simp only [allocateSubGroupsInner]
    rw [← H (createSubGroup grp loc sr sa name idx) hg]
    cases hc : a1 (createSubGroup grp loc sr sa name idx) with
    | error er => rfl
    | ok res =>
      obtain ⟨s1, f1, r1⟩ := res
      simp only
      split_ifs
      · exact ih _ _ _ hg
      · exact ih _ _ _ hg

theorem allocateSubGroupsOuter_preferUsed (a1 a2 : GrpAllocator → AllocResult) (pu : Bool)
    (H : ∀ g, g.PreferUsed = pu → a1 g = a2 g) (loc : String)
    (sr sa : GoMap (GoMap (GoMap String))) :
    ∀ (l : List String) (grp : GrpAllocator) (found : Bool) (pf : List PredicateFailureReason),
      grp.PreferUsed = pu →
      allocateSubGroupsOuter a1 loc sr sa l grp found pf =
        allocateSubGroupsOuter a2 loc sr sa l grp found pf := by
  intro l
  induction l with
  | nil => intro grp found pf _; rfl
  | cons name t ih =>
    intro grp found pf hg
    simp only [allocateSubGroupsOuter]
    rw [← allocateSubGroupsInner_preferUsed a1 a2 pu H loc sr sa name _ grp found pf hg]
    cases hc : allocateSubGroupsInner a1 loc sr sa name (SortedStringKeys (sr.getD name []))
        grp found pf with
    | error er => rfl
    | ok res =>
      obtain ⟨g1, f1, p1⟩ := res
      simp only
      obtain ⟨s1, -⟩ := allocateSubGroupsInner_static _ _ _ _ _ _ _ _ _ _ _ _ hc
      exact ih _ _ _ (s1.preferUsed.trans hg)

theorem allocateGroupAt_preferUsed (a1 a2 : GrpAllocator → AllocResult) (pu : Bool)
    (H : ∀ g, g.PreferUsed = pu → a1 g = a2 g) (grp : GrpAllocator) (location : String)
    (sr : GoMap (GoMap (GoMap String))) (hg : grp.PreferUsed = pu) :
    allocateGroupAt a1 grp location sr = allocateGroupAt a2 grp location sr := by
  unfold allocateGroupAt
  simp only
  cases hra : resourceAvailable
      { grp with IsAllocSubGrp := (findSubGroups (grp.AllocBaseGroupPrefix ++ "/" ++ location)
        (grp.GrpAllocResource.getD location [])).2 } location with
  | error er => rfl
  | ok res =>
    obtain ⟨g1, f1, p1⟩ := res
    simp only
    obtain ⟨s1, -, -⟩ := resourceAvailableLoop_static _ _ _ _ _ _ _ _ hra
    have hg1 : g1.PreferUsed = pu := s1.preferUsed.trans hg
    unfold allocateSubGroups
    rw [← allocateSubGroupsOuter_preferUsed a1 a2 pu H location sr _ _ g1 true [] hg1]

theorem allocateGroupLoop_preferUsed (a1 a2 : GrpAllocator → AllocResult) (pu : Bool)
    (H : ∀ g, g.PreferUsed = pu → a1 g = a2 g) (sr : GoMap (GoMap (GoMap String))) :
    ∀ (keys : List String) (st : SearchState), st.grp.PreferUsed = pu →
      allocateGroupLoop a1 sr keys st = allocateGroupLoop a2 sr keys st := by
  intro keys
  induction keys with
  | nil => intro st _; rfl
  | cons key t ih =>
    intro st hg
    simp only [allocateGroupLoop]
    rw [← allocateGroupAt_preferUsed a1 a2 pu H (cloneGroup st.grp) key sr hg]
    cases hc : allocateGroupAt a1 (cloneGroup st.grp) key sr with
    | error er => rfl
    | ok res =>
      obtain ⟨g1, f1, p1⟩ := res
      simp only
      exact ih _ hg

/-- The body of `allocateGroup` calls the method only on receivers that have
the `PreferUsed` of its own receiver. -/
theorem allocateGroupBody_preferUsed (a1 a2 : GrpAllocator → AllocResult) (grp : GrpAllocator)
    (H : ∀ g, g.PreferUsed = grp.PreferUsed → a1 g = a2 g) :
    allocateGroupBody a1 grp = allocateGroupBody a2 grp := by
  unfold allocateGroupBody
  split_ifs with h0
  · rfl
  · simp only
    rw [← allocateGroupLoop_preferUsed a1 a2 grp.PreferUsed H _ _ _ rfl]

/-! The selection with the preference for used groups. -/

theorem selectStep_used (s0 : ℚ) (cur : Option Candidate) (c : Candidate)
    (h : (∃ m, cur = some m ∧ m.isUsed = true) ∨ (c.found = true ∧ c.isUsed = true)) :
    ∃ m, selectStep true s0 cur c = some m ∧ m.isUsed = true := by
  unfold selectStep takeNew
  cases cur with
  | none =>
    rcases h with ⟨m, hm, -⟩ | ⟨hf, hu⟩
    · cases hm
    · simp [hf, hu]
  | some m0 =>
    simp only
    cases hm0 : m0.isUsed with
    | true =>
      simp only [Bool.not_true, Bool.false_eq_true, if_false, if_true]
      split_ifs with ht
      · simp only [Bool.and_eq_true] at ht
        exact ⟨c, rfl, ht.2.1⟩
      · exact ⟨m0, rfl, hm0⟩
    | false =>
      rcases h with ⟨m, hm, hu⟩ | ⟨hf, hu⟩
      · simp only [Option.some.injEq] at hm
        subst hm
        rw [hm0] at hu
        cases hu
      · simp [hf, hu]

theorem foldl_selectStep_used (s0 : ℚ) :
    ∀ (cs : List Candidate) (cur : Option Candidate),
      ((∃ m, cur = some m ∧ m.isUsed = true) ∨ ∃ c ∈ cs, c.found = true ∧ c.isUsed = true) →
      ∃ m, cs.foldl (selectStep true s0) cur = some m ∧ m.isUsed = true := by
  intro cs
  induction cs with
  | nil =>
    intro cur h
    rcases h with h | ⟨c, hc, -⟩
    · exact h
    · cases hc
  | cons c t ih =>
    intro cur h
    simp only [List.foldl_cons]
    apply ih
    rcases h with h | ⟨c1, hc1, hf, hu⟩
    · exact Or.inl (selectStep_used s0 cur c (Or.inl h))
    · rcases List.mem_cons.1 hc1 with rfl | hc1
      · exact Or.inl (selectStep_used s0 cur c1 (Or.inr ⟨hf, hu⟩))
      · exact Or.inr ⟨c1, hc1, hf, hu⟩

/-- With the preference for used groups, the candidate held after the loop is
used as soon as one feasible candidate is used, whatever the scores. -/
theorem selectCandidate_used (s0 : ℚ) (cs : List Candidate)
    (h : ∃ c ∈ cs, c.found = true ∧ c.isUsed = true) :
    ∃ m, selectCandidate true s0 cs = some m ∧ m ∈ cs ∧ m.found = true ∧ m.isUsed = true := by
  obtain ⟨m, hm, hu⟩ := foldl_selectStep_used s0 cs none (Or.inr h)
  obtain ⟨h1, h2⟩ := selectCandidate_mem true s0 cs m hm
  exact ⟨m, hm, h1, h2, hu⟩

theorem candidates_grows (allocGroup : GrpAllocator → AllocResult) (H : GrowsUsed allocGroup)
    (sr : GoMap (GoMap (GoMap String))) :
    ∀ (keys : List String) (g : GrpAllocator) (cs : List Candidate) (gF : GrpAllocator),
      candidates allocGroup sr keys g = .ok (cs, gF) →
      ∀ c ∈ cs, UsedGrows g.UsedGroups c.grp.UsedGroups := by
  intro keys
  induction keys with
  | nil =>
    intro g cs gF h
    simp only [candidates, Except.ok.injEq, Prod.mk.injEq] at h
    obtain ⟨rfl, -⟩ := h
    intro c hc
    cases hc
  | cons key rest ih =>
    intro g cs gF h
    simp only [candidates] at h
    split at h
    · exact absurd h (by simp)
    · rename_i g1 found reasons hat
      have a : UsedGrows g.UsedGroups g1.UsedGroups :=
        allocateGroupAt_grows allocGroup H _ _ _ _ _ _ hat
      split at h
      · exact absurd h (by simp)
      · rename_i cs1 gF1 hcs
        simp only [Except.ok.injEq, Prod.mk.injEq] at h
        obtain ⟨rfl, rfl⟩ := h
        have h1 := ih _ _ _ hcs
        intro c hc
        rcases List.mem_cons.1 hc with rfl | hc
        · exact a
        · exact a.grows_trans (h1 c hc)

/-- The receiver that `containerFitsGroupConstraints` builds has the
`PreferUsed` and the used groups of the call; a container without
`AllocateFrom` is searched from this receiver. -/
theorem containerFits_receiver (env : Env) (contName : String) (contReq : ContainerInfo)
    (initContainer : Bool) (allocatable : GoMap Int) (allocScorer : GoMap ResourceScoreFunc)
    (podResource nodeResource : GoMap Int) (usedGroups : GoMap Bool)
    (bPreferUsed bSetAllocateFrom : Bool) (r : ContainerFit)
    (hrun : containerFitsGroupConstraints env contName contReq initContainer allocatable
      allocScorer podResource nodeResource usedGroups bPreferUsed bSetAllocateFrom = .ok r) :
    UsedGrows usedGroups r.grp.UsedGroups ∧
    (contReq.AllocateFrom = none →
      ∃ grp : GrpAllocator, grp.PreferUsed = bPreferUsed ∧ grp.UsedGroups = usedGroups ∧
        allocateGroup (searchFuel grp.GrpRequiredResource) grp =
          .ok (r.grp, r.found, r.reasons)) := by
  unfold containerFitsGroupConstraints at hrun
  generalize collectRequests env contReq contReq.DevRequests ([], [], []) = cr at hrun
  obtain ⟨reqName, req, reqScorer⟩ := cr
  simp only at hrun
  split at hrun
  · exact absurd hrun (by simp)
  · rename_i grpPrefix grpName hpre
    generalize collectAllocatable env grpName allocatable ([], []) = ca at hrun
    obtain ⟨allocName, alloc⟩ := ca
    simp only at hrun
    split at hrun
    · rename_i hsearch
      split at hrun
      · exact absurd hrun (by simp)
      · rename_i grp1 found reasons hag
        simp only [Except.ok.injEq] at hrun
        subst hrun
        refine ⟨allocateGroup_grows _ _ _ _ _ hag, fun _ => ⟨_, rfl, rfl, hag⟩⟩
    · rename_i hsearch
      split at hrun
      · split at hrun
        · exact absurd hrun (by simp)
        · rename_i grp1 found reasons hfs
          simp only [Except.ok.injEq] at hrun
          subst hrun
          obtain ⟨-, -, c3, -, -⟩ := findScoreAndUpdate_spec _ _ _ _ _ hfs
          refine ⟨?_, ?_⟩
          · intro k hk
            simp only
            rw [c3]
            exact hk
          · intro hnone
            rw [hnone] at hsearch
            simp at hsearch
      · simp only [Except.ok.injEq] at hrun
        subst hrun
        refine ⟨UsedGrows.grows_refl _, ?_⟩
        intro hnone
        rw [hnone] at hsearch
        simp at hsearch

/-- The used groups that the calls `pre` of a loop leave to the next call. -/
def usedAfter (ug : GoMap Bool) (pre : List (String × ContainerFit)) : GoMap Bool :=
  (pre.getLast?.map (fun q => q.2.grp.UsedGroups)).getD ug

theorem usedAfter_cons (ug : GoMap Bool) (p : String × ContainerFit)
    (pre : List (String × ContainerFit)) :
    usedAfter ug (p :: pre) = usedAfter p.2.grp.UsedGroups pre := by
  unfold usedAfter
  cases pre with
  | nil => rfl
  | cons q t =>
    rw [List.getLast?_cons_cons]
    cases h : (q :: t).getLast? with
    | none => simp at h
    | some z => rfl

/-- Every call of a container loop of `PodFitsGroupConstraints` is made with
`bPreferUsed` on the used groups that the call before it left, which hold
every entry set by the calls before. -/
theorem podFitsTrace_used (env : Env) (n : NodeInfo) (scorer : GoMap ResourceScoreFunc)
    (i a : Bool) :
    ∀ (names : List String) (th : PodThread) (tr : List (String × ContainerFit))
      (th1 : PodThread),
      podFitsTrace env n scorer i a names th = .ok (tr, th1) →
      ∀ pre r post, tr = pre ++ r :: post →
        ∃ contReq pR nR,
          containerFitsGroupConstraints env r.1 contReq i n.Allocatable scorer pR nR
            (usedAfter th.usedGroups pre) true a = .ok r.2 ∧
          UsedGrows th.usedGroups (usedAfter th.usedGroups pre) ∧
          ∀ q ∈ pre, UsedGrows q.2.grp.UsedGroups (usedAfter th.usedGroups pre) := by
  intro names
  induction names with
  | nil =>
    intro th tr th1 h pre r post e
    simp only [podFitsTrace, Except.ok.injEq, Prod.mk.injEq] at h
    obtain ⟨rfl, -⟩ := h
    cases pre <;> cases e
  | cons name rest ih =>
    intro th tr th1 h pre r post e
    simp only [podFitsTrace] at h
    split at h
    · exact absurd h (by simp)
    · rename_i r0 hc
      split at h
      · exact absurd h (by simp)
      · rename_i tr1 th2 htr
        simp only [Except.ok.injEq, Prod.mk.injEq] at h
        obtain ⟨rfl, rfl⟩ := h
        have g0 := (containerFits_receiver env name _ i n.Allocatable scorer th.podResource
          th.nodeResource th.usedGroups true a r0 hc).1
        cases pre with
        | nil =>
          simp only [List.nil_append, List.cons.injEq] at e
          obtain ⟨rfl, -⟩ := e
          exact ⟨_, _, _, hc, UsedGrows.grows_refl _, fun q hq => by cases hq⟩
        | cons p0 pre1 =>
          simp only [List.cons_append, List.cons.injEq] at e
          obtain ⟨rfl, e1⟩ := e
          obtain ⟨contReq, pR, nR, h1, h2, h3⟩ := ih _ _ _ htr pre1 r post e1
          simp only at h1 h2 h3
          rw [usedAfter_cons]
          refine ⟨contReq, pR, nR, h1, g0.grows_trans h2, ?_⟩
          intro q hq
          rcases List.mem_cons.1 hq with rfl | hq
          · exact h2
          · exact h3 q hq

/-- Claim C38. The preference for used groups governs the running containers.
`PodFitsGroupConstraints` evaluates its running containers by calls of
`containerFitsGroupConstraints` with `bPreferUsed = true`, each on the used
groups that the call before it left (the empty map for the first one), which
hold every entry set by the earlier calls; a container without `AllocateFrom`
is searched by `allocateGroup` on a receiver with `PreferUsed = true` and these
used groups. A search with `PreferUsed = true` calls itself only on receivers
with `PreferUsed = true`, only adds entries to the used groups, and each later
sibling subgroup is searched on the used groups that the earlier one left. At
every level of such a search, a candidate location that is set in the used
groups at the entry is read as used, and as soon as one feasible candidate is
used the committed location is a feasible used one, whatever the scores of the
candidates that are not used. -/
theorem running_containers_prefer_used (env : Env) (n : NodeInfo) (spec : PodInfo) (a : Bool)
    (fit : PodFit) (h : PodFitsGroupConstraints env n spec a = .ok fit) :
    (∃ tr th, podFitsTrace env n (setScoreFunc env n) false a
        (SortedStringKeys spec.RunningContainers)
        ⟨spec.RunningContainers, [], initNodeResource n, []⟩ = .ok (tr, th) ∧
      tr.map Prod.fst = SortedStringKeys spec.RunningContainers ∧
      ∀ pre r post, tr = pre ++ r :: post →
        ∃ contReq pR nR,
          containerFitsGroupConstraints env r.1 contReq false n.Allocatable
            (setScoreFunc env n) pR nR (usedAfter [] pre) true a = .ok r.2 ∧
          (∀ q ∈ pre, UsedGrows q.2.grp.UsedGroups (usedAfter [] pre)) ∧
          (contReq.AllocateFrom = none →
            ∃ grp : GrpAllocator, grp.PreferUsed = true ∧ grp.UsedGroups = usedAfter [] pre ∧
              allocateGroup (searchFuel grp.GrpRequiredResource) grp =
                .ok (r.2.grp, r.2.found, r.2.reasons))) ∧
    (∀ (fuel : Nat) (grp grp1 : GrpAllocator) (found : Bool) (rs : List PredicateFailureReason),
      grp.PreferUsed = true → grp.GrpRequiredResource.length ≠ 0 →
      allocateGroup (fuel + 1) grp = .ok (grp1, found, rs) →
      (∀ f : GrpAllocator → AllocResult,
        (∀ g, g.PreferUsed = true → f g = allocateGroup fuel g) →
        allocateGroupBody f grp = allocateGroup (fuel + 1) grp) ∧
      UsedGrows grp.UsedGroups grp1.UsedGroups ∧
      ∃ cs gF, searchCandidates fuel grp = .ok (cs, gF) ∧
        (∀ c ∈ cs,
          grp.UsedGroups.getD (grp.AllocBaseGroupPrefix ++ "/" ++ c.key) false = true →
          c.isUsed = true) ∧
        ((∃ c ∈ cs, c.found = true ∧ c.isUsed = true) →
          found = true ∧ ∃ m ∈ cs, m.found = true ∧ m.isUsed = true ∧ Commits grp1 m ∧
            grp1.UsedGroups.getD (grp.AllocBaseGroupPrefix ++ "/" ++ m.key) false = true)) ∧
    (∀ (f : GrpAllocator → AllocResult) (loc : String) (sr sa : GoMap (GoMap (GoMap String)))
      (name idx : String) (rest : List String) (grp : GrpAllocator) (found : Bool)
      (pf : List PredicateFailureReason) (s1 : GrpAllocator) (b : Bool)
      (rs : List PredicateFailureReason),
      f (createSubGroup grp loc sr sa name idx) = .ok (s1, b, rs) →
      (createSubGroup grp loc sr sa name idx).PreferUsed = grp.PreferUsed ∧
      (createSubGroup grp loc sr sa name idx).UsedGroups = grp.UsedGroups ∧
      ∃ grp2 found2 pf2, grp2.UsedGroups = s1.UsedGroups ∧ grp2.PreferUsed = grp.PreferUsed ∧
        allocateSubGroupsInner f loc sr sa name (idx :: rest) grp found pf =
          allocateSubGroupsInner f loc sr sa name rest grp2 found2 pf2) := by
  refine ⟨?_, ?_, ?_⟩
  · unfold PodFitsGroupConstraints at h
    simp only at h
    cases h1 : podFitsLoop env n (setScoreFunc env n) false a
        (SortedStringKeys spec.RunningContainers)
        ⟨spec.RunningContainers, [], initNodeResource n, [], true, [], 0⟩ with
    | error e => rw [h1] at h; cases h
    | ok st1 =>
      obtain ⟨tr, th, htr, hnames, -⟩ := podFitsLoop_trace env n (setScoreFunc env n) false a
        _ _ _ h1
      simp only at htr
      refine ⟨tr, th, htr, hnames, ?_⟩
      intro pre r post e
      obtain ⟨contReq, pR, nR, c1, -, c3⟩ := podFitsTrace_used env n (setScoreFunc env n)
        false a _ _ _ _ htr pre r post e
      simp only at c1 c3
      refine ⟨contReq, pR, nR, c1, c3, ?_⟩
      exact (containerFits_receiver env r.1 contReq false n.Allocatable _ pR nR _ true a r.2
        c1).2
  · intro fuel grp grp1 found rs hpu hne hag
    refine ⟨?_, allocateGroup_grows _ _ _ _ _ hag, ?_⟩
    · intro f hf
      exact allocateGroupBody_preferUsed f (allocateGroup fuel) grp
        (fun g hg => hf g (hg.trans hpu))
    · obtain ⟨cs, gF, hcs, -, hsel⟩ := allocateGroup_search fuel grp grp1 found rs hne hag
      refine ⟨cs, gF, hcs, ?_, ?_⟩
      · intro c hc hu
        obtain ⟨-, hmem⟩ := candidates_spec _ _
          { grp with IsReqSubGrp :=
              (findSubGroups grp.ReqBaseGroupName grp.GrpRequiredResource).2 }
          _ _ cs gF rfl hcs
        obtain ⟨ug, -, hiu⟩ := hmem c hc
        have hg := candidates_grows _ (allocateGroup_grows fuel) _ _ _ _ _ hcs c hc
        rw [hiu]
        exact hg _ hu
      · intro hex
        obtain ⟨m, hm, -, -, hmu⟩ := selectCandidate_used grp.Score cs hex
        rw [hpu, hm] at hsel
        obtain ⟨s1, s2, s3, s4, s5⟩ := hsel
        exact ⟨s1, m, s2, s3, hmu, s4, s5⟩
  · intro f loc sr sa name idx rest grp found pf s1 b rs hf
    refine ⟨rfl, rfl, ?_⟩
    simp only [allocateSubGroupsInner, hf]
    split_ifs
    · exact ⟨{ grp with UsedGroups := s1.UsedGroups }, _, _, rfl, rfl, rfl⟩
    · exact ⟨takeGroup { grp with UsedGroups := s1.UsedGroups } s1, _, _, rfl, rfl, rfl⟩

/-- A pod with two running containers of 2 cards each. -/
def podC38 : PodInfo :=
  ⟨[("a", ⟨[("r/grp/gpu/A/cards", 2)], none, []⟩), ("b", ⟨[("r/grp/gpu/A/cards", 2)], none, []⟩)],
   []⟩

/-- A group for the requirement of the container `b` of `podC38`, with the
usage and the used groups that are left when the container `a` took 2 cards of
the gpu `1` of `nodeTwo`. -/
def groupC38 : GrpAllocator :=
  { ContName := "b"
    InitContainer := false
    PreferUsed := true
    RequiredResource := [("r/grp/gpu/A/cards", 2)]
    ReqScorer := [("r/grp/gpu/A/cards", none)]
    AllocResource := [("r/grp/gpu/0/cards", 8), ("r/grp/gpu/1/cards", 8)]
    AllocScorer := [("r/grp/gpu/0/cards", leftoverScoreFunc),
      ("r/grp/gpu/1/cards", leftoverScoreFunc)]
    UsedGroups := [("r/grp/gpu/1", true), ("r/grp", true)]
    GrpRequiredResource := [("cards", "r/grp/gpu/A/cards")]
    IsReqSubGrp := []
    GrpAllocResource := [("0", [("cards", "r/grp/gpu/0/cards")]),
      ("1", [("cards", "r/grp/gpu/1/cards")])]
    IsAllocSubGrp := []
    ReqBaseGroupName := "r/grp/gpu/A"
    AllocBaseGroupPrefix := "r/grp/gpu"
    Score := 0
    PodResource := [("r/grp/gpu/1/cards", 2)]
    NodeResource := [("r/grp/gpu/1/cards", 2)]
    AllocateFrom := [] }

set_option maxRecDepth 100000 in
theorem running_containers_prefer_used_witness :
    isValue (PodFitsGroupConstraints scenarioEnv nodeTwo podC38 true) = true ∧
    (okValue (PodFitsGroupConstraints scenarioEnv nodeTwo podC38 true)
        PodFit.zero).spec.RunningContainers.map (fun nc => (nc.1, nc.2.AllocateFrom)) =
      [("a", some [("r/grp/gpu/A/cards", "r/grp/gpu/1/cards")]),
        ("b", some [("r/grp/gpu/A/cards", "r/grp/gpu/1/cards")])] ∧
    (okValue (searchCandidates 0 groupC38) ([], GrpAllocator.zero)).1.map
        (fun c => (c.key, c.found, c.isUsed, c.grp.Score)) =
      [("0", true, false, 3 / 4), ("1", true, true, 1 / 2)] ∧
    (okValue (allocateGroup (0 + 1) groupC38) (GrpAllocator.zero, false, [])).1.AllocateFrom =
      [("r/grp/gpu/A/cards", "r/grp/gpu/1/cards")] ∧
    ∃ cs gF, searchCandidates 0 groupC38 = .ok (cs, gF) ∧
      ((∃ c ∈ cs, c.found = true ∧ c.isUsed = true) →
        ∃ m ∈ cs, m.found = true ∧ m.isUsed = true ∧
          Commits (okValue (allocateGroup (0 + 1) groupC38)
            (GrpAllocator.zero, false, [])).1 m) :=
  ⟨by decide!, by decide!, by decide!, by decide!,
    have h := ((running_containers_prefer_used scenarioEnv nodeTwo podC38 true _
      (eq_ok_okValue _ PodFit.zero (by decide!))).2.1 0 groupC38 _ _ _ rfl (by decide)
      (eq_ok_okValue _ (GrpAllocator.zero, false, []) (by decide!))).2.2
    h.imp (fun cs hc => hc.imp (fun gF hg => ⟨hg.1, fun hex =>
      (hg.2.2 hex).2.imp (fun m hm => ⟨hm.1, hm.2.1, hm.2.2.1, hm.2.2.2.1⟩)⟩))⟩

/-! ## The usage of the predicate and the usage that is replayed -/

/-- A node with one gpu of 16 cards. -/
def nodeC35 : NodeInfo := ⟨[("r/grp/gpu/0/cards", 16)], [], []⟩

/-- A pod with a running container of 4 cards and an init container with two
requirements, of 2 and of 3 cards. -/
def podC35 : PodInfo :=
  ⟨[("a", ⟨[("r/grp/gpu/A/cards", 4)], none, []⟩)],
   [("i", ⟨[("r/grp/gpu/A/cards", 2), ("r/grp/gpu/B/cards", 3)], none, []⟩)]⟩

/-- A node with a gpu of 16 cards, whose recorded usage is negative, and a gpu
with 8 units of memory. -/
def nodeC35b : NodeInfo :=
  ⟨[("r/grp/gpu/0/cards", 16), ("r/grp/gpu/1/mem", 8)], [("r/grp/gpu/0/cards", -1)], []⟩

/-- A pod with a running container of 4 cards and an init container of 2 units
of memory. -/
def podC35b : PodInfo :=
  ⟨[("a", ⟨[("r/grp/gpu/A/cards", 4)], none, []⟩)],
   [("i", ⟨[("r/grp/gpu/B/mem", 2)], none, []⟩)]⟩

set_option maxRecDepth 100000 in
/-- Claim C35, counterexample. On a gpu of 16 cards, a running container takes
4 cards and an init container has two requirements, of 2 and of 3 cards, that
are both allocated from the gpu: the predicate scores the key once with the
two requests and leaves the node usage `max(4, 4 + 5) = 9`, in the allocating
run and in the run on the filled pod, and `ComputePodGroupResources` replays
the two entries one by one and returns the node usage
`max(max(4, 4 + 2), 4 + 3) = 7`. With a recorded usage of `-1` on the cards, the
predicate scores the cards with no request for an init container that
allocates memory and leaves `max(3, 4) = 4`, and the replay leaves `3`. -/
theorem predicate_usage_differs_from_replay :
    (isValue (PodFitsGroupConstraints scenarioEnv nodeC35 podC35 true) = true ∧
    (okValue (PodFitsGroupConstraints scenarioEnv nodeC35 podC35 true) PodFit.zero).found = true ∧
    (okValue (PodFitsGroupConstraints scenarioEnv nodeC35 podC35 true)
        PodFit.zero).spec.InitContainers.map (fun nc => (nc.1, nc.2.AllocateFrom)) =
      [("i", some [("r/grp/gpu/A/cards", "r/grp/gpu/0/cards"),
        ("r/grp/gpu/B/cards", "r/grp/gpu/0/cards")])] ∧
    (okValue (PodFitsGroupConstraints scenarioEnv nodeC35 podC35 true)
        PodFit.zero).nodeResource.getD "r/grp/gpu/0/cards" 0 = 9 ∧
    (ComputePodGroupResources scenarioEnv nodeC35
      (okValue (PodFitsGroupConstraints scenarioEnv nodeC35 podC35 true) PodFit.zero).spec
      false).2.getD "r/grp/gpu/0/cards" 0 = 7 ∧
    (okValue (PodFitsGroupConstraints scenarioEnv nodeC35
      (okValue (PodFitsGroupConstraints scenarioEnv nodeC35 podC35 true) PodFit.zero).spec false)
        PodFit.zero).nodeResource.getD "r/grp/gpu/0/cards" 0 = 9) ∧
    (isValue (PodFitsGroupConstraints scenarioEnv nodeC35b podC35b true) = true ∧
    (okValue (PodFitsGroupConstraints scenarioEnv nodeC35b podC35b true)
        PodFit.zero).found = true ∧
    (okValue (PodFitsGroupConstraints scenarioEnv nodeC35b podC35b true)
        PodFit.zero).spec.InitContainers.map (fun nc => (nc.1, nc.2.AllocateFrom)) =
      [("i", some [("r/grp/gpu/B/mem", "r/grp/gpu/1/mem")])] ∧
    (okValue (PodFitsGroupConstraints scenarioEnv nodeC35b podC35b true)
        PodFit.zero).nodeResource.getD "r/grp/gpu/0/cards" 0 = 4 ∧
    (ComputePodGroupResources scenarioEnv nodeC35b
      (okValue (PodFitsGroupConstraints scenarioEnv nodeC35b podC35b true) PodFit.zero).spec
      false).2.getD "r/grp/gpu/0/cards" 0 = 3) := by
  refine ⟨⟨by decide!, by decide!, by decide!, by decide!, by decide!, by decide!⟩,
    ⟨by decide!, by decide!, by decide!, by decide!, by decide!⟩⟩

/-- The total that Take replays for a container on the key `k` is the sum of
the group requests that the allocator's map sends to `k`, when the container
holds the entries of this map and `k` is not the empty name. -/
theorem takeTotal_eq (env : Env) (cont : ContainerInfo) (grpAF : GoMap String) (k : String)
    (hk : k ≠ "")
    (hndR : cont.DevRequests.keys.Nodup)
    (hAF : (GoMap.keys (cont.AllocateFrom.getD [])).Nodup)
    (hrel : ∀ ea ∈ cont.AllocateFrom.getD [], ∀ v, (ea.1, v) ∈ groupRequests env cont →
      grpAF.getD ea.1 "" = ea.2)
    (hget : ∀ e, (cont.AllocateFrom.getD []).get? e = grpAF.get? e) :
    takeTotal env cont k = (requestsOf env cont grpAF k).sum := by
  have hT : takeTotal env cont k =
      ∑ e in (((cont.AllocateFrom.getD []).filter
        (fun ea => !env.PrecheckedResource ea.1 && decide (ea.2 = k))).map Prod.fst).toFinset,
        cont.DevRequests.getD e 0 := by
    rw [List.sum_toFinset]
    · unfold takeTotal entryVals
      rw [List.map_map]
      rfl
    · exact List.Nodup.sublist (List.Sublist.map _ (List.filter_sublist _)) hAF
  have hG : (GoMap.keys (groupRequests env cont)).Nodup := GoMap.keys_filter_nodup _ _ hndR
  have hS : (requestsOf env cont grpAF k).sum =
      ∑ e in (((groupRequests env cont).filter
        (fun kv => decide (grpAF.getD kv.1 "" = k))).map Prod.fst).toFinset,
        cont.DevRequests.getD e 0 := by
    rw [List.sum_toFinset]
    · unfold requestsOf
      rw [List.map_map]
      congr 1
      apply List.map_congr_left
      intro kv hkv
      have hmem : kv ∈ cont.DevRequests := (List.mem_filter.1 (List.mem_filter.1 hkv).1).1
      exact (GoMap.getD_of_mem _ hndR kv.1 kv.2 0 hmem).symm
    · exact List.Nodup.sublist (List.Sublist.map _ (List.filter_sublist _)) hG
  rw [hT, hS]
  symm
  apply Finset.sum_subset
  · intro e he
    simp only [List.mem_toFinset, List.mem_map, List.mem_filter, Bool.and_eq_true,
      Bool.not_eq_true', decide_eq_true_eq, Prod.exists, exists_and_right,
      exists_eq_right] at he ⊢
    obtain ⟨⟨v, hv⟩, hgk⟩ := he
    have hp : env.PrecheckedResource e = false := by
      have := (List.mem_filter.1 hv).2
      simpa using this
    refine ⟨k, ?_, hp, rfl⟩
    apply GoMap.mem_of_get?
    rw [hget e]
    cases hg : grpAF.get? e with
    | none =>
      exfalso
      unfold GoMap.getD at hgk
      rw [hg] at hgk
      exact hk hgk.symm
    | some a =>
      unfold GoMap.getD at hgk
      rw [hg] at hgk
      simp only [Option.getD_some] at hgk
      rw [hgk]
  · intro e he hne
    simp only [List.mem_toFinset, List.mem_map, List.mem_filter, Bool.and_eq_true,
      Bool.not_eq_true', decide_eq_true_eq, Prod.exists, exists_and_right,
      exists_eq_right] at he hne
    obtain ⟨a, hmem, hp, hak⟩ := he
    by_contra hd
    have hkey : e ∈ cont.DevRequests.keys := by
      by_contra hnot
      exact hd (GoMap.getD_of_not_mem_keys 0 hnot)
    obtain ⟨kv, hkv, rfl⟩ := List.mem_map.1 hkey
    have hg : (kv.1, kv.2) ∈ groupRequests env cont :=
      List.mem_filter.2 ⟨hkv, by simp [hp]⟩
    apply hne
    refine ⟨⟨kv.2, hg⟩, ?_⟩
    rw [hrel (kv.1, a) hmem kv.2 hg]
    exact hak

/-- One container of the predicate, key by key: with `t` the total that Take
replays for the container on the key `k`, the usage of `k` moves by the rule of
the contract for the request `t`. -/
theorem containerFits_step_eq (env : Env) (contName : String) (contReq : ContainerInfo)
    (initContainer : Bool) (allocatable : GoMap Int) (allocScorer : GoMap ResourceScoreFunc)
    (podResource nodeResource : GoMap Int) (usedGroups : GoMap Bool)
    (bPreferUsed : Bool) (r : ContainerFit)
    (hempty : env.PrecheckedResource "" = true)
    (hrun : containerFitsGroupConstraints env contName contReq initContainer allocatable
      allocScorer podResource nodeResource usedGroups bPreferUsed true = .ok r)
    (hfit : r.found = true)
    (hndA : allocatable.keys.Nodup) (hndR : contReq.DevRequests.keys.Nodup)
    (hAF : (GoMap.keys (contReq.AllocateFrom.getD [])).Nodup)
    (hnn : ∀ kv ∈ contReq.DevRequests, 0 ≤ kv.2)
    (hsc : ∀ k f, allocScorer.get? k = some f → ObeysContract f) (k : String) :
    0 ≤ takeTotal env r.contReq k ∧
    (initContainer = false →
      r.grp.PodResource.getD k 0 = podResource.getD k 0 + takeTotal env r.contReq k ∧
      r.grp.NodeResource.getD k 0 = nodeResource.getD k 0 + takeTotal env r.contReq k) ∧
    (initContainer = true → 0 ≤ podResource.getD k 0 →
      podResource.getD k 0 ≤ nodeResource.getD k 0 →
      r.grp.PodResource.getD k 0 = max (podResource.getD k 0) (takeTotal env r.contReq k) ∧
      r.grp.NodeResource.getD k 0 =
        max (nodeResource.getD k 0) (podResource.getD k 0 + takeTotal env r.contReq k)) := by
  obtain ⟨w1, w2, w3⟩ := containerFits_written env contName contReq initContainer allocatable
    allocScorer podResource nodeResource usedGroups bPreferUsed r hrun hndR hAF
  obtain ⟨-, -, -, a4⟩ := containerFits_af env contName contReq initContainer allocatable
    allocScorer podResource nodeResource usedGroups bPreferUsed r hrun hndR hAF
  have hg : groupRequests env r.contReq = groupRequests env contReq := by
    unfold groupRequests; rw [w1]
  have hro : requestsOf env r.contReq r.grp.AllocateFrom k =
      requestsOf env contReq r.grp.AllocateFrom k := by
    unfold requestsOf; rw [hg]
  have hnn1 : ∀ kv ∈ r.contReq.DevRequests, 0 ≤ kv.2 := by rw [w1]; exact hnn
  have h0 : 0 ≤ takeTotal env r.contReq k := takeTotal_nonneg env r.contReq k hnn1
  have hle : takeTotal env r.contReq k ≤ (requestsOf env contReq r.grp.AllocateFrom k).sum := by
    rw [← hro]
    apply takeTotal_le env r.contReq r.grp.AllocateFrom k (by rw [w1]; exact hndR) w2 hnn1
    rw [hg]
    exact w3
  -- the usage is unchanged and the total is zero
  have hsame : (requestsOf env contReq r.grp.AllocateFrom k).sum = 0 →
      r.grp.PodResource.getD k 0 = podResource.getD k 0 →
      r.grp.NodeResource.getD k 0 = nodeResource.getD k 0 →
      (initContainer = false →
        r.grp.PodResource.getD k 0 = podResource.getD k 0 + takeTotal env r.contReq k ∧
        r.grp.NodeResource.getD k 0 = nodeResource.getD k 0 + takeTotal env r.contReq k) ∧
      (initContainer = true → 0 ≤ podResource.getD k 0 →
        podResource.getD k 0 ≤ nodeResource.getD k 0 →
        r.grp.PodResource.getD k 0 = max (podResource.getD k 0) (takeTotal env r.contReq k) ∧
        r.grp.NodeResource.getD k 0 =
          max (nodeResource.getD k 0) (podResource.getD k 0 + takeTotal env r.contReq k)) := by
    intro hs hp hn
    have ht : takeTotal env r.contReq k = 0 := le_antisymm (hs ▸ hle) h0
    rw [ht, hp, hn]
    refine ⟨fun _ => ⟨by ring, by ring⟩, fun _ hp0 hpn => ⟨?_, ?_⟩⟩
    · rw [max_eq_left hp0]
    · rw [add_zero, max_eq_left hpn]
  refine ⟨h0, ?_⟩
  rcases containerFits_usage env contName contReq initContainer allocatable allocScorer
    podResource nodeResource usedGroups bPreferUsed true r hrun hfit hndA hndR with
    ⟨hnil, hp, hn⟩ | ⟨hscored, hother, hcov⟩
  · apply hsame
    · unfold requestsOf
      rw [hnil]
      rfl
    · rw [hp]
    · rw [hn]
  · by_cases hk : IsGroupAllocatable env allocatable k
    · obtain ⟨f, hf, hfound, hpod, hnode⟩ := hscored k hk
      obtain ⟨c1, c2, c3⟩ := hsc k f hf (allocatable.getD k 0) (podResource.getD k 0)
        (nodeResource.getD k 0) (requestsOf env contReq r.grp.AllocateFrom k) initContainer
      have hk0 : k ≠ "" := by
        intro e
        rw [e] at hk
        unfold IsGroupAllocatable at hk
        rw [hempty] at hk
        exact absurd hk.2 (by simp)
      have hteq : takeTotal env r.contReq k =
          (requestsOf env contReq r.grp.AllocateFrom k).sum := by
        rcases a4 with a4 | a4
        · have hs : (requestsOf env contReq r.grp.AllocateFrom k).sum = 0 := by
            unfold requestsOf
            rw [a4]
            rfl
          rw [hs]
          exact le_antisymm (hs ▸ hle) h0
        · rw [← hro]
          apply takeTotal_eq env r.contReq r.grp.AllocateFrom k hk0 (by rw [w1]; exact hndR) w2
          · rw [hg]
            exact w3
          · exact a4
      rw [hteq, hpod, hnode, c1, c2]
      refine ⟨fun hi => ?_, fun hi _ _ => ?_⟩
      · simp [hi]
      · simp [hi]
    · obtain ⟨h1, h2⟩ := hother k hk
      apply hsame _ h1 h2
      unfold requestsOf
      have : (groupRequests env contReq).filter
          (fun kv => decide (r.grp.AllocateFrom.getD kv.1 "" = k)) = [] := by
        apply List.filter_eq_nil_iff.2
        intro kv hkv
        simp only [decide_eq_true_eq]
        intro heq
        exact hk (heq ▸ hcov kv hkv)
      rw [this]
      rfl

/-- The init rule of section 4.1 on the usage `(pod, node)` of one key, for the
request `t`. -/
def initStep (s : Int × Int) (t : Int) : Int × Int := (max s.1 t, max s.2 (s.1 + t))

theorem initStep_comm (s : Int × Int) (a b : Int) :
    initStep (initStep s a) b = initStep (initStep s b) a := by
  unfold initStep
  simp only [Prod.mk.injEq]
  constructor
  · rw [max_assoc, max_assoc, max_comm a b]
  · simp only [max_def]
    split_ifs <;> omega

theorem initStep_inv (s : Int × Int) (t : Int) (h0 : 0 ≤ s.1) (h1 : s.1 ≤ s.2) :
    0 ≤ (initStep s t).1 ∧ (initStep s t).1 ≤ (initStep s t).2 := by
  unfold initStep
  simp only
  refine ⟨le_max_of_le_left h0, max_le ?_ ?_⟩
  · exact le_max_of_le_left h1
  · exact le_max_of_le_right (by linarith)

theorem foldl_initStep_perm (l l2 : List Int) (h : List.Perm l l2) (s : Int × Int) :
    l.foldl initStep s = l2.foldl initStep s := by
  induction h generalizing s with
  | nil => rfl
  | cons x _ ih => simp only [List.foldl_cons]; exact ih _
  | swap x y l => simp only [List.foldl_cons]; rw [initStep_comm]
  | trans _ _ ih1 ih2 => exact (ih1 s).trans (ih2 s)

/-- The replay of an init container that allocates from the key `k` with at
most one entry: the usage of `k` moves by the init rule for the total of the
container. -/
theorem updateLoop_init_replay (env : Env) (n : NodeInfo) (cont : ContainerInfo)
    (hc : ∀ k sel, ObeysContract (env.SetScorer k sel)) (k : String)
    (acc : GoMap Int × GoMap Int)
    (hone : (entryVals env cont (cont.AllocateFrom.getD []) k).length ≤ 1)
    (h0 : 0 ≤ acc.1.getD k 0) (h1 : acc.1.getD k 0 ≤ acc.2.getD k 0) :
    ((updateGroupResourceForContainerLoop env n cont true (cont.AllocateFrom.getD [])
        acc).1.getD k 0,
      (updateGroupResourceForContainerLoop env n cont true (cont.AllocateFrom.getD [])
        acc).2.getD k 0) =
      initStep (acc.1.getD k 0, acc.2.getD k 0) (takeTotal env cont k) := by
  unfold takeTotal initStep
  cases hv : entryVals env cont (cont.AllocateFrom.getD []) k with
  | nil =>
    obtain ⟨a, b⟩ := updateLoop_untouched env n cont true k _ acc hv
    rw [a, b]
    simp only [List.sum_nil, add_zero]
    rw [max_eq_left h0, max_eq_left h1]
  | cons v t =>
    cases t with
    | nil =>
      obtain ⟨a, b⟩ := updateLoop_init_single env n cont hc k v _ acc hv
      rw [a, b]
      simp
    | cons w t2 =>
      rw [hv] at hone
      simp at hone

/-- The replay of the init containers, each allocating from the key `k` with at
most one entry: the usage of `k` moves by the init rule, container by
container. -/
theorem updateContainers_init_replay (env : Env) (n : NodeInfo)
    (hc : ∀ k sel, ObeysContract (env.SetScorer k sel)) (k : String) :
    ∀ (conts : GoMap ContainerInfo) (acc : GoMap Int × GoMap Int),
      (∀ nc ∈ conts, (entryVals env nc.2 (nc.2.AllocateFrom.getD []) k).length ≤ 1) →
      0 ≤ acc.1.getD k 0 → acc.1.getD k 0 ≤ acc.2.getD k 0 →
      ((updateContainers env n true conts acc).1.getD k 0,
        (updateContainers env n true conts acc).2.getD k 0) =
        (conts.map (fun nc => takeTotal env nc.2 k)).foldl initStep
          (acc.1.getD k 0, acc.2.getD k 0) := by
  intro conts
  induction conts with
  | nil => intro acc _ _ _; rfl
  | cons q t ih =>
    obtain ⟨name, cont⟩ := q
    intro acc hone h0 h1
    obtain ⟨P, N⟩ := acc
    simp only [updateContainers, updateGroupResourceForContainer, List.map_cons,
      List.foldl_cons]
    have e := updateLoop_init_replay env n cont hc k (P, N)
      (hone _ (List.mem_cons_self _ _)) h0 h1
    simp only at e
    have hi := initStep_inv (P.getD k 0, N.getD k 0) (takeTotal env cont k) h0 h1
    rw [← e] at hi ⊢
    simp only at hi
    exact ih _ (fun nc h => hone nc (List.mem_cons_of_mem _ h)) hi.1 hi.2

/-- The loop of the predicate over the running containers, for one key `k`:
the pod usage and the node usage rise by the totals that Take replays for the
containers of the loop. -/
theorem podFitsLoop_running_eq (env : Env) (n : NodeInfo)
    (hc : ∀ k sel, ObeysContract (env.SetScorer k sel))
    (hempty : env.PrecheckedResource "" = true) (hndA : n.Allocatable.keys.Nodup)
    (k : String) :
    ∀ (names : List String) (st st1 : PodFitState), names.Nodup →
      (∀ nc ∈ st.containers, GoodCont nc.2) →
      podFitsLoop env n (setScoreFunc env n) false true names st = .ok st1 →
      st1.found = true →
      (∀ nc ∈ st1.containers, GoodCont nc.2) ∧
      (∀ x, x ∉ names → st1.containers.getD x ContainerInfo.zero =
        st.containers.getD x ContainerInfo.zero) ∧
      st1.podResource.getD k 0 = st.podResource.getD k 0 + (names.map (fun name =>
        takeTotal env (st1.containers.getD name ContainerInfo.zero) k)).sum ∧
      st1.nodeResource.getD k 0 = st.nodeResource.getD k 0 + (names.map (fun name =>
        takeTotal env (st1.containers.getD name ContainerInfo.zero) k)).sum := by
  intro names
  induction names with
  | nil =>
    intro st st1 _ hgood h _
    simp only [podFitsLoop, Except.ok.injEq] at h
    subst h
    exact ⟨hgood, fun _ _ => rfl, by simp, by simp⟩
  | cons name rest ih =>
    intro st st1 hnd hgood h hf
    obtain ⟨hname, hndr⟩ := List.nodup_cons.1 hnd
    simp only [podFitsLoop] at h
    split at h
    · exact absurd h (by simp)
    · rename_i r hr
      have hf1 := podFitsLoop_found _ _ _ _ _ _ _ _ h hf
      simp only at hf1
      have hrf : r.found = true := by
        by_contra hne
        have : r.found = false := by simpa using hne
        simp [this] at hf1
      have hg0 := goodCont_getD st.containers hgood name
      have hsc : ∀ k1 f, (setScoreFunc env n).get? k1 = some f → ObeysContract f := by
        intro k1 f hf2
        obtain ⟨sel, hsel⟩ := setScoreFunc_mem env n (k1, f) (GoMap.mem_of_get? hf2)
        simp only at hsel
        rw [hsel]
        exact hc _ _
      obtain ⟨s1, s2, -⟩ := containerFits_written env name _ false n.Allocatable _ _ _ _ true r
        hr hg0.reqKeys hg0.afKeys
      obtain ⟨-, e1, -⟩ := containerFits_step_eq env name _ false n.Allocatable _ _ _ _ true r
        hempty hr hrf hndA hg0.reqKeys hg0.afKeys hg0.nonneg hsc k
      obtain ⟨e1, e2⟩ := e1 rfl
      have hgood1 : ∀ nc ∈ st.containers.set name r.contReq, GoodCont nc.2 := by
        intro nc hnc
        rcases GoMap.mem_set hnc with rfl | hnc
        · exact ⟨by rw [s1]; exact hg0.reqKeys, s2, by rw [s1]; exact hg0.nonneg⟩
        · exact hgood nc hnc
      obtain ⟨a1, a2, a3, a4⟩ := ih _ _ hndr hgood1 h hf
      simp only at a2 a3 a4
      have hcont : st1.containers.getD name ContainerInfo.zero = r.contReq := by
        rw [a2 name hname, GoMap.getD_set]
        simp
      refine ⟨a1, ?_, ?_, ?_⟩
      · intro x hx
        simp only [List.mem_cons, not_or] at hx
        rw [a2 x hx.2, GoMap.getD_set]
        have : ¬ name = x := fun e => hx.1 e.symm
        simp [this]
      · rw [a3, e1, List.map_cons, List.sum_cons, hcont]
        ring
      · rw [a4, e2, List.map_cons, List.sum_cons, hcont]
        ring

/-- The loop of the predicate over the init containers, for one key `k`: the
usage of `k` moves by the init rule, container by container, for the totals
that Take replays for the containers of the loop. -/
theorem podFitsLoop_init_eq (env : Env) (n : NodeInfo)
    (hc : ∀ k sel, ObeysContract (env.SetScorer k sel))
    (hempty : env.PrecheckedResource "" = true) (hndA : n.Allocatable.keys.Nodup)
    (k : String) :
    ∀ (names : List String) (st st1 : PodFitState), names.Nodup →
      (∀ nc ∈ st.containers, GoodCont nc.2) →
      podFitsLoop env n (setScoreFunc env n) true true names st = .ok st1 →
      st1.found = true →
      0 ≤ st.podResource.getD k 0 → st.podResource.getD k 0 ≤ st.nodeResource.getD k 0 →
      (∀ nc ∈ st1.containers, GoodCont nc.2) ∧
      (∀ x, x ∉ names → st1.containers.getD x ContainerInfo.zero =
        st.containers.getD x ContainerInfo.zero) ∧
      (st1.podResource.getD k 0, st1.nodeResource.getD k 0) =
        (names.map (fun name =>
          takeTotal env (st1.containers.getD name ContainerInfo.zero) k)).foldl initStep
          (st.podResource.getD k 0, st.nodeResource.getD k 0) := by
  intro names
  induction names with
  | nil =>
    intro st st1 _ hgood h _ _ _
    simp only [podFitsLoop, Except.ok.injEq] at h
    subst h
    exact ⟨hgood, fun _ _ => rfl, rfl⟩
  | cons name rest ih =>
    intro st st1 hnd hgood h hf h0 h1
    obtain ⟨hname, hndr⟩ := List.nodup_cons.1 hnd
    simp only [podFitsLoop] at h
    split at h
    · exact absurd h (by simp)
    · rename_i r hr
      have hf1 := podFitsLoop_found _ _ _ _ _ _ _ _ h hf
      simp only at hf1
      have hrf : r.found = true := by
        by_contra hne
        have : r.found = false := by simpa using hne
        simp [this] at hf1
      have hg0 := goodCont_getD st.containers hgood name
      have hsc : ∀ k1 f, (setScoreFunc env n).get? k1 = some f → ObeysContract f := by
        intro k1 f hf2
        obtain ⟨sel, hsel⟩ := setScoreFunc_mem env n (k1, f) (GoMap.mem_of_get? hf2)
        simp only at hsel
        rw [hsel]
        exact hc _ _
      obtain ⟨s1, s2, -⟩ := containerFits_written env name _ true n.Allocatable _ _ _ _ true r
        hr hg0.reqKeys hg0.afKeys
      obtain ⟨-, -, e1⟩ := containerFits_step_eq env name _ true n.Allocatable _ _ _ _ true r
        hempty hr hrf hndA hg0.reqKeys hg0.afKeys hg0.nonneg hsc k
      obtain ⟨e1, e2⟩ := e1 rfl h0 h1
      have hgood1 : ∀ nc ∈ st.containers.set name r.contReq, GoodCont nc.2 := by
        intro nc hnc
        rcases GoMap.mem_set hnc with rfl | hnc
        · exact ⟨by rw [s1]; exact hg0.reqKeys, s2, by rw [s1]; exact hg0.nonneg⟩
        · exact hgood nc hnc
      have hi := initStep_inv (st.podResource.getD k 0, st.nodeResource.getD k 0)
        (takeTotal env r.contReq k) h0 h1
      have hstep : (r.grp.PodResource.getD k 0, r.grp.NodeResource.getD k 0) =
          initStep (st.podResource.getD k 0, st.nodeResource.getD k 0)
            (takeTotal env r.contReq k) := by
        unfold initStep
        rw [e1, e2]
      rw [← hstep] at hi
      simp only at hi
      obtain ⟨a1, a2, a3⟩ := ih _ _ hndr hgood1 h hf hi.1 hi.2
      simp only at a2 a3
      have hcont : st1.containers.getD name ContainerInfo.zero = r.contReq := by
        rw [a2 name hname, GoMap.getD_set]
        simp
      refine ⟨a1, ?_, ?_⟩
      · intro x hx
        simp only [List.mem_cons, not_or] at hx
        rw [a2 x hx.2, GoMap.getD_set]
        have : ¬ name = x := fun e => hx.1 e.symm
        simp [this]
      · rw [a3, List.map_cons, List.foldl_cons, hcont, hstep]

theorem entryVals_length_le (env : Env) (cont : ContainerInfo) (l : GoMap String) (k : String) :
    (entryVals env cont l k).length ≤ l.length := by
  unfold entryVals
  rw [List.length_map]
  exact List.length_filter_le _ _

/-- The totals of the containers of a map, in the order of the map, are a
permutation of the totals read in the order of the sorted names. -/
theorem totals_perm (conts : GoMap ContainerInfo) (h : conts.keys.Nodup)
    (f : ContainerInfo → Int) :
    List.Perm ((SortedStringKeys conts).map (fun name => f (conts.getD name ContainerInfo.zero)))
      (conts.map (fun nc => f nc.2)) := by
  have e : conts.map (fun nc => f nc.2) =
      conts.keys.map (fun name => f (conts.getD name ContainerInfo.zero)) := by
    unfold GoMap.keys
    rw [List.map_map]
    apply List.map_congr_left
    intro nc hnc
    simp only [Function.comp]
    rw [GoMap.getD_of_mem conts h nc.1 nc.2 ContainerInfo.zero hnc]
  rw [e]
  exact List.Perm.map _ (SortedStringKeys_perm conts h)

/-- Claim C35, amended. Predicate and accounting agree on the usage when no
init container allocates twice from one key: for every node with non-negative
usage and every pod with non-negative requests, if
`PodFitsGroupConstraints(node, pod, true)` returns `fits = true` and, in the
pod as it is filled, every init container has at most one entry of
`AllocateFrom` (for a requirement that is not prechecked) per allocatable key,
then the node usage and the pod usage that the predicate threads out of its
last container equal, on every key, the `updatedUsedByNode` and the
`podResources` that `ComputePodGroupResources(node, pod, false)` computes on the
filled pod. The scorers obey the contract of section 4.1, the empty name is
prechecked, and the keys of every map are distinct, as in a Go map. -/
theorem predicate_usage_is_replayed (env : Env) (n : NodeInfo) (spec : PodInfo) (fit : PodFit)
    (hc : ∀ k sel, ObeysContract (env.SetScorer k sel))
    (hempty : env.PrecheckedResource "" = true)
    (hndA : n.Allocatable.keys.Nodup) (hU : n.Used.keys.Nodup)
    (hR : spec.RunningContainers.keys.Nodup) (hI : spec.InitContainers.keys.Nodup)
    (hgR : ∀ nc ∈ spec.RunningContainers, GoodCont nc.2)
    (hgI : ∀ nc ∈ spec.InitContainers, GoodCont nc.2)
    (hused : ∀ k, 0 ≤ n.Used.getD k 0)
    (hrun : PodFitsGroupConstraints env n spec true = .ok fit)
    (hfit : fit.found = true)
    (hone : ∀ nc ∈ fit.spec.InitContainers, ∀ k,
      (entryVals env nc.2 (nc.2.AllocateFrom.getD []) k).length ≤ 1) :
    ∀ k, fit.nodeResource.getD k 0 =
        (ComputePodGroupResources env n fit.spec false).2.getD k 0 ∧
      fit.podResource.getD k 0 =
        (ComputePodGroupResources env n fit.spec false).1.getD k 0 := by
  intro k
  unfold PodFitsGroupConstraints at hrun
  simp only at hrun
  split at hrun
  · exact absurd hrun (by simp)
  · rename_i st1 h1
    split at hrun
    · exact absurd hrun (by simp)
    · rename_i st2 h2
      simp only [Except.ok.injEq] at hrun
      subst hrun
      simp only at hfit hone ⊢
      have hf1 := podFitsLoop_found _ _ _ _ _ _ _ _ h2 hfit
      simp only at hf1
      -- the running containers
      obtain ⟨g1, -, r3, r4⟩ := podFitsLoop_running_eq env n hc hempty hndA k _ _ _
        (SortedStringKeys_nodup _) (by exact hgR) h1 hf1
      simp only at r3 r4
      have hk1 := podFitsLoop_keys _ _ _ _ _ _ _ _
        (fun x hx => (mem_SortedStringKeys spec.RunningContainers x).1 hx) h1
      simp only at hk1
      have hs1 : SortedStringKeys spec.RunningContainers = SortedStringKeys st1.containers := by
        unfold SortedStringKeys
        rw [hk1]
      have hinit : (initNodeResource n).getD k 0 = n.Used.getD k 0 :=
        getD_copyInto_nil _ _ hU
      have hp0 : GoMap.getD ([] : GoMap Int) k 0 = 0 := rfl
      rw [hinit, hs1, ← sum_containers_eq st1.containers (hk1 ▸ hR)
        (fun c => takeTotal env c k)] at r4
      rw [hp0, hs1, ← sum_containers_eq st1.containers (hk1 ▸ hR)
        (fun c => takeTotal env c k)] at r3
      obtain ⟨u1, u2⟩ := updateContainers_running env n hc k st1.containers
        ([], copyInto n.Used [])
      simp only at u1 u2
      rw [getD_copyInto_nil _ _ hU] at u2
      rw [hp0] at u1
      have hsum0 : 0 ≤ (st1.containers.map (fun nc => takeTotal env nc.2 k)).sum := by
        apply List.sum_nonneg
        intro v hv
        obtain ⟨nc, hnc, rfl⟩ := List.mem_map.1 hv
        exact takeTotal_nonneg env nc.2 k (g1 nc hnc).nonneg
      have i0 : 0 ≤ st1.podResource.getD k 0 := by rw [r3]; linarith
      have i1 : st1.podResource.getD k 0 ≤ st1.nodeResource.getD k 0 := by
        rw [r3, r4]
        have := hused k
        linarith
      -- the init containers
      obtain ⟨-, -, r5⟩ := podFitsLoop_init_eq env n hc hempty hndA k _ _ _
        (SortedStringKeys_nodup _) (by exact hgI) h2 hfit i0 i1
      simp only at r5
      have hk2 := podFitsLoop_keys _ _ _ _ _ _ _ _
        (fun x hx => (mem_SortedStringKeys spec.InitContainers x).1 hx) h2
      simp only at hk2
      have hs2 : SortedStringKeys spec.InitContainers = SortedStringKeys st2.containers := by
        unfold SortedStringKeys
        rw [hk2]
      rw [hs2, foldl_initStep_perm _ _ (totals_perm st2.containers (hk2 ▸ hI)
        (fun c => takeTotal env c k))] at r5
      have u3 := updateContainers_init_replay env n hc k st2.containers
        (updateContainers env n false st1.containers ([], copyInto n.Used []))
        (fun nc hnc => hone nc hnc k) (by rw [u1, ← r3]; exact i0)
        (by rw [u1, u2, ← r3, ← r4]; exact i1)
      rw [u1, u2, ← r3, ← r4, ← r5] at u3
      unfold ComputePodGroupResources
      simp only [Bool.false_eq_true, if_false]
      simp only [Prod.mk.injEq] at u3
      exact ⟨u3.2.symm, u3.1.symm⟩

set_option maxRecDepth 100000 in
theorem predicate_usage_is_replayed_witness :
    (okValue (PodFitsGroupConstraints scenarioEnv nodeS1 podS4 true) PodFit.zero).found = true ∧
    (okValue (PodFitsGroupConstraints scenarioEnv nodeS1 podS4 true)
        PodFit.zero).nodeResource.getD "r/grp/gpu/0/cards" 0 = 6 ∧
    ∀ k, (okValue (PodFitsGroupConstraints scenarioEnv nodeS1 podS4 true)
          PodFit.zero).nodeResource.getD k 0 =
        (ComputePodGroupResources scenarioEnv nodeS1
          (okValue (PodFitsGroupConstraints scenarioEnv nodeS1 podS4 true) PodFit.zero).spec
          false).2.getD k 0 ∧
      (okValue (PodFitsGroupConstraints scenarioEnv nodeS1 podS4 true)
          PodFit.zero).podResource.getD k 0 =
        (ComputePodGroupResources scenarioEnv nodeS1
          (okValue (PodFitsGroupConstraints scenarioEnv nodeS1 podS4 true) PodFit.zero).spec
          false).1.getD k 0 :=
  have hused : ∀ k, 0 ≤ nodeS1.Used.getD k 0 := fun k => by
    simp [nodeS1, GoMap.getD, GoMap.get?]
  have hlen : ∀ nc ∈ (okValue (PodFitsGroupConstraints scenarioEnv nodeS1 podS4 true)
      PodFit.zero).spec.InitContainers, (nc.2.AllocateFrom.getD []).length ≤ 1 := by decide!
  ⟨by decide!, by decide!,
    predicate_usage_is_replayed scenarioEnv nodeS1 podS4 _ scenario_contract (by decide)
      (by decide) (by decide) (by decide) (by decide)
      (fun nc h => by
        simp only [podS4, List.mem_singleton] at h
        subst h
        exact ⟨by decide, by decide, by decide⟩)
      (fun nc h => by
        simp only [podS4, List.mem_singleton] at h
        subst h
        exact ⟨by decide, by decide, by decide⟩)
      hused (eq_ok_okValue _ PodFit.zero (by decide!)) (by decide!)
      (fun nc hnc k => le_trans (entryVals_length_le _ _ _ _) (hlen nc hnc))⟩

/-! ## The predicate on a pod that it filled -/

/-- The fields that `findScoreAndUpdate` reads are the same in `g` and `g2`;
`AllocateFrom` has the same lookups. -/
structure SameScoring (g g2 : GrpAllocator) : Prop where
  initContainer : g2.InitContainer = g.InitContainer
  requiredResource : g2.RequiredResource = g.RequiredResource
  allocResource : g2.AllocResource = g.AllocResource
  allocScorer : g2.AllocScorer = g.AllocScorer
  grpAllocResource : g2.GrpAllocResource = g.GrpAllocResource
  grpRequiredResource : g2.GrpRequiredResource = g.GrpRequiredResource
  podResource : g2.PodResource = g.PodResource
  nodeResource : g2.NodeResource = g.NodeResource
  allocateFrom : ∀ k, g2.AllocateFrom.getD k "" = g.AllocateFrom.getD k ""

theorem requestedResourceLoop_congr (g g2 : GrpAllocator) (h : SameScoring g g2) :
    ∀ (l : GoMap String) (rr : GoMap (List Int)) (found : Bool)
      (pf : List PredicateFailureReason),
      requestedResourceLoop g2 l rr found pf = requestedResourceLoop g l rr found pf := by
  intro l
  induction l with
  | nil => intro rr found pf; rfl
  | cons p t ih =>
    obtain ⟨k, e⟩ := p
    intro rr found pf
    simp only [requestedResourceLoop]
    rw [h.allocateFrom, h.allocResource, h.requiredResource]
    cases g.AllocResource.get? (g.AllocateFrom.getD e "") with
    | none => exact ih _ _ _
    | some v => exact ih _ _ _

/-- The fields that the scoring loop reads and writes are the same. -/
structure SameUsage (g g2 : GrpAllocator) : Prop where
  initContainer : g2.InitContainer = g.InitContainer
  allocResource : g2.AllocResource = g.AllocResource
  allocScorer : g2.AllocScorer = g.AllocScorer
  podResource : g2.PodResource = g.PodResource
  nodeResource : g2.NodeResource = g.NodeResource
  score : g2.Score = g.Score

theorem scoreLoop_congr (rr : GoMap (List Int)) :
    ∀ (l : GoMap String) (g g2 : GrpAllocator) (found : Bool)
      (pf : List PredicateFailureReason) (g1 : GrpAllocator) (found1 : Bool)
      (pf1 : List PredicateFailureReason), SameUsage g g2 →
      scoreLoop rr l g found pf = .ok (g1, found1, pf1) →
      ∃ g3, scoreLoop rr l g2 found pf = .ok (g3, found1, pf1) ∧ SameUsage g1 g3 := by
  intro l
  induction l with
  | nil =>
    intro g g2 found pf g1 found1 pf1 hs h
    simp only [scoreLoop, Except.ok.injEq, Prod.mk.injEq] at h
    obtain ⟨rfl, rfl, rfl⟩ := h
    exact ⟨g2, rfl, hs⟩
  | cons p t ih =>
    obtain ⟨k, key⟩ := p
    intro g g2 found pf g1 found1 pf1 hs h
    simp only [scoreLoop] at h ⊢
    rw [hs.allocScorer, hs.allocResource, hs.podResource, hs.nodeResource, hs.initContainer]
    cases hf : g.AllocScorer.get? key with
    | none => rw [hf] at h; cases h
    | some scoreFn =>
      rw [hf] at h
      simp only at h ⊢
      split_ifs at h ⊢ with hfound
      · exact ih _ _ _ _ _ _ _ hs h
      · refine ih _ _ _ _ _ _ _ ?_ h
        exact ⟨rfl, rfl, rfl, rfl, rfl, by simp only [hs.score]⟩

/-- The rescoring depends only on the fields it reads: on two groups with the
same requirements, allocatable quantities, scorers and usage, and the same
lookups of `AllocateFrom`, it returns the same verdict, the same reasons, the
same score and the same usage. -/
theorem findScoreAndUpdate_congr (g g2 : GrpAllocator) (h : SameScoring g g2) (loc : String)
    (g1 : GrpAllocator) (found1 : Bool) (pf1 : List PredicateFailureReason)
    (hrun : findScoreAndUpdate g loc = .ok (g1, found1, pf1)) :
    ∃ g3, findScoreAndUpdate g2 loc = .ok (g3, found1, pf1) ∧ g3.Score = g1.Score ∧
      g3.PodResource = g1.PodResource ∧ g3.NodeResource = g1.NodeResource ∧
      g3.UsedGroups = g2.UsedGroups := by
  unfold findScoreAndUpdate at hrun ⊢
  rw [requestedResourceLoop_congr g g2 h, h.grpRequiredResource, h.grpAllocResource]
  generalize requestedResourceLoop g g.GrpRequiredResource [] true [] = r at hrun ⊢
  obtain ⟨rr, f0, pf0⟩ := r
  simp only at hrun ⊢
  cases hs : scoreLoop rr (g.GrpAllocResource.getD loc []) { g with Score := 0 } f0 pf0 with
  | error e => rw [hs] at hrun; cases hrun
  | ok res =>
    obtain ⟨ga, fa, pa⟩ := res
    rw [hs] at hrun
    simp only [Except.ok.injEq, Prod.mk.injEq] at hrun
    obtain ⟨rfl, rfl, rfl⟩ := hrun
    obtain ⟨g3, h3, s3⟩ := scoreLoop_congr rr _ { g with Score := 0 }
      { g2 with
        Score := 0
        GrpRequiredResource := g.GrpRequiredResource
        GrpAllocResource := g.GrpAllocResource }
      f0 pf0 ga fa pa
      ⟨h.initContainer, h.allocResource, h.allocScorer, h.podResource, h.nodeResource, rfl⟩ hs
    rw [h3]
    obtain ⟨-, -, u3, -, -⟩ := scoreLoop_static _ _ _ _ _ _ _ _ h3
    refine ⟨_, rfl, ?_, s3.podResource, s3.nodeResource, u3⟩
    show g3.Score / _ = ga.Score / _
    rw [s3.score]

theorem collectRequests_scorer (env : Env) (c c2 : ContainerInfo) (h : c2.Scorer = c.Scorer) :
    ∀ (l : GoMap Int) (acc : GoMap String × GoMap Int × GoMap (Option ResourceScoreFunc)),
      collectRequests env c2 l acc = collectRequests env c l acc := by
  intro l
  induction l with
  | nil => intro acc; rfl
  | cons p t ih =>
    obtain ⟨k, v⟩ := p
    intro acc
    obtain ⟨a1, a2, a3⟩ := acc
    simp only [collectRequests]
    rw [h]
    split_ifs
    · exact ih _
    · exact ih _

/-- A container that fits, evaluated with the filling of `AllocateFrom`, fits
again when it is evaluated as the call left it, from the same usage: the second
call makes no search, leaves the container as it is, and returns the score and
the usage of the first call. -/
theorem containerFits_again (env : Env) (contName : String) (contReq : ContainerInfo)
    (initContainer : Bool) (allocatable : GoMap Int) (allocScorer : GoMap ResourceScoreFunc)
    (podResource nodeResource : GoMap Int) (usedGroups : GoMap Bool)
    (bPreferUsed : Bool) (r : ContainerFit)
    (hempty : env.PrecheckedResource "" = true)
    (hrun : containerFitsGroupConstraints env contName contReq initContainer allocatable
      allocScorer podResource nodeResource usedGroups bPreferUsed true = .ok r)
    (hfit : r.found = true)
    (hndA : allocatable.keys.Nodup) (hndR : contReq.DevRequests.keys.Nodup)
    (hAF : (GoMap.keys (contReq.AllocateFrom.getD [])).Nodup)
    (ug2 : GoMap Bool) (pu2 b : Bool) :
    ∃ r2, containerFitsGroupConstraints env contName r.contReq initContainer allocatable
        allocScorer podResource nodeResource ug2 pu2 b = .ok r2 ∧
      r2.contReq = r.contReq ∧ r2.found = true ∧ r2.score = r.score ∧
      r2.grp.PodResource = r.grp.PodResource ∧ r2.grp.NodeResource = r.grp.NodeResource := by
  have hfill := containerFits_filled env contName contReq initContainer allocatable allocScorer
    podResource nodeResource usedGroups bPreferUsed r hempty hrun hfit hndA hndR hAF
  obtain ⟨w1, w2, -, -⟩ := containerFits_af env contName contReq initContainer allocatable
    allocScorer podResource nodeResource usedGroups bPreferUsed r hrun hndR hAF
  unfold containerFitsGroupConstraints at hrun ⊢
  rw [collectRequests_scorer env contReq r.contReq w2, w1]
  generalize hcr : collectRequests env contReq contReq.DevRequests ([], [], []) = cr at hrun ⊢
  obtain ⟨reqName, req, reqScorer⟩ := cr
  obtain ⟨hR1, hR2⟩ := collectRequests_eq env contReq contReq.DevRequests ([], [], []) hndR
    (fun k _ => ⟨by simp [GoMap.keys], by simp [GoMap.keys]⟩)
  rw [hcr] at hR1 hR2
  simp only [List.nil_append] at hR1 hR2
  have hR2b : req = groupRequests env contReq := hR2
  have hlen : reqName.length = req.length := by
    rw [hR1, hR2, List.length_map]
  simp only at hrun ⊢
  cases hpre : matchPrefix env.DeviceGroupPrefix with
  | none => rw [hpre] at hrun; exact absurd hrun (by simp)
  | some pg =>
    obtain ⟨grpPrefix, grpName⟩ := pg
    rw [hpre] at hrun
    simp only at hrun ⊢
    generalize hca : collectAllocatable env grpName allocatable ([], []) = ca at hrun ⊢
    obtain ⟨allocName, alloc⟩ := ca
    have hkeys := collectAllocatable_keys env grpName allocatable ([], [])
    rw [hca] at hkeys
    simp only at hkeys hrun ⊢
    split at hrun
    · -- the first call searched
      rename_i hsearch
      split at hrun
      · exact absurd hrun (by simp)
      · rename_i grp1 found reasons hag
        simp only [Except.ok.injEq] at hrun
        subst hrun
        simp only at hfit hfill ⊢
        subst hfit
        simp only [if_true, Option.getD_some] at hfill ⊢
        by_cases hne : reqName.length = 0
        · -- no group request
          have hreq0 : req.length = 0 := by rw [← hlen]; exact hne
          simp only [searchFuel, allocateGroup, allocateGroupBody] at hag
          rw [if_pos hne] at hag
          simp only [Except.ok.injEq, Prod.mk.injEq] at hag
          obtain ⟨rfl, -, -⟩ := hag
          simp only [copyInto, List.length_nil, hreq0, gt_iff_lt, lt_self_iff_false,
            decide_False, Bool.and_false, Bool.false_eq_true, if_false]
          exact ⟨_, rfl, rfl, rfl, rfl, rfl, rfl⟩
        · -- the search committed the rescoring of the top location
          have hreq1 : 0 < req.length := by
            rw [← hlen]
            exact Nat.pos_of_ne_zero hne
          simp only [searchFuel] at hag
          obtain ⟨loc, gmid, g2, rs2, hloc, hst, hp, hn, haf, hfs, e1, e2, e3⟩ :=
            allocateGroup_rescored _ _ _ _ hne hag
          have hlocg : loc = grpName := by
            rw [mem_SortedStringKeys] at hloc
            rcases hkeys loc hloc with h | h
            · exact h
            · simp [GoMap.keys] at h
          rw [hlocg] at hfs
          have hnd1 : grp1.AllocateFrom.keys.Nodup := by
            have hQ : SetClosed (fun _ => True) (fun _ => True)
                (fun af : GoMap String => af.keys.Nodup) :=
              fun af k v h _ _ => GoMap.nodup_keys_set af k v h
            exact allocateGroup_inv hQ _ _ _ _ _ (fun _ _ => trivial)
              (fun _ _ _ _ => trivial) (by simp [GoMap.keys]) hag
          -- the filled map is not empty
          have hafne : ¬ (copyInto grp1.AllocateFrom []).length = 0 := by
            intro h0
            have hnil : copyInto grp1.AllocateFrom ([] : GoMap String) = [] :=
              List.length_eq_zero.1 h0
            cases hq : req with
            | nil => rw [hq] at hreq1; simp at hreq1
            | cons kv t =>
              have hmem : kv ∈ groupRequests env contReq := by
                rw [← hR2b, hq]
                exact List.mem_cons_self _ _
              have hk : IsGroupRequest env contReq kv.1 := by
                obtain ⟨m1, m2⟩ := List.mem_filter.1 hmem
                exact ⟨List.mem_map_of_mem Prod.fst m1, by simpa using m2⟩
              obtain ⟨a, ha, -⟩ := hfill kv.1 hk
              rw [hnil] at ha
              simp [GoMap.get?] at ha
          have hsame : SameScoring gmid
              { ContName := contName, InitContainer := initContainer, PreferUsed := pu2,
                RequiredResource := req, ReqScorer := reqScorer, AllocResource := alloc,
                AllocScorer := allocScorer, UsedGroups := ug2,
                GrpRequiredResource := reqName, IsReqSubGrp := [],
                GrpAllocResource := allocName, IsAllocSubGrp := [],
                ReqBaseGroupName := env.DeviceGroupPrefix,
                AllocBaseGroupPrefix := grpPrefix, Score := 0, PodResource := podResource,
                NodeResource := nodeResource,
                AllocateFrom := copyInto (copyInto grp1.AllocateFrom []) [] } := by
            refine ⟨hst.initContainer.symm, hst.requiredResource.symm, hst.allocResource.symm,
              hst.allocScorer.symm, hst.grpAllocResource.symm, hst.grpRequiredResource.symm,
              hp.symm, hn.symm, ?_⟩
            intro k
            simp only
            rw [haf]
            unfold GoMap.getD
            rw [get?_copyInto _ _ _ (nodup_keys_copyInto _ _ (by simp [GoMap.keys])),
              get?_copyInto _ _ _ hnd1]
            cases grp1.AllocateFrom.get? k <;> rfl
          obtain ⟨g3, h3, s1, s2, s3, -⟩ := findScoreAndUpdate_congr gmid _ hsame grpName
            g2 true rs2 hfs
          simp only [hafne, decide_False, Bool.false_and, Bool.false_eq_true, if_false,
            gt_iff_lt, hreq1, decide_True, if_true]
          rw [h3]
          refine ⟨_, rfl, rfl, rfl, ?_, ?_, ?_⟩
          · simp only
            rw [s1, e3]
          · simp only
            rw [s2, e1]
          · simp only
            rw [s3, e2]
    · rename_i hsearch
      split at hrun
      · -- the first call scored the given `AllocateFrom`
        rename_i hreq1
        split at hrun
        · exact absurd hrun (by simp)
        · rename_i grp1 found reasons hfs
          simp only [Except.ok.injEq] at hrun
          subst hrun
          simp only at hfit ⊢
          subst hfit
          rw [if_neg hsearch, if_pos hreq1]
          obtain ⟨g3, h3, s1, s2, s3, -⟩ := findScoreAndUpdate_congr
            { ContName := contName, InitContainer := initContainer, PreferUsed := bPreferUsed,
              RequiredResource := req, ReqScorer := reqScorer, AllocResource := alloc,
              AllocScorer := allocScorer, UsedGroups := usedGroups,
              GrpRequiredResource := reqName, IsReqSubGrp := [],
              GrpAllocResource := allocName, IsAllocSubGrp := [],
              ReqBaseGroupName := env.DeviceGroupPrefix,
              AllocBaseGroupPrefix := grpPrefix, Score := 0, PodResource := podResource,
              NodeResource := nodeResource,
              AllocateFrom := copyInto (contReq.AllocateFrom.getD []) [] }
            { ContName := contName, InitContainer := initContainer, PreferUsed := pu2,
              RequiredResource := req, ReqScorer := reqScorer, AllocResource := alloc,
              AllocScorer := allocScorer, UsedGroups := ug2,
              GrpRequiredResource := reqName, IsReqSubGrp := [],
              GrpAllocResource := allocName, IsAllocSubGrp := [],
              ReqBaseGroupName := env.DeviceGroupPrefix,
              AllocBaseGroupPrefix := grpPrefix, Score := 0, PodResource := podResource,
              NodeResource := nodeResource,
              AllocateFrom := copyInto (contReq.AllocateFrom.getD []) [] }
            ⟨rfl, rfl, rfl, rfl, rfl, rfl, rfl, rfl, fun _ => rfl⟩ grpName grp1 true reasons hfs
          rw [h3]
          exact ⟨_, rfl, rfl, rfl, s1, s2, s3⟩
      · -- no group request
        rename_i hreq0
        simp only [Except.ok.injEq] at hrun
        subst hrun
        simp only
        rw [if_neg hsearch, if_neg hreq0]
        exact ⟨_, rfl, rfl, rfl, rfl, rfl, rfl⟩

/-- A container loop of `PodFitsGroupConstraints` that filled `AllocateFrom` and
fits, run again on the containers as it left them and from the same usage: no
container is changed, every container fits, and the usage and the score are
those of the first run. -/
theorem podFitsLoop_again (env : Env) (n : NodeInfo) (i b : Bool)
    (hempty : env.PrecheckedResource "" = true) (hndA : n.Allocatable.keys.Nodup) :
    ∀ (names : List String) (st st1 : PodFitState),
      names.Nodup → (∀ x ∈ names, x ∈ st.containers.keys) →
      (∀ nc ∈ st.containers, DistinctKeys nc.2) →
      podFitsLoop env n (setScoreFunc env n) i true names st = .ok st1 → st1.found = true →
      ∀ stB : PodFitState, stB.containers = st1.containers →
        stB.podResource = st.podResource → stB.nodeResource = st.nodeResource →
        stB.found = true → stB.totalScore = st.totalScore →
        ∃ stB1, podFitsLoop env n (setScoreFunc env n) i b names stB = .ok stB1 ∧
          stB1.containers = st1.containers ∧ stB1.podResource = st1.podResource ∧
          stB1.nodeResource = st1.nodeResource ∧ stB1.found = true ∧
          stB1.totalScore = st1.totalScore ∧ stB1.predicateFails = stB.predicateFails := by
  intro names
  induction names with
  | nil =>
    intro st st1 _ _ _ h _ stB e1 e2 e3 e4 e5
    simp only [podFitsLoop, Except.ok.injEq] at h
    subst h
    exact ⟨stB, rfl, e1, e2, e3, e4, e5, rfl⟩
  | cons name rest ih =>
    intro st st1 hnd hsub hgood h hf stB e1 e2 e3 e4 e5
    simp only [List.nodup_cons] at hnd
    have hkeys := podFitsLoop_keys env n (setScoreFunc env n) i true (name :: rest) st st1
      hsub h
    simp only [podFitsLoop] at h
    cases hc : containerFitsGroupConstraints env name
        (st.containers.getD name ContainerInfo.zero) i n.Allocatable (setScoreFunc env n)
        st.podResource st.nodeResource st.usedGroups true true with
    | error e => rw [hc] at h; cases h
    | ok r =>
      rw [hc] at h
      simp only at h
      have hd := distinctKeys_getD st.containers hgood name
      obtain ⟨a1, -, a3, -⟩ := containerFits_af env name _ i n.Allocatable (setScoreFunc env n)
        st.podResource st.nodeResource st.usedGroups true r hc hd.1 hd.2
      have hf1 := podFitsLoop_found env n (setScoreFunc env n) i true rest _ st1 h hf
      simp only at hf1
      have hrf : r.found = true := by
        by_contra hcon
        have : r.found = false := by simpa using hcon
        simp only [this, if_true] at hf1
        cases hf1
      have hsub1 : ∀ x ∈ rest, x ∈ (st.containers.set name r.contReq).keys := by
        intro x hx
        rw [GoMap.keys_set]
        exact Or.inr (hsub x (List.mem_cons_of_mem _ hx))
      have hgood1 : ∀ nc ∈ st.containers.set name r.contReq, DistinctKeys nc.2 := by
        intro nc hnc
        rcases GoMap.mem_set hnc with e | e
        · rw [e]
          exact ⟨(by rw [a1]; exact hd.1), a3⟩
        · exact hgood nc e
      -- the container of the name in the final map
      obtain ⟨-, hrest⟩ := podFitsLoop_filled env n (setScoreFunc env n) i hempty hndA rest
        _ st1 hnd.2 hsub1 hgood1 h hf
      simp only at hrest
      have hcont : st1.containers.getD name ContainerInfo.zero = r.contReq := by
        unfold GoMap.getD
        rw [hrest name hnd.1, GoMap.get?_set]
        simp
      have hmem : name ∈ st1.containers.keys := by
        rw [hkeys]
        exact hsub name (List.mem_cons_self _ _)
      obtain ⟨r2, g1, g2, g3, g4, g5, g6⟩ := containerFits_again env name _ i n.Allocatable
        (setScoreFunc env n) st.podResource st.nodeResource st.usedGroups true r hempty hc hrf
        hndA hd.1 hd.2 stB.usedGroups true b
      simp only [podFitsLoop]
      rw [e1, hcont, e2, e3, g1]
      simp only
      have hset : st1.containers.set name r2.contReq = st1.containers := by
        rw [g2, ← hcont]
        exact GoMap.set_getD_self ContainerInfo.zero st1.containers name hmem
      obtain ⟨stB1, k1, k2, k3, k4, k5, k6, k7⟩ := ih _ st1 hnd.2 hsub1 hgood1 h hf
        { containers := st1.containers.set name r2.contReq
          podResource := r2.grp.PodResource
          nodeResource := r2.grp.NodeResource
          usedGroups := r2.grp.UsedGroups
          found := if r2.found = false then false else stB.found
          predicateFails :=
            if r2.found = false then stB.predicateFails ++ r2.reasons else stB.predicateFails
          totalScore := if (r2.found = false || i) = true then stB.totalScore else r2.score }
        hset g5 g6 (by simp [g3, e4]) (by simp [g3, hrf, g4, e5])
      refine ⟨stB1, k1, k2, k3, k4, k5, k6, ?_⟩
      rw [k7]
      simp [g3]

/-- With exact scores, allocate and score-only agree: for every node and pod, if
`PodFitsGroupConstraints(node, pod, true)` returns `fits = true` with the score
`s`, then `PodFitsGroupConstraints` called again on the pod as the first call
filled it and on the same node, with or without the filling of `AllocateFrom`,
returns, with `fits = true`, the same score `s` and no reason, leaves the pod
as it is (every container keeps its `AllocateFrom`), and threads out the same
usage. The empty name is prechecked and the keys of every map are distinct, as
in a Go map. -/
theorem podFits_allocate_then_score (env : Env) (n : NodeInfo) (spec : PodInfo) (fit : PodFit)
    (b : Bool)
    (hempty : env.PrecheckedResource "" = true)
    (hndA : n.Allocatable.keys.Nodup)
    (hgR : ∀ nc ∈ spec.RunningContainers, DistinctKeys nc.2)
    (hgI : ∀ nc ∈ spec.InitContainers, DistinctKeys nc.2)
    (hrun : PodFitsGroupConstraints env n spec true = .ok fit)
    (hfit : fit.found = true) :
    ∃ fit2, PodFitsGroupConstraints env n fit.spec b = .ok fit2 ∧
      fit2.found = true ∧ fit2.totalScore = fit.totalScore ∧ fit2.predicateFails = [] ∧
      fit2.spec = fit.spec ∧
      fit2.podResource = fit.podResource ∧ fit2.nodeResource = fit.nodeResource := by
  unfold PodFitsGroupConstraints at hrun ⊢
  simp only at hrun ⊢
  cases h1 : podFitsLoop env n (setScoreFunc env n) false true
      (SortedStringKeys spec.RunningContainers)
      ⟨spec.RunningContainers, [], initNodeResource n, [], true, [], 0⟩ with
  | error e => rw [h1] at hrun; cases hrun
  | ok st1 =>
    rw [h1] at hrun
    simp only at hrun
    cases h2 : podFitsLoop env n (setScoreFunc env n) true true
        (SortedStringKeys spec.InitContainers)
        ⟨spec.InitContainers, st1.podResource, st1.nodeResource, st1.usedGroups,
          st1.found, st1.predicateFails, st1.totalScore⟩ with
    | error e => rw [h2] at hrun; cases hrun
    | ok st2 =>
      rw [h2] at hrun
      simp only [Except.ok.injEq] at hrun
      subst hrun
      simp only at hfit ⊢
      have hf1 : st1.found = true := by
        have := podFitsLoop_found env n _ true true _ _ st2 h2 hfit
        exact this
      have k1 := podFitsLoop_keys env n (setScoreFunc env n) false true
        (SortedStringKeys spec.RunningContainers)
        ⟨spec.RunningContainers, [], initNodeResource n, [], true, [], 0⟩ st1
        (fun x hx => (mem_SortedStringKeys _ x).1 hx) h1
      have k2 := podFitsLoop_keys env n (setScoreFunc env n) true true
        (SortedStringKeys spec.InitContainers)
        ⟨spec.InitContainers, st1.podResource, st1.nodeResource, st1.usedGroups,
          st1.found, st1.predicateFails, st1.totalScore⟩ st2
        (fun x hx => (mem_SortedStringKeys _ x).1 hx) h2
      simp only at k1 k2
      have s1 : SortedStringKeys st1.containers = SortedStringKeys spec.RunningContainers := by
        unfold SortedStringKeys
        rw [k1]
      have s2 : SortedStringKeys st2.containers = SortedStringKeys spec.InitContainers := by
        unfold SortedStringKeys
        rw [k2]
      rw [s1, s2]
      obtain ⟨sB1, a1, a2, a3, a4, a5, a6, a7⟩ := podFitsLoop_again env n false b hempty hndA
        (SortedStringKeys spec.RunningContainers)
        ⟨spec.RunningContainers, [], initNodeResource n, [], true, [], 0⟩ st1
        (SortedStringKeys_nodup _) (fun x hx => (mem_SortedStringKeys _ x).1 hx) hgR h1 hf1
        ⟨st1.containers, [], initNodeResource n, [], true, [], 0⟩ rfl rfl rfl rfl rfl
      rw [a1]
      simp only
      obtain ⟨sB2, b1, b2, b3, b4, b5, b6, b7⟩ := podFitsLoop_again env n true b hempty hndA
        (SortedStringKeys spec.InitContainers)
        ⟨spec.InitContainers, st1.podResource, st1.nodeResource, st1.usedGroups,
          st1.found, st1.predicateFails, st1.totalScore⟩ st2
        (SortedStringKeys_nodup _) (fun x hx => (mem_SortedStringKeys _ x).1 hx) hgI h2 hfit
        ⟨st2.containers, sB1.podResource, sB1.nodeResource, sB1.usedGroups,
          sB1.found, sB1.predicateFails, sB1.totalScore⟩ rfl a3 a4 a5 a6
      rw [b1]
      refine ⟨_, rfl, b5, b6, ?_, ?_, b3, b4⟩
      · simp only
        rw [b7]
        simp only
        rw [a7]
      · simp only
        rw [a2, b2]

set_option maxRecDepth 100000 in
theorem podFits_allocate_then_score_witness :
    (okValue (PodFitsGroupConstraints scenarioEnv nodeS4 podS4 true) PodFit.zero).found = true ∧
    (okValue (PodFitsGroupConstraints scenarioEnv nodeS4 podS4 true) PodFit.zero).totalScore =
      3 / 4 ∧
    ∃ fit2, PodFitsGroupConstraints scenarioEnv nodeS4
        (okValue (PodFitsGroupConstraints scenarioEnv nodeS4 podS4 true) PodFit.zero).spec
        false = .ok fit2 ∧
      fit2.found = true ∧ fit2.totalScore = 3 / 4 ∧
      fit2.spec =
        (okValue (PodFitsGroupConstraints scenarioEnv nodeS4 podS4 true) PodFit.zero).spec :=
  have h := podFits_allocate_then_score scenarioEnv nodeS4 podS4 _ false (by decide) (by decide)
    (fun nc h => by
      simp only [podS4, List.mem_singleton] at h
      subst h
      exact ⟨by decide, by decide⟩)
    (fun nc h => by
      simp only [podS4, List.mem_singleton] at h
      subst h
      exact ⟨by decide, by decide⟩)
    (eq_ok_okValue _ PodFit.zero (by decide!)) (by decide!)
  have hs : (okValue (PodFitsGroupConstraints scenarioEnv nodeS4 podS4 true)
      PodFit.zero).totalScore = 3 / 4 := by decide!
  ⟨by decide!, hs, h.imp (fun fit2 hf => ⟨hf.1, hf.2.1, hf.2.2.1.trans hs, hf.2.2.2.2.1⟩)⟩

/-! ## The termination of the search -/

/-! Lengths of the matches of the path grammar. -/

theorem stripLit_eq : ∀ (p s r : List Char), stripLit p s = some r → s = p ++ r := by
  intro p
  induction p with
  | nil =>
    intro s r h
    cases s <;> simp only [stripLit, Option.some.injEq] at h <;> rw [← h] <;> rfl
  | cons a t ih =>
    intro s r h
    cases s with
    | nil => simp [stripLit] at h
    | cons b u =>
      simp only [stripLit] at h
      by_cases e : a = b
      · simp only [e, if_true] at h
        rw [ih u r h, e]
        rfl
      · simp only [e, if_false] at h
        cases h

theorem splitFirstSlash_eq : ∀ (l a b : List Char), splitFirstSlash l = some (a, b) →
    l = a ++ '/' :: b := by
  intro l
  induction l with
  | nil => intro a b h; simp [splitFirstSlash] at h
  | cons c t ih =>
    intro a b h
    simp only [splitFirstSlash] at h
    by_cases e : c = '/'
    · simp only [e, if_true, Option.some.injEq, Prod.mk.injEq] at h
      obtain ⟨h1, h2⟩ := h
      rw [e, ← h1, ← h2]
      rfl
    · simp only [e, if_false] at h
      cases hs : splitFirstSlash t with
      | none => rw [hs] at h; cases h
      | some ab =>
        obtain ⟨a1, b1⟩ := ab
        rw [hs] at h
        simp only [Option.some.injEq, Prod.mk.injEq] at h
        obtain ⟨h1, h2⟩ := h
        rw [ih a1 b1 hs, ← h1, ← h2]
        rfl

/-- A match of the grammar at `base` that starts at the head of `s` spans the
base, three `/` and the first two groups. -/
theorem matchSubGroupHere_length (base s : List Char) (g i t : String)
    (h : matchSubGroupHere base s = some (g, i, t)) :
    base.length + g.length + i.length + 3 ≤ s.length := by
  unfold matchSubGroupHere at h
  cases hs : stripLit base s with
  | none => rw [hs] at h; cases h
  | some r =>
    rw [hs] at h
    cases r with
    | nil => cases h
    | cons c rest =>
      by_cases hc : c = '/'
      · subst hc
        simp only at h
        cases h1 : splitFirstSlash (rest.takeWhile isNonSpace) with
        | none => rw [h1] at h; cases h
        | some ab =>
          obtain ⟨g1, rest1⟩ := ab
          rw [h1] at h
          simp only at h
          cases h2 : splitFirstSlash rest1 with
          | none => rw [h2] at h; cases h
          | some cd =>
            obtain ⟨g2, g3⟩ := cd
            rw [h2] at h
            simp only [Option.some.injEq, Prod.mk.injEq] at h
            obtain ⟨rfl, rfl, rfl⟩ := h
            have e0 := stripLit_eq _ _ _ hs
            have e1 := splitFirstSlash_eq _ _ _ h1
            have e2 := splitFirstSlash_eq _ _ _ h2
            have l1 : (rest.takeWhile isNonSpace).length ≤ rest.length :=
              (List.takeWhile_sublist isNonSpace).length_le
            have l2 : (rest.takeWhile isNonSpace).length = g1.length + (rest1.length + 1) := by
              rw [e1]; simp
            have l3 : rest1.length = g2.length + (g3.length + 1) := by
              rw [e2]; simp
            have l4 : s.length = base.length + (rest.length + 1) := by
              rw [e0]; simp
            simp only [String.length]
            omega
      · exfalso
        revert h
        split
        · rename_i heq
          simp only [Option.some.injEq, List.cons.injEq] at heq
          exact absurd heq.1 hc
        · intro h; cases h

theorem matchSubGroupFrom_length (base : List Char) (g i t : String) :
    ∀ (s : List Char), matchSubGroupFrom base s = some (g, i, t) →
      base.length + g.length + i.length + 3 ≤ s.length := by
  intro s
  induction s with
  | nil =>
    intro h
    simp only [matchSubGroupFrom] at h
    exact matchSubGroupHere_length _ _ _ _ _ h
  | cons c u ih =>
    intro h
    simp only [matchSubGroupFrom] at h
    cases hh : matchSubGroupHere base (c :: u) with
    | some r =>
      rw [hh] at h
      simp only [Option.some.injEq] at h
      subst h
      exact matchSubGroupHere_length _ _ _ _ _ hh
    | none =>
      rw [hh] at h
      have := ih h
      simp only [List.length_cons]
      omega

/-- A key that belongs to the subgroup `(g, i)` at `base` is longer than the
base of the subgroup, `base/g/i`. -/
theorem matchSubGroup_length (base e g i t : String)
    (h : matchSubGroup base e = some (g, i, t)) :
    (base ++ "/" ++ g ++ "/" ++ i).length + 1 ≤ e.length := by
  have := matchSubGroupFrom_length base.data g i t e.data h
  have h1 : (base ++ "/" ++ g ++ "/" ++ i).length =
      base.data.length + 1 + g.length + 1 + i.length := by
    simp only [String.length_append]
    rfl
  rw [h1]
  simp only [String.length] at this ⊢
  omega

/-! The maps of the subgroups are not empty. -/

/-- Every subgroup `(g, i)` listed in `sub` has an entry. -/
def NonemptyEntries (sub : GoMap (GoMap (GoMap String))) : Prop :=
  ∀ g i, i ∈ (sub.getD g []).keys → (sub.getD g []).getD i [] ≠ []

theorem AssignMap3_keys (x : GoMap (GoMap (GoMap String))) (k1 k2 k3 val g i : String) :
    i ∈ ((AssignMap3 x k1 k2 k3 val).getD g []).keys ↔
      (k1 = g ∧ k2 = i) ∨ i ∈ (x.getD g []).keys := by
  unfold AssignMap3
  rw [GoMap.getD_set]
  by_cases h : k1 = g
  · subst h
    simp only [if_true, true_and]
    unfold AssignMap2
    rw [GoMap.keys_set]
    constructor
    · rintro (h | h)
      · exact Or.inl h.symm
      · exact Or.inr h
    · rintro (h | h)
      · exact Or.inl h.symm
      · exact Or.inr h
  · simp [h]

theorem findSubGroupsLoop_nonempty (base : String) :
    ∀ (l : GoMap String) (sub : GoMap (GoMap (GoMap String))) (isSub : GoMap Bool),
      NonemptyEntries sub → NonemptyEntries (findSubGroupsLoop base l sub isSub).1 := by
  intro l
  induction l with
  | nil => intro sub isSub h; exact h
  | cons p t ih =>
    obtain ⟨k, e⟩ := p
    intro sub isSub h
    simp only [findSubGroupsLoop]
    split
    · rename_i m1 m2 m3 hm
      apply ih
      intro g i hi
      rw [AssignMap3_getD2]
      rw [AssignMap3_keys] at hi
      split_ifs with hc
      · exact GoMap.set_ne_nil _ _ _
      · rcases hi with hi | hi
        · exact absurd hi hc
        · exact h g i hi
    · exact ih _ _ h

theorem findSubGroups_nonempty (base : String) (l : GoMap String) :
    NonemptyEntries (findSubGroups base l).1 :=
  findSubGroupsLoop_nonempty base l [] [] (by
    intro g i hi
    simp [GoMap.getD, GoMap.get?, GoMap.keys] at hi)

/-! The search does not run out of fuel. -/

/-- The result is not the exhaustion of the recursion fuel. -/
def NoFuelFault {α : Type} (x : Except Fault α) : Prop := x ≠ .error Fault.outOfFuel

theorem resourceAvailableLoop_fault (grpAllocRes : GoMap String) :
    ∀ (l : GoMap String) (grp : GrpAllocator) (found : Bool) (pf : List PredicateFailureReason)
      (e : Fault), resourceAvailableLoop grpAllocRes l grp found pf = .error e →
      e = Fault.nilScorer := by
  intro l
  induction l with
  | nil => intro grp found pf e h; simp [resourceAvailableLoop] at h
  | cons p t ih =>
    obtain ⟨grpReqKey, grpReqElem⟩ := p
    intro grp found pf e h
    simp only [resourceAvailableLoop] at h
    split at h
    · split at h
      · exact ih _ _ _ _ h
      · split at h
        · simp only [Except.error.injEq] at h
          exact h.symm
        · split at h
          · exact ih _ _ _ _ h
          · exact ih _ _ _ _ h
    · exact ih _ _ _ _ h

theorem scoreLoop_fault (rr : GoMap (List Int)) :
    ∀ (l : GoMap String) (grp : GrpAllocator) (found : Bool) (pf : List PredicateFailureReason)
      (e : Fault), scoreLoop rr l grp found pf = .error e → e = Fault.nilScorer := by
  intro l
  induction l with
  | nil => intro grp found pf e h; simp [scoreLoop] at h
  | cons p t ih =>
    obtain ⟨k, key⟩ := p
    intro grp found pf e h
    simp only [scoreLoop] at h
    split at h
    · simp only [Except.error.injEq] at h
      exact h.symm
    · split at h
      · exact ih _ _ _ _ h
      · exact ih _ _ _ _ h

theorem findScoreAndUpdate_fault (grp : GrpAllocator) (location : String) (e : Fault)
    (h : findScoreAndUpdate grp location = .error e) : e = Fault.nilScorer := by
  unfold findScoreAndUpdate at h
  simp only at h
  split at h
  · rename_i e1 hs
    simp only [Except.error.injEq] at h
    subst h
    exact scoreLoop_fault _ _ _ _ _ _ hs
  · cases h

/-- The functions `a1` and `a2` return the same result, which is not the
exhaustion of the fuel, on every subgroup that a search with the base `rb` and
the subgroup requirements `sr` creates. -/
def AgreeOnSubGroups (a1 a2 : GrpAllocator → AllocResult) (rb : String)
    (sr : GoMap (GoMap (GoMap String))) : Prop :=
  ∀ (g : GrpAllocator) (loc : String) (sa : GoMap (GoMap (GoMap String))) (name idx : String),
    g.ReqBaseGroupName = rb → name ∈ sr.keys → idx ∈ (sr.getD name []).keys →
    a1 (createSubGroup g loc sr sa name idx) = a2 (createSubGroup g loc sr sa name idx) ∧
    NoFuelFault (a1 (createSubGroup g loc sr sa name idx))

theorem allocateSubGroupsInner_agree (a1 a2 : GrpAllocator → AllocResult) (rb loc : String)
    (sr sa : GoMap (GoMap (GoMap String))) (name : String)
    (H : AgreeOnSubGroups a1 a2 rb sr) (hname : name ∈ sr.keys) :
    ∀ (l : List String) (grp : GrpAllocator) (found : Bool) (pf : List PredicateFailureReason),
      (∀ idx ∈ l, idx ∈ (sr.getD name []).keys) → grp.ReqBaseGroupName = rb →
      allocateSubGroupsInner a1 loc sr sa name l grp found pf =
        allocateSubGroupsInner a2 loc sr sa name l grp found pf ∧
      NoFuelFault (allocateSubGroupsInner a1 loc sr sa name l grp found pf) := by
  intro l
  induction l with
  | nil =>
    intro grp found pf _ _
    exact ⟨rfl, by simp [NoFuelFault, allocateSubGroupsInner]⟩
  | cons idx t ih =>
    intro grp found pf hl hg
    obtain ⟨e, nf⟩ := H grp loc sa name idx hg hname (hl idx (List.mem_cons_self _ _))
    have ht : ∀ i ∈ t, i ∈ (sr.getD name []).keys := fun i hi => hl i (List.mem_cons_of_mem _ hi)
    simp only [allocateSubGroupsInner]
    rw [← e]
    cases hc : a1 (createSubGroup grp loc sr sa name idx) with
    | error er =>
      refine ⟨rfl, ?_⟩
      rw [hc] at nf
      exact nf
    | ok res =>
      obtain ⟨s1, f1, r1⟩ := res
      simp only
      split_ifs
      · exact ih _ _ _ ht hg
      · exact ih _ _ _ ht hg

theorem allocateSubGroupsOuter_agree (a1 a2 : GrpAllocator → AllocResult) (rb loc : String)
    (sr sa : GoMap (GoMap (GoMap String))) (H : AgreeOnSubGroups a1 a2 rb sr) :
    ∀ (l : List String) (grp : GrpAllocator) (found : Bool) (pf : List PredicateFailureReason),
      (∀ name ∈ l, name ∈ sr.keys) → grp.ReqBaseGroupName = rb →
      allocateSubGroupsOuter a1 loc sr sa l grp found pf =
        allocateSubGroupsOuter a2 loc sr sa l grp found pf ∧
      NoFuelFault (allocateSubGroupsOuter a1 loc sr sa l grp found pf) := by
  intro l
  induction l with
  | nil =>
    intro grp found pf _ _
    exact ⟨rfl, by simp [NoFuelFault, allocateSubGroupsOuter]⟩
  | cons name t ih =>
    intro grp found pf hl hg
    obtain ⟨e, nf⟩ := allocateSubGroupsInner_agree a1 a2 rb loc sr sa name H
      (hl name (List.mem_cons_self _ _)) (SortedStringKeys (sr.getD name [])) grp found pf
      (fun idx hi => (mem_SortedStringKeys _ idx).1 hi) hg
    simp only [allocateSubGroupsOuter]
    rw [← e]
    cases hc : allocateSubGroupsInner a1 loc sr sa name (SortedStringKeys (sr.getD name []))
        grp found pf with
    | error er =>
      refine ⟨rfl, ?_⟩
      rw [hc] at nf
      exact nf
    | ok res =>
      obtain ⟨g1, f1, p1⟩ := res
      simp only
      obtain ⟨s1, -⟩ := allocateSubGroupsInner_static _ _ _ _ _ _ _ _ _ _ _ _ hc
      exact ih _ _ _ (fun n hn => hl n (List.mem_cons_of_mem _ hn))
        (s1.reqBaseGroupName.trans hg)

theorem allocateGroupAt_agree (a1 a2 : GrpAllocator → AllocResult) (rb : String)
    (sr : GoMap (GoMap (GoMap String))) (H : AgreeOnSubGroups a1 a2 rb sr)
    (grp : GrpAllocator) (location : String) (hg : grp.ReqBaseGroupName = rb) :
    allocateGroupAt a1 grp location sr = allocateGroupAt a2 grp location sr ∧
    NoFuelFault (allocateGroupAt a1 grp location sr) := by
  unfold allocateGroupAt
  simp only
  cases hra : resourceAvailable
      { grp with IsAllocSubGrp := (findSubGroups (grp.AllocBaseGroupPrefix ++ "/" ++ location)
        (grp.GrpAllocResource.getD location [])).2 } location with
  | error er =>
    refine ⟨rfl, ?_⟩
    have := resourceAvailableLoop_fault _ _ _ _ _ _ hra
    subst this
    simp [NoFuelFault]
  | ok res =>
    obtain ⟨g1, f1, p1⟩ := res
    simp only
    obtain ⟨s1, -, -⟩ := resourceAvailableLoop_static _ _ _ _ _ _ _ _ hra
    have hg1 : g1.ReqBaseGroupName = rb := s1.reqBaseGroupName.trans hg
    obtain ⟨e, nf⟩ := allocateSubGroupsOuter_agree a1 a2 rb location sr
      (findSubGroups (grp.AllocBaseGroupPrefix ++ "/" ++ location)
        (grp.GrpAllocResource.getD location [])).1 H (SortedStringKeys sr) g1 true []
      (fun n hn => (mem_SortedStringKeys _ n).1 hn) hg1
    unfold allocateSubGroups
    rw [← e]
    cases hc : allocateSubGroupsOuter a1 location sr
        (findSubGroups (grp.AllocBaseGroupPrefix ++ "/" ++ location)
          (grp.GrpAllocResource.getD location [])).1 (SortedStringKeys sr) g1 true [] with
    | error er =>
      refine ⟨rfl, ?_⟩
      rw [hc] at nf
      exact nf
    | ok res2 =>
      obtain ⟨g2, f2, p2⟩ := res2
      refine ⟨rfl, ?_⟩
      simp only
      split_ifs
      · cases hfs : findScoreAndUpdate (resetGroup g2 (cloneGroup
            { grp with IsAllocSubGrp := (findSubGroups
              (grp.AllocBaseGroupPrefix ++ "/" ++ location)
              (grp.GrpAllocResource.getD location [])).2 })) location with
        | error er =>
          have := findScoreAndUpdate_fault _ _ _ hfs
          subst this
          simp [NoFuelFault]
        | ok res3 =>
          obtain ⟨g3, f3, p3⟩ := res3
          simp only
          split_ifs <;> simp [NoFuelFault]
      · simp [NoFuelFault]

theorem allocateGroupLoop_agree (a1 a2 : GrpAllocator → AllocResult) (rb : String)
    (sr : GoMap (GoMap (GoMap String))) (H : AgreeOnSubGroups a1 a2 rb sr) :
    ∀ (keys : List String) (st : SearchState), st.grp.ReqBaseGroupName = rb →
      allocateGroupLoop a1 sr keys st = allocateGroupLoop a2 sr keys st ∧
      NoFuelFault (allocateGroupLoop a1 sr keys st) := by
  intro keys
  induction keys with
  | nil =>
    intro st _
    exact ⟨rfl, by simp [NoFuelFault, allocateGroupLoop]⟩
  | cons key t ih =>
    intro st hg
    obtain ⟨e, nf⟩ := allocateGroupAt_agree a1 a2 rb sr H (cloneGroup st.grp) key hg
    simp only [allocateGroupLoop]
    rw [← e]
    cases hc : allocateGroupAt a1 (cloneGroup st.grp) key sr with
    | error er =>
      refine ⟨rfl, ?_⟩
      rw [hc] at nf
      intro h
      simp only [Except.error.injEq] at h
      exact nf (by rw [h])
    | ok res =>
      obtain ⟨g1, f1, p1⟩ := res
      simp only
      exact ih _ hg

theorem allocateGroupBody_agree (a1 a2 : GrpAllocator → AllocResult) (grp : GrpAllocator)
    (H : AgreeOnSubGroups a1 a2 grp.ReqBaseGroupName
      (findSubGroups grp.ReqBaseGroupName grp.GrpRequiredResource).1) :
    allocateGroupBody a1 grp = allocateGroupBody a2 grp ∧
    NoFuelFault (allocateGroupBody a1 grp) := by
  unfold allocateGroupBody
  split_ifs with h0
  · exact ⟨rfl, by simp [NoFuelFault]⟩
  · simp only
    obtain ⟨e, nf⟩ := allocateGroupLoop_agree a1 a2 grp.ReqBaseGroupName _ H
      (SortedStringKeys grp.GrpAllocResource)
      ⟨{ grp with IsReqSubGrp :=
          (findSubGroups grp.ReqBaseGroupName grp.GrpRequiredResource).2 }, false, "",
        { grp with IsReqSubGrp :=
          (findSubGroups grp.ReqBaseGroupName grp.GrpRequiredResource).2 }, false, "", []⟩ rfl
    rw [← e]
    refine ⟨rfl, ?_⟩
    cases hc : allocateGroupLoop a1
        (findSubGroups grp.ReqBaseGroupName grp.GrpRequiredResource).1
        (SortedStringKeys grp.GrpAllocResource)
        ⟨{ grp with IsReqSubGrp :=
            (findSubGroups grp.ReqBaseGroupName grp.GrpRequiredResource).2 }, false, "",
          { grp with IsReqSubGrp :=
            (findSubGroups grp.ReqBaseGroupName grp.GrpRequiredResource).2 }, false, "", []⟩ with
    | error er =>
      rw [hc] at nf
      intro h
      simp only [Except.error.injEq] at h
      exact nf (by rw [h])
    | ok st =>
      simp only
      split_ifs <;> simp [NoFuelFault]

/-- Every requirement key of the group is at most `f` characters longer than
the base of the group. -/
def WithinDepth (f : Nat) (grp : GrpAllocator) : Prop :=
  ∀ kv ∈ grp.GrpRequiredResource, kv.2.length ≤ grp.ReqBaseGroupName.length + f

/-- With `f + 1` units of fuel for a group whose requirement keys are at most
`f` characters longer than its base, the search does not run out of fuel, and
more fuel does not change its result. -/
theorem allocateGroup_enough_fuel :
    ∀ (f : Nat) (grp : GrpAllocator), WithinDepth f grp →
      ∀ f2, f ≤ f2 →
        allocateGroup (f2 + 1) grp = allocateGroup (f + 1) grp ∧
        NoFuelFault (allocateGroup (f2 + 1) grp) := by
  intro f
  induction f using Nat.strong_induction_on with
  | _ f ih =>
    intro grp hw f2 hf
    -- what the subgroups of `grp` satisfy
    have hsub : ∀ (g : GrpAllocator) (loc : String) (sa : GoMap (GoMap (GoMap String)))
        (name idx : String), g.ReqBaseGroupName = grp.ReqBaseGroupName →
        name ∈ (findSubGroups grp.ReqBaseGroupName grp.GrpRequiredResource).1.keys →
        idx ∈ ((findSubGroups grp.ReqBaseGroupName grp.GrpRequiredResource).1.getD name []).keys →
        1 ≤ f ∧ WithinDepth (f - 1)
          (createSubGroup g loc (findSubGroups grp.ReqBaseGroupName grp.GrpRequiredResource).1
            sa name idx) := by
      intro g loc sa name idx hg hname hidx
      have hne := findSubGroups_nonempty grp.ReqBaseGroupName grp.GrpRequiredResource name idx hidx
      have hvals : Sub3Vals (fun e => e.length ≤ grp.ReqBaseGroupName.length + f)
          (findSubGroups grp.ReqBaseGroupName grp.GrpRequiredResource).1 :=
        findSubGroups_vals _ _ (fun kv hkv => hw kv hkv)
      have hpar := (findSubGroups_parsed grp.ReqBaseGroupName grp.GrpRequiredResource).1
      have hlen : ∀ te ∈ ((findSubGroups grp.ReqBaseGroupName grp.GrpRequiredResource).1.getD
          name []).getD idx [],
          (grp.ReqBaseGroupName ++ "/" ++ name ++ "/" ++ idx).length + 1 ≤ te.2.length ∧
          te.2.length ≤ grp.ReqBaseGroupName.length + f := by
        intro te hte
        refine ⟨matchSubGroup_length _ _ _ _ _ (hpar name idx te.1 te.2 hte), ?_⟩
        exact Sub2Vals_getD (Sub3Vals_getD hvals name) idx te hte
      have hb : (grp.ReqBaseGroupName ++ "/" ++ name ++ "/" ++ idx).length =
          grp.ReqBaseGroupName.length + 1 + name.length + 1 + idx.length := by
        simp only [String.length_append]
        rfl
      cases hm : ((findSubGroups grp.ReqBaseGroupName grp.GrpRequiredResource).1.getD
          name []).getD idx [] with
      | nil => exact absurd hm hne
      | cons te rest =>
        have h1 := hlen te (by rw [hm]; exact List.mem_cons_self _ _)
        refine ⟨by omega, ?_⟩
        intro kv hkv
        have h2 := hlen kv hkv
        simp only [createSubGroup, hg] at h2 ⊢
        omega
    have key : ∀ f3, f ≤ f3 → AgreeOnSubGroups (allocateGroup f3) (allocateGroup f)
        grp.ReqBaseGroupName (findSubGroups grp.ReqBaseGroupName grp.GrpRequiredResource).1 := by
      intro f3 hf3 g loc sa name idx hg hname hidx
      obtain ⟨h1, hwd⟩ := hsub g loc sa name idx hg hname hidx
      obtain ⟨a, b⟩ := ih (f - 1) (by omega) _ hwd (f3 - 1) (by omega)
      obtain ⟨c, -⟩ := ih (f - 1) (by omega) _ hwd (f - 1) (le_refl _)
      have e3 : f3 - 1 + 1 = f3 := by omega
      have e1 : f - 1 + 1 = f := by omega
      rw [e3] at a b
      rw [e1] at a
      exact ⟨a, b⟩
    obtain ⟨a, b⟩ := allocateGroupBody_agree (allocateGroup f2) (allocateGroup f) grp (key f2 hf)
    exact ⟨a, b⟩

theorem stripLit_suffix : ∀ (p s r : List Char), stripLit p s = some r → ∀ c ∈ r, c ∈ s := by
  intro p s r h c hc
  rw [stripLit_eq p s r h]
  exact List.mem_append_right _ hc

/-- The two first groups of a match are made of characters of the text. -/
theorem matchSubGroupHere_chars (base s : List Char) (g i t : String)
    (h : matchSubGroupHere base s = some (g, i, t)) :
    (∀ c ∈ g.data, c ∈ s) ∧ (∀ c ∈ i.data, c ∈ s) := by
  unfold matchSubGroupHere at h
  cases hs : stripLit base s with
  | none => rw [hs] at h; cases h
  | some r =>
    rw [hs] at h
    cases r with
    | nil => cases h
    | cons c rest =>
      by_cases hc : c = '/'
      · subst hc
        simp only at h
        cases h1 : splitFirstSlash (rest.takeWhile isNonSpace) with
        | none => rw [h1] at h; cases h
        | some ab =>
          obtain ⟨g1, rest1⟩ := ab
          rw [h1] at h
          simp only at h
          cases h2 : splitFirstSlash rest1 with
          | none => rw [h2] at h; cases h
          | some cd =>
            obtain ⟨g2, g3⟩ := cd
            rw [h2] at h
            simp only [Option.some.injEq, Prod.mk.injEq] at h
            obtain ⟨rfl, rfl, rfl⟩ := h
            have e0 := stripLit_eq _ _ _ hs
            have e1 := splitFirstSlash_eq _ _ _ h1
            have e2 := splitFirstSlash_eq _ _ _ h2
            have hrun : ∀ x ∈ rest.takeWhile isNonSpace, x ∈ s := by
              intro x hx
              rw [e0]
              exact List.mem_append_right _
                (List.mem_cons_of_mem _ ((List.takeWhile_sublist isNonSpace).subset hx))
            constructor
            · intro x hx
              apply hrun
              rw [e1]
              exact List.mem_append_left _ hx
            · intro x hx
              apply hrun
              rw [e1, e2]
              exact List.mem_append_right _ (List.mem_cons_of_mem _ (List.mem_append_left _ hx))
      · exfalso
        revert h
        split
        · rename_i heq
          simp only [Option.some.injEq, List.cons.injEq] at heq
          exact absurd heq.1 hc
        · intro h; cases h

theorem matchSubGroupFrom_chars (base : List Char) (g i t : String) :
    ∀ (s : List Char), matchSubGroupFrom base s = some (g, i, t) →
      (∀ c ∈ g.data, c ∈ s) ∧ (∀ c ∈ i.data, c ∈ s) := by
  intro s
  induction s with
  | nil =>
    intro h
    simp only [matchSubGroupFrom] at h
    exact matchSubGroupHere_chars _ _ _ _ _ h
  | cons c u ih =>
    intro h
    simp only [matchSubGroupFrom] at h
    cases hh : matchSubGroupHere base (c :: u) with
    | some r =>
      rw [hh] at h
      simp only [Option.some.injEq] at h
      subst h
      exact matchSubGroupHere_chars _ _ _ _ _ hh
    | none =>
      rw [hh] at h
      obtain ⟨a, b⟩ := ih h
      exact ⟨fun x hx => List.mem_cons_of_mem _ (a x hx),
        fun x hx => List.mem_cons_of_mem _ (b x hx)⟩

theorem sameStatic_usedGroups (g : GrpAllocator) (ug : GoMap Bool) :
    SameStatic g { g with UsedGroups := ug } :=
  ⟨rfl, rfl, rfl, rfl, rfl, rfl, rfl, rfl, rfl, rfl, rfl⟩

theorem allocateSubGroupsInner_lift (a1 a2 : GrpAllocator → AllocResult) (G : GrpAllocator)
    (loc : String) (sr sa : GoMap (GoMap (GoMap String))) (name : String)
    (H : ∀ g idx, SameStatic G g → idx ∈ (sr.getD name []).keys →
      a1 (createSubGroup g loc sr sa name idx) = a2 (createSubGroup g loc sr sa name idx)) :
    ∀ (l : List String) (grp : GrpAllocator) (found : Bool) (pf : List PredicateFailureReason),
      (∀ idx ∈ l, idx ∈ (sr.getD name []).keys) → SameStatic G grp →
      allocateSubGroupsInner a1 loc sr sa name l grp found pf =
        allocateSubGroupsInner a2 loc sr sa name l grp found pf := by
  intro l
  induction l with
  | nil => intro grp found pf _ _; rfl
  | cons idx t ih =>
    intro grp found pf hl hg
    simp only [allocateSubGroupsInner]
    rw [← H grp idx hg (hl idx (List.mem_cons_self _ _))]
    have ht : ∀ i ∈ t, i ∈ (sr.getD name []).keys := fun i hi => hl i (List.mem_cons_of_mem _ hi)
    cases hc : a1 (createSubGroup grp loc sr sa name idx) with
    | error er => rfl
    | ok res =>
      obtain ⟨s1, f1, r1⟩ := res
      simp only
      split_ifs
      · exact ih _ _ _ ht (hg.trans (sameStatic_usedGroups grp _))
      · exact ih _ _ _ ht
          ((hg.trans (sameStatic_usedGroups grp _)).trans (takeGroup_static _ _))

theorem allocateSubGroupsOuter_lift (a1 a2 : GrpAllocator → AllocResult) (G : GrpAllocator)
    (loc : String) (sr sa : GoMap (GoMap (GoMap String)))
    (H : ∀ g name idx, SameStatic G g → idx ∈ (sr.getD name []).keys →
      a1 (createSubGroup g loc sr sa name idx) = a2 (createSubGroup g loc sr sa name idx)) :
    ∀ (l : List String) (grp : GrpAllocator) (found : Bool) (pf : List PredicateFailureReason),
      SameStatic G grp →
      allocateSubGroupsOuter a1 loc sr sa l grp found pf =
        allocateSubGroupsOuter a2 loc sr sa l grp found pf := by
  intro l
  induction l with
  | nil => intro grp found pf _; rfl
  | cons name t ih =>
    intro grp found pf hg
    simp only [allocateSubGroupsOuter]
    rw [← allocateSubGroupsInner_lift a1 a2 G loc sr sa name (fun g idx => H g name idx)
      (SortedStringKeys (sr.getD name [])) grp found pf
      (fun idx hi => (mem_SortedStringKeys _ idx).1 hi) hg]
    cases hc : allocateSubGroupsInner a1 loc sr sa name (SortedStringKeys (sr.getD name []))
        grp found pf with
    | error er => rfl
    | ok res =>
      obtain ⟨g1, f1, p1⟩ := res
      simp only
      obtain ⟨s1, -⟩ := allocateSubGroupsInner_static _ _ _ _ _ _ _ _ _ _ _ _ hc
      exact ih _ _ _ (hg.trans s1)

theorem length_le_foldr_max (l : GoMap String) :
    ∀ kv ∈ l, kv.2.length ≤ (l.map (fun kv => kv.2.length)).foldr max 0 := by
  induction l with
  | nil => intro kv h; cases h
  | cons p t ih =>
    intro kv h
    simp only [List.map_cons, List.foldr_cons]
    rcases List.mem_cons.1 h with rfl | h
    · exact le_max_left _ _
    · exact le_trans (ih kv h) (le_max_right _ _)

/-- The depth `searchFuel` is enough for the requirement keys of the group. -/
theorem withinDepth_searchFuel (grp : GrpAllocator) :
    WithinDepth (searchFuel grp.GrpRequiredResource - 1) grp := by
  intro kv hkv
  have := length_le_foldr_max grp.GrpRequiredResource kv hkv
  simp only [searchFuel, Nat.add_sub_cancel]
  omega

/-- The search that `containerFitsGroupConstraints` makes has enough fuel: the
function does not fail by exhaustion of the fuel. -/
theorem containerFits_fuel (env : Env) (contName : String) (contReq : ContainerInfo)
    (initContainer : Bool) (allocatable : GoMap Int) (allocScorer : GoMap ResourceScoreFunc)
    (podResource nodeResource : GoMap Int) (usedGroups : GoMap Bool)
    (bPreferUsed bSetAllocateFrom : Bool) :
    containerFitsGroupConstraints env contName contReq initContainer allocatable allocScorer
      podResource nodeResource usedGroups bPreferUsed bSetAllocateFrom ≠
        .error Fault.outOfFuel := by
  intro h
  unfold containerFitsGroupConstraints at h
  generalize collectRequests env contReq contReq.DevRequests ([], [], []) = cr at h
  obtain ⟨reqName, req, reqScorer⟩ := cr
  simp only at h
  split at h
  · cases h
  · rename_i grpPrefix grpName hpre
    generalize collectAllocatable env grpName allocatable ([], []) = ca at h
    obtain ⟨allocName, alloc⟩ := ca
    simp only at h
    split at h
    · split at h
      · rename_i er hag
        simp only [Except.error.injEq] at h
        subst h
        have hw := withinDepth_searchFuel
          { ContName := contName, InitContainer := initContainer, PreferUsed := bPreferUsed,
            RequiredResource := req, ReqScorer := reqScorer, AllocResource := alloc,
            AllocScorer := allocScorer, UsedGroups := usedGroups,
            GrpRequiredResource := reqName, IsReqSubGrp := [], GrpAllocResource := allocName,
            IsAllocSubGrp := [], ReqBaseGroupName := env.DeviceGroupPrefix,
            AllocBaseGroupPrefix := grpPrefix, Score := 0, PodResource := podResource,
            NodeResource := nodeResource, AllocateFrom := [] }
        obtain ⟨-, nf⟩ := allocateGroup_enough_fuel _ _ hw (searchFuel reqName - 1) (le_refl _)
        have e : searchFuel reqName - 1 + 1 = searchFuel reqName := by
          simp [searchFuel]
        rw [e] at nf
        exact nf hag
      · cases h
    · split at h
      · split at h
        · rename_i er hfs
          simp only [Except.error.injEq] at h
          subst h
          have := findScoreAndUpdate_fault _ _ _ hfs
          cases this
        · cases h
      · cases h

theorem podFitsLoop_fuel (env : Env) (n : NodeInfo) (scorer : GoMap ResourceScoreFunc)
    (i a : Bool) :
    ∀ (names : List String) (st : PodFitState),
      podFitsLoop env n scorer i a names st ≠ .error Fault.outOfFuel := by
  intro names
  induction names with
  | nil => intro st; simp [podFitsLoop]
  | cons name rest ih =>
    intro st
    simp only [podFitsLoop]
    cases hc : containerFitsGroupConstraints env name
        (st.containers.getD name ContainerInfo.zero) i n.Allocatable scorer st.podResource
        st.nodeResource st.usedGroups true a with
    | error er =>
      intro h
      simp only [Except.error.injEq] at h
      rw [h] at hc
      exact containerFits_fuel _ _ _ _ _ _ _ _ _ _ _ hc
    | ok r => exact ih _

/-! ## The pattern of `findSubGroups` as package `regexp` compiles it -/

/-! The base of a subgroup is compiled as a part of a regular expression
(`regexp.MustCompile(baseGroup + ...)`, without `regexp.QuoteMeta`): a
character of a name that is an operator of the syntax is read as this operator.
`matchSubGroup` is the pattern of a base that matches itself; `goRegexp` is the
pattern that the program compiles, for a base with the operators `.`, `*`, `+`,
`?` (with the lazy forms) and the alternation bar. -/

/-- The characters that the syntax of package `regexp` reads as operators, which
are the characters that `regexp.QuoteMeta` escapes: the dot, the repetitions, the
bar, the anchors, and by their codes the backslash (92), the parentheses (40,
41), the square brackets (91, 93) and the braces (123, 125). -/
def isMetaChar (c : Char) : Bool :=
  c = '.' || c = '+' || c = '*' || c = '?' || c = '|' || c = '^' || c = '$' ||
    c = Char.ofNat 92 || c = Char.ofNat 40 || c = Char.ofNat 41 || c = Char.ofNat 91 ||
    c = Char.ofNat 93 || c = Char.ofNat 123 || c = Char.ofNat 125

/-- The operators that the embedding covers: the dot, the three repetitions
(with their lazy forms) and the alternation. The other operators (escapes,
groups, classes, counted repetitions, anchors) are not embedded. -/
def isCoveredOp (c : Char) : Bool :=
  c = '.' || c = '+' || c = '*' || c = '?' || c = '|'

/-- A name without operator of the regular expressions: as a pattern it matches
itself and nothing else. -/
def Plain (s : String) : Prop := ∀ c ∈ s.data, isMetaChar c = false

/-- The repetition of an item. -/
inductive ReRep where
  | one
  | star
  | plus
  | opt
deriving DecidableEq, Repr

/-- An item of a pattern: a character (`none` is the dot, any character but the
newline), its repetition, and whether the repetition is lazy (`*?`, `+?`, `??`). -/
structure ReItem where
  atom : Option Char
  rep : ReRep
  isLazy : Bool
deriving DecidableEq, Repr

/-- The repetition that an operator character writes. -/
def repOf (c : Char) : Option ReRep :=
  if c = '*' then some ReRep.star
  else if c = '+' then some ReRep.plus
  else if c = '?' then some ReRep.opt
  else none

/-- The atom that a character writes: the dot is any character but the newline. -/
def atomOf (c : Char) : Option Char := if c = '.' then none else some c

/-- What the parser of an alternative holds while it reads: nothing, an atom
that may still take a repetition, or an atom with a repetition that may still
take the mark `?` of the lazy form. -/
inductive Pending where
  | nothing
  | atom (a : Option Char)
  | rep (a : Option Char) (r : ReRep)
deriving DecidableEq, Repr

/-- Puts an item in front of the items of the rest of the alternative. -/
def pushItem (x : ReItem) : Except Fault (List ReItem) → Except Fault (List ReItem)
  | .ok l => .ok (x :: l)
  | .error e => .error e

/-- The items of one alternative of a pattern (a text without bar and without
operator outside the covered ones). A repetition operator without argument, at
the head of the alternative, or after a repetition (`a**`, `x*+`, `a*??`) does
not parse, and `regexp.MustCompile` panics. -/
def parseFrom : Pending → List Char → Except Fault (List ReItem)
  | Pending.nothing, [] => .ok []
  | Pending.atom a, [] => .ok [⟨a, ReRep.one, false⟩]
  | Pending.rep a r, [] => .ok [⟨a, r, false⟩]
  | Pending.nothing, c :: t =>
    match repOf c with
    | some _ => .error Fault.invalidPattern
    | none => parseFrom (Pending.atom (atomOf c)) t
  | Pending.atom a, c :: t =>
    match repOf c with
    | some r => parseFrom (Pending.rep a r) t
    | none => pushItem ⟨a, ReRep.one, false⟩ (parseFrom (Pending.atom (atomOf c)) t)
  | Pending.rep a r, c :: t =>
    if c = '?' then pushItem ⟨a, r, true⟩ (parseFrom Pending.nothing t)
    else
      match repOf c with
      | some _ => .error Fault.invalidPattern
      | none => pushItem ⟨a, r, false⟩ (parseFrom (Pending.atom (atomOf c)) t)

/-- The alternatives of a pattern: the texts between its bars. -/
def splitBars : List Char → List (List Char)
  | [] => [[]]
  | c :: t =>
    if c = '|' then [] :: splitBars t
    else
      match splitBars t with
      | [] => [[c]]
      | a :: r => (c :: a) :: r

/-- Parses the alternatives one after the other. -/
def parseAlts : List (List Char) → Except Fault (List (List ReItem))
  | [] => .ok []
  | a :: rest =>
    match parseFrom Pending.nothing a with
    | .error e => .error e
    | .ok items =>
      match parseAlts rest with
      | .error e => .error e
      | .ok l => .ok (items :: l)

/-- The base of `regexp.MustCompile(baseGroup + "/(\S*?)/(\S*?)/(\S*)")`, as
the alternatives that the base writes, each a list of items; the three groups
follow the last alternative. A base with an operator that is not covered is not
embedded. -/
def compileBase (base : List Char) : Except Fault (List (List ReItem)) :=
  if base.any (fun c => isMetaChar c && !isCoveredOp c) then .error Fault.unsupportedPattern
  else parseAlts (splitBars base)

/-- Whether the character `c` matches the atom. -/
def atomOk (a : Option Char) (c : Char) : Bool :=
  match a with
  | some x => decide (x = c)
  | none => !(c = '\n')

/-- The repetition `*` of an atom, followed by the rest of the pattern `k`, as
a backtracking search tries it: the greedy form takes the atom as long as it
can and gives back one character at a time; the lazy form tries the rest first
and takes one more character when the rest fails. -/
def matchStar {R : Type} (a : Option Char) (greedy : Bool) :
    List Char → (List Char → Option R) → Option R
  | [], k => k []
  | c :: t, k =>
    if greedy then
      if atomOk a c then
        match matchStar a greedy t k with
        | some r => some r
        | none => k (c :: t)
      else k (c :: t)
    else
      match k (c :: t) with
      | some r => some r
      | none => if atomOk a c then matchStar a greedy t k else none

/-- One item at the head of `s`, followed by the rest of the pattern `k`. -/
def matchItem {R : Type} (it : ReItem) (s : List Char) (k : List Char → Option R) : Option R :=
  match it.rep with
  | ReRep.one =>
    match s with
    | c :: t => if atomOk it.atom c then k t else none
    | [] => none
  | ReRep.star => matchStar it.atom (!it.isLazy) s k
  | ReRep.plus =>
    match s with
    | c :: t => if atomOk it.atom c then matchStar it.atom (!it.isLazy) t k else none
    | [] => none
  | ReRep.opt =>
    if it.isLazy then
      match k s with
      | some r => some r
      | none =>
        match s with
        | c :: t => if atomOk it.atom c then k t else none
        | [] => none
    else
      match s with
      | c :: t =>
        if atomOk it.atom c then
          match k t with
          | some r => some r
          | none => k s
        else k s
      | [] => k s

/-- The items of an alternative at the head of `s`, followed by `k`: the first
match that a backtracking search finds. -/
def matchItems {R : Type} : List ReItem → List Char → (List Char → Option R) → Option R
  | [], s, k => k s
  | it :: rest, s, k => matchItem it s (fun s1 => matchItems rest s1 k)

/-- The three groups `/(\S*?)/(\S*?)/(\S*)` at the head of `s`: the two lazy
groups end at the first and at the second `/` of the run of non-space
characters, the greedy group takes the rest of the run. -/
def matchGroups : List Char → Option (String × String × String)
  | '/' :: rest =>
    match splitFirstSlash (rest.takeWhile isNonSpace) with
    | some (g1, rest1) =>
      match splitFirstSlash rest1 with
      | some (g2, g3) => some (String.mk g1, String.mk g2, String.mk g3)
      | none => none
    | none => none
  | _ => none

/-- A match of the pattern that starts at the head of `s`: the alternatives are
tried in order; an alternative before the last one matches without the groups,
which are then empty; the last alternative is followed by the three groups. -/
def matchAltsHere : List (List ReItem) → List Char → Option (String × String × String)
  | [], _ => none
  | [last], s => matchItems last s matchGroups
  | a :: b :: rest, s =>
    match matchItems a s (fun _ => some ("", "", "")) with
    | some r => some r
    | none => matchAltsHere (b :: rest) s

/-- The leftmost match of the pattern in `s`. -/
def matchAltsFrom (alts : List (List ReItem)) : List Char → Option (String × String × String)
  | [] => matchAltsHere alts []
  | c :: t =>
    match matchAltsHere alts (c :: t) with
    | some r => some r
    | none => matchAltsFrom alts t

/-- The call `regexp.MustCompile(baseGroup + "/(\S*?)/(\S*?)/(\S*)")` of
`findSubGroups`: a fault when the pattern does not parse, else the function
that `re.FindStringSubmatch` computes on a key, `none` when the key does not
match and the three groups of the leftmost match otherwise (a group that takes
no part in the match is the empty string). -/
def goRegexp (baseGroup : String) : Except Fault (String → Option (String × String × String)) :=
  match compileBase baseGroup.data with
  | .error e => .error e
  | .ok alts => .ok (fun s => matchAltsFrom alts s.data)

/-- The compiled pattern of a base: the groups of the leftmost match of a key. -/
abbrev SubGroupMatcher := String → Option (String × String × String)

/-- The compilation of the pattern of a base, which can panic. -/
abbrev SubGroupCompiler := String → Except Fault SubGroupMatcher

/-- The compilation of a base that is read as a literal text: the pattern of
`matchSubGroup`. -/
def litRegexp : SubGroupCompiler := fun baseGroup => .ok (matchSubGroup baseGroup)

/-- The loop of `findSubGroups`, over the compiled pattern `re`. -/
def findSubGroupsLoopRe (re : SubGroupMatcher) :
    GoMap String → GoMap (GoMap (GoMap String)) → GoMap Bool →
    GoMap (GoMap (GoMap String)) × GoMap Bool
  | [], subGrp, isSubGrp => (subGrp, isSubGrp)
  | (grpKey, grpElem) :: rest, subGrp, isSubGrp =>
    match re grpElem with
    | some (m1, m2, m3) =>
      findSubGroupsLoopRe re rest (AssignMap3 subGrp m1 m2 m3 grpElem)
        (isSubGrp.set grpKey true)
    | none => findSubGroupsLoopRe re rest subGrp (isSubGrp.set grpKey false)

/-- The function `findSubGroups`, with the pattern that `compile` makes of the
base: the panic of `regexp.MustCompile` is a fault. -/
def findSubGroupsRe (compile : SubGroupCompiler) (baseGroup : String) (grp : GoMap String) :
    Except Fault (GoMap (GoMap (GoMap String)) × GoMap Bool) :=
  match compile baseGroup with
  | .error e => .error e
  | .ok re => .ok (findSubGroupsLoopRe re grp [] [])

/-- The method `allocateGroupAt`, with the compiled patterns. -/
def allocateGroupAtRe (compile : SubGroupCompiler)
    (allocGroup : GrpAllocator → AllocResult) (grp : GrpAllocator)
    (location : String) (subgrpsReq : GoMap (GoMap (GoMap String))) : AllocResult :=
  let allocLocationName := grp.AllocBaseGroupPrefix ++ "/" ++ location
  let grpsAllocResElem := grp.GrpAllocResource.getD location []
  match findSubGroupsRe compile allocLocationName grpsAllocResElem with
  | .error e => .error e
  | .ok subgrps =>
    let grp0 := { grp with IsAllocSubGrp := subgrps.2 }
    let grpR := cloneGroup grp0
    match resourceAvailable grp0 location with
    | .error e => .error e
    | .ok (grp1, foundRes, reasons) =>
      match allocateSubGroups allocGroup grp1 location subgrpsReq subgrps.1 with
      | .error e => .error e
      | .ok (grp2, foundNext, reasonsNext) =>
        if foundRes && foundNext then
          match findScoreAndUpdate (resetGroup grp2 grpR) location with
          | .error e => .error e
          | .ok (grp3, foundScore, reasonsScore) =>
            if foundScore = false then
              .ok (grp3, false, reasons ++ (reasonsNext ++ reasonsScore))
            else
              .ok (grp3, true, reasons ++ reasonsNext)
        else
          .ok (grp2, false, reasons ++ reasonsNext)

/-- The search loop of `allocateGroup`, with the compiled patterns. -/
def allocateGroupLoopRe (compile : SubGroupCompiler)
    (allocGroup : GrpAllocator → AllocResult)
    (subgrpsReq : GoMap (GoMap (GoMap String))) :
    List String → SearchState → Except Fault SearchState
  | [], st => .ok st
  | grpsAllocResKey :: rest, st =>
    let grpCheck := cloneGroup st.grp
    match allocateGroupAtRe compile allocGroup grpCheck grpsAllocResKey subgrpsReq with
    | .error e => .error e
    | .ok (grpCheck1, found, reasons) =>
      let grp1 := { st.grp with UsedGroups := grpCheck1.UsedGroups }
      let allocLocationName := grp1.AllocBaseGroupPrefix ++ "/" ++ grpsAllocResKey
      let isUsed := grp1.UsedGroups.getD allocLocationName false
      let take : Bool :=
        found && takeNew grp1.PreferUsed st.maxIsUsedGroup isUsed
          grpCheck1.Score st.maxScoreGrp.Score
      let st2 : SearchState :=
        { grp := grp1
          anyFind := if take then true else st.anyFind
          maxScoreKey := if take then grpsAllocResKey else st.maxScoreKey
          maxScoreGrp := if take then grpCheck1 else st.maxScoreGrp
          maxIsUsedGroup := if take then isUsed else st.maxIsUsedGroup
          maxGroupName := if take then allocLocationName else st.maxGroupName
          predicateFails :=
            if grp1.GrpAllocResource.length = 1 then st.predicateFails ++ reasons
            else st.predicateFails }
      allocateGroupLoopRe compile allocGroup subgrpsReq rest st2

/-- The body of the method `allocateGroup`, with the compiled patterns. -/
def allocateGroupBodyRe (compile : SubGroupCompiler)
    (allocGroup : GrpAllocator → AllocResult) (grp : GrpAllocator) : AllocResult :=
  if grp.GrpRequiredResource.length = 0 then
    .ok (grp, true, [])
  else
    match findSubGroupsRe compile grp.ReqBaseGroupName grp.GrpRequiredResource with
    | .error e => .error e
    | .ok subgrps =>
      let grp0 := { grp with IsReqSubGrp := subgrps.2 }
      match allocateGroupLoopRe compile allocGroup subgrps.1
          (SortedStringKeys grp0.GrpAllocResource)
          ⟨grp0, false, "", grp0, false, "", []⟩ with
      | .error e => .error e
      | .ok st =>
        let grp1 := takeGroup st.grp st.maxScoreGrp
        if st.anyFind then
          .ok ({ grp1 with UsedGroups := grp1.UsedGroups.set st.maxGroupName true }, true, [])
        else
          .ok (grp1, false, st.predicateFails)

/-- The method `allocateGroup`, with the compiled patterns and with `fuel`
bounding the depth of the recursion into subgroups. -/
def allocateGroupRe (compile : SubGroupCompiler) : Nat → GrpAllocator → AllocResult
  | 0 => fun _ => .error Fault.outOfFuel
  | fuel + 1 => allocateGroupBodyRe compile (allocateGroupRe compile fuel)

/-- The function `containerFitsGroupConstraints`, with the compiled patterns. -/
def containerFitsGroupConstraintsRe (compile : SubGroupCompiler) (env : Env)
    (contName : String) (contReq : ContainerInfo)
    (initContainer : Bool) (allocatable : GoMap Int) (allocScorer : GoMap ResourceScoreFunc)
    (podResource nodeResource : GoMap Int) (usedGroups : GoMap Bool)
    (bPreferUsed bSetAllocateFrom : Bool) : Except Fault ContainerFit :=
  let (reqName, req, reqScorer) := collectRequests env contReq contReq.DevRequests ([], [], [])
  match matchPrefix env.DeviceGroupPrefix with
  | none => .error Fault.invalidPrefix
  | some (grpPrefix, grpName) =>
    let (allocName, alloc) := collectAllocatable env grpName allocatable ([], [])
    let grp : GrpAllocator :=
      { ContName := contName
        InitContainer := initContainer
        PreferUsed := bPreferUsed
        RequiredResource := req
        ReqScorer := reqScorer
        AllocResource := alloc
        AllocScorer := allocScorer
        UsedGroups := usedGroups
        GrpRequiredResource := reqName
        IsReqSubGrp := []
        GrpAllocResource := allocName
        IsAllocSubGrp := []
        ReqBaseGroupName := env.DeviceGroupPrefix
        AllocBaseGroupPrefix := grpPrefix
        Score := 0
        PodResource := podResource
        NodeResource := nodeResource
        AllocateFrom := [] }
    let search : Bool :=
      match contReq.AllocateFrom with
      | none => true
      | some af => af.length = 0 && req.length > 0
    if search then
      match allocateGroupRe compile (searchFuel reqName) grp with
      | .error e => .error e
      | .ok (grp1, found, reasons) =>
        let contReq1 : ContainerInfo :=
          if bSetAllocateFrom then
            { contReq with AllocateFrom := some (copyInto grp1.AllocateFrom []) }
          else contReq
        .ok ⟨grp1, contReq1, found, reasons, grp1.Score⟩
    else if req.length > 0 then
      let grp0 := { grp with AllocateFrom := copyInto (contReq.AllocateFrom.getD []) [] }
      match findScoreAndUpdate grp0 grpName with
      | .error e => .error e
      | .ok (grp1, found, reasons) => .ok ⟨grp1, contReq, found, reasons, grp1.Score⟩
    else
      .ok ⟨grp, contReq, true, [], 0⟩

/-- The container loops of `PodFitsGroupConstraints`, with the compiled
patterns. -/
def podFitsLoopRe (compile : SubGroupCompiler) (env : Env) (n : NodeInfo)
    (scorer : GoMap ResourceScoreFunc)
    (initContainer allocating : Bool) : List String → PodFitState → Except Fault PodFitState
  | [], st => .ok st
  | contName :: rest, st =>
    let contCopy := st.containers.getD contName ContainerInfo.zero
    match containerFitsGroupConstraintsRe compile env contName contCopy initContainer
        n.Allocatable scorer st.podResource st.nodeResource st.usedGroups true allocating with
    | .error e => .error e
    | .ok r =>
      podFitsLoopRe compile env n scorer initContainer allocating rest
        { containers := st.containers.set contName r.contReq
          podResource := r.grp.PodResource
          nodeResource := r.grp.NodeResource
          usedGroups := r.grp.UsedGroups
          found := if r.found = false then false else st.found
          predicateFails :=
            if r.found = false then st.predicateFails ++ r.reasons else st.predicateFails
          totalScore :=
            if r.found = false || initContainer then st.totalScore else r.score }

/-- The function `PodFitsGroupConstraints`, with the compiled patterns. -/
def PodFitsGroupConstraintsRe (compile : SubGroupCompiler) (env : Env) (n : NodeInfo)
    (spec : PodInfo) (allocating : Bool) : Except Fault PodFit :=
  let scorer := setScoreFunc env n
  match podFitsLoopRe compile env n scorer false allocating
      (SortedStringKeys spec.RunningContainers)
      ⟨spec.RunningContainers, [], initNodeResource n, [], true, [], 0⟩ with
  | .error e => .error e
  | .ok st1 =>
    match podFitsLoopRe compile env n scorer true allocating
        (SortedStringKeys spec.InitContainers)
        ⟨spec.InitContainers, st1.podResource, st1.nodeResource, st1.usedGroups,
          st1.found, st1.predicateFails, st1.totalScore⟩ with
    | .error e => .error e
    | .ok st2 =>
      .ok ⟨st2.found, st2.predicateFails, st2.totalScore, ⟨st1.containers, st2.containers⟩,
        st2.podResource, st2.nodeResource, st2.usedGroups⟩

/-! With the bases read as literal texts, the search is `allocateGroup`. -/

theorem findSubGroupsLoopRe_literal (baseGroup : String) :
    ∀ (l : GoMap String) (sub : GoMap (GoMap (GoMap String))) (isSub : GoMap Bool),
      findSubGroupsLoopRe (matchSubGroup baseGroup) l sub isSub =
        findSubGroupsLoop baseGroup l sub isSub := by
  intro l
  induction l with
  | nil => intro sub isSub; rfl
  | cons p t ih =>
    obtain ⟨k, e⟩ := p
    intro sub isSub
    simp only [findSubGroupsLoopRe, findSubGroupsLoop]
    cases matchSubGroup baseGroup e with
    | none => exact ih _ _
    | some r =>
      obtain ⟨m1, m2, m3⟩ := r
      exact ih _ _

theorem findSubGroupsRe_literal (baseGroup : String) (l : GoMap String) :
    findSubGroupsRe litRegexp baseGroup l = .ok (findSubGroups baseGroup l) := by
  simp only [findSubGroupsRe, litRegexp, findSubGroups, findSubGroupsLoopRe_literal]

/-! A name without operator is compiled to the pattern that matches it. -/

/-- The item of a character that matches itself. -/
def litItem (c : Char) : ReItem := ⟨some c, ReRep.one, false⟩

theorem repOf_plain (c : Char) (h : isMetaChar c = false) : repOf c = none := by
  simp only [isMetaChar, Bool.or_eq_false_iff, decide_eq_false_iff_not] at h
  simp [repOf, h]

theorem atomOf_plain (c : Char) (h : isMetaChar c = false) : atomOf c = some c := by
  simp only [isMetaChar, Bool.or_eq_false_iff, decide_eq_false_iff_not] at h
  simp [atomOf, h]

theorem not_bar_of_plain (c : Char) (h : isMetaChar c = false) : ¬ c = '|' := by
  simp only [isMetaChar, Bool.or_eq_false_iff, decide_eq_false_iff_not] at h
  tauto

theorem parseFrom_plain : ∀ (l : List Char), (∀ c ∈ l, isMetaChar c = false) →
    parseFrom Pending.nothing l = .ok (l.map litItem) ∧
    ∀ a, parseFrom (Pending.atom a) l = .ok (⟨a, ReRep.one, false⟩ :: l.map litItem) := by
  intro l
  induction l with
  | nil => intro _; exact ⟨rfl, fun _ => rfl⟩
  | cons c t ih =>
    intro h
    have hc := h c (List.mem_cons_self _ _)
    obtain ⟨-, i2⟩ := ih (fun x hx => h x (List.mem_cons_of_mem _ hx))
    constructor
    · simp only [parseFrom, repOf_plain c hc, atomOf_plain c hc, i2, List.map_cons, litItem]
    · intro a
      simp only [parseFrom, repOf_plain c hc, atomOf_plain c hc, i2, pushItem, List.map_cons,
        litItem]

theorem splitBars_noBar : ∀ (p : List Char), '|' ∉ p → splitBars p = [p] := by
  intro p
  induction p with
  | nil => intro _; rfl
  | cons c p ih =>
    intro h
    simp only [List.mem_cons, not_or] at h
    have hc : ¬ c = '|' := fun e => h.1 e.symm
    simp only [splitBars, hc, if_false]
    rw [ih h.2]

theorem compileBase_plain (l : List Char) (h : ∀ c ∈ l, isMetaChar c = false) :
    compileBase l = .ok [l.map litItem] := by
  have hany : l.any (fun c => isMetaChar c && !isCoveredOp c) = false := by
    rw [List.any_eq_false]
    intro c hc
    simp [h c hc]
  have hbar : '|' ∉ l := fun hm => not_bar_of_plain _ (h _ hm) rfl
  unfold compileBase
  rw [hany, splitBars_noBar l hbar]
  simp only [Bool.false_eq_true, if_false, parseAlts, (parseFrom_plain l h).1]

theorem matchItems_lit {R : Type} : ∀ (l s : List Char) (k : List Char → Option R),
    matchItems (l.map litItem) s k = (stripLit l s).bind k := by
  intro l
  induction l with
  | nil => intro s k; rfl
  | cons c t ih =>
    intro s k
    cases s with
    | nil => rfl
    | cons d u =>
      simp only [List.map_cons, matchItems, matchItem, litItem, atomOk, stripLit]
      by_cases e : c = d
      · simp only [e, decide_True, if_true]
        exact ih u k
      · simp only [e, decide_False, if_false, Bool.false_eq_true, Option.none_bind]

theorem matchSubGroupHere_groups (base s : List Char) :
    matchSubGroupHere base s = (stripLit base s).bind matchGroups := by
  unfold matchSubGroupHere
  cases stripLit base s with
  | none => rfl
  | some r =>
    cases r with
    | nil => rfl
    | cons c rest =>
      by_cases hc : c = '/'
      · subst hc
        rfl
      · simp only [Option.some_bind]
        have e1 : matchGroups (c :: rest) = none := by
          unfold matchGroups
          split
          · rename_i heq
            simp only [List.cons.injEq] at heq
            exact absurd heq.1 hc
          · rfl
        rw [e1]
        split
        · rename_i heq
          simp only [Option.some.injEq, List.cons.injEq] at heq
          exact absurd heq.1 hc
        · rfl

theorem matchAltsFrom_lit (base : List Char) :
    ∀ (s : List Char), matchAltsFrom [base.map litItem] s = matchSubGroupFrom base s := by
  intro s
  induction s with
  | nil =>
    simp only [matchAltsFrom, matchAltsHere, matchSubGroupFrom, matchItems_lit,
      matchSubGroupHere_groups]
  | cons c t ih =>
    simp only [matchAltsFrom, matchAltsHere, matchSubGroupFrom, matchItems_lit,
      matchSubGroupHere_groups]
    rw [ih]

/-- A base without operator is compiled to the pattern that matches it:
`matchSubGroup` is the pattern of the program for such a base. -/
theorem goRegexp_plain (base : String) (h : Plain base) :
    goRegexp base = .ok (matchSubGroup base) := by
  unfold goRegexp
  rw [compileBase_plain base.data h]
  simp only [Except.ok.injEq]
  funext s
  simp only [matchAltsFrom_lit, matchSubGroup]

theorem findSubGroupsRe_plain (base : String) (h : Plain base) (l : GoMap String) :
    findSubGroupsRe goRegexp base l = .ok (findSubGroups base l) := by
  simp only [findSubGroupsRe, goRegexp_plain base h, findSubGroups, findSubGroupsLoopRe_literal]

/-! The names without operator. -/

instance decidablePlain (s : String) : Decidable (Plain s) :=
  inferInstanceAs (Decidable (∀ c ∈ s.data, isMetaChar c = false))

theorem plain_append (a b : String) (ha : Plain a) (hb : Plain b) : Plain (a ++ b) := by
  unfold Plain at *
  intro c hc
  rw [String.data_append, List.mem_append] at hc
  exact hc.elim (ha c) (hb c)

theorem plain_slash : Plain "/" := by
  unfold Plain
  decide

theorem plain_of_subset (s e : String) (h : ∀ c ∈ s.data, c ∈ e.data) (he : Plain e) :
    Plain s := fun c hc => he c (h c hc)

/-- The name and the index of the subgroup of a key without operator hold no
operator. -/
theorem matchSubGroup_plain (base e g i t : String)
    (h : matchSubGroup base e = some (g, i, t)) (he : Plain e) : Plain g ∧ Plain i := by
  obtain ⟨a, b⟩ := matchSubGroupFrom_chars base.data g i t e.data h
  exact ⟨plain_of_subset g e a he, plain_of_subset i e b he⟩

/-- No base, no key of a requirement or of an allocatable quantity and no
location of the group holds an operator of the regular expressions. -/
structure PlainGroup (g : GrpAllocator) : Prop where
  reqBase : Plain g.ReqBaseGroupName
  allocBase : Plain g.AllocBaseGroupPrefix
  req : ∀ kv ∈ g.GrpRequiredResource, Plain kv.2
  alloc : ∀ lk ∈ g.GrpAllocResource, Plain lk.1 ∧ ∀ kv ∈ lk.2, Plain kv.2

theorem PlainGroup.of_static {g g2 : GrpAllocator} (h : SameStatic g g2) (hb : PlainGroup g) :
    PlainGroup g2 :=
  ⟨by rw [h.reqBaseGroupName]; exact hb.reqBase,
    by rw [h.allocBaseGroupPrefix]; exact hb.allocBase,
    by rw [h.grpRequiredResource]; exact hb.req,
    by rw [h.grpAllocResource]; exact hb.alloc⟩

/-- The values of the entries of a location. -/
theorem PlainGroup.location {g : GrpAllocator} (hb : PlainGroup g) (loc : String) :
    Sub1Vals Plain (g.GrpAllocResource.getD loc []) := by
  rcases GoMap.getD_mem_or g.GrpAllocResource loc [] with e | e
  · rw [e]
    exact Sub1Vals_nil _
  · exact (hb.alloc _ e).2

/-- The subgroups of a group without operator hold no operator. -/
theorem PlainGroup.createSubGroup {g : GrpAllocator} (hb : PlainGroup g)
    (loc name idx : String)
    (hloc : loc ∈ g.GrpAllocResource.keys)
    (hidx : idx ∈ ((findSubGroups g.ReqBaseGroupName g.GrpRequiredResource).1.getD
      name []).keys) :
    PlainGroup (KubeDevice.createSubGroup g loc
      (findSubGroups g.ReqBaseGroupName g.GrpRequiredResource).1
      (findSubGroups (g.AllocBaseGroupPrefix ++ "/" ++ loc)
        (g.GrpAllocResource.getD loc [])).1 name idx) := by
  have hlocB : Plain loc := by
    obtain ⟨lk, hlk, rfl⟩ := List.mem_map.1 hloc
    exact (hb.alloc lk hlk).1
  have hvals : Sub3Vals Plain (findSubGroups g.ReqBaseGroupName g.GrpRequiredResource).1 :=
    findSubGroups_vals _ _ hb.req
  have hvalsA : Sub3Vals Plain (findSubGroups (g.AllocBaseGroupPrefix ++ "/" ++ loc)
      (g.GrpAllocResource.getD loc [])).1 :=
    findSubGroups_vals _ _ (hb.location loc)
  -- the name and the index come from a key of the group
  have hni : Plain name ∧ Plain idx := by
    have hne := findSubGroups_nonempty g.ReqBaseGroupName g.GrpRequiredResource name idx hidx
    cases hm : ((findSubGroups g.ReqBaseGroupName g.GrpRequiredResource).1.getD
        name []).getD idx [] with
    | nil => exact absurd hm hne
    | cons te rest =>
      have hmem : te ∈ ((findSubGroups g.ReqBaseGroupName g.GrpRequiredResource).1.getD
          name []).getD idx [] := by rw [hm]; exact List.mem_cons_self _ _
      have hp := (findSubGroups_parsed g.ReqBaseGroupName g.GrpRequiredResource).1
        name idx te.1 te.2 hmem
      exact matchSubGroup_plain _ _ _ _ _ hp
        (Sub2Vals_getD (Sub3Vals_getD hvals name) idx te hmem)
  refine ⟨?_, ?_, ?_, ?_⟩
  · simp only [KubeDevice.createSubGroup]
    exact plain_append _ _ (plain_append _ _ (plain_append _ _ (plain_append _ _ hb.reqBase
      plain_slash) hni.1) plain_slash) hni.2
  · simp only [KubeDevice.createSubGroup]
    exact plain_append _ _ (plain_append _ _ (plain_append _ _ (plain_append _ _ hb.allocBase
      plain_slash) hlocB) plain_slash) hni.1
  · simp only [KubeDevice.createSubGroup]
    exact Sub2Vals_getD (Sub3Vals_getD hvals name) idx
  · simp only [KubeDevice.createSubGroup]
    intro lk hlk
    refine ⟨?_, Sub3Vals_getD hvalsA name lk hlk⟩
    have hk : lk.1 ∈ ((findSubGroups (g.AllocBaseGroupPrefix ++ "/" ++ loc)
        (g.GrpAllocResource.getD loc [])).1.getD name []).keys :=
      List.mem_map_of_mem Prod.fst hlk
    have hne := findSubGroups_nonempty _ _ name lk.1 hk
    cases hm : ((findSubGroups (g.AllocBaseGroupPrefix ++ "/" ++ loc)
        (g.GrpAllocResource.getD loc [])).1.getD name []).getD lk.1 [] with
    | nil => exact absurd hm hne
    | cons te rest =>
      have hmem : te ∈ ((findSubGroups (g.AllocBaseGroupPrefix ++ "/" ++ loc)
          (g.GrpAllocResource.getD loc [])).1.getD name []).getD lk.1 [] := by
        rw [hm]; exact List.mem_cons_self _ _
      have hp := (findSubGroups_parsed (g.AllocBaseGroupPrefix ++ "/" ++ loc)
        (g.GrpAllocResource.getD loc [])).1 name lk.1 te.1 te.2 hmem
      exact (matchSubGroup_plain _ _ _ _ _ hp
        (Sub2Vals_getD (Sub3Vals_getD hvalsA name) lk.1 te hmem)).2

/-- On a group without operator, `allocateGroupAt` with the compiled patterns
is `allocateGroupAt`, when the two methods agree on the subgroups. -/
theorem allocateGroupAtRe_lift (a1 a2 : GrpAllocator → AllocResult) (grp : GrpAllocator)
    (location : String) (sr : GoMap (GoMap (GoMap String)))
    (hb : Plain (grp.AllocBaseGroupPrefix ++ "/" ++ location))
    (H : ∀ g name idx, SameStatic grp g → idx ∈ (sr.getD name []).keys →
      a1 (createSubGroup g location sr
        (findSubGroups (grp.AllocBaseGroupPrefix ++ "/" ++ location)
          (grp.GrpAllocResource.getD location [])).1 name idx) =
      a2 (createSubGroup g location sr
        (findSubGroups (grp.AllocBaseGroupPrefix ++ "/" ++ location)
          (grp.GrpAllocResource.getD location [])).1 name idx)) :
    allocateGroupAtRe goRegexp a1 grp location sr = allocateGroupAt a2 grp location sr := by
  unfold allocateGroupAtRe allocateGroupAt
  simp only
  rw [findSubGroupsRe_plain _ hb]
  simp only
  cases hra : resourceAvailable
      { grp with IsAllocSubGrp := (findSubGroups (grp.AllocBaseGroupPrefix ++ "/" ++ location)
        (grp.GrpAllocResource.getD location [])).2 } location with
  | error er => rfl
  | ok res =>
    obtain ⟨g1, f1, p1⟩ := res
    simp only
    obtain ⟨s1, -, -⟩ := resourceAvailableLoop_static _ _ _ _ _ _ _ _ hra
    have hg1 : SameStatic grp g1 :=
      ⟨s1.1, s1.2, s1.3, s1.4, s1.5, s1.6, s1.7, s1.8, s1.9, s1.10, s1.11⟩
    unfold allocateSubGroups
    rw [allocateSubGroupsOuter_lift a1 a2 grp location sr _ H (SortedStringKeys sr) g1 true []
      hg1]

theorem allocateGroupLoopRe_lift (a1 a2 : GrpAllocator → AllocResult) (G : GrpAllocator)
    (sr : GoMap (GoMap (GoMap String)))
    (H : ∀ g location, SameStatic G g → location ∈ G.GrpAllocResource.keys →
      allocateGroupAtRe goRegexp a1 g location sr = allocateGroupAt a2 g location sr) :
    ∀ (keys : List String) (st : SearchState),
      (∀ key ∈ keys, key ∈ G.GrpAllocResource.keys) → SameStatic G st.grp →
      allocateGroupLoopRe goRegexp a1 sr keys st = allocateGroupLoop a2 sr keys st := by
  intro keys
  induction keys with
  | nil => intro st _ _; rfl
  | cons key t ih =>
    intro st hk hg
    simp only [allocateGroupLoopRe, allocateGroupLoop]
    rw [H (cloneGroup st.grp) key hg (hk key (List.mem_cons_self _ _))]
    cases hc : allocateGroupAt a2 (cloneGroup st.grp) key sr with
    | error er => rfl
    | ok res =>
      obtain ⟨g1, f1, p1⟩ := res
      simp only
      exact ih _ (fun k hk1 => hk k (List.mem_cons_of_mem _ hk1))
        (hg.trans (sameStatic_usedGroups st.grp _))

/-- On a group without operator, the body of `allocateGroup` with the compiled
patterns is the body of `allocateGroup`, when the two methods agree on the
groups without operator. -/
theorem allocateGroupBodyRe_lift (a1 a2 : GrpAllocator → AllocResult)
    (H : ∀ g, PlainGroup g → a1 g = a2 g) (grp : GrpAllocator) (hb : PlainGroup grp) :
    allocateGroupBodyRe goRegexp a1 grp = allocateGroupBody a2 grp := by
  unfold allocateGroupBodyRe allocateGroupBody
  split_ifs with h0
  · rfl
  · simp only
    rw [findSubGroupsRe_plain _ hb.reqBase]
    simp only
    have hst : SameStatic grp { grp with IsReqSubGrp :=
        (findSubGroups grp.ReqBaseGroupName grp.GrpRequiredResource).2 } :=
      ⟨rfl, rfl, rfl, rfl, rfl, rfl, rfl, rfl, rfl, rfl, rfl⟩
    have hloop := allocateGroupLoopRe_lift a1 a2 grp
      (findSubGroups grp.ReqBaseGroupName grp.GrpRequiredResource).1 (by
        intro g location hg hloc
        have hbg : PlainGroup g := PlainGroup.of_static hg hb
        have hlocB : Plain location := by
          obtain ⟨lk, hlk, rfl⟩ := List.mem_map.1 hloc
          exact (hb.alloc lk hlk).1
        apply allocateGroupAtRe_lift a1 a2 g location _
          (plain_append _ _ (plain_append _ _ hbg.allocBase plain_slash) hlocB)
        intro g2 name idx hg2 hidx
        apply H
        have hbg2 : PlainGroup g2 := PlainGroup.of_static hg2 hbg
        have hs2 : SameStatic grp g2 := hg.trans hg2
        have hloc2 : location ∈ g2.GrpAllocResource.keys := by
          rw [hs2.grpAllocResource]
          exact hloc
        have := PlainGroup.createSubGroup hbg2 location name idx hloc2 (by
          rw [hs2.reqBaseGroupName, hs2.grpRequiredResource]
          exact hidx)
        rw [hs2.reqBaseGroupName, hs2.grpRequiredResource, hs2.allocBaseGroupPrefix,
          hs2.grpAllocResource] at this
        rw [hg.allocBaseGroupPrefix, hg.grpAllocResource]
        exact this)
      (SortedStringKeys grp.GrpAllocResource)
      ⟨{ grp with IsReqSubGrp :=
          (findSubGroups grp.ReqBaseGroupName grp.GrpRequiredResource).2 }, false, "",
        { grp with IsReqSubGrp :=
          (findSubGroups grp.ReqBaseGroupName grp.GrpRequiredResource).2 }, false, "", []⟩
      (fun key hk => (mem_SortedStringKeys _ key).1 hk) hst
    rw [hloop]
    try rfl

/-- On a group without operator, the search with the compiled patterns is
`allocateGroup`. -/
theorem allocateGroupRe_plain : ∀ (fuel : Nat) (grp : GrpAllocator), PlainGroup grp →
    allocateGroupRe goRegexp fuel grp = allocateGroup fuel grp := by
  intro fuel
  induction fuel with
  | zero => intro grp _; rfl
  | succ f ih =>
    intro grp hb
    simp only [allocateGroupRe, allocateGroup]
    exact allocateGroupBodyRe_lift _ _ ih grp hb

/-! The drivers on names without operator. -/

theorem splitLastSlash_chars : ∀ (l a b : List Char), splitLastSlash l = some (a, b) →
    (∀ c ∈ a, c ∈ l) ∧ (∀ c ∈ b, c ∈ l) := by
  intro l
  induction l with
  | nil => intro a b h; cases h
  | cons c t ih =>
    intro a b h
    simp only [splitLastSlash] at h
    cases ht : splitLastSlash t with
    | some ab =>
      obtain ⟨a1, b1⟩ := ab
      rw [ht] at h
      simp only [Option.some.injEq, Prod.mk.injEq] at h
      obtain ⟨rfl, rfl⟩ := h
      obtain ⟨i1, i2⟩ := ih a1 b1 ht
      constructor
      · intro x hx
        rcases List.mem_cons.1 hx with rfl | hx
        · exact List.mem_cons_self _ _
        · exact List.mem_cons_of_mem _ (i1 x hx)
      · intro x hx
        exact List.mem_cons_of_mem _ (i2 x hx)
    | none =>
      rw [ht] at h
      simp only at h
      split_ifs at h
      simp only [Option.some.injEq, Prod.mk.injEq] at h
      obtain ⟨rfl, rfl⟩ := h
      exact ⟨fun x hx => (by cases hx), fun x hx => List.mem_cons_of_mem _ hx⟩

theorem matchPrefixHere_chars (s : List Char) (a b : String)
    (h : matchPrefixHere s = some (a, b)) :
    (∀ c ∈ a.data, c ∈ s) ∧ (∀ c ∈ b.data, c ∈ s) := by
  unfold matchPrefixHere at h
  cases hs : splitLastSlash (s.takeWhile isNonSpace) with
  | none => rw [hs] at h; cases h
  | some ab =>
    obtain ⟨a1, b1⟩ := ab
    rw [hs] at h
    simp only [Option.some.injEq, Prod.mk.injEq] at h
    obtain ⟨rfl, rfl⟩ := h
    obtain ⟨i1, i2⟩ := splitLastSlash_chars _ _ _ hs
    exact ⟨fun x hx => (List.takeWhile_sublist isNonSpace).subset (i1 x hx),
      fun x hx => (List.takeWhile_sublist isNonSpace).subset (i2 x hx)⟩

theorem matchPrefixFrom_chars (a b : String) :
    ∀ (s : List Char), matchPrefixFrom s = some (a, b) →
      (∀ c ∈ a.data, c ∈ s) ∧ (∀ c ∈ b.data, c ∈ s) := by
  intro s
  induction s with
  | nil => intro h; cases h
  | cons c u ih =>
    intro h
    simp only [matchPrefixFrom] at h
    cases hh : matchPrefixHere (c :: u) with
    | some r =>
      rw [hh] at h
      simp only [Option.some.injEq] at h
      subst h
      exact matchPrefixHere_chars _ _ _ hh
    | none =>
      rw [hh] at h
      obtain ⟨i1, i2⟩ := ih h
      exact ⟨fun x hx => List.mem_cons_of_mem _ (i1 x hx),
        fun x hx => List.mem_cons_of_mem _ (i2 x hx)⟩

/-- The two parts of a group prefix without operator hold no operator. -/
theorem matchPrefix_plain (s a b : String) (h : matchPrefix s = some (a, b)) (hs : Plain s) :
    Plain a ∧ Plain b := by
  obtain ⟨i1, i2⟩ := matchPrefixFrom_chars a b s.data h
  exact ⟨plain_of_subset a s i1 hs, plain_of_subset b s i2 hs⟩

theorem collectAllocatable_locations (env : Env) (grpName : String) :
    ∀ (l : GoMap Int) (acc : GoMap (GoMap String) × GoMap Int),
      (∀ lk ∈ acc.1, lk.1 = grpName) →
      ∀ lk ∈ (collectAllocatable env grpName l acc).1, lk.1 = grpName := by
  intro l
  induction l with
  | nil => intro acc h; exact h
  | cons p t ih =>
    obtain ⟨k, v⟩ := p
    intro acc h
    obtain ⟨allocName, alloc⟩ := acc
    simp only [collectAllocatable]
    split_ifs
    · apply ih
      intro lk hlk
      simp only [AssignMap2] at hlk
      rcases GoMap.mem_set hlk with rfl | hlk
      · rfl
      · exact h lk hlk
    · exact ih _ h

/-- The names that the allocator reads in a container, in a node and in the
environment hold no operator of the regular expressions: the group prefix, the
keys of the requests and the keys of the allocatable quantities that are not
prechecked. -/
structure PlainNames (env : Env) (requests allocatable : GoMap Int) : Prop where
  groupPrefix : Plain env.DeviceGroupPrefix
  requests : ∀ kv ∈ requests, env.PrecheckedResource kv.1 = false → Plain kv.1
  allocatable : ∀ kv ∈ allocatable, env.PrecheckedResource kv.1 = false → Plain kv.1

/-- On names without operator, `containerFitsGroupConstraints` with the
compiled patterns is `containerFitsGroupConstraints` with the patterns that
match the bases themselves. -/
theorem containerFitsRe_plain (env : Env) (contName : String) (contReq : ContainerInfo)
    (initContainer : Bool) (allocatable : GoMap Int) (allocScorer : GoMap ResourceScoreFunc)
    (podResource nodeResource : GoMap Int) (usedGroups : GoMap Bool)
    (bPreferUsed bSetAllocateFrom : Bool)
    (hp : PlainNames env contReq.DevRequests allocatable) :
    containerFitsGroupConstraintsRe goRegexp env contName contReq initContainer allocatable
      allocScorer podResource nodeResource usedGroups bPreferUsed bSetAllocateFrom =
    containerFitsGroupConstraints env contName contReq initContainer allocatable
      allocScorer podResource nodeResource usedGroups bPreferUsed bSetAllocateFrom := by
  have hreq := (collectRequests_spec env contReq Plain contReq.DevRequests ([], [], [])
    hp.requests (Sub1Vals_nil _)).1
  unfold containerFitsGroupConstraintsRe containerFitsGroupConstraints
  generalize collectRequests env contReq contReq.DevRequests ([], [], []) = cr at hreq ⊢
  obtain ⟨reqName, req, reqScorer⟩ := cr
  simp only at hreq ⊢
  cases hpre : matchPrefix env.DeviceGroupPrefix with
  | none => rfl
  | some gpn =>
    obtain ⟨grpPrefix, grpName⟩ := gpn
    obtain ⟨hgp, hgn⟩ := matchPrefix_plain _ _ _ hpre hp.groupPrefix
    have halloc := (collectAllocatable_spec env grpName Plain allocatable ([], [])
      hp.allocatable (fun im him => by cases him) (fun k hk => by cases hk)).1
    have hloc := collectAllocatable_locations env grpName allocatable ([], [])
      (fun lk hlk => by cases hlk)
    simp only
    generalize collectAllocatable env grpName allocatable ([], []) = ca at halloc hloc ⊢
    obtain ⟨allocName, alloc⟩ := ca
    simp only at halloc hloc ⊢
    have key := allocateGroupRe_plain (searchFuel reqName)
      { ContName := contName
        InitContainer := initContainer
        PreferUsed := bPreferUsed
        RequiredResource := req
        ReqScorer := reqScorer
        AllocResource := alloc
        AllocScorer := allocScorer
        UsedGroups := usedGroups
        GrpRequiredResource := reqName
        IsReqSubGrp := []
        GrpAllocResource := allocName
        IsAllocSubGrp := []
        ReqBaseGroupName := env.DeviceGroupPrefix
        AllocBaseGroupPrefix := grpPrefix
        Score := 0
        PodResource := podResource
        NodeResource := nodeResource
        AllocateFrom := [] }
      ⟨hp.groupPrefix, hgp, hreq, fun lk hlk => ⟨by rw [hloc lk hlk]; exact hgn,
        halloc lk hlk⟩⟩
    rw [key]

/-- The function returns the container with the requests it had. -/
theorem containerFits_devRequests (env : Env) (contName : String) (contReq : ContainerInfo)
    (initContainer : Bool) (allocatable : GoMap Int) (allocScorer : GoMap ResourceScoreFunc)
    (podResource nodeResource : GoMap Int) (usedGroups : GoMap Bool)
    (bPreferUsed bSetAllocateFrom : Bool) (r : ContainerFit)
    (hrun : containerFitsGroupConstraints env contName contReq initContainer allocatable
      allocScorer podResource nodeResource usedGroups bPreferUsed bSetAllocateFrom = .ok r) :
    r.contReq.DevRequests = contReq.DevRequests := by
  unfold containerFitsGroupConstraints at hrun
  generalize collectRequests env contReq contReq.DevRequests ([], [], []) = cr at hrun
  obtain ⟨reqName, req, reqScorer⟩ := cr
  simp only at hrun
  split at hrun
  · cases hrun
  · generalize collectAllocatable env _ allocatable ([], []) = ca at hrun
    obtain ⟨allocName, alloc⟩ := ca
    simp only at hrun
    split at hrun
    · split at hrun
      · cases hrun
      · simp only [Except.ok.injEq] at hrun
        subst hrun
        simp only
        split_ifs <;> rfl
    · split at hrun
      · split at hrun
        · cases hrun
        · simp only [Except.ok.injEq] at hrun
          subst hrun
          rfl
      · simp only [Except.ok.injEq] at hrun
        subst hrun
        rfl

/-- The names of the containers of a pod hold no operator. -/
def PlainContainers (env : Env) (conts : GoMap ContainerInfo) : Prop :=
  ∀ kv ∈ conts, ∀ x ∈ kv.2.DevRequests, env.PrecheckedResource x.1 = false → Plain x.1

theorem podFitsLoopRe_plain (env : Env) (n : NodeInfo) (scorer : GoMap ResourceScoreFunc)
    (i a : Bool) (hp : Plain env.DeviceGroupPrefix)
    (hn : ∀ kv ∈ n.Allocatable, env.PrecheckedResource kv.1 = false → Plain kv.1) :
    ∀ (names : List String) (st : PodFitState), PlainContainers env st.containers →
      podFitsLoopRe goRegexp env n scorer i a names st = podFitsLoop env n scorer i a names st ∧
      ∀ st2, podFitsLoop env n scorer i a names st = .ok st2 →
        PlainContainers env st2.containers := by
  intro names
  induction names with
  | nil =>
    intro st hst
    refine ⟨rfl, ?_⟩
    intro st2 h
    simp only [podFitsLoop, Except.ok.injEq] at h
    subst h
    exact hst
  | cons name rest ih =>
    intro st hst
    have hcopy : ∀ x ∈ (st.containers.getD name ContainerInfo.zero).DevRequests,
        env.PrecheckedResource x.1 = false → Plain x.1 := by
      rcases GoMap.getD_mem_or st.containers name ContainerInfo.zero with e | e
      · rw [e]
        intro x hx
        cases hx
      · exact hst _ e
    simp only [podFitsLoopRe, podFitsLoop]
    rw [containerFitsRe_plain env name _ i n.Allocatable scorer _ _ _ true a ⟨hp, hcopy, hn⟩]
    cases hc : containerFitsGroupConstraints env name
        (st.containers.getD name ContainerInfo.zero) i n.Allocatable scorer st.podResource
        st.nodeResource st.usedGroups true a with
    | error er => exact ⟨rfl, fun st2 h => by cases h⟩
    | ok r =>
      simp only
      apply ih
      intro kv hkv
      simp only at hkv
      rcases GoMap.mem_set hkv with rfl | hkv
      · simp only
        rw [containerFits_devRequests _ _ _ _ _ _ _ _ _ _ _ _ hc]
        exact hcopy
      · exact hst kv hkv

/-- On names without operator, `PodFitsGroupConstraints` with the compiled
patterns is `PodFitsGroupConstraints` with the patterns that match the bases
themselves. -/
theorem podFitsRe_plain (env : Env) (n : NodeInfo) (spec : PodInfo) (allocating : Bool)
    (hp : Plain env.DeviceGroupPrefix)
    (hn : ∀ kv ∈ n.Allocatable, env.PrecheckedResource kv.1 = false → Plain kv.1)
    (hR : PlainContainers env spec.RunningContainers)
    (hI : PlainContainers env spec.InitContainers) :
    PodFitsGroupConstraintsRe goRegexp env n spec allocating =
      PodFitsGroupConstraints env n spec allocating := by
  unfold PodFitsGroupConstraintsRe PodFitsGroupConstraints
  simp only
  rw [(podFitsLoopRe_plain env n _ false allocating hp hn _
    ⟨spec.RunningContainers, [], initNodeResource n, [], true, [], 0⟩ hR).1]
  cases h1 : podFitsLoop env n (setScoreFunc env n) false allocating
      (SortedStringKeys spec.RunningContainers)
      ⟨spec.RunningContainers, [], initNodeResource n, [], true, [], 0⟩ with
  | error er => rfl
  | ok st1 =>
    simp only
    rw [(podFitsLoopRe_plain env n _ true allocating hp hn _
      ⟨spec.InitContainers, st1.podResource, st1.nodeResource, st1.usedGroups,
        st1.found, st1.predicateFails, st1.totalScore⟩ hI).1]

/-! ## The termination of the search on names without operator -/

/-- On a group whose names hold no operator of the regular expressions, the
search with the compiled patterns returns within the depth `searchFuel` of its
requirement keys: with this depth or more, the result is the same and it is not
the exhaustion of the depth. Each recursive call works on a subgroup whose base
is strictly longer than the base of the group and strictly shorter than each
requirement key of the subgroup. -/
theorem allocateGroupRe_terminates (grp : GrpAllocator) (hb : PlainGroup grp) :
    (∀ fuel, searchFuel grp.GrpRequiredResource ≤ fuel →
      allocateGroupRe goRegexp fuel grp =
        allocateGroupRe goRegexp (searchFuel grp.GrpRequiredResource) grp ∧
      allocateGroupRe goRegexp fuel grp ≠ .error Fault.outOfFuel) ∧
    (∀ name idx kv,
      kv ∈ ((findSubGroups grp.ReqBaseGroupName grp.GrpRequiredResource).1.getD
        name []).getD idx [] →
      grp.ReqBaseGroupName.length < (grp.ReqBaseGroupName ++ "/" ++ name ++ "/" ++ idx).length ∧
      (grp.ReqBaseGroupName ++ "/" ++ name ++ "/" ++ idx).length < kv.2.length) := by
  have hw := withinDepth_searchFuel grp
  have e : searchFuel grp.GrpRequiredResource - 1 + 1 = searchFuel grp.GrpRequiredResource := by
    simp [searchFuel]
  refine ⟨?_, ?_⟩
  · intro fuel hf
    obtain ⟨f2, rfl⟩ : ∃ f2, fuel = f2 + 1 := ⟨fuel - 1, by
      have : 1 ≤ searchFuel grp.GrpRequiredResource := by simp [searchFuel]
      omega⟩
    obtain ⟨a, b⟩ := allocateGroup_enough_fuel _ grp hw f2 (by omega)
    rw [e] at a
    rw [allocateGroupRe_plain _ grp hb, allocateGroupRe_plain _ grp hb]
    exact ⟨a, b⟩
  · intro name idx kv hkv
    have hp := (findSubGroups_parsed grp.ReqBaseGroupName grp.GrpRequiredResource).1
      name idx kv.1 kv.2 hkv
    have h1 := matchSubGroup_length _ _ _ _ _ hp
    refine ⟨?_, by omega⟩
    simp only [String.length_append]
    have : "/".length = 1 := rfl
    omega

/-- On names without operator, `containerFitsGroupConstraints` with the
compiled patterns gives the search a depth that it does not exhaust. -/
theorem containerFitsRe_fuel (env : Env) (contName : String) (contReq : ContainerInfo)
    (initContainer : Bool) (allocatable : GoMap Int) (allocScorer : GoMap ResourceScoreFunc)
    (podResource nodeResource : GoMap Int) (usedGroups : GoMap Bool)
    (bPreferUsed bSetAllocateFrom : Bool)
    (hp : PlainNames env contReq.DevRequests allocatable) :
    containerFitsGroupConstraintsRe goRegexp env contName contReq initContainer allocatable
      allocScorer podResource nodeResource usedGroups bPreferUsed bSetAllocateFrom ≠
        .error Fault.outOfFuel := by
  rw [containerFitsRe_plain env contName contReq initContainer allocatable allocScorer
    podResource nodeResource usedGroups bPreferUsed bSetAllocateFrom hp]
  exact containerFits_fuel _ _ _ _ _ _ _ _ _ _ _

/-! ## A group name with an alternation bar -/

/-- The search of a group with one requirement and one candidate location
whose keys both belong to a subgroup: if the method does not return on the
subgroup, the search does not return. -/
theorem allocateGroupBodyRe_single (compile : SubGroupCompiler)
    (f : GrpAllocator → AllocResult) (g : GrpAllocator) (k1 e k2 k3 a : String)
    (m1 m2 m3 n1 n2 n3 : String) (er : Fault) (re1 re2 : SubGroupMatcher)
    (hreq : g.GrpRequiredResource = [(k1, e)])
    (halloc : g.GrpAllocResource = [(k2, [(k3, a)])])
    (hc1 : compile g.ReqBaseGroupName = .ok re1)
    (hm : re1 e = some (m1, m2, m3))
    (hc2 : compile (g.AllocBaseGroupPrefix ++ "/" ++ k2) = .ok re2)
    (hn : re2 a = some (n1, n2, n3))
    (hf : f (createSubGroup { g with IsReqSubGrp := [(k1, true)], IsAllocSubGrp := [(k3, true)] }
      k2 [(m1, [(m2, [(m3, e)])])] [(n1, [(n2, [(n3, a)])])] m1 m2) = .error er) :
    allocateGroupBodyRe compile f g = .error er := by
  have hsr : findSubGroupsRe compile g.ReqBaseGroupName [(k1, e)] =
      .ok ([(m1, [(m2, [(m3, e)])])], [(k1, true)]) := by
    simp [findSubGroupsRe, hc1, findSubGroupsLoopRe, hm, AssignMap3, AssignMap2, GoMap.set,
      GoMap.getD, GoMap.get?]
  have hsa : findSubGroupsRe compile (g.AllocBaseGroupPrefix ++ "/" ++ k2) [(k3, a)] =
      .ok ([(n1, [(n2, [(n3, a)])])], [(k3, true)]) := by
    simp [findSubGroupsRe, hc2, findSubGroupsLoopRe, hn, AssignMap3, AssignMap2, GoMap.set,
      GoMap.getD, GoMap.get?]
  have hk : SortedStringKeys ([(k2, [(k3, a)])] : GoMap (GoMap String)) = [k2] := by
    simp [SortedStringKeys, GoMap.keys, insertKey]
  have hk1 : SortedStringKeys ([(m1, [(m2, [(m3, e)])])] : GoMap (GoMap (GoMap String))) =
      [m1] := by
    simp [SortedStringKeys, GoMap.keys, insertKey]
  have hk2 : SortedStringKeys ([(m2, [(m3, e)])] : GoMap (GoMap String)) = [m2] := by
    simp [SortedStringKeys, GoMap.keys, insertKey]
  unfold allocateGroupBodyRe
  rw [hreq, hsr]
  simp only [List.length_singleton, one_ne_zero, if_false, halloc, hk, allocateGroupLoopRe,
    cloneGroup, allocateGroupAtRe]
  have e1 : GoMap.getD ([(k2, [(k3, a)])] : GoMap (GoMap String)) k2 [] = [(k3, a)] := by
    simp [GoMap.getD, GoMap.get?]
  rw [e1, hsa]
  simp only [resourceAvailable, halloc, e1, hreq, resourceAvailableLoop]
  have e2 : GoMap.getD ([(k1, true)] : GoMap Bool) k1 false = true := by
    simp [GoMap.getD, GoMap.get?]
  simp only [e2, Bool.not_true, Bool.false_eq_true, if_false, allocateSubGroups, hk1,
    allocateSubGroupsOuter]
  have e3 : GoMap.getD ([(m1, [(m2, [(m3, e)])])] : GoMap (GoMap (GoMap String))) m1 [] =
      [(m2, [(m3, e)])] := by
    simp [GoMap.getD, GoMap.get?]
  rw [e3, hk2]
  simp only [allocateSubGroupsInner]
  rw [hreq, halloc] at hf
  rw [hf]

theorem splitBars_append_bar : ∀ (p t : List Char), '|' ∉ p →
    splitBars (p ++ '|' :: t) = p :: splitBars t := by
  intro p
  induction p with
  | nil => intro t _; simp [splitBars]
  | cons c p ih =>
    intro t h
    simp only [List.mem_cons, not_or] at h
    have hc : ¬ c = '|' := fun e => h.1 e.symm
    have e : (c :: p) ++ '|' :: t = c :: (p ++ '|' :: t) := rfl
    rw [e]
    simp only [splitBars, hc, if_false]
    rw [ih t h.2]

/-- The key of a requirement and of an allocatable quantity whose group name
holds a bar. -/
def keyBar : String := "r/grp/a|b/0/cards"

/-- The bases whose first alternative is `r/grp/a` and that hold no other
operator. -/
def StartsWithAlt (s : String) : Prop :=
  ∃ t, s.data = "r/grp/a".data ++ '|' :: t ∧ ∀ c ∈ t, isMetaChar c = false

theorem startsWithAlt_append (s t : String) (h : StartsWithAlt s) (ht : Plain t) :
    StartsWithAlt (s ++ t) := by
  obtain ⟨u, hu, hp⟩ := h
  refine ⟨u ++ t.data, by rw [String.data_append, hu]; simp, ?_⟩
  intro c hc
  rcases List.mem_append.1 hc with hc | hc
  · exact hp c hc
  · exact ht c hc

theorem plain_empty : Plain "" := by
  unfold Plain
  decide

/-- A base whose first alternative is `r/grp/a` compiles, and its pattern
matches the key at its head, without any group. -/
theorem goRegexp_bar (s : String) (h : StartsWithAlt s) :
    ∃ re, goRegexp s = .ok re ∧ re keyBar = some ("", "", "") := by
  obtain ⟨t, ht, hp⟩ := h
  have hany : (s.data).any (fun c => isMetaChar c && !isCoveredOp c) = false := by
    rw [ht, List.any_append]
    have h1 : ("r/grp/a".data).any (fun c => isMetaChar c && !isCoveredOp c) = false := by
      decide
    have h2 : t.any (fun c => isMetaChar c && !isCoveredOp c) = false := by
      rw [List.any_eq_false]
      intro c hc
      simp [hp c hc]
    have h3 : (isMetaChar '|' && !isCoveredOp '|') = false := by decide
    rw [h1, List.any_cons, h3, h2]
    rfl
  have hbar : '|' ∉ t := fun hm => not_bar_of_plain _ (hp _ hm) rfl
  have hcomp : compileBase s.data =
      .ok ["r/grp/a".data.map litItem, t.map litItem] := by
    unfold compileBase
    rw [hany, ht, splitBars_append_bar _ _ (by decide), splitBars_noBar t hbar]
    simp only [Bool.false_eq_true, if_false, parseAlts,
      (parseFrom_plain "r/grp/a".data (by decide)).1, (parseFrom_plain t hp).1]
  refine ⟨fun x => matchAltsFrom ["r/grp/a".data.map litItem, t.map litItem] x.data, ?_, ?_⟩
  · unfold goRegexp
    rw [hcomp]
  · have hk : keyBar.data = 'r' :: "/grp/a|b/0/cards".data := rfl
    simp only [hk, matchAltsFrom, matchAltsHere, matchItems_lit]
    have hst : stripLit "r/grp/a".data ('r' :: "/grp/a|b/0/cards".data) =
        some "|b/0/cards".data := by decide
    rw [hst]
    rfl

/-- The groups on which the search does not return: one requirement and one
allocatable quantity, of key `keyBar`, under bases whose first alternative is
`r/grp/a`. -/
def Stuck (g : GrpAllocator) : Prop :=
  (∃ k1, g.GrpRequiredResource = [(k1, keyBar)]) ∧
  (∃ k2 k3, Plain k2 ∧ g.GrpAllocResource = [(k2, [(k3, keyBar)])]) ∧
  StartsWithAlt g.ReqBaseGroupName ∧ StartsWithAlt g.AllocBaseGroupPrefix

theorem allocateGroupRe_stuck : ∀ (fuel : Nat) (g : GrpAllocator), Stuck g →
    allocateGroupRe goRegexp fuel g = .error Fault.outOfFuel := by
  intro fuel
  induction fuel with
  | zero => intro g _; rfl
  | succ f ih =>
    intro g hg
    obtain ⟨⟨k1, h1⟩, ⟨k2, k3, hk2, h2⟩, h3, h4⟩ := hg
    obtain ⟨re1, hc1, hm1⟩ := goRegexp_bar _ h3
    obtain ⟨re2, hc2, hm2⟩ := goRegexp_bar _
      (startsWithAlt_append _ _ (startsWithAlt_append _ _ h4 plain_slash) hk2)
    simp only [allocateGroupRe]
    apply allocateGroupBodyRe_single goRegexp (allocateGroupRe goRegexp f) g
      k1 keyBar k2 k3 keyBar "" "" "" "" "" "" Fault.outOfFuel re1 re2 h1 h2 hc1 hm1 hc2 hm2
    apply ih
    refine ⟨⟨"", ?_⟩, ⟨"", "", plain_empty, ?_⟩, ?_, ?_⟩
    · simp [createSubGroup, GoMap.getD, GoMap.get?]
    · simp [createSubGroup, GoMap.getD, GoMap.get?]
    · simp only [createSubGroup]
      exact startsWithAlt_append _ _ (startsWithAlt_append _ _ (startsWithAlt_append _ _
        (startsWithAlt_append _ _ h3 plain_slash) plain_empty) plain_slash) plain_empty
    · simp only [createSubGroup]
      exact startsWithAlt_append _ _ (startsWithAlt_append _ _ (startsWithAlt_append _ _
        (startsWithAlt_append _ _ h4 plain_slash) hk2) plain_slash) plain_empty

/-- A node with 4 cards under a group whose name holds a bar. -/
def nodeBar : NodeInfo := ⟨[("r/grp/a|b/0/cards", 4)], [], []⟩

/-- A container that requests one card under the group name with a bar. -/
def contBar : ContainerInfo := ⟨[("r/grp/a|b/0/cards", 1)], none, []⟩

/-- The group that `containerFitsGroupConstraints` builds for `contBar` on
`nodeBar`. -/
def groupBar : GrpAllocator :=
  topLevelGroup scenarioEnv "c" contBar false nodeBar.Allocatable
    (setScoreFunc scenarioEnv nodeBar) [] [] [] true "r" "grp"

theorem groupBar_stuck (fuel : Nat) :
    allocateGroupRe goRegexp fuel groupBar = .error Fault.outOfFuel := by
  have hreq : groupBar.GrpRequiredResource = [(keyBar, keyBar)] := by decide
  have halloc : groupBar.GrpAllocResource = [("grp", [(keyBar, keyBar)])] := by decide
  cases fuel with
  | zero => rfl
  | succ f =>
    simp only [allocateGroupRe]
    apply allocateGroupBodyRe_single goRegexp (allocateGroupRe goRegexp f)
      groupBar keyBar keyBar "grp" keyBar keyBar "a|b" "0" "cards" "a|b" "0" "cards"
      Fault.outOfFuel (matchSubGroup "r/grp") (matchSubGroup "r/grp") hreq halloc
      (goRegexp_plain _ (by unfold Plain; decide)) (by decide)
      (goRegexp_plain _ (by unfold Plain; decide)) (by decide)
    apply allocateGroupRe_stuck
    refine ⟨⟨"cards", ?_⟩, ⟨"0", "cards", by unfold Plain; decide, ?_⟩, ?_, ?_⟩
    · simp [createSubGroup, GoMap.getD, GoMap.get?]
    · simp [createSubGroup, GoMap.getD, GoMap.get?]
    · exact ⟨"b/0".data, by decide, by decide⟩
    · exact ⟨"b".data, by decide, by decide⟩

/-! ## A group name that is a repetition operator -/

/-- The item of the pattern `/*`: any number of `/`. -/
def starSlash : ReItem := ⟨some '/', ReRep.star, false⟩

/-- The characters of the group prefix `r/grp`. -/
def grpChars : List Char := ['r', '/', 'g', 'r', 'p']

/-- The text `/*` written `n` times. -/
def starTail : Nat → List Char
  | 0 => []
  | n + 1 => '/' :: '*' :: starTail n

theorem starTail_append : ∀ (n : Nat), starTail n ++ ['/', '*'] = starTail (n + 1) := by
  intro n
  induction n with
  | zero => rfl
  | succ n ih =>
    show '/' :: '*' :: (starTail n ++ ['/', '*']) = '/' :: '*' :: starTail (n + 1)
    rw [ih]

theorem parseFrom_starTail : ∀ (n : Nat),
    parseFrom (Pending.rep (some '/') ReRep.star) (starTail n) =
      .ok (List.replicate (n + 1) starSlash) := by
  intro n
  induction n with
  | zero => rfl
  | succ n ih =>
    have h1 : ¬ ('/' = '?') := by decide
    have h2 : repOf '/' = none := by decide
    have h3 : atomOf '/' = some '/' := by decide
    have h4 : repOf '*' = some ReRep.star := by decide
    simp only [starTail, parseFrom, h1, if_false, h2, h3, h4, ih, pushItem]
    rfl

theorem parseFrom_starBase (n : Nat) :
    parseFrom Pending.nothing (grpChars ++ starTail n) =
      .ok (grpChars.map litItem ++ List.replicate n starSlash) := by
  cases n with
  | zero => exact (parseFrom_plain grpChars (by decide)).1
  | succ n =>
    have h2 : repOf '/' = none := by decide
    have h3 : atomOf '/' = some '/' := by decide
    have h4 : repOf '*' = some ReRep.star := by decide
    have h5 : repOf 'r' = none := by decide
    have h6 : atomOf 'r' = some 'r' := by decide
    have h7 : repOf 'g' = none := by decide
    have h8 : atomOf 'g' = some 'g' := by decide
    have h9 : repOf 'p' = none := by decide
    have h10 : atomOf 'p' = some 'p' := by decide
    have e : grpChars ++ starTail (n + 1) =
        'r' :: '/' :: 'g' :: 'r' :: 'p' :: '/' :: '*' :: starTail n := rfl
    rw [e]
    simp only [parseFrom, h2, h3, h4, h5, h6, h7, h8, h9, h10, parseFrom_starTail, pushItem]
    rfl

theorem starTail_any : ∀ (n : Nat),
    (starTail n).any (fun c => isMetaChar c && !isCoveredOp c) = false := by
  intro n
  induction n with
  | zero => rfl
  | succ n ih =>
    simp only [starTail, List.any_cons, ih]
    decide

theorem starTail_noBar : ∀ (n : Nat), '|' ∉ starTail n := by
  intro n
  induction n with
  | zero => simp [starTail]
  | succ n ih =>
    simp only [starTail, List.mem_cons, not_or]
    exact ⟨by decide, by decide, ih⟩

theorem compileBase_starBase (n : Nat) :
    compileBase (grpChars ++ starTail n) =
      .ok [grpChars.map litItem ++ List.replicate n starSlash] := by
  have hany : (grpChars ++ starTail n).any (fun c => isMetaChar c && !isCoveredOp c) =
      false := by
    rw [List.any_append, starTail_any]
    decide
  have hbar : '|' ∉ grpChars ++ starTail n := by
    rw [List.mem_append, not_or]
    exact ⟨by decide, starTail_noBar n⟩
  unfold compileBase
  rw [hany, splitBars_noBar _ hbar]
  simp only [Bool.false_eq_true, if_false, parseAlts]
  rw [parseFrom_starBase]

theorem matchItems_append {R : Type} : ∀ (l1 l2 : List ReItem) (s : List Char)
    (k : List Char → Option R),
    matchItems (l1 ++ l2) s k = matchItems l1 s (fun s1 => matchItems l2 s1 k) := by
  intro l1
  induction l1 with
  | nil => intro l2 s k; rfl
  | cons it rest ih =>
    intro l2 s k
    simp only [List.cons_append, matchItems]
    congr 1
    funext s1
    exact ih l2 s1 k

/-- Before a character that is not `/`, the items `/*` take nothing. -/
theorem matchItems_stars_skip {R : Type} (c : Char) (u : List Char) (hc : ¬ '/' = c)
    (k : List Char → Option R) :
    ∀ (n : Nat), matchItems (List.replicate n starSlash) (c :: u) k = k (c :: u) := by
  intro n
  induction n with
  | zero => rfl
  | succ n ih =>
    simp only [List.replicate_succ, matchItems, matchItem, starSlash, matchStar, atomOk,
      Bool.not_false, if_true, hc, decide_False, Bool.false_eq_true, if_false]
    exact ih

/-- Before a `/` that the rest of the pattern needs, the items `/*` give back
what they took. -/
theorem matchItems_stars_back {R : Type} (c : Char) (u : List Char) (hc : ¬ '/' = c)
    (k : List Char → Option R) (hk : k (c :: u) = none) :
    ∀ (n : Nat), matchItems (List.replicate n starSlash) ('/' :: c :: u) k =
      k ('/' :: c :: u) := by
  intro n
  induction n with
  | zero => rfl
  | succ n ih =>
    simp only [List.replicate_succ, matchItems, matchItem, starSlash, matchStar, atomOk,
      Bool.not_false, if_true, decide_True, hc, decide_False, Bool.false_eq_true, if_false]
    have e := matchItems_stars_skip c u hc k n
    simp only [starSlash] at e ih
    rw [e, hk]
    exact ih

/-- The key of a requirement and of an allocatable quantity whose group name
and index are `*`. -/
def keyStar : String := "r/grp/*/*/cards"

/-- The bases `r/grp/*/*/.../*`. -/
def StarBase (s : String) : Prop := ∃ n, s.data = grpChars ++ starTail n

theorem starBase_append (s : String) (h : StarBase s) : StarBase (s ++ "/" ++ "*") := by
  obtain ⟨n, hn⟩ := h
  refine ⟨n + 1, ?_⟩
  rw [String.data_append, String.data_append, hn, ← starTail_append]
  simp

/-- A base `r/grp/*/.../*` compiles, and its pattern matches the key with the
groups `*`, `*` and `cards`: the repetitions `/*` of the base take nothing. -/
theorem goRegexp_star (s : String) (h : StarBase s) :
    ∃ re, goRegexp s = .ok re ∧ re keyStar = some ("*", "*", "cards") := by
  obtain ⟨n, hn⟩ := h
  refine ⟨fun x => matchAltsFrom [grpChars.map litItem ++ List.replicate n starSlash]
    x.data, ?_, ?_⟩
  · unfold goRegexp
    rw [hn, compileBase_starBase]
  · have hk : keyStar.data = 'r' :: "/grp/*/*/cards".data := rfl
    simp only [hk, matchAltsFrom, matchAltsHere, matchItems_append, matchItems_lit]
    have hst : stripLit grpChars ('r' :: "/grp/*/*/cards".data) =
        some ('/' :: '*' :: "/*/cards".data) := by decide
    rw [hst]
    simp only [Option.some_bind]
    rw [matchItems_stars_back '*' "/*/cards".data (by decide) matchGroups (by decide) n]
    have hg : matchGroups ('/' :: '*' :: "/*/cards".data) = some ("*", "*", "cards") := by
      decide
    rw [hg]

/-- The groups on which the search does not return: one requirement and one
allocatable quantity, of key `keyStar`, in the location `*`, under bases
`r/grp/*/.../*`. -/
def StuckStar (g : GrpAllocator) : Prop :=
  (∃ k1, g.GrpRequiredResource = [(k1, keyStar)]) ∧
  (∃ k3, g.GrpAllocResource = [("*", [(k3, keyStar)])]) ∧
  StarBase g.ReqBaseGroupName ∧ StarBase g.AllocBaseGroupPrefix

theorem allocateGroupRe_stuckStar : ∀ (fuel : Nat) (g : GrpAllocator), StuckStar g →
    allocateGroupRe goRegexp fuel g = .error Fault.outOfFuel := by
  intro fuel
  induction fuel with
  | zero => intro g _; rfl
  | succ f ih =>
    intro g hg
    obtain ⟨⟨k1, h1⟩, ⟨k3, h2⟩, h3, h4⟩ := hg
    obtain ⟨re1, hc1, hm1⟩ := goRegexp_star _ h3
    obtain ⟨re2, hc2, hm2⟩ := goRegexp_star _ (starBase_append _ h4)
    simp only [allocateGroupRe]
    apply allocateGroupBodyRe_single goRegexp (allocateGroupRe goRegexp f) g
      k1 keyStar "*" k3 keyStar "*" "*" "cards" "*" "*" "cards" Fault.outOfFuel re1 re2 h1 h2
      hc1 hm1 hc2 hm2
    apply ih
    refine ⟨⟨"cards", ?_⟩, ⟨"cards", ?_⟩, ?_, ?_⟩
    · simp [createSubGroup, GoMap.getD, GoMap.get?]
    · simp [createSubGroup, GoMap.getD, GoMap.get?]
    · simp only [createSubGroup]
      have := starBase_append _ (starBase_append _ h3)
      simpa [String.append_assoc] using this
    · simp only [createSubGroup]
      have := starBase_append _ (starBase_append _ h4)
      simpa [String.append_assoc] using this

/-- A node with the key `r/grp/*/*/cards`. -/
def nodeStar : NodeInfo := ⟨[("r/grp/*/*/cards", 4)], [], []⟩

/-- A container that requests one card under the group `*` of index `*`. -/
def contStar : ContainerInfo := ⟨[("r/grp/*/*/cards", 1)], none, []⟩

/-- The group that `containerFitsGroupConstraints` builds for `contStar` on
`nodeStar`. -/
def groupStar : GrpAllocator :=
  topLevelGroup scenarioEnv "c" contStar false nodeStar.Allocatable
    (setScoreFunc scenarioEnv nodeStar) [] [] [] true "r" "grp"

theorem groupStar_stuck (fuel : Nat) :
    allocateGroupRe goRegexp fuel groupStar = .error Fault.outOfFuel := by
  have hreq : groupStar.GrpRequiredResource = [(keyStar, keyStar)] := by decide
  have halloc : groupStar.GrpAllocResource = [("grp", [(keyStar, keyStar)])] := by decide
  cases fuel with
  | zero => rfl
  | succ f =>
    simp only [allocateGroupRe]
    apply allocateGroupBodyRe_single goRegexp (allocateGroupRe goRegexp f)
      groupStar keyStar keyStar "grp" keyStar keyStar "*" "*" "cards" "*" "*" "cards"
      Fault.outOfFuel (matchSubGroup "r/grp") (matchSubGroup "r/grp") hreq halloc
      (goRegexp_plain _ (by decide)) (by decide)
      (goRegexp_plain _ (by decide)) (by decide)
    apply allocateGroupRe_stuckStar
    refine ⟨⟨"cards", ?_⟩, ⟨"cards", ?_⟩, ?_, ?_⟩
    · simp [createSubGroup, GoMap.getD, GoMap.get?]
    · simp [createSubGroup, GoMap.getD, GoMap.get?]
    · exact ⟨2, by decide⟩
    · exact ⟨1, by decide⟩

/-! ## Names that hold an operator of the regular expressions -/

/-- The fault of a result that is not a value. -/
def faultOf {α : Type} (x : Except Fault α) : Option Fault :=
  match x with
  | .error e => some e
  | .ok _ => none

theorem eq_error_of_faultOf {α : Type} (x : Except Fault α) (e : Fault)
    (h : faultOf x = some e) : x = .error e := by
  cases x with
  | error e2 =>
    simp only [faultOf, Option.some.injEq] at h
    rw [h]
  | ok a => cases h

/-- A node with one allocatable quantity: the cards of the subgroup `y/5` of
the group `g/0`. -/
def nodeDot : NodeInfo := ⟨[("r/grp/g/0/y/5/cards", 4)], [], []⟩

/-- A container whose requirement lies in a group of index `.*`: the key
follows the groups `g/.*`, `x/1` and `y/2`. -/
def contDot : ContainerInfo := ⟨[("r/grp/g/.*/x/1/y/2/cards", 1)], none, []⟩

/-- The call of `containerFitsGroupConstraints` for `contDot` on `nodeDot`. -/
def fitDot : Except Fault ContainerFit :=
  containerFitsGroupConstraintsRe goRegexp scenarioEnv "c" contDot false nodeDot.Allocatable
    (setScoreFunc scenarioEnv nodeDot) [] [] [] true true

/-- The allocatable key `r/grp/g/0/y/5/cards` follows no path of three groups
named `g`, `x` and `y`. -/
theorem followPath_dot (ls : List String) (h : ls.length = 3) :
    followPath "r/grp" (List.zip ["g", "x", "y"] ls)
      "r/grp/g/0/y/5/cards" "r/grp/g/0/y/5/cards" = none := by
  match ls, h with
  | [l1, l2, l3], _ =>
    have m1 : matchSubGroup "r/grp" "r/grp/g/0/y/5/cards" = some ("g", "0", "y/5/cards") := by
      decide
    simp only [List.zip_cons_cons, followPath, m1]
    by_cases e : "0" = l1
    · subst e
      have m2 : matchSubGroup ("r/grp" ++ "/" ++ "g" ++ "/" ++ "0") "r/grp/g/0/y/5/cards" =
          some ("y", "5", "cards") := by decide
      simp only [m2, true_and, if_true]
      have ne : ¬ ("y" = "x" ∧ "5" = l2) := fun hh => absurd hh.1 (by decide)
      rw [if_neg ne]
    · rw [if_neg (fun hh => e hh.2)]

set_option maxRecDepth 100000 in
/-- Claim C6, failing input. The base of a subgroup is compiled as a regular
expression without `regexp.QuoteMeta`. The requirement `r/grp/g/.*/x/1/y/2/cards`
follows the groups `(g, .*)`, `(x, 1)`, `(y, 2)` from `DeviceGroupPrefix` and has
the leaf tail `cards`. In the subgroup `(g, .*)` the pattern of the base
`r/grp/g/.*` reads `.*` as any text: the key is filed under the subgroup
`(y, 2)`, the level `x/1` is lost. On a node whose one allocatable key is
`r/grp/g/0/y/5/cards` the search reports `found = true` and maps the requirement
to this key, which follows no path of groups named `g`, `x`, `y`. -/
theorem path_structure_lost :
    isValue fitDot = true ∧
    (okValue fitDot ⟨GrpAllocator.zero, contDot, false, [], 0⟩).found = true ∧
    (okValue fitDot ⟨GrpAllocator.zero, contDot, false, [], 0⟩).grp.AllocateFrom =
      [("r/grp/g/.*/x/1/y/2/cards", "r/grp/g/0/y/5/cards")] ∧
    IsGroupRequest scenarioEnv contDot "r/grp/g/.*/x/1/y/2/cards" ∧
    followPath scenarioEnv.DeviceGroupPrefix [("g", ".*"), ("x", "1"), ("y", "2")]
      "r/grp/g/.*/x/1/y/2/cards" "r/grp/g/.*/x/1/y/2/cards" = some "cards" ∧
    matchSubGroup (pathBase scenarioEnv.DeviceGroupPrefix [("g", ".*"), ("x", "1"), ("y", "2")])
      "r/grp/g/.*/x/1/y/2/cards" = none ∧
    (∀ ls : List String, ls.length = 3 →
      followPath "r/grp" (List.zip ([("g", ".*"), ("x", "1"), ("y", "2")].map Prod.fst) ls)
        "r/grp/g/0/y/5/cards" "r/grp/g/0/y/5/cards" = none) ∧
    (goRegexp "r/grp/g/.*").toOption.bind (fun re => re "r/grp/g/.*/x/1/y/2/cards") =
      some ("y", "2", "cards") :=
  ⟨by decide!, by decide!, by decide!, ⟨by decide!, by decide!⟩, by decide!, by decide!,
    followPath_dot, by decide!⟩

/-- A node with two allocatable quantities in the group `g/0`: the cards of the
subgroup `x/7` and the cards of the subgroup `y/5`. -/
def nodeSplit : NodeInfo :=
  ⟨[("r/grp/g/0/x/7/cards", 4), ("r/grp/g/0/y/5/cards", 4)], [], []⟩

/-- A container with two requirements in the subgroup `x/1` of the group of
index `.*`. -/
def contSplit : ContainerInfo :=
  ⟨[("r/grp/g/.*/x/1/cards", 1), ("r/grp/g/.*/x/1/y/2/cards", 1)], none, []⟩

/-- The call of `containerFitsGroupConstraints` for `contSplit` on `nodeSplit`. -/
def fitSplit : Except Fault ContainerFit :=
  containerFitsGroupConstraintsRe goRegexp scenarioEnv "c" contSplit false nodeSplit.Allocatable
    (setScoreFunc scenarioEnv nodeSplit) [] [] [] true true

theorem followPath_split (ls : List String) (h : ls.length = 2) :
    followPath "r/grp" (List.zip ["g", "x"] ls)
      "r/grp/g/0/y/5/cards" "r/grp/g/0/y/5/cards" = none := by
  match ls, h with
  | [l1, l2], _ =>
    have m1 : matchSubGroup "r/grp" "r/grp/g/0/y/5/cards" = some ("g", "0", "y/5/cards") := by
      decide
    simp only [List.zip_cons_cons, followPath, m1]
    by_cases e : "0" = l1
    · subst e
      have m2 : matchSubGroup ("r/grp" ++ "/" ++ "g" ++ "/" ++ "0") "r/grp/g/0/y/5/cards" =
          some ("y", "5", "cards") := by decide
      simp only [m2, true_and, if_true]
      have ne : ¬ ("y" = "x" ∧ "5" = l2) := fun hh => absurd hh.1 (by decide)
      rw [if_neg ne]
    · rw [if_neg (fun hh => e hh.2)]

set_option maxRecDepth 100000 in
/-- Claim C5, failing input. The base of a subgroup is compiled as a regular
expression without `regexp.QuoteMeta`. The requirements `r/grp/g/.*/x/1/cards`
and `r/grp/g/.*/x/1/y/2/cards` belong to one requirement subgroup: base
`r/grp/g/.*`, group name `x`, index `1`. The pattern of the base `r/grp/g/.*`
reads `.*` as any text and files the second key under the subgroup `(y, 2)`.
On a node with the allocatable keys `r/grp/g/0/x/7/cards` and
`r/grp/g/0/y/5/cards` the search reports `found = true`; it maps the first
requirement under the location `x/7` and the second under the location `y/5`,
which is no location of the group name `x`: no list of locations holds the
allocatable keys of the two members of the subgroup. -/
theorem subgroup_split :
    isValue fitSplit = true ∧
    (okValue fitSplit ⟨GrpAllocator.zero, contSplit, false, [], 0⟩).found = true ∧
    (okValue fitSplit ⟨GrpAllocator.zero, contSplit, false, [], 0⟩).grp.AllocateFrom =
      [("r/grp/g/.*/x/1/cards", "r/grp/g/0/x/7/cards"),
       ("r/grp/g/.*/x/1/y/2/cards", "r/grp/g/0/y/5/cards")] ∧
    matchSubGroup "r/grp/g/.*" "r/grp/g/.*/x/1/cards" = some ("x", "1", "cards") ∧
    matchSubGroup "r/grp/g/.*" "r/grp/g/.*/x/1/y/2/cards" = some ("x", "1", "y/2/cards") ∧
    matchSubGroup "r/grp/g/0" "r/grp/g/0/x/7/cards" = some ("x", "7", "cards") ∧
    matchSubGroup "r/grp/g/0" "r/grp/g/0/y/5/cards" = some ("y", "5", "cards") ∧
    ¬ ∃ ls : List String, ls.length = [("g", ".*"), ("x", "1")].length ∧
      ∀ e, IsGroupRequest scenarioEnv contSplit e →
        (followPath scenarioEnv.DeviceGroupPrefix [("g", ".*"), ("x", "1")] e e).isSome →
        ∃ a, (okValue fitSplit
            ⟨GrpAllocator.zero, contSplit, false, [], 0⟩).grp.AllocateFrom.get? e = some a ∧
          (followPath ("r" ++ "/" ++ "grp")
            (List.zip ([("g", ".*"), ("x", "1")].map Prod.fst) ls) a a).isSome := by
  refine ⟨by decide!, by decide!, by decide!, by decide!, by decide!, by decide!, by decide!, ?_⟩
  rintro ⟨ls, hl, hall⟩
  obtain ⟨a, ha, hp⟩ := hall "r/grp/g/.*/x/1/y/2/cards" ⟨by decide!, by decide!⟩ (by decide!)
  have haf : (okValue fitSplit
      ⟨GrpAllocator.zero, contSplit, false, [], 0⟩).grp.AllocateFrom.get?
        "r/grp/g/.*/x/1/y/2/cards" = some "r/grp/g/0/y/5/cards" := by decide!
  rw [haf] at ha
  simp only [Option.some.injEq] at ha
  subst ha
  have := followPath_split ls hl
  simp only [List.map_cons, List.map_nil] at hp
  have e : "r" ++ "/" ++ "grp" = "r/grp" := by decide
  rw [e, this] at hp
  cases hp

/-! A name with `*`, a name with `**`. -/

/-- A node with the key `r/grp/a**/0/cards`. -/
def nodeStars : NodeInfo := ⟨[("r/grp/a**/0/cards", 4)], [], []⟩

/-- A container that requests one card under the group `a**`. -/
def contStars : ContainerInfo := ⟨[("r/grp/a**/0/cards", 1)], none, []⟩

set_option maxRecDepth 100000 in
/-- Claim C37, failing input. The base of a subgroup is compiled as a regular
expression without `regexp.QuoteMeta`. For a requirement and an allocatable
quantity of key `r/grp/a|b/0/cards`, the subgroup of base `r/grp/a|b/0` compiles
to the alternation of `r/grp/a` and `b/0/(\S*?)/(\S*?)/(\S*)`: its first
alternative matches the key at its head with empty groups, so the key belongs
to a subgroup of empty name and empty index, whose base `r/grp/a|b/0//` matches
the key in the same way, and so on: `allocateGroup` calls itself without end,
whatever the depth allowed to the recursion. With the key `r/grp/*/*/cards` the
pattern of every base `r/grp/*/.../*` matches the key with the groups `*`, `*`,
`cards` again (the repetitions `/*` take nothing), and the search does not
return either. With the key `r/grp/a**/0/cards` the pattern of the base
`r/grp/a**/0` does not parse and `regexp.MustCompile` panics. -/
theorem allocateGroup_does_not_terminate :
    matchPrefix scenarioEnv.DeviceGroupPrefix = some ("r", "grp") ∧
    groupBar.GrpRequiredResource = [("r/grp/a|b/0/cards", "r/grp/a|b/0/cards")] ∧
    groupBar.GrpAllocResource = [("grp", [("r/grp/a|b/0/cards", "r/grp/a|b/0/cards")])] ∧
    (goRegexp "r/grp").toOption.bind (fun re => re "r/grp/a|b/0/cards") =
      some ("a|b", "0", "cards") ∧
    (goRegexp "r/grp/a|b/0").toOption.bind (fun re => re "r/grp/a|b/0/cards") =
      some ("", "", "") ∧
    (goRegexp "r/grp/a|b/0//").toOption.bind (fun re => re "r/grp/a|b/0/cards") =
      some ("", "", "") ∧
    (∀ fuel, allocateGroupRe goRegexp fuel groupBar = .error Fault.outOfFuel) ∧
    faultOf (containerFitsGroupConstraintsRe goRegexp scenarioEnv "c" contBar false
      nodeBar.Allocatable (setScoreFunc scenarioEnv nodeBar) [] [] [] true true) =
        some Fault.outOfFuel ∧
    (goRegexp "r/grp/*/*").toOption.bind (fun re => re "r/grp/*/*/cards") =
      some ("*", "*", "cards") ∧
    (goRegexp "r/grp/*/*/*/*").toOption.bind (fun re => re "r/grp/*/*/cards") =
      some ("*", "*", "cards") ∧
    (∀ fuel, allocateGroupRe goRegexp fuel groupStar = .error Fault.outOfFuel) ∧
    faultOf (containerFitsGroupConstraintsRe goRegexp scenarioEnv "c" contStar false
      nodeStar.Allocatable (setScoreFunc scenarioEnv nodeStar) [] [] [] true true) =
        some Fault.outOfFuel ∧
    faultOf (goRegexp "r/grp/a**/0") = some Fault.invalidPattern ∧
    faultOf (containerFitsGroupConstraintsRe goRegexp scenarioEnv "c" contStars false
      nodeStars.Allocatable (setScoreFunc scenarioEnv nodeStars) [] [] [] true true) =
        some Fault.invalidPattern := by
  exact ⟨by decide, by decide, by decide, by decide!, by decide!, by decide!, groupBar_stuck,
    by decide!, by decide!, by decide!, groupStar_stuck, by decide!, by decide!, by decide!⟩

/-! ## The search on names without operator -/

/-- On names without operator, subgroup cohesion holds of the search with the
compiled patterns: in every successful allocation, for every path
`p = [(g1, i1), ..., (gn, in)]` of subgroups below `DeviceGroupPrefix` there is
one list of locations `l1, ..., ln` such that every requirement key of the
subgroup at `p` is mapped by `AllocateFrom` to an allocatable key that follows
`(g1, l1), ..., (gn, ln)`. -/
theorem containerFitsRe_subgroup_cohesion (env : Env) (contName : String)
    (contReq : ContainerInfo) (initContainer : Bool) (allocatable : GoMap Int)
    (allocScorer : GoMap ResourceScoreFunc) (podResource nodeResource : GoMap Int)
    (usedGroups : GoMap Bool) (bPreferUsed bSetAllocateFrom : Bool) (r : ContainerFit)
    (gp gn : String)
    (hplain : PlainNames env contReq.DevRequests allocatable)
    (hempty : env.PrecheckedResource "" = true)
    (hunset : contReq.AllocateFrom = none)
    (hrun : containerFitsGroupConstraintsRe goRegexp env contName contReq initContainer
      allocatable allocScorer podResource nodeResource usedGroups bPreferUsed
      bSetAllocateFrom = .ok r)
    (hfit : r.found = true)
    (hbase : matchPrefix env.DeviceGroupPrefix = some (gp, gn)) :
    ∀ p : List (String × String), ∃ ls : List String, ls.length = p.length ∧
      ∀ e, IsGroupRequest env contReq e →
        (followPath env.DeviceGroupPrefix p e e).isSome →
        ∃ a, r.grp.AllocateFrom.get? e = some a ∧ IsGroupAllocatable env allocatable a ∧
          (followPath (gp ++ "/" ++ gn) (List.zip (p.map Prod.fst) ls) a a).isSome := by
  rw [containerFitsRe_plain env contName contReq initContainer allocatable allocScorer
    podResource nodeResource usedGroups bPreferUsed bSetAllocateFrom hplain] at hrun
  exact containerFits_subgroup_cohesion env contName contReq initContainer allocatable
    allocScorer podResource nodeResource usedGroups bPreferUsed bSetAllocateFrom r gp gn
    hempty hunset hrun hfit hbase

/-- On names without operator, the mapping of the search with the compiled
patterns preserves the path structure: a requirement key that follows the path
`(g1, i1), ..., (gn, in)` from `DeviceGroupPrefix` and is a leaf there, with the
leaf tail `t`, is mapped by `AllocateFrom` to an allocatable key that follows a
path `(g1, l1), ..., (gn, ln)` with the same group names and ends with the same
tail `t`. -/
theorem containerFitsRe_path_structure (env : Env) (contName : String)
    (contReq : ContainerInfo) (initContainer : Bool) (allocatable : GoMap Int)
    (allocScorer : GoMap ResourceScoreFunc) (podResource nodeResource : GoMap Int)
    (usedGroups : GoMap Bool) (bPreferUsed bSetAllocateFrom : Bool) (r : ContainerFit)
    (gp gn : String)
    (hplain : PlainNames env contReq.DevRequests allocatable)
    (hempty : env.PrecheckedResource "" = true)
    (hunset : contReq.AllocateFrom = none)
    (hrun : containerFitsGroupConstraintsRe goRegexp env contName contReq initContainer
      allocatable allocScorer podResource nodeResource usedGroups bPreferUsed
      bSetAllocateFrom = .ok r)
    (hfit : r.found = true)
    (hbase : matchPrefix env.DeviceGroupPrefix = some (gp, gn)) :
    ∀ e, IsGroupRequest env contReq e → ∀ (p : List (String × String)) (t : String),
      followPath env.DeviceGroupPrefix p e e = some t →
      matchSubGroup (pathBase env.DeviceGroupPrefix p) e = none →
      ∃ (ls : List String) (a : String), ls.length = p.length ∧
        r.grp.AllocateFrom.get? e = some a ∧ IsGroupAllocatable env allocatable a ∧
        followPath (gp ++ "/" ++ gn) (List.zip (p.map Prod.fst) ls) a a = some t := by
  rw [containerFitsRe_plain env contName contReq initContainer allocatable allocScorer
    podResource nodeResource usedGroups bPreferUsed bSetAllocateFrom hplain] at hrun
  exact containerFits_path_structure env contName contReq initContainer allocatable
    allocScorer podResource nodeResource usedGroups bPreferUsed bSetAllocateFrom r gp gn
    hempty hunset hrun hfit hbase

/-! ## Existence of a mapping and the verdict of the search, with the compiled patterns -/

/-- The call of `containerFitsGroupConstraints` on `nodeC4`. -/
def searchC4 : Except Fault ContainerFit :=
  containerFitsGroupConstraintsRe goRegexp scenarioEnv "c" contC4 false nodeC4.Allocatable
    (setScoreFunc scenarioEnv nodeC4) [] (initNodeResource nodeC4) [] true true

/-- The call of `containerFitsGroupConstraints` on `nodeC4b`. -/
def searchC4b : Except Fault ContainerFit :=
  containerFitsGroupConstraintsRe goRegexp scenarioEnv "c" contC4 false nodeC4b.Allocatable
    (setScoreFunc scenarioEnv nodeC4b) [] (initNodeResource nodeC4b) [] true true

set_option maxRecDepth 100000 in
/-- Claim C4, counterexample. On `nodeC4` (two gpus, of 8 and of 4 cards) the
mapping `mapC4` of the container `contC4` (a gpu with 4 cards, a gpu with 8
cards) respects the group structure and the capacities, and the search reports
`found = false`. The subgroup `A` is searched first and takes the gpu of 8
cards, where it leaves the most; the subgroup `B` then fits nowhere, and the
choice for `A` is not revised. No name of the example holds an operator of the
regular expressions. -/
theorem containerFits_search_incomplete :
    PlainNames scenarioEnv contC4.DevRequests nodeC4.Allocatable ∧
    isValue searchC4 = true ∧
    (okValue searchC4 ⟨GrpAllocator.zero, contC4, true, [], 0⟩).found = false ∧
    IsFeasibleMapping scenarioEnv contC4 nodeC4.Allocatable (initNodeResource nodeC4)
      "r" "grp" mapC4 :=
  ⟨⟨by decide, by decide, by decide⟩, by decide!, by decide!, mapC4_feasible⟩

/-- Claim C4, amended. The search is sound for the existence of a mapping, on
names without operator of the regular expressions: for a running container
whose `AllocateFrom` is unset, on a node whose prior usage is within its
allocatable quantities, with scorers that admit a request only if the prior
node usage plus the sum of the requests is within the capacity (running rule of
section 4.1), when the group prefix, the requirement keys and the allocatable
keys that are not prechecked hold no operator of the regular expressions,
whenever `containerFitsGroupConstraints` (the top call of `allocateGroup`, with
the patterns that `regexp.MustCompile` makes of the bases) reports
`found = true`, the `AllocateFrom` it returns is a mapping of the requirements
to allocatable keys that respects the group structure and the capacity of every
allocatable key. The keys of `DevRequests` and of `Allocatable` are distinct, as
in a Go map; the empty name is prechecked. -/
theorem containerFits_sound (env : Env) (contName : String) (contReq : ContainerInfo)
    (allocatable : GoMap Int) (allocScorer : GoMap ResourceScoreFunc)
    (podResource nodeResource : GoMap Int) (usedGroups : GoMap Bool)
    (bPreferUsed bSetAllocateFrom : Bool) (r : ContainerFit) (gp gn : String)
    (hplain : PlainNames env contReq.DevRequests allocatable)
    (hempty : env.PrecheckedResource "" = true)
    (hunset : contReq.AllocateFrom = none)
    (hrun : containerFitsGroupConstraintsRe goRegexp env contName contReq false allocatable
      allocScorer podResource nodeResource usedGroups bPreferUsed bSetAllocateFrom = .ok r)
    (hfit : r.found = true)
    (hbase : matchPrefix env.DeviceGroupPrefix = some (gp, gn))
    (hndA : allocatable.keys.Nodup) (hndR : contReq.DevRequests.keys.Nodup)
    (hprior : ∀ a, nodeResource.getD a 0 ≤ allocatable.getD a 0)
    (hcontract : ∀ k f, allocScorer.get? k = some f → ∀ c p n L,
      (f c p n L false).found = true → n + L.sum ≤ c) :
    IsFeasibleMapping env contReq allocatable nodeResource gp gn r.grp.AllocateFrom := by
  rw [containerFitsRe_plain env contName contReq false allocatable allocScorer
    podResource nodeResource usedGroups bPreferUsed bSetAllocateFrom hplain] at hrun
  exact containerFitsLit_sound env contName contReq allocatable allocScorer podResource
    nodeResource usedGroups bPreferUsed bSetAllocateFrom r gp gn hempty hunset hrun hfit hbase
    hndA hndR hprior hcontract

set_option maxRecDepth 100000 in
theorem containerFits_sound_witness :
    PlainNames scenarioEnv contC4.DevRequests nodeC4b.Allocatable ∧
    scenarioEnv.PrecheckedResource "" = true ∧
    contC4.AllocateFrom = none ∧
    isValue searchC4b = true ∧
    (okValue searchC4b ⟨GrpAllocator.zero, contC4, false, [], 0⟩).found = true ∧
    matchPrefix scenarioEnv.DeviceGroupPrefix = some ("r", "grp") ∧
    nodeC4b.Allocatable.keys.Nodup ∧ contC4.DevRequests.keys.Nodup ∧
    (okValue searchC4b ⟨GrpAllocator.zero, contC4, false, [], 0⟩).grp.AllocateFrom = mapC4 ∧
    IsFeasibleMapping scenarioEnv contC4 nodeC4b.Allocatable (initNodeResource nodeC4b)
      "r" "grp" (okValue searchC4b ⟨GrpAllocator.zero, contC4, false, [], 0⟩).grp.AllocateFrom :=
  ⟨⟨by decide, by decide, by decide⟩, by decide!, rfl, by decide!, by decide!, by decide!,
    by decide, by decide, by decide!,
    containerFits_sound scenarioEnv "c" contC4 nodeC4b.Allocatable
      (setScoreFunc scenarioEnv nodeC4b) [] (initNodeResource nodeC4b) [] true true
      (okValue searchC4b ⟨GrpAllocator.zero, contC4, false, [], 0⟩) "r" "grp"
      ⟨by decide, by decide, by decide⟩
      (by decide!) rfl (eq_ok_okValue searchC4b _ (by decide!)) (by decide!) (by decide!)
      (by decide) (by decide)
      (by
        intro a
        simp only [initNodeResource, nodeC4b, copyInto, GoMap.getD, GoMap.get?]
        split_ifs <;> simp)
      (scenario_running_contract nodeC4b)⟩

set_option maxRecDepth 100000 in
/-- The restriction to names without operator cannot be dropped from the
soundness of the search: for the requirement `r/grp/g/.*/x/1/y/2/cards` on the
node `nodeDot` the search reports `found = true`, and the `AllocateFrom` it
returns is no mapping that respects the group structure. -/
theorem containerFits_unsound_on_pattern :
    isValue fitDot = true ∧
    (okValue fitDot ⟨GrpAllocator.zero, contDot, false, [], 0⟩).found = true ∧
    ¬ IsFeasibleMapping scenarioEnv contDot nodeDot.Allocatable [] "r" "grp"
      (okValue fitDot ⟨GrpAllocator.zero, contDot, false, [], 0⟩).grp.AllocateFrom := by
  refine ⟨by decide!, by decide!, ?_⟩
  rintro ⟨-, -, h3, -⟩
  obtain ⟨ls, a, hl, ha, hp⟩ := h3 "r/grp/g/.*/x/1/y/2/cards" ⟨by decide!, by decide!⟩
    [("g", ".*"), ("x", "1"), ("y", "2")] "cards" (by decide!) (by decide!)
  have haf : (okValue fitDot
      ⟨GrpAllocator.zero, contDot, false, [], 0⟩).grp.AllocateFrom.get?
        "r/grp/g/.*/x/1/y/2/cards" = some "r/grp/g/0/y/5/cards" := by decide!
  rw [haf] at ha
  simp only [Option.some.injEq] at ha
  subst ha
  have := followPath_dot ls hl
  simp only [List.map_cons, List.map_nil] at hp
  have e : "r" ++ "/" ++ "grp" = "r/grp" := by decide
  rw [e, this] at hp
  cases hp

/-! ## A requirement that its one candidate location refuses, with the compiled patterns -/

set_option maxRecDepth 100000 in
/-- Claim C18, counterexample. Scenario S3 with the keys of scenario S1: the one
requirement, 8 cards of the gpu group `A`, has the one candidate location `0`,
whose counterpart key has the capacity 4 and no usage. The predicate returns
`fits = false` with two reasons: the aggregate reason of the subgroup
`r/grp/gpu/A` (requested 0, used 0, capacity 0), which `allocateSubGroups`
records, and then the reason of the leaf (requested 8, used 0, capacity 4). -/
theorem insufficient_capacity_two_reasons :
    ∃ fit, PodFitsGroupConstraintsRe goRegexp scenarioEnv nodeS3 podS3 true = .ok fit ∧
      fit.found = false ∧
      fit.predicateFails = [NewInsufficientResourceError "c/r/grp/gpu/A" 0 0 0,
        NewInsufficientResourceError "c/r/grp/gpu/A/cards" 8 0 4] :=
  ⟨okValue (PodFitsGroupConstraintsRe goRegexp scenarioEnv nodeS3 podS3 true) PodFit.zero,
    eq_ok_okValue _ _ (by decide!), by decide!, by decide!⟩

/-- A node with one gpu of 4 cards in the group `g+` of index `0`. -/
def nodePlus : NodeInfo := ⟨[("r/grp/g+/0/gpu/1/cards", 4)], [], []⟩

/-- A pod with one container that requests 8 cards of a gpu in the group `g+`. -/
def podPlus : PodInfo := ⟨[("c", ⟨[("r/grp/g+/A/gpu/0/cards", 8)], none, []⟩)], []⟩

set_option maxRecDepth 100000 in
/-- The restriction to names without operator cannot be dropped from the report
of an insufficient capacity. The requirement `r/grp/g+/A/gpu/0/cards` and the
allocatable key `r/grp/g+/0/gpu/1/cards` match as a chain of the two subgroups
`r/grp/g+/A` and `r/grp/g+/A/gpu/0`. The pattern of the base `r/grp/g+/A` reads
`g+` as a repetition of `g` and does not match the requirement: the predicate
finds no subgroup at the second level and returns one aggregate reason and the
reason of a leaf without counterpart (capacity 0). -/
theorem insufficient_capacity_on_pattern :
    singleChain ("r/grp/g+/A/gpu/0/cards".length + 1) scenarioEnv.DeviceGroupPrefix "r" "grp"
      "r/grp/g+/A/gpu/0/cards" "r/grp/g+/A/gpu/0/cards" "r/grp/g+/0/gpu/1/cards"
      "r/grp/g+/0/gpu/1/cards" = some ["r/grp/g+/A", "r/grp/g+/A/gpu/0"] ∧
    (goRegexp "r/grp/g+/A").toOption.bind (fun re => re "r/grp/g+/A/gpu/0/cards") = none ∧
    ∃ fit, PodFitsGroupConstraintsRe goRegexp scenarioEnv nodePlus podPlus true = .ok fit ∧
      fit.found = false ∧
      fit.predicateFails = [NewInsufficientResourceError "c/r/grp/g+/A" 0 0 0,
        NewInsufficientResourceError "c/r/grp/g+/A/gpu/0/cards" 8 0 0] :=
  ⟨by decide!, by decide!,
    okValue (PodFitsGroupConstraintsRe goRegexp scenarioEnv nodePlus podPlus true) PodFit.zero,
    eq_ok_okValue _ _ (by decide!), by decide!, by decide!⟩

/-- Claim C18, amended. Insufficient capacity report, on names without operator
of the regular expressions: for a single-container pod whose only requirement
`r` (request `q`, 8 in the scenario) has a single candidate location at every
level, whose counterpart key `a` has a capacity `cap < q` (4 in the scenario)
and no prior usage, with scorers that follow the running rule of section 4.1,
when the group prefix, `r` and `a` hold no operator of the regular expressions,
the predicate
(with the patterns that `regexp.MustCompile` makes of the bases) returns
`fits = false` and its reason list consists of one aggregate reason (requested
0, used 0, capacity 0) for each subgroup that encloses the requirement, the
outermost first, followed by one `InsufficientResource` reason carrying
`requested = q`, `used = 0`, `capacity = cap`. The subgroups are those of
`singleChain`, read to the depth that `searchFuel` gives to the search. -/
theorem podFits_insufficient_capacity (env : Env) (n : NodeInfo) (cname : String)
    (cont : ContainerInfo) (r a gp gn : String) (q cap : Int) (aggs : List String)
    (allocating : Bool)
    (hplain : Plain env.DeviceGroupPrefix) (hplainR : Plain r) (hplainA : Plain a)
    (hD : cont.DevRequests = [(r, q)]) (hAF : cont.AllocateFrom = none)
    (hN : n.Allocatable = [(a, cap)]) (hU : n.Used = [])
    (hpr : env.PrecheckedResource r = false) (hpa : env.PrecheckedResource a = false)
    (hpre : matchPrefix env.DeviceGroupPrefix = some (gp, gn))
    (hch : singleChain (r.length + 1) env.DeviceGroupPrefix gp gn r r a a = some aggs)
    (hc : ∀ k sel, ObeysRunningRule (env.SetScorer k sel))
    (hlt : cap < q) :
    ∃ fit, PodFitsGroupConstraintsRe goRegexp env n ⟨[(cname, cont)], []⟩ allocating =
        .ok fit ∧
      fit.found = false ∧
      fit.predicateFails =
        aggs.map (fun b => NewInsufficientResourceError (cname ++ "/" ++ b) 0 0 0) ++
          [NewInsufficientResourceError (cname ++ "/" ++ r) q 0 cap] := by
  rw [podFitsRe_plain env n ⟨[(cname, cont)], []⟩ allocating hplain
    (by
      intro kv hkv _
      rw [hN] at hkv
      simp only [List.mem_singleton] at hkv
      subst hkv
      exact hplainA)
    (by
      intro kv hkv x hx _
      simp only [List.mem_singleton] at hkv
      subst hkv
      simp only [hD, List.mem_singleton] at hx
      subst hx
      exact hplainR)
    (by
      intro kv hkv
      cases hkv)]
  exact podFitsLit_insufficient_capacity env n cname cont r a gp gn q cap aggs allocating
    hD hAF hN hU hpr hpa hpre hch hc hlt

set_option maxRecDepth 100000 in
theorem podFits_insufficient_capacity_witness :
    Plain scenarioEnv.DeviceGroupPrefix ∧ Plain "r/grp/gpu/A/cards" ∧
    Plain "r/grp/gpu/0/cards" ∧
    scenarioEnv.PrecheckedResource "r/grp/gpu/A/cards" = false ∧
    scenarioEnv.PrecheckedResource "r/grp/gpu/0/cards" = false ∧
    matchPrefix scenarioEnv.DeviceGroupPrefix = some ("r", "grp") ∧
    singleChain ("r/grp/gpu/A/cards".length + 1) scenarioEnv.DeviceGroupPrefix "r" "grp"
      "r/grp/gpu/A/cards" "r/grp/gpu/A/cards" "r/grp/gpu/0/cards" "r/grp/gpu/0/cards" =
        some ["r/grp/gpu/A"] ∧
    ((4 : Int) < 8) ∧
    ∃ fit, PodFitsGroupConstraintsRe goRegexp scenarioEnv nodeS3
        ⟨[("c", ⟨[("r/grp/gpu/A/cards", 8)], none, []⟩)], []⟩ true = .ok fit ∧
      fit.found = false ∧
      fit.predicateFails =
        ["r/grp/gpu/A"].map (fun b => NewInsufficientResourceError ("c" ++ "/" ++ b) 0 0 0) ++
          [NewInsufficientResourceError ("c" ++ "/" ++ "r/grp/gpu/A/cards") 8 0 4] :=
  ⟨by decide, by decide, by decide, by decide!, by decide!, by decide!, by decide!, by decide,
    podFits_insufficient_capacity scenarioEnv nodeS3 "c" ⟨[("r/grp/gpu/A/cards", 8)], none, []⟩
      "r/grp/gpu/A/cards" "r/grp/gpu/0/cards" "r" "grp" 8 4 ["r/grp/gpu/A"] true
      (by decide) (by decide) (by decide) rfl rfl rfl rfl
      (by decide!) (by decide!) (by decide!) (by decide!)
      (fun k sel => runningRule_of_contract _ (scenario_contract k sel)) (by decide)⟩

/-! ## The score as the program sums it -/

/-! The scores of the program are `float64` numbers: `findScoreAndUpdate` adds
the score of each allocatable key of the location to `grp.Score` in the order
in which `range` visits the map of the location, which Go leaves unspecified,
and every addition rounds. The functions of the search above compute with
exact rationals; `scoreLoopF64` and `findScoreAndUpdateF64` round as the
program does. -/

/-- The integer part of the binary logarithm of `n`, for `n ≥ 1`; the first
argument bounds the recursion. -/
def log2Fuel : Nat → Nat → Nat
  | 0, _ => 0
  | f + 1, n => if n < 2 then 0 else log2Fuel f (n / 2) + 1

/-- The integer nearest to `N / D`, the even one of the two when `N / D` is
halfway between two integers. -/
def roundDivEven (N D : Nat) : Nat :=
  if 2 * (N % D) < D then N / D
  else if D < 2 * (N % D) then N / D + 1
  else if (N / D) % 2 = 0 then N / D
  else N / D + 1

/-- The `float64` number nearest to the positive rational `n / d` (rounding to
nearest, ties to even, the rounding of the arithmetic of Go), for a rational in
the range of the normal numbers: the significand has 53 bits. -/
def roundPosF64 (n d : Nat) : ℚ :=
  let e0 : Int := (log2Fuel n n : Int) - (log2Fuel d d : Int)
  let below : Bool :=
    if 0 ≤ e0 then decide (n < d * 2 ^ e0.toNat) else decide (n * 2 ^ (-e0).toNat < d)
  let e : Int := if below then e0 - 1 else e0
  let sh : Int := e - 52
  if 0 ≤ sh then
    ((roundDivEven n (d * 2 ^ sh.toNat) * 2 ^ sh.toNat : Nat) : ℚ)
  else
    ((roundDivEven (n * 2 ^ (-sh).toNat) d : Nat) : ℚ) / ((2 ^ (-sh).toNat : Nat) : ℚ)

/-- The `float64` number nearest to the rational `q`, in the range of the
normal numbers. -/
def roundF64 (q : ℚ) : ℚ :=
  if q = 0 then 0
  else if 0 < q then roundPosF64 q.num.natAbs q.den
  else - roundPosF64 q.num.natAbs q.den

/-- The addition of two `float64` numbers. -/
def addF64 (a b : ℚ) : ℚ := roundF64 (a + b)

/-- The division of two `float64` numbers. -/
def divF64 (a b : ℚ) : ℚ := roundF64 (a / b)

/-- The second loop of `findScoreAndUpdate` with the arithmetic of `float64`:
the score that the scorer returns is a `float64` number, and `grp.Score += scoreR`
rounds. The location is visited in the order of the list. -/
def scoreLoopF64 (requestedResource : GoMap (List Int)) :
    GoMap String → GrpAllocator → Bool → List PredicateFailureReason → AllocResult
  | [], grp, found, predicateFails => .ok (grp, found, predicateFails)
  | (_, key) :: rest, grp, found, predicateFails =>
    let allocatable := grp.AllocResource.getD key 0
    let usedPod := grp.PodResource.getD key 0
    let usedNode := grp.NodeResource.getD key 0
    match grp.AllocScorer.get? key with
    | none => .error Fault.nilScorer
    | some scoreFn =>
      let r := scoreFn allocatable usedPod usedNode (requestedResource.getD key [])
        grp.InitContainer
      if !r.found then
        scoreLoopF64 requestedResource rest grp false
          (predicateFails ++ [NewInsufficientResourceError key r.totalRequest usedNode allocatable])
      else
        scoreLoopF64 requestedResource rest
          { grp with
            Score := addF64 grp.Score (roundF64 r.score)
            PodResource := grp.PodResource.set key r.podR
            NodeResource := grp.NodeResource.set key r.nodeR }
          found predicateFails

/-- The method `findScoreAndUpdate` with the arithmetic of `float64`. -/
def findScoreAndUpdateF64 (grp : GrpAllocator) (location : String) : AllocResult :=
  let (requestedResource, found, predicateFails) :=
    requestedResourceLoop grp grp.GrpRequiredResource [] true []
  let locRes := grp.GrpAllocResource.getD location []
  match scoreLoopF64 requestedResource locRes { grp with Score := 0 } found predicateFails with
  | .error e => .error e
  | .ok (grp1, found1, predicateFails1) =>
    .ok ({ grp1 with Score := divF64 grp1.Score (locRes.length : ℚ) }, found1, predicateFails1)

/-- A node with one gpu and three quantities of 10 units. -/
def nodeF64 : NodeInfo :=
  ⟨[("r/grp/gpu/0/a", 10), ("r/grp/gpu/0/b", 10), ("r/grp/gpu/0/c", 10)], [], []⟩

/-- A container that requests 9, 8 and 7 units of the three quantities of a gpu,
with the `AllocateFrom` that the search fills on `nodeF64`. -/
def contF64 : ContainerInfo :=
  ⟨[("r/grp/gpu/A/a", 9), ("r/grp/gpu/A/b", 8), ("r/grp/gpu/A/c", 7)],
    some [("r/grp/gpu/A/a", "r/grp/gpu/0/a"), ("r/grp/gpu/A/b", "r/grp/gpu/0/b"),
      ("r/grp/gpu/A/c", "r/grp/gpu/0/c")], []⟩

/-- The group that `containerFitsGroupConstraints` scores for `contF64` on
`nodeF64`; `range` visits the allocatable keys of the location in the order
`a`, `b`, `c`. -/
def groupF64 : GrpAllocator :=
  { topLevelGroup scenarioEnv "c" contF64 false nodeF64.Allocatable
      (setScoreFunc scenarioEnv nodeF64) [] [] [] true "r" "grp" with
    AllocateFrom := copyInto (contF64.AllocateFrom.getD []) [] }

/-- The same group; `range` visits the allocatable keys of the location in the
order `c`, `b`, `a`. -/
def groupF64Rev : GrpAllocator :=
  { groupF64 with GrpAllocResource :=
      groupF64.GrpAllocResource.map (fun lk => (lk.1, lk.2.reverse)) }

/-- The score of a result, 0 for a fault. -/
def scoreOf (x : AllocResult) : ℚ :=
  match x with
  | .error _ => 0
  | .ok r => r.1.Score

set_option maxRecDepth 1000000 in
/-- Claim C19, failing input. `findScoreAndUpdate` ranges over the map of the
location without sorting its keys (the sibling loops of `allocateGroup` and
of `allocateSubGroups` sort them with `SortedStringKeys`) and adds the
`float64` scores in the order of the visit. For the container `contF64` on the
node `nodeF64`, the three allocatable keys have the leftover scores 1/10, 2/10
and 3/10. With exact sums the score is 1/5 in every order. With the sums of the
program the score is 0.20000000000000004 when `range` visits the keys in the
order `a`, `b`, `c` and 0.19999999999999998 in the order `c`, `b`, `a`: two runs
on identical inputs return different scores. -/
theorem score_depends_on_range_order :
    (∀ lk ∈ List.zip groupF64.GrpAllocResource groupF64Rev.GrpAllocResource,
      lk.1.1 = lk.2.1 ∧ List.Perm lk.1.2 lk.2.2) ∧
    groupF64.GrpAllocResource.length = groupF64Rev.GrpAllocResource.length ∧
    isValue (findScoreAndUpdateF64 groupF64 "grp") = true ∧
    isValue (findScoreAndUpdateF64 groupF64Rev "grp") = true ∧
    scoreOf (findScoreAndUpdate groupF64 "grp") = 1 / 5 ∧
    scoreOf (findScoreAndUpdate groupF64Rev "grp") = 1 / 5 ∧
    scoreOf (findScoreAndUpdateF64 groupF64 "grp") =
      (7205759403792795 : ℚ) / 36028797018963968 ∧
    scoreOf (findScoreAndUpdateF64 groupF64Rev "grp") =
      (7205759403792793 : ℚ) / 36028797018963968 ∧
    scoreOf (findScoreAndUpdateF64 groupF64 "grp") ≠
      scoreOf (findScoreAndUpdateF64 groupF64Rev "grp") := by
  refine ⟨?_, by decide, by decide!, by decide!, by decide!, by decide!, by decide!, by decide!,
    by decide!⟩
  intro lk hlk
  have e : List.zip groupF64.GrpAllocResource groupF64Rev.GrpAllocResource =
      [(("grp", [("r/grp/gpu/0/a", "r/grp/gpu/0/a"), ("r/grp/gpu/0/b", "r/grp/gpu/0/b"),
          ("r/grp/gpu/0/c", "r/grp/gpu/0/c")]),
        ("grp", [("r/grp/gpu/0/c", "r/grp/gpu/0/c"), ("r/grp/gpu/0/b", "r/grp/gpu/0/b"),
          ("r/grp/gpu/0/a", "r/grp/gpu/0/a")]))] := by decide
  rw [e] at hlk
  simp only [List.mem_singleton] at hlk
  subst hlk
  exact ⟨rfl, (List.reverse_perm _).symm⟩

/-- The container `contF64` before the search fills its `AllocateFrom`. -/
def contF64Unset : ContainerInfo := { contF64 with AllocateFrom := none }

/-- The first call of `containerFitsGroupConstraints`, which runs the search and
fills `AllocateFrom`. -/
def fitF64First : Except Fault ContainerFit :=
  containerFitsGroupConstraintsRe goRegexp scenarioEnv "c" contF64Unset false
    nodeF64.Allocatable (setScoreFunc scenarioEnv nodeF64) [] [] [] true true

/-- The second call of `containerFitsGroupConstraints`, on the container that
the first call filled. -/
def fitF64Second : Except Fault ContainerFit :=
  containerFitsGroupConstraintsRe goRegexp scenarioEnv "c" contF64 false
    nodeF64.Allocatable (setScoreFunc scenarioEnv nodeF64) [] [] [] true true

set_option maxRecDepth 1000000 in
/-- Claim C34, failing input. The first call of the predicate on the container
`contF64Unset` and the node `nodeF64` fits and fills `AllocateFrom`: the
container is then `contF64`. The second call scores the container with one call
of `findScoreAndUpdate` on the group `groupF64`, which adds the `float64` scores
of the three allocatable keys in the order in which `range` visits the map of
the location. With exact sums the two calls return the score 1/5. With the sums
of the program, whatever the score `s` that the first call returned, the second
call returns another score in one of the orders `a`, `b`, `c` and `c`, `b`, `a`
of the visit. -/
theorem rescore_differs_in_some_order (s : ℚ) :
    isValue fitF64First = true ∧
    (okValue fitF64First ContainerFit.zero).found = true ∧
    (okValue fitF64First ContainerFit.zero).contReq.DevRequests = contF64.DevRequests ∧
    (okValue fitF64First ContainerFit.zero).contReq.AllocateFrom = contF64.AllocateFrom ∧
    (okValue fitF64First ContainerFit.zero).score = 1 / 5 ∧
    isValue fitF64Second = true ∧
    (okValue fitF64Second ContainerFit.zero).found = true ∧
    (okValue fitF64Second ContainerFit.zero).score =
      scoreOf (findScoreAndUpdate groupF64 "grp") ∧
    scoreOf (findScoreAndUpdate groupF64 "grp") = 1 / 5 ∧
    (scoreOf (findScoreAndUpdateF64 groupF64 "grp") ≠ s ∨
      scoreOf (findScoreAndUpdateF64 groupF64Rev "grp") ≠ s) := by
  refine ⟨by decide!, by decide!, by decide!, by decide!, by decide!, by decide!, by decide!,
    by decide!, by decide!, ?_⟩
  have h : scoreOf (findScoreAndUpdateF64 groupF64 "grp") ≠
      scoreOf (findScoreAndUpdateF64 groupF64Rev "grp") := by decide!
  by_cases e : scoreOf (findScoreAndUpdateF64 groupF64 "grp") = s
  · right
    intro e2
    exact h (e.trans e2.symm)
  · left
    exact e

end KubeDevice
